import Mathlib

/-!
MeshKernel: the mesh store and its administration pipeline.

A shallow embedding of `meshkernel::Mesh` (`src/src/MeshKernel/Mesh.cpp`).

Conventions of the embedding.

* `std::vector<T>` is `List T`.  An element read `v[i]` is `vecGet v i d`, an element write
  `v[i] = a` is `v.set i a`; both are total (a read past the end yields the stated default, a
  write past the end changes nothing).  The theorems below state the range conditions under which
  the C++ accesses are defined.
* `size_t` values are natural numbers; `sizetMissingValue` is the largest `size_t`.  Where the
  source subtracts on `size_t`, the embedding reduces modulo `2 ^ 64`.
* `double` coordinates are exact rationals.
* A C++ exception is an `Except.error`.
* Free functions of `Operations.hpp`, of `<cmath>` and constants of `Constants.hpp` that the mesh
  calls are collected in the record `Operations`; the mesh code is parametric in it.
-/

namespace meshkernel

/-- The element read `v[i]` of a vector; `d` stands for the content of memory past the end. -/
def vecGet {α : Type} (v : List α) (i : Nat) (d : α) : α := v.getD i d

/-! ## Entities -/

/-- Modelled from the spec: `Constants.hpp` is not part of the sources; the sentinel for a missing
coordinate ("a large negative `doubleMissingValue`"). -/
def doubleMissingValue : ℚ := -999

/-- Modelled from the spec: `Constants.hpp` is not part of the sources; the sentinel for a missing
node or edge index ("the maximum unsigned integer"). -/
def sizetMissingValue : Nat := 2 ^ 64 - 1

/-- Modelled from the spec: the fan-out cap of `nodeEdges` ("e.g. 16"). -/
def maximumNumberOfEdgesPerNode : Nat := 16

/-- Modelled from the spec: the longest face cycle ("e.g. 6"). -/
def maximumNumberOfEdgesPerFace : Nat := 6

/-- Modelled from the spec: `maximumNumberOfNodesPerFace` of `Constants.hpp`. -/
def maximumNumberOfNodesPerFace : Nat := 6

/-- The constant `numNodesInTriangle` of `Constants.hpp`. -/
def numNodesInTriangle : Nat := 3

/-- A point `(x, y)`. -/
structure Point where
  x : ℚ
  y : ℚ
deriving DecidableEq, Inhabited

/-- Modelled from the spec: `Point::IsValid` of `Entities.hpp`, "both components ≠ missing-value". -/
def Point.IsValid (p : Point) : Bool :=
  !(p.x == doubleMissingValue || p.y == doubleMissingValue)

/-- The point `{doubleMissingValue, doubleMissingValue}`. -/
def missingPoint : Point := ⟨doubleMissingValue, doubleMissingValue⟩

/-- An edge: the ordered pair `(first, second)` of node indices (`std::pair<size_t, size_t>`). -/
abbrev Edge := Nat × Nat

/-- The edge `{sizetMissingValue, sizetMissingValue}`. -/
def missingEdge : Edge := (sizetMissingValue, sizetMissingValue)

/-- The test `e.first == sizetMissingValue || e.second == sizetMissingValue`. -/
def edgeIsMissing (e : Edge) : Bool :=
  e.1 == sizetMissingValue || e.2 == sizetMissingValue

/-- Modelled from the spec: `OtherNodeOfEdge` of `Entities.hpp`, the endpoint of `edge` that is
not `node` (`other(e, n)`). -/
def OtherNodeOfEdge (edge : Edge) (node : Nat) : Nat :=
  if node = edge.1 then edge.2 else edge.1

/-- The projection tag of a mesh. -/
inductive Projection where
  | cartesian
  | spherical
  | sphericalAccurate
deriving DecidableEq, Inhabited

/-- The two administration options. -/
inductive AdministrationOptions where
  | AdministrateMeshEdges
  | AdministrateMeshEdgesAndFaces
deriving DecidableEq, Inhabited

/-- The exceptions the kernel raises. -/
inductive MeshError where
  | invalid_argument
  | AlgorithmError
deriving DecidableEq, Inhabited

/-- Subtraction on `size_t`. -/
def sizetSub (a b : Nat) : Nat := (a + 2 ^ 64 - b % 2 ^ 64) % 2 ^ 64

/-- The spatial index, by the payload it holds (`RTree::m_points`). -/
structure RTree where
  m_points : List (Point × Nat)
deriving DecidableEq, Inhabited

/-- Collects the valid points with their positions (the loop of `RTree::BuildTree`). -/
def RTree.collect : List Point → Nat → List (Point × Nat)
  | [], _ => []
  | p :: ps, n =>
    if p.x ≠ doubleMissingValue ∧ p.y ≠ doubleMissingValue then (p, n) :: RTree.collect ps (n + 1)
    else RTree.collect ps (n + 1)

/-- `RTree::BuildTree`. -/
def RTree.BuildTree (_t : RTree) (nodes : List Point) : RTree :=
  ⟨RTree.collect nodes 0⟩

/-- Modelled from the spec: `RTree::Empty` (defined outside the sources). -/
def RTree.Empty (t : RTree) : Bool := t.m_points.isEmpty

/-! ## The mesh store -/

/-- The state of a `meshkernel::Mesh` that administration reads and writes. -/
structure Mesh where
  m_nodes : List Point
  m_edges : List Edge
  m_projection : Projection
  m_numNodes : Nat
  m_numEdges : Nat
  m_numFaces : Nat
  m_nodesEdges : List (List Nat)
  m_nodesNumEdges : List Nat
  m_nodesTypes : List Int
  m_edgesNumFaces : List Nat
  m_edgesFaces : List (List Nat)
  m_facesNodes : List (List Nat)
  m_facesEdges : List (List Nat)
  m_numFacesNodes : List Nat
  m_faceArea : List ℚ
  m_facesMassCenters : List Point
  m_facesCircumcenters : List Point
  m_edgesCenters : List Point
  m_edgeAngles : List ℚ
  m_polygonNodesCache : List Point
  m_nodesRTree : RTree
  m_edgesRTree : RTree
  m_nodesRTreeRequiresUpdate : Bool
  m_edgesRTreeRequiresUpdate : Bool
  m_nodeMask : List Int
  m_edgeMask : List Int
deriving DecidableEq, Inhabited

/-- A mesh holding the given nodes and edges and nothing else: the state in which the constructor
`Mesh(edges, nodes, projection, administration)` calls `Administrate`. -/
def Mesh.ofNodesEdges (nodes : List Point) (edges : List Edge) (projection : Projection) : Mesh :=
  { m_nodes := nodes, m_edges := edges, m_projection := projection,
    m_numNodes := 0, m_numEdges := 0, m_numFaces := 0,
    m_nodesEdges := [], m_nodesNumEdges := [], m_nodesTypes := [],
    m_edgesNumFaces := [], m_edgesFaces := [], m_facesNodes := [], m_facesEdges := [],
    m_numFacesNodes := [], m_faceArea := [], m_facesMassCenters := [],
    m_facesCircumcenters := [], m_edgesCenters := [], m_edgeAngles := [],
    m_polygonNodesCache := [], m_nodesRTree := ⟨[]⟩, m_edgesRTree := ⟨[]⟩,
    m_nodesRTreeRequiresUpdate := false, m_edgesRTreeRequiresUpdate := false,
    m_nodeMask := [], m_edgeMask := [] }

/-- Modelled from the spec: `Mesh::GetNumNodes` of `Mesh.hpp`, the live node count. -/
def Mesh.GetNumNodes (m : Mesh) : Nat := m.m_numNodes

/-- Modelled from the spec: `Mesh::GetNumEdges` of `Mesh.hpp`, the live edge count. -/
def Mesh.GetNumEdges (m : Mesh) : Nat := m.m_numEdges

/-- Modelled from the spec: `Mesh::GetNumFaces` of `Mesh.hpp`, the face count. -/
def Mesh.GetNumFaces (m : Mesh) : Nat := m.m_numFaces

/-! ## Stage 1: `DeleteInvalidNodesAndEdges` -/

/-- Body of the loop "Mask nodes connected to valid edges" (lines 67-80): the state is
`(connectedNodes, numInvalidEdges)`. -/
def maskConnectedStep (s : List Bool × Nat) (edge : Edge) : List Bool × Nat :=
  let firstNode := edge.1
  let secondNode := edge.2
  if firstNode = sizetMissingValue ∨ secondNode = sizetMissingValue then
    (s.1, s.2 + 1)
  else
    ((s.1.set firstNode true).set secondNode true, s.2)

/-- Body of the loop "Count all invalid nodes" (lines 84-96): the state is
`(m_nodes, numInvalidNodes)`. -/
def invalidateStep (connectedNodes : List Bool) (s : List Point × Nat) (n : Nat) :
    List Point × Nat :=
  let nodes := if !(vecGet connectedNodes n false) then s.1.set n missingPoint else s.1
  if !(vecGet nodes n missingPoint).IsValid then (nodes, s.2 + 1) else (nodes, s.2)

/-- Body of the loop "Flag invalid nodes" (lines 110-117): the state is
`(validNodesIndices, validIndex)`. -/
def flagNodesStep (nodes : List Point) (s : List Nat × Nat) (n : Nat) : List Nat × Nat :=
  if (vecGet nodes n missingPoint).IsValid then (s.1.set n s.2, s.2 + 1) else s

/-- Body of the loop "Flag invalid edges" (lines 120-134). -/
def flagEdge (validNodesIndices : List Nat) (edge : Edge) : Edge :=
  let firstNode := edge.1
  let secondNode := edge.2
  if firstNode ≠ sizetMissingValue ∧ secondNode ≠ sizetMissingValue ∧
      vecGet validNodesIndices firstNode sizetMissingValue ≠ sizetMissingValue ∧
      vecGet validNodesIndices secondNode sizetMissingValue ≠ sizetMissingValue then
    (vecGet validNodesIndices firstNode sizetMissingValue,
      vecGet validNodesIndices secondNode sizetMissingValue)
  else
    missingEdge

/-- `Mesh::DeleteInvalidNodesAndEdges` (lines 60-145). -/
def Mesh.DeleteInvalidNodesAndEdges (m : Mesh) : Mesh :=
  let masked := m.m_edges.foldl maskConnectedStep (List.replicate m.m_nodes.length false, 0)
  let connectedNodes := masked.1
  let numInvalidEdges := masked.2
  let counted := (List.range m.m_nodes.length).foldl (invalidateStep connectedNodes) (m.m_nodes, 0)
  let nodes := counted.1
  let numInvalidNodes := counted.2
  if numInvalidEdges = 0 ∧ numInvalidNodes = 0 then
    { m with m_nodes := nodes, m_numNodes := nodes.length, m_numEdges := m.m_edges.length }
  else
    let validNodesIndices :=
      ((List.range nodes.length).foldl (flagNodesStep nodes)
        (List.replicate nodes.length sizetMissingValue, 0)).1
    let edges := m.m_edges.map (flagEdge validNodesIndices)
    let nodes := nodes.filter (fun n => n.IsValid)
    let edges := edges.filter (fun e => !edgeIsMissing e)
    { m with m_nodes := nodes, m_edges := edges, m_numNodes := nodes.length,
             m_numEdges := edges.length }

/-! ## Services the mesh calls -/

/-- The free functions of `Operations.hpp`, the `<cmath>` functions and the constants of
`Constants.hpp` that the administration pipeline calls.  None of them is part of the sources; the
mesh code is parametric in them. -/
structure Operations where
  /-- `GetDx(firstPoint, secondPoint, projection)`. -/
  GetDx : Point → Point → Projection → ℚ
  /-- `GetDy(firstPoint, secondPoint, projection)`. -/
  GetDy : Point → Point → Projection → ℚ
  /-- `atan2(y, x)` of `<cmath>`. -/
  atan2 : ℚ → ℚ → ℚ
  /-- `M_PI` of `<cmath>`. -/
  M_PI : ℚ
  /-- `minimumDeltaCoordinate` of `Constants.hpp`. -/
  minimumDeltaCoordinate : ℚ
  /-- `weightCircumCenter` of `Constants.hpp`. -/
  weightCircumCenter : ℚ
  /-- `FaceAreaAndCenterOfMass(polygon, projection, area, centerOfMass, isCounterClockWise)`:
  the three results. -/
  FaceAreaAndCenterOfMass : List Point → Projection → ℚ × Point × Bool
  /-- `NormalizedInnerProductTwoSegments(a, b, c, d, projection)`. -/
  NormalizedInnerProductTwoSegments : Point → Point → Point → Point → Projection → ℚ
  /-- `ComputeEdgeCenters(nodes, edges)`. -/
  ComputeEdgeCenters : List Point → List Edge → List Point
  /-- `CircumcenterOfTriangle(a, b, c, projection)`. -/
  CircumcenterOfTriangle : Point → Point → Point → Projection → Point
  /-- `NormalVector(a, b, insidePoint, projection)`. -/
  NormalVector : Point → Point → Point → Projection → Point
  /-- `AddIncrementToPoint(normal, increment, referencePoint, projection, point)`: the new value
  of `point`. -/
  AddIncrementToPoint : Point → ℚ → Point → Projection → Point → Point
  /-- `IsPointInPolygonNodes(point, polygon, projection)`. -/
  IsPointInPolygonNodes : Point → List Point → Projection → Bool
  /-- `AreSegmentsCrossing(p1, p2, q1, q2, adimensional, projection, ...)`: whether the segments
  cross, and the intersection. -/
  AreSegmentsCrossing : Point → Point → Point → Point → Bool → Projection → Bool × Point

/-- Modelled from the spec: `NextCircularForwardIndex` of `Operations.hpp`, the next position on
a ring of `size` entries. -/
def NextCircularForwardIndex (currentIndex size : Nat) : Nat :=
  if currentIndex + 1 ≥ size then 0 else currentIndex + 1

/-- Modelled from the spec: `DotProduct(dx1, dx2, dy1, dy2)`, "`dx·n_x + dy·n_y`". -/
def DotProduct (dx1 dx2 dy1 dy2 : ℚ) : ℚ := dx1 * dx2 + dy1 * dy2

/-- `std::vector::resize(n)` with value-initialised new elements. -/
def vecResize {α : Type} (v : List α) (n : Nat) (d : α) : List α :=
  v.take n ++ List.replicate (n - v.length) d

/-- `std::sort` of a vector under the comparison `less`: the source sorts at most
`maximumNumberOfEdgesPerNode` entries, for which the library runs an insertion sort. -/
def vecSort {α : Type} (less : α → α → Bool) (v : List α) : List α :=
  v.insertionSort (fun a b => less b a = false)

/-! ## Stage 3: `NodeAdministration` -/

/-- Lines 170-174 of `Administrate`: the node tables are sized and filled. -/
def Mesh.resetNodeTables (m : Mesh) : Mesh :=
  { m with
    m_nodesEdges := List.replicate m.m_nodes.length
      (List.replicate maximumNumberOfEdgesPerNode sizetMissingValue),
    m_nodesNumEdges := List.replicate m.m_nodes.length 0 }

/-- The search "for previously connected edges" (lines 472-481, 489-498): whether an edge already
recorded at `node` has `otherNode` as an endpoint. -/
def Mesh.alreadyAddedEdge (m : Mesh) (node otherNode : Nat) : Bool :=
  (List.range (vecGet m.m_nodesNumEdges node 0)).any (fun i =>
    let currentEdge := vecGet m.m_edges (vecGet (vecGet m.m_nodesEdges node []) i 0) missingEdge
    currentEdge.1 == otherNode || currentEdge.2 == otherNode)

/-- Lines 484-485 and 501-502: edge `e` is appended to the list of `node`. -/
def Mesh.addEdgeToNode (m : Mesh) (node e : Nat) : Mesh :=
  { m with
    m_nodesEdges := m.m_nodesEdges.set node
      ((vecGet m.m_nodesEdges node []).set (vecGet m.m_nodesNumEdges node 0) e),
    m_nodesNumEdges := m.m_nodesNumEdges.set node (vecGet m.m_nodesNumEdges node 0 + 1) }

/-- Body of the edge loop of `NodeAdministration` (lines 456-504). -/
def NodeAdministrationStep (m : Mesh) (e : Nat) : Mesh :=
  let firstNode := (vecGet m.m_edges e missingEdge).1
  let secondNode := (vecGet m.m_edges e missingEdge).2
  if firstNode = sizetMissingValue ∨ secondNode = sizetMissingValue then m
  else if vecGet m.m_nodesNumEdges firstNode 0 ≥ maximumNumberOfEdgesPerNode ∨
      vecGet m.m_nodesNumEdges secondNode 0 ≥ maximumNumberOfEdgesPerNode then m
  else
    let m1 := if !(m.alreadyAddedEdge firstNode secondNode) then m.addEdgeToNode firstNode e else m
    if !(m1.alreadyAddedEdge secondNode firstNode) then m1.addEdgeToNode secondNode e else m1

/-- Body of the loop "resize" of `NodeAdministration` (lines 507-510). -/
def resizeNodeEdgesStep (m : Mesh) (n : Nat) : Mesh :=
  { m with
    m_nodesEdges := m.m_nodesEdges.set n
      (vecResize (vecGet m.m_nodesEdges n []) (vecGet m.m_nodesNumEdges n 0) 0) }

/-- `Mesh::NodeAdministration` (lines 453-511). -/
def Mesh.NodeAdministration (m : Mesh) : Mesh :=
  let m1 := (List.range m.GetNumEdges).foldl NodeAdministrationStep m
  (List.range m1.GetNumNodes).foldl resizeNodeEdgesStep m1

/-! ## Stage 4: `SortEdgesInCounterClockWiseOrder` -/

/-- Body of the angle loop (lines 524-568): the state is `(phi0, m_edgeAngles)`. -/
def edgeAngleStep (ops : Operations) (m : Mesh) (node : Nat) (s : ℚ × List ℚ) (edgeIndex : Nat) :
    ℚ × List ℚ :=
  let edge := vecGet m.m_edges (vecGet (vecGet m.m_nodesEdges node []) edgeIndex 0) missingEdge
  if edge.1 = sizetMissingValue ∨ edge.2 = sizetMissingValue then s
  else
    let firstNode := if edge.2 = node then node else edge.1
    let secondNode := if edge.2 = node then edge.1 else edge.2
    let deltaX := ops.GetDx (vecGet m.m_nodes secondNode missingPoint)
      (vecGet m.m_nodes firstNode missingPoint) m.m_projection
    let deltaY := ops.GetDy (vecGet m.m_nodes secondNode missingPoint)
      (vecGet m.m_nodes firstNode missingPoint) m.m_projection
    let phi :=
      if |deltaX| < ops.minimumDeltaCoordinate ∧ |deltaY| < ops.minimumDeltaCoordinate then
        (if deltaY < 0 then -ops.M_PI / 2 else ops.M_PI / 2)
      else ops.atan2 deltaY deltaX
    let phi0 := if edgeIndex = 0 then phi else s.1
    let angle := phi - phi0
    let angle := if angle < 0 then angle + 2 * ops.M_PI else angle
    (phi0, s.2.set edgeIndex angle)

/-- The vector `m_edgeAngles` after the angle loop of `SortEdgesInCounterClockWiseOrder`. -/
def Mesh.edgeAngles (ops : Operations) (m : Mesh) (node : Nat) : List ℚ :=
  ((List.range (vecGet m.m_nodesNumEdges node 0)).foldl (edgeAngleStep ops m node)
    (0, List.replicate maximumNumberOfEdgesPerNode 0)).2

/-- `Mesh::SortEdgesInCounterClockWiseOrder` (lines 513-580). -/
def Mesh.SortEdgesInCounterClockWiseOrder (ops : Operations) (m : Mesh) (node : Nat) :
    Except MeshError Mesh :=
  if !(vecGet m.m_nodes node missingPoint).IsValid then .error .invalid_argument
  else
    let edgeAngles := m.edgeAngles ops node
    let numEdges := vecGet m.m_nodesNumEdges node 0
    let edgeNodeCopy := vecGet m.m_nodesEdges node []
    let indices := vecSort (fun i1 i2 => decide (vecGet edgeAngles i1 0 < vecGet edgeAngles i2 0))
      (List.range numEdges)
    let sorted := (List.range numEdges).foldl
      (fun l edgeIndex => l.set edgeIndex (vecGet edgeNodeCopy (vecGet indices edgeIndex 0) 0))
      edgeNodeCopy
    .ok { m with m_edgeAngles := edgeAngles, m_nodesEdges := m.m_nodesEdges.set node sorted }

/-! ## Stage 6: face discovery -/

/-- The two vectors `edges` and `nodes` that `FindFaces` hands to `FindFacesRecursive` by
reference.  (The three further scratch vectors `sortedEdgesFaces`, `sortedNodes`, `nodalValues` are
overwritten in full before they are read, and are local values here.) -/
structure FaceSearch where
  edges : List Nat
  nodes : List Nat
deriving DecidableEq, Inhabited

/-- The loops of lines 678-684 and 706-710: two neighbours of the sorted vector are equal. -/
def hasEqualNeighbours (sorted : List Nat) : Bool :=
  (List.range (sizetSub sorted.length 1)).any (fun n => vecGet sorted (n + 1) 0 == vecGet sorted n 0)

/-- Modelled from the spec: `Mesh::IsEdgeOnBoundary` of `Mesh.hpp`, "an edge with
`edgeNumFaces == 1` is a boundary edge". -/
def Mesh.IsEdgeOnBoundary (m : Mesh) (edge : Nat) : Bool :=
  vecGet m.m_edgesNumFaces edge 0 == 1

/-- Modelled from the spec: `Mesh::GetNumFaceEdges` of `Mesh.hpp`, the length of the cycle of a
face. -/
def Mesh.GetNumFaceEdges (m : Mesh) (faceIndex : Nat) : Nat :=
  vecGet m.m_numFacesNodes faceIndex 0

/-- Body of the loop "increase m_edgesNumFaces" (lines 733-738).  Both subtractions follow an
increment of their operand, so they do not wrap. -/
def increaseEdgeNumFaces (m : Mesh) (edge : Nat) : Mesh :=
  let numFace := vecGet m.m_edgesNumFaces edge 0 + 1
  { m with
    m_edgesNumFaces := m.m_edgesNumFaces.set edge numFace,
    m_edgesFaces := m.m_edgesFaces.set edge
      ((vecGet m.m_edgesFaces edge []).set (numFace - 1) (m.m_numFaces - 1)) }

/-- The closed ring of a node cycle (lines 715-720): the nodes followed by the first. -/
def Mesh.closedRing (m : Mesh) (nodes : List Nat) : List Point :=
  let nodalValues := nodes.map (fun node => vecGet m.m_nodes node missingPoint)
  nodalValues ++ [vecGet nodalValues 0 missingPoint]

/-- The branch "enclosure found" of `FindFacesRecursive` (lines 675-746). -/
def Mesh.encloseFace (ops : Operations) (m : Mesh) (edges nodes : List Nat) : Mesh :=
  let sortedNodes := vecSort (fun a b => decide (a < b)) nodes
  if hasEqualNeighbours sortedNodes then m
  else
    let oneEdgeHasNoFace := edges.any (fun edge => vecGet m.m_edgesNumFaces edge 0 == 0)
    let sortedEdgesFaces := vecSort (fun a b => decide (a < b))
      (edges.map (fun edge => vecGet (vecGet m.m_edgesFaces edge []) 0 0))
    if !oneEdgeHasNoFace && hasEqualNeighbours sortedEdgesFaces then m
    else
      let r := ops.FaceAreaAndCenterOfMass (m.closedRing nodes) m.m_projection
      let area := r.1
      let centerOfMass := r.2.1
      let isCounterClockWise := r.2.2
      if !isCounterClockWise then m
      else
        let m1 := edges.foldl increaseEdgeNumFaces { m with m_numFaces := m.m_numFaces + 1 }
        { m1 with
          m_facesNodes := m1.m_facesNodes ++ [nodes],
          m_facesEdges := m1.m_facesEdges ++ [edges],
          m_faceArea := m1.m_faceArea ++ [area],
          m_facesMassCenters := m1.m_facesMassCenters ++ [centerOfMass] }

/-- Lines 749-772 of `FindFacesRecursive`: the edge that follows `previousEdge` around
`otherNode`. -/
def Mesh.nextEdge (m : Mesh) (otherNode previousEdge : Nat) : Nat :=
  let numEdges := vecGet m.m_nodesNumEdges otherNode 0
  let found := ((List.range numEdges).find?
    (fun e => vecGet (vecGet m.m_nodesEdges otherNode []) e 0 == previousEdge)).getD 0
  let edgeIndexOtherNode :=
    if found = 0 then sizetSub numEdges 1
    else if found > numEdges then sizetSub (sizetSub found numEdges) 1
    else sizetSub found 1
  vecGet (vecGet m.m_nodesEdges otherNode []) edgeIndexOtherNode 0

/-- `Mesh::FindFacesRecursive` (lines 645-774).  The first argument bounds the depth of the
recursion; `FindFaces` passes `numClosingEdges + 1`, which is never used up because the call at
`index = numClosingEdges` returns at once. -/
def Mesh.FindFacesRecursive (ops : Operations) (startingNode numClosingEdges : Nat) :
    Nat → Nat → Nat → Nat → Mesh × FaceSearch → Except MeshError (Mesh × FaceSearch)
  | 0, _, _, _, s => .ok s
  | fuel + 1, node, index, previousEdge, s =>
    if index ≥ numClosingEdges then .ok s
    else if edgeIsMissing (vecGet s.1.m_edges previousEdge missingEdge) then
      .error .invalid_argument
    else if vecGet s.1.m_edgesNumFaces previousEdge 0 ≥ 2 then .ok s
    else
      let edges := s.2.edges.set index previousEdge
      let nodes := s.2.nodes.set index node
      let otherNode := OtherNodeOfEdge (vecGet s.1.m_edges previousEdge missingEdge) node
      if otherNode = startingNode ∧ index = sizetSub edges.length 1 then
        .ok (s.1.encloseFace ops edges nodes, ⟨edges, nodes⟩)
      else
        Mesh.FindFacesRecursive ops startingNode numClosingEdges fuel otherNode (index + 1)
          (s.1.nextEdge otherNode previousEdge) (s.1, ⟨edges, nodes⟩)

/-- Body of the edge loop of `FindFaces` (lines 793-796). -/
def findFacesEdgeStep (ops : Operations) (numEdgesPerFace n : Nat) (s : Mesh × FaceSearch)
    (e : Nat) : Except MeshError (Mesh × FaceSearch) :=
  Mesh.FindFacesRecursive ops n numEdgesPerFace (numEdgesPerFace + 1) n 0
    (vecGet (vecGet s.1.m_nodesEdges n []) e 0) s

/-- Body of the node loop of `FindFaces` (lines 786-797). -/
def findFacesNodeStep (ops : Operations) (numEdgesPerFace : Nat) (s : Mesh × FaceSearch)
    (n : Nat) : Except MeshError (Mesh × FaceSearch) :=
  if !(vecGet s.1.m_nodes n missingPoint).IsValid then .ok s
  else
    (List.range (vecGet s.1.m_nodesNumEdges n 0)).foldlM (findFacesEdgeStep ops numEdgesPerFace n) s

/-- Body of the outer loop of `FindFaces` (lines 778-798). -/
def findFacesSizeStep (ops : Operations) (m : Mesh) (numEdgesPerFace : Nat) :
    Except MeshError Mesh :=
  match (List.range m.GetNumNodes).foldlM (findFacesNodeStep ops numEdgesPerFace)
      (m, ⟨List.replicate numEdgesPerFace 0, List.replicate numEdgesPerFace 0⟩) with
  | .error err => .error err
  | .ok s => .ok s.1

/-- `Mesh::FindFaces` (lines 776-805). -/
def Mesh.FindFaces (ops : Operations) (m : Mesh) : Except MeshError Mesh :=
  match (List.range' 3 (maximumNumberOfEdgesPerFace + 1 - 3)).foldlM (findFacesSizeStep ops) m with
  | .error err => .error err
  | .ok m1 =>
    .ok { m1 with
      m_numFacesNodes :=
        (List.range m1.m_numFaces).map (fun f => (vecGet m1.m_facesNodes f []).length) }

/-! ## Stage 7: geometry per face -/

/-- Sum of two points. -/
def Point.add (a b : Point) : Point := ⟨a.x + b.x, a.y + b.y⟩

/-- A point scaled by a factor. -/
def Point.scale (a : Point) (c : ℚ) : Point := ⟨a.x * c, a.y * c⟩

/-- `Mesh::ComputeFaceClosedPolygon` (lines 1323-1333). -/
def Mesh.ComputeFaceClosedPolygon (m : Mesh) (faceIndex : Nat) : List Point :=
  let polygon := (List.range (m.GetNumFaceEdges faceIndex)).map (fun n =>
    vecGet m.m_nodes (vecGet (vecGet m.m_facesNodes faceIndex []) n 0) missingPoint)
  polygon ++ [vecGet polygon 0 missingPoint]

/-- One sweep over the interior edges (lines 1868-1874). -/
def circumcenterSweep (ops : Operations) (projection : Projection) (centerOfMass : Point)
    (middlePoints normals : List Point) (estimatedCircumCenter : Point) : Point :=
  (List.range middlePoints.length).foldl (fun est n =>
    let dx := ops.GetDx (vecGet middlePoints n missingPoint) est projection
    let dy := ops.GetDy (vecGet middlePoints n missingPoint) est projection
    let normal := vecGet normals n missingPoint
    let increment := -(1 / 10 : ℚ) * DotProduct dx normal.x dy normal.y
    ops.AddIncrementToPoint normal increment centerOfMass projection est) estimatedCircumCenter

/-- The iteration of lines 1865-1882: `remaining` iterations are left, `iter` is the loop counter.
The result is the converged estimate, if the loop leaves by its `break`. -/
def circumcenterIterate (ops : Operations) (projection : Projection) (eps : ℚ)
    (centerOfMass : Point) (middlePoints normals : List Point) :
    Nat → Nat → Point → Option Point
  | 0, _, _ => none
  | remaining + 1, iter, estimatedCircumCenter =>
    let previousCircumCenter := estimatedCircumCenter
    let est := circumcenterSweep ops projection centerOfMass middlePoints normals
      estimatedCircumCenter
    if iter > 0 ∧ |est.x - previousCircumCenter.x| < eps ∧ |est.y - previousCircumCenter.y| < eps
    then some est
    else circumcenterIterate ops projection eps centerOfMass middlePoints normals remaining
      (iter + 1) est

/-- Lines 1827-1833 of `ComputeFaceCircumenter`: the mean of the first `numNodes` points of the
polygon. -/
def polygonCenterOfMass (polygon : List Point) (numNodes : Nat) : Point :=
  let sum := (List.range numNodes).foldl
    (fun c n => Point.add c (vecGet polygon n missingPoint)) ⟨0, 0⟩
  ⟨sum.x / numNodes, sum.y / numNodes⟩

/-- Lines 1835-1886 of `ComputeFaceCircumenter`: the value of `result` before the test against
the polygon. -/
def Mesh.circumcenterEstimate (ops : Operations) (m : Mesh) (polygon : List Point)
    (edgesNumFaces : List Nat) (numNodes : Nat) (centerOfMass : Point) : Point :=
  let maximumNumberCircumcenterIterations := 100
  let eps : ℚ := if m.m_projection = Projection.cartesian then 1 / 1000 else 9 / 10000000000
  if numNodes = numNodesInTriangle then
    ops.CircumcenterOfTriangle (vecGet polygon 0 missingPoint) (vecGet polygon 1 missingPoint)
      (vecGet polygon 2 missingPoint) m.m_projection
  else if !edgesNumFaces.isEmpty then
    let numValidEdges := (List.range numNodes).countP (fun n => vecGet edgesNumFaces n 0 == 2)
    if numValidEdges > 1 then
      let interior := (List.range numNodes).filter (fun n => vecGet edgesNumFaces n 0 == 2)
      let middlePoints := interior.map (fun n =>
        Point.scale (Point.add (vecGet polygon n missingPoint)
          (vecGet polygon (NextCircularForwardIndex n numNodes) missingPoint)) (1 / 2))
      let normals := interior.map (fun n =>
        ops.NormalVector (vecGet polygon n missingPoint)
          (vecGet polygon (NextCircularForwardIndex n numNodes) missingPoint)
          (Point.scale (Point.add (vecGet polygon n missingPoint)
            (vecGet polygon (NextCircularForwardIndex n numNodes) missingPoint)) (1 / 2))
          m.m_projection)
      (circumcenterIterate ops m.m_projection eps centerOfMass middlePoints normals
        maximumNumberCircumcenterIterations 0 centerOfMass).getD centerOfMass
    else centerOfMass
  else centerOfMass

/-- Lines 1888-1892 of `ComputeFaceCircumenter`: the first `numNodes` points of the polygon are
moved towards the center of mass by the weight `weightCircumCenter`. -/
def weightedPolygon (ops : Operations) (polygon : List Point) (numNodes : Nat)
    (centerOfMass : Point) : List Point :=
  (List.range numNodes).foldl (fun poly n =>
    poly.set n
      ⟨ops.weightCircumCenter * (vecGet poly n missingPoint).x +
          (1 - ops.weightCircumCenter) * centerOfMass.x,
        ops.weightCircumCenter * (vecGet poly n missingPoint).y +
          (1 - ops.weightCircumCenter) * centerOfMass.y⟩) polygon

/-- `Mesh::ComputeFaceCircumenter` (lines 1816-1913): the circumcenter and the polygon as the
routine leaves it. -/
def Mesh.ComputeFaceCircumenter (ops : Operations) (m : Mesh) (polygon : List Point)
    (edgesNumFaces : List Nat) : Point × List Point :=
  let numNodes := sizetSub polygon.length 1
  let centerOfMass := polygonCenterOfMass polygon numNodes
  let result := m.circumcenterEstimate ops polygon edgesNumFaces numNodes centerOfMass
  let polygon := weightedPolygon ops polygon numNodes centerOfMass
  if ops.IsPointInPolygonNodes result polygon m.m_projection then (result, polygon)
  else
    let crossing := (List.range numNodes).find? (fun n =>
      (ops.AreSegmentsCrossing centerOfMass result (vecGet polygon n missingPoint)
        (vecGet polygon (NextCircularForwardIndex n numNodes) missingPoint) false
        m.m_projection).1)
    match crossing with
    | some n =>
      ((ops.AreSegmentsCrossing centerOfMass result (vecGet polygon n missingPoint)
        (vecGet polygon (NextCircularForwardIndex n numNodes) missingPoint) false
        m.m_projection).2, polygon)
    | none => (result, polygon)

/-- Body of the face loop of `ComputeFaceCircumcentersMassCentersAndAreas` (lines 815-852). -/
def faceGeometryStep (ops : Operations) (computeMassCenters : Bool) (m : Mesh) (f : Nat) : Mesh :=
  let polygon := m.ComputeFaceClosedPolygon f
  let m1 := { m with m_polygonNodesCache := polygon }
  let m2 :=
    if computeMassCenters then
      let r := ops.FaceAreaAndCenterOfMass polygon m1.m_projection
      { m1 with m_faceArea := m1.m_faceArea.set f r.1,
                m_facesMassCenters := m1.m_facesMassCenters.set f r.2.1 }
    else m1
  let numberOfFaceNodes := m2.GetNumFaceEdges f
  let numberOfInteriorEdges := (List.range numberOfFaceNodes).countP (fun n =>
    !(m2.IsEdgeOnBoundary (vecGet (vecGet m2.m_facesEdges f []) n 0)))
  if numberOfInteriorEdges = 0 then
    { m2 with
      m_facesCircumcenters :=
        m2.m_facesCircumcenters.set f (vecGet m2.m_facesMassCenters f missingPoint) }
  else
    let numEdgeFacesCache := (List.range numberOfFaceNodes).map (fun n =>
      vecGet m2.m_edgesNumFaces (vecGet (vecGet m2.m_facesEdges f []) n 0) 0)
    let r := m2.ComputeFaceCircumenter ops polygon numEdgeFacesCache
    { m2 with m_polygonNodesCache := r.2,
              m_facesCircumcenters := m2.m_facesCircumcenters.set f r.1 }

/-- `Mesh::ComputeFaceCircumcentersMassCentersAndAreas` (lines 807-853). -/
def Mesh.ComputeFaceCircumcentersMassCentersAndAreas (ops : Operations) (m : Mesh)
    (computeMassCenters : Bool) : Mesh :=
  let m1 := { m with
    m_facesCircumcenters := vecResize m.m_facesCircumcenters m.GetNumFaces missingPoint,
    m_faceArea := vecResize m.m_faceArea m.GetNumFaces 0,
    m_facesMassCenters := vecResize m.m_facesMassCenters m.GetNumFaces missingPoint }
  (List.range m1.GetNumFaces).foldl (faceGeometryStep ops computeMassCenters) m1

/-! ## Stage 8: `ClassifyNodes` -/

/-- Body of the edge loop of `ClassifyNodes` (lines 860-885). -/
def classifyEdgeStep (m : Mesh) (e : Nat) : Mesh :=
  let firstNode := (vecGet m.m_edges e missingEdge).1
  let secondNode := (vecGet m.m_edges e missingEdge).2
  if firstNode = sizetMissingValue ∨ secondNode = sizetMissingValue then m
  else if vecGet m.m_nodesTypes firstNode 0 = -1 ∨ vecGet m.m_nodesTypes secondNode 0 = -1 then m
  else
    let m1 :=
      if vecGet m.m_edgesNumFaces e 0 = 0 then
        { m with m_nodesTypes := (m.m_nodesTypes.set firstNode (-1)).set secondNode (-1) }
      else m
    if m1.IsEdgeOnBoundary e then
      let t1 := m1.m_nodesTypes.set firstNode (vecGet m1.m_nodesTypes firstNode 0 + 1)
      { m1 with m_nodesTypes := t1.set secondNode (vecGet t1 secondNode 0 + 1) }
    else m1

/-- The search of lines 898-916 for the two boundary neighbours of node `n`: the state is
`(firstNode, secondNode, stopped)`. -/
def boundaryNeighboursStep (m : Mesh) (n : Nat) (s : Nat × Nat × Bool) (i : Nat) :
    Nat × Nat × Bool :=
  if s.2.2 then s
  else
    let edgeIndex := vecGet (vecGet m.m_nodesEdges n []) i 0
    if !(m.IsEdgeOnBoundary edgeIndex) then s
    else if s.1 = 0 then
      (OtherNodeOfEdge (vecGet m.m_edges edgeIndex missingEdge) n, s.2.1, false)
    else
      (s.1, OtherNodeOfEdge (vecGet m.m_edges edgeIndex missingEdge) n, true)

/-- Body of the node loop of `ClassifyNodes` (lines 887-949). -/
def classifyNodeStep (ops : Operations) (m : Mesh) (n : Nat) : Mesh :=
  let t := vecGet m.m_nodesTypes n 0
  let m1 :=
    if t = 1 ∨ t = 2 then
      if vecGet m.m_nodesNumEdges n 0 = 2 then
        { m with m_nodesTypes := m.m_nodesTypes.set n 3 }
      else
        let found := (List.range (vecGet m.m_nodesNumEdges n 0)).foldl
          (boundaryNeighboursStep m n) (sizetMissingValue, sizetMissingValue, false)
        let firstNode := found.1
        let secondNode := found.2.1
        let m2 := { m with m_nodesTypes := m.m_nodesTypes.set n 2 }
        if firstNode ≠ sizetMissingValue ∧ secondNode ≠ sizetMissingValue then
          let cosPhi := ops.NormalizedInnerProductTwoSegments (vecGet m2.m_nodes n missingPoint)
            (vecGet m2.m_nodes firstNode missingPoint) (vecGet m2.m_nodes n missingPoint)
            (vecGet m2.m_nodes secondNode missingPoint) m2.m_projection
          let cornerCosine : ℚ := 1 / 4
          if cosPhi > -cornerCosine then { m2 with m_nodesTypes := m2.m_nodesTypes.set n 3 }
          else m2
        else m2
    else if t > 2 then { m with m_nodesTypes := m.m_nodesTypes.set n 3 }
    else if t ≠ -1 then { m with m_nodesTypes := m.m_nodesTypes.set n 1 }
    else m
  if vecGet m1.m_nodesNumEdges n 0 < 2 then
    { m1 with m_nodesTypes := m1.m_nodesTypes.set n (-1) }
  else m1

/-- `Mesh::ClassifyNodes` (lines 855-950). -/
def Mesh.ClassifyNodes (ops : Operations) (m : Mesh) : Mesh :=
  let m0 := { m with m_nodesTypes := List.replicate m.GetNumNodes 0 }
  let m1 := (List.range m0.GetNumEdges).foldl classifyEdgeStep m0
  (List.range m1.GetNumNodes).foldl (classifyNodeStep ops) m1

/-! ## `Administrate` -/

/-- `Mesh::ComputeEdgesCenters` (lines 1365-1368). -/
def Mesh.ComputeEdgesCenters (ops : Operations) (m : Mesh) : Mesh :=
  { m with m_edgesCenters := ops.ComputeEdgeCenters m.m_nodes m.m_edges }

/-- Lines 151-162 of `Administrate`: the two spatial indices are rebuilt when they are stale and
in use. -/
def Mesh.refreshTrees (ops : Operations) (m : Mesh) : Mesh :=
  let m1 :=
    if m.m_nodesRTreeRequiresUpdate && !m.m_nodesRTree.Empty then
      { m with m_nodesRTree := m.m_nodesRTree.BuildTree m.m_nodes,
               m_nodesRTreeRequiresUpdate := false }
    else m
  if m1.m_edgesRTreeRequiresUpdate && !m1.m_edgesRTree.Empty then
    let m2 := m1.ComputeEdgesCenters ops
    { m2 with m_edgesRTree := m2.m_edgesRTree.BuildTree m2.m_edgesCenters,
              m_edgesRTreeRequiresUpdate := false }
  else m1

/-- Lines 189-207 of `Administrate`: the face tables are emptied. -/
def Mesh.resetFaceTables (m : Mesh) : Mesh :=
  { m with
    m_numFaces := 0,
    m_edgesNumFaces := List.replicate m.m_edges.length 0,
    m_edgesFaces := List.replicate m.m_edges.length (List.replicate 2 sizetMissingValue),
    m_facesMassCenters := [],
    m_faceArea := [],
    m_facesNodes := [],
    m_facesEdges := [],
    m_facesCircumcenters := [] }

/-- The loop of lines 178-181: the edges around every node are sorted. -/
def Mesh.sortAllNodes (ops : Operations) (m : Mesh) : Except MeshError Mesh :=
  (List.range m.GetNumNodes).foldlM (fun m1 n => m1.SortEdgesInCounterClockWiseOrder ops n) m

/-- `Mesh::Administrate` (lines 147-217). -/
def Mesh.Administrate (ops : Operations) (m : Mesh) (administrationOption : AdministrationOptions) :
    Except MeshError Mesh :=
  let m1 := (m.DeleteInvalidNodesAndEdges).refreshTrees ops
  if m1.m_numNodes = 0 ∨ m1.m_numEdges = 0 then .ok m1
  else
    match (m1.resetNodeTables.NodeAdministration).sortAllNodes ops with
    | .error err => .error err
    | .ok m2 =>
      if administrationOption = AdministrationOptions.AdministrateMeshEdges then .ok m2
      else
        match m2.resetFaceTables.FindFaces ops with
        | .error err => .error err
        | .ok m3 =>
          .ok ((m3.ComputeFaceCircumcentersMassCentersAndAreas ops true).ClassifyNodes ops)

/-! ## The mutation operations

A mutation changes the mesh in place and may raise an exception; its value here is the state the
call leaves together with the exception it raises, if any. -/

/-- `static_cast<int>` of a `size_t`. -/
def sizetToInt (n : Nat) : Int := ((n + 2 ^ 31) % 2 ^ 32 : Nat) - 2 ^ 31

/-- `Mesh::DeleteEdge` (lines 1286-1297). -/
def Mesh.DeleteEdge (m : Mesh) (edgeIndex : Nat) : Mesh × Option MeshError :=
  if edgeIndex = sizetMissingValue then (m, some .invalid_argument)
  else
    ({ m with
      m_edges := m.m_edges.set edgeIndex missingEdge,
      m_edgesRTreeRequiresUpdate := true }, none)

/-- Body of the loop of `DeleteNode` (lines 1275-1279); nothing runs once `DeleteEdge` has
raised. -/
def deleteNodeStep (nodeIndex : Nat) (s : Mesh × Option MeshError) (e : Nat) :
    Mesh × Option MeshError :=
  match s.2 with
  | some _ => s
  | none => s.1.DeleteEdge (vecGet (vecGet s.1.m_nodesEdges nodeIndex []) e 0)

/-- `Mesh::DeleteNode` (lines 1268-1284).  The decrement follows the test
`nodeIndex < GetNumNodes()`, so it does not wrap. -/
def Mesh.DeleteNode (m : Mesh) (nodeIndex : Nat) : Mesh × Option MeshError :=
  if nodeIndex ≥ m.GetNumNodes then (m, some .invalid_argument)
  else
    let s := (List.range (vecGet m.m_nodesNumEdges nodeIndex 0)).foldl (deleteNodeStep nodeIndex)
      (m, none)
    match s.2 with
    | some err => (s.1, some err)
    | none =>
      ({ s.1 with
        m_nodes := s.1.m_nodes.set nodeIndex missingPoint,
        m_numNodes := s.1.m_numNodes - 1,
        m_nodesRTreeRequiresUpdate := true }, none)

/-- `Mesh::InsertNode` (lines 1247-1266): the state the call leaves and the index it returns. -/
def Mesh.InsertNode (m : Mesh) (newPoint : Point) : Mesh × Nat :=
  let newSize := m.GetNumNodes + 1
  let newNodeIndex := m.GetNumNodes
  ({ m with
    m_nodes := (vecResize m.m_nodes newSize missingPoint).set newNodeIndex newPoint,
    m_nodeMask := (vecResize m.m_nodeMask newSize 0).set newNodeIndex (sizetToInt newNodeIndex),
    m_nodesNumEdges := (vecResize m.m_nodesNumEdges newSize 0).set newNodeIndex 0,
    m_nodesEdges := vecResize m.m_nodesEdges newSize [],
    m_numNodes := m.m_numNodes + 1,
    m_nodesRTreeRequiresUpdate := true }, newNodeIndex)

/-- `Mesh::FindEdge` (lines 1406-1425). -/
def Mesh.FindEdge (m : Mesh) (firstNodeIndex secondNodeIndex : Nat) : Except MeshError Nat :=
  if firstNodeIndex = sizetMissingValue ∨ secondNodeIndex = sizetMissingValue then
    .error .invalid_argument
  else
    match (List.range (vecGet m.m_nodesNumEdges firstNodeIndex 0)).find? (fun n =>
        OtherNodeOfEdge
          (vecGet m.m_edges (vecGet (vecGet m.m_nodesEdges firstNodeIndex []) n 0) missingEdge)
          firstNodeIndex == secondNodeIndex) with
    | some n => .ok (vecGet (vecGet m.m_nodesEdges firstNodeIndex []) n 0)
    | none => .ok sizetMissingValue

/-- Body of the inner loop of `MergeTwoNodes` (lines 1168-1178): the edge at position `nn` of
`firstEdgeOtherNode` is invalidated when it leads to the second node. -/
def mergeInvalidateStep (firstEdgeOtherNode secondNodeIndex : Nat) (m : Mesh) (nn : Nat) : Mesh :=
  let secondEdgeIndex := vecGet (vecGet m.m_nodesEdges firstEdgeOtherNode []) nn 0
  let secondEdge := vecGet m.m_edges secondEdgeIndex missingEdge
  let secondNodeSecondEdge := OtherNodeOfEdge secondEdge firstEdgeOtherNode
  if secondNodeSecondEdge = secondNodeIndex then
    { m with m_edges := m.m_edges.set secondEdgeIndex missingEdge }
  else m

/-- Body of the loop "check if there is another edge starting at firstEdgeOtherNode and ending at
secondNode" of `MergeTwoNodes` (lines 1161-1180). -/
def mergeDuplicatesStep (firstNodeIndex secondNodeIndex : Nat) (m : Mesh) (n : Nat) : Mesh :=
  let firstEdgeIndex := vecGet (vecGet m.m_nodesEdges firstNodeIndex []) n 0
  let firstEdge := vecGet m.m_edges firstEdgeIndex missingEdge
  let firstEdgeOtherNode := OtherNodeOfEdge firstEdge firstNodeIndex
  if firstEdgeOtherNode ≠ sizetMissingValue ∧ firstEdgeOtherNode ≠ secondNodeIndex then
    (List.range (vecGet m.m_nodesNumEdges firstEdgeOtherNode 0)).foldl
      (mergeInvalidateStep firstEdgeOtherNode secondNodeIndex) m
  else m

/-- Body of the loop "add all valid edges starting at secondNode" of `MergeTwoNodes`
(lines 1185-1193): the state is `(secondNodeEdges, numSecondNodeEdges)`. -/
def mergeCollectStep (m : Mesh) (secondNodeIndex : Nat) (s : List Nat × Nat) (n : Nat) :
    List Nat × Nat :=
  let edgeIndex := vecGet (vecGet m.m_nodesEdges secondNodeIndex []) n 0
  if (vecGet m.m_edges edgeIndex missingEdge).1 ≠ sizetMissingValue then
    (s.1.set s.2 edgeIndex, s.2 + 1)
  else s

/-- Body of the loop "add all valid edges starting at firstNode are assigned to the second node"
of `MergeTwoNodes` (lines 1196-1212): the state is the mesh with
`(secondNodeEdges, numSecondNodeEdges)`. -/
def mergeReassignStep (firstNodeIndex secondNodeIndex : Nat) (s : Mesh × List Nat × Nat)
    (n : Nat) : Mesh × List Nat × Nat :=
  let edgeIndex := vecGet (vecGet s.1.m_nodesEdges firstNodeIndex []) n 0
  let edge := vecGet s.1.m_edges edgeIndex missingEdge
  if edge.1 ≠ sizetMissingValue then
    let edge1 : Edge := if edge.1 = firstNodeIndex then (secondNodeIndex, edge.2) else edge
    let edge2 : Edge := if edge1.2 = firstNodeIndex then (edge1.1, secondNodeIndex) else edge1
    ({ s.1 with m_edges := s.1.m_edges.set edgeIndex edge2 },
      s.2.1.set s.2.2 edgeIndex, s.2.2 + 1)
  else s

/-- `Mesh::MergeTwoNodes` (lines 1146-1225). -/
def Mesh.MergeTwoNodes (m : Mesh) (firstNodeIndex secondNodeIndex : Nat) :
    Mesh × Option MeshError :=
  if firstNodeIndex ≥ m.GetNumNodes ∨ secondNodeIndex ≥ m.GetNumNodes then
    (m, some .invalid_argument)
  else
    match m.FindEdge firstNodeIndex secondNodeIndex with
    | .error err => (m, some err)
    | .ok edgeIndex =>
      let m1 :=
        if edgeIndex ≠ sizetMissingValue then
          { m with m_edges := m.m_edges.set edgeIndex missingEdge }
        else m
      let m2 := (List.range (vecGet m1.m_nodesNumEdges firstNodeIndex 0)).foldl
        (mergeDuplicatesStep firstNodeIndex secondNodeIndex) m1
      let collected := (List.range (vecGet m2.m_nodesNumEdges secondNodeIndex 0)).foldl
        (mergeCollectStep m2 secondNodeIndex)
        (List.replicate maximumNumberOfEdgesPerNode sizetMissingValue, 0)
      let s := (List.range (vecGet m2.m_nodesNumEdges firstNodeIndex 0)).foldl
        (mergeReassignStep firstNodeIndex secondNodeIndex) (m2, collected)
      let m3 := s.1
      let secondNodeEdges := s.2.1
      let numSecondNodeEdges := s.2.2
      let m4 := { m3 with
        m_nodesEdges := m3.m_nodesEdges.set secondNodeIndex (secondNodeEdges.take numSecondNodeEdges),
        m_nodesNumEdges := m3.m_nodesNumEdges.set secondNodeIndex numSecondNodeEdges }
      ({ m4 with
        m_nodesEdges := m4.m_nodesEdges.set firstNodeIndex [],
        m_nodesNumEdges := m4.m_nodesNumEdges.set firstNodeIndex 0,
        m_nodes := m4.m_nodes.set firstNodeIndex missingPoint,
        m_nodesRTreeRequiresUpdate := true,
        m_edgesRTreeRequiresUpdate := true }, none)

/-! ## Further mutations and queries -/

/-- `Mesh::ConnectNodes` (lines 1227-1245): the state the call leaves, with the index it returns
or the exception that `FindEdge` raises. -/
def Mesh.ConnectNodes (m : Mesh) (startNode endNode : Nat) : Mesh × Except MeshError Nat :=
  match m.FindEdge startNode endNode with
  | .error err => (m, .error err)
  | .ok edgeIndex =>
    if edgeIndex ≠ sizetMissingValue then (m, .ok sizetMissingValue)
    else
      ({ m with
        m_edges := (vecResize m.m_edges (m.GetNumEdges + 1) (0, 0)).set m.GetNumEdges
          (startNode, endNode),
        m_numEdges := m.m_numEdges + 1,
        m_edgesRTreeRequiresUpdate := true }, .ok m.GetNumEdges)

/-- `Mesh::FindCommonNode` (lines 1382-1404). -/
def Mesh.FindCommonNode (m : Mesh) (firstEdgeIndex secondEdgeIndex : Nat) : Except MeshError Nat :=
  let firstEdgeFirstNode := (vecGet m.m_edges firstEdgeIndex missingEdge).1
  let firstEdgeEdgeSecondNode := (vecGet m.m_edges firstEdgeIndex missingEdge).2
  let secondEdgeFirstNode := (vecGet m.m_edges secondEdgeIndex missingEdge).1
  let secondEdgeSecondNode := (vecGet m.m_edges secondEdgeIndex missingEdge).2
  if firstEdgeFirstNode = sizetMissingValue ∨ firstEdgeEdgeSecondNode = sizetMissingValue ∨
      secondEdgeFirstNode = sizetMissingValue ∨ secondEdgeSecondNode = sizetMissingValue then
    .error .invalid_argument
  else if firstEdgeFirstNode = secondEdgeFirstNode ∨ firstEdgeFirstNode = secondEdgeSecondNode then
    .ok firstEdgeFirstNode
  else if firstEdgeEdgeSecondNode = secondEdgeFirstNode ∨
      firstEdgeEdgeSecondNode = secondEdgeSecondNode then
    .ok firstEdgeEdgeSecondNode
  else .ok sizetMissingValue

/-- Body of the loop of `GetHangingEdges` (lines 2579-2593). -/
def hangingEdgesStep (m : Mesh) (result : List Nat) (e : Nat) : List Nat :=
  let firstNode := (vecGet m.m_edges e missingEdge).1
  let secondNode := (vecGet m.m_edges e missingEdge).2
  if firstNode ≠ sizetMissingValue ∧ secondNode ≠ sizetMissingValue then
    if vecGet m.m_nodesNumEdges firstNode 0 > 1 ∧ vecGet m.m_nodesNumEdges secondNode 0 > 1 then
      result
    else result ++ [e]
  else result

/-- `Mesh::GetHangingEdges` (lines 2576-2596). -/
def Mesh.GetHangingEdges (m : Mesh) : List Nat :=
  (List.range m.GetNumEdges).foldl (hangingEdgesStep m) []

/-- Body of the loop of `GetOrthogonality` (lines 2135-2154). -/
def orthogonalityStep (ops : Operations) (m : Mesh) (result : List ℚ) (e : Nat) : List ℚ :=
  let firstNode := (vecGet m.m_edges e missingEdge).1
  let secondNode := (vecGet m.m_edges e missingEdge).2
  let val :=
    if firstNode ≠ sizetMissingValue ∧ secondNode ≠ sizetMissingValue ∧
        m.IsEdgeOnBoundary e = false then
      let v := ops.NormalizedInnerProductTwoSegments
        (vecGet m.m_nodes firstNode missingPoint) (vecGet m.m_nodes secondNode missingPoint)
        (vecGet m.m_facesCircumcenters (vecGet (vecGet m.m_edgesFaces e []) 0 0) missingPoint)
        (vecGet m.m_facesCircumcenters (vecGet (vecGet m.m_edgesFaces e []) 1 0) missingPoint)
        m.m_projection
      if v ≠ doubleMissingValue then |v| else v
    else doubleMissingValue
  result ++ [val]

/-- `Mesh::GetOrthogonality` (lines 2131-2156). -/
def Mesh.GetOrthogonality (ops : Operations) (m : Mesh) : List ℚ :=
  (List.range m.GetNumEdges).foldl (orthogonalityStep ops m) []

/-- Body of the loop of `GetSmoothness` (lines 2162-2185); `minimumCellArea` is a constant of
`Constants.hpp`. -/
def smoothnessStep (minimumCellArea : ℚ) (m : Mesh) (result : List ℚ) (e : Nat) : List ℚ :=
  let firstNode := (vecGet m.m_edges e missingEdge).1
  let secondNode := (vecGet m.m_edges e missingEdge).2
  let val :=
    if firstNode ≠ sizetMissingValue ∧ secondNode ≠ sizetMissingValue ∧
        m.IsEdgeOnBoundary e = false then
      let leftFace := vecGet (vecGet m.m_edgesFaces e []) 0 0
      let rightFace := vecGet (vecGet m.m_edgesFaces e []) 1 0
      let leftFaceArea := vecGet m.m_faceArea leftFace 0
      let rightFaceArea := vecGet m.m_faceArea rightFace 0
      let val1 :=
        if leftFaceArea < minimumCellArea ∨ rightFaceArea < minimumCellArea then
          rightFaceArea / leftFaceArea
        else doubleMissingValue
      if val1 < 1 then 1 / val1 else val1
    else doubleMissingValue
  result ++ [val]

/-- `Mesh::GetSmoothness` (lines 2158-2187). -/
def Mesh.GetSmoothness (minimumCellArea : ℚ) (m : Mesh) : List ℚ :=
  (List.range m.GetNumEdges).foldl (smoothnessStep minimumCellArea m) []

/-- The face indices at which the loops of `GetOrthogonality` (lines 2145-2146) and
`GetSmoothness` (lines 2170-2173) subscript `m_facesCircumcenters` and `m_faceArea`: for every
edge that passes the test of lines 2141 and 2168, the two entries of `m_edgesFaces[e]`. -/
def Mesh.faceSubscripts (m : Mesh) : List Nat :=
  (List.range m.GetNumEdges).flatMap (fun e =>
    if (vecGet m.m_edges e missingEdge).1 ≠ sizetMissingValue ∧
        (vecGet m.m_edges e missingEdge).2 ≠ sizetMissingValue ∧
        m.IsEdgeOnBoundary e = false then
      [vecGet (vecGet m.m_edgesFaces e []) 0 0, vecGet (vecGet m.m_edgesFaces e []) 1 0]
    else [])

/-- Lines 1736-1760 of `Mesh::operator+=`: the two vectors are resized, the nodes of `rhs` are
copied behind the nodes of the mesh and the edges of `rhs` behind its edges, each endpoint raised
by `GetNumNodes()` (an addition on `size_t`); `m_numNodes` and `m_numEdges` are not touched. -/
def Mesh.appendNodesAndEdges (m rhs : Mesh) : Mesh :=
  let rhsNumNodes := rhs.GetNumNodes
  let rhsNumEdges := rhs.GetNumEdges
  let m1 := { m with
    m_edges := vecResize m.m_edges (m.GetNumEdges + rhsNumEdges) (0, 0),
    m_nodes := vecResize m.m_nodes (m.GetNumNodes + rhsNumNodes) missingPoint }
  let m2 := (List.range' m1.GetNumNodes rhsNumNodes).foldl (fun (s : Mesh) n =>
    let index := sizetSub n s.GetNumNodes
    { s with m_nodes := s.m_nodes.set n (vecGet rhs.m_nodes index missingPoint) }) m1
  let m3 := (List.range' m2.GetNumEdges rhsNumEdges).foldl (fun (s : Mesh) e =>
    let index := sizetSub e s.GetNumEdges
    let first := ((vecGet rhs.m_edges index missingEdge).1 + s.GetNumNodes) % 2 ^ 64
    let second := ((vecGet rhs.m_edges index missingEdge).2 + s.GetNumNodes) % 2 ^ 64
    { s with m_edges := s.m_edges.set e (first, second) }) m2
  { m3 with m_nodesRTreeRequiresUpdate := true, m_edgesRTreeRequiresUpdate := true }

/-- `Mesh::operator+=` (lines 1730-1768): the state the call leaves and the exception it raises,
if any.  When `Administrate` raises, the state given is the one it was called on. -/
def Mesh.plusAssign (ops : Operations) (m rhs : Mesh) : Mesh × Option MeshError :=
  if m.m_projection ≠ rhs.m_projection ∨ rhs.GetNumNodes = 0 ∨ rhs.GetNumEdges = 0 then
    (m, some .invalid_argument)
  else
    match (m.appendNodesAndEdges rhs).Administrate ops
        AdministrationOptions.AdministrateMeshEdgesAndFaces with
    | .error err => (m.appendNodesAndEdges rhs, some err)
    | .ok m1 => ({ m1 with m_nodeMask := List.replicate m1.m_nodes.length 1 }, none)

/-! ### Operations that query a spatial index -/

/-- Modelled from the spec: the queries of `SpatialTrees::RTree`, declared in `SpatialTrees.hpp`
and defined outside the sources.  A query is given by the list of sample indices it leaves
(`GetQueryResultSize()` is its length, `GetQuerySampleIndex(j)` its entry `j`). -/
structure TreeQueries where
  /-- `NearestNeighbors(node)`. -/
  NearestNeighbors : RTree → Point → List Nat
  /-- `NearestNeighborsOnSquaredDistance(node, searchRadiusSquared)`. -/
  NearestNeighborsOnSquaredDistance : RTree → Point → ℚ → List Nat
  /-- `DeleteNode(position)`. -/
  DeleteNode : RTree → Nat → RTree
  /-- `mergingDistanceSquared` of `Constants.hpp`. -/
  mergingDistanceSquared : ℚ

/-- `Mesh::FindEdgeCloseToAPoint` (lines 1493-1516): the state the call leaves, with the index it
returns or the exception it raises. -/
def Mesh.FindEdgeCloseToAPoint (ops : Operations) (tq : TreeQueries) (m : Mesh) (point : Point) :
    Mesh × Except MeshError Nat :=
  if m.GetNumEdges = 0 then (m, .error .invalid_argument)
  else
    let m1 :=
      if m.m_edgesRTree.Empty then
        let m0 := m.ComputeEdgesCenters ops
        { m0 with m_edgesRTree := m0.m_edgesRTree.BuildTree m0.m_edgesCenters,
                  m_edgesRTreeRequiresUpdate := false }
      else m
    let query := tq.NearestNeighbors m1.m_edgesRTree point
    if query.length ≥ 1 then (m1, .ok (vecGet query 0 0))
    else (m1, .error .AlgorithmError)

/-- Body of the loop "first filter the nodes in polygon" of `MergeNodesInPolygon`
(lines 1107-1116): the state is `(filteredNodes, originalNodeIndices, index)`; the polygon
enters through `polygon.IsPointInPolygon(point, 0)`. -/
def filterNodesStep (inPolygon : Point → Bool) (m : Mesh) (s : List Point × List Nat × Nat)
    (i : Nat) : List Point × List Nat × Nat :=
  if inPolygon (vecGet m.m_nodes i missingPoint) then
    (s.1.set s.2.2 (vecGet m.m_nodes i missingPoint), s.2.1.set s.2.2 i, s.2.2 + 1)
  else s

/-- Body of the inner loop of `MergeNodesInPolygon` (lines 1131-1139) for entry `j` of the query
made for the filtered node `i`: the state is the mesh, the local tree and the exception raised so
far. -/
def mergeNeighbourStep (tq : TreeQueries) (originalNodeIndices query : List Nat) (i : Nat)
    (s : Mesh × RTree × Option MeshError) (j : Nat) : Mesh × RTree × Option MeshError :=
  match s.2.2 with
  | some _ => s
  | none =>
    let nodeIndexInFilteredNodes := vecGet query j 0
    if nodeIndexInFilteredNodes ≠ i then
      match s.1.MergeTwoNodes (vecGet originalNodeIndices i sizetMissingValue)
          (vecGet originalNodeIndices nodeIndexInFilteredNodes sizetMissingValue) with
      | (m1, some err) => (m1, s.2.1, some err)
      | (m1, none) => (m1, tq.DeleteNode s.2.1 i, none)
    else s

/-- Body of the loop "merge the closest nodes" of `MergeNodesInPolygon` (lines 1124-1141). -/
def mergeNodeStep (tq : TreeQueries) (filteredNodes : List Point) (originalNodeIndices : List Nat)
    (s : Mesh × RTree × Option MeshError) (i : Nat) : Mesh × RTree × Option MeshError :=
  match s.2.2 with
  | some _ => s
  | none =>
    let query := tq.NearestNeighborsOnSquaredDistance s.2.1 (vecGet filteredNodes i missingPoint)
      tq.mergingDistanceSquared
    if query.length > 1 then
      (List.range query.length).foldl (mergeNeighbourStep tq originalNodeIndices query i) s
    else s

/-- `Mesh::MergeNodesInPolygon` (lines 1101-1144): the state the call leaves and the exception it
raises, if any.  When `Administrate` raises, the state given is the one it was called on. -/
def Mesh.MergeNodesInPolygon (ops : Operations) (tq : TreeQueries) (inPolygon : Point → Bool)
    (m : Mesh) : Mesh × Option MeshError :=
  let filtered := (List.range m.GetNumNodes).foldl (filterNodesStep inPolygon m)
    (List.replicate m.GetNumNodes missingPoint, List.replicate m.GetNumNodes sizetMissingValue, 0)
  let filteredNodes := vecResize filtered.1 filtered.2.2 missingPoint
  let originalNodeIndices := filtered.2.1
  let nodesRtree := RTree.BuildTree ⟨[]⟩ filteredNodes
  let s := (List.range filteredNodes.length).foldl
    (mergeNodeStep tq filteredNodes originalNodeIndices) (m, nodesRtree, none)
  match s.2.2 with
  | some err => (s.1, some err)
  | none =>
    match s.1.Administrate ops AdministrationOptions.AdministrateMeshEdges with
    | .error err => (s.1, some err)
    | .ok m1 => (m1, none)

/-- The loop "first filter the nodes in polygon" of `MergeNodesInPolygon` (lines 1104-1117): the
nodes in the polygon (`filteredNodes`) and their indices in the mesh (`originalNodeIndices`). -/
def Mesh.filterNodesInPolygon (inPolygon : Point → Bool) (m : Mesh) : List Point × List Nat :=
  let filtered := (List.range m.GetNumNodes).foldl (filterNodesStep inPolygon m)
    (List.replicate m.GetNumNodes missingPoint, List.replicate m.GetNumNodes sizetMissingValue, 0)
  (vecResize filtered.1 filtered.2.2 missingPoint, filtered.2.1)

/-- The state of `MergeNodesInPolygon` when the loop "merge the closest nodes" (lines 1124-1141)
reaches the filtered node `i`: the mesh, the local tree and the exception raised so far. -/
def Mesh.mergeLoopAt (tq : TreeQueries) (inPolygon : Point → Bool) (m : Mesh) (i : Nat) :
    Mesh × RTree × Option MeshError :=
  (List.range i).foldl
    (mergeNodeStep tq (m.filterNodesInPolygon inPolygon).1 (m.filterNodesInPolygon inPolygon).2)
    (m, RTree.BuildTree ⟨[]⟩ (m.filterNodesInPolygon inPolygon).1, none)

/-- The query that `MergeNodesInPolygon` makes for the filtered node `i` (line 1126). -/
def Mesh.mergeQueryAt (tq : TreeQueries) (inPolygon : Point → Bool) (m : Mesh) (i : Nat) :
    List Nat :=
  tq.NearestNeighborsOnSquaredDistance (m.mergeLoopAt tq inPolygon i).2.1
    (vecGet (m.filterNodesInPolygon inPolygon).1 i missingPoint) tq.mergingDistanceSquared

/-- The state of `MergeNodesInPolygon` when the inner loop for the filtered node `i`
(lines 1131-1139) reaches the entry `j` of the query. -/
def Mesh.mergeLoopAtEntry (tq : TreeQueries) (inPolygon : Point → Bool) (m : Mesh) (i j : Nat) :
    Mesh × RTree × Option MeshError :=
  (List.range j).foldl
    (mergeNeighbourStep tq (m.filterNodesInPolygon inPolygon).2 (m.mergeQueryAt tq inPolygon i) i)
    (m.mergeLoopAt tq inPolygon i)

/-! ### Masks, the faces around a node and the boundary polygon -/

/-- Body of the loop "compute node mask from edge mask" of `ComputeNodeMaskFromEdgeMask`
(lines 1781-1797): the state is `m_nodeMask`. -/
def computeNodeMaskStep (m : Mesh) (nodeMask : List Int) (e : Nat) : List Int :=
  if vecGet m.m_edgeMask e 0 ≠ 1 then nodeMask
  else
    let firstNodeIndex := (vecGet m.m_edges e missingEdge).1
    let secondNodeIndex := (vecGet m.m_edges e missingEdge).2
    let nodeMask1 :=
      if firstNodeIndex ≠ sizetMissingValue then nodeMask.set firstNodeIndex 1 else nodeMask
    if secondNodeIndex ≠ sizetMissingValue then nodeMask1.set secondNodeIndex 1 else nodeMask1

/-- `Mesh::ComputeNodeMaskFromEdgeMask` (lines 1770-1798): the state the call leaves and the
exception it raises, if any. -/
def Mesh.ComputeNodeMaskFromEdgeMask (m : Mesh) : Mesh × Option MeshError :=
  if m.m_edgeMask.length ≠ m.GetNumEdges ∨ m.m_nodeMask.length ≠ m.GetNumNodes then
    (m, some .invalid_argument)
  else
    ({ m with
      m_nodeMask := (List.range m.GetNumEdges).foldl (computeNodeMaskStep m)
        (List.replicate m.m_nodeMask.length 0) }, none)

/-- Modelled from the spec: `NextCircularBackwardIndex` of `Operations.hpp`, the previous position
on a ring of `size` entries (a subtraction on `size_t`). -/
def NextCircularBackwardIndex (currentIndex size : Nat) : Nat :=
  if currentIndex = 0 then sizetSub size 1 else currentIndex - 1

/-- Body of the loop of `SortedFacesAroundNode` (lines 2420-2462). -/
def sortedFacesStep (m : Mesh) (node : Nat) (result : List Nat) (e : Nat) : List Nat :=
  let numEdges := vecGet m.m_nodesNumEdges node 0
  let firstEdge := vecGet (vecGet m.m_nodesEdges node []) e 0
  if vecGet m.m_edgesNumFaces firstEdge 0 = 0 then result
  else
    let ee := NextCircularForwardIndex e numEdges
    let secondEdge := vecGet (vecGet m.m_nodesEdges node []) ee 0
    let firstFace := vecGet (vecGet m.m_edgesFaces firstEdge []) 0 0
    let secondFace :=
      if vecGet m.m_edgesNumFaces firstEdge 0 > 1 then
        vecGet (vecGet m.m_edgesFaces firstEdge []) 1 0
      else sizetMissingValue
    let firstEdgeIndexInFirstFace := ((List.range (vecGet m.m_numFacesNodes firstFace 0)).find?
      (fun n => vecGet (vecGet m.m_facesEdges firstFace []) n 0 == firstEdge)).getD 0
    let secondEdgeindexInFirstFace :=
      NextCircularBackwardIndex firstEdgeIndexInFirstFace (vecGet m.m_numFacesNodes firstFace 0)
    if vecGet (vecGet m.m_facesEdges firstFace []) secondEdgeindexInFirstFace 0 = secondEdge then
      result ++ [firstFace]
    else result ++ [secondFace]

/-- `Mesh::SortedFacesAroundNode` (lines 2415-2465). -/
def Mesh.SortedFacesAroundNode (m : Mesh) (node : Nat) : List Nat :=
  (List.range (vecGet m.m_nodesNumEdges node 0)).foldl (sortedFacesStep m node) []

/-- Difference of two points. -/
def Point.sub (a b : Point) : Point := ⟨a.x - b.x, a.y - b.y⟩

/-- Body of the loop of `MakeDualFace` (lines 2353-2388): the entry `e` of `sortedFacesIndices`
is read for every `e` below `m_nodesNumEdges[node]`. -/
def dualFaceStep (m : Mesh) (node : Nat) (sortedFacesIndices : List Nat) (dualFace : List Point)
    (e : Nat) : List Point :=
  let edgeIndex := vecGet (vecGet m.m_nodesEdges node []) e 0
  let edgeCenter := vecGet m.m_edgesCenters edgeIndex missingPoint
  let firstNodeIndex := (vecGet m.m_edges edgeIndex missingEdge).1
  let secondNodeIndex := (vecGet m.m_edges edgeIndex missingEdge).2
  let diff := (vecGet m.m_nodes firstNodeIndex missingPoint).x -
    (vecGet m.m_nodes secondNodeIndex missingPoint).x
  let edgeCenter1 : Point :=
    if m.m_projection = Projection.spherical ∧ firstNodeIndex ≠ sizetMissingValue ∧
        secondNodeIndex ≠ sizetMissingValue ∧ diff > 180 then
      ⟨edgeCenter.x - 180, edgeCenter.y⟩
    else edgeCenter
  let edgeCenter2 : Point :=
    if m.m_projection = Projection.spherical ∧ firstNodeIndex ≠ sizetMissingValue ∧
        secondNodeIndex ≠ sizetMissingValue ∧ diff < -180 then
      ⟨edgeCenter1.x + 180, edgeCenter1.y⟩
    else edgeCenter1
  let faceIndex := vecGet sortedFacesIndices e 0
  if faceIndex ≠ sizetMissingValue then
    dualFace ++ [edgeCenter2, vecGet m.m_facesMassCenters faceIndex missingPoint]
  else dualFace ++ [edgeCenter2, vecGet m.m_nodes node missingPoint]

/-- `Mesh::MakeDualFace` (lines 2346-2413): the value it leaves in `dualFace`. -/
def Mesh.MakeDualFace (ops : Operations) (m : Mesh) (node : Nat) (enlargementFactor : ℚ) :
    List Point :=
  let sortedFacesIndices := m.SortedFacesAroundNode node
  let numEdges := vecGet m.m_nodesNumEdges node 0
  let dualFace0 := (List.range numEdges).foldl (dualFaceStep m node sortedFacesIndices) []
  let dualFace := dualFace0 ++ [vecGet dualFace0 0 missingPoint]
  let centerOfMass := (ops.FaceAreaAndCenterOfMass dualFace m.m_projection).2.1
  let centerOfMass1 : Point :=
    if m.m_projection = Projection.spherical ∧
        centerOfMass.x - (vecGet m.m_nodes node missingPoint).x > 180 then
      ⟨centerOfMass.x - 360, centerOfMass.y⟩
    else centerOfMass
  let centerOfMass2 : Point :=
    if m.m_projection = Projection.spherical ∧
        centerOfMass1.x - (vecGet m.m_nodes node missingPoint).x < 180 then
      ⟨centerOfMass1.x + 360, centerOfMass1.y⟩
    else centerOfMass1
  dualFace.map (fun v => Point.add centerOfMass2
    (Point.scale (Point.sub v centerOfMass2) enlargementFactor))

/-- `Mesh::WalkBoundaryFromNode` (lines 2541-2574).  The first argument bounds the number of
passes through the `while` loop that are left; the next two are the locals `e` and
`currentNodeInPolygon`; the state is `(isVisited, currentNode, meshBoundaryPolygon)`.  The value
is `none` when the bound is used up before the loop ends. -/
def Mesh.WalkBoundaryFromNode (ops : Operations) (m : Mesh) (polygonNodes : List Point) :
    Nat → Nat → Bool → List Bool × Nat × List Point → Option (List Bool × Nat × List Point)
  | 0, _, _, _ => none
  | fuel + 1, e, currentNodeInPolygon, s =>
    if e < vecGet m.m_nodesNumEdges s.2.1 0 then
      let inPolygon :=
        if !currentNodeInPolygon then
          ops.IsPointInPolygonNodes (vecGet m.m_nodes s.2.1 missingPoint) polygonNodes
            m.m_projection
        else currentNodeInPolygon
      if !inPolygon then some s
      else
        let currentEdge := vecGet (vecGet m.m_nodesEdges s.2.1 []) e 0
        if vecGet s.1 currentEdge false || !m.IsEdgeOnBoundary currentEdge then
          Mesh.WalkBoundaryFromNode ops m polygonNodes fuel (e + 1) inPolygon s
        else
          let currentNode := OtherNodeOfEdge (vecGet m.m_edges currentEdge missingEdge) s.2.1
          Mesh.WalkBoundaryFromNode ops m polygonNodes fuel 0 false
            (s.1.set currentEdge true, currentNode,
              s.2.2 ++ [vecGet m.m_nodes currentNode missingPoint])
    else some s

/-- The loop of lines 2525-2531 of `MeshBoundaryToPolygon`, which swaps points of the first tail.
`start` is `startPolygonEdges + ceil((numNodesFirstTail - startPolygonEdges + 1) * 0.5)`, and
`replaceIndex` is `numNodesFirstTail - n + firstNodeIndex` on `size_t`. -/
def reverseFirstTail (firstNodeIndex startPolygonEdges numNodesFirstTail : Nat)
    (meshBoundaryPolygon : List Point) : List Point :=
  let start := startPolygonEdges + (sizetSub numNodesFirstTail startPolygonEdges + 1 + 1) / 2
  (List.range' start (numNodesFirstTail - start)).foldl (fun poly n =>
    let backupPoint := vecGet poly n missingPoint
    let replaceIndex := (sizetSub numNodesFirstTail n + firstNodeIndex) % 2 ^ 64
    (poly.set n (vecGet poly replaceIndex missingPoint)).set replaceIndex backupPoint)
    meshBoundaryPolygon

/-- Body of the edge loop of `MeshBoundaryToPolygon` (lines 2477-2537): the state is
`(isVisited, meshBoundaryPolygon)`, or `none` once a walk has used up the bound `fuel`. -/
def meshBoundaryStep (ops : Operations) (m : Mesh) (polygonNodes : List Point) (fuel : Nat)
    (s : Option (List Bool × List Point)) (e : Nat) : Option (List Bool × List Point) :=
  match s with
  | none => none
  | some (isVisited, meshBoundaryPolygon) =>
    if vecGet isVisited e false || !m.IsEdgeOnBoundary e then some (isVisited, meshBoundaryPolygon)
    else
      let firstNodeIndex := (vecGet m.m_edges e missingEdge).1
      let secondNodeIndex := (vecGet m.m_edges e missingEdge).2
      let firstNode := vecGet m.m_nodes firstNodeIndex missingPoint
      let secondNode := vecGet m.m_nodes secondNodeIndex missingPoint
      let firstNodeInPolygon := ops.IsPointInPolygonNodes firstNode polygonNodes m.m_projection
      let secondNodeInPolygon := ops.IsPointInPolygonNodes secondNode polygonNodes m.m_projection
      if !firstNodeInPolygon && !secondNodeInPolygon then some (isVisited, meshBoundaryPolygon)
      else
        let polygon1 :=
          if !meshBoundaryPolygon.isEmpty then meshBoundaryPolygon ++ [missingPoint]
          else meshBoundaryPolygon
        let startPolygonEdges := polygon1.length
        let polygon2 := polygon1 ++ [firstNode, secondNode]
        match m.WalkBoundaryFromNode ops polygonNodes fuel 0 false
            (isVisited.set e true, secondNodeIndex, polygon2) with
        | none => none
        | some first =>
          let numNodesFirstTail := first.2.2.length
          match (if first.2.1 ≠ firstNodeIndex then
              m.WalkBoundaryFromNode ops polygonNodes fuel 0 false
                (first.1, firstNodeIndex, first.2.2)
            else some first) with
          | none => none
          | some second =>
            let polygon3 :=
              if second.2.2.length > numNodesFirstTail then
                reverseFirstTail firstNodeIndex startPolygonEdges numNodesFirstTail second.2.2
              else second.2.2
            some (second.1, polygon3 ++ [missingPoint])

/-- `Mesh::MeshBoundaryToPolygon` (lines 2467-2539): the administered mesh the call leaves and
the polygon it returns (`none` when a walk has used up the bound `fuel` on its loop), or the
exception that `Administrate` raises. -/
def Mesh.MeshBoundaryToPolygon (ops : Operations) (m : Mesh) (polygonNodes : List Point)
    (fuel : Nat) : Except MeshError (Mesh × Option (List Point)) :=
  match m.Administrate ops AdministrationOptions.AdministrateMeshEdgesAndFaces with
  | .error err => .error err
  | .ok m1 =>
    .ok (m1, ((List.range m1.GetNumEdges).foldl (meshBoundaryStep ops m1 polygonNodes fuel)
      (some (List.replicate m1.GetNumEdges false, []))).map (fun s => s.2))

/-! ### The mesh of a curvilinear grid -/

/-- Modelled from the spec: `CurvilinearGrid` (defined outside the sources), by its array of grid
points `m_grid`. -/
structure CurvilinearGrid where
  m_grid : List (List Point)
deriving DecidableEq, Inhabited

/-- Body of the first double loop of `Mesh(curvilinearGrid, projection)` (lines 233-240): the
state is `(nodes, indices, ind)`. -/
def gridNodeStep (curvilinearGrid : CurvilinearGrid) (m : Nat)
    (s : List Point × List (List Nat) × Nat) (n : Nat) : List Point × List (List Nat) × Nat :=
  if (vecGet (vecGet curvilinearGrid.m_grid m []) n missingPoint).IsValid then
    (s.1.set s.2.2 (vecGet (vecGet curvilinearGrid.m_grid m []) n missingPoint),
      s.2.1.set m ((vecGet s.2.1 m []).set n s.2.2), s.2.2 + 1)
  else s

/-- Body of the second double loop (lines 249-255), the edges along the first index: the state is
`(edges, ind)`. -/
def gridEdgeStepM (indices : List (List Nat)) (m : Nat) (s : List Edge × Nat) (n : Nat) :
    List Edge × Nat :=
  if vecGet (vecGet indices m []) n sizetMissingValue ≠ sizetMissingValue ∧
      vecGet (vecGet indices (m + 1) []) n sizetMissingValue ≠ sizetMissingValue then
    (s.1.set s.2 (vecGet (vecGet indices m []) n sizetMissingValue,
      vecGet (vecGet indices (m + 1) []) n sizetMissingValue), s.2 + 1)
  else s

/-- Body of the third double loop (lines 262-268), the edges along the second index. -/
def gridEdgeStepN (indices : List (List Nat)) (m : Nat) (s : List Edge × Nat) (n : Nat) :
    List Edge × Nat :=
  if vecGet (vecGet indices m []) n sizetMissingValue ≠ sizetMissingValue ∧
      vecGet (vecGet indices m []) (n + 1) sizetMissingValue ≠ sizetMissingValue then
    (s.1.set s.2 (vecGet (vecGet indices m []) n sizetMissingValue,
      vecGet (vecGet indices m []) (n + 1) sizetMissingValue), s.2 + 1)
  else s

/-- Lines 221-271 of `Mesh(curvilinearGrid, projection)`: the nodes and the edges that the
constructor hands to `Mesh(edges, nodes, projection, AdministrateMeshEdges)`.  The bounds
`size() - 1` are subtractions on `size_t`. -/
def curvilinearNodesAndEdges (curvilinearGrid : CurvilinearGrid) :
    Except MeshError (List Point × List Edge) :=
  if curvilinearGrid.m_grid.isEmpty then .error .invalid_argument
  else
    let sizeM := curvilinearGrid.m_grid.length
    let sizeN := (vecGet curvilinearGrid.m_grid 0 []).length
    let s1 := (List.range sizeM).foldl
      (fun s m => (List.range sizeN).foldl (gridNodeStep curvilinearGrid m) s)
      (List.replicate (sizeM * sizeN) missingPoint,
        List.replicate sizeM (List.replicate sizeN sizetMissingValue), 0)
    let nodes := vecResize s1.1 s1.2.2 missingPoint
    let indices := s1.2.1
    let e1 := (List.range (sizetSub sizeM 1)).foldl
      (fun s m => (List.range sizeN).foldl (gridEdgeStepM indices m) s)
      (List.replicate (sizeM * sizetSub sizeN 1 + sizetSub sizeM 1 * sizeN) ((0, 0) : Edge), 0)
    let e2 := (List.range sizeM).foldl
      (fun s m => (List.range (sizetSub sizeN 1)).foldl (gridEdgeStepN indices m) s) e1
    .ok (nodes, vecResize e2.1 e2.2 (0, 0))

/-- `Mesh(curvilinearGrid, projection)` (lines 219-277): the nodes and edges are handed to
`Mesh(edges, nodes, projection, AdministrateMeshEdges)` (lines 47-58), which administers them and
fills the node mask. -/
def Mesh.ofCurvilinearGrid (ops : Operations) (curvilinearGrid : CurvilinearGrid)
    (projection : Projection) : Except MeshError Mesh :=
  match curvilinearNodesAndEdges curvilinearGrid with
  | .error err => .error err
  | .ok (nodes, edges) =>
    match (Mesh.ofNodesEdges nodes edges projection).Administrate ops
        AdministrationOptions.AdministrateMeshEdges with
    | .error err => .error err
    | .ok m => .ok { m with m_nodeMask := List.replicate m.m_nodes.length 1 }

/-! ### The lift of a curvilinear grid in the words of the specification -/

/-- The grid is rectangular: every row has the length of the first row. -/
def CurvilinearGrid.IsRectangular (g : CurvilinearGrid) : Prop :=
  ∀ row ∈ g.m_grid, row.length = (vecGet g.m_grid 0 []).length

instance (g : CurvilinearGrid) : Decidable g.IsRectangular := by
  unfold CurvilinearGrid.IsRectangular; infer_instance

/-- The grid point at `(m, n)` is valid. -/
def CurvilinearGrid.isValidAt (g : CurvilinearGrid) (m n : Nat) : Bool :=
  (vecGet (vecGet g.m_grid m []) n missingPoint).IsValid

/-- The grid points that precede the position `(m, n)` in row-major order. -/
def CurvilinearGrid.pointsBefore (g : CurvilinearGrid) (m n : Nat) : List Point :=
  (g.m_grid.take m).flatten ++ (vecGet g.m_grid m []).take n

/-- The number of valid grid points that precede the position `(m, n)` in row-major order: the
place of a valid grid point `(m, n)` among the valid grid points. -/
def CurvilinearGrid.rank (g : CurvilinearGrid) (m n : Nat) : Nat :=
  (g.pointsBefore m n).countP Point.IsValid

/-- The valid grid points in row-major order. -/
def CurvilinearGrid.specNodes (g : CurvilinearGrid) : List Point :=
  g.m_grid.flatten.filter Point.IsValid

/-- The pairs of valid grid points adjacent along the first index, `(m, n)`-`(m + 1, n)`, in
row-major order. -/
def CurvilinearGrid.specEdgesFirst (g : CurvilinearGrid) : List Edge :=
  (List.range (g.m_grid.length - 1)).flatMap (fun m =>
    (List.range (vecGet g.m_grid 0 []).length).filterMap (fun n =>
      if g.isValidAt m n = true ∧ g.isValidAt (m + 1) n = true then
        some (g.rank m n, g.rank (m + 1) n)
      else none))

/-- The pairs of valid grid points adjacent along the second index, `(m, n)`-`(m, n + 1)`, in
row-major order. -/
def CurvilinearGrid.specEdgesSecond (g : CurvilinearGrid) : List Edge :=
  (List.range g.m_grid.length).flatMap (fun m =>
    (List.range ((vecGet g.m_grid 0 []).length - 1)).filterMap (fun n =>
      if g.isValidAt m n = true ∧ g.isValidAt m (n + 1) = true then
        some (g.rank m n, g.rank m (n + 1))
      else none))

/-- The positions of the outer ring of an `M × N` grid, from `(0, 0)` along the first index to
`(M - 1, 0)`, along the second index to `(M - 1, N - 1)`, back along the first index to
`(0, N - 1)` and back along the second index to `(0, 0)`, which closes the ring. -/
def outerRing (M N : Nat) : List (Nat × Nat) :=
  (List.range M).map (fun m => (m, 0)) ++
  (List.range (N - 1)).map (fun n => (M - 1, n + 1)) ++
  (List.range (M - 1)).map (fun m => (M - 2 - m, N - 1)) ++
  (List.range (N - 1)).map (fun n => (0, N - 2 - n))

/-- The grid point at a position. -/
def CurvilinearGrid.pointAt (g : CurvilinearGrid) (p : Nat × Nat) : Point :=
  vecGet (vecGet g.m_grid p.1 []) p.2 missingPoint

/-- The nodes of the outer ring of the grid: the places of the positions of `outerRing` among the
valid grid points. -/
def CurvilinearGrid.ringNodes (g : CurvilinearGrid) : List Nat :=
  (outerRing g.m_grid.length (vecGet g.m_grid 0 []).length).map (fun p => g.rank p.1 p.2)

/-- The edges along the first index of an `M × N` grid all of whose points are valid, the point
at `(m, n)` having the place `m * N + n`. -/
def gridEdgesFirst (M N : Nat) : List Edge :=
  (List.range (M - 1)).flatMap (fun m =>
    (List.range N).map (fun n => (m * N + n, (m + 1) * N + n)))

/-- The edges along the second index of an `M × N` grid all of whose points are valid. -/
def gridEdgesSecond (M N : Nat) : List Edge :=
  (List.range M).flatMap (fun m =>
    (List.range (N - 1)).map (fun n => (m * N + n, m * N + (n + 1))))

/-! ## An instance of the services over the rationals -/

/-- Modelled from the spec: the signed area of a closed ring by the shoelace formula
(`FaceAreaAndCenterOfMass`, Cartesian projection). -/
def signedArea (polygon : List Point) : ℚ :=
  ((List.range (polygon.length - 1)).map (fun n =>
    (vecGet polygon n missingPoint).x * (vecGet polygon (n + 1) missingPoint).y -
      (vecGet polygon (n + 1) missingPoint).x * (vecGet polygon n missingPoint).y)).sum / 2

/-- The centroid of a closed ring (Cartesian projection). -/
def ringCentroid (polygon : List Point) : Point :=
  let cross : Nat → ℚ := fun n =>
    (vecGet polygon n missingPoint).x * (vecGet polygon (n + 1) missingPoint).y -
      (vecGet polygon (n + 1) missingPoint).x * (vecGet polygon n missingPoint).y
  let cx := ((List.range (polygon.length - 1)).map (fun n =>
    ((vecGet polygon n missingPoint).x + (vecGet polygon (n + 1) missingPoint).x) * cross n)).sum
  let cy := ((List.range (polygon.length - 1)).map (fun n =>
    ((vecGet polygon n missingPoint).y + (vecGet polygon (n + 1) missingPoint).y) * cross n)).sum
  ⟨cx / (6 * signedArea polygon), cy / (6 * signedArea polygon)⟩

/-- Modelled from the spec: `FaceAreaAndCenterOfMass` for the Cartesian projection, "shoelace with
projection-consistent deltas; `counterClockwise ≡ signedArea > 0`". -/
def cartesianFaceAreaAndCenterOfMass (polygon : List Point) (_projection : Projection) :
    ℚ × Point × Bool :=
  (signedArea polygon, ringCentroid polygon, decide (signedArea polygon > 0))

/-- A rational stand-in for `atan2`: the position of the direction `(x, y)` on the diamond
`|x| + |y| = 1`, which grows with the angle and ranges over `(-2, 2]`. -/
def diamondAngle (y x : ℚ) : ℚ :=
  if x = 0 ∧ y = 0 then 0
  else if y ≥ 0 then (if x ≥ 0 then y / (x + y) else 1 + (-x) / (-x + y))
  else (if x < 0 then -2 + (-y) / (-x - y) else -(-y / (x - y)))

/-- An instance of `Operations` on which the kernel can be run: Cartesian differences and shoelace
area as in the spec; the half turn `M_PI` is `2` and `atan2` is `diamondAngle`; the services of
the circumcenter solver are the centroid-preserving ones. -/
def exampleOperations : Operations where
  GetDx := fun a b _ => b.x - a.x
  GetDy := fun a b _ => b.y - a.y
  atan2 := diamondAngle
  M_PI := 2
  minimumDeltaCoordinate := 1 / 100000000000000
  weightCircumCenter := 1
  FaceAreaAndCenterOfMass := cartesianFaceAreaAndCenterOfMass
  NormalizedInnerProductTwoSegments := fun a b c d _ =>
    let r1 := (b.x - a.x) * (b.x - a.x) + (b.y - a.y) * (b.y - a.y)
    let r2 := (d.x - c.x) * (d.x - c.x) + (d.y - c.y) * (d.y - c.y)
    if r1 ≤ 0 ∨ r2 ≤ 0 then doubleMissingValue
    else
      let dot := (b.x - a.x) * (d.x - c.x) + (b.y - a.y) * (d.y - c.y)
      dot * |dot| / (r1 * r2)
  ComputeEdgeCenters := fun nodes edges => edges.map (fun e =>
    ⟨((vecGet nodes e.1 missingPoint).x + (vecGet nodes e.2 missingPoint).x) / 2,
      ((vecGet nodes e.1 missingPoint).y + (vecGet nodes e.2 missingPoint).y) / 2⟩)
  CircumcenterOfTriangle := fun a b c _ => ⟨(a.x + b.x + c.x) / 3, (a.y + b.y + c.y) / 3⟩
  NormalVector := fun a b _ _ => ⟨b.y - a.y, a.x - b.x⟩
  AddIncrementToPoint := fun normal increment _ _ point =>
    ⟨point.x + normal.x * increment, point.y + normal.y * increment⟩
  IsPointInPolygonNodes := fun _ _ _ => true
  AreSegmentsCrossing := fun _ _ _ _ _ _ => (false, missingPoint)

/-- The squared distance of two points in the plane. -/
def squaredDistance (a b : Point) : ℚ := (a.x - b.x) * (a.x - b.x) + (a.y - b.y) * (a.y - b.y)

/-- An instance of the tree queries by exhaustive search: the samples within the search radius in
the order of their positions, the samples by increasing distance, and removal of a position. -/
def exampleTreeQueries : TreeQueries where
  NearestNeighbors := fun t p =>
    (t.m_points.insertionSort (fun a b => squaredDistance a.1 p ≤ squaredDistance b.1 p)).map
      (fun q => q.2)
  NearestNeighborsOnSquaredDistance := fun t p r =>
    (t.m_points.filter (fun q => decide (squaredDistance q.1 p ≤ r))).map (fun q => q.2)
  DeleteNode := fun t i => ⟨t.m_points.filter (fun q => decide (q.2 ≠ i))⟩
  mergingDistanceSquared := 1 / 1000000000000

/-- Modelled from the spec: `CircumcenterOfTriangle` for the Cartesian projection, "closed-form
solution via perpendicular bisectors". -/
def circumcenterOfTriangle (a b c : Point) : Point :=
  let d := 2 * (a.x * (b.y - c.y) + b.x * (c.y - a.y) + c.x * (a.y - b.y))
  ⟨((a.x * a.x + a.y * a.y) * (b.y - c.y) + (b.x * b.x + b.y * b.y) * (c.y - a.y) +
      (c.x * c.x + c.y * c.y) * (a.y - b.y)) / d,
    ((a.x * a.x + a.y * a.y) * (c.x - b.x) + (b.x * b.x + b.y * b.y) * (a.x - c.x) +
      (c.x * c.x + c.y * c.y) * (b.x - a.x)) / d⟩

/-- Modelled from the spec: `IsPointInPolygonNodes` for the Cartesian projection, "ray-cast,
counts crossings": the ray from `p` in the direction of `x` crosses an odd number of sides of the
closed ring. -/
def rayCastInPolygon (p : Point) (ring : List Point) : Bool :=
  ((List.range (ring.length - 1)).countP (fun n =>
    let a := vecGet ring n missingPoint
    let b := vecGet ring (n + 1) missingPoint
    decide ((a.y > p.y) ≠ (b.y > p.y)) &&
      decide (p.x < (b.x - a.x) * (p.y - a.y) / (b.y - a.y) + a.x))) % 2 == 1

/-- Modelled from the spec: `AreSegmentsCrossing(p1, p2, q1, q2, ...)` for the Cartesian
projection: whether the two segments cross, and the point where they do. -/
def segmentsCrossing (p1 p2 q1 q2 : Point) : Bool × Point :=
  let det := (p2.x - p1.x) * (q2.y - q1.y) - (p2.y - p1.y) * (q2.x - q1.x)
  if det = 0 then (false, missingPoint)
  else
    let t := ((q1.x - p1.x) * (q2.y - q1.y) - (q1.y - p1.y) * (q2.x - q1.x)) / det
    let u := ((q1.x - p1.x) * (p2.y - p1.y) - (q1.y - p1.y) * (p2.x - p1.x)) / det
    if 0 ≤ t ∧ t ≤ 1 ∧ 0 ≤ u ∧ u ≤ 1 then
      (true, ⟨p1.x + t * (p2.x - p1.x), p1.y + t * (p2.y - p1.y)⟩)
    else (false, missingPoint)

/-- The instance `exampleOperations` with the circumcenter of a triangle, the test for a point in
a polygon and the crossing of two segments as the spec describes them for the Cartesian
projection. -/
def geometricOperations : Operations :=
  { exampleOperations with
    CircumcenterOfTriangle := fun a b c _ => circumcenterOfTriangle a b c,
    IsPointInPolygonNodes := fun p ring _ => rayCastInPolygon p ring,
    AreSegmentsCrossing := fun p1 p2 q1 q2 _ _ => segmentsCrossing p1 p2 q1 q2 }

/-! ### What stage 1 is meant to compute -/

/-- The range condition on a mesh handed to administration: every non-missing edge endpoint is
the index of a node. -/
def Mesh.EdgesInRange (m : Mesh) : Prop :=
  ∀ e ∈ m.m_edges, (e.1 ≠ sizetMissingValue → e.1 < m.m_nodes.length) ∧
    (e.2 ≠ sizetMissingValue → e.2 < m.m_nodes.length)

instance (m : Mesh) : Decidable m.EdgesInRange := by
  unfold Mesh.EdgesInRange; infer_instance

/-- Node `k` is referenced by an edge both of whose endpoints are non-missing. -/
def Mesh.nodeConnected (m : Mesh) (k : Nat) : Bool :=
  m.m_edges.any (fun e => !edgeIsMissing e && (e.1 == k || e.2 == k))

/-- Node `k` survives stage 1: its coordinates are valid and it is referenced by an edge both of
whose endpoints are non-missing. -/
def Mesh.nodeSurvives (m : Mesh) (k : Nat) : Bool :=
  (vecGet m.m_nodes k missingPoint).IsValid && m.nodeConnected k

/-- The remap `r`: the number of surviving nodes whose original index is smaller than `k`. -/
def Mesh.remap (m : Mesh) (k : Nat) : Nat :=
  (List.range k).countP m.nodeSurvives

/-- An edge survives stage 1: both endpoints are non-missing and both endpoint nodes survive. -/
def Mesh.edgeSurvives (m : Mesh) (e : Edge) : Bool :=
  !edgeIsMissing e && m.nodeSurvives e.1 && m.nodeSurvives e.2

/-- The nodes that survive stage 1, in their original order. -/
def Mesh.survivingNodes (m : Mesh) : List Point :=
  ((List.range m.m_nodes.length).filter m.nodeSurvives).map (fun k => vecGet m.m_nodes k missingPoint)

/-- The edges that survive stage 1, in their original order, rewritten by the remap. -/
def Mesh.survivingEdges (m : Mesh) : List Edge :=
  (m.m_edges.filter m.edgeSurvives).map (fun e => (m.remap e.1, m.remap e.2))

/-! ## Predicates on the node tables -/

/-- The edge `e` of the mesh. -/
def Mesh.edge (m : Mesh) (e : Nat) : Edge := vecGet m.m_edges e missingEdge

/-- The edges recorded at node `n`: the first `m_nodesNumEdges[n]` entries of `m_nodesEdges[n]`. -/
def Mesh.recorded (m : Mesh) (n : Nat) : List Nat :=
  (vecGet m.m_nodesEdges n []).take (vecGet m.m_nodesNumEdges n 0)

/-- What holds of the list `l` of edges recorded at node `n` once the edges below `k` have been
processed: every entry is a processed, valid edge with `n` as an endpoint, and no two entries lead
to the same neighbour. -/
def Mesh.RecordedOk (m : Mesh) (k n : Nat) (l : List Nat) : Prop :=
  (∀ e ∈ l, e < k ∧ edgeIsMissing (m.edge e) = false ∧ ((m.edge e).1 = n ∨ (m.edge e).2 = n)) ∧
  (l.map (fun e => OtherNodeOfEdge (m.edge e) n)).Nodup

/-- The invariant of the edge loop of `NodeAdministration` after the edges below `k`. -/
structure Mesh.NodeTablesInv (m : Mesh) (k : Nat) : Prop where
  len_edges : m.m_nodesEdges.length = m.m_nodes.length
  len_num : m.m_nodesNumEdges.length = m.m_nodes.length
  cap : ∀ n, n < m.m_nodes.length → vecGet m.m_nodesNumEdges n 0 ≤ maximumNumberOfEdgesPerNode
  slots : ∀ n, n < m.m_nodes.length →
    (vecGet m.m_nodesEdges n []).length = maximumNumberOfEdgesPerNode
  ok : ∀ n, n < m.m_nodes.length → m.RecordedOk k n (m.recorded n)

/-- Node-edge incidence is symmetric: an edge recorded at one endpoint is recorded at the
other. -/
def Mesh.RecordedSym (m : Mesh) : Prop :=
  ∀ n, n < m.m_nodes.length → ∀ e ∈ m.recorded n, e ∈ m.recorded (OtherNodeOfEdge (m.edge e) n)

/-- The node tables as `NodeAdministration` leaves them: `m_nodesEdges[n]` has
`m_nodesNumEdges[n]` entries, at most `maximumNumberOfEdgesPerNode`; every entry is a valid edge
with `n` as an endpoint; no two entries lead to the same neighbour; and an edge recorded at one
endpoint is recorded at the other. -/
structure Mesh.NodeEdgesOk (m : Mesh) : Prop where
  numNodes : m.m_numNodes = m.m_nodes.length
  numEdges : m.m_numEdges = m.m_edges.length
  len_edges : m.m_nodesEdges.length = m.m_nodes.length
  len_num : m.m_nodesNumEdges.length = m.m_nodes.length
  length_eq : ∀ n, n < m.m_nodes.length →
    (vecGet m.m_nodesEdges n []).length = vecGet m.m_nodesNumEdges n 0
  cap : ∀ n, n < m.m_nodes.length → vecGet m.m_nodesNumEdges n 0 ≤ maximumNumberOfEdgesPerNode
  ok : ∀ n, n < m.m_nodes.length → m.RecordedOk m.m_edges.length n (vecGet m.m_nodesEdges n [])
  sym : ∀ n, n < m.m_nodes.length → ∀ e ∈ vecGet m.m_nodesEdges n [],
    e ∈ vecGet m.m_nodesEdges (OtherNodeOfEdge (m.edge e) n) []

/-- Only the two node tables of `s` differ from those of `m`. -/
def Mesh.sameButNodeTables (m s : Mesh) : Prop :=
  s = { m with m_nodesEdges := s.m_nodesEdges, m_nodesNumEdges := s.m_nodesNumEdges }

/-! ## Predicates on the face tables -/

/-- The faces whose edge cycle contains edge `e`, in increasing order. -/
def Mesh.facesOfEdge (m : Mesh) (e : Nat) : List Nat :=
  (List.range m.m_numFaces).filter (fun f => decide (e ∈ vecGet m.m_facesEdges f []))

/-- Edge `e` joins the nodes `a` and `b`. -/
def Mesh.joins (m : Mesh) (e a b : Nat) : Prop :=
  ((m.edge e).1 = a ∧ (m.edge e).2 = b) ∨ ((m.edge e).1 = b ∧ (m.edge e).2 = a)

instance (m : Mesh) (e a b : Nat) : Decidable (m.joins e a b) := by
  unfold Mesh.joins; infer_instance

/-- Edge `e` joins two consecutive nodes of the closed ring `ring`. -/
def Mesh.onRing (m : Mesh) (ring : List Nat) (e : Nat) : Prop :=
  ∃ i, i < ring.length - 1 ∧ m.joins e (vecGet ring i 0) (vecGet ring (i + 1) 0)

instance (m : Mesh) (ring : List Nat) (e : Nat) : Decidable (m.onRing ring e) := by
  unfold Mesh.onRing; infer_instance

/-- What holds of a committed face with node cycle `nodes` and edge cycle `edges`. -/
structure Mesh.FaceOk (ops : Operations) (m : Mesh) (nodes edges : List Nat) : Prop where
  len : nodes.length = edges.length
  three : 3 ≤ nodes.length
  six : nodes.length ≤ maximumNumberOfEdgesPerFace
  nodup_nodes : nodes.Nodup
  edges_lt : ∀ e ∈ edges, e < m.m_edges.length
  joins : ∀ i, i < nodes.length →
    m.joins (vecGet edges i 0) (vecGet nodes i 0) (vecGet nodes ((i + 1) % nodes.length) 0)
  ccw : (ops.FaceAreaAndCenterOfMass (m.closedRing nodes) m.m_projection).2.2 = true

/-- The invariant of face discovery. -/
structure Mesh.FacesInv (ops : Operations) (m : Mesh) : Prop where
  len_nodes : m.m_facesNodes.length = m.m_numFaces
  len_edges : m.m_facesEdges.length = m.m_numFaces
  len_numFaces : m.m_edgesNumFaces.length = m.m_edges.length
  len_edgesFaces : m.m_edgesFaces.length = m.m_edges.length
  slots : ∀ e, e < m.m_edges.length → (vecGet m.m_edgesFaces e []).length = 2
  count_le : ∀ e, e < m.m_edges.length → vecGet m.m_edgesNumFaces e 0 ≤ 2
  count : ∀ e, e < m.m_edges.length →
    (vecGet m.m_edgesFaces e []).take (vecGet m.m_edgesNumFaces e 0) = m.facesOfEdge e
  faces : ∀ f, f < m.m_numFaces →
    m.FaceOk ops (vecGet m.m_facesNodes f []) (vecGet m.m_facesEdges f [])

/-- Only the face tables of `s` differ from those of `m`. -/
def Mesh.sameButFaceTables (m s : Mesh) : Prop :=
  s = { m with m_numFaces := s.m_numFaces, m_edgesNumFaces := s.m_edgesNumFaces,
               m_edgesFaces := s.m_edgesFaces, m_facesNodes := s.m_facesNodes,
               m_facesEdges := s.m_facesEdges, m_faceArea := s.m_faceArea,
               m_facesMassCenters := s.m_facesMassCenters }

/-- Only the per-face geometry, the node types and the polygon scratch of `s` differ from those
of `m`. -/
def Mesh.sameButGeometry (m s : Mesh) : Prop :=
  s = { m with m_facesCircumcenters := s.m_facesCircumcenters, m_faceArea := s.m_faceArea,
               m_facesMassCenters := s.m_facesMassCenters,
               m_polygonNodesCache := s.m_polygonNodesCache, m_nodesTypes := s.m_nodesTypes }

/-- The list `m_nodesEdges[n]` holds every edge that has `n` as an endpoint. -/
def Mesh.listsAllEdgesAt (m : Mesh) (n : Nat) : Prop :=
  ∀ e, e < m.m_edges.length → (m.edge e).1 = n ∨ (m.edge e).2 = n →
    e ∈ vecGet m.m_nodesEdges n []

instance (m : Mesh) (n : Nat) : Decidable (m.listsAllEdgesAt n) := by
  unfold Mesh.listsAllEdgesAt; infer_instance

/-- What holds of the mesh between two calls of `MergeTwoNodes` in the merging loop of
`MergeNodesInPolygon`, on a mesh of `N` nodes and `E` edges: the arrays keep their sizes, the
count of every node is the length of its list, an edge is either invalidated or joins two node
indices, and the list of every node holds every valid edge that ends at the node. -/
structure Mesh.MergeInv (N E : Nat) (s : Mesh) : Prop where
  len_nodes : s.m_nodes.length = N
  numNodes : s.m_numNodes = N
  len_edges : s.m_edges.length = E
  len_lists : s.m_nodesEdges.length = N
  len_num : s.m_nodesNumEdges.length = N
  num : ∀ n, n < N → vecGet s.m_nodesNumEdges n 0 = (vecGet s.m_nodesEdges n []).length
  shape : ∀ e, s.edge e = missingEdge ∨
    ((s.edge e).1 < N ∧ (s.edge e).2 < N ∧ e < E)
  all : ∀ n, n < N → ∀ e, (s.edge e).1 = n ∨ (s.edge e).2 = n → e ∈ vecGet s.m_nodesEdges n []

/-- The edge `E` with the endpoint `a` replaced by `b` (lines 1202-1209 of `MergeTwoNodes`). -/
def repointEdge (a b : Nat) (E : Edge) : Edge :=
  (if E.1 = a then b else E.1, if E.2 = a then b else E.2)

/-- What `Administrate` establishes on a mesh with nodes and edges when it administers the
edges. -/
structure Mesh.AdministeredEdges (m : Mesh) : Prop where
  validNodes : ∀ p ∈ m.m_nodes, p.IsValid = true
  validEdges : ∀ e ∈ m.m_edges, edgeIsMissing e = false
  inRange : m.EdgesInRange
  nodeEdges : m.NodeEdgesOk

/-- What `Administrate` establishes on a mesh with nodes and edges when it administers the
faces as well. -/
structure Mesh.AdministeredFaces (ops : Operations) (m : Mesh) : Prop where
  edges : m.AdministeredEdges
  faces : m.FacesInv ops
  numFacesNodes : m.m_numFacesNodes =
    (List.range m.m_numFaces).map (fun f => (vecGet m.m_facesNodes f []).length)

/-- The state of a walk of `FindFacesRecursive` that has reached `node` at depth `index`: the
entries below `index` are edges with fewer than two faces, each joining its node to the next node
of the walk. -/
structure Mesh.Walk (m : Mesh) (startingNode numClosingEdges index node : Nat) (fs : FaceSearch) :
    Prop where
  len_edges : fs.edges.length = numClosingEdges
  len_nodes : fs.nodes.length = numClosingEdges
  node_lt : node < m.m_nodes.length
  start : (index = 0 → node = startingNode) ∧ (0 < index → vecGet fs.nodes 0 0 = startingNode)
  steps : ∀ i, i < index →
    vecGet fs.edges i 0 < m.m_edges.length ∧ vecGet m.m_edgesNumFaces (vecGet fs.edges i 0) 0 < 2 ∧
    m.joins (vecGet fs.edges i 0) (vecGet fs.nodes i 0)
      (if i + 1 < index then vecGet fs.nodes (i + 1) 0 else node)

/-! ## The angle of an edge around a node -/

/-- The angle `phi` that `SortEdgesInCounterClockWiseOrder` computes for edge `e` at `node`
(lines 527-556): `atan2` of the differences the source takes between the other endpoint and
`node`, or a quarter turn up or down when both differences are below `minimumDeltaCoordinate`. -/
def Mesh.edgePhi (ops : Operations) (m : Mesh) (node e : Nat) : ℚ :=
  let firstNode := if (m.edge e).2 = node then node else (m.edge e).1
  let secondNode := if (m.edge e).2 = node then (m.edge e).1 else (m.edge e).2
  let deltaX := ops.GetDx (vecGet m.m_nodes secondNode missingPoint)
    (vecGet m.m_nodes firstNode missingPoint) m.m_projection
  let deltaY := ops.GetDy (vecGet m.m_nodes secondNode missingPoint)
    (vecGet m.m_nodes firstNode missingPoint) m.m_projection
  if |deltaX| < ops.minimumDeltaCoordinate ∧ |deltaY| < ops.minimumDeltaCoordinate then
    (if deltaY < 0 then -ops.M_PI / 2 else ops.M_PI / 2)
  else ops.atan2 deltaY deltaX

/-- The sort key of edge `e` at `node`: its angle minus the angle of the edge that is first in
`m_nodesEdges[node]`, plus a full turn when negative. -/
def Mesh.wrappedAngle (ops : Operations) (m : Mesh) (node e : Nat) : ℚ :=
  let angle := m.edgePhi ops node e - m.edgePhi ops node (vecGet (vecGet m.m_nodesEdges node []) 0 0)
  if angle < 0 then angle + 2 * ops.M_PI else angle

/-- The plain `atan2` of the direction of edge `e` outward from `node`, without the rule for short
edges. -/
def Mesh.outwardPhi (ops : Operations) (m : Mesh) (node e : Nat) : ℚ :=
  let other := OtherNodeOfEdge (m.edge e) node
  ops.atan2
    (ops.GetDy (vecGet m.m_nodes node missingPoint) (vecGet m.m_nodes other missingPoint)
      m.m_projection)
    (ops.GetDx (vecGet m.m_nodes node missingPoint) (vecGet m.m_nodes other missingPoint)
      m.m_projection)

/-- The plain `atan2` angle of edge `e` at `node` relative to the first edge, wrapped by a full
turn. -/
def Mesh.outwardAngle (ops : Operations) (m : Mesh) (node e : Nat) : ℚ :=
  let angle := m.outwardPhi ops node e -
    m.outwardPhi ops node (vecGet (vecGet m.m_nodesEdges node []) 0 0)
  if angle < 0 then angle + 2 * ops.M_PI else angle

/-- The range of `atan2`: a half turn is positive and every angle lies in `(-M_PI, M_PI]`. -/
def Operations.AnglesInRange (ops : Operations) : Prop :=
  0 < ops.M_PI ∧ ∀ y x, -ops.M_PI < ops.atan2 y x ∧ ops.atan2 y x ≤ ops.M_PI

/-! ## Concrete meshes -/

/-- A mesh before administration: node 2 has lost its coordinates, node 5 is referenced by no
edge, edge 2 has been deleted, and edge 5 still references node 2. -/
def exampleMesh : Mesh :=
  Mesh.ofNodesEdges [⟨0, 0⟩, ⟨1, 0⟩, missingPoint, ⟨1, 1⟩, ⟨0, 1⟩, ⟨5, 5⟩]
    [(0, 1), (1, 3), missingEdge, (3, 4), (4, 0), (2, 3)] Projection.cartesian

/-- A valid node joined by its only edge to a node whose coordinates are missing (the state
`DeleteMesh` with `AllNodesInside` leaves when the polygon holds one endpoint of an edge). -/
def orphanMesh : Mesh :=
  Mesh.ofNodesEdges [⟨0, 0⟩, missingPoint] [(0, 1)] Projection.cartesian

/-- The unit square of scenario S1. -/
def squareMesh : Mesh :=
  Mesh.ofNodesEdges [⟨0, 0⟩, ⟨1, 0⟩, ⟨1, 1⟩, ⟨0, 1⟩] [(0, 1), (1, 2), (2, 3), (3, 0)]
    Projection.cartesian

/-- The two triangles sharing an edge of scenario S2. -/
def twoTrianglesMesh : Mesh :=
  Mesh.ofNodesEdges [⟨0, 0⟩, ⟨1, 0⟩, ⟨0, 1⟩, ⟨1, 1⟩] [(0, 1), (1, 2), (2, 0), (1, 3), (3, 2)]
    Projection.cartesian

/-- A node with three edges, one of them shorter than `minimumDeltaCoordinate`: node 0 at the
origin is joined to `(1, 0)`, to `(10⁻¹⁵, 0)` and to `(0, 1)`. -/
def shortEdgeMesh : Mesh :=
  Mesh.ofNodesEdges [⟨0, 0⟩, ⟨1, 0⟩, ⟨1 / 1000000000000000, 0⟩, ⟨0, 1⟩] [(0, 1), (0, 2), (0, 3)]
    Projection.cartesian

/-- A single triangle. -/
def triangleMesh : Mesh :=
  Mesh.ofNodesEdges [⟨0, 0⟩, ⟨1, 0⟩, ⟨0, 1⟩] [(0, 1), (1, 2), (2, 0)] Projection.cartesian

/-- A path through five nodes whose two outer edges are stored before its two inner edges. -/
def pathMesh : Mesh :=
  Mesh.ofNodesEdges [⟨0, 0⟩, ⟨1, 0⟩, ⟨2, 0⟩, ⟨3, 0⟩, ⟨4, 0⟩] [(0, 1), (3, 4), (1, 2), (2, 3)]
    Projection.cartesian

/-- A star: node 0 at the origin is joined to 17 nodes, one more than
`maximumNumberOfEdgesPerNode`; edge `i` joins node 0 to node `i + 1` at `(i + 1, 16 - i)`.  No
two edges join the same pair of nodes and no edge joins a node to itself. -/
def starMesh : Mesh :=
  Mesh.ofNodesEdges (⟨0, 0⟩ :: (List.range 17).map (fun i => ⟨i + 1, 16 - i⟩))
    ((List.range 17).map (fun i => (0, i + 1))) Projection.cartesian

/-- A grid of two rows of three points whose point `(1, 1)` is missing. -/
def exampleGrid : CurvilinearGrid :=
  ⟨[[⟨0, 0⟩, ⟨0, 1⟩, ⟨0, 2⟩], [⟨1, 0⟩, missingPoint, ⟨1, 2⟩]]⟩

/-- Scenario S3: two nodes closer than the merging distance, each joined to the nodes `(1, 0)`
and `(0, 1)`. -/
def closeNodesMesh : Mesh :=
  Mesh.ofNodesEdges [⟨0, 0⟩, ⟨1 / 1000000000, 1 / 1000000000⟩, ⟨1, 0⟩, ⟨0, 1⟩]
    [(0, 2), (0, 3), (1, 2), (1, 3)] Projection.cartesian

/-- Scenario S4: the unit square with a fifth node `(1/2, 1/2)` joined to node 0. -/
def hangingEdgeMesh : Mesh :=
  Mesh.ofNodesEdges [⟨0, 0⟩, ⟨1, 0⟩, ⟨1, 1⟩, ⟨0, 1⟩, ⟨1 / 2, 1 / 2⟩]
    [(0, 1), (1, 2), (2, 3), (3, 0), (4, 0)] Projection.cartesian

/-- Two nodes with nine edges each and no common neighbour: node 0 is joined to the nodes
2 to 10, node 1 to the nodes 11 to 19. -/
def twoHubsMesh : Mesh :=
  Mesh.ofNodesEdges
    (⟨0, 0⟩ :: ⟨100, 0⟩ :: ((List.range 9).map (fun i => (⟨i + 1, 9 - i⟩ : Point)) ++
      (List.range 9).map (fun i => (⟨i + 101, 9 - i⟩ : Point))))
    ((List.range 9).map (fun i => (0, i + 2)) ++ (List.range 9).map (fun i => (1, i + 11)))
    Projection.cartesian

/-- Two nodes with sixteen edges each, followed by two edges that join each of them to node 2:
node 0 is joined to the nodes 3 to 18, node 1 to the nodes 19 to 34, and the last two edges are
`(0, 2)` and `(1, 2)`. -/
def cappedHubsMesh : Mesh :=
  Mesh.ofNodesEdges
    (⟨0, 0⟩ :: ⟨100, 0⟩ :: ⟨50, -5⟩ :: ((List.range 16).map (fun i => (⟨i + 1, 16 - i⟩ : Point)) ++
      (List.range 16).map (fun i => (⟨i + 101, 16 - i⟩ : Point))))
    ((List.range 16).map (fun i => (0, i + 3)) ++ (List.range 16).map (fun i => (1, i + 19)) ++
      [(0, 2), (1, 2)])
    Projection.cartesian

/-- A star with a close node: the nodes and edges of `starMesh`, a nineteenth node at
`(10⁻⁹, 10⁻⁹)`, closer to node 0 than the merging distance, and a last edge that joins it to
node 1. -/
def closeHubMesh : Mesh :=
  Mesh.ofNodesEdges (starMesh.m_nodes ++ [⟨1 / 1000000000, 1 / 1000000000⟩])
    (starMesh.m_edges ++ [(18, 1)]) Projection.cartesian

/-- Two triangles sharing the edge from `(0, 0)` to `(4, 0)`: the upper one, with the third
node `(2, 1)`, is obtuse, and its circumcenter `(2, -3/2)` lies outside it. -/
def obtusePairMesh : Mesh :=
  Mesh.ofNodesEdges [⟨0, 0⟩, ⟨4, 0⟩, ⟨2, 1⟩, ⟨2, -3⟩] [(0, 1), (1, 2), (2, 0), (1, 3), (3, 0)]
    Projection.cartesian

/-- The fully valid grid of `M` rows and `N` columns with the point `(m, n)` at position
`(m, n)`. -/
def unitGrid (M N : Nat) : CurvilinearGrid :=
  ⟨(List.range M).map (fun m => (List.range N).map (fun n => (⟨m, n⟩ : Point)))⟩

/-- A fully valid grid of two rows and two columns whose four points lie on one line. -/
def collinearGrid : CurvilinearGrid :=
  ⟨[[⟨0, 0⟩, ⟨1, 0⟩], [⟨2, 0⟩, ⟨3, 0⟩]]⟩

/-- The edges of a polygon of `n` nodes given as a single cycle: edge `i` joins node `i` to the
next node. -/
def polygonEdges (n : Nat) : List Edge :=
  (List.range n).map (fun i => (i, (i + 1) % n))

/-- The Cartesian mesh of a polygon given as a single edge cycle through `pts`. -/
def polygonMesh (pts : List Point) : Mesh :=
  Mesh.ofNodesEdges pts (polygonEdges pts.length) Projection.cartesian

/-! ## Face discovery with the orientation answers in a table

The tables that `Administrate` builds depend on the coordinates only through the validity of the
nodes, the order of the angles and the orientation that `FaceAreaAndCenterOfMass` reports.  The
definitions below run the table part of `Administrate` on a mesh without coordinates, with the
orientation answers taken from a table; they serve to compute the tables of a mesh whose
coordinates are not known. -/

/-- The tables of a mesh without its geometry: every node is moved to the origin, the projection
is Cartesian, and the vectors of angles, areas and centres and the spatial indices are emptied. -/
def Mesh.skeleton (m : Mesh) : Mesh :=
  { m with
    m_nodes := m.m_nodes.map (fun _ => ⟨0, 0⟩),
    m_projection := Projection.cartesian,
    m_faceArea := [],
    m_facesMassCenters := [],
    m_facesCircumcenters := [],
    m_edgesCenters := [],
    m_edgeAngles := [],
    m_polygonNodesCache := [],
    m_nodesRTree := ⟨[]⟩,
    m_edgesRTree := ⟨[]⟩ }

/-- The state relation between `Administrate` on a mesh and the table run: the table run is at
the skeleton of the state `s`, whose nodes and projection are those of `m0`. -/
def Mesh.tracks (m0 s t : Mesh) : Prop :=
  s.skeleton = t ∧ s.m_nodes = m0.m_nodes ∧ s.m_projection = m0.m_projection

/-- The branch "enclosure found" of `FindFacesRecursive` with the answer `isCounterClockWise` for
the node cycle looked up in `answers`: there is no result when the table has no answer, and the
area and the centre of mass are not stored. -/
def Mesh.encloseFaceBy (answers : List Nat → Option Bool) (m : Mesh) (edges nodes : List Nat) :
    Option Mesh :=
  let sortedNodes := vecSort (fun a b => decide (a < b)) nodes
  if hasEqualNeighbours sortedNodes then some m
  else
    let oneEdgeHasNoFace := edges.any (fun edge => vecGet m.m_edgesNumFaces edge 0 == 0)
    let sortedEdgesFaces := vecSort (fun a b => decide (a < b))
      (edges.map (fun edge => vecGet (vecGet m.m_edgesFaces edge []) 0 0))
    if !oneEdgeHasNoFace && hasEqualNeighbours sortedEdgesFaces then some m
    else
      match answers nodes with
      | none => none
      | some isCounterClockWise =>
        if !isCounterClockWise then some m
        else
          let m1 := edges.foldl increaseEdgeNumFaces { m with m_numFaces := m.m_numFaces + 1 }
          some { m1 with
            m_facesNodes := m1.m_facesNodes ++ [nodes],
            m_facesEdges := m1.m_facesEdges ++ [edges] }

/-- The recursion of `FindFacesRecursive` over `encloseFaceBy`; an exception is no result. -/
def Mesh.FindFacesRecursiveBy (answers : List Nat → Option Bool)
    (startingNode numClosingEdges : Nat) :
    Nat → Nat → Nat → Nat → Mesh × FaceSearch → Option (Mesh × FaceSearch)
  | 0, _, _, _, s => some s
  | fuel + 1, node, index, previousEdge, s =>
    if index ≥ numClosingEdges then some s
    else if edgeIsMissing (vecGet s.1.m_edges previousEdge missingEdge) then none
    else if vecGet s.1.m_edgesNumFaces previousEdge 0 ≥ 2 then some s
    else
      let edges := s.2.edges.set index previousEdge
      let nodes := s.2.nodes.set index node
      let otherNode := OtherNodeOfEdge (vecGet s.1.m_edges previousEdge missingEdge) node
      if otherNode = startingNode ∧ index = sizetSub edges.length 1 then
        match s.1.encloseFaceBy answers edges nodes with
        | none => none
        | some m => some (m, ⟨edges, nodes⟩)
      else
        Mesh.FindFacesRecursiveBy answers startingNode numClosingEdges fuel otherNode (index + 1)
          (s.1.nextEdge otherNode previousEdge) (s.1, ⟨edges, nodes⟩)

/-- The edge loop of `FindFaces` over `FindFacesRecursiveBy`. -/
def findFacesEdgeStepBy (answers : List Nat → Option Bool) (numEdgesPerFace n : Nat)
    (s : Mesh × FaceSearch) (e : Nat) : Option (Mesh × FaceSearch) :=
  Mesh.FindFacesRecursiveBy answers n numEdgesPerFace (numEdgesPerFace + 1) n 0
    (vecGet (vecGet s.1.m_nodesEdges n []) e 0) s

/-- The node loop of `FindFaces` at a node with valid coordinates; there is no result at an index
beyond the nodes. -/
def findFacesNodeStepBy (answers : List Nat → Option Bool) (numEdgesPerFace : Nat)
    (s : Mesh × FaceSearch) (n : Nat) : Option (Mesh × FaceSearch) :=
  if n < s.1.m_nodes.length then
    (List.range (vecGet s.1.m_nodesNumEdges n 0)).foldlM
      (findFacesEdgeStepBy answers numEdgesPerFace n) s
  else none

/-- The outer loop of `FindFaces` over `findFacesNodeStepBy`. -/
def findFacesSizeStepBy (answers : List Nat → Option Bool) (m : Mesh) (numEdgesPerFace : Nat) :
    Option Mesh :=
  match (List.range m.GetNumNodes).foldlM (findFacesNodeStepBy answers numEdgesPerFace)
      (m, ⟨List.replicate numEdgesPerFace 0, List.replicate numEdgesPerFace 0⟩) with
  | none => none
  | some s => some s.1

/-- The face discovery of `FindFaces` on a mesh all of whose nodes are valid, with the orientation
answers in a table. -/
def Mesh.FindFacesBy (answers : List Nat → Option Bool) (m : Mesh) : Option Mesh :=
  match (List.range' 3 (maximumNumberOfEdgesPerFace + 1 - 3)).foldlM
      (findFacesSizeStepBy answers) m with
  | none => none
  | some m1 =>
    some { m1 with
      m_numFacesNodes :=
        (List.range m1.m_numFaces).map (fun f => (vecGet m1.m_facesNodes f []).length) }

/-- Stage 1 has nothing to remove from the edges and from the connectivity: every edge joins two
nodes of the mesh and every node is an endpoint of an edge. -/
def Mesh.nothingToDelete (m : Mesh) : Bool :=
  m.m_edges.all (fun e =>
    !edgeIsMissing e && decide (e.1 < m.m_nodes.length) && decide (e.2 < m.m_nodes.length)) &&
  (List.range m.m_nodes.length).all m.nodeConnected

/-- The table part of `Administrate` with faces, on a mesh in which stage 1 has nothing to remove,
no spatial index is stale and every node has two edges; there is no result outside these
conditions. -/
def Mesh.AdministrateBy (answers : List Nat → Option Bool) (m : Mesh) : Option Mesh :=
  let m1 := { m with m_numNodes := m.m_nodes.length, m_numEdges := m.m_edges.length }
  if !m.nothingToDelete || m.m_nodesRTreeRequiresUpdate || m.m_edgesRTreeRequiresUpdate ||
      m.m_nodes.length == 0 || m.m_edges.length == 0 then none
  else
    let m2 := m1.resetNodeTables.NodeAdministration
    if (List.range m.m_nodes.length).all (fun n => vecGet m2.m_nodesNumEdges n 0 == 2) then
      match m2.resetFaceTables.FindFacesBy answers with
      | none => none
      | some m3 =>
        if (List.range m3.m_numNodes).all (fun n => vecGet m3.m_nodesNumEdges n 0 == 2) then
          some (m3.ClassifyNodes exampleOperations)
        else none
    else none

/-- The orientation table of a polygon of `n` nodes: the cycle through the nodes in their order is
counter-clockwise, and nothing is known of any other cycle. -/
def polygonAnswers (n : Nat) (nodes : List Nat) : Option Bool :=
  if nodes = List.range n then some true else none

end meshkernel

namespace meshkernel

/-! ## Generic facts about loops and vectors -/

theorem foldl_range_invariant {σ : Type} (P : Nat → σ → Prop) (f : σ → Nat → σ) (s0 : σ)
    (N : Nat) (h0 : P 0 s0) (hstep : ∀ k s, k < N → P k s → P (k + 1) (f s k)) :
    P N ((List.range N).foldl f s0) := by
  induction N with
  | zero => simpa using h0
  | succ N ih =>
    rw [List.range_succ, List.foldl_append]
    simp only [List.foldl_cons, List.foldl_nil]
    exact hstep N _ (Nat.lt_succ_self N)
      (ih (fun k s hk hP => hstep k s (Nat.lt_succ_of_lt hk) hP))

theorem foldl_invariant {σ α : Type} (P : σ → Prop) (f : σ → α → σ) (l : List α) (s0 : σ)
    (h0 : P s0) (hstep : ∀ s a, a ∈ l → P s → P (f s a)) : P (l.foldl f s0) := by
  induction l generalizing s0 with
  | nil => simpa using h0
  | cons a l ih =>
    simp only [List.foldl_cons]
    exact ih _ (hstep _ _ (List.mem_cons_self _ _) h0)
      (fun s b hb hP => hstep s b (List.mem_cons_of_mem _ hb) hP)

theorem foldlM_invariant {σ α ε : Type} (P : σ → Prop) (f : σ → α → Except ε σ) (l : List α)
    (s0 : σ) (h0 : P s0) (hstep : ∀ s a, a ∈ l → P s → ∃ s', f s a = .ok s' ∧ P s') :
    ∃ s', l.foldlM f s0 = .ok s' ∧ P s' := by
  induction l generalizing s0 with
  | nil => exact ⟨s0, rfl, h0⟩
  | cons a l ih =>
    obtain ⟨s1, h1, hP1⟩ := hstep s0 a (List.mem_cons_self _ _) h0
    obtain ⟨s', h', hP'⟩ := ih s1 hP1 (fun s b hb hP => hstep s b (List.mem_cons_of_mem _ hb) hP)
    refine ⟨s', ?_, hP'⟩
    rw [List.foldlM_cons, h1]
    exact h'

theorem foldlM_range_succ {σ ε : Type} (f : σ → Nat → Except ε σ) (s0 : σ) (N : Nat) :
    (List.range (N + 1)).foldlM f s0 =
      match (List.range N).foldlM f s0 with
      | .error err => .error err
      | .ok s => f s N := by
  rw [List.range_succ, List.foldlM_append]
  cases (List.range N).foldlM f s0 with
  | error err => rfl
  | ok s =>
    show (f s N >>= fun s' => pure s') = f s N
    cases f s N <;> rfl

theorem foldlM_range_invariant {σ ε : Type} (P : Nat → σ → Prop) (f : σ → Nat → Except ε σ)
    (s0 : σ) (N : Nat) (h0 : P 0 s0)
    (hstep : ∀ k s, k < N → P k s → ∃ s', f s k = .ok s' ∧ P (k + 1) s') :
    ∃ s', (List.range N).foldlM f s0 = .ok s' ∧ P N s' := by
  induction N with
  | zero => exact ⟨s0, rfl, h0⟩
  | succ N ih =>
    obtain ⟨s1, h1, hP1⟩ := ih (fun k s hk hP => hstep k s (Nat.lt_succ_of_lt hk) hP)
    obtain ⟨s', h', hP'⟩ := hstep N s1 (Nat.lt_succ_self N) hP1
    refine ⟨s', ?_, hP'⟩
    rw [foldlM_range_succ, h1]
    exact h'

theorem vecGet_set {α : Type} (l : List α) (i j : Nat) (a d : α) :
    vecGet (l.set i a) j d = if i = j ∧ i < l.length then a else vecGet l j d := by
  simp only [vecGet, List.getD_eq_getElem?_getD, List.getElem?_set]
  by_cases h : i = j
  · subst h
    by_cases h2 : i < l.length
    · simp [h2]
    · simp [h2, List.getElem?_eq_none (Nat.le_of_not_lt h2)]
  · simp [h]

theorem vecGet_replicate {α : Type} (n i : Nat) (a d : α) :
    vecGet (List.replicate n a) i d = if i < n then a else d := by
  simp only [vecGet, List.getD_eq_getElem?_getD, List.getElem?_replicate]
  split <;> simp

theorem vecGet_of_length_le {α : Type} (l : List α) (i : Nat) (d : α) (h : l.length ≤ i) :
    vecGet l i d = d := by
  simp [vecGet, List.getD_eq_getElem?_getD, List.getElem?_eq_none h]

theorem vecGet_eq_getElem {α : Type} (l : List α) (i : Nat) (d : α) (h : i < l.length) :
    vecGet l i d = l[i] := by
  simp [vecGet, List.getD_eq_getElem?_getD, List.getElem?_eq_getElem h]

theorem vecGet_mem {α : Type} (l : List α) (i : Nat) (d : α) (h : i < l.length) :
    vecGet l i d ∈ l := by
  rw [vecGet_eq_getElem l i d h]; exact List.getElem_mem h

theorem eq_of_vecGet_eq {α : Type} (l₁ l₂ : List α) (d : α) (hl : l₁.length = l₂.length)
    (h : ∀ i, i < l₁.length → vecGet l₁ i d = vecGet l₂ i d) : l₁ = l₂ := by
  apply List.ext_getElem hl
  intro i h1 h2
  have := h i h1
  rwa [vecGet_eq_getElem _ _ _ h1, vecGet_eq_getElem _ _ _ h2] at this

theorem countP_range_succ (p : Nat → Bool) (k : Nat) :
    (List.range (k + 1)).countP p = (List.range k).countP p + (if p k then 1 else 0) := by
  rw [List.range_succ, List.countP_append]
  simp [List.countP_cons]

/-! ## Stage 1 -/

theorem missingPoint_not_valid : missingPoint.IsValid = false := by decide

theorem maskConnected_fold (edges : List Edge) (cn : List Bool) (c : Nat) :
    (edges.foldl maskConnectedStep (cn, c)).1.length = cn.length ∧
    (∀ k, vecGet (edges.foldl maskConnectedStep (cn, c)).1 k false =
      (vecGet cn k false ||
        (decide (k < cn.length) &&
          edges.any (fun e => !edgeIsMissing e && (e.1 == k || e.2 == k)))))  ∧
    (edges.foldl maskConnectedStep (cn, c)).2 = c + edges.countP edgeIsMissing := by
  induction edges generalizing cn c with
  | nil => simp
  | cons e es ih =>
    simp only [List.foldl_cons]
    by_cases hm : e.1 = sizetMissingValue ∨ e.2 = sizetMissingValue
    · have hmb : edgeIsMissing e = true := by
        simpa [edgeIsMissing] using hm
      have hstep : maskConnectedStep (cn, c) e = (cn, c + 1) := by
        simp [maskConnectedStep, hm]
      rw [hstep]
      obtain ⟨h1, h2, h3⟩ := ih cn (c + 1)
      refine ⟨h1, ?_, ?_⟩
      · intro k
        rw [h2 k]
        simp [hmb]
      · rw [h3]
        simp [List.countP_cons, hmb]
        omega
    · have hmb : edgeIsMissing e = false := by
        simpa [edgeIsMissing] using hm
      have hstep : maskConnectedStep (cn, c) e = ((cn.set e.1 true).set e.2 true, c) := by
        simp [maskConnectedStep, hm]
      rw [hstep]
      obtain ⟨h1, h2, h3⟩ := ih ((cn.set e.1 true).set e.2 true) c
      refine ⟨by simpa using h1, ?_, ?_⟩
      · intro k
        rw [h2 k]
        simp only [vecGet_set, List.length_set, List.any_cons, hmb, Bool.not_false,
          Bool.true_and]
        by_cases hk : k < cn.length
        · by_cases h1k : e.1 = k
          · have hlt : e.1 < cn.length := h1k ▸ hk
            by_cases h2k : e.2 = k
            · have hlt2 : e.2 < cn.length := h2k ▸ hk
              simp [h2k, hk]
            · simp [h1k, h2k, hk]
          · have hb : (e.1 == k) = false := by simpa using h1k
            by_cases h2k : e.2 = k
            · have hlt2 : e.2 < cn.length := h2k ▸ hk
              simp [h2k, hk]
            · have hb2 : (e.2 == k) = false := by simpa using h2k
              simp [h1k, h2k, hk, hb, hb2]
        · have hd : vecGet cn k false = false := vecGet_of_length_le _ _ _ (Nat.le_of_not_lt hk)
          have hk1 : ¬ (e.1 = k ∧ e.1 < cn.length) := fun h => hk (h.1 ▸ h.2)
          have hk2 : ¬ (e.2 = k ∧ e.2 < cn.length) := fun h => hk (h.1 ▸ h.2)
          simp [hk1, hk2, hk, hd]
      · rw [h3]
        simp [List.countP_cons, hmb]

/-- The node array after the loop "Count all invalid nodes", pointwise. -/
theorem invalidate_fold (cn : List Bool) (nodes : List Point) :
    (((List.range nodes.length).foldl (invalidateStep cn) (nodes, 0)).1.length = nodes.length) ∧
    (∀ i, vecGet ((List.range nodes.length).foldl (invalidateStep cn) (nodes, 0)).1 i missingPoint
      = if vecGet cn i false then vecGet nodes i missingPoint else missingPoint) ∧
    ((List.range nodes.length).foldl (invalidateStep cn) (nodes, 0)).2 =
      (List.range nodes.length).countP (fun i =>
        !(if vecGet cn i false then vecGet nodes i missingPoint else missingPoint).IsValid) := by
  generalize hg : (fun i : Nat =>
    if vecGet cn i false then vecGet nodes i missingPoint else missingPoint) = g
  have hg' : ∀ i, (if vecGet cn i false then vecGet nodes i missingPoint else missingPoint) = g i :=
    fun i => congrFun hg i
  simp only [hg']
  have key := foldl_range_invariant
    (fun k (s : List Point × Nat) => s.1.length = nodes.length ∧
      (∀ i, vecGet s.1 i missingPoint = if i < k then g i else vecGet nodes i missingPoint) ∧
      s.2 = (List.range k).countP (fun i => !(g i).IsValid))
    (invalidateStep cn) (nodes, 0) nodes.length (by simp) (by
      intro k s hk ⟨hlen, hget, hcnt⟩
      have hnew : ∀ i, vecGet (if !(vecGet cn k false) then s.1.set k missingPoint else s.1) i
          missingPoint = if i < k + 1 then g i else vecGet nodes i missingPoint := by
        intro i
        by_cases hc : vecGet cn k false = true
        · simp only [hc, Bool.not_true, Bool.false_eq_true, if_false]
          rw [hget i]
          by_cases hik : i < k
          · simp [hik, Nat.lt_succ_of_lt hik]
          · by_cases hik2 : i = k
            · subst hik2
              simp [← hg' i, hc]
            · have : ¬ i < k + 1 := by omega
              simp [hik, this]
        · have hc' : vecGet cn k false = false := by simpa using hc
          simp only [hc', Bool.not_false, if_true]
          rw [vecGet_set, hget i]
          by_cases hik2 : k = i
          · subst hik2
            simp [← hg' k, hc', hlen, hk]
          · by_cases hik : i < k
            · simp [hik2, hik, Nat.lt_succ_of_lt hik]
            · have : ¬ i < k + 1 := by omega
              simp [hik2, hik, this]
      have hlen' : (if !(vecGet cn k false) then s.1.set k missingPoint else s.1).length
          = nodes.length := by
        split <;> simp [hlen]
      have hk' : vecGet (if !(vecGet cn k false) then s.1.set k missingPoint else s.1) k
          missingPoint = g k := by
        rw [hnew k]; simp
      unfold invalidateStep
      simp only [hk', countP_range_succ]
      by_cases hv : (g k).IsValid = true
      · simp only [hv, Bool.not_true, Bool.false_eq_true, if_false]
        exact ⟨hlen', hnew, by rw [hcnt]; rfl⟩
      · have hv' : (g k).IsValid = false := by simpa using hv
        simp only [hv', Bool.not_false, if_true]
        exact ⟨hlen', hnew, by rw [hcnt]⟩)
  obtain ⟨h1, h2, h3⟩ := key
  refine ⟨h1, ?_, h3⟩
  intro i
  rw [h2 i]
  by_cases hi : i < nodes.length
  · simp [hi]
  · have hd : vecGet nodes i missingPoint = missingPoint :=
      vecGet_of_length_le _ _ _ (Nat.le_of_not_lt hi)
    have hgi : g i = missingPoint := by rw [← hg' i, hd]; simp
    simp [hi, hd, hgi]

/-- The table `validNodesIndices` after the loop "Flag invalid nodes", pointwise. -/
theorem flagNodes_fold (nodes : List Point) :
    ((List.range nodes.length).foldl (flagNodesStep nodes)
      (List.replicate nodes.length sizetMissingValue, 0)).1.length = nodes.length ∧
    (∀ i, vecGet ((List.range nodes.length).foldl (flagNodesStep nodes)
        (List.replicate nodes.length sizetMissingValue, 0)).1 i sizetMissingValue =
      if (vecGet nodes i missingPoint).IsValid then
        (List.range i).countP (fun j => (vecGet nodes j missingPoint).IsValid)
      else sizetMissingValue) := by
  generalize hv0 : (fun j : Nat => (vecGet nodes j missingPoint).IsValid) = v
  have hv1 : ∀ i, (vecGet nodes i missingPoint).IsValid = v i := fun i => congrFun hv0 i
  simp only [hv1]
  have key := foldl_range_invariant
    (fun k (s : List Nat × Nat) => s.1.length = nodes.length ∧
      s.2 = (List.range k).countP v ∧
      (∀ i, vecGet s.1 i sizetMissingValue =
        if i < k ∧ v i then (List.range i).countP v else sizetMissingValue))
    (flagNodesStep nodes) (List.replicate nodes.length sizetMissingValue, 0) nodes.length
    (by simp [vecGet_replicate]) (by
      intro k s hk ⟨hlen, hcnt, hget⟩
      unfold flagNodesStep
      simp only [hv1, countP_range_succ]
      by_cases hv : v k = true
      · simp only [hv, if_true]
        refine ⟨by simp [hlen], by rw [hcnt], ?_⟩
        intro i
        rw [vecGet_set, hget i]
        by_cases hik : k = i
        · subst hik
          simp [hlen, hk, hv, hcnt]
        · by_cases hik2 : i < k
          · simp [hik, hik2, Nat.lt_succ_of_lt hik2]
          · have : ¬ i < k + 1 := by omega
            simp [hik, hik2, this]
      · have hv2 : v k = false := by simpa using hv
        simp only [hv2, Bool.false_eq_true, if_false]
        refine ⟨hlen, by rw [hcnt]; simp, ?_⟩
        intro i
        rw [hget i]
        by_cases hik : i = k
        · subst hik
          simp [hv2]
        · by_cases hik2 : i < k
          · simp [hik2, Nat.lt_succ_of_lt hik2]
          · have : ¬ i < k + 1 := by omega
            simp [hik2, this])
  obtain ⟨h1, _, h3⟩ := key
  refine ⟨h1, ?_⟩
  intro i
  rw [h3 i]
  by_cases hi : i < nodes.length
  · simp [hi]
  · have hd : vecGet nodes i missingPoint = missingPoint :=
      vecGet_of_length_le _ _ _ (Nat.le_of_not_lt hi)
    have : v i = false := by rw [← hv1 i, hd]; exact missingPoint_not_valid
    simp [hi, this]

end meshkernel

namespace meshkernel

theorem map_vecGet_range {α : Type} (l : List α) (d : α) :
    (List.range l.length).map (fun i => vecGet l i d) = l := by
  apply List.ext_getElem (by simp)
  intro i h1 h2
  simp [vecGet_eq_getElem l i d h2]

theorem nodeSurvives_lt (m : Mesh) (k : Nat) (h : m.nodeSurvives k = true) :
    k < m.m_nodes.length := by
  by_contra hk
  have hd : vecGet m.m_nodes k missingPoint = missingPoint :=
    vecGet_of_length_le _ _ _ (Nat.le_of_not_lt hk)
  simp [Mesh.nodeSurvives, hd, missingPoint_not_valid] at h

theorem remap_le (m : Mesh) (k : Nat) : m.remap k ≤ k := by
  unfold Mesh.remap
  calc (List.range k).countP m.nodeSurvives ≤ (List.range k).length := List.countP_le_length _
    _ = k := List.length_range k

theorem remap_mono (m : Mesh) {j k : Nat} (h : j ≤ k) : m.remap j ≤ m.remap k := by
  induction k with
  | zero => simp [Nat.le_zero.mp h]
  | succ k ih =>
    rcases Nat.lt_or_ge j (k + 1) with hlt | hge
    · have := ih (Nat.le_of_lt_succ hlt)
      unfold Mesh.remap at this ⊢
      rw [countP_range_succ]; omega
    · have : j = k + 1 := Nat.le_antisymm h hge
      rw [this]

theorem remap_succ (m : Mesh) (k : Nat) :
    m.remap (k + 1) = m.remap k + (if m.nodeSurvives k then 1 else 0) := by
  unfold Mesh.remap; rw [countP_range_succ]

/-- A surviving node's new index is below the number of surviving nodes. -/
theorem remap_lt_survivors (m : Mesh) (k : Nat) (h : m.nodeSurvives k = true) :
    m.remap k < m.survivingNodes.length := by
  have hk := nodeSurvives_lt m k h
  have h1 : m.remap (k + 1) = m.remap k + 1 := by rw [remap_succ]; simp [h]
  have h2 : m.remap (k + 1) ≤ m.remap m.m_nodes.length := remap_mono m hk
  have h3 : m.survivingNodes.length = m.remap m.m_nodes.length := by
    simp [Mesh.survivingNodes, Mesh.remap, List.countP_eq_length_filter]
  omega

/-- The state of stage 1 after its first two loops. -/
theorem stage1_loops (m : Mesh) :
    let masked := m.m_edges.foldl maskConnectedStep (List.replicate m.m_nodes.length false, 0)
    let counted := (List.range m.m_nodes.length).foldl (invalidateStep masked.1) (m.m_nodes, 0)
    masked.2 = m.m_edges.countP edgeIsMissing ∧
    counted.1.length = m.m_nodes.length ∧
    (∀ i, (vecGet counted.1 i missingPoint).IsValid = m.nodeSurvives i) ∧
    (∀ i, m.nodeSurvives i = true →
      vecGet counted.1 i missingPoint = vecGet m.m_nodes i missingPoint) ∧
    counted.2 = (List.range m.m_nodes.length).countP (fun i => !m.nodeSurvives i) := by
  intro masked counted
  obtain ⟨hl, hcn, hc⟩ := maskConnected_fold m.m_edges (List.replicate m.m_nodes.length false) 0
  have hcn' : ∀ k, vecGet masked.1 k false =
      (decide (k < m.m_nodes.length) && m.nodeConnected k) := by
    intro k
    have := hcn k
    rw [vecGet_replicate] at this
    simpa [Mesh.nodeConnected] using this
  obtain ⟨h1, h2, h3⟩ := invalidate_fold masked.1 m.m_nodes
  have hval : ∀ i, (if vecGet masked.1 i false then vecGet m.m_nodes i missingPoint
      else missingPoint).IsValid = m.nodeSurvives i := by
    intro i
    rw [hcn' i]
    by_cases hi : i < m.m_nodes.length
    · by_cases hc : m.nodeConnected i = true
      · simp [hi, hc, Mesh.nodeSurvives]
      · have hc' : m.nodeConnected i = false := by simpa using hc
        simp [hi, hc', Mesh.nodeSurvives, missingPoint_not_valid]
    · have hd : vecGet m.m_nodes i missingPoint = missingPoint :=
        vecGet_of_length_le _ _ _ (Nat.le_of_not_lt hi)
      simp [hi, Mesh.nodeSurvives, hd, missingPoint_not_valid]
  refine ⟨by simpa using hc, h1, ?_, ?_, ?_⟩
  · intro i
    show (vecGet ((List.range m.m_nodes.length).foldl (invalidateStep masked.1)
      (m.m_nodes, 0)).1 i missingPoint).IsValid = _
    rw [h2 i, hval i]
  · intro i hs
    show vecGet ((List.range m.m_nodes.length).foldl (invalidateStep masked.1)
      (m.m_nodes, 0)).1 i missingPoint = _
    rw [h2 i]
    have := hval i
    rw [hs] at this
    by_cases hc : vecGet masked.1 i false = true
    · simp [hc]
    · have hc' : vecGet masked.1 i false = false := by simpa using hc
      simp [hc', missingPoint_not_valid] at this
  · show ((List.range m.m_nodes.length).foldl (invalidateStep masked.1) (m.m_nodes, 0)).2 = _
    rw [h3]
    congr 1
    funext i
    rw [hval i]

end meshkernel

namespace meshkernel

theorem edgeIsMissing_eq_false {e : Edge} :
    edgeIsMissing e = false ↔ e.1 ≠ sizetMissingValue ∧ e.2 ≠ sizetMissingValue := by
  simp [edgeIsMissing]

theorem nodeConnected_of_mem (m : Mesh) (e : Edge) (he : e ∈ m.m_edges)
    (hm : edgeIsMissing e = false) : m.nodeConnected e.1 = true ∧ m.nodeConnected e.2 = true := by
  constructor <;>
  · simp only [Mesh.nodeConnected, List.any_eq_true]
    exact ⟨e, he, by simp [hm]⟩

/-- What `flagEdge` does with the table built by the loop "Flag invalid nodes". -/
theorem flagEdge_spec (m : Mesh) (hn : m.m_nodes.length ≤ sizetMissingValue) (v : List Nat)
    (hv : ∀ i, vecGet v i sizetMissingValue =
      if m.nodeSurvives i then m.remap i else sizetMissingValue) (e : Edge) :
    flagEdge v e = if m.edgeSurvives e then (m.remap e.1, m.remap e.2) else missingEdge := by
  have hne : ∀ k, m.nodeSurvives k = true → m.remap k ≠ sizetMissingValue := by
    intro k hk
    have h1 := remap_le m k
    have h2 := nodeSurvives_lt m k hk
    omega
  unfold flagEdge Mesh.edgeSurvives
  simp only [hv]
  by_cases h1 : e.1 = sizetMissingValue
  · simp [h1, edgeIsMissing]
  by_cases h2 : e.2 = sizetMissingValue
  · simp [h2, edgeIsMissing]
  have hm : edgeIsMissing e = false := edgeIsMissing_eq_false.mpr ⟨h1, h2⟩
  by_cases s1 : m.nodeSurvives e.1 = true
  · by_cases s2 : m.nodeSurvives e.2 = true
    · simp [h1, h2, hm, s1, s2, hne _ s1, hne _ s2]
    · have s2' : m.nodeSurvives e.2 = false := by simpa using s2
      simp [h1, h2, hm, s1, s2']
  · have s1' : m.nodeSurvives e.1 = false := by simpa using s1
    simp [h1, h2, hm, s1']

theorem edgeIsMissing_remap (m : Mesh) (hn : m.m_nodes.length ≤ sizetMissingValue) (e : Edge)
    (h : m.edgeSurvives e = true) : edgeIsMissing (m.remap e.1, m.remap e.2) = false := by
  simp only [Mesh.edgeSurvives, Bool.and_eq_true] at h
  obtain ⟨⟨_, s1⟩, s2⟩ := h
  have a1 := remap_le m e.1
  have a2 := nodeSurvives_lt m _ s1
  have b1 := remap_le m e.2
  have b2 := nodeSurvives_lt m _ s2
  rw [edgeIsMissing_eq_false]
  constructor <;> simp only [ne_eq] <;> omega

/-- Stage 1 computes the stable remap: the surviving nodes in their order, the surviving edges
in their order with both endpoints renumbered, and the two counts. -/
theorem DeleteInvalidNodesAndEdges_eq (m : Mesh) (hr : m.EdgesInRange)
    (hn : m.m_nodes.length ≤ sizetMissingValue) :
    m.DeleteInvalidNodesAndEdges =
      { m with m_nodes := m.survivingNodes, m_edges := m.survivingEdges,
               m_numNodes := m.survivingNodes.length, m_numEdges := m.survivingEdges.length } := by
  obtain ⟨hme, hlen, hvalid, hsame, hcnt⟩ := stage1_loops m
  unfold Mesh.DeleteInvalidNodesAndEdges
  simp only [] at hme hlen hvalid hsame hcnt ⊢
  generalize hmasked : m.m_edges.foldl maskConnectedStep
    (List.replicate m.m_nodes.length false, 0) = masked at hme hlen hvalid hsame hcnt ⊢
  generalize hcounted : (List.range m.m_nodes.length).foldl (invalidateStep masked.1)
    (m.m_nodes, 0) = counted at hlen hvalid hsame hcnt ⊢
  by_cases hbr : masked.2 = 0 ∧ counted.2 = 0
  · -- nothing to invalidate
    rw [if_pos hbr]
    obtain ⟨he0, hn0⟩ := hbr
    rw [hme, List.countP_eq_zero] at he0
    rw [hcnt, List.countP_eq_zero] at hn0
    have hall : ∀ i, i < m.m_nodes.length → m.nodeSurvives i = true := by
      intro i hi
      have := hn0 i (List.mem_range.mpr hi)
      simpa using this
    have hnodes : counted.1 = m.m_nodes := by
      apply eq_of_vecGet_eq _ _ missingPoint hlen
      intro i hi
      exact hsame i (hall i (hlen ▸ hi))
    have hremap : ∀ k, k ≤ m.m_nodes.length → m.remap k = k := by
      intro k hk
      induction k with
      | zero => simp [Mesh.remap]
      | succ k ih =>
        rw [remap_succ, ih (Nat.le_of_succ_le hk), hall k hk]; simp
    have hsn : m.survivingNodes = m.m_nodes := by
      unfold Mesh.survivingNodes
      rw [List.filter_eq_self.mpr (fun i hi => hall i (List.mem_range.mp hi))]
      exact map_vecGet_range _ _
    have hedge : ∀ e ∈ m.m_edges, m.edgeSurvives e = true ∧ (m.remap e.1, m.remap e.2) = e := by
      intro e he
      have hm : edgeIsMissing e = false := by simpa using he0 e he
      obtain ⟨n1, n2⟩ := edgeIsMissing_eq_false.mp hm
      obtain ⟨r1, r2⟩ := hr e he
      refine ⟨by simp [Mesh.edgeSurvives, hm, hall _ (r1 n1), hall _ (r2 n2)], ?_⟩
      rw [hremap _ (Nat.le_of_lt (r1 n1)), hremap _ (Nat.le_of_lt (r2 n2))]
    have hse : m.survivingEdges = m.m_edges := by
      unfold Mesh.survivingEdges
      rw [List.filter_eq_self.mpr (fun e he => (hedge e he).1)]
      calc m.m_edges.map (fun e => (m.remap e.1, m.remap e.2))
          = m.m_edges.map id := List.map_congr_left (fun e he => (hedge e he).2)
        _ = m.m_edges := List.map_id _
    rw [hnodes, hsn, hse]
  · rw [if_neg hbr]
    obtain ⟨hvl, hv⟩ := flagNodes_fold counted.1
    have hfun : (fun j => (vecGet counted.1 j missingPoint).IsValid) = m.nodeSurvives :=
      funext hvalid
    simp only [hvalid] at hv
    have hv' : ∀ i, vecGet ((List.range counted.1.length).foldl (flagNodesStep counted.1)
        (List.replicate counted.1.length sizetMissingValue, 0)).1 i sizetMissingValue =
        if m.nodeSurvives i then m.remap i else sizetMissingValue := hv
    have hnodes : counted.1.filter (fun n => n.IsValid) = m.survivingNodes := by
      unfold Mesh.survivingNodes
      conv_lhs => rw [← map_vecGet_range counted.1 missingPoint]
      rw [List.filter_map, hlen]
      have : ((fun n : Point => n.IsValid) ∘ fun i => vecGet counted.1 i missingPoint) =
          m.nodeSurvives := funext hvalid
      rw [this]
      apply List.map_congr_left
      intro i hi
      exact hsame i (List.mem_filter.mp hi).2
    have hedges : (m.m_edges.map (flagEdge ((List.range counted.1.length).foldl
        (flagNodesStep counted.1) (List.replicate counted.1.length sizetMissingValue, 0)).1)).filter
        (fun e => !edgeIsMissing e) = m.survivingEdges := by
      unfold Mesh.survivingEdges
      rw [List.filter_map]
      have hf := flagEdge_spec m hn _ hv'
      have h1 : ∀ e, ((fun e => !edgeIsMissing e) ∘ flagEdge ((List.range counted.1.length).foldl
          (flagNodesStep counted.1) (List.replicate counted.1.length sizetMissingValue, 0)).1) e
          = m.edgeSurvives e := by
        intro e
        simp only [Function.comp, hf e]
        by_cases hs : m.edgeSurvives e = true
        · simp [hs, edgeIsMissing_remap m hn e hs]
        · have hs' : m.edgeSurvives e = false := by simpa using hs
          simp [hs', missingEdge, edgeIsMissing]
      rw [funext h1]
      apply List.map_congr_left
      intro e he
      rw [hf e, if_pos (List.mem_filter.mp he).2]
    rw [hnodes, hedges]

end meshkernel

namespace meshkernel

/-! ## Stage 3: `NodeAdministration` -/

theorem take_set_ge {α : Type} (l : List α) (n i : Nat) (a : α) (h : n ≤ i) :
    (l.set i a).take n = l.take n := by
  apply List.ext_getElem?
  intro j
  simp only [List.getElem?_take, List.getElem?_set]
  by_cases hj : j < n
  · have : i ≠ j := by omega
    simp [hj, this]
  · simp [hj]

theorem take_set_succ {α : Type} (l : List α) (c : Nat) (a : α) (h : c < l.length) :
    (l.set c a).take (c + 1) = l.take c ++ [a] := by
  rw [List.take_succ, take_set_ge l c c a (Nat.le_refl c)]
  simp [h]

theorem take_eq_map_range {α : Type} (l : List α) (c : Nat) (d : α) (h : c ≤ l.length) :
    l.take c = (List.range c).map (fun i => vecGet l i d) := by
  apply List.ext_getElem (by simp [h])
  intro i h1 h2
  have hi : i < c := by simpa using h2
  simp [vecGet_eq_getElem l i d (by omega)]

theorem any_range_vecGet {α : Type} (l : List α) (c : Nat) (d : α) (p : α → Bool)
    (h : c ≤ l.length) :
    (List.range c).any (fun i => p (vecGet l i d)) = (l.take c).any p := by
  rw [take_eq_map_range l c d h, Bool.eq_iff_iff]
  simp only [List.any_eq_true, List.mem_map]
  constructor
  · rintro ⟨i, hi, hp⟩
    exact ⟨_, ⟨i, hi, rfl⟩, hp⟩
  · rintro ⟨_, ⟨i, hi, rfl⟩, hp⟩
    exact ⟨i, hi, hp⟩

theorem OtherNodeOfEdge_mem (edge : Edge) (node : Nat) :
    OtherNodeOfEdge edge node = edge.1 ∨ OtherNodeOfEdge edge node = edge.2 := by
  unfold OtherNodeOfEdge; split <;> simp

theorem alreadyAddedEdge_eq (m : Mesh) (node otherNode : Nat)
    (h : vecGet m.m_nodesNumEdges node 0 ≤ (vecGet m.m_nodesEdges node []).length) :
    m.alreadyAddedEdge node otherNode =
      (m.recorded node).any (fun e => (m.edge e).1 == otherNode || (m.edge e).2 == otherNode) := by
  unfold Mesh.alreadyAddedEdge Mesh.recorded
  exact any_range_vecGet (vecGet m.m_nodesEdges node []) _ 0
    (fun e => (m.edge e).1 == otherNode || (m.edge e).2 == otherNode) h

theorem addEdgeToNode_edge (m : Mesh) (n e e' : Nat) : (m.addEdgeToNode n e).edge e' = m.edge e' :=
  rfl

theorem addEdgeToNode_recorded_self (m : Mesh) (n e : Nat) (hn : n < m.m_nodesEdges.length)
    (hn' : n < m.m_nodesNumEdges.length)
    (hc : vecGet m.m_nodesNumEdges n 0 < (vecGet m.m_nodesEdges n []).length) :
    (m.addEdgeToNode n e).recorded n = m.recorded n ++ [e] := by
  unfold Mesh.recorded Mesh.addEdgeToNode
  simp only [vecGet_set, hn, hn', and_self, if_true]
  exact take_set_succ _ _ _ hc

theorem addEdgeToNode_recorded_other (m : Mesh) (n n' e : Nat) (h : n ≠ n') :
    (m.addEdgeToNode n e).recorded n' = m.recorded n' := by
  unfold Mesh.recorded Mesh.addEdgeToNode
  simp [vecGet_set, h]

theorem RecordedOk_mono (m : Mesh) {k k' : Nat} (h : k ≤ k') (n : Nat) (l : List Nat)
    (hl : m.RecordedOk k n l) : m.RecordedOk k' n l :=
  ⟨fun e he => ⟨Nat.lt_of_lt_of_le (hl.1 e he).1 h, (hl.1 e he).2⟩, hl.2⟩

theorem NodeTablesInv_mono (m : Mesh) {k k' : Nat} (h : k ≤ k') (hi : m.NodeTablesInv k) :
    m.NodeTablesInv k' :=
  ⟨hi.len_edges, hi.len_num, hi.cap, hi.slots, fun n hn => RecordedOk_mono m h n _ (hi.ok n hn)⟩

/-- Appending edge `k` at node `n` keeps the invariant, when no recorded edge has the other
endpoint `x` of edge `k`. -/
theorem addEdgeToNode_inv (m : Mesh) (k n x : Nat) (hi : m.NodeTablesInv (k + 1))
    (hn : n < m.m_nodes.length) (hmiss : edgeIsMissing (m.edge k) = false)
    (hinc : (m.edge k).1 = n ∨ (m.edge k).2 = n) (hx : OtherNodeOfEdge (m.edge k) n = x)
    (hnew : m.alreadyAddedEdge n x = false)
    (hc : vecGet m.m_nodesNumEdges n 0 < maximumNumberOfEdgesPerNode) :
    (m.addEdgeToNode n k).NodeTablesInv (k + 1) := by
  have hslots := hi.slots n hn
  have hnew' := hnew
  rw [alreadyAddedEdge_eq m n x (by rw [hslots]; exact Nat.le_of_lt hc)] at hnew'
  have hrec : (m.addEdgeToNode n k).recorded n = m.recorded n ++ [k] :=
    addEdgeToNode_recorded_self m n k (by rw [hi.len_edges]; exact hn)
      (by rw [hi.len_num]; exact hn) (by rw [hslots]; exact hc)
  refine ⟨?_, ?_, ?_, ?_, ?_⟩
  · simp [Mesh.addEdgeToNode, hi.len_edges]
  · simp [Mesh.addEdgeToNode, hi.len_num]
  · intro n' hn'
    show vecGet ((m.m_nodesNumEdges.set n _)) n' 0 ≤ _
    rw [vecGet_set]
    split
    · omega
    · exact hi.cap n' hn'
  · intro n' hn'
    show (vecGet (m.m_nodesEdges.set n _) n' []).length = _
    rw [vecGet_set]
    split
    · simp [hslots]
    · exact hi.slots n' hn'
  · intro n' hn'
    show m.RecordedOk (k + 1) n' ((m.addEdgeToNode n k).recorded n')
    by_cases hnn : n = n'
    · subst hnn
      rw [hrec]
      obtain ⟨h1, h2⟩ := hi.ok n hn
      constructor
      · intro e he
        rcases List.mem_append.mp he with he | he
        · exact h1 e he
        · have : e = k := by simpa using he
          subst this
          exact ⟨Nat.lt_succ_self _, hmiss, hinc⟩
      · rw [List.map_append, List.nodup_append]
        refine ⟨h2, by simp, ?_⟩
        intro y hy1 hy2
        have hyx : y = x := by
          simp only [List.map_cons, List.map_nil, List.mem_singleton] at hy2
          rw [hy2]; exact hx
        obtain ⟨e', he', hey⟩ := List.mem_map.mp hy1
        have hfalse : ((m.edge e').1 == x || (m.edge e').2 == x) = false := by
          have := hnew'
          rw [Bool.eq_false_iff, ne_eq, List.any_eq_true] at this
          rw [Bool.eq_false_iff]
          intro hc2
          exact this ⟨e', he', hc2⟩
        simp only [Bool.or_eq_false_iff, beq_eq_false_iff_ne, ne_eq] at hfalse
        rcases OtherNodeOfEdge_mem (m.edge e') n with h | h
        · exact hfalse.1 (by rw [← h, hey, hyx])
        · exact hfalse.2 (by rw [← h, hey, hyx])
    · rw [addEdgeToNode_recorded_other m n n' k hnn]
      exact hi.ok n' hn'

theorem addEdgeToNode_same (m0 m : Mesh) (n e : Nat) (h : m0.sameButNodeTables m) :
    m0.sameButNodeTables (m.addEdgeToNode n e) := by
  unfold Mesh.sameButNodeTables at h ⊢
  unfold Mesh.addEdgeToNode
  conv_lhs => rw [h]

theorem addEdgeToNode_numEdges (m : Mesh) (n n' e : Nat) (h : n ≠ n') :
    vecGet (m.addEdgeToNode n e).m_nodesNumEdges n' 0 = vecGet m.m_nodesNumEdges n' 0 := by
  simp [Mesh.addEdgeToNode, vecGet_set, h]

/-- One pass of the edge loop of `NodeAdministration` keeps the invariant. -/
theorem NodeAdministrationStep_inv (m : Mesh) (k : Nat) (hi : m.NodeTablesInv k)
    (hr : edgeIsMissing (m.edge k) = false →
      (m.edge k).1 < m.m_nodes.length ∧ (m.edge k).2 < m.m_nodes.length) :
    (NodeAdministrationStep m k).NodeTablesInv (k + 1) := by
  have hi' : m.NodeTablesInv (k + 1) := NodeTablesInv_mono m (Nat.le_succ k) hi
  unfold NodeAdministrationStep
  simp only []
  change (if (m.edge k).1 = sizetMissingValue ∨ (m.edge k).2 = sizetMissingValue then m
    else if vecGet m.m_nodesNumEdges (m.edge k).1 0 ≥ maximumNumberOfEdgesPerNode ∨
        vecGet m.m_nodesNumEdges (m.edge k).2 0 ≥ maximumNumberOfEdgesPerNode then m
    else
      if !((if !(m.alreadyAddedEdge (m.edge k).1 (m.edge k).2) then
          m.addEdgeToNode (m.edge k).1 k else m).alreadyAddedEdge (m.edge k).2 (m.edge k).1) then
        (if !(m.alreadyAddedEdge (m.edge k).1 (m.edge k).2) then
          m.addEdgeToNode (m.edge k).1 k else m).addEdgeToNode (m.edge k).2 k
      else (if !(m.alreadyAddedEdge (m.edge k).1 (m.edge k).2) then
          m.addEdgeToNode (m.edge k).1 k else m)).NodeTablesInv (k + 1)
  by_cases hm : (m.edge k).1 = sizetMissingValue ∨ (m.edge k).2 = sizetMissingValue
  · rw [if_pos hm]; exact hi'
  rw [if_neg hm]
  by_cases hcap : vecGet m.m_nodesNumEdges (m.edge k).1 0 ≥ maximumNumberOfEdgesPerNode ∨
      vecGet m.m_nodesNumEdges (m.edge k).2 0 ≥ maximumNumberOfEdgesPerNode
  · rw [if_pos hcap]; exact hi'
  rw [if_neg hcap]
  have hmiss : edgeIsMissing (m.edge k) = false :=
    edgeIsMissing_eq_false.mpr ⟨fun h => hm (Or.inl h), fun h => hm (Or.inr h)⟩
  obtain ⟨ha, hb⟩ := hr hmiss
  have hca : vecGet m.m_nodesNumEdges (m.edge k).1 0 < maximumNumberOfEdgesPerNode := by
    by_contra h; exact hcap (Or.inl (Nat.le_of_not_lt h))
  have hcb : vecGet m.m_nodesNumEdges (m.edge k).2 0 < maximumNumberOfEdgesPerNode := by
    by_contra h; exact hcap (Or.inr (Nat.le_of_not_lt h))
  have hx1 : OtherNodeOfEdge (m.edge k) (m.edge k).1 = (m.edge k).2 := by
    simp [OtherNodeOfEdge]
  have hx2 : OtherNodeOfEdge (m.edge k) (m.edge k).2 = (m.edge k).1 := by
    unfold OtherNodeOfEdge
    split
    · rename_i h; exact h
    · rfl
  -- first endpoint
  generalize hm1 : (if !(m.alreadyAddedEdge (m.edge k).1 (m.edge k).2) then
      m.addEdgeToNode (m.edge k).1 k else m) = m1
  have hedge1 : ∀ e, m1.edge e = m.edge e := by
    intro e; rw [← hm1]; split <;> rfl
  have hnodes1 : m1.m_nodes = m.m_nodes := by
    rw [← hm1]; split <;> rfl
  have hinv1 : m1.NodeTablesInv (k + 1) := by
    rw [← hm1]
    by_cases h1 : m.alreadyAddedEdge (m.edge k).1 (m.edge k).2 = true
    · simp only [h1, Bool.not_true, Bool.false_eq_true, if_false]; exact hi'
    · have h1' : m.alreadyAddedEdge (m.edge k).1 (m.edge k).2 = false := by simpa using h1
      simp only [h1', Bool.not_false, if_true]
      exact addEdgeToNode_inv m k _ _ hi' ha hmiss (Or.inl rfl) hx1 h1' hca
  -- second endpoint
  by_cases h2 : m1.alreadyAddedEdge (m.edge k).2 (m.edge k).1 = true
  · simp only [h2, Bool.not_true, Bool.false_eq_true, if_false]; exact hinv1
  · have h2' : m1.alreadyAddedEdge (m.edge k).2 (m.edge k).1 = false := by simpa using h2
    simp only [h2', Bool.not_false, if_true]
    have hb1 : (m.edge k).2 < m1.m_nodes.length := by rw [hnodes1]; exact hb
    have hcb1 : vecGet m1.m_nodesNumEdges (m.edge k).2 0 < maximumNumberOfEdgesPerNode := by
      by_cases hab : (m.edge k).1 = (m.edge k).2
      · -- a self-loop: the first search cannot have appended the edge
        by_cases h1 : m.alreadyAddedEdge (m.edge k).1 (m.edge k).2 = true
        · have : m1 = m := by rw [← hm1]; simp [h1]
          rw [this]; exact hcb
        · have h1' : m.alreadyAddedEdge (m.edge k).1 (m.edge k).2 = false := by simpa using h1
          have hm1' : m1 = m.addEdgeToNode (m.edge k).1 k := by rw [← hm1]; simp [h1']
          exfalso
          have hle : vecGet m1.m_nodesNumEdges (m.edge k).2 0 ≤
              (vecGet m1.m_nodesEdges (m.edge k).2 []).length := by
            rw [hinv1.slots _ hb1]; exact hinv1.cap _ hb1
          rw [alreadyAddedEdge_eq m1 _ _ hle] at h2'
          have hrec : m1.recorded (m.edge k).2 = m.recorded (m.edge k).2 ++ [k] := by
            rw [hm1', ← hab]
            exact addEdgeToNode_recorded_self m _ k (by rw [hi.len_edges]; exact ha)
              (by rw [hi.len_num]; exact ha) (by rw [hi.slots _ ha]; exact hca)
          rw [hrec, List.any_append] at h2'
          simp [hedge1] at h2'
      · have : vecGet m1.m_nodesNumEdges (m.edge k).2 0 = vecGet m.m_nodesNumEdges (m.edge k).2 0 := by
          rw [← hm1]
          split
          · exact addEdgeToNode_numEdges m _ _ k hab
          · rfl
        rw [this]; exact hcb
    exact addEdgeToNode_inv m1 k _ _ hinv1 hb1 (by rw [hedge1]; exact hmiss)
      (by rw [hedge1]; exact Or.inr rfl) (by rw [hedge1]; exact hx2) h2' hcb1

theorem NodeAdministrationStep_same (m0 m : Mesh) (k : Nat) (h : m0.sameButNodeTables m) :
    m0.sameButNodeTables (NodeAdministrationStep m k) := by
  have h1 : ∀ m' : Mesh, m0.sameButNodeTables m' → ∀ n x : Nat,
      m0.sameButNodeTables
        (if !(m'.alreadyAddedEdge n x) then m'.addEdgeToNode n k else m') := by
    intro m' hm' n x
    split
    · exact addEdgeToNode_same _ _ _ _ hm'
    · exact hm'
  unfold NodeAdministrationStep
  simp only []
  split
  · exact h
  split
  · exact h
  exact h1 _ (h1 _ h _ _) _ _

/-- The recorded lists after one guarded append. -/
theorem addIfNew_recorded (m : Mesh) (k n x n' : Nat) (hn : n < m.m_nodesEdges.length)
    (hn' : n < m.m_nodesNumEdges.length)
    (hc : m.alreadyAddedEdge n x = false →
      vecGet m.m_nodesNumEdges n 0 < (vecGet m.m_nodesEdges n []).length) :
    (if !(m.alreadyAddedEdge n x) then m.addEdgeToNode n k else m).recorded n' =
      if n' = n ∧ m.alreadyAddedEdge n x = false then m.recorded n ++ [k] else m.recorded n' := by
  by_cases h : m.alreadyAddedEdge n x = true
  · simp [h]
  · have h' : m.alreadyAddedEdge n x = false := by simpa using h
    simp only [h', Bool.not_false, if_true, and_true]
    by_cases hnn : n' = n
    · subst hnn
      simp only [if_true]
      exact addEdgeToNode_recorded_self m n' k hn hn' (hc h')
    · rw [if_neg hnn]
      exact addEdgeToNode_recorded_other m n n' k (Ne.symm hnn)

theorem alreadyAddedEdge_congr (m m1 : Mesh) (n x : Nat)
    (hle : vecGet m.m_nodesNumEdges n 0 ≤ (vecGet m.m_nodesEdges n []).length)
    (hle1 : vecGet m1.m_nodesNumEdges n 0 ≤ (vecGet m1.m_nodesEdges n []).length)
    (hedge : ∀ e, m1.edge e = m.edge e) (hrec : m1.recorded n = m.recorded n) :
    m1.alreadyAddedEdge n x = m.alreadyAddedEdge n x := by
  rw [alreadyAddedEdge_eq m1 n x hle1, alreadyAddedEdge_eq m n x hle, hrec]
  simp only [hedge]

theorem alreadyAddedEdge_true_iff (m : Mesh) (n x : Nat)
    (hle : vecGet m.m_nodesNumEdges n 0 ≤ (vecGet m.m_nodesEdges n []).length) :
    m.alreadyAddedEdge n x = true ↔
      ∃ e ∈ m.recorded n, (m.edge e).1 = x ∨ (m.edge e).2 = x := by
  rw [alreadyAddedEdge_eq m n x hle, List.any_eq_true]
  simp

/-- One pass of the edge loop of `NodeAdministration` keeps the incidence symmetric. -/
theorem NodeAdministrationStep_sym (m : Mesh) (k : Nat) (hi : m.NodeTablesInv k)
    (hs : m.RecordedSym)
    (hr : edgeIsMissing (m.edge k) = false →
      (m.edge k).1 < m.m_nodes.length ∧ (m.edge k).2 < m.m_nodes.length) :
    (NodeAdministrationStep m k).RecordedSym := by
  unfold NodeAdministrationStep
  simp only []
  change (if (m.edge k).1 = sizetMissingValue ∨ (m.edge k).2 = sizetMissingValue then m
    else if vecGet m.m_nodesNumEdges (m.edge k).1 0 ≥ maximumNumberOfEdgesPerNode ∨
        vecGet m.m_nodesNumEdges (m.edge k).2 0 ≥ maximumNumberOfEdgesPerNode then m
    else
      if !((if !(m.alreadyAddedEdge (m.edge k).1 (m.edge k).2) then
          m.addEdgeToNode (m.edge k).1 k else m).alreadyAddedEdge (m.edge k).2 (m.edge k).1) then
        (if !(m.alreadyAddedEdge (m.edge k).1 (m.edge k).2) then
          m.addEdgeToNode (m.edge k).1 k else m).addEdgeToNode (m.edge k).2 k
      else (if !(m.alreadyAddedEdge (m.edge k).1 (m.edge k).2) then
          m.addEdgeToNode (m.edge k).1 k else m)).RecordedSym
  by_cases hm : (m.edge k).1 = sizetMissingValue ∨ (m.edge k).2 = sizetMissingValue
  · rw [if_pos hm]; exact hs
  rw [if_neg hm]
  by_cases hcap : vecGet m.m_nodesNumEdges (m.edge k).1 0 ≥ maximumNumberOfEdgesPerNode ∨
      vecGet m.m_nodesNumEdges (m.edge k).2 0 ≥ maximumNumberOfEdgesPerNode
  · rw [if_pos hcap]; exact hs
  rw [if_neg hcap]
  have hmiss : edgeIsMissing (m.edge k) = false :=
    edgeIsMissing_eq_false.mpr ⟨fun h => hm (Or.inl h), fun h => hm (Or.inr h)⟩
  obtain ⟨ha, hb⟩ := hr hmiss
  have hca : vecGet m.m_nodesNumEdges (m.edge k).1 0 < maximumNumberOfEdgesPerNode := by
    by_contra h; exact hcap (Or.inl (Nat.le_of_not_lt h))
  have hcb : vecGet m.m_nodesNumEdges (m.edge k).2 0 < maximumNumberOfEdgesPerNode := by
    by_contra h; exact hcap (Or.inr (Nat.le_of_not_lt h))
  have hx1 : OtherNodeOfEdge (m.edge k) (m.edge k).1 = (m.edge k).2 := by
    simp [OtherNodeOfEdge]
  have hx2 : OtherNodeOfEdge (m.edge k) (m.edge k).2 = (m.edge k).1 := by
    unfold OtherNodeOfEdge
    split
    · rename_i h; exact h
    · rfl
  have hle : ∀ n, n < m.m_nodes.length →
      vecGet m.m_nodesNumEdges n 0 ≤ (vecGet m.m_nodesEdges n []).length := by
    intro n hn; rw [hi.slots n hn]; exact hi.cap n hn
  -- the lists after the first guarded append
  generalize hm1 : (if !(m.alreadyAddedEdge (m.edge k).1 (m.edge k).2) then
      m.addEdgeToNode (m.edge k).1 k else m) = m1
  have hedge1 : ∀ e, m1.edge e = m.edge e := by
    intro e; rw [← hm1]; split <;> rfl
  have hnodes1 : m1.m_nodes = m.m_nodes := by
    rw [← hm1]; split <;> rfl
  have hlen1 : m1.m_nodesEdges.length = m.m_nodes.length ∧
      m1.m_nodesNumEdges.length = m.m_nodes.length := by
    rw [← hm1]; split <;> simp [Mesh.addEdgeToNode, hi.len_edges, hi.len_num]
  have hrec1 : ∀ n', m1.recorded n' =
      if n' = (m.edge k).1 ∧ m.alreadyAddedEdge (m.edge k).1 (m.edge k).2 = false then
        m.recorded (m.edge k).1 ++ [k] else m.recorded n' := by
    intro n'
    rw [← hm1]
    exact addIfNew_recorded m k _ _ n' (by rw [hi.len_edges]; exact ha)
      (by rw [hi.len_num]; exact ha) (fun _ => by rw [hi.slots _ ha]; exact hca)
  have hinv1 : m1.NodeTablesInv (k + 1) := by
    have := NodeTablesInv_mono m (Nat.le_succ k) hi
    rw [← hm1]
    by_cases h1 : m.alreadyAddedEdge (m.edge k).1 (m.edge k).2 = true
    · simp only [h1, Bool.not_true, Bool.false_eq_true, if_false]; exact this
    · have h1' : m.alreadyAddedEdge (m.edge k).1 (m.edge k).2 = false := by simpa using h1
      simp only [h1', Bool.not_false, if_true]
      exact addEdgeToNode_inv m k _ _ this ha hmiss (Or.inl rfl) hx1 h1' hca
  have hb1 : (m.edge k).2 < m1.m_nodes.length := by rw [hnodes1]; exact hb
  have hle1 : vecGet m1.m_nodesNumEdges (m.edge k).2 0 ≤
      (vecGet m1.m_nodesEdges (m.edge k).2 []).length := by
    rw [hinv1.slots _ hb1]; exact hinv1.cap _ hb1
  generalize hm2 : (if !(m1.alreadyAddedEdge (m.edge k).2 (m.edge k).1) then
      m1.addEdgeToNode (m.edge k).2 k else m1) = m2
  have hedge2 : ∀ e, m2.edge e = m.edge e := by
    intro e; rw [← hm2]; split
    · exact hedge1 e
    · exact hedge1 e
  have hnodes2 : m2.m_nodes = m.m_nodes := by
    rw [← hm2]; split
    · exact hnodes1
    · exact hnodes1
  -- a recorded edge between the two endpoints is found by both searches
  have hkey : ∀ a b : Nat, a < m.m_nodes.length → b < m.m_nodes.length →
      m.alreadyAddedEdge a b = true → a ≠ b → m.alreadyAddedEdge b a = true := by
    intro a b ha' hb' hab hne
    rw [alreadyAddedEdge_true_iff m a b (hle a ha')] at hab
    rw [alreadyAddedEdge_true_iff m b a (hle b hb')]
    obtain ⟨e, he, hend⟩ := hab
    have hinc := ((hi.ok a ha').1 e he).2.2
    have hoth : OtherNodeOfEdge (m.edge e) a = b := by
      show (if a = (m.edge e).1 then (m.edge e).2 else (m.edge e).1) = b
      rcases hinc with h | h <;> rcases hend with h' | h'
      · exact absurd (h.symm.trans h') hne
      · rw [if_pos h.symm]; exact h'
      · have : ¬ a = (m.edge e).1 := fun hh => hne (hh.trans h')
        rw [if_neg this]; exact h'
      · exact absurd (h.symm.trans h') hne
    refine ⟨e, ?_, hinc⟩
    have := hs a ha' e he
    rwa [hoth] at this
  have hc2 : m1.alreadyAddedEdge (m.edge k).2 (m.edge k).1 = false →
      vecGet m1.m_nodesNumEdges (m.edge k).2 0 < (vecGet m1.m_nodesEdges (m.edge k).2 []).length := by
    intro h2'
    rw [hinv1.slots _ hb1]
    by_cases hab : (m.edge k).1 = (m.edge k).2
    · by_cases h1 : m.alreadyAddedEdge (m.edge k).1 (m.edge k).2 = true
      · have : m1 = m := by rw [← hm1]; simp [h1]
        rw [this]; exact hcb
      · have h1' : m.alreadyAddedEdge (m.edge k).1 (m.edge k).2 = false := by simpa using h1
        exfalso
        rw [alreadyAddedEdge_eq m1 _ _ hle1, hrec1, if_pos ⟨hab.symm, h1'⟩, List.any_append] at h2'
        simp [hedge1] at h2'
    · have : vecGet m1.m_nodesNumEdges (m.edge k).2 0 = vecGet m.m_nodesNumEdges (m.edge k).2 0 := by
        rw [← hm1]
        split
        · exact addEdgeToNode_numEdges m _ _ k hab
        · rfl
      rw [this]; exact hcb
  have hrec2 : ∀ n', m2.recorded n' =
      if n' = (m.edge k).2 ∧ m1.alreadyAddedEdge (m.edge k).2 (m.edge k).1 = false then
        m1.recorded (m.edge k).2 ++ [k] else m1.recorded n' := by
    intro n'
    rw [← hm2]
    exact addIfNew_recorded m1 k _ _ n' (by rw [hlen1.1]; exact hb)
      (by rw [hlen1.2]; exact hb) hc2
  -- old entries stay, at every node
  have hsub1 : ∀ n' e, e ∈ m.recorded n' → e ∈ m1.recorded n' := by
    intro n' e he
    rw [hrec1]
    split
    · rename_i h; rw [← h.1]; exact List.mem_append_left _ he
    · exact he
  have hsub2 : ∀ n' e, e ∈ m1.recorded n' → e ∈ m2.recorded n' := by
    intro n' e he
    rw [hrec2]
    split
    · rename_i h; rw [← h.1]; exact List.mem_append_left _ he
    · exact he
  have hmem2 : ∀ n' e, e ∈ m2.recorded n' → e ∈ m.recorded n' ∨
      (e = k ∧ (n' = (m.edge k).1 ∨ n' = (m.edge k).2)) := by
    intro n' e he
    rw [hrec2] at he
    by_cases c2 : n' = (m.edge k).2 ∧ m1.alreadyAddedEdge (m.edge k).2 (m.edge k).1 = false
    · rw [if_pos c2] at he
      rcases List.mem_append.mp he with he | he
      · rw [hrec1] at he
        by_cases c1 : (m.edge k).2 = (m.edge k).1 ∧
            m.alreadyAddedEdge (m.edge k).1 (m.edge k).2 = false
        · rw [if_pos c1] at he
          rcases List.mem_append.mp he with he | he
          · left; rw [c2.1, c1.1]; exact he
          · right; exact ⟨by simpa using he, Or.inr c2.1⟩
        · rw [if_neg c1] at he
          left; rw [c2.1]; exact he
      · right; exact ⟨by simpa using he, Or.inr c2.1⟩
    · rw [if_neg c2, hrec1] at he
      by_cases c1 : n' = (m.edge k).1 ∧ m.alreadyAddedEdge (m.edge k).1 (m.edge k).2 = false
      · rw [if_pos c1] at he
        rcases List.mem_append.mp he with he | he
        · left; rw [c1.1]; exact he
        · right; exact ⟨by simpa using he, Or.inl c1.1⟩
      · rw [if_neg c1] at he
        left; exact he
  -- the new edge is recorded at both endpoints or at none
  have hboth : ∀ n', k ∈ m2.recorded n' → (n' = (m.edge k).1 ∨ n' = (m.edge k).2) →
      k ∈ m2.recorded (m.edge k).1 ∧ k ∈ m2.recorded (m.edge k).2 := by
    intro n' hk hn'
    have hknot : ∀ n'', n'' < m.m_nodes.length → k ∉ m.recorded n'' := by
      intro n'' hn'' hmem
      exact absurd ((hi.ok n'' hn'').1 k hmem).1 (Nat.lt_irrefl k)
    by_cases hab : (m.edge k).1 = (m.edge k).2
    · have : n' = (m.edge k).1 := by rcases hn' with h | h; exact h; exact h.trans hab.symm
      subst this
      exact ⟨hk, hab ▸ hk⟩
    · -- distinct endpoints: both searches agree
      have h21 : m1.alreadyAddedEdge (m.edge k).2 (m.edge k).1 =
          m.alreadyAddedEdge (m.edge k).2 (m.edge k).1 := by
        apply alreadyAddedEdge_congr m m1 _ _ (hle _ hb) hle1 hedge1
        rw [hrec1, if_neg (fun h => hab h.1.symm)]
      have hnot1 : m.alreadyAddedEdge (m.edge k).1 (m.edge k).2 = false := by
        by_contra hcon
        have hcon' : m.alreadyAddedEdge (m.edge k).1 (m.edge k).2 = true := by simpa using hcon
        have hcon2 := hkey _ _ ha hb hcon' hab
        -- then nothing was appended anywhere
        have : ∀ n'', m2.recorded n'' = m.recorded n'' := by
          intro n''
          rw [hrec2, h21, hcon2]
          simp only [Bool.true_eq_false, and_false, if_false]
          rw [hrec1, hcon']
          simp
        rw [this] at hk
        rcases hn' with h | h
        · exact hknot _ (h ▸ ha) hk
        · exact hknot _ (h ▸ hb) hk
      have hnot2 : m.alreadyAddedEdge (m.edge k).2 (m.edge k).1 = false := by
        by_contra hcon
        have hcon' : m.alreadyAddedEdge (m.edge k).2 (m.edge k).1 = true := by simpa using hcon
        have := hkey _ _ hb ha hcon' (Ne.symm hab)
        rw [hnot1] at this
        exact Bool.false_ne_true this
      constructor
      · apply hsub2
        rw [hrec1, if_pos ⟨rfl, hnot1⟩]
        exact List.mem_append_right _ (List.mem_singleton_self k)
      · rw [hrec2, if_pos ⟨rfl, by rw [h21]; exact hnot2⟩]
        exact List.mem_append_right _ (List.mem_singleton_self k)
  -- conclusion
  have hgoal : m2.RecordedSym := by
    intro n hn e he
    rw [hnodes2] at hn
    rw [hedge2]
    rcases hmem2 n e he with hold | ⟨hek, hnk⟩
    · exact hsub2 _ _ (hsub1 _ _ (hs n hn e hold))
    · subst hek
      obtain ⟨h1, h2⟩ := hboth n he hnk
      rcases hnk with h | h
      · rw [h, hx1]; exact h2
      · rw [h, hx2]; exact h1
  exact hgoal

theorem sameButNodeTables_fields (m0 s : Mesh) (h : m0.sameButNodeTables s) :
    s.m_nodes = m0.m_nodes ∧ s.m_edges = m0.m_edges ∧ s.m_numNodes = m0.m_numNodes ∧
    s.m_numEdges = m0.m_numEdges ∧ s.m_projection = m0.m_projection := by
  unfold Mesh.sameButNodeTables at h
  refine ⟨?_, ?_, ?_, ?_, ?_⟩ <;> (rw [h])

theorem edge_in_range (m : Mesh) (hr : m.EdgesInRange) (k : Nat)
    (hm : edgeIsMissing (m.edge k) = false) :
    (m.edge k).1 < m.m_nodes.length ∧ (m.edge k).2 < m.m_nodes.length := by
  by_cases hk : k < m.m_edges.length
  · have hmem : m.edge k ∈ m.m_edges := vecGet_mem _ _ _ hk
    obtain ⟨h1, h2⟩ := edgeIsMissing_eq_false.mp hm
    exact ⟨(hr _ hmem).1 h1, (hr _ hmem).2 h2⟩
  · have : m.edge k = missingEdge := vecGet_of_length_le _ _ _ (Nat.le_of_not_lt hk)
    rw [this] at hm
    exact absurd hm (by decide)

theorem resetNodeTables_inv (m : Mesh) : m.resetNodeTables.NodeTablesInv 0 := by
  refine ⟨by simp [Mesh.resetNodeTables], by simp [Mesh.resetNodeTables], ?_, ?_, ?_⟩
  · intro n _
    simp [Mesh.resetNodeTables, vecGet_replicate]
  · intro n hn
    have hn' : n < m.m_nodes.length := hn
    simp [Mesh.resetNodeTables, vecGet_replicate, hn']
  · intro n hn
    have hn' : n < m.m_nodes.length := hn
    have : m.resetNodeTables.recorded n = [] := by
      simp [Mesh.recorded, Mesh.resetNodeTables, vecGet_replicate, hn']
    rw [this]
    exact ⟨fun e he => absurd he (List.not_mem_nil e), List.nodup_nil⟩

theorem resetNodeTables_sym (m : Mesh) : m.resetNodeTables.RecordedSym := by
  intro n hn e he
  have hn' : n < m.m_nodes.length := hn
  have : m.resetNodeTables.recorded n = [] := by
    simp [Mesh.recorded, Mesh.resetNodeTables, vecGet_replicate, hn']
  rw [this] at he
  exact absurd he (List.not_mem_nil e)

/-- The state after the edge loop of `NodeAdministration`. -/
theorem nodeAdministration_loop (m : Mesh) (hr : m.EdgesInRange) (N : Nat) :
    ((List.range N).foldl NodeAdministrationStep m.resetNodeTables).NodeTablesInv N ∧
    ((List.range N).foldl NodeAdministrationStep m.resetNodeTables).RecordedSym ∧
    m.sameButNodeTables ((List.range N).foldl NodeAdministrationStep m.resetNodeTables) := by
  apply foldl_range_invariant
    (fun k (s : Mesh) => s.NodeTablesInv k ∧ s.RecordedSym ∧ m.sameButNodeTables s)
  · exact ⟨resetNodeTables_inv m, resetNodeTables_sym m, rfl⟩
  · intro k s _ ⟨hinv, hsym, hsame⟩
    obtain ⟨hnodes, hedges, _⟩ := sameButNodeTables_fields m s hsame
    have hrs : s.EdgesInRange := by
      unfold Mesh.EdgesInRange
      rw [hnodes, hedges]; exact hr
    exact ⟨NodeAdministrationStep_inv s k hinv (edge_in_range s hrs k),
      NodeAdministrationStep_sym s k hinv hsym (edge_in_range s hrs k),
      NodeAdministrationStep_same m s k hsame⟩

theorem vecResize_of_le {α : Type} (l : List α) (c : Nat) (d : α) (h : c ≤ l.length) :
    vecResize l c d = l.take c := by
  unfold vecResize
  have : c - l.length = 0 := Nat.sub_eq_zero_of_le h
  simp [this]

/-- The state after the loop "resize" of `NodeAdministration`. -/
theorem resize_loop (s : Mesh) (k : Nat) (hi : s.NodeTablesInv k) (N : Nat)
    (hN : N ≤ s.m_nodes.length) :
    let t := (List.range N).foldl resizeNodeEdgesStep s
    s.sameButNodeTables t ∧ t.m_nodesNumEdges = s.m_nodesNumEdges ∧
    t.m_nodesEdges.length = s.m_nodesEdges.length ∧
    ∀ n, vecGet t.m_nodesEdges n [] = if n < N then s.recorded n else vecGet s.m_nodesEdges n [] := by
  intro t
  apply foldl_range_invariant
    (fun j (t : Mesh) => s.sameButNodeTables t ∧ t.m_nodesNumEdges = s.m_nodesNumEdges ∧
      t.m_nodesEdges.length = s.m_nodesEdges.length ∧
      ∀ n, vecGet t.m_nodesEdges n [] =
        if n < j then s.recorded n else vecGet s.m_nodesEdges n [])
  · exact ⟨rfl, rfl, rfl, fun n => by simp⟩
  · intro j t hj ⟨hsame, hnum, hlen, hget⟩
    have hjN : j < s.m_nodes.length := Nat.lt_of_lt_of_le hj hN
    refine ⟨?_, hnum, by simp [resizeNodeEdgesStep, hlen], ?_⟩
    · unfold Mesh.sameButNodeTables at hsame ⊢
      unfold resizeNodeEdgesStep
      conv_lhs => rw [hsame]
    · intro n
      show vecGet (t.m_nodesEdges.set j _) n [] = _
      rw [vecGet_set, hlen, hi.len_edges]
      by_cases hjn : j = n
      · subst hjn
        simp only [hjN, and_self, if_true, Nat.lt_succ_self]
        rw [hget j, if_neg (Nat.lt_irrefl j), hnum]
        exact vecResize_of_le _ _ _ (by rw [hi.slots j hjN]; exact hi.cap j hjN)
      · rw [if_neg (fun h => hjn h.1), hget n]
        by_cases hnj : n < j
        · simp [hnj, Nat.lt_succ_of_lt hnj]
        · have : ¬ n < j + 1 := by omega
          simp [hnj, this]

theorem RecordedOk_congr (s t : Mesh) (hedges : t.m_edges = s.m_edges) (k n : Nat) (l : List Nat)
    (h : s.RecordedOk k n l) : t.RecordedOk k n l := by
  unfold Mesh.RecordedOk Mesh.edge at h ⊢
  rw [hedges]; exact h

/-- `NodeAdministration`, run on freshly reset tables, establishes `NodeEdgesOk` and changes the
two node tables only. -/
theorem NodeAdministration_ok (m : Mesh) (hr : m.EdgesInRange)
    (hN : m.m_numNodes = m.m_nodes.length) (hE : m.m_numEdges = m.m_edges.length) :
    m.resetNodeTables.NodeAdministration.NodeEdgesOk ∧
    m.sameButNodeTables m.resetNodeTables.NodeAdministration := by
  unfold Mesh.NodeAdministration
  simp only [Mesh.GetNumEdges, Mesh.GetNumNodes]
  have hE0 : m.resetNodeTables.m_numEdges = m.m_edges.length := hE
  rw [hE0]
  obtain ⟨hinv, hsym, hsame⟩ := nodeAdministration_loop m hr m.m_edges.length
  generalize (List.range m.m_edges.length).foldl NodeAdministrationStep m.resetNodeTables = s
    at hinv hsym hsame
  obtain ⟨hnodes, hedges, hnumN, hnumE, _⟩ := sameButNodeTables_fields m s hsame
  have hNs : s.m_numNodes = s.m_nodes.length := by rw [hnumN, hnodes]; exact hN
  rw [hNs]
  obtain ⟨tsame, tnum, tlen, tget⟩ := resize_loop s _ hinv s.m_nodes.length (Nat.le_refl _)
  generalize (List.range s.m_nodes.length).foldl resizeNodeEdgesStep s = t
    at tsame tnum tlen tget
  obtain ⟨tnodes, tedges, tnumN, tnumE, _⟩ := sameButNodeTables_fields s t tsame
  have hrecorded : ∀ n, n < s.m_nodes.length → vecGet t.m_nodesEdges n [] = s.recorded n := by
    intro n hn; rw [tget n, if_pos hn]
  have hedge : ∀ e, t.edge e = s.edge e := by
    intro e; unfold Mesh.edge; rw [tedges]
  constructor
  · refine ⟨by rw [tnumN, hNs, tnodes], by rw [tnumE, hnumE, tedges, hedges]; exact hE,
      by rw [tlen, tnodes]; exact hinv.len_edges, by rw [tnum, tnodes]; exact hinv.len_num,
      ?_, ?_, ?_, ?_⟩
    · intro n hn
      rw [tnodes] at hn
      rw [hrecorded n hn, tnum]
      unfold Mesh.recorded
      rw [List.length_take, hinv.slots n hn]
      exact Nat.min_eq_left (hinv.cap n hn)
    · intro n hn
      rw [tnodes] at hn
      rw [tnum]; exact hinv.cap n hn
    · intro n hn
      rw [tnodes] at hn
      rw [hrecorded n hn, tedges, hedges]
      exact RecordedOk_congr s t tedges _ _ _ (hinv.ok n hn)
    · intro n hn e he
      rw [tnodes] at hn
      rw [hrecorded n hn] at he
      rw [hedge]
      have hmem := hsym n hn e he
      have hinc := ((hinv.ok n hn).1 e he).2
      have hlt : OtherNodeOfEdge (s.edge e) n < s.m_nodes.length := by
        have hrs : s.EdgesInRange := by
          unfold Mesh.EdgesInRange
          rw [hnodes, hedges]; exact hr
        obtain ⟨h1, h2⟩ := edge_in_range s hrs e hinc.1
        rcases OtherNodeOfEdge_mem (s.edge e) n with h | h <;> rw [h] <;> assumption
      rw [hrecorded _ hlt]
      exact hmem
  · unfold Mesh.sameButNodeTables at hsame tsame ⊢
    conv_lhs => rw [tsame, hsame]

end meshkernel

namespace meshkernel

/-! ## Stage 4: the angular sort -/

theorem mem_nodesEdges_ok (m : Mesh) (hok : m.NodeEdgesOk) (n : Nat) (hn : n < m.m_nodes.length)
    (e : Nat) (he : e ∈ vecGet m.m_nodesEdges n []) :
    e < m.m_edges.length ∧ edgeIsMissing (m.edge e) = false ∧
      ((m.edge e).1 = n ∨ (m.edge e).2 = n) :=
  (hok.ok n hn).1 e he

/-- The vector `m_edgeAngles` holds the sort key of the edge at each position. -/
theorem edgeAngles_spec (ops : Operations) (m : Mesh) (hok : m.NodeEdgesOk) (node : Nat)
    (hn : node < m.m_nodes.length) :
    (m.edgeAngles ops node).length = maximumNumberOfEdgesPerNode ∧
    ∀ i, vecGet (m.edgeAngles ops node) i 0 =
      if i < vecGet m.m_nodesNumEdges node 0 then
        m.wrappedAngle ops node (vecGet (vecGet m.m_nodesEdges node []) i 0)
      else 0 := by
  have hlen := hok.length_eq node hn
  have hcap := hok.cap node hn
  have key := foldl_range_invariant
    (fun k (s : ℚ × List ℚ) =>
      (0 < k → s.1 = m.edgePhi ops node (vecGet (vecGet m.m_nodesEdges node []) 0 0)) ∧
      s.2.length = maximumNumberOfEdgesPerNode ∧
      ∀ i, vecGet s.2 i 0 =
        if i < k then m.wrappedAngle ops node (vecGet (vecGet m.m_nodesEdges node []) i 0)
        else 0)
    (edgeAngleStep ops m node) (0, List.replicate maximumNumberOfEdgesPerNode 0)
    (vecGet m.m_nodesNumEdges node 0)
    ⟨fun h => absurd h (Nat.lt_irrefl 0), by simp, fun i => by simp [vecGet_replicate]⟩
    (by
      intro k s hk ⟨hphi0, hl, hget⟩
      have hmem : vecGet (vecGet m.m_nodesEdges node []) k 0 ∈ vecGet m.m_nodesEdges node [] :=
        vecGet_mem _ _ _ (by rw [hlen]; exact hk)
      obtain ⟨_, hmiss, _⟩ := mem_nodesEdges_ok m hok node hn _ hmem
      obtain ⟨hm1, hm2⟩ := edgeIsMissing_eq_false.mp hmiss
      have hnot : ¬ ((m.edge (vecGet (vecGet m.m_nodesEdges node []) k 0)).1 = sizetMissingValue ∨
          (m.edge (vecGet (vecGet m.m_nodesEdges node []) k 0)).2 = sizetMissingValue) :=
        fun h => h.elim hm1 hm2
      have hstep : edgeAngleStep ops m node s k =
          ((if k = 0 then m.edgePhi ops node (vecGet (vecGet m.m_nodesEdges node []) k 0) else s.1),
            s.2.set k
              (if m.edgePhi ops node (vecGet (vecGet m.m_nodesEdges node []) k 0) -
                  (if k = 0 then m.edgePhi ops node (vecGet (vecGet m.m_nodesEdges node []) k 0)
                    else s.1) < 0 then
                m.edgePhi ops node (vecGet (vecGet m.m_nodesEdges node []) k 0) -
                  (if k = 0 then m.edgePhi ops node (vecGet (vecGet m.m_nodesEdges node []) k 0)
                    else s.1) + 2 * ops.M_PI
              else m.edgePhi ops node (vecGet (vecGet m.m_nodesEdges node []) k 0) -
                  (if k = 0 then m.edgePhi ops node (vecGet (vecGet m.m_nodesEdges node []) k 0)
                    else s.1))) := by
        unfold edgeAngleStep
        simp only []
        change (if (m.edge (vecGet (vecGet m.m_nodesEdges node []) k 0)).1 = sizetMissingValue ∨
          (m.edge (vecGet (vecGet m.m_nodesEdges node []) k 0)).2 = sizetMissingValue then s
          else _) = _
        rw [if_neg hnot]
        rfl
      have hphi0' : (if k = 0 then m.edgePhi ops node (vecGet (vecGet m.m_nodesEdges node []) k 0)
          else s.1) = m.edgePhi ops node (vecGet (vecGet m.m_nodesEdges node []) 0 0) := by
        by_cases hk0 : k = 0
        · subst hk0; simp
        · rw [if_neg hk0]; exact hphi0 (Nat.pos_of_ne_zero hk0)
      rw [hstep, hphi0']
      refine ⟨fun _ => rfl, by simp [hl], ?_⟩
      intro i
      show vecGet (s.2.set k _) i 0 = _
      rw [vecGet_set, hl]
      by_cases hki : k = i
      · subst hki
        have : k < maximumNumberOfEdgesPerNode := Nat.lt_of_lt_of_le hk hcap
        simp only [this, and_self, if_true, Nat.lt_succ_self]
        rfl
      · rw [if_neg (fun h => hki h.1), hget i]
        by_cases hik : i < k
        · simp [hik, Nat.lt_succ_of_lt hik]
        · have : ¬ i < k + 1 := by omega
          simp [hik, this])
  exact ⟨key.2.1, key.2.2⟩

/-- Writing `f 0, f 1, ...` over the positions of a vector yields the mapped range. -/
theorem foldl_set_range {α : Type} (f : Nat → α) (l : List α) :
    (List.range l.length).foldl (fun acc i => acc.set i (f i)) l = (List.range l.length).map f := by
  have key := foldl_range_invariant
    (fun k (acc : List α) => acc.length = l.length ∧
      ∀ i (hi : i < l.length), acc[i]? = if i < k then some (f i) else l[i]?)
    (fun acc i => acc.set i (f i)) l l.length ⟨rfl, fun i _ => by simp⟩
    (by
      intro k acc hk ⟨hl, hget⟩
      refine ⟨by simp [hl], ?_⟩
      intro i hi
      rw [List.getElem?_set]
      by_cases hki : k = i
      · subst hki
        simp [hl, hk]
      · rw [if_neg hki, hget i hi]
        by_cases hik : i < k
        · simp [hik, Nat.lt_succ_of_lt hik]
        · have : ¬ i < k + 1 := by omega
          simp [hik, this])
  apply List.ext_getElem (by simp [key.1])
  intro i h1 h2
  have hi : i < l.length := by simpa using h2
  have := key.2 i hi
  rw [if_pos hi, List.getElem?_eq_getElem h1] at this
  simpa using this

theorem vecSort_perm {α : Type} (less : α → α → Bool) (v : List α) : (vecSort less v).Perm v :=
  List.perm_insertionSort _ v

/-- Sorting by a key yields a list that is ordered by the key. -/
theorem vecSort_sorted {α : Type} (key : α → ℚ) (v : List α) :
    (vecSort (fun a b => decide (key a < key b)) v).Pairwise (fun a b => key a ≤ key b) := by
  have htot : IsTotal α (fun a b => decide (key b < key a) = false) :=
    ⟨fun a b => by
      simp only [decide_eq_false_iff_not, not_lt]
      exact le_total (key a) (key b)⟩
  have htrans : IsTrans α (fun a b => decide (key b < key a) = false) :=
    ⟨fun a b c hab hbc => by
      simp only [decide_eq_false_iff_not, not_lt] at hab hbc ⊢
      exact le_trans hab hbc⟩
  have := @List.sorted_insertionSort α (fun a b => decide (key b < key a) = false) _ htot htrans v
  unfold vecSort
  refine List.Pairwise.imp ?_ this
  intro a b hab
  simpa using hab

/-- The list that the sort writes back for `node`. -/
theorem sortedList_eq (copy : List Nat) (indices : List Nat) (h : indices.length = copy.length) :
    (List.range copy.length).foldl
      (fun l edgeIndex => l.set edgeIndex (vecGet copy (vecGet indices edgeIndex 0) 0)) copy =
    indices.map (fun i => vecGet copy i 0) := by
  rw [foldl_set_range (fun i => vecGet copy (vecGet indices i 0) 0) copy]
  conv_rhs => rw [← map_vecGet_range indices 0]
  rw [List.map_map, h]
  rfl

/-- `SortEdgesInCounterClockWiseOrder` on a valid node: it returns, the list of the node becomes a
permutation of itself ordered by the sort key, and nothing else but the scratch vector
`m_edgeAngles` changes. -/
theorem SortEdges_spec (ops : Operations) (m : Mesh) (hok : m.NodeEdgesOk) (node : Nat)
    (hn : node < m.m_nodes.length) (hv : (vecGet m.m_nodes node missingPoint).IsValid = true) :
    ∃ l', m.SortEdgesInCounterClockWiseOrder ops node =
        .ok { m with m_edgeAngles := m.edgeAngles ops node,
                     m_nodesEdges := m.m_nodesEdges.set node l' } ∧
      l'.Perm (vecGet m.m_nodesEdges node []) ∧
      l'.Pairwise (fun e₁ e₂ => m.wrappedAngle ops node e₁ ≤ m.wrappedAngle ops node e₂) := by
  have hlen := hok.length_eq node hn
  obtain ⟨_, hang⟩ := edgeAngles_spec ops m hok node hn
  generalize hcopy : vecGet m.m_nodesEdges node [] = copy at hlen hang
  generalize hindices : vecSort
    (fun i1 i2 => decide (vecGet (m.edgeAngles ops node) i1 0 < vecGet (m.edgeAngles ops node) i2 0))
    (List.range copy.length) = indices
  have hperm : indices.Perm (List.range copy.length) := by
    rw [← hindices]; exact vecSort_perm _ _
  have hsorted : indices.Pairwise (fun a b =>
      vecGet (m.edgeAngles ops node) a 0 ≤ vecGet (m.edgeAngles ops node) b 0) := by
    rw [← hindices]
    exact vecSort_sorted (fun i => vecGet (m.edgeAngles ops node) i 0) _
  refine ⟨indices.map (fun i => vecGet copy i 0), ?_, ?_, ?_⟩
  · unfold Mesh.SortEdgesInCounterClockWiseOrder
    simp only [hv, Bool.not_true, Bool.false_eq_true, if_false]
    rw [hcopy, ← hlen, hindices, sortedList_eq copy indices (hperm.length_eq.trans (by simp))]
  · calc indices.map (fun i => vecGet copy i 0)
        |>.Perm ((List.range copy.length).map (fun i => vecGet copy i 0)) := hperm.map _
      _ = copy := map_vecGet_range copy 0
  · rw [List.pairwise_map]
    refine List.Pairwise.imp_of_mem ?_ hsorted
    intro a b ha hb hab
    have ha' : a < copy.length := List.mem_range.mp (hperm.mem_iff.mp ha)
    have hb' : b < copy.length := List.mem_range.mp (hperm.mem_iff.mp hb)
    rw [hang a, hang b, ← hlen, if_pos ha', if_pos hb'] at hab
    exact hab

theorem RecordedOk_perm (m : Mesh) (k n : Nat) (l l' : List Nat) (hp : l'.Perm l)
    (h : m.RecordedOk k n l) : m.RecordedOk k n l' :=
  ⟨fun e he => h.1 e (hp.mem_iff.mp he),
    ((hp.map (fun e => OtherNodeOfEdge (m.edge e) n)).nodup_iff).mpr h.2⟩

/-- Replacing the list of one node by a permutation of itself keeps `NodeEdgesOk`. -/
theorem NodeEdgesOk_set_perm (m : Mesh) (hok : m.NodeEdgesOk) (node : Nat) (l' : List Nat)
    (angles : List ℚ) (hp : l'.Perm (vecGet m.m_nodesEdges node [])) :
    Mesh.NodeEdgesOk { m with m_edgeAngles := angles,
                              m_nodesEdges := m.m_nodesEdges.set node l' } := by
  have hget : ∀ n, (vecGet (m.m_nodesEdges.set node l') n []).Perm (vecGet m.m_nodesEdges n []) := by
    intro n
    rw [vecGet_set]
    split
    · rename_i h; rw [← h.1]; exact hp
    · exact List.Perm.refl _
  refine ⟨hok.numNodes, hok.numEdges, ?_, hok.len_num, ?_, hok.cap, ?_, ?_⟩
  · show (m.m_nodesEdges.set node l').length = _
    rw [List.length_set]; exact hok.len_edges
  · intro n hn
    show (vecGet (m.m_nodesEdges.set node l') n []).length = _
    rw [(hget n).length_eq]; exact hok.length_eq n hn
  · intro n hn
    show m.RecordedOk _ n (vecGet (m.m_nodesEdges.set node l') n [])
    exact RecordedOk_perm m _ n _ _ (hget n) (hok.ok n hn)
  · intro n hn e he
    show e ∈ vecGet (m.m_nodesEdges.set node l') (OtherNodeOfEdge (m.edge e) n) []
    have he' : e ∈ vecGet (m.m_nodesEdges.set node l') n [] := he
    rw [(hget _).mem_iff]
    exact hok.sym n hn e ((hget n).mem_iff.mp he')

/-- Sorting the nodes below `N` succeeds and leaves a mesh that differs from `m` in the node
lists, each permuted, and the scratch angles only. -/
theorem sortNodes_spec (ops : Operations) (m : Mesh) (hok : m.NodeEdgesOk)
    (hvalid : ∀ p ∈ m.m_nodes, p.IsValid = true) (N : Nat) (hN : N ≤ m.m_nodes.length) :
    ∃ m', (List.range N).foldlM (fun m1 n => m1.SortEdgesInCounterClockWiseOrder ops n) m
        = .ok m' ∧ m'.NodeEdgesOk ∧
      m' = { m with m_edgeAngles := m'.m_edgeAngles, m_nodesEdges := m'.m_nodesEdges } ∧
      ∀ n, (vecGet m'.m_nodesEdges n []).Perm (vecGet m.m_nodesEdges n []) := by
  obtain ⟨m', h, _, h2, h3, h4⟩ := foldlM_range_invariant
    (fun k (s : Mesh) => k ≤ N ∧ s.NodeEdgesOk ∧
      s = { m with m_edgeAngles := s.m_edgeAngles, m_nodesEdges := s.m_nodesEdges } ∧
      ∀ n, (vecGet s.m_nodesEdges n []).Perm (vecGet m.m_nodesEdges n []))
    (fun m1 n => m1.SortEdgesInCounterClockWiseOrder ops n) m N
    ⟨Nat.zero_le _, hok, rfl, fun n => List.Perm.refl _⟩
    (by
      intro k m1 hk ⟨_, hok1, hsame1, hperm1⟩
      have hnodes : m1.m_nodes = m.m_nodes := by rw [hsame1]
      have hk1 : k < m1.m_nodes.length := by rw [hnodes]; exact Nat.lt_of_lt_of_le hk hN
      have hv : (vecGet m1.m_nodes k missingPoint).IsValid = true := by
        rw [hnodes]
        exact hvalid _ (vecGet_mem _ _ _ (Nat.lt_of_lt_of_le hk hN))
      obtain ⟨l', hsort, hp, _⟩ := SortEdges_spec ops m1 hok1 k hk1 hv
      refine ⟨_, hsort, hk, NodeEdgesOk_set_perm m1 hok1 k l' (m1.edgeAngles ops k) hp, ?_, ?_⟩
      · congr 1 <;> first | rfl | rw [hsame1]
      · intro n
        show (vecGet (m1.m_nodesEdges.set k l') n []).Perm _
        rw [vecGet_set]
        split
        · rename_i h; rw [← h.1]; exact hp.trans (hperm1 k)
        · exact hperm1 n)
  exact ⟨m', h, h2, h3, h4⟩

end meshkernel

namespace meshkernel

/-! ## The range of the sort key -/

/-- The stand-in for `atan2` ranges over `(-2, 2]`. -/
theorem diamondAngle_range (y x : ℚ) : -2 < diamondAngle y x ∧ diamondAngle y x ≤ 2 := by
  unfold diamondAngle
  by_cases h0 : x = 0 ∧ y = 0
  · rw [if_pos h0]; constructor <;> norm_num
  · rw [if_neg h0]
    by_cases hy : y ≥ 0
    · rw [if_pos hy]
      by_cases hx : x ≥ 0
      · rw [if_pos hx]
        have hpos : 0 < x + y := by
          rcases lt_or_eq_of_le hx with h | h
          · linarith
          · rcases lt_or_eq_of_le hy with h' | h'
            · linarith
            · exact absurd ⟨h.symm, h'.symm⟩ h0
        have h1 : 0 ≤ y / (x + y) := div_nonneg hy hpos.le
        have h2 : y / (x + y) ≤ 1 := (div_le_one hpos).mpr (by linarith)
        constructor <;> linarith
      · rw [if_neg hx]
        have hx' : x < 0 := lt_of_not_ge hx
        have hpos : 0 < -x + y := by linarith
        have h1 : 0 ≤ -x / (-x + y) := div_nonneg (by linarith) hpos.le
        have h2 : -x / (-x + y) ≤ 1 := (div_le_one hpos).mpr (by linarith)
        constructor <;> linarith
    · rw [if_neg hy]
      have hy' : y < 0 := lt_of_not_ge hy
      by_cases hx : x < 0
      · rw [if_pos hx]
        have hpos : 0 < -x - y := by linarith
        have h1 : 0 < -y / (-x - y) := div_pos (by linarith) hpos
        have h2 : -y / (-x - y) ≤ 1 := (div_le_one hpos).mpr (by linarith)
        constructor <;> linarith
      · rw [if_neg hx]
        have hx' : 0 ≤ x := le_of_not_lt hx
        have hpos : 0 < x - y := by linarith
        have h1 : 0 < -y / (x - y) := div_pos (by linarith) hpos
        have h2 : -y / (x - y) ≤ 1 := (div_le_one hpos).mpr (by linarith)
        constructor <;> linarith

/-- The instance `exampleOperations` keeps its angles in `(-M_PI, M_PI]`. -/
theorem exampleOperations_anglesInRange : exampleOperations.AnglesInRange :=
  ⟨by norm_num [exampleOperations], fun y x => diamondAngle_range y x⟩

/-- The angle computed for an edge lies in `(-M_PI, M_PI]`, also under the rule for short edges. -/
theorem edgePhi_range (ops : Operations) (h : ops.AnglesInRange) (m : Mesh) (node e : Nat) :
    -ops.M_PI < m.edgePhi ops node e ∧ m.edgePhi ops node e ≤ ops.M_PI := by
  obtain ⟨hpi, hat⟩ := h
  unfold Mesh.edgePhi
  dsimp only
  split_ifs <;> first | exact hat _ _ | (constructor <;> linarith)

/-- The sort key lies in `[0, 2 * M_PI)`. -/
theorem wrappedAngle_range (ops : Operations) (h : ops.AnglesInRange) (m : Mesh) (node e : Nat) :
    0 ≤ m.wrappedAngle ops node e ∧ m.wrappedAngle ops node e < 2 * ops.M_PI := by
  obtain ⟨h1, h2⟩ := edgePhi_range ops h m node e
  obtain ⟨h3, h4⟩ := edgePhi_range ops h m node (vecGet (vecGet m.m_nodesEdges node []) 0 0)
  obtain ⟨hpi, _⟩ := h
  unfold Mesh.wrappedAngle
  dsimp only
  split
  · constructor <;> linarith
  · constructor <;> linarith

/-- The sort key of the edge that is first at the node is zero. -/
theorem wrappedAngle_first (ops : Operations) (m : Mesh) (node : Nat) :
    m.wrappedAngle ops node (vecGet (vecGet m.m_nodesEdges node []) 0 0) = 0 := by
  unfold Mesh.wrappedAngle
  simp

end meshkernel

namespace meshkernel

/-! ## Stage 6: face discovery -/

theorem sizetSub_eq (a b : Nat) (hb : b ≤ a) (ha : a < 2 ^ 64) : sizetSub a b = a - b := by
  unfold sizetSub
  have hb' : b % 2 ^ 64 = b := Nat.mod_eq_of_lt (Nat.lt_of_le_of_lt hb ha)
  rw [hb']
  have : a + 2 ^ 64 - b = (a - b) + 2 ^ 64 := by omega
  rw [this, Nat.add_mod_right]
  exact Nat.mod_eq_of_lt (Nat.lt_of_le_of_lt (Nat.sub_le a b) ha)

/-- A list ordered by `≤` without two equal neighbours has no duplicates. -/
theorem nodup_of_sorted_neighbours (s : List Nat) (hs : s.Pairwise (fun a b => a ≤ b))
    (hne : ∀ n, n + 1 < s.length → vecGet s (n + 1) 0 ≠ vecGet s n 0) : s.Nodup := by
  induction s with
  | nil => exact List.nodup_nil
  | cons a t ih =>
    rw [List.pairwise_cons] at hs
    have ht : t.Nodup := by
      apply ih hs.2
      intro n hn
      have := hne (n + 1) (by simpa using hn)
      simpa [vecGet] using this
    refine List.nodup_cons.mpr ⟨?_, ht⟩
    intro hmem
    cases t with
    | nil => exact absurd hmem (List.not_mem_nil a)
    | cons b t' =>
      have hab : a ≤ b := hs.1 b (List.mem_cons_self _ _)
      have hne0 : b ≠ a := by
        have := hne 0 (by simp)
        simpa [vecGet] using this
      have hlt : a < b := Nat.lt_of_le_of_ne hab (Ne.symm hne0)
      rcases List.mem_cons.mp hmem with h | h
      · exact absurd h.symm hne0
      · have hbt : b ≤ a := (List.pairwise_cons.mp hs.2).1 a h
        omega

theorem hasEqualNeighbours_false (l : List Nat) (hl : 1 ≤ l.length) (hl' : l.length < 2 ^ 64)
    (h : hasEqualNeighbours (vecSort (fun a b => decide (a < b)) l) = false) : l.Nodup := by
  have hperm := vecSort_perm (fun a b => decide (a < b)) l
  have hsorted : (vecSort (fun a b => decide (a < b)) l).Pairwise (fun a b => a ≤ b) := by
    have := vecSort_sorted (fun a : Nat => (a : ℚ)) l
    have h2 : (fun a b : Nat => decide ((a : ℚ) < (b : ℚ))) = (fun a b => decide (a < b)) := by
      funext a b
      simp
    rw [h2] at this
    refine List.Pairwise.imp ?_ this
    intro a b hab
    exact_mod_cast hab
  rw [← hperm.nodup_iff]
  apply nodup_of_sorted_neighbours _ hsorted
  intro n hn heq
  unfold hasEqualNeighbours at h
  rw [hperm.length_eq] at h hn
  rw [sizetSub_eq _ _ hl hl'] at h
  rw [Bool.eq_false_iff] at h
  apply h
  rw [List.any_eq_true]
  exact ⟨n, List.mem_range.mpr (by omega), by simpa using heq⟩

/-- The two edge tables after the loop "increase m_edgesNumFaces" over distinct edges. -/
theorem increase_fold (es : List Nat) (m : Mesh) (hnd : es.Nodup)
    (hlt : ∀ e ∈ es, e < m.m_edgesNumFaces.length ∧ e < m.m_edgesFaces.length) :
    es.foldl increaseEdgeNumFaces m =
      { m with m_edgesNumFaces := (es.foldl increaseEdgeNumFaces m).m_edgesNumFaces,
               m_edgesFaces := (es.foldl increaseEdgeNumFaces m).m_edgesFaces } ∧
    (es.foldl increaseEdgeNumFaces m).m_edgesNumFaces.length = m.m_edgesNumFaces.length ∧
    (es.foldl increaseEdgeNumFaces m).m_edgesFaces.length = m.m_edgesFaces.length ∧
    (∀ e, vecGet (es.foldl increaseEdgeNumFaces m).m_edgesNumFaces e 0 =
      vecGet m.m_edgesNumFaces e 0 + (if e ∈ es then 1 else 0)) ∧
    (∀ e, vecGet (es.foldl increaseEdgeNumFaces m).m_edgesFaces e [] =
      if e ∈ es then
        (vecGet m.m_edgesFaces e []).set (vecGet m.m_edgesNumFaces e 0) (m.m_numFaces - 1)
      else vecGet m.m_edgesFaces e []) := by
  induction es generalizing m with
  | nil => exact ⟨rfl, rfl, rfl, fun e => by simp, fun e => by simp⟩
  | cons a es ih =>
    rw [List.nodup_cons] at hnd
    obtain ⟨ha, hnd'⟩ := hnd
    have hlt' : ∀ e ∈ es, e < (increaseEdgeNumFaces m a).m_edgesNumFaces.length ∧
        e < (increaseEdgeNumFaces m a).m_edgesFaces.length := by
      intro e he
      have := hlt e (List.mem_cons_of_mem _ he)
      simpa [increaseEdgeNumFaces] using this
    obtain ⟨h1, h2, h3, h4, h5⟩ := ih (increaseEdgeNumFaces m a) hnd' hlt'
    obtain ⟨ha1, ha2⟩ := hlt a (List.mem_cons_self _ _)
    simp only [List.foldl_cons]
    refine ⟨?_, ?_, ?_, ?_, ?_⟩
    · conv_lhs => rw [h1]
      rfl
    · rw [h2]; simp [increaseEdgeNumFaces]
    · rw [h3]; simp [increaseEdgeNumFaces]
    · intro e
      rw [h4 e]
      show vecGet (m.m_edgesNumFaces.set a _) e 0 + _ = _
      rw [vecGet_set]
      by_cases hae : a = e
      · subst hae
        simp [ha1, ha]
      · have : ¬ (a = e ∧ a < m.m_edgesNumFaces.length) := fun h => hae h.1
        rw [if_neg this]
        have hmem : e ∈ a :: es ↔ e ∈ es := by
          simp [List.mem_cons, Ne.symm hae]
        simp only [hmem]
    · intro e
      rw [h5 e]
      by_cases hae : a = e
      · subst hae
        rw [if_neg ha, if_pos (List.mem_cons_self _ _)]
        show vecGet (m.m_edgesFaces.set a _) a [] = _
        rw [vecGet_set]
        simp [ha2]
      · have hmem : e ∈ a :: es ↔ e ∈ es := by
          simp [List.mem_cons, Ne.symm hae]
        have hn1 : vecGet (increaseEdgeNumFaces m a).m_edgesNumFaces e 0 =
            vecGet m.m_edgesNumFaces e 0 := by
          show vecGet (m.m_edgesNumFaces.set a _) e 0 = _
          rw [vecGet_set, if_neg (fun h => hae h.1)]
        have hn2 : vecGet (increaseEdgeNumFaces m a).m_edgesFaces e [] =
            vecGet m.m_edgesFaces e [] := by
          show vecGet (m.m_edgesFaces.set a _) e [] = _
          rw [vecGet_set, if_neg (fun h => hae h.1)]
        rw [hn1, hn2]
        simp only [hmem]
        rfl

theorem vecGet_inj_of_nodup (l : List Nat) (hnd : l.Nodup) (i j : Nat) (hi : i < l.length)
    (hj : j < l.length) (h : vecGet l i 0 = vecGet l j 0) : i = j := by
  rw [vecGet_eq_getElem l i 0 hi, vecGet_eq_getElem l j 0 hj] at h
  exact (hnd.getElem_inj_iff).mp h

theorem vecGet_append_left {α : Type} (l₁ l₂ : List α) (i : Nat) (d : α) (h : i < l₁.length) :
    vecGet (l₁ ++ l₂) i d = vecGet l₁ i d := by
  simp [vecGet, List.getD_eq_getElem?_getD, List.getElem?_append_left h]

theorem vecGet_append_length {α : Type} (l₁ : List α) (a d : α) :
    vecGet (l₁ ++ [a]) l₁.length d = a := by
  simp [vecGet, List.getD_eq_getElem?_getD]

/-- The edges of a cycle through pairwise distinct nodes are pairwise distinct. -/
theorem edges_nodup_of_joins (m : Mesh) (nodes edges : List Nat)
    (hlen : nodes.length = edges.length) (h3 : 3 ≤ nodes.length) (hnd : nodes.Nodup)
    (hj : ∀ i, i < nodes.length →
      m.joins (vecGet edges i 0) (vecGet nodes i 0) (vecGet nodes ((i + 1) % nodes.length) 0)) :
    edges.Nodup := by
  rw [List.nodup_iff_getElem?_ne_getElem?]
  intro i j hij hjl heq
  have hil : i < edges.length := Nat.lt_trans hij hjl
  have hi : i < nodes.length := hlen ▸ hil
  have hjn : j < nodes.length := hlen ▸ hjl
  have he : vecGet edges i 0 = vecGet edges j 0 := by
    rw [vecGet_eq_getElem _ _ _ hil, vecGet_eq_getElem _ _ _ hjl]
    rw [List.getElem?_eq_getElem hil, List.getElem?_eq_getElem hjl] at heq
    exact Option.some.inj heq
  have hmi : (i + 1) % nodes.length < nodes.length := Nat.mod_lt _ (by omega)
  have hmj : (j + 1) % nodes.length < nodes.length := Nat.mod_lt _ (by omega)
  have hi1 : (i + 1) % nodes.length = i + 1 := Nat.mod_eq_of_lt (by omega)
  have inj := vecGet_inj_of_nodup nodes hnd
  have cross : (i + 1) % nodes.length = j → i = (j + 1) % nodes.length → False := by
    intro h1 h2
    rw [hi1] at h1
    by_cases hj1 : j + 1 < nodes.length
    · rw [Nat.mod_eq_of_lt hj1] at h2; omega
    · have : j + 1 = nodes.length := by omega
      rw [this, Nat.mod_self] at h2
      omega
  have ji := hj i hi
  have jj := hj j hjn
  rw [he] at ji
  unfold Mesh.joins at ji jj
  rcases ji with ⟨a1, a2⟩ | ⟨a1, a2⟩ <;> rcases jj with ⟨b1, b2⟩ | ⟨b1, b2⟩
  · have := inj i j hi hjn (a1.symm.trans b1); omega
  · exact cross (inj _ _ hmi hjn (a2.symm.trans b2)) (inj _ _ hi hmj (a1.symm.trans b1))
  · exact cross (inj _ _ hmi hjn (a1.symm.trans b1)) (inj _ _ hi hmj (a2.symm.trans b2))
  · have := inj i j hi hjn (a2.symm.trans b2); omega

theorem FaceOk_edges_nodup {ops : Operations} {m : Mesh} {nodes edges : List Nat}
    (h : m.FaceOk ops nodes edges) : edges.Nodup :=
  edges_nodup_of_joins m nodes edges h.len h.three h.nodup_nodes h.joins

theorem sameButFaceTables_fields (m s : Mesh) (h : m.sameButFaceTables s) :
    s.m_nodes = m.m_nodes ∧ s.m_edges = m.m_edges ∧ s.m_numNodes = m.m_numNodes ∧
    s.m_numEdges = m.m_numEdges ∧ s.m_projection = m.m_projection ∧
    s.m_nodesEdges = m.m_nodesEdges ∧ s.m_nodesNumEdges = m.m_nodesNumEdges := by
  unfold Mesh.sameButFaceTables at h
  refine ⟨?_, ?_, ?_, ?_, ?_, ?_, ?_⟩ <;> (rw [h])

theorem sameButFaceTables_refl (m : Mesh) : m.sameButFaceTables m := rfl

theorem sameButFaceTables_trans (m s t : Mesh) (h1 : m.sameButFaceTables s)
    (h2 : s.sameButFaceTables t) : m.sameButFaceTables t := by
  unfold Mesh.sameButFaceTables at h1 h2 ⊢
  conv_lhs => rw [h2]
  congr 1 <;> first | rfl | rw [h1]

theorem FaceOk_congr (ops : Operations) (m s : Mesh) (hn : s.m_nodes = m.m_nodes)
    (he : s.m_edges = m.m_edges) (hp : s.m_projection = m.m_projection) (nodes edges : List Nat)
    (h : m.FaceOk ops nodes edges) : s.FaceOk ops nodes edges := by
  refine ⟨h.len, h.three, h.six, h.nodup_nodes, ?_, ?_, ?_⟩
  · rw [he]; exact h.edges_lt
  · intro i hi
    have := h.joins i hi
    unfold Mesh.joins Mesh.edge at this ⊢
    rw [he]; exact this
  · have := h.ccw
    unfold Mesh.closedRing at this ⊢
    rw [hn, hp]; exact this

theorem facesOfEdge_append (m : Mesh) (hl : m.m_facesEdges.length = m.m_numFaces) (edges : List Nat)
    (e : Nat) :
    (List.range (m.m_numFaces + 1)).filter
        (fun f => decide (e ∈ vecGet (m.m_facesEdges ++ [edges]) f [])) =
      m.facesOfEdge e ++ (if e ∈ edges then [m.m_numFaces] else []) := by
  rw [List.range_succ, List.filter_append]
  congr 1
  · unfold Mesh.facesOfEdge
    apply List.filter_congr
    intro f hf
    rw [vecGet_append_left _ _ _ _ (by rw [hl]; exact List.mem_range.mp hf)]
  · have : vecGet (m.m_facesEdges ++ [edges]) m.m_numFaces [] = edges := by
      rw [← hl]; exact vecGet_append_length _ _ _
    by_cases he : e ∈ edges
    · simp [List.filter_cons, this, he]
    · simp [List.filter_cons, this, he]

/-- Committing a cycle keeps the invariant of face discovery. -/
theorem commit_inv (ops : Operations) (m : Mesh) (hinv : m.FacesInv ops) (edges nodes : List Nat)
    (hok : m.FaceOk ops nodes edges)
    (hcount : ∀ e ∈ edges, vecGet m.m_edgesNumFaces e 0 < 2)
    (area : ℚ) (centerOfMass : Point) (R : Mesh)
    (hR : R =
      { edges.foldl increaseEdgeNumFaces { m with m_numFaces := m.m_numFaces + 1 } with
        m_facesNodes := (edges.foldl increaseEdgeNumFaces
          { m with m_numFaces := m.m_numFaces + 1 }).m_facesNodes ++ [nodes],
        m_facesEdges := (edges.foldl increaseEdgeNumFaces
          { m with m_numFaces := m.m_numFaces + 1 }).m_facesEdges ++ [edges],
        m_faceArea := (edges.foldl increaseEdgeNumFaces
          { m with m_numFaces := m.m_numFaces + 1 }).m_faceArea ++ [area],
        m_facesMassCenters := (edges.foldl increaseEdgeNumFaces
          { m with m_numFaces := m.m_numFaces + 1 }).m_facesMassCenters ++ [centerOfMass] }) :
    R.FacesInv ops ∧ m.sameButFaceTables R := by
  have hlt0 : ∀ e ∈ edges,
      e < (({ m with m_numFaces := m.m_numFaces + 1 } : Mesh)).m_edgesNumFaces.length ∧
      e < (({ m with m_numFaces := m.m_numFaces + 1 } : Mesh)).m_edgesFaces.length := by
    intro e he
    exact ⟨by rw [show (({ m with m_numFaces := m.m_numFaces + 1 } : Mesh)).m_edgesNumFaces =
        m.m_edgesNumFaces from rfl, hinv.len_numFaces]; exact hok.edges_lt e he,
      by rw [show (({ m with m_numFaces := m.m_numFaces + 1 } : Mesh)).m_edgesFaces =
        m.m_edgesFaces from rfl, hinv.len_edgesFaces]; exact hok.edges_lt e he⟩
  obtain ⟨h1, h2, h3, h4, h5⟩ := increase_fold edges { m with m_numFaces := m.m_numFaces + 1 }
    (FaceOk_edges_nodup hok) hlt0
  generalize edges.foldl increaseEdgeNumFaces { m with m_numFaces := m.m_numFaces + 1 } = m1
    at hR h1 h2 h3 h4 h5
  simp only [Nat.add_sub_cancel] at h5
  have e_nodes : R.m_nodes = m.m_nodes := by rw [hR, h1]
  have e_edges : R.m_edges = m.m_edges := by rw [hR, h1]
  have e_proj : R.m_projection = m.m_projection := by rw [hR, h1]
  have e_numFaces : R.m_numFaces = m.m_numFaces + 1 := by rw [hR, h1]
  have e_fn : R.m_facesNodes = m.m_facesNodes ++ [nodes] := by rw [hR, h1]
  have e_fe : R.m_facesEdges = m.m_facesEdges ++ [edges] := by rw [hR, h1]
  have e_num : R.m_edgesNumFaces = m1.m_edgesNumFaces := by rw [hR]
  have e_ef : R.m_edgesFaces = m1.m_edgesFaces := by rw [hR]
  constructor
  · refine ⟨?_, ?_, ?_, ?_, ?_, ?_, ?_, ?_⟩
    · rw [e_fn, e_numFaces, List.length_append, hinv.len_nodes]; rfl
    · rw [e_fe, e_numFaces, List.length_append, hinv.len_edges]; rfl
    · rw [e_num, e_edges, h2]; exact hinv.len_numFaces
    · rw [e_ef, e_edges, h3]; exact hinv.len_edgesFaces
    · intro e he
      rw [e_edges] at he
      rw [e_ef, h5 e]
      split
      · rw [List.length_set]; exact hinv.slots e he
      · exact hinv.slots e he
    · intro e he
      rw [e_edges] at he
      rw [e_num, h4 e]
      by_cases hmem : e ∈ edges
      · have := hcount e hmem
        show vecGet m.m_edgesNumFaces e 0 + _ ≤ 2
        simp only [hmem, if_true]; omega
      · have := hinv.count_le e he
        show vecGet m.m_edgesNumFaces e 0 + _ ≤ 2
        simp only [hmem, if_false]; omega
    · intro e he
      rw [e_edges] at he
      have hfo : R.facesOfEdge e =
          m.facesOfEdge e ++ (if e ∈ edges then [m.m_numFaces] else []) := by
        unfold Mesh.facesOfEdge
        rw [e_numFaces, e_fe]
        exact facesOfEdge_append m hinv.len_edges edges e
      rw [hfo, e_num, e_ef, h4 e, h5 e]
      show List.take (vecGet m.m_edgesNumFaces e 0 + _) _ = _
      by_cases hmem : e ∈ edges
      · simp only [hmem, if_true]
        rw [take_set_succ _ _ _ (by rw [hinv.slots e he]; exact hcount e hmem), hinv.count e he]
      · simp only [hmem, if_false, Nat.add_zero, List.append_nil]
        exact hinv.count e he
    · intro f hf
      rw [e_numFaces] at hf
      rw [e_fn, e_fe]
      by_cases hfo : f < m.m_numFaces
      · rw [vecGet_append_left _ _ _ _ (by rw [hinv.len_nodes]; exact hfo),
          vecGet_append_left _ _ _ _ (by rw [hinv.len_edges]; exact hfo)]
        exact FaceOk_congr ops m R e_nodes e_edges e_proj _ _ (hinv.faces f hfo)
      · have : f = m.m_numFaces := by omega
        subst this
        have a1 : vecGet (m.m_facesNodes ++ [nodes]) m.m_numFaces [] = nodes := by
          rw [← hinv.len_nodes]; exact vecGet_append_length _ _ _
        have a2 : vecGet (m.m_facesEdges ++ [edges]) m.m_numFaces [] = edges := by
          rw [← hinv.len_edges]; exact vecGet_append_length _ _ _
        rw [a1, a2]
        exact FaceOk_congr ops m R e_nodes e_edges e_proj _ _ hok
  · unfold Mesh.sameButFaceTables
    rw [hR, h1]

end meshkernel

namespace meshkernel

/-- The branch "enclosure found" keeps the invariant of face discovery. -/
theorem encloseFace_inv (ops : Operations) (m : Mesh) (hinv : m.FacesInv ops)
    (edges nodes : List Nat) (hlen : nodes.length = edges.length) (h3 : 3 ≤ nodes.length)
    (h6 : nodes.length ≤ maximumNumberOfEdgesPerFace)
    (hlt : ∀ e ∈ edges, e < m.m_edges.length)
    (hcount : ∀ e ∈ edges, vecGet m.m_edgesNumFaces e 0 < 2)
    (hj : ∀ i, i < nodes.length →
      m.joins (vecGet edges i 0) (vecGet nodes i 0) (vecGet nodes ((i + 1) % nodes.length) 0)) :
    (m.encloseFace ops edges nodes).FacesInv ops ∧
      m.sameButFaceTables (m.encloseFace ops edges nodes) := by
  unfold Mesh.encloseFace
  simp only []
  by_cases c1 : hasEqualNeighbours (vecSort (fun a b => decide (a < b)) nodes) = true
  · rw [if_pos c1]; exact ⟨hinv, rfl⟩
  rw [if_neg c1]
  by_cases c2 : (!(edges.any fun edge => vecGet m.m_edgesNumFaces edge 0 == 0) &&
      hasEqualNeighbours (vecSort (fun a b => decide (a < b))
        (edges.map fun edge => vecGet (vecGet m.m_edgesFaces edge []) 0 0))) = true
  · rw [if_pos c2]; exact ⟨hinv, rfl⟩
  rw [if_neg c2]
  by_cases c3 : (!(ops.FaceAreaAndCenterOfMass (m.closedRing nodes) m.m_projection).2.2) = true
  · rw [if_pos c3]; exact ⟨hinv, rfl⟩
  rw [if_neg c3]
  have hnd : nodes.Nodup := by
    apply hasEqualNeighbours_false nodes (by omega)
    · have : nodes.length ≤ 6 := h6
      have h64 : (6 : Nat) < 2 ^ 64 := by decide
      omega
    · simpa using c1
  have hccw : (ops.FaceAreaAndCenterOfMass (m.closedRing nodes) m.m_projection).2.2 = true := by
    simpa using c3
  exact commit_inv ops m hinv edges nodes ⟨hlen, h3, h6, hnd, hlt, hj, hccw⟩ hcount _ _ _ rfl

theorem joins_other (m : Mesh) (e node : Nat)
    (hinc : (m.edge e).1 = node ∨ (m.edge e).2 = node) :
    m.joins e node (OtherNodeOfEdge (m.edge e) node) := by
  unfold Mesh.joins OtherNodeOfEdge
  by_cases h : node = (m.edge e).1
  · rw [if_pos h]; exact Or.inl ⟨h.symm, rfl⟩
  · rw [if_neg h]
    rcases hinc with h' | h'
    · exact absurd h'.symm h
    · exact Or.inr ⟨rfl, h'⟩

/-- The edge chosen at the next node is one of the edges recorded there. -/
theorem nextEdge_mem (m : Mesh) (hok : m.NodeEdgesOk) (n : Nat) (hn : n < m.m_nodes.length)
    (prev : Nat) (hprev : prev ∈ vecGet m.m_nodesEdges n []) :
    m.nextEdge n prev ∈ vecGet m.m_nodesEdges n [] := by
  have hlen := hok.length_eq n hn
  have hcap : vecGet m.m_nodesNumEdges n 0 ≤ 16 := hok.cap n hn
  have hpos : 0 < vecGet m.m_nodesNumEdges n 0 := by
    rw [← hlen]; exact List.length_pos_of_mem hprev
  have h64 : vecGet m.m_nodesNumEdges n 0 < 2 ^ 64 := by
    have : (16 : Nat) < 2 ^ 64 := by decide
    omega
  unfold Mesh.nextEdge
  simp only []
  generalize hfound : ((List.range (vecGet m.m_nodesNumEdges n 0)).find?
    (fun e => vecGet (vecGet m.m_nodesEdges n []) e 0 == prev)).getD 0 = found
  have hflt : found < vecGet m.m_nodesNumEdges n 0 := by
    rw [← hfound]
    cases hf : (List.range (vecGet m.m_nodesNumEdges n 0)).find?
        (fun e => vecGet (vecGet m.m_nodesEdges n []) e 0 == prev) with
    | none => simpa using hpos
    | some j =>
      have := List.mem_of_find?_eq_some hf
      simpa using List.mem_range.mp this
  apply vecGet_mem
  rw [hlen]
  by_cases h0 : found = 0
  · rw [if_pos h0, sizetSub_eq _ _ hpos h64]; omega
  · rw [if_neg h0, if_neg (by omega : ¬ found > vecGet m.m_nodesNumEdges n 0),
      sizetSub_eq _ _ (by omega) (by omega)]
    omega

theorem NodeEdgesOk_of_same (m s : Mesh) (h : m.sameButFaceTables s) (hok : m.NodeEdgesOk) :
    s.NodeEdgesOk := by
  obtain ⟨h1, h2, h3, h4, _, h6, h7⟩ := sameButFaceTables_fields m s h
  refine ⟨by rw [h3, h1]; exact hok.numNodes, by rw [h4, h2]; exact hok.numEdges,
    by rw [h6, h1]; exact hok.len_edges, by rw [h7, h1]; exact hok.len_num, ?_, ?_, ?_, ?_⟩
  · intro n hn; rw [h1] at hn; rw [h6, h7]; exact hok.length_eq n hn
  · intro n hn; rw [h1] at hn; rw [h7]; exact hok.cap n hn
  · intro n hn; rw [h1] at hn; rw [h6, h2]
    exact RecordedOk_congr m s h2 _ _ _ (hok.ok n hn)
  · intro n hn e he
    rw [h1] at hn
    rw [h6] at he ⊢
    have : s.edge e = m.edge e := by unfold Mesh.edge; rw [h2]
    rw [this]
    exact hok.sym n hn e he

theorem EdgesInRange_of_same (m s : Mesh) (h : m.sameButFaceTables s) (hr : m.EdgesInRange) :
    s.EdgesInRange := by
  obtain ⟨h1, h2, _⟩ := sameButFaceTables_fields m s h
  unfold Mesh.EdgesInRange
  rw [h1, h2]; exact hr

end meshkernel

namespace meshkernel

theorem mem_iff_vecGet (l : List Nat) (e : Nat) : e ∈ l ↔ ∃ i, i < l.length ∧ vecGet l i 0 = e := by
  constructor
  · intro h
    obtain ⟨i, hi, hget⟩ := List.mem_iff_getElem.mp h
    exact ⟨i, hi, by rw [vecGet_eq_getElem l i 0 hi]; exact hget⟩
  · rintro ⟨i, hi, rfl⟩
    exact vecGet_mem l i 0 hi

/-- Every call of `FindFacesRecursive` on a walk returns, keeps the invariant of face discovery
and changes the face tables only. -/
theorem FindFacesRecursive_inv (ops : Operations) (start k : Nat) (h3 : 3 ≤ k)
    (h6 : k ≤ maximumNumberOfEdgesPerFace) :
    ∀ (fuel node index prev : Nat) (s : Mesh × FaceSearch),
      s.1.NodeEdgesOk → s.1.EdgesInRange → s.1.FacesInv ops →
      s.1.Walk start k index node s.2 → prev ∈ vecGet s.1.m_nodesEdges node [] →
      ∃ s', Mesh.FindFacesRecursive ops start k fuel node index prev s = .ok s' ∧
        s.1.sameButFaceTables s'.1 ∧ s'.1.FacesInv ops ∧
        s'.2.edges.length = k ∧ s'.2.nodes.length = k := by
  intro fuel
  induction fuel with
  | zero =>
    intro node index prev s _ _ hinv hw _
    exact ⟨s, rfl, rfl, hinv, hw.len_edges, hw.len_nodes⟩
  | succ fuel ih =>
    intro node index prev s hok hr hinv hw hprev
    have hdone : ∃ s', (Except.ok s : Except MeshError (Mesh × FaceSearch)) = .ok s' ∧
        s.1.sameButFaceTables s'.1 ∧ s'.1.FacesInv ops ∧
        s'.2.edges.length = k ∧ s'.2.nodes.length = k :=
      ⟨s, rfl, rfl, hinv, hw.len_edges, hw.len_nodes⟩
    obtain ⟨hprevlt, hprevok, hprevinc⟩ := mem_nodesEdges_ok s.1 hok node hw.node_lt prev hprev
    unfold Mesh.FindFacesRecursive
    by_cases c0 : index ≥ k
    · rw [if_pos c0]; exact hdone
    rw [if_neg c0]
    have hidx : index < k := Nat.lt_of_not_le c0
    have hnm : ¬ (edgeIsMissing (vecGet s.1.m_edges prev missingEdge) = true) := by
      rw [show vecGet s.1.m_edges prev missingEdge = s.1.edge prev from rfl, hprevok]
      exact Bool.false_ne_true
    rw [if_neg hnm]
    by_cases c1 : vecGet s.1.m_edgesNumFaces prev 0 ≥ 2
    · rw [if_pos c1]; exact hdone
    rw [if_neg c1]
    have hcnt : vecGet s.1.m_edgesNumFaces prev 0 < 2 := Nat.lt_of_not_le c1
    simp only []
    -- the two vectors after the writes at `index`
    have hle : (s.2.edges.set index prev).length = k := by
      rw [List.length_set]; exact hw.len_edges
    have hln : (s.2.nodes.set index node).length = k := by
      rw [List.length_set]; exact hw.len_nodes
    have hge : ∀ i, vecGet (s.2.edges.set index prev) i 0 =
        if i = index then prev else vecGet s.2.edges i 0 := by
      intro i
      rw [vecGet_set, hw.len_edges]
      by_cases h : index = i
      · subst h; simp [hidx]
      · rw [if_neg (fun hh => h hh.1), if_neg (fun hh => h hh.symm)]
    have hgn : ∀ i, vecGet (s.2.nodes.set index node) i 0 =
        if i = index then node else vecGet s.2.nodes i 0 := by
      intro i
      rw [vecGet_set, hw.len_nodes]
      by_cases h : index = i
      · subst h; simp [hidx]
      · rw [if_neg (fun hh => h hh.1), if_neg (fun hh => h hh.symm)]
    have hother : (OtherNodeOfEdge (vecGet s.1.m_edges prev missingEdge) node) =
        OtherNodeOfEdge (s.1.edge prev) node := rfl
    have hjoin := joins_other s.1 prev node hprevinc
    generalize hO : OtherNodeOfEdge (s.1.edge prev) node = otherNode at hjoin
    rw [hother, hO]
    have hOlt : otherNode < s.1.m_nodes.length := by
      obtain ⟨r1, r2⟩ := edge_in_range s.1 hr prev hprevok
      rw [← hO]
      rcases OtherNodeOfEdge_mem (s.1.edge prev) node with h | h <;> rw [h] <;> assumption
    -- the entries up to `index`
    have hsteps : ∀ i, i < index + 1 →
        vecGet (s.2.edges.set index prev) i 0 < s.1.m_edges.length ∧
        vecGet s.1.m_edgesNumFaces (vecGet (s.2.edges.set index prev) i 0) 0 < 2 ∧
        s.1.joins (vecGet (s.2.edges.set index prev) i 0) (vecGet (s.2.nodes.set index node) i 0)
          (if i + 1 < index + 1 then vecGet (s.2.nodes.set index node) (i + 1) 0
            else otherNode) := by
      intro i hi
      rw [hge i, hgn i]
      by_cases hii : i = index
      · subst hii
        simp only [if_true, Nat.lt_irrefl, if_false]
        exact ⟨hprevlt, hcnt, hjoin⟩
      · have hilt : i < index := by omega
        obtain ⟨s1, s2, s3⟩ := hw.steps i hilt
        rw [if_neg hii, if_neg hii, if_pos (by omega : i + 1 < index + 1), hgn (i + 1)]
        refine ⟨s1, s2, ?_⟩
        by_cases hi1 : i + 1 = index
        · rw [if_pos hi1]
          rw [if_neg (by omega : ¬ i + 1 < index)] at s3
          exact s3
        · rw [if_neg hi1]
          rw [if_pos (by omega : i + 1 < index)] at s3
          exact s3
    have hfirst : 0 < index + 1 → vecGet (s.2.nodes.set index node) 0 0 = start := by
      intro _
      rw [hgn 0]
      by_cases h0 : 0 = index
      · rw [if_pos h0]; exact hw.start.1 h0.symm
      · rw [if_neg h0]; exact hw.start.2 (by omega)
    by_cases c2 : otherNode = start ∧ index = sizetSub (s.2.edges.set index prev).length 1
    · -- enclosure found
      rw [if_pos c2]
      obtain ⟨cO, cI⟩ := c2
      have h64 : k < 2 ^ 64 := by
        have : k ≤ 6 := h6
        have : (6 : Nat) < 2 ^ 64 := by decide
        omega
      rw [hle, sizetSub_eq k 1 (by omega) h64] at cI
      have hall : ∀ i, i < k → vecGet (s.2.edges.set index prev) i 0 < s.1.m_edges.length ∧
          vecGet s.1.m_edgesNumFaces (vecGet (s.2.edges.set index prev) i 0) 0 < 2 := by
        intro i hi
        obtain ⟨a, b, _⟩ := hsteps i (by omega)
        exact ⟨a, b⟩
      obtain ⟨e1, e2⟩ := encloseFace_inv ops s.1 hinv (s.2.edges.set index prev)
        (s.2.nodes.set index node) (by rw [hle, hln]) (by rw [hln]; exact h3)
        (by rw [hln]; exact h6)
        (by
          intro e he
          obtain ⟨i, hi, rfl⟩ := (mem_iff_vecGet _ e).mp he
          exact (hall i (hle ▸ hi)).1)
        (by
          intro e he
          obtain ⟨i, hi, rfl⟩ := (mem_iff_vecGet _ e).mp he
          exact (hall i (hle ▸ hi)).2)
        (by
          intro i hi
          rw [hln] at hi ⊢
          obtain ⟨_, _, j⟩ := hsteps i (by omega)
          by_cases hlast : i + 1 < index + 1
          · rw [if_pos hlast] at j
            rw [Nat.mod_eq_of_lt (by omega : i + 1 < k)]
            exact j
          · rw [if_neg hlast] at j
            have : i + 1 = k := by omega
            rw [this, Nat.mod_self, hfirst (by omega), ← cO]
            exact j)
      refine Exists.intro (s.1.encloseFace ops (s.2.edges.set index prev)
        (s.2.nodes.set index node), FaceSearch.mk (s.2.edges.set index prev)
        (s.2.nodes.set index node)) ?_
      dsimp only
      exact ⟨rfl, e2, e1, hle, hln⟩
    · rw [if_neg c2]
      have hw' : s.1.Walk start k (index + 1) otherNode
          ⟨s.2.edges.set index prev, s.2.nodes.set index node⟩ :=
        ⟨hle, hln, hOlt, ⟨fun h => absurd h (Nat.succ_ne_zero index), hfirst⟩, hsteps⟩
      have hmem : prev ∈ vecGet s.1.m_nodesEdges otherNode [] := by
        rw [← hO]; exact hok.sym node hw.node_lt prev hprev
      exact ih otherNode (index + 1) (s.1.nextEdge otherNode prev)
        (s.1, ⟨s.2.edges.set index prev, s.2.nodes.set index node⟩) hok hr hinv hw'
        (nextEdge_mem s.1 hok otherNode hOlt prev hmem)

end meshkernel

namespace meshkernel

/-- One call of `FindFacesRecursive` from the edge loop of `FindFaces`. -/
theorem findFacesEdgeStep_inv (ops : Operations) (m0 : Mesh) (hok : m0.NodeEdgesOk)
    (hr : m0.EdgesInRange) (k : Nat) (h3 : 3 ≤ k) (h6 : k ≤ maximumNumberOfEdgesPerFace)
    (n : Nat) (hn : n < m0.m_nodes.length) (s : Mesh × FaceSearch) (e : Nat)
    (he : e < vecGet m0.m_nodesNumEdges n 0)
    (hs : m0.sameButFaceTables s.1 ∧ s.1.FacesInv ops ∧
      s.2.edges.length = k ∧ s.2.nodes.length = k) :
    ∃ s', findFacesEdgeStep ops k n s e = .ok s' ∧ m0.sameButFaceTables s'.1 ∧
      s'.1.FacesInv ops ∧ s'.2.edges.length = k ∧ s'.2.nodes.length = k := by
  obtain ⟨hsame, hinv, hle, hln⟩ := hs
  obtain ⟨f1, _, _, _, _, f6, f7⟩ := sameButFaceTables_fields m0 s.1 hsame
  have hok' := NodeEdgesOk_of_same m0 s.1 hsame hok
  have hr' := EdgesInRange_of_same m0 s.1 hsame hr
  have hn' : n < s.1.m_nodes.length := by rw [f1]; exact hn
  have hw : s.1.Walk n k 0 n s.2 :=
    ⟨hle, hln, hn', ⟨fun _ => rfl, fun h => absurd h (Nat.lt_irrefl 0)⟩,
      fun i hi => absurd hi (Nat.not_lt_zero i)⟩
  have hmem : vecGet (vecGet s.1.m_nodesEdges n []) e 0 ∈ vecGet s.1.m_nodesEdges n [] := by
    apply vecGet_mem
    rw [hok'.length_eq n hn', f7]; exact he
  obtain ⟨s', h1, h2, h3', h4, h5⟩ := FindFacesRecursive_inv ops n k h3 h6 (k + 1) n 0
    (vecGet (vecGet s.1.m_nodesEdges n []) e 0) s hok' hr' hinv hw hmem
  exact ⟨s', h1, sameButFaceTables_trans m0 s.1 s'.1 hsame h2, h3', h4, h5⟩

/-- One pass of the node loop of `FindFaces`. -/
theorem findFacesNodeStep_inv (ops : Operations) (m0 : Mesh) (hok : m0.NodeEdgesOk)
    (hr : m0.EdgesInRange) (k : Nat) (h3 : 3 ≤ k) (h6 : k ≤ maximumNumberOfEdgesPerFace)
    (n : Nat) (hn : n < m0.m_nodes.length) (s : Mesh × FaceSearch)
    (hs : m0.sameButFaceTables s.1 ∧ s.1.FacesInv ops ∧
      s.2.edges.length = k ∧ s.2.nodes.length = k) :
    ∃ s', findFacesNodeStep ops k s n = .ok s' ∧ m0.sameButFaceTables s'.1 ∧
      s'.1.FacesInv ops ∧ s'.2.edges.length = k ∧ s'.2.nodes.length = k := by
  unfold findFacesNodeStep
  split
  · exact ⟨s, rfl, hs⟩
  · obtain ⟨_, _, _, _, _, _, f7⟩ := sameButFaceTables_fields m0 s.1 hs.1
    rw [f7]
    obtain ⟨s', h1, _, h2⟩ := foldlM_range_invariant
      (fun j (t : Mesh × FaceSearch) => j ≤ vecGet m0.m_nodesNumEdges n 0 ∧
        (m0.sameButFaceTables t.1 ∧ t.1.FacesInv ops ∧
          t.2.edges.length = k ∧ t.2.nodes.length = k))
      (findFacesEdgeStep ops k n) s (vecGet m0.m_nodesNumEdges n 0) ⟨Nat.zero_le _, hs⟩
      (by
        intro j t hj ⟨_, ht⟩
        obtain ⟨t', a, b⟩ := findFacesEdgeStep_inv ops m0 hok hr k h3 h6 n hn t j hj ht
        exact ⟨t', a, hj, b⟩)
    exact ⟨s', h1, h2⟩

/-- One pass of the outer loop of `FindFaces`. -/
theorem findFacesSizeStep_inv (ops : Operations) (m0 : Mesh) (hok : m0.NodeEdgesOk)
    (hr : m0.EdgesInRange) (k : Nat) (h3 : 3 ≤ k) (h6 : k ≤ maximumNumberOfEdgesPerFace)
    (m : Mesh) (hm : m0.sameButFaceTables m ∧ m.FacesInv ops) :
    ∃ m', findFacesSizeStep ops m k = .ok m' ∧ m0.sameButFaceTables m' ∧ m'.FacesInv ops := by
  obtain ⟨_, _, f3, _⟩ := sameButFaceTables_fields m0 m hm.1
  unfold findFacesSizeStep
  obtain ⟨s', h1, _, h2, h3', _⟩ := foldlM_range_invariant
    (fun j (t : Mesh × FaceSearch) => j ≤ m0.m_nodes.length ∧
      (m0.sameButFaceTables t.1 ∧ t.1.FacesInv ops ∧
        t.2.edges.length = k ∧ t.2.nodes.length = k))
    (findFacesNodeStep ops k) (m, ⟨List.replicate k 0, List.replicate k 0⟩) m0.m_nodes.length
    ⟨Nat.zero_le _, hm.1, hm.2, by simp, by simp⟩
    (by
      intro j t hj ⟨_, ht⟩
      obtain ⟨t', a, b⟩ := findFacesNodeStep_inv ops m0 hok hr k h3 h6 j hj t ht
      exact ⟨t', a, hj, b⟩)
  have hN : m.GetNumNodes = m0.m_nodes.length := by
    unfold Mesh.GetNumNodes; rw [f3]; exact hok.numNodes
  rw [hN, h1]
  exact ⟨s'.1, rfl, h2, h3'⟩

theorem FacesInv_numFacesNodes (ops : Operations) (m : Mesh) (h : m.FacesInv ops) (l : List Nat) :
    Mesh.FacesInv ops { m with m_numFacesNodes := l } :=
  ⟨h.len_nodes, h.len_edges, h.len_numFaces, h.len_edgesFaces, h.slots,
    h.count_le, h.count, fun f hf =>
      FaceOk_congr ops m { m with m_numFacesNodes := l } rfl rfl rfl _ _ (h.faces f hf)⟩

/-- `FindFaces` returns, keeps the invariant of face discovery and changes the face tables
only. -/
theorem FindFaces_inv (ops : Operations) (m0 : Mesh) (hok : m0.NodeEdgesOk)
    (hr : m0.EdgesInRange) (hinv : m0.FacesInv ops) :
    ∃ m1, m0.sameButFaceTables m1 ∧ m1.FacesInv ops ∧
      m0.FindFaces ops = .ok { m1 with
        m_numFacesNodes :=
          (List.range m1.m_numFaces).map (fun f => (vecGet m1.m_facesNodes f []).length) } := by
  unfold Mesh.FindFaces
  obtain ⟨m1, h1, h2, h3⟩ := foldlM_invariant
    (fun m : Mesh => m0.sameButFaceTables m ∧ m.FacesInv ops) (findFacesSizeStep ops)
    (List.range' 3 (maximumNumberOfEdgesPerFace + 1 - 3)) m0 ⟨rfl, hinv⟩
    (by
      intro m k hk hm
      have hk' : k ∈ [3, 4, 5, 6] := hk
      have h36 : 3 ≤ k ∧ k ≤ maximumNumberOfEdgesPerFace := by
        simp only [List.mem_cons, List.mem_singleton, List.not_mem_nil, or_false] at hk'
        unfold maximumNumberOfEdgesPerFace
        omega
      exact findFacesSizeStep_inv ops m0 hok hr k h36.1 h36.2 m hm)
  rw [h1]
  exact ⟨m1, h2, h3, rfl⟩

end meshkernel

namespace meshkernel

/-! ## `Administrate` -/

theorem FacesInv_congr (ops : Operations) (m s : Mesh) (h : m.FacesInv ops)
    (e1 : s.m_nodes = m.m_nodes) (e2 : s.m_edges = m.m_edges)
    (e3 : s.m_projection = m.m_projection) (e4 : s.m_numFaces = m.m_numFaces)
    (e5 : s.m_edgesNumFaces = m.m_edgesNumFaces) (e6 : s.m_edgesFaces = m.m_edgesFaces)
    (e7 : s.m_facesNodes = m.m_facesNodes) (e8 : s.m_facesEdges = m.m_facesEdges) :
    s.FacesInv ops := by
  refine ⟨by rw [e7, e4]; exact h.len_nodes, by rw [e8, e4]; exact h.len_edges,
    by rw [e5, e2]; exact h.len_numFaces, by rw [e6, e2]; exact h.len_edgesFaces, ?_, ?_, ?_, ?_⟩
  · intro e he; rw [e2] at he; rw [e6]; exact h.slots e he
  · intro e he; rw [e2] at he; rw [e5]; exact h.count_le e he
  · intro e he
    rw [e2] at he
    have : s.facesOfEdge e = m.facesOfEdge e := by
      unfold Mesh.facesOfEdge; rw [e4, e8]
    rw [e5, e6, this]; exact h.count e he
  · intro f hf
    rw [e4] at hf
    rw [e7, e8]
    exact FaceOk_congr ops m s e1 e2 e3 _ _ (h.faces f hf)

theorem NodeEdgesOk_congr (m s : Mesh) (h : m.NodeEdgesOk)
    (e1 : s.m_nodes = m.m_nodes) (e2 : s.m_edges = m.m_edges)
    (e3 : s.m_numNodes = m.m_numNodes) (e4 : s.m_numEdges = m.m_numEdges)
    (e5 : s.m_nodesEdges = m.m_nodesEdges) (e6 : s.m_nodesNumEdges = m.m_nodesNumEdges) :
    s.NodeEdgesOk := by
  refine ⟨by rw [e3, e1]; exact h.numNodes, by rw [e4, e2]; exact h.numEdges,
    by rw [e5, e1]; exact h.len_edges, by rw [e6, e1]; exact h.len_num, ?_, ?_, ?_, ?_⟩
  · intro n hn; rw [e1] at hn; rw [e5, e6]; exact h.length_eq n hn
  · intro n hn; rw [e1] at hn; rw [e6]; exact h.cap n hn
  · intro n hn; rw [e1] at hn; rw [e5, e2]
    exact RecordedOk_congr m s e2 _ _ _ (h.ok n hn)
  · intro n hn e he
    rw [e1] at hn
    rw [e5] at he ⊢
    have : s.edge e = m.edge e := by unfold Mesh.edge; rw [e2]
    rw [this]
    exact h.sym n hn e he

theorem sameButGeometry_refl (m : Mesh) : m.sameButGeometry m := rfl

theorem sameButGeometry_trans (m s t : Mesh) (h1 : m.sameButGeometry s)
    (h2 : s.sameButGeometry t) : m.sameButGeometry t := by
  unfold Mesh.sameButGeometry at h1 h2 ⊢
  conv_lhs => rw [h2]
  congr 1 <;> first | rfl | rw [h1]

theorem faceGeometryStep_same (ops : Operations) (c : Bool) (m : Mesh) (f : Nat) :
    m.sameButGeometry (faceGeometryStep ops c m f) := by
  unfold faceGeometryStep Mesh.sameButGeometry
  simp only []
  cases c <;> simp only [Bool.false_eq_true, if_false, if_true] <;> split <;> rfl

theorem ComputeFaceCircumcentersMassCentersAndAreas_same (ops : Operations) (m : Mesh)
    (c : Bool) : m.sameButGeometry (m.ComputeFaceCircumcentersMassCentersAndAreas ops c) := by
  unfold Mesh.ComputeFaceCircumcentersMassCentersAndAreas
  simp only []
  apply foldl_invariant (fun s : Mesh => m.sameButGeometry s)
  · rfl
  · intro s f _ hs
    exact sameButGeometry_trans m s _ hs (faceGeometryStep_same ops c s f)

theorem classifyEdgeStep_same (m : Mesh) (e : Nat) : m.sameButGeometry (classifyEdgeStep m e) := by
  unfold classifyEdgeStep Mesh.sameButGeometry
  simp only []
  split
  · rfl
  split
  · rfl
  split <;> split <;> rfl

theorem classifyNodeStep_same (ops : Operations) (m : Mesh) (n : Nat) :
    m.sameButGeometry (classifyNodeStep ops m n) := by
  unfold classifyNodeStep Mesh.sameButGeometry
  simp only []
  repeat' split
  all_goals rfl

theorem ClassifyNodes_same (ops : Operations) (m : Mesh) :
    m.sameButGeometry (m.ClassifyNodes ops) := by
  unfold Mesh.ClassifyNodes
  simp only []
  apply foldl_invariant (fun s : Mesh => m.sameButGeometry s)
  · apply foldl_invariant (fun s : Mesh => m.sameButGeometry s)
    · rfl
    · intro s e _ hs
      exact sameButGeometry_trans m s _ hs (classifyEdgeStep_same s e)
  · intro s n _ hs
    exact sameButGeometry_trans m s _ hs (classifyNodeStep_same ops s n)

theorem sameButGeometry_fields (m s : Mesh) (h : m.sameButGeometry s) :
    s.m_nodes = m.m_nodes ∧ s.m_edges = m.m_edges ∧ s.m_projection = m.m_projection ∧
    s.m_numNodes = m.m_numNodes ∧ s.m_numEdges = m.m_numEdges ∧ s.m_numFaces = m.m_numFaces ∧
    s.m_nodesEdges = m.m_nodesEdges ∧ s.m_nodesNumEdges = m.m_nodesNumEdges ∧
    s.m_edgesNumFaces = m.m_edgesNumFaces ∧ s.m_edgesFaces = m.m_edgesFaces ∧
    s.m_facesNodes = m.m_facesNodes ∧ s.m_facesEdges = m.m_facesEdges ∧
    s.m_numFacesNodes = m.m_numFacesNodes := by
  unfold Mesh.sameButGeometry at h
  refine ⟨?_, ?_, ?_, ?_, ?_, ?_, ?_, ?_, ?_, ?_, ?_, ?_, ?_⟩ <;> (rw [h])

end meshkernel

namespace meshkernel

/-- The mesh after stage 1: all nodes and edges are valid, the edges are in range and the counts
are the lengths. -/
theorem stage1_facts (m : Mesh) (hr : m.EdgesInRange) (hn : m.m_nodes.length ≤ sizetMissingValue) :
    (∀ p ∈ m.DeleteInvalidNodesAndEdges.m_nodes, p.IsValid = true) ∧
    (∀ e ∈ m.DeleteInvalidNodesAndEdges.m_edges, edgeIsMissing e = false ∧
      e.1 < m.DeleteInvalidNodesAndEdges.m_nodes.length ∧
      e.2 < m.DeleteInvalidNodesAndEdges.m_nodes.length) ∧
    m.DeleteInvalidNodesAndEdges.m_numNodes = m.DeleteInvalidNodesAndEdges.m_nodes.length ∧
    m.DeleteInvalidNodesAndEdges.m_numEdges = m.DeleteInvalidNodesAndEdges.m_edges.length := by
  rw [DeleteInvalidNodesAndEdges_eq m hr hn]
  refine ⟨?_, ?_, rfl, rfl⟩
  · intro p hp
    simp only [Mesh.survivingNodes, List.mem_map, List.mem_filter] at hp
    obtain ⟨k, ⟨_, hk⟩, rfl⟩ := hp
    simp only [Mesh.nodeSurvives, Bool.and_eq_true] at hk
    exact hk.1
  · intro e he
    simp only [Mesh.survivingEdges, List.mem_map, List.mem_filter] at he
    obtain ⟨e0, ⟨_, hs⟩, rfl⟩ := he
    have hmiss := edgeIsMissing_remap m hn e0 hs
    simp only [Mesh.edgeSurvives, Bool.and_eq_true] at hs
    exact ⟨hmiss, remap_lt_survivors m _ hs.1.2, remap_lt_survivors m _ hs.2⟩

theorem refreshTrees_fields (ops : Operations) (m : Mesh) :
    (m.refreshTrees ops).m_nodes = m.m_nodes ∧ (m.refreshTrees ops).m_edges = m.m_edges ∧
    (m.refreshTrees ops).m_numNodes = m.m_numNodes ∧
    (m.refreshTrees ops).m_numEdges = m.m_numEdges := by
  unfold Mesh.refreshTrees Mesh.ComputeEdgesCenters
  simp only []
  split <;> split <;> exact ⟨rfl, rfl, rfl, rfl⟩

theorem resetFaceTables_inv (ops : Operations) (m : Mesh) : m.resetFaceTables.FacesInv ops := by
  refine ⟨rfl, rfl, by simp [Mesh.resetFaceTables], by simp [Mesh.resetFaceTables], ?_, ?_, ?_, ?_⟩
  · intro e he
    have he' : e < m.m_edges.length := he
    simp [Mesh.resetFaceTables, vecGet_replicate, he']
  · intro e _
    simp [Mesh.resetFaceTables, vecGet_replicate]
  · intro e he
    have he' : e < m.m_edges.length := he
    simp [Mesh.resetFaceTables, Mesh.facesOfEdge, vecGet_replicate, he']
  · intro f hf
    exact absurd hf (Nat.not_lt_zero f)

/-- The part of `Administrate` after stage 1 and the refresh of the spatial indices, on a mesh
that holds nodes and edges. -/
theorem administrate_tail (ops : Operations) (m1 : Mesh)
    (hvalid : ∀ p ∈ m1.m_nodes, p.IsValid = true)
    (hedges : ∀ e ∈ m1.m_edges, edgeIsMissing e = false ∧
      e.1 < m1.m_nodes.length ∧ e.2 < m1.m_nodes.length)
    (hN : m1.m_numNodes = m1.m_nodes.length) (hE : m1.m_numEdges = m1.m_edges.length) :
    ∃ m2, (m1.resetNodeTables.NodeAdministration).sortAllNodes ops = .ok m2 ∧
      m2.AdministeredEdges ∧ m2.m_nodes = m1.m_nodes ∧ m2.m_edges = m1.m_edges ∧
      ∃ m3, m2.resetFaceTables.FindFaces ops = .ok m3 ∧
        ((m3.ComputeFaceCircumcentersMassCentersAndAreas ops true).ClassifyNodes
          ops).AdministeredFaces ops ∧
        ((m3.ComputeFaceCircumcentersMassCentersAndAreas ops true).ClassifyNodes ops).m_nodes
          = m1.m_nodes ∧
        ((m3.ComputeFaceCircumcentersMassCentersAndAreas ops true).ClassifyNodes ops).m_edges
          = m1.m_edges := by
  have hr1 : m1.EdgesInRange := fun e he => ⟨fun _ => (hedges e he).2.1, fun _ => (hedges e he).2.2⟩
  obtain ⟨hokA, hsameA⟩ := NodeAdministration_ok m1 hr1 hN hE
  obtain ⟨a1, a2, a3, a4, _⟩ := sameButNodeTables_fields m1 _ hsameA
  generalize m1.resetNodeTables.NodeAdministration = mA at hokA hsameA a1 a2 a3 a4
  unfold Mesh.sortAllNodes
  have hNA : mA.GetNumNodes = mA.m_nodes.length := hokA.numNodes
  rw [hNA]
  obtain ⟨m2, hsort, hok2, hsame2, _⟩ := sortNodes_spec ops mA hokA
    (by rw [a1]; exact hvalid) mA.m_nodes.length (Nat.le_refl _)
  have b1 : m2.m_nodes = m1.m_nodes := by rw [hsame2]; exact a1
  have b2 : m2.m_edges = m1.m_edges := by rw [hsame2]; exact a2
  have hr2 : m2.EdgesInRange := by
    unfold Mesh.EdgesInRange; rw [b1, b2]; exact hr1
  have hadm2 : m2.AdministeredEdges :=
    ⟨by rw [b1]; exact hvalid, by rw [b2]; exact fun e he => (hedges e he).1, hr2, hok2⟩
  refine ⟨m2, hsort, hadm2, b1, b2, ?_⟩
  -- faces
  have hokR : m2.resetFaceTables.NodeEdgesOk :=
    NodeEdgesOk_congr m2 _ hok2 rfl rfl rfl rfl rfl rfl
  have hrR : m2.resetFaceTables.EdgesInRange := hr2
  obtain ⟨mF, hsameF, hinvF, hfind⟩ := FindFaces_inv ops m2.resetFaceTables hokR hrR
    (resetFaceTables_inv ops m2)
  obtain ⟨f1, f2, f3, f4, f5, f6, f7⟩ := sameButFaceTables_fields _ mF hsameF
  refine ⟨_, hfind, ?_⟩
  generalize hm3 : ({ mF with
    m_numFacesNodes :=
      (List.range mF.m_numFaces).map (fun f => (vecGet mF.m_facesNodes f []).length) } : Mesh)
    = m3
  have g : m3.sameButGeometry
      ((m3.ComputeFaceCircumcentersMassCentersAndAreas ops true).ClassifyNodes ops) :=
    sameButGeometry_trans _ _ _ (ComputeFaceCircumcentersMassCentersAndAreas_same ops m3 true)
      (ClassifyNodes_same ops _)
  obtain ⟨g1, g2, g3, g4, g5, g6, g7, g8, g9, g10, g11, g12, g13⟩ := sameButGeometry_fields _ _ g
  generalize (m3.ComputeFaceCircumcentersMassCentersAndAreas ops true).ClassifyNodes ops = m4
    at g g1 g2 g3 g4 g5 g6 g7 g8 g9 g10 g11 g12 g13
  have c1 : m3.m_nodes = m1.m_nodes := by rw [← hm3]; exact f1.trans b1
  have c2 : m3.m_edges = m1.m_edges := by rw [← hm3]; exact f2.trans b2
  have hinv3 : m3.FacesInv ops := by
    rw [← hm3]; exact FacesInv_numFacesNodes ops mF hinvF _
  have hok3 : m3.NodeEdgesOk := by
    rw [← hm3]
    exact NodeEdgesOk_congr m2 _ hok2 (f1.trans rfl) (f2.trans rfl) (f3.trans rfl) (f4.trans rfl)
      (f6.trans rfl) (f7.trans rfl)
  have hnum3 : m3.m_numFacesNodes =
      (List.range m3.m_numFaces).map (fun f => (vecGet m3.m_facesNodes f []).length) := by
    rw [← hm3]
  refine ⟨⟨⟨?_, ?_, ?_, ?_⟩, ?_, ?_⟩, g1.trans c1, g2.trans c2⟩
  · rw [g1, c1]; exact hvalid
  · rw [g2, c2]; exact fun e he => (hedges e he).1
  · unfold Mesh.EdgesInRange; rw [g1, g2, c1, c2]; exact hr1
  · exact NodeEdgesOk_congr m3 m4 hok3 g1 g2 g4 g5 g7 g8
  · exact FacesInv_congr ops m3 m4 hinv3 g1 g2 g3 g6 g9 g10 g11 g12
  · rw [g13, g6, g11]; exact hnum3

end meshkernel

namespace meshkernel

/-- `Administrate` with faces returns; the mesh it leaves holds the surviving nodes and edges with
their counts and, unless no node or no edge is left, satisfies the invariants of an administered
mesh. -/
theorem Administrate_faces_ok (ops : Operations) (m : Mesh) (hr : m.EdgesInRange)
    (hn : m.m_nodes.length ≤ sizetMissingValue) :
    ∃ m', m.Administrate ops AdministrationOptions.AdministrateMeshEdgesAndFaces = .ok m' ∧
      m'.m_nodes = m.survivingNodes ∧ m'.m_edges = m.survivingEdges ∧
      m'.m_numNodes = m'.m_nodes.length ∧ m'.m_numEdges = m'.m_edges.length ∧
      (∀ e ∈ m'.m_edges, edgeIsMissing e = false ∧
        e.1 < m'.m_nodes.length ∧ e.2 < m'.m_nodes.length) ∧
      ((m'.m_numNodes = 0 ∨ m'.m_numEdges = 0) ∨ m'.AdministeredFaces ops) := by
  obtain ⟨s1, s2, s3, s4⟩ := stage1_facts m hr hn
  have hnodes : m.DeleteInvalidNodesAndEdges.m_nodes = m.survivingNodes := by
    rw [DeleteInvalidNodesAndEdges_eq m hr hn]
  have hedges : m.DeleteInvalidNodesAndEdges.m_edges = m.survivingEdges := by
    rw [DeleteInvalidNodesAndEdges_eq m hr hn]
  obtain ⟨r1, r2, r3, r4⟩ := refreshTrees_fields ops m.DeleteInvalidNodesAndEdges
  unfold Mesh.Administrate
  simp only []
  generalize (m.DeleteInvalidNodesAndEdges).refreshTrees ops = m1 at r1 r2 r3 r4
  by_cases hempty : m1.m_numNodes = 0 ∨ m1.m_numEdges = 0
  · rw [if_pos hempty]
    exact ⟨m1, rfl, r1.trans hnodes, r2.trans hedges, by rw [r3, r1]; exact s3,
      by rw [r4, r2]; exact s4, by rw [r1, r2]; exact s2, Or.inl hempty⟩
  · rw [if_neg hempty]
    obtain ⟨m2, h2, _, _, _, m3, h3, hadm, n4, e4⟩ := administrate_tail ops m1
      (by rw [r1]; exact s1) (by rw [r1, r2]; exact s2) (by rw [r3, r1]; exact s3)
      (by rw [r4, r2]; exact s4)
    rw [h2]
    simp only []
    rw [h3]
    refine ⟨_, rfl, n4.trans (r1.trans hnodes), e4.trans (r2.trans hedges),
      hadm.edges.nodeEdges.numNodes, hadm.edges.nodeEdges.numEdges, ?_, Or.inr hadm⟩
    rw [n4, e4, r1, r2]; exact s2

/-- `Administrate` without faces returns; the mesh it leaves holds the surviving nodes and edges
and, unless no node or no edge is left, its node tables are in order. -/
theorem Administrate_edges_ok (ops : Operations) (m : Mesh) (hr : m.EdgesInRange)
    (hn : m.m_nodes.length ≤ sizetMissingValue) :
    ∃ m', m.Administrate ops AdministrationOptions.AdministrateMeshEdges = .ok m' ∧
      m'.m_nodes = m.survivingNodes ∧ m'.m_edges = m.survivingEdges ∧
      ((m'.m_numNodes = 0 ∨ m'.m_numEdges = 0) ∨ m'.AdministeredEdges) := by
  obtain ⟨s1, s2, s3, s4⟩ := stage1_facts m hr hn
  have hnodes : m.DeleteInvalidNodesAndEdges.m_nodes = m.survivingNodes := by
    rw [DeleteInvalidNodesAndEdges_eq m hr hn]
  have hedges : m.DeleteInvalidNodesAndEdges.m_edges = m.survivingEdges := by
    rw [DeleteInvalidNodesAndEdges_eq m hr hn]
  obtain ⟨r1, r2, r3, r4⟩ := refreshTrees_fields ops m.DeleteInvalidNodesAndEdges
  unfold Mesh.Administrate
  simp only []
  generalize (m.DeleteInvalidNodesAndEdges).refreshTrees ops = m1 at r1 r2 r3 r4
  by_cases hempty : m1.m_numNodes = 0 ∨ m1.m_numEdges = 0
  · rw [if_pos hempty]
    exact ⟨m1, rfl, r1.trans hnodes, r2.trans hedges, Or.inl hempty⟩
  · rw [if_neg hempty]
    obtain ⟨m2, h2, hadm, n2, e2, _⟩ := administrate_tail ops m1
      (by rw [r1]; exact s1) (by rw [r1, r2]; exact s2) (by rw [r3, r1]; exact s3)
      (by rw [r4, r2]; exact s4)
    rw [h2]
    exact ⟨m2, rfl, n2.trans (r1.trans hnodes), e2.trans (r2.trans hedges), Or.inr hadm⟩

/-- A mesh left without nodes is left without edges. -/
theorem numEdges_zero_of_empty (m' : Mesh)
    (hN : m'.m_numNodes = m'.m_nodes.length) (hE : m'.m_numEdges = m'.m_edges.length)
    (hr : ∀ e ∈ m'.m_edges, edgeIsMissing e = false ∧
      e.1 < m'.m_nodes.length ∧ e.2 < m'.m_nodes.length)
    (h : m'.m_numNodes = 0 ∨ m'.m_numEdges = 0) : m'.m_numEdges = 0 := by
  rcases h with h | h
  · rw [hE]
    cases hedges : m'.m_edges with
    | nil => rfl
    | cons e es =>
      have := (hr e (by rw [hedges]; exact List.mem_cons_self _ _)).2.1
      rw [← hN, h] at this
      exact absurd this (Nat.not_lt_zero _)
  · exact h

theorem vecGet_map_range {α : Type} (g : Nat → α) (N f : Nat) (d : α) (hf : f < N) :
    vecGet ((List.range N).map g) f d = g f := by
  rw [vecGet_eq_getElem _ _ _ (by simpa using hf)]
  simp

/-- The ring that `ComputeFaceClosedPolygon` forms for a face is the closed ring of its node
cycle. -/
theorem ComputeFaceClosedPolygon_eq (m : Mesh) (f : Nat)
    (h : m.GetNumFaceEdges f = (vecGet m.m_facesNodes f []).length) :
    m.ComputeFaceClosedPolygon f = m.closedRing (vecGet m.m_facesNodes f []) := by
  unfold Mesh.ComputeFaceClosedPolygon Mesh.closedRing
  simp only []
  rw [h]
  have : (List.range (vecGet m.m_facesNodes f []).length).map
      (fun n => vecGet m.m_nodes (vecGet (vecGet m.m_facesNodes f []) n 0) missingPoint) =
      (vecGet m.m_facesNodes f []).map (fun node => vecGet m.m_nodes node missingPoint) := by
    conv_rhs => rw [← map_vecGet_range (vecGet m.m_facesNodes f []) 0]
    rw [List.map_map]
    rfl
  rw [this]

end meshkernel

namespace meshkernel

/-! ## Stage 1 on a mesh with nothing to remove -/

theorem nothingToDelete_spec (m : Mesh) (h : m.nothingToDelete = true) :
    (∀ e ∈ m.m_edges, edgeIsMissing e = false ∧ e.1 < m.m_nodes.length ∧ e.2 < m.m_nodes.length) ∧
    (∀ k, k < m.m_nodes.length → m.nodeConnected k = true) := by
  unfold Mesh.nothingToDelete at h
  rw [Bool.and_eq_true, List.all_eq_true, List.all_eq_true] at h
  refine ⟨fun e he => ?_, fun k hk => h.2 k (List.mem_range.mpr hk)⟩
  have := h.1 e he
  simp only [Bool.and_eq_true, Bool.not_eq_true', decide_eq_true_eq] at this
  exact ⟨this.1.1, this.1.2, this.2⟩

theorem nothingToDelete_inRange (m : Mesh) (h : m.nothingToDelete = true) : m.EdgesInRange :=
  fun e he => ⟨fun _ => ((nothingToDelete_spec m h).1 e he).2.1,
    fun _ => ((nothingToDelete_spec m h).1 e he).2.2⟩

/-- Stage 1 on a mesh whose nodes are valid and connected and whose edges are valid: only the two
counts are set. -/
theorem DeleteInvalidNodesAndEdges_nothingToDelete (m : Mesh)
    (hvalid : ∀ p ∈ m.m_nodes, p.IsValid = true) (hclean : m.nothingToDelete = true)
    (hn : m.m_nodes.length ≤ sizetMissingValue) :
    m.DeleteInvalidNodesAndEdges =
      { m with m_numNodes := m.m_nodes.length, m_numEdges := m.m_edges.length } := by
  obtain ⟨hedges, hconn⟩ := nothingToDelete_spec m hclean
  have hsurv : ∀ k, k < m.m_nodes.length → m.nodeSurvives k = true := by
    intro k hk
    unfold Mesh.nodeSurvives
    rw [hvalid _ (vecGet_mem _ _ _ hk), hconn k hk]
    rfl
  have hnodes : m.survivingNodes = m.m_nodes := by
    unfold Mesh.survivingNodes
    rw [List.filter_eq_self.mpr (fun k hk => hsurv k (List.mem_range.mp hk))]
    exact map_vecGet_range _ _
  have hremap : ∀ k, k ≤ m.m_nodes.length → m.remap k = k := by
    intro k hk
    unfold Mesh.remap
    rw [List.countP_eq_length.mpr
      (fun i hi => hsurv i (Nat.lt_of_lt_of_le (List.mem_range.mp hi) hk))]
    simp
  have hedges' : m.survivingEdges = m.m_edges := by
    unfold Mesh.survivingEdges
    rw [List.filter_eq_self.mpr (fun e he => by
      obtain ⟨h1, h2, h3⟩ := hedges e he
      unfold Mesh.edgeSurvives
      rw [h1, hsurv _ h2, hsurv _ h3]
      rfl)]
    conv_rhs => rw [← List.map_id m.m_edges]
    apply List.map_congr_left
    intro e he
    obtain ⟨_, h2, h3⟩ := hedges e he
    rw [hremap _ h2.le, hremap _ h3.le]
    rfl
  rw [DeleteInvalidNodesAndEdges_eq m (nothingToDelete_inRange m hclean) hn, hnodes, hedges']

/-! ## The skeleton through the node tables -/

theorem skeleton_length (m : Mesh) : m.skeleton.m_nodes.length = m.m_nodes.length := by
  simp [Mesh.skeleton]

theorem NodeAdministrationStep_skeleton (m : Mesh) (e : Nat) :
    (NodeAdministrationStep m e).skeleton = NodeAdministrationStep m.skeleton e := by
  unfold NodeAdministrationStep
  simp only [Mesh.alreadyAddedEdge, Mesh.addEdgeToNode, Mesh.skeleton]
  split_ifs <;> rfl

theorem resizeNodeEdgesStep_skeleton (m : Mesh) (n : Nat) :
    (resizeNodeEdgesStep m n).skeleton = resizeNodeEdgesStep m.skeleton n := rfl

theorem foldl_skeleton (f : Mesh → Nat → Mesh)
    (h : ∀ m x, (f m x).skeleton = f m.skeleton x) (l : List Nat) (m : Mesh) :
    (l.foldl f m).skeleton = l.foldl f m.skeleton := by
  induction l generalizing m with
  | nil => rfl
  | cons a l ih => simp only [List.foldl_cons]; rw [ih, h]

theorem NodeAdministration_skeleton (m : Mesh) :
    m.NodeAdministration.skeleton = m.skeleton.NodeAdministration := by
  unfold Mesh.NodeAdministration
  simp only []
  rw [foldl_skeleton _ resizeNodeEdgesStep_skeleton, foldl_skeleton _ NodeAdministrationStep_skeleton]
  have h1 : m.GetNumEdges = m.skeleton.GetNumEdges := rfl
  have h2 : ∀ s : Mesh, s.GetNumNodes = s.skeleton.GetNumNodes := fun _ => rfl
  rw [h2, foldl_skeleton _ NodeAdministrationStep_skeleton, ← h1]

theorem resetNodeTables_skeleton (m : Mesh) :
    m.resetNodeTables.skeleton = m.skeleton.resetNodeTables := by
  unfold Mesh.resetNodeTables
  rw [skeleton_length]
  rfl

theorem resetFaceTables_skeleton (m : Mesh) :
    m.resetFaceTables.skeleton = m.skeleton.resetFaceTables := rfl

end meshkernel

namespace meshkernel

/-! ## The angular sort at a node with two edges -/

theorem set_vecGet_self {α : Type} (l : List α) (i : Nat) (d : α) :
    l.set i (vecGet l i d) = l := by
  apply eq_of_vecGet_eq _ _ d (by simp)
  intro j _
  rw [vecGet_set]
  split
  · rename_i hc; rw [hc.1]
  · rfl

/-- At a node with two edges the sort leaves the list of the node as it is: the key of the first
edge is zero and no key is negative. -/
theorem SortEdges_two (ops : Operations) (hangles : ops.AnglesInRange) (m : Mesh)
    (hok : m.NodeEdgesOk) (node : Nat) (hn : node < m.m_nodes.length)
    (hv : (vecGet m.m_nodes node missingPoint).IsValid = true)
    (h2 : vecGet m.m_nodesNumEdges node 0 = 2) :
    m.SortEdgesInCounterClockWiseOrder ops node =
      .ok { m with m_edgeAngles := m.edgeAngles ops node } := by
  have hlen := hok.length_eq node hn
  rw [h2] at hlen
  obtain ⟨_, hang⟩ := edgeAngles_spec ops m hok node hn
  have hk0 : vecGet (m.edgeAngles ops node) 0 0 = 0 := by
    rw [hang 0, h2, if_pos (by decide), wrappedAngle_first]
  have hk1 : 0 ≤ vecGet (m.edgeAngles ops node) 1 0 := by
    rw [hang 1, h2, if_pos (by decide)]
    exact (wrappedAngle_range ops hangles m node _).1
  have hidx : vecSort (fun i1 i2 =>
      decide (vecGet (m.edgeAngles ops node) i1 0 < vecGet (m.edgeAngles ops node) i2 0))
      (List.range 2) = [0, 1] := by
    have hr : List.range 2 = [0, 1] := rfl
    rw [hr]
    unfold vecSort
    simp only [List.insertionSort, List.orderedInsert]
    rw [if_pos]
    simp only [decide_eq_false_iff_not, not_lt, hk0]
    exact hk1
  have hcopy : (List.range 2).foldl
      (fun l edgeIndex => l.set edgeIndex (vecGet (vecGet m.m_nodesEdges node []) (vecGet [0, 1] edgeIndex 0) 0))
      (vecGet m.m_nodesEdges node []) = vecGet m.m_nodesEdges node [] := by
    generalize vecGet m.m_nodesEdges node [] = copy at hlen
    match copy, hlen with
    | [a, b], _ => rfl
  unfold Mesh.SortEdgesInCounterClockWiseOrder
  simp only [hv, Bool.not_true, Bool.false_eq_true, if_false]
  rw [h2, hidx, hcopy, set_vecGet_self]

/-- Sorting the nodes of a mesh all of whose nodes have two edges changes the scratch angles
only. -/
theorem sortAllNodes_two (ops : Operations) (hangles : ops.AnglesInRange) (m : Mesh)
    (hok : m.NodeEdgesOk) (hvalid : ∀ p ∈ m.m_nodes, p.IsValid = true)
    (h2 : ∀ n, n < m.m_nodes.length → vecGet m.m_nodesNumEdges n 0 = 2) :
    ∃ m', m.sortAllNodes ops = .ok m' ∧ m' = { m with m_edgeAngles := m'.m_edgeAngles } := by
  unfold Mesh.sortAllNodes Mesh.GetNumNodes
  have hrange : List.range m.m_numNodes = List.range m.m_nodes.length := by rw [hok.numNodes]
  rw [hrange]
  obtain ⟨m', h, h'⟩ := foldlM_range_invariant
    (fun _ (s : Mesh) => s = { m with m_edgeAngles := s.m_edgeAngles })
    (fun m1 n => m1.SortEdgesInCounterClockWiseOrder ops n) m m.m_nodes.length rfl
    (by
      intro k s hk hs
      have hnodes : s.m_nodes = m.m_nodes := by rw [hs]
      have hnum : s.m_nodesNumEdges = m.m_nodesNumEdges := by rw [hs]
      have hoks : s.NodeEdgesOk := by
        rw [hs]
        exact ⟨hok.numNodes, hok.numEdges, hok.len_edges, hok.len_num, hok.length_eq, hok.cap,
          hok.ok, hok.sym⟩
      refine ⟨_, SortEdges_two ops hangles s hoks k (by rw [hnodes]; exact hk)
        (by rw [hnodes]; exact hvalid _ (vecGet_mem _ _ _ hk))
        (by rw [hnum]; exact h2 k hk), ?_⟩
      congr 1 <;> first | rfl | rw [hs])
  exact ⟨m', h, h'⟩

end meshkernel

namespace meshkernel

/-! ## Face discovery with answers from a table agrees with `FindFaces` -/

/-- Two folds, one with exceptions and one with missing results, run in step while a relation
holds between their states. -/
theorem foldlM_sim {σ τ α ε : Type} (R : σ → τ → Prop) (f : σ → α → Except ε σ)
    (g : τ → α → Option τ) (l : List α)
    (hstep : ∀ a, a ∈ l → ∀ s t t', R s t → g t a = some t' → ∃ s', f s a = .ok s' ∧ R s' t') :
    ∀ s t t', R s t → l.foldlM g t = some t' → ∃ s', l.foldlM f s = .ok s' ∧ R s' t' := by
  induction l with
  | nil =>
    intro s t t' hR h
    have : t = t' := by simpa using h
    subst this
    exact ⟨s, rfl, hR⟩
  | cons a l ih =>
    intro s t t' hR h
    rw [List.foldlM_cons] at h
    cases hg : g t a with
    | none => rw [hg] at h; exact absurd h (by simp)
    | some t1 =>
      rw [hg] at h
      obtain ⟨s1, hs1, hR1⟩ := hstep a (List.mem_cons_self _ _) s t t1 hR hg
      obtain ⟨s', hs', hR'⟩ := ih (fun b hb => hstep b (List.mem_cons_of_mem _ hb)) s1 t1 t' hR1 h
      refine ⟨s', ?_, hR'⟩
      rw [List.foldlM_cons, hs1]
      exact hs'

theorem increaseEdgeNumFaces_skeleton (m : Mesh) (e : Nat) :
    (increaseEdgeNumFaces m e).skeleton = increaseEdgeNumFaces m.skeleton e := rfl

theorem increase_fold_nodes (es : List Nat) (m : Mesh) :
    (es.foldl increaseEdgeNumFaces m).m_nodes = m.m_nodes ∧
    (es.foldl increaseEdgeNumFaces m).m_projection = m.m_projection :=
  foldl_invariant (fun (s : Mesh) => s.m_nodes = m.m_nodes ∧ s.m_projection = m.m_projection)
    increaseEdgeNumFaces es m ⟨rfl, rfl⟩ (fun _ _ _ h => ⟨h.1, h.2⟩)

theorem encloseFaceBy_sound (ops : Operations) (answers : List Nat → Option Bool) (m0 : Mesh)
    (hor : ∀ ns b, answers ns = some b →
      (ops.FaceAreaAndCenterOfMass (m0.closedRing ns) m0.m_projection).2.2 = b)
    (s : Mesh) (hn : s.m_nodes = m0.m_nodes) (hp : s.m_projection = m0.m_projection)
    (edges nodes : List Nat) (t : Mesh)
    (h : s.skeleton.encloseFaceBy answers edges nodes = some t) :
    m0.tracks (s.encloseFace ops edges nodes) t := by
  have hring : s.closedRing nodes = m0.closedRing nodes := by
    unfold Mesh.closedRing; rw [hn]
  unfold Mesh.encloseFaceBy at h
  unfold Mesh.encloseFace
  simp only [] at h ⊢
  by_cases c1 : hasEqualNeighbours (vecSort (fun a b => decide (a < b)) nodes) = true
  · rw [if_pos c1] at h ⊢
    exact ⟨Option.some.inj h, hn, hp⟩
  rw [if_neg c1] at h ⊢
  by_cases c2 : (!(edges.any (fun edge => vecGet s.m_edgesNumFaces edge 0 == 0)) &&
      hasEqualNeighbours (vecSort (fun a b => decide (a < b))
        (edges.map (fun edge => vecGet (vecGet s.m_edgesFaces edge []) 0 0)))) = true
  · have c2' : (!(edges.any (fun edge => vecGet s.skeleton.m_edgesNumFaces edge 0 == 0)) &&
        hasEqualNeighbours (vecSort (fun a b => decide (a < b))
          (edges.map (fun edge => vecGet (vecGet s.skeleton.m_edgesFaces edge []) 0 0)))) = true :=
      c2
    rw [if_pos c2'] at h
    rw [if_pos c2]
    exact ⟨Option.some.inj h, hn, hp⟩
  have c2' : ¬ (!(edges.any (fun edge => vecGet s.skeleton.m_edgesNumFaces edge 0 == 0)) &&
      hasEqualNeighbours (vecSort (fun a b => decide (a < b))
        (edges.map (fun edge => vecGet (vecGet s.skeleton.m_edgesFaces edge []) 0 0)))) = true :=
    c2
  rw [if_neg c2'] at h
  rw [if_neg c2]
  cases ha : answers nodes with
  | none => rw [ha] at h; exact absurd h (by simp)
  | some b =>
    rw [ha] at h
    have hb : (ops.FaceAreaAndCenterOfMass (s.closedRing nodes) s.m_projection).2.2 = b := by
      rw [hring, hp]; exact hor nodes b ha
    rw [hb]
    simp only [] at h
    cases b with
    | false =>
      simp only [Bool.not_false, if_true] at h ⊢
      exact ⟨Option.some.inj h, hn, hp⟩
    | true =>
      simp only [Bool.not_true, Bool.false_eq_true, if_false] at h ⊢
      have h' := Option.some.inj h
      have hfold : (edges.foldl increaseEdgeNumFaces
            { s with m_numFaces := s.m_numFaces + 1 }).skeleton =
          edges.foldl increaseEdgeNumFaces
            { s.skeleton with m_numFaces := s.skeleton.m_numFaces + 1 } :=
        foldl_skeleton increaseEdgeNumFaces increaseEdgeNumFaces_skeleton edges
          { s with m_numFaces := s.m_numFaces + 1 }
      obtain ⟨hn1, hp1⟩ := increase_fold_nodes edges { s with m_numFaces := s.m_numFaces + 1 }
      refine ⟨Eq.trans ?_ h', hn1.trans hn, hp1.trans hp⟩
      generalize edges.foldl increaseEdgeNumFaces { s with m_numFaces := s.m_numFaces + 1 } = m1
        at hfold
      generalize edges.foldl increaseEdgeNumFaces
        { s.skeleton with m_numFaces := s.skeleton.m_numFaces + 1 } = m1' at hfold
      subst hfold
      rfl

/-- Every call of `FindFacesRecursive` returns what the table run returns. -/
theorem FindFacesRecursiveBy_sound (ops : Operations) (answers : List Nat → Option Bool)
    (m0 : Mesh)
    (hor : ∀ ns b, answers ns = some b →
      (ops.FaceAreaAndCenterOfMass (m0.closedRing ns) m0.m_projection).2.2 = b)
    (start k : Nat) :
    ∀ (fuel node index prev : Nat) (s t r : Mesh × FaceSearch),
      m0.tracks s.1 t.1 → s.2 = t.2 →
      Mesh.FindFacesRecursiveBy answers start k fuel node index prev t = some r →
      ∃ s', Mesh.FindFacesRecursive ops start k fuel node index prev s = .ok s' ∧
        m0.tracks s'.1 r.1 ∧ s'.2 = r.2 := by
  intro fuel
  induction fuel with
  | zero =>
    intro node index prev s t r htr hfs h
    have h' : t = r := Option.some.inj h
    subst h'
    exact ⟨s, rfl, htr, hfs⟩
  | succ fuel ih =>
    intro node index prev s t r htr hfs h
    obtain ⟨hsk, hn, hp⟩ := htr
    have e1 : t.1.m_edges = s.1.m_edges := by rw [← hsk]; rfl
    have e2 : t.1.m_edgesNumFaces = s.1.m_edgesNumFaces := by rw [← hsk]; rfl
    have e3 : ∀ a b, t.1.nextEdge a b = s.1.nextEdge a b := by
      intro a b; rw [← hsk]; rfl
    unfold Mesh.FindFacesRecursiveBy at h
    unfold Mesh.FindFacesRecursive
    rw [e1, e2] at h
    have hdone : some t = some r →
        ∃ s', (Except.ok s : Except MeshError (Mesh × FaceSearch)) = .ok s' ∧
          m0.tracks s'.1 r.1 ∧ s'.2 = r.2 := by
      intro h
      have h' : t = r := Option.some.inj h
      subst h'
      exact ⟨s, rfl, ⟨hsk, hn, hp⟩, hfs⟩
    by_cases c0 : index ≥ k
    · rw [if_pos c0] at h ⊢; exact hdone h
    rw [if_neg c0] at h ⊢
    by_cases c1 : edgeIsMissing (vecGet s.1.m_edges prev missingEdge) = true
    · rw [if_pos c1] at h; exact absurd h (by simp)
    rw [if_neg c1] at h ⊢
    by_cases c2 : vecGet s.1.m_edgesNumFaces prev 0 ≥ 2
    · rw [if_pos c2] at h ⊢; exact hdone h
    rw [if_neg c2] at h ⊢
    simp only [] at h ⊢
    rw [e3, ← hfs] at h
    by_cases c3 : OtherNodeOfEdge (vecGet s.1.m_edges prev missingEdge) node = start ∧
        index = sizetSub (s.2.edges.set index prev).length 1
    · rw [if_pos c3] at h ⊢
      cases he : t.1.encloseFaceBy answers (s.2.edges.set index prev)
          (s.2.nodes.set index node) with
      | none => rw [he] at h; exact absurd h (by simp)
      | some t' =>
        rw [he] at h
        have h' := Option.some.inj h
        subst h'
        rw [← hsk] at he
        have htr' := encloseFaceBy_sound ops answers m0 hor s.1 hn hp _ _ t' he
        refine Exists.intro (s.1.encloseFace ops (s.2.edges.set index prev)
          (s.2.nodes.set index node),
          FaceSearch.mk (s.2.edges.set index prev) (s.2.nodes.set index node)) ?_
        dsimp only
        exact ⟨rfl, htr', rfl⟩
    · rw [if_neg c3] at h ⊢
      exact ih _ _ _ (s.1, FaceSearch.mk (s.2.edges.set index prev) (s.2.nodes.set index node))
        (t.1, FaceSearch.mk (s.2.edges.set index prev) (s.2.nodes.set index node)) r
        ⟨hsk, hn, hp⟩ rfl h

end meshkernel

namespace meshkernel

/-! ## The loops of `FindFaces` against the table run -/

theorem findFacesEdgeStepBy_sound (ops : Operations) (answers : List Nat → Option Bool)
    (m0 : Mesh)
    (hor : ∀ ns b, answers ns = some b →
      (ops.FaceAreaAndCenterOfMass (m0.closedRing ns) m0.m_projection).2.2 = b)
    (k n e : Nat) (s t t' : Mesh × FaceSearch) (hR : m0.tracks s.1 t.1 ∧ s.2 = t.2)
    (h : findFacesEdgeStepBy answers k n t e = some t') :
    ∃ s', findFacesEdgeStep ops k n s e = .ok s' ∧ m0.tracks s'.1 t'.1 ∧ s'.2 = t'.2 := by
  unfold findFacesEdgeStepBy at h
  unfold findFacesEdgeStep
  have e1 : t.1.m_nodesEdges = s.1.m_nodesEdges := by rw [← hR.1.1]; rfl
  rw [e1] at h
  exact FindFacesRecursiveBy_sound ops answers m0 hor n k _ _ _ _ s t t' hR.1 hR.2 h

theorem findFacesNodeStepBy_sound (ops : Operations) (answers : List Nat → Option Bool)
    (m0 : Mesh) (hvalid : ∀ p ∈ m0.m_nodes, p.IsValid = true)
    (hor : ∀ ns b, answers ns = some b →
      (ops.FaceAreaAndCenterOfMass (m0.closedRing ns) m0.m_projection).2.2 = b)
    (k n : Nat) (s t t' : Mesh × FaceSearch) (hR : m0.tracks s.1 t.1 ∧ s.2 = t.2)
    (h : findFacesNodeStepBy answers k t n = some t') :
    ∃ s', findFacesNodeStep ops k s n = .ok s' ∧ m0.tracks s'.1 t'.1 ∧ s'.2 = t'.2 := by
  unfold findFacesNodeStepBy at h
  unfold findFacesNodeStep
  have e1 : t.1.m_nodesNumEdges = s.1.m_nodesNumEdges := by rw [← hR.1.1]; rfl
  have e2 : t.1.m_nodes.length = m0.m_nodes.length := by
    rw [← hR.1.1, skeleton_length, hR.1.2.1]
  rw [e1, e2] at h
  by_cases hn : n < m0.m_nodes.length
  · rw [if_pos hn] at h
    have hv : (vecGet s.1.m_nodes n missingPoint).IsValid = true := by
      rw [hR.1.2.1]; exact hvalid _ (vecGet_mem _ _ _ hn)
    rw [hv]
    simp only [Bool.not_true, Bool.false_eq_true, if_false]
    exact foldlM_sim (fun (a b : Mesh × FaceSearch) => m0.tracks a.1 b.1 ∧ a.2 = b.2)
      (findFacesEdgeStep ops k n) (findFacesEdgeStepBy answers k n) _
      (fun e _ a b b' hab hb => findFacesEdgeStepBy_sound ops answers m0 hor k n e a b b' hab hb)
      s t t' hR h
  · rw [if_neg hn] at h
    exact absurd h (by simp)

theorem findFacesSizeStepBy_sound (ops : Operations) (answers : List Nat → Option Bool)
    (m0 : Mesh) (hvalid : ∀ p ∈ m0.m_nodes, p.IsValid = true)
    (hor : ∀ ns b, answers ns = some b →
      (ops.FaceAreaAndCenterOfMass (m0.closedRing ns) m0.m_projection).2.2 = b)
    (k : Nat) (s t t' : Mesh) (hR : m0.tracks s t)
    (h : findFacesSizeStepBy answers t k = some t') :
    ∃ s', findFacesSizeStep ops s k = .ok s' ∧ m0.tracks s' t' := by
  unfold findFacesSizeStepBy at h
  unfold findFacesSizeStep
  have e1 : t.GetNumNodes = s.GetNumNodes := by rw [← hR.1]; rfl
  rw [e1] at h
  cases hf : (List.range s.GetNumNodes).foldlM (findFacesNodeStepBy answers k)
      (t, ⟨List.replicate k 0, List.replicate k 0⟩) with
  | none => rw [hf] at h; exact absurd h (by simp)
  | some tp =>
    rw [hf] at h
    have h' := Option.some.inj h
    obtain ⟨sp, hsp, hRp⟩ := foldlM_sim
      (fun (a b : Mesh × FaceSearch) => m0.tracks a.1 b.1 ∧ a.2 = b.2)
      (findFacesNodeStep ops k) (findFacesNodeStepBy answers k) _
      (fun n _ a b b' hab hb =>
        findFacesNodeStepBy_sound ops answers m0 hvalid hor k n a b b' hab hb)
      (s, ⟨List.replicate k 0, List.replicate k 0⟩)
      (t, ⟨List.replicate k 0, List.replicate k 0⟩) tp ⟨hR, rfl⟩ hf
    rw [hsp]
    refine ⟨sp.1, rfl, ?_⟩
    rw [← h']
    exact hRp.1

/-- `FindFaces` returns, and its result has the tables of the table run. -/
theorem FindFacesBy_sound (ops : Operations) (answers : List Nat → Option Bool)
    (m0 : Mesh) (hvalid : ∀ p ∈ m0.m_nodes, p.IsValid = true)
    (hor : ∀ ns b, answers ns = some b →
      (ops.FaceAreaAndCenterOfMass (m0.closedRing ns) m0.m_projection).2.2 = b)
    (s t t' : Mesh) (hR : m0.tracks s t) (h : t.FindFacesBy answers = some t') :
    ∃ s', s.FindFaces ops = .ok s' ∧ m0.tracks s' t' := by
  unfold Mesh.FindFacesBy at h
  unfold Mesh.FindFaces
  cases hf : (List.range' 3 (maximumNumberOfEdgesPerFace + 1 - 3)).foldlM
      (findFacesSizeStepBy answers) t with
  | none => rw [hf] at h; exact absurd h (by simp)
  | some t1 =>
    rw [hf] at h
    have h' := Option.some.inj h
    obtain ⟨s1, hs1, hR1⟩ := foldlM_sim (fun (a b : Mesh) => m0.tracks a b)
      (findFacesSizeStep ops) (findFacesSizeStepBy answers) _
      (fun k _ a b b' hab hb =>
        findFacesSizeStepBy_sound ops answers m0 hvalid hor k a b b' hab hb)
      s t t1 hR hf
    rw [hs1]
    refine ⟨_, rfl, ?_, hR1.2.1, hR1.2.2⟩
    rw [← h', ← hR1.1]
    rfl

end meshkernel

namespace meshkernel

/-! ## The skeleton through the geometry of the faces and the node types -/

theorem faceGeometryStep_skeleton (ops : Operations) (c : Bool) (m : Mesh) (f : Nat) :
    (faceGeometryStep ops c m f).skeleton = m.skeleton := by
  unfold faceGeometryStep
  simp only []
  cases c <;> simp only [Bool.false_eq_true, if_false, if_true] <;> split <;> rfl

/-- The geometry of the faces leaves the skeleton as it is. -/
theorem ComputeFaceCircumcentersMassCentersAndAreas_skeleton (ops : Operations) (m : Mesh)
    (c : Bool) : (m.ComputeFaceCircumcentersMassCentersAndAreas ops c).skeleton = m.skeleton := by
  unfold Mesh.ComputeFaceCircumcentersMassCentersAndAreas
  simp only []
  apply foldl_invariant (fun s : Mesh => s.skeleton = m.skeleton)
  · rfl
  · intro s f _ hs
    rw [faceGeometryStep_skeleton, hs]

theorem classifyEdgeStep_skeleton (m : Mesh) (e : Nat) :
    (classifyEdgeStep m e).skeleton = classifyEdgeStep m.skeleton e := by
  unfold classifyEdgeStep
  simp only [Mesh.IsEdgeOnBoundary, Mesh.skeleton]
  split_ifs <;> rfl

/-- At a node with two edges the classification does not read the coordinates. -/
theorem classifyNodeStep_skeleton (ops ops' : Operations) (m : Mesh) (n : Nat)
    (h2 : vecGet m.m_nodesNumEdges n 0 = 2) :
    (classifyNodeStep ops m n).skeleton = classifyNodeStep ops' m.skeleton n := by
  unfold classifyNodeStep
  simp only [Mesh.skeleton, h2]
  split_ifs <;> rfl

theorem foldl_skeleton_on (f g : Mesh → Nat → Mesh) (P : Mesh → Prop) (Q : Nat → Prop)
    (hP : ∀ m x, P m → P (f m x))
    (h : ∀ m x, P m → Q x → (f m x).skeleton = g m.skeleton x)
    (l : List Nat) (hl : ∀ x ∈ l, Q x) (m : Mesh) (hm : P m) :
    (l.foldl f m).skeleton = l.foldl g m.skeleton := by
  induction l generalizing m with
  | nil => rfl
  | cons a l ih =>
    simp only [List.foldl_cons]
    rw [ih (fun x hx => hl x (List.mem_cons_of_mem _ hx)) _ (hP m a hm),
      h m a hm (hl a (List.mem_cons_self _ _))]

theorem classify_skeleton (ops ops' : Operations) (m : Mesh)
    (h2 : ∀ n, n < m.m_numNodes → vecGet m.m_nodesNumEdges n 0 = 2) :
    ((List.range ((List.range m.GetNumEdges).foldl classifyEdgeStep m).GetNumNodes).foldl
      (classifyNodeStep ops) ((List.range m.GetNumEdges).foldl classifyEdgeStep m)).skeleton =
    (List.range ((List.range m.GetNumEdges).foldl classifyEdgeStep m.skeleton).GetNumNodes).foldl
      (classifyNodeStep ops') ((List.range m.GetNumEdges).foldl classifyEdgeStep m.skeleton) := by
  have hedge := foldl_skeleton classifyEdgeStep classifyEdgeStep_skeleton
    (List.range m.GetNumEdges) m
  have hsame : m.sameButGeometry ((List.range m.GetNumEdges).foldl classifyEdgeStep m) := by
    apply foldl_invariant (fun s : Mesh => m.sameButGeometry s)
    · rfl
    · intro s e _ hs
      exact sameButGeometry_trans m s _ hs (classifyEdgeStep_same s e)
  obtain ⟨_, _, _, hnum, _, _, _, hdeg, _⟩ := sameButGeometry_fields m _ hsame
  rw [← hedge]
  generalize (List.range m.GetNumEdges).foldl classifyEdgeStep m = m1 at hnum hdeg
  have hnum' : m1.skeleton.GetNumNodes = m1.GetNumNodes := rfl
  rw [hnum']
  exact foldl_skeleton_on (classifyNodeStep ops) (classifyNodeStep ops')
    (fun s => s.m_nodesNumEdges = m.m_nodesNumEdges)
    (fun n => vecGet m.m_nodesNumEdges n 0 = 2)
    (fun s x hs => by
      obtain ⟨_, _, _, _, _, _, _, hd, _⟩ :=
        sameButGeometry_fields s _ (classifyNodeStep_same ops s x)
      rw [hd, hs])
    (fun s x hs hx => classifyNodeStep_skeleton ops ops' s x (by rw [hs]; exact hx))
    _ (fun x hx => h2 x (by
      have : m1.GetNumNodes = m.m_numNodes := hnum
      rw [← this]; exact List.mem_range.mp hx)) m1 hdeg

/-- On a mesh all of whose nodes have two edges `ClassifyNodes` computes the node types from the
tables alone. -/
theorem ClassifyNodes_skeleton (ops ops' : Operations) (m : Mesh)
    (h2 : ∀ n, n < m.m_numNodes → vecGet m.m_nodesNumEdges n 0 = 2) :
    (m.ClassifyNodes ops).skeleton = m.skeleton.ClassifyNodes ops' :=
  classify_skeleton ops ops' { m with m_nodesTypes := List.replicate m.GetNumNodes 0 } h2

end meshkernel

namespace meshkernel

/-! ## `Administrate` against the table run -/

theorem nothingToDelete_skeleton (m : Mesh) : m.skeleton.nothingToDelete = m.nothingToDelete := by
  unfold Mesh.nothingToDelete
  rw [skeleton_length]
  rfl

theorem refreshTrees_of_false (ops : Operations) (m : Mesh)
    (h1 : m.m_nodesRTreeRequiresUpdate = false) (h2 : m.m_edgesRTreeRequiresUpdate = false) :
    m.refreshTrees ops = m := by
  unfold Mesh.refreshTrees
  simp [h1, h2]

/-- What a result of the table run says of its steps. -/
theorem AdministrateBy_inv (answers : List Nat → Option Bool) (m t : Mesh)
    (h : m.AdministrateBy answers = some t) :
    m.nothingToDelete = true ∧ m.m_nodesRTreeRequiresUpdate = false ∧
    m.m_edgesRTreeRequiresUpdate = false ∧ m.m_nodes.length ≠ 0 ∧ m.m_edges.length ≠ 0 ∧
    (∀ n, n < m.m_nodes.length →
      vecGet (({ m with m_numNodes := m.m_nodes.length,
                        m_numEdges := m.m_edges.length } : Mesh).resetNodeTables.NodeAdministration
        ).m_nodesNumEdges n 0 = 2) ∧
    ∃ m3, (({ m with m_numNodes := m.m_nodes.length,
                     m_numEdges := m.m_edges.length } : Mesh).resetNodeTables.NodeAdministration
        ).resetFaceTables.FindFacesBy answers = some m3 ∧
      (∀ n, n < m3.m_numNodes → vecGet m3.m_nodesNumEdges n 0 = 2) ∧
      t = m3.ClassifyNodes exampleOperations := by
  unfold Mesh.AdministrateBy at h
  simp only [] at h
  split at h
  · exact absurd h (by simp)
  rename_i hguard
  simp only [Bool.or_eq_true, Bool.not_eq_true', beq_iff_eq, not_or, Bool.not_eq_false,
    Bool.not_eq_true] at hguard
  obtain ⟨⟨⟨⟨g1, g2⟩, g3⟩, g4⟩, g5⟩ := hguard
  split at h
  · rename_i hdeg
    rw [List.all_eq_true] at hdeg
    split at h
    · exact absurd h (by simp)
    · rename_i m3 h3
      split at h
      · rename_i hdeg3
        rw [List.all_eq_true] at hdeg3
        refine ⟨g1, g2, g3, g4, g5, ?_, m3, h3, ?_, (Option.some.inj h).symm⟩
        · intro n hn
          have := hdeg n (List.mem_range.mpr hn)
          simpa using this
        · intro n hn
          have := hdeg3 n (List.mem_range.mpr hn)
          simpa using this
      · exact absurd h (by simp)
  · exact absurd h (by simp)

/-- `Administrate` with faces, on a mesh with valid nodes for which the table run has a result:
it returns, and the mesh it leaves has the tables of that result. -/
theorem AdministrateBy_sound (ops : Operations) (hangles : ops.AnglesInRange)
    (answers : List Nat → Option Bool) (m t : Mesh)
    (hvalid : ∀ p ∈ m.m_nodes, p.IsValid = true) (hn : m.m_nodes.length ≤ sizetMissingValue)
    (hor : ∀ ns b, answers ns = some b →
      (ops.FaceAreaAndCenterOfMass (m.closedRing ns) m.m_projection).2.2 = b)
    (h : m.skeleton.AdministrateBy answers = some t) :
    ∃ m', m.Administrate ops AdministrationOptions.AdministrateMeshEdgesAndFaces = .ok m' ∧
      m'.skeleton = t ∧ m'.m_nodes = m.m_nodes := by
  obtain ⟨g1, g2, g3, g4, g5, hdeg, t3, h3, hdeg3, ht⟩ := AdministrateBy_inv answers _ t h
  rw [nothingToDelete_skeleton] at g1
  rw [skeleton_length] at g4
  have g2' : m.m_nodesRTreeRequiresUpdate = false := g2
  have g3' : m.m_edgesRTreeRequiresUpdate = false := g3
  have g5' : m.m_edges.length ≠ 0 := g5
  obtain ⟨hedges, _⟩ := nothingToDelete_spec m g1
  -- stage 1 and the spatial indices
  have hstage1 := DeleteInvalidNodesAndEdges_nothingToDelete m hvalid g1 hn
  generalize hm1 :
    ({ m with m_numNodes := m.m_nodes.length, m_numEdges := m.m_edges.length } : Mesh) = m1
    at hstage1
  have hf1 : m1.m_nodesRTreeRequiresUpdate = false := by rw [← hm1]; exact g2'
  have hf2 : m1.m_edgesRTreeRequiresUpdate = false := by rw [← hm1]; exact g3'
  unfold Mesh.Administrate
  simp only []
  rw [hstage1, refreshTrees_of_false ops m1 hf1 hf2]
  have hm1n : m1.m_nodes = m.m_nodes := by rw [← hm1]
  have hm1e : m1.m_edges = m.m_edges := by rw [← hm1]
  have hm1p : m1.m_projection = m.m_projection := by rw [← hm1]
  have hm1N : m1.m_numNodes = m1.m_nodes.length := by rw [← hm1]
  have hm1E : m1.m_numEdges = m1.m_edges.length := by rw [← hm1]
  have hm1s :
      ({ m.skeleton with
        m_numNodes := m.skeleton.m_nodes.length,
        m_numEdges := m.skeleton.m_edges.length } : Mesh) = m1.skeleton := by
    rw [← hm1, skeleton_length]
    rfl
  rw [hm1s] at hdeg h3
  rw [skeleton_length] at hdeg
  have hempty : ¬ (m1.m_numNodes = 0 ∨ m1.m_numEdges = 0) := by
    rw [hm1N, hm1E, hm1n, hm1e]
    exact fun hh => hh.elim g4 g5'
  rw [if_neg hempty]
  -- the node tables
  have hr1 : m1.EdgesInRange := by
    intro e he
    rw [hm1e] at he
    rw [hm1n]
    exact ⟨fun _ => (hedges e he).2.1, fun _ => (hedges e he).2.2⟩
  obtain ⟨hokA, hsameA⟩ := NodeAdministration_ok m1 hr1 hm1N hm1E
  have hskA : m1.resetNodeTables.NodeAdministration.skeleton =
      m1.skeleton.resetNodeTables.NodeAdministration := by
    rw [NodeAdministration_skeleton, resetNodeTables_skeleton]
  obtain ⟨hAn, _, _, _, hAp⟩ := sameButNodeTables_fields m1 _ hsameA
  rw [← hskA] at hdeg h3
  generalize m1.resetNodeTables.NodeAdministration = mA at hokA hAn hAp hdeg h3
  -- the angular sort
  obtain ⟨m2, hsort, hm2⟩ := sortAllNodes_two ops hangles mA hokA
    (by rw [hAn, hm1n]; exact hvalid)
    (by
      intro n hn'
      rw [hAn, hm1n] at hn'
      exact hdeg n hn')
  rw [hsort]
  simp only []
  have hsk2 : m2.skeleton = mA.skeleton := by rw [hm2]; rfl
  have hn2 : m2.m_nodes = m.m_nodes := by rw [hm2]; exact hAn.trans hm1n
  have hp2 : m2.m_projection = m.m_projection := by rw [hm2]; exact hAp.trans hm1p
  -- face discovery
  have htr : m.tracks m2.resetFaceTables mA.skeleton.resetFaceTables :=
    ⟨by rw [resetFaceTables_skeleton, hsk2], hn2, hp2⟩
  obtain ⟨m3, hfind, hsk3, hn3, _⟩ := FindFacesBy_sound ops answers m hvalid hor _ _ t3 htr h3
  rw [hfind]
  simp only []
  -- geometry and node types
  have hsk4 := ComputeFaceCircumcentersMassCentersAndAreas_skeleton ops m3 true
  have hn4 : (m3.ComputeFaceCircumcentersMassCentersAndAreas ops true).m_nodes = m3.m_nodes :=
    (sameButGeometry_fields m3 _
      (ComputeFaceCircumcentersMassCentersAndAreas_same ops m3 true)).1
  generalize m3.ComputeFaceCircumcentersMassCentersAndAreas ops true = m4 at hsk4 hn4
  have hsk4' : m4.skeleton = t3 := hsk4.trans hsk3
  have hdeg4 : ∀ n, n < m4.m_numNodes → vecGet m4.m_nodesNumEdges n 0 = 2 := by
    intro n hn'
    have e1 : m4.m_numNodes = t3.m_numNodes := by rw [← hsk4']; rfl
    have e2 : m4.m_nodesNumEdges = t3.m_nodesNumEdges := by rw [← hsk4']; rfl
    rw [e2]
    exact hdeg3 n (by rw [← e1]; exact hn')
  refine ⟨_, rfl, ?_, ?_⟩
  · rw [ClassifyNodes_skeleton ops exampleOperations m4 hdeg4, hsk4', ht]
  · rw [(sameButGeometry_fields m4 _ (ClassifyNodes_same ops m4)).1, hn4, hn3]

end meshkernel

namespace meshkernel

/-! ## The node types -/

theorem tally_set (l : List Int) (i : Nat) (a : Int) (ha : -1 ≤ a)
    (h : ∀ n, -1 ≤ vecGet l n 0) : ∀ n, -1 ≤ vecGet (l.set i a) n 0 := by
  intro n
  rw [vecGet_set]
  split
  · exact ha
  · exact h n

theorem tally_incr (l : List Int) (i : Nat) (h : ∀ n, -1 ≤ vecGet l n 0) :
    -1 ≤ vecGet l i 0 + 1 := by
  have := h i
  omega

/-- The edge loop of `ClassifyNodes` keeps every tally at `-1` or above. -/
theorem classifyEdgeStep_ge (m : Mesh) (e : Nat) (h : ∀ n, -1 ≤ vecGet m.m_nodesTypes n 0) :
    (classifyEdgeStep m e).m_nodesTypes.length = m.m_nodesTypes.length ∧
    ∀ n, -1 ≤ vecGet (classifyEdgeStep m e).m_nodesTypes n 0 := by
  unfold classifyEdgeStep
  simp only [Mesh.IsEdgeOnBoundary]
  split_ifs
  · exact ⟨rfl, h⟩
  · exact ⟨rfl, h⟩
  · refine ⟨by simp, ?_⟩
    have h1 := tally_set _ (vecGet m.m_edges e missingEdge).2 (-1) (by decide)
      (tally_set _ (vecGet m.m_edges e missingEdge).1 (-1) (by decide) h)
    exact tally_set _ _ _ (tally_incr _ _ (tally_set _ _ _ (tally_incr _ _ h1) h1))
      (tally_set _ _ _ (tally_incr _ _ h1) h1)
  · refine ⟨by simp, ?_⟩
    exact tally_set _ (vecGet m.m_edges e missingEdge).2 (-1) (by decide)
      (tally_set _ (vecGet m.m_edges e missingEdge).1 (-1) (by decide) h)
  · refine ⟨by simp, ?_⟩
    exact tally_set _ _ _ (tally_incr _ _ (tally_set _ _ _ (tally_incr _ _ h) h))
      (tally_set _ _ _ (tally_incr _ _ h) h)
  · exact ⟨rfl, h⟩

/-- What the node loop of `ClassifyNodes` leaves at node `n`: one of the four types, and `-1` at a
node with fewer than two edges. -/
theorem classifyNodeStep_type (ops : Operations) (m : Mesh) (n : Nat)
    (_h : -1 ≤ vecGet m.m_nodesTypes n 0) :
    ∃ v : Int, (classifyNodeStep ops m n).m_nodesTypes = m.m_nodesTypes.set n v ∧
      (v = -1 ∨ v = 1 ∨ v = 2 ∨ v = 3) ∧ (vecGet m.m_nodesNumEdges n 0 < 2 → v = -1) := by
  unfold classifyNodeStep
  simp only []
  split_ifs
  all_goals try simp only [List.set_set]
  all_goals first
    | exact ⟨-1, rfl, Or.inl rfl, fun _ => rfl⟩
    | exact ⟨3, rfl, Or.inr (Or.inr (Or.inr rfl)), fun hh => absurd hh ‹_›⟩
    | exact ⟨2, rfl, Or.inr (Or.inr (Or.inl rfl)), fun hh => absurd hh ‹_›⟩
    | exact ⟨1, rfl, Or.inr (Or.inl rfl), fun hh => absurd hh ‹_›⟩
    | (refine ⟨-1, ?_, Or.inl rfl, fun _ => rfl⟩
       have hv : vecGet m.m_nodesTypes n 0 = -1 := by
         by_contra hne
         exact absurd hne ‹¬vecGet m.m_nodesTypes n 0 ≠ -1›
       conv_rhs => rw [← hv, set_vecGet_self])

/-- The two loops of `ClassifyNodes`, started from any mesh whose tallies are `-1` or above. -/
theorem classify_loops (ops : Operations) (m0 : Mesh)
    (hl : m0.m_nodesTypes.length = m0.GetNumNodes) (h0 : ∀ n, -1 ≤ vecGet m0.m_nodesTypes n 0) :
    ((List.range ((List.range m0.GetNumEdges).foldl classifyEdgeStep m0).GetNumNodes).foldl
        (classifyNodeStep ops)
        ((List.range m0.GetNumEdges).foldl classifyEdgeStep m0)).m_nodesTypes.length
      = m0.GetNumNodes ∧
    ∀ n, n < m0.GetNumNodes →
      (vecGet ((List.range ((List.range m0.GetNumEdges).foldl classifyEdgeStep m0).GetNumNodes).foldl
          (classifyNodeStep ops)
          ((List.range m0.GetNumEdges).foldl classifyEdgeStep m0)).m_nodesTypes n 0 = -1 ∨
        vecGet ((List.range ((List.range m0.GetNumEdges).foldl classifyEdgeStep m0).GetNumNodes).foldl
          (classifyNodeStep ops)
          ((List.range m0.GetNumEdges).foldl classifyEdgeStep m0)).m_nodesTypes n 0 = 1 ∨
        vecGet ((List.range ((List.range m0.GetNumEdges).foldl classifyEdgeStep m0).GetNumNodes).foldl
          (classifyNodeStep ops)
          ((List.range m0.GetNumEdges).foldl classifyEdgeStep m0)).m_nodesTypes n 0 = 2 ∨
        vecGet ((List.range ((List.range m0.GetNumEdges).foldl classifyEdgeStep m0).GetNumNodes).foldl
          (classifyNodeStep ops)
          ((List.range m0.GetNumEdges).foldl classifyEdgeStep m0)).m_nodesTypes n 0 = 3) ∧
      (vecGet m0.m_nodesNumEdges n 0 < 2 →
        vecGet ((List.range ((List.range m0.GetNumEdges).foldl classifyEdgeStep m0).GetNumNodes).foldl
          (classifyNodeStep ops)
          ((List.range m0.GetNumEdges).foldl classifyEdgeStep m0)).m_nodesTypes n 0 = -1) := by
  -- the edge loop
  have hedge := foldl_invariant
    (fun s : Mesh => s.m_nodesTypes.length = m0.GetNumNodes ∧
      (∀ n, -1 ≤ vecGet s.m_nodesTypes n 0) ∧ s.m_nodesNumEdges = m0.m_nodesNumEdges ∧
      s.GetNumNodes = m0.GetNumNodes)
    classifyEdgeStep (List.range m0.GetNumEdges) m0 ⟨hl, h0, rfl, rfl⟩
    (by
      intro s e _ ⟨h1, h2, h3, h4⟩
      obtain ⟨g1, g2⟩ := classifyEdgeStep_ge s e h2
      obtain ⟨_, _, _, f4, _, _, _, f8, _⟩ := sameButGeometry_fields s _ (classifyEdgeStep_same s e)
      exact ⟨g1.trans h1, g2, f8.trans h3, Eq.trans f4 h4⟩)
  generalize (List.range m0.GetNumEdges).foldl classifyEdgeStep m0 = m1 at hedge ⊢
  obtain ⟨e1, e2, e3, e4⟩ := hedge
  rw [e4]
  -- the node loop
  have hnode := foldl_range_invariant
    (fun k (s : Mesh) => s.m_nodesTypes.length = m0.GetNumNodes ∧
      (∀ n, -1 ≤ vecGet s.m_nodesTypes n 0) ∧ s.m_nodesNumEdges = m0.m_nodesNumEdges ∧
      ∀ n, n < k →
        (vecGet s.m_nodesTypes n 0 = -1 ∨ vecGet s.m_nodesTypes n 0 = 1 ∨
          vecGet s.m_nodesTypes n 0 = 2 ∨ vecGet s.m_nodesTypes n 0 = 3) ∧
        (vecGet m0.m_nodesNumEdges n 0 < 2 → vecGet s.m_nodesTypes n 0 = -1))
    (classifyNodeStep ops) m1 m0.GetNumNodes
    ⟨e1, e2, e3, fun n hn => absurd hn (Nat.not_lt_zero n)⟩
    (by
      intro k s hk ⟨h1, h2, h3, h4⟩
      obtain ⟨v, hv, hv1, hv2⟩ := classifyNodeStep_type ops s k (h2 k)
      obtain ⟨_, _, _, _, _, _, _, f8, _⟩ :=
        sameButGeometry_fields s _ (classifyNodeStep_same ops s k)
      have hvge : -1 ≤ v := by rcases hv1 with h | h | h | h <;> rw [h] <;> decide
      rw [h3] at hv2
      refine ⟨by rw [hv, List.length_set]; exact h1, ?_, f8.trans h3, ?_⟩
      · rw [hv]; exact tally_set _ _ _ hvge h2
      · intro n hn
        rw [hv, vecGet_set, h1]
        by_cases hkn : k = n
        · subst hkn
          rw [if_pos ⟨rfl, hk⟩]
          exact ⟨hv1, hv2⟩
        · rw [if_neg (fun hh => hkn hh.1)]
          exact h4 n (by omega))
  exact ⟨hnode.1, hnode.2.2.2⟩

/-- `ClassifyNodes` leaves one node type for each node, each of them `-1`, `1`, `2` or `3`, and
`-1` at a node with fewer than two edges. -/
theorem ClassifyNodes_spec (ops : Operations) (m : Mesh) :
    (m.ClassifyNodes ops).m_nodesTypes.length = m.GetNumNodes ∧
    ∀ n, n < m.GetNumNodes →
      (vecGet (m.ClassifyNodes ops).m_nodesTypes n 0 = -1 ∨
        vecGet (m.ClassifyNodes ops).m_nodesTypes n 0 = 1 ∨
        vecGet (m.ClassifyNodes ops).m_nodesTypes n 0 = 2 ∨
        vecGet (m.ClassifyNodes ops).m_nodesTypes n 0 = 3) ∧
      (vecGet m.m_nodesNumEdges n 0 < 2 → vecGet (m.ClassifyNodes ops).m_nodesTypes n 0 = -1) :=
  classify_loops ops { m with m_nodesTypes := List.replicate m.GetNumNodes 0 }
    (List.length_replicate _ _)
    (fun n => by
      show -1 ≤ vecGet (List.replicate m.GetNumNodes 0) n 0
      rw [vecGet_replicate]; split <;> decide)

end meshkernel

namespace meshkernel

/-! ## `DeleteNode` -/

theorem mem_take_succ_iff (l : List Nat) (k e : Nat) (hk : k < l.length) :
    e ∈ l.take (k + 1) ↔ e ∈ l.take k ∨ e = vecGet l k 0 := by
  rw [List.take_succ, List.mem_append, vecGet_eq_getElem l k 0 hk, List.getElem?_eq_getElem hk]
  simp

/-- The edge loop of `DeleteNode` over the first `k` entries of `m_nodesEdges[nodeIndex]`: no
exception, and exactly the listed edges are invalidated. -/
theorem deleteNode_loop (m : Mesh) (nodeIndex : Nat)
    (hL : ∀ e ∈ vecGet m.m_nodesEdges nodeIndex [], e < m.m_edges.length)
    (hE : m.m_edges.length ≤ sizetMissingValue) (k : Nat)
    (hk : k ≤ (vecGet m.m_nodesEdges nodeIndex []).length) :
    ((List.range k).foldl (deleteNodeStep nodeIndex) (m, none)).2 = none ∧
    ((List.range k).foldl (deleteNodeStep nodeIndex) (m, none)).1.m_nodesEdges = m.m_nodesEdges ∧
    ((List.range k).foldl (deleteNodeStep nodeIndex) (m, none)).1.m_nodes = m.m_nodes ∧
    ((List.range k).foldl (deleteNodeStep nodeIndex) (m, none)).1.m_numNodes = m.m_numNodes ∧
    ((List.range k).foldl (deleteNodeStep nodeIndex) (m, none)).1.m_edges.length
      = m.m_edges.length ∧
    ∀ e, ((List.range k).foldl (deleteNodeStep nodeIndex) (m, none)).1.edge e =
      if e ∈ (vecGet m.m_nodesEdges nodeIndex []).take k then missingEdge else m.edge e := by
  refine foldl_range_invariant
    (fun j (s : Mesh × Option MeshError) => s.2 = none ∧ s.1.m_nodesEdges = m.m_nodesEdges ∧
      s.1.m_nodes = m.m_nodes ∧ s.1.m_numNodes = m.m_numNodes ∧
      s.1.m_edges.length = m.m_edges.length ∧
      ∀ e, s.1.edge e =
        if e ∈ (vecGet m.m_nodesEdges nodeIndex []).take j then missingEdge else m.edge e)
    (deleteNodeStep nodeIndex) (m, none) k
    ⟨rfl, rfl, rfl, rfl, rfl, fun e => by simp⟩ ?_
  rintro j ⟨s, err⟩ hj ⟨h1, h2, h3, h4, h5, h6⟩
  simp only at h1 h2 h3 h4 h5 h6
  subst h1
  have hjl : j < (vecGet m.m_nodesEdges nodeIndex []).length := lt_of_lt_of_le hj hk
  have hlt : vecGet (vecGet m.m_nodesEdges nodeIndex []) j 0 < m.m_edges.length :=
    hL _ (vecGet_mem _ _ _ hjl)
  have hne : vecGet (vecGet m.m_nodesEdges nodeIndex []) j 0 ≠ sizetMissingValue := by omega
  have hstep : deleteNodeStep nodeIndex (s, none) j =
      ({ s with m_edges := s.m_edges.set (vecGet (vecGet m.m_nodesEdges nodeIndex []) j 0)
                  missingEdge,
                m_edgesRTreeRequiresUpdate := true }, none) := by
    simp only [deleteNodeStep, Mesh.DeleteEdge, h2, if_neg hne]
  rw [hstep]
  refine ⟨rfl, h2, h3, h4, (List.length_set _ _ _).trans h5, ?_⟩
  intro e
  show vecGet (s.m_edges.set _ missingEdge) e missingEdge = _
  rw [vecGet_set]
  have h6e : vecGet s.m_edges e missingEdge = _ := h6 e
  by_cases he : vecGet (vecGet m.m_nodesEdges nodeIndex []) j 0 = e
  · rw [if_pos ⟨he, by rw [h5]; exact hlt⟩,
      if_pos ((mem_take_succ_iff _ _ _ hjl).2 (Or.inr he.symm))]
  · rw [if_neg (fun hh => he hh.1), h6e]
    by_cases hm : e ∈ (vecGet m.m_nodesEdges nodeIndex []).take j
    · rw [if_pos hm, if_pos ((mem_take_succ_iff _ _ _ hjl).2 (Or.inl hm))]
    · rw [if_neg hm, if_neg (fun hh =>
        ((mem_take_succ_iff _ _ _ hjl).1 hh).elim hm (fun h => he h.symm))]

/-- `DeleteNode` on an in-range node whose edge list is made of edge indices: no exception, the
node becomes the missing point, exactly the listed edges are invalidated. -/
theorem DeleteNode_eq (m : Mesh) (nodeIndex : Nat) (hi : nodeIndex < m.GetNumNodes)
    (hL : ∀ e ∈ vecGet m.m_nodesEdges nodeIndex [], e < m.m_edges.length)
    (hE : m.m_edges.length ≤ sizetMissingValue)
    (hlen : (vecGet m.m_nodesEdges nodeIndex []).length = vecGet m.m_nodesNumEdges nodeIndex 0) :
    ∃ m', m.DeleteNode nodeIndex = (m', none) ∧
      m'.m_nodes = m.m_nodes.set nodeIndex missingPoint ∧
      m'.m_edges.length = m.m_edges.length ∧
      ∀ e, m'.edge e =
        if e ∈ vecGet m.m_nodesEdges nodeIndex [] then missingEdge else m.edge e := by
  obtain ⟨h1, _, h3, _, h5, h6⟩ := deleteNode_loop m nodeIndex hL hE
    (vecGet m.m_nodesNumEdges nodeIndex 0) (le_of_eq hlen.symm)
  unfold Mesh.DeleteNode
  rw [if_neg (by omega)]
  simp only []
  generalize (List.range (vecGet m.m_nodesNumEdges nodeIndex 0)).foldl (deleteNodeStep nodeIndex)
    (m, none) = s at h1 h3 h5 h6
  obtain ⟨s, err⟩ := s
  simp only at h1 h3 h5 h6
  subst h1
  refine ⟨_, rfl, ?_, h5, ?_⟩
  · show s.m_nodes.set nodeIndex missingPoint = _
    rw [h3]
  · intro e
    rw [← hlen, List.take_length] at h6
    exact h6 e

end meshkernel

namespace meshkernel

/-! ## `MergeTwoNodes`: the node tables of an administered mesh -/

/-- Every entry of a node's edge list is a valid edge index with the node as an endpoint. -/
theorem adm_entries (m : Mesh) (hadm : m.AdministeredEdges) (n e : Nat)
    (he : e ∈ vecGet m.m_nodesEdges n []) :
    n < m.m_nodes.length ∧ e < m.m_edges.length ∧ edgeIsMissing (m.edge e) = false ∧
      ((m.edge e).1 = n ∨ (m.edge e).2 = n) := by
  have hn : n < m.m_nodes.length := by
    by_contra hge
    rw [vecGet_of_length_le _ _ _ (by rw [hadm.nodeEdges.len_edges]; omega)] at he
    exact absurd he (List.not_mem_nil e)
  exact ⟨hn, (hadm.nodeEdges.ok n hn).1 e he⟩

theorem adm_nodup (m : Mesh) (hadm : m.AdministeredEdges) (n : Nat) :
    (vecGet m.m_nodesEdges n []).Nodup := by
  by_cases hn : n < m.m_nodes.length
  · exact List.Nodup.of_map _ (hadm.nodeEdges.ok n hn).2
  · rw [vecGet_of_length_le _ _ _ (by rw [hadm.nodeEdges.len_edges]; omega)]
    exact List.nodup_nil

theorem adm_length (m : Mesh) (hadm : m.AdministeredEdges) (n : Nat) :
    (vecGet m.m_nodesEdges n []).length = vecGet m.m_nodesNumEdges n 0 := by
  by_cases hn : n < m.m_nodes.length
  · exact hadm.nodeEdges.length_eq n hn
  · rw [vecGet_of_length_le _ _ _ (by rw [hadm.nodeEdges.len_edges]; omega),
      vecGet_of_length_le _ _ _ (by rw [hadm.nodeEdges.len_num]; omega)]
    rfl

/-- Both endpoints of an edge of an administered mesh are node indices. -/
theorem adm_endpoints (m : Mesh) (hadm : m.AdministeredEdges) (e : Nat)
    (he : e < m.m_edges.length) :
    edgeIsMissing (m.edge e) = false ∧ (m.edge e).1 < m.m_nodes.length ∧
      (m.edge e).2 < m.m_nodes.length := by
  have hmem : m.edge e ∈ m.m_edges := by
    unfold Mesh.edge
    exact vecGet_mem _ _ _ he
  have hv := hadm.validEdges _ hmem
  have hr := hadm.inRange _ hmem
  unfold edgeIsMissing at hv
  simp only [Bool.or_eq_false_iff, beq_eq_false_iff_ne, ne_eq] at hv
  exact ⟨by unfold edgeIsMissing; simp [hv.1, hv.2], hr.1 hv.1, hr.2 hv.2⟩

theorem other_missing (x : Nat) : OtherNodeOfEdge missingEdge x = sizetMissingValue := by
  unfold OtherNodeOfEdge missingEdge
  split <;> rfl

/-- For an edge with `x` as an endpoint, the other endpoint is `y` exactly when the edge joins
`x` and `y`. -/
theorem other_eq_iff (E : Edge) (x y : Nat) (h : E.1 = x ∨ E.2 = x) :
    OtherNodeOfEdge E x = y ↔ (E.1 = x ∧ E.2 = y) ∨ (E.1 = y ∧ E.2 = x) := by
  unfold OtherNodeOfEdge
  split_ifs with hx
  · constructor
    · intro h2
      exact Or.inl ⟨hx.symm, h2⟩
    · rintro (⟨_, h2⟩ | ⟨h1, h2⟩)
      · exact h2
      · rw [h2, hx, h1]
  · constructor
    · intro h1
      rcases h with h | h
      · exact absurd h.symm hx
      · exact Or.inr ⟨h1, h⟩
    · rintro (⟨h1, _⟩ | ⟨h1, _⟩)
      · exact absurd h1.symm hx
      · exact h1

/-- An edge that is out of range or invalid joins no two node indices. -/
theorem joins_lt (m : Mesh) (e a b : Nat) (hb : b ≠ sizetMissingValue) (h : m.joins e a b) :
    e < m.m_edges.length := by
  by_contra hge
  have hm : m.edge e = missingEdge := by
    unfold Mesh.edge
    exact vecGet_of_length_le _ _ _ (by omega)
  unfold Mesh.joins at h
  rw [hm] at h
  rcases h with ⟨_, h⟩ | ⟨h, _⟩ <;> exact hb h.symm

theorem mem_take_exists (l : List Nat) (k e : Nat) (hk : k ≤ l.length) (he : e ∈ l.take k) :
    ∃ j, j < k ∧ e = vecGet l j 0 := by
  induction k with
  | zero => simp at he
  | succ k ih =>
    rcases (mem_take_succ_iff l k e (by omega)).1 he with h | h
    · obtain ⟨j, hj, hje⟩ := ih (by omega) h
      exact ⟨j, by omega, hje⟩
    · exact ⟨k, by omega, h⟩

theorem nodup_not_mem_take (l : List Nat) (hnd : l.Nodup) (k : Nat) (hk : k < l.length) :
    vecGet l k 0 ∉ l.take k := by
  intro hmem
  obtain ⟨j, hj, hje⟩ := mem_take_exists l k _ (by omega) hmem
  have := vecGet_inj_of_nodup l hnd k j hk (by omega) hje
  omega

theorem mem_exists_vecGet (l : List Nat) (e : Nat) (he : e ∈ l) :
    ∃ j, j < l.length ∧ e = vecGet l j 0 := by
  have h : e ∈ l.take l.length := by rw [List.take_length]; exact he
  exact mem_take_exists l l.length e (le_refl _) h

end meshkernel

namespace meshkernel

/-! ## `MergeTwoNodes`: the search for the edge and the inner loop -/

/-- `FindEdge` on two node indices returns an entry of the first node's edge list that leads to
the second node, or the missing value when no entry does. -/
theorem FindEdge_spec (m : Mesh) (hadm : m.AdministeredEdges) (a b : Nat)
    (ha : a ≠ sizetMissingValue) (hb : b ≠ sizetMissingValue) :
    ∃ idx, m.FindEdge a b = .ok idx ∧
      ((idx ∈ vecGet m.m_nodesEdges a [] ∧ OtherNodeOfEdge (m.edge idx) a = b) ∨
       (idx = sizetMissingValue ∧
         ∀ e ∈ vecGet m.m_nodesEdges a [], OtherNodeOfEdge (m.edge e) a ≠ b)) := by
  unfold Mesh.FindEdge
  rw [if_neg (by rintro (h | h); exact ha h; exact hb h)]
  cases hfind : (List.range (vecGet m.m_nodesNumEdges a 0)).find? (fun n =>
        OtherNodeOfEdge
          (vecGet m.m_edges (vecGet (vecGet m.m_nodesEdges a []) n 0) missingEdge)
          a == b) with
  | some n =>
    refine ⟨_, rfl, Or.inl ⟨?_, ?_⟩⟩
    · have hn := List.mem_of_find?_eq_some hfind
      rw [List.mem_range, ← adm_length m hadm a] at hn
      exact vecGet_mem _ _ _ hn
    · have hp := List.find?_some hfind
      simpa using hp
  | none =>
    refine ⟨_, rfl, Or.inr ⟨rfl, ?_⟩⟩
    intro e he
    obtain ⟨j, hj, hje⟩ := mem_exists_vecGet _ e he
    rw [List.find?_eq_none] at hfind
    have := hfind j (by rw [List.mem_range, ← adm_length m hadm a]; exact hj)
    rw [hje]
    simpa [Mesh.edge] using this

/-- The inner loop of `MergeTwoNodes` over the first `k` entries of the edge list of `x`: every
listed edge that leads from `x` to the second node is invalidated, nothing else changes. -/
theorem mergeInvalidate_loop (cur : Mesh) (x b : Nat) (hb : b ≠ sizetMissingValue)
    (hL : ∀ e ∈ vecGet cur.m_nodesEdges x [], e < cur.m_edges.length) (k : Nat)
    (hk : k ≤ (vecGet cur.m_nodesEdges x []).length) :
    ((List.range k).foldl (mergeInvalidateStep x b) cur).m_nodesEdges = cur.m_nodesEdges ∧
    ((List.range k).foldl (mergeInvalidateStep x b) cur).m_nodesNumEdges = cur.m_nodesNumEdges ∧
    ((List.range k).foldl (mergeInvalidateStep x b) cur).m_nodes = cur.m_nodes ∧
    ((List.range k).foldl (mergeInvalidateStep x b) cur).m_edges.length = cur.m_edges.length ∧
    ∀ e, ((List.range k).foldl (mergeInvalidateStep x b) cur).edge e =
      if e ∈ (vecGet cur.m_nodesEdges x []).take k ∧ OtherNodeOfEdge (cur.edge e) x = b
      then missingEdge else cur.edge e := by
  refine foldl_range_invariant
    (fun j (s : Mesh) => s.m_nodesEdges = cur.m_nodesEdges ∧
      s.m_nodesNumEdges = cur.m_nodesNumEdges ∧ s.m_nodes = cur.m_nodes ∧
      s.m_edges.length = cur.m_edges.length ∧
      ∀ e, s.edge e =
        if e ∈ (vecGet cur.m_nodesEdges x []).take j ∧ OtherNodeOfEdge (cur.edge e) x = b
        then missingEdge else cur.edge e)
    (mergeInvalidateStep x b) cur k
    ⟨rfl, rfl, rfl, rfl, fun e => by simp⟩ ?_
  rintro j s hj ⟨h1, h2, h3, h4, h5⟩
  have hjl : j < (vecGet cur.m_nodesEdges x []).length := lt_of_lt_of_le hj hk
  have hlt : vecGet (vecGet cur.m_nodesEdges x []) j 0 < cur.m_edges.length :=
    hL _ (vecGet_mem _ _ _ hjl)
  have h5i := h5 (vecGet (vecGet cur.m_nodesEdges x []) j 0)
  by_cases hc : OtherNodeOfEdge (s.edge (vecGet (vecGet cur.m_nodesEdges x []) j 0)) x = b
  · have hstep : mergeInvalidateStep x b s j =
        { s with m_edges := s.m_edges.set (vecGet (vecGet cur.m_nodesEdges x []) j 0)
                    missingEdge } := by
      unfold mergeInvalidateStep
      simp only [h1]
      exact if_pos hc
    rw [hstep]
    refine ⟨h1, h2, h3, (List.length_set _ _ _).trans h4, ?_⟩
    -- the edge read is still the original one
    have horig : OtherNodeOfEdge (cur.edge (vecGet (vecGet cur.m_nodesEdges x []) j 0)) x = b := by
      by_contra hne
      rw [h5i] at hc
      split_ifs at hc with hh
      · rw [other_missing] at hc
        exact hb hc.symm
      · exact hne hc
    intro e
    show vecGet (s.m_edges.set _ missingEdge) e missingEdge = _
    rw [vecGet_set]
    have h5e : vecGet s.m_edges e missingEdge = _ := h5 e
    by_cases he : vecGet (vecGet cur.m_nodesEdges x []) j 0 = e
    · rw [if_pos ⟨he, by rw [h4]; exact hlt⟩,
        if_pos ⟨(mem_take_succ_iff _ _ _ hjl).2 (Or.inr he.symm), he ▸ horig⟩]
    · rw [if_neg (fun hh => he hh.1), h5e]
      by_cases hm : e ∈ (vecGet cur.m_nodesEdges x []).take j ∧ OtherNodeOfEdge (cur.edge e) x = b
      · rw [if_pos hm, if_pos ⟨(mem_take_succ_iff _ _ _ hjl).2 (Or.inl hm.1), hm.2⟩]
      · rw [if_neg hm, if_neg (fun hh =>
          ((mem_take_succ_iff _ _ _ hjl).1 hh.1).elim (fun h => hm ⟨h, hh.2⟩)
            (fun h => he h.symm))]
  · have hstep : mergeInvalidateStep x b s j = s := by
      unfold mergeInvalidateStep
      simp only [h1]
      exact if_neg hc
    rw [hstep]
    refine ⟨h1, h2, h3, h4, ?_⟩
    intro e
    rw [h5 e]
    by_cases he : vecGet (vecGet cur.m_nodesEdges x []) j 0 = e
    · subst he
      by_cases horig :
          OtherNodeOfEdge (cur.edge (vecGet (vecGet cur.m_nodesEdges x []) j 0)) x = b
      · -- the edge was invalidated before, else the branch would have been taken
        have hin : vecGet (vecGet cur.m_nodesEdges x []) j 0
            ∈ (vecGet cur.m_nodesEdges x []).take j := by
          by_contra hnot
          rw [h5i, if_neg (fun hh => hnot hh.1)] at hc
          exact hc horig
        rw [if_pos ⟨hin, horig⟩,
          if_pos ⟨(mem_take_succ_iff _ _ _ hjl).2 (Or.inl hin), horig⟩]
      · rw [if_neg (fun hh => horig hh.2), if_neg (fun hh => horig hh.2)]
    · by_cases hm : e ∈ (vecGet cur.m_nodesEdges x []).take j ∧ OtherNodeOfEdge (cur.edge e) x = b
      · rw [if_pos hm, if_pos ⟨(mem_take_succ_iff _ _ _ hjl).2 (Or.inl hm.1), hm.2⟩]
      · rw [if_neg hm, if_neg (fun hh =>
          ((mem_take_succ_iff _ _ _ hjl).1 hh.1).elim (fun h => hm ⟨h, hh.2⟩)
            (fun h => he h.symm))]

end meshkernel

namespace meshkernel

/-! ## `MergeTwoNodes`: the loop over the edges of the first node -/

/-- An entry of the edge list of `a` that does not join `a` and `b` is not a listed edge from a
neighbour of `a` to `b`. -/
theorem not_listed_to_second (m : Mesh) (hadm : m.AdministeredEdges) (a b idx x : Nat)
    (hab : a ≠ b) (hidx : idx ∈ vecGet m.m_nodesEdges a []) (hj : ¬ m.joins idx a b)
    (hx : idx ∈ vecGet m.m_nodesEdges x []) : OtherNodeOfEdge (m.edge idx) x ≠ b := by
  intro ho
  obtain ⟨_, _, _, hea⟩ := adm_entries m hadm a idx hidx
  obtain ⟨_, _, _, hex⟩ := adm_entries m hadm x idx hx
  rw [other_eq_iff _ _ _ hex] at ho
  apply hj
  unfold Mesh.joins
  rcases ho with ⟨h1, h2⟩ | ⟨h1, h2⟩
  · rcases hea with h | h
    · exact Or.inl ⟨h, h2⟩
    · exact absurd (h.symm.trans h2) hab
  · rcases hea with h | h
    · exact absurd (h.symm.trans h1) hab
    · exact Or.inr ⟨h1, h⟩

/-- The loop of `MergeTwoNodes` that looks for another edge to the second node, over the first `k`
entries of the edge list of `a`: the edges invalidated are the edge joining `a` and `b` and, for
each of the first `k` neighbours `x` of `a` other than `b`, the listed edge from `x` to `b`. -/
theorem mergeDuplicates_loop (m m1 : Mesh) (hadm : m.AdministeredEdges) (a b : Nat)
    (hab : a ≠ b) (hb : b ≠ sizetMissingValue)
    (f1 : m1.m_nodesEdges = m.m_nodesEdges) (f2 : m1.m_nodesNumEdges = m.m_nodesNumEdges)
    (f3 : m1.m_nodes = m.m_nodes) (f4 : m1.m_edges.length = m.m_edges.length)
    (hA : ∀ e, m.joins e a b → m1.edge e = missingEdge)
    (hB : ∀ e, ¬ m.joins e a b → m1.edge e = m.edge e)
    (k : Nat) (hk : k ≤ (vecGet m.m_nodesEdges a []).length) :
    ((List.range k).foldl (mergeDuplicatesStep a b) m1).m_nodesEdges = m.m_nodesEdges ∧
    ((List.range k).foldl (mergeDuplicatesStep a b) m1).m_nodesNumEdges = m.m_nodesNumEdges ∧
    ((List.range k).foldl (mergeDuplicatesStep a b) m1).m_nodes = m.m_nodes ∧
    ((List.range k).foldl (mergeDuplicatesStep a b) m1).m_edges.length = m.m_edges.length ∧
    (∀ e, (m.joins e a b ∨ ∃ n, n < k ∧
          OtherNodeOfEdge (m.edge (vecGet (vecGet m.m_nodesEdges a []) n 0)) a ≠ b ∧
          e ∈ vecGet m.m_nodesEdges
            (OtherNodeOfEdge (m.edge (vecGet (vecGet m.m_nodesEdges a []) n 0)) a) [] ∧
          OtherNodeOfEdge (m.edge e)
            (OtherNodeOfEdge (m.edge (vecGet (vecGet m.m_nodesEdges a []) n 0)) a) = b) →
      ((List.range k).foldl (mergeDuplicatesStep a b) m1).edge e = missingEdge) ∧
    (∀ e, ¬ (m.joins e a b ∨ ∃ n, n < k ∧
          OtherNodeOfEdge (m.edge (vecGet (vecGet m.m_nodesEdges a []) n 0)) a ≠ b ∧
          e ∈ vecGet m.m_nodesEdges
            (OtherNodeOfEdge (m.edge (vecGet (vecGet m.m_nodesEdges a []) n 0)) a) [] ∧
          OtherNodeOfEdge (m.edge e)
            (OtherNodeOfEdge (m.edge (vecGet (vecGet m.m_nodesEdges a []) n 0)) a) = b) →
      ((List.range k).foldl (mergeDuplicatesStep a b) m1).edge e = m.edge e) := by
  refine foldl_range_invariant
    (fun j (s : Mesh) => s.m_nodesEdges = m.m_nodesEdges ∧
      s.m_nodesNumEdges = m.m_nodesNumEdges ∧ s.m_nodes = m.m_nodes ∧
      s.m_edges.length = m.m_edges.length ∧
      (∀ e, (m.joins e a b ∨ ∃ n, n < j ∧
            OtherNodeOfEdge (m.edge (vecGet (vecGet m.m_nodesEdges a []) n 0)) a ≠ b ∧
            e ∈ vecGet m.m_nodesEdges
              (OtherNodeOfEdge (m.edge (vecGet (vecGet m.m_nodesEdges a []) n 0)) a) [] ∧
            OtherNodeOfEdge (m.edge e)
              (OtherNodeOfEdge (m.edge (vecGet (vecGet m.m_nodesEdges a []) n 0)) a) = b) →
        s.edge e = missingEdge) ∧
      (∀ e, ¬ (m.joins e a b ∨ ∃ n, n < j ∧
            OtherNodeOfEdge (m.edge (vecGet (vecGet m.m_nodesEdges a []) n 0)) a ≠ b ∧
            e ∈ vecGet m.m_nodesEdges
              (OtherNodeOfEdge (m.edge (vecGet (vecGet m.m_nodesEdges a []) n 0)) a) [] ∧
            OtherNodeOfEdge (m.edge e)
              (OtherNodeOfEdge (m.edge (vecGet (vecGet m.m_nodesEdges a []) n 0)) a) = b) →
        s.edge e = m.edge e))
    (mergeDuplicatesStep a b) m1 k ?_ ?_
  · refine ⟨f1, f2, f3, f4, ?_, ?_⟩
    · rintro e (h | ⟨n, hn, _⟩)
      · exact hA e h
      · exact absurd hn (Nat.not_lt_zero n)
    · intro e hne
      exact hB e (fun h => hne (Or.inl h))
  rintro j s hj ⟨h1, h2, h3, h4, h5, h6⟩
  have hjl : j < (vecGet m.m_nodesEdges a []).length := lt_of_lt_of_le hj hk
  have hmem : vecGet (vecGet m.m_nodesEdges a []) j 0 ∈ vecGet m.m_nodesEdges a [] :=
    vecGet_mem _ _ _ hjl
  obtain ⟨_, hlt, hvalid, hend⟩ := adm_entries m hadm a _ hmem
  generalize hidx : vecGet (vecGet m.m_nodesEdges a []) j 0 = idx at hmem hlt hvalid hend
  by_cases hjoin : m.joins idx a b
  · -- the edge joining the two nodes has been invalidated: nothing to do
    have hstep : mergeDuplicatesStep a b s j = s := by
      unfold mergeDuplicatesStep
      simp only [h1, hidx]
      have hm : vecGet s.m_edges idx missingEdge = missingEdge := h5 idx (Or.inl hjoin)
      rw [hm, other_missing]
      exact if_neg (fun hh => hh.1 rfl)
    rw [hstep]
    have hother : OtherNodeOfEdge (m.edge idx) a = b := (other_eq_iff _ _ _ hend).2 hjoin
    refine ⟨h1, h2, h3, h4, ?_, ?_⟩
    · rintro e (h | ⟨n, hn, hn1, hn2⟩)
      · exact h5 e (Or.inl h)
      · rcases Nat.lt_succ_iff_lt_or_eq.1 hn with hlt' | heq
        · exact h5 e (Or.inr ⟨n, hlt', hn1, hn2⟩)
        · subst heq
          rw [hidx] at hn1
          exact absurd hother hn1
    · intro e hne
      exact h6 e (fun hh => hne (hh.elim Or.inl
        (fun ⟨n, hn, hn1⟩ => Or.inr ⟨n, Nat.lt_succ_of_lt hn, hn1⟩)))
  · -- the edge leads to a neighbour other than the second node
    have hnotP : ¬ (m.joins idx a b ∨ ∃ n, n < j ∧
          OtherNodeOfEdge (m.edge (vecGet (vecGet m.m_nodesEdges a []) n 0)) a ≠ b ∧
          idx ∈ vecGet m.m_nodesEdges
            (OtherNodeOfEdge (m.edge (vecGet (vecGet m.m_nodesEdges a []) n 0)) a) [] ∧
          OtherNodeOfEdge (m.edge idx)
            (OtherNodeOfEdge (m.edge (vecGet (vecGet m.m_nodesEdges a []) n 0)) a) = b) := by
      rintro (h | ⟨n, _, _, hn2, hn3⟩)
      · exact hjoin h
      · exact not_listed_to_second m hadm a b idx _ hab hmem hjoin hn2 hn3
    have hsame : vecGet s.m_edges idx missingEdge = m.edge idx := h6 idx hnotP
    have hxb : OtherNodeOfEdge (m.edge idx) a ≠ b :=
      fun hh => hjoin ((other_eq_iff _ _ _ hend).1 hh)
    have hxm : OtherNodeOfEdge (m.edge idx) a ≠ sizetMissingValue := by
      unfold edgeIsMissing at hvalid
      simp only [Bool.or_eq_false_iff, beq_eq_false_iff_ne, ne_eq] at hvalid
      unfold OtherNodeOfEdge
      split
      · exact hvalid.2
      · exact hvalid.1
    generalize hx : OtherNodeOfEdge (m.edge idx) a = x at hxb hxm
    have hstep : mergeDuplicatesStep a b s j =
        (List.range (vecGet m.m_nodesEdges x []).length).foldl (mergeInvalidateStep x b) s := by
      unfold mergeDuplicatesStep
      simp only [h1, h2, hidx, hsame, hx, adm_length m hadm x]
      exact if_pos ⟨hxm, hxb⟩
    rw [hstep]
    have hLs : ∀ e ∈ vecGet s.m_nodesEdges x [], e < s.m_edges.length := by
      intro e he
      rw [h1] at he
      rw [h4]
      exact (adm_entries m hadm x e he).2.1
    obtain ⟨g1, g2, g3, g4, g5⟩ := mergeInvalidate_loop s x b hb hLs
      (vecGet m.m_nodesEdges x []).length (by rw [h1])
    rw [h1, List.take_length] at g5
    refine ⟨g1.trans h1, g2.trans h2, g3.trans h3, g4.trans h4, ?_, ?_⟩
    · intro e hP
      rw [g5 e]
      by_cases hPj : (m.joins e a b ∨ ∃ n, n < j ∧
          OtherNodeOfEdge (m.edge (vecGet (vecGet m.m_nodesEdges a []) n 0)) a ≠ b ∧
          e ∈ vecGet m.m_nodesEdges
            (OtherNodeOfEdge (m.edge (vecGet (vecGet m.m_nodesEdges a []) n 0)) a) [] ∧
          OtherNodeOfEdge (m.edge e)
            (OtherNodeOfEdge (m.edge (vecGet (vecGet m.m_nodesEdges a []) n 0)) a) = b)
      · rw [h5 e hPj]
        split <;> rfl
      · rw [h6 e hPj]
        rcases hP with h | ⟨n, hn, hn1, hn2, hn3⟩
        · exact absurd (Or.inl h) hPj
        · rcases Nat.lt_succ_iff_lt_or_eq.1 hn with hlt' | heq
          · exact absurd (Or.inr ⟨n, hlt', hn1, hn2, hn3⟩) hPj
          · subst heq
            rw [hidx, hx] at hn2 hn3
            rw [if_pos ⟨hn2, hn3⟩]
    · intro e hnP
      have hPj : ¬ (m.joins e a b ∨ ∃ n, n < j ∧
          OtherNodeOfEdge (m.edge (vecGet (vecGet m.m_nodesEdges a []) n 0)) a ≠ b ∧
          e ∈ vecGet m.m_nodesEdges
            (OtherNodeOfEdge (m.edge (vecGet (vecGet m.m_nodesEdges a []) n 0)) a) [] ∧
          OtherNodeOfEdge (m.edge e)
            (OtherNodeOfEdge (m.edge (vecGet (vecGet m.m_nodesEdges a []) n 0)) a) = b) :=
        fun hh => hnP (hh.elim Or.inl
          (fun ⟨n, hn, hn1⟩ => Or.inr ⟨n, Nat.lt_succ_of_lt hn, hn1⟩))
      rw [g5 e, h6 e hPj]
      refine if_neg (fun hh => hnP (Or.inr ⟨j, Nat.lt_succ_self j, ?_, ?_, ?_⟩))
      · rw [hidx, hx]; exact hxb
      · rw [hidx, hx]; exact hh.1
      · rw [hidx, hx]; exact hh.2

end meshkernel

namespace meshkernel

/-! ## `MergeTwoNodes`: the loop that reassigns the edges of the first node -/

/-- The two conditional assignments of lines 1202-1209 replace `a` by `b` at both endpoints. -/
theorem reassign_eq (E : Edge) (a b : Nat) :
    (if (if E.1 = a then ((b, E.2) : Edge) else E).2 = a
      then ((if E.1 = a then ((b, E.2) : Edge) else E).1, b)
      else (if E.1 = a then ((b, E.2) : Edge) else E))
    = ((if E.1 = a then b else E.1, if E.2 = a then b else E.2) : Edge) := by
  obtain ⟨p, q⟩ := E
  by_cases h1 : p = a <;> by_cases h2 : q = a <;> simp [h1, h2]

/-- The loop of `MergeTwoNodes` that assigns the edges of the first node to the second, over the
first `k` entries of the edge list of `a`: each listed valid edge has `a` replaced by `b`. -/
theorem mergeReassign_loop (m2 : Mesh) (a b : Nat) (c : List Nat × Nat)
    (hnd : (vecGet m2.m_nodesEdges a []).Nodup)
    (hL : ∀ e ∈ vecGet m2.m_nodesEdges a [], e < m2.m_edges.length) (k : Nat)
    (hk : k ≤ (vecGet m2.m_nodesEdges a []).length) :
    ((List.range k).foldl (mergeReassignStep a b) (m2, c)).1.m_nodesEdges = m2.m_nodesEdges ∧
    ((List.range k).foldl (mergeReassignStep a b) (m2, c)).1.m_nodesNumEdges
      = m2.m_nodesNumEdges ∧
    ((List.range k).foldl (mergeReassignStep a b) (m2, c)).1.m_nodes = m2.m_nodes ∧
    ((List.range k).foldl (mergeReassignStep a b) (m2, c)).1.m_edges.length
      = m2.m_edges.length ∧
    ∀ e, ((List.range k).foldl (mergeReassignStep a b) (m2, c)).1.edge e =
      if e ∈ (vecGet m2.m_nodesEdges a []).take k ∧ (m2.edge e).1 ≠ sizetMissingValue
      then (if (m2.edge e).1 = a then b else (m2.edge e).1,
            if (m2.edge e).2 = a then b else (m2.edge e).2)
      else m2.edge e := by
  refine foldl_range_invariant
    (fun j (s : Mesh × List Nat × Nat) => s.1.m_nodesEdges = m2.m_nodesEdges ∧
      s.1.m_nodesNumEdges = m2.m_nodesNumEdges ∧ s.1.m_nodes = m2.m_nodes ∧
      s.1.m_edges.length = m2.m_edges.length ∧
      ∀ e, s.1.edge e =
        if e ∈ (vecGet m2.m_nodesEdges a []).take j ∧ (m2.edge e).1 ≠ sizetMissingValue
        then (if (m2.edge e).1 = a then b else (m2.edge e).1,
              if (m2.edge e).2 = a then b else (m2.edge e).2)
        else m2.edge e)
    (mergeReassignStep a b) (m2, c) k
    ⟨rfl, rfl, rfl, rfl, fun e => by simp⟩ ?_
  rintro j ⟨s, c1, c2⟩ hj ⟨h1, h2, h3, h4, h5⟩
  simp only at h1 h2 h3 h4 h5
  have hjl : j < (vecGet m2.m_nodesEdges a []).length := lt_of_lt_of_le hj hk
  have hlt : vecGet (vecGet m2.m_nodesEdges a []) j 0 < m2.m_edges.length :=
    hL _ (vecGet_mem _ _ _ hjl)
  have hnot := nodup_not_mem_take _ hnd j hjl
  generalize hidx : vecGet (vecGet m2.m_nodesEdges a []) j 0 = idx at hlt hnot
  have hcur : vecGet s.m_edges idx missingEdge = m2.edge idx := by
    have := h5 idx
    rw [if_neg (fun hh => hnot hh.1)] at this
    exact this
  have hmem : ∀ e, e ∈ (vecGet m2.m_nodesEdges a []).take (j + 1) ↔
      e ∈ (vecGet m2.m_nodesEdges a []).take j ∨ e = idx := by
    intro e
    rw [mem_take_succ_iff _ _ _ hjl, hidx]
  by_cases hv : (m2.edge idx).1 ≠ sizetMissingValue
  · have hstep : ∀ E : Edge, E = (if (m2.edge idx).1 = a then b else (m2.edge idx).1,
          if (m2.edge idx).2 = a then b else (m2.edge idx).2) →
        mergeReassignStep a b (s, c1, c2) j =
          ({ s with m_edges := s.m_edges.set idx E }, c1.set c2 idx, c2 + 1) := by
      intro E hE
      unfold mergeReassignStep
      simp only [h1, hidx, hcur, reassign_eq, hE]
      exact if_pos hv
    obtain ⟨E, hE⟩ : ∃ E : Edge, E = (if (m2.edge idx).1 = a then b else (m2.edge idx).1,
        if (m2.edge idx).2 = a then b else (m2.edge idx).2) := ⟨_, rfl⟩
    rw [hstep E hE]
    refine ⟨h1, h2, h3, (List.length_set _ _ _).trans h4, ?_⟩
    intro e
    show vecGet (s.m_edges.set idx E) e missingEdge = _
    rw [vecGet_set]
    have h5e : vecGet s.m_edges e missingEdge = _ := h5 e
    by_cases he : idx = e
    · subst he
      have d1 : idx = idx ∧ idx < s.m_edges.length := ⟨rfl, by rw [h4]; exact hlt⟩
      have d2 : idx ∈ (vecGet m2.m_nodesEdges a []).take (j + 1) ∧
          (m2.edge idx).1 ≠ sizetMissingValue := ⟨(hmem idx).2 (Or.inr rfl), hv⟩
      rw [if_pos d1, if_pos d2, hE]
    · have d1 : ¬ (idx = e ∧ idx < s.m_edges.length) := fun hh => he hh.1
      rw [if_neg d1, h5e]
      by_cases hm : e ∈ (vecGet m2.m_nodesEdges a []).take j ∧
          (m2.edge e).1 ≠ sizetMissingValue
      · have d2 : e ∈ (vecGet m2.m_nodesEdges a []).take (j + 1) ∧
            (m2.edge e).1 ≠ sizetMissingValue := ⟨(hmem e).2 (Or.inl hm.1), hm.2⟩
        rw [if_pos hm, if_pos d2]
      · have d2 : ¬ (e ∈ (vecGet m2.m_nodesEdges a []).take (j + 1) ∧
            (m2.edge e).1 ≠ sizetMissingValue) := fun hh =>
          ((hmem e).1 hh.1).elim (fun h => hm ⟨h, hh.2⟩) (fun h => he h.symm)
        rw [if_neg hm, if_neg d2]
  · have hstep : mergeReassignStep a b (s, c1, c2) j = (s, c1, c2) := by
      unfold mergeReassignStep
      simp only [h1, hidx, hcur]
      exact if_neg hv
    rw [hstep]
    refine ⟨h1, h2, h3, h4, ?_⟩
    intro e
    show s.edge e = _
    rw [h5 e]
    by_cases hm : e ∈ (vecGet m2.m_nodesEdges a []).take j ∧
        (m2.edge e).1 ≠ sizetMissingValue
    · have d2 : e ∈ (vecGet m2.m_nodesEdges a []).take (j + 1) ∧
          (m2.edge e).1 ≠ sizetMissingValue := ⟨(hmem e).2 (Or.inl hm.1), hm.2⟩
      rw [if_pos hm, if_pos d2]
    · have d2 : ¬ (e ∈ (vecGet m2.m_nodesEdges a []).take (j + 1) ∧
          (m2.edge e).1 ≠ sizetMissingValue) := fun hh =>
        ((hmem e).1 hh.1).elim (fun h => hm ⟨h, hh.2⟩) (fun h => hv (h ▸ hh.2))
      rw [if_neg hm, if_neg d2]

end meshkernel

namespace meshkernel

/-! ## `MergeTwoNodes`: the whole call -/

/-- The stages of `MergeTwoNodes` on two in-range nodes: no exception is raised, the edges are
those left by the reassigning loop, and the first node is set to the missing point. -/
theorem MergeTwoNodes_parts (m : Mesh) (a b idx : Nat) (m1 m2 : Mesh)
    (ha : a < m.GetNumNodes) (hb : b < m.GetNumNodes) (hf : m.FindEdge a b = .ok idx)
    (h1 : m1 = if idx ≠ sizetMissingValue then
      { m with m_edges := m.m_edges.set idx missingEdge } else m)
    (h2 : m2 = (List.range (vecGet m1.m_nodesNumEdges a 0)).foldl (mergeDuplicatesStep a b) m1) :
    ∃ c, (m.MergeTwoNodes a b).2 = none ∧
      (m.MergeTwoNodes a b).1.m_edges =
        ((List.range (vecGet m2.m_nodesNumEdges a 0)).foldl (mergeReassignStep a b)
          (m2, c)).1.m_edges ∧
      (m.MergeTwoNodes a b).1.m_nodes =
        ((List.range (vecGet m2.m_nodesNumEdges a 0)).foldl (mergeReassignStep a b)
          (m2, c)).1.m_nodes.set a missingPoint := by
  subst h1 h2
  unfold Mesh.MergeTwoNodes
  rw [if_neg (by omega), hf]
  exact ⟨_, rfl, rfl, rfl⟩

/-- The first stage of `MergeTwoNodes`: the edge joining the two nodes, if there is one, is
invalidated and nothing else changes. -/
theorem mergeFirst_spec (m : Mesh) (hadm : m.AdministeredEdges) (a b idx : Nat)
    (hE : m.m_edges.length ≤ sizetMissingValue) (han : a < m.m_nodes.length)
    (hall : m.listsAllEdgesAt a)
    (hidx : (idx ∈ vecGet m.m_nodesEdges a [] ∧ OtherNodeOfEdge (m.edge idx) a = b) ∨
       (idx = sizetMissingValue ∧
         ∀ e ∈ vecGet m.m_nodesEdges a [], OtherNodeOfEdge (m.edge e) a ≠ b))
    (hb : b ≠ sizetMissingValue) (m1 : Mesh)
    (h1 : m1 = if idx ≠ sizetMissingValue then
      { m with m_edges := m.m_edges.set idx missingEdge } else m) :
    m1.m_nodesEdges = m.m_nodesEdges ∧ m1.m_nodesNumEdges = m.m_nodesNumEdges ∧
    m1.m_nodes = m.m_nodes ∧ m1.m_edges.length = m.m_edges.length ∧
    (∀ e, m.joins e a b → m1.edge e = missingEdge) ∧
    (∀ e, ¬ m.joins e a b → m1.edge e = m.edge e) := by
  -- an edge that joins the two nodes is listed at the first and leads to the second
  have hlisted : ∀ e, m.joins e a b →
      e ∈ vecGet m.m_nodesEdges a [] ∧ OtherNodeOfEdge (m.edge e) a = b := by
    intro e hj
    have hlt := joins_lt m e a b hb hj
    have hend : (m.edge e).1 = a ∨ (m.edge e).2 = a := by
      unfold Mesh.joins at hj
      rcases hj with ⟨h, _⟩ | ⟨_, h⟩
      · exact Or.inl h
      · exact Or.inr h
    exact ⟨hall e hlt hend, (other_eq_iff _ _ _ hend).2 hj⟩
  rcases hidx with ⟨hmem, hother⟩ | ⟨hmiss, hnone⟩
  · obtain ⟨_, hlt, _, hend⟩ := adm_entries m hadm a idx hmem
    have hne : idx ≠ sizetMissingValue := by omega
    rw [if_pos hne] at h1
    subst h1
    refine ⟨rfl, rfl, rfl, List.length_set _ _ _, ?_, ?_⟩
    · intro e hj
      obtain ⟨hem, heo⟩ := hlisted e hj
      have heq : e = idx :=
        List.inj_on_of_nodup_map (hadm.nodeEdges.ok a han).2 hem hmem (heo.trans hother.symm)
      subst heq
      show vecGet (m.m_edges.set e missingEdge) e missingEdge = missingEdge
      rw [vecGet_set]
      exact if_pos ⟨rfl, hlt⟩
    · intro e hj
      show vecGet (m.m_edges.set idx missingEdge) e missingEdge = _
      rw [vecGet_set]
      have hneq : ¬ (idx = e ∧ idx < m.m_edges.length) := by
        rintro ⟨rfl, _⟩
        exact hj ((other_eq_iff _ _ _ hend).1 hother)
      rw [if_neg hneq]
      rfl
  · rw [if_neg (fun hh => hh hmiss)] at h1
    subst h1
    refine ⟨rfl, rfl, rfl, rfl, ?_, fun _ _ => rfl⟩
    intro e hj
    obtain ⟨hem, heo⟩ := hlisted e hj
    exact absurd heo (hnone e hem)

end meshkernel

namespace meshkernel

theorem joins_swap (m : Mesh) (e x y : Nat) (h : m.joins e x y) : m.joins e y x := by
  unfold Mesh.joins at h ⊢
  exact h.symm

theorem joins_left (m : Mesh) (e x y : Nat) (h : m.joins e x y) :
    (m.edge e).1 = x ∨ (m.edge e).2 = x := by
  unfold Mesh.joins at h
  rcases h with ⟨h, _⟩ | ⟨_, h⟩
  · exact Or.inl h
  · exact Or.inr h

/-- `MergeTwoNodes` on two distinct in-range nodes of an administered mesh whose node tables list
every edge and that has no self-loop: the first node becomes the missing point; the edge joining
the two nodes and every edge from the second node to a neighbour of the first are invalidated;
every other edge at the first node has the first node replaced by the second; every other edge
is as before. -/
theorem MergeTwoNodes_edges (m : Mesh) (hadm : m.AdministeredEdges)
    (hN : m.m_nodes.length ≤ sizetMissingValue) (hE : m.m_edges.length ≤ sizetMissingValue)
    (a b : Nat) (hab : a ≠ b) (ha : a < m.GetNumNodes) (hb : b < m.GetNumNodes)
    (hall : ∀ n, n < m.m_nodes.length → m.listsAllEdgesAt n)
    (hloop : ∀ e, e < m.m_edges.length → (m.edge e).1 ≠ (m.edge e).2) :
    (m.MergeTwoNodes a b).2 = none ∧
    (m.MergeTwoNodes a b).1.m_nodes = m.m_nodes.set a missingPoint ∧
    (m.MergeTwoNodes a b).1.m_edges.length = m.m_edges.length ∧
    ∀ e, e < m.m_edges.length →
      (m.joins e a b → (m.MergeTwoNodes a b).1.edge e = missingEdge) ∧
      (∀ x e1, e1 < m.m_edges.length → m.joins e1 a x → m.joins e b x →
        (m.MergeTwoNodes a b).1.edge e = missingEdge) ∧
      (¬ m.joins e a b → ((m.edge e).1 = a ∨ (m.edge e).2 = a) →
        (m.MergeTwoNodes a b).1.edge e =
          (if (m.edge e).1 = a then b else (m.edge e).1,
           if (m.edge e).2 = a then b else (m.edge e).2)) ∧
      (¬ ((m.edge e).1 = a ∨ (m.edge e).2 = a) →
        (¬ ∃ x e1, e1 < m.m_edges.length ∧ m.joins e1 a x ∧ m.joins e b x) →
        (m.MergeTwoNodes a b).1.edge e = m.edge e) := by
  have han : a < m.m_nodes.length := by
    have := hadm.nodeEdges.numNodes
    unfold Mesh.GetNumNodes at ha
    omega
  have hbn : b < m.m_nodes.length := by
    have := hadm.nodeEdges.numNodes
    unfold Mesh.GetNumNodes at hb
    omega
  have ham : a ≠ sizetMissingValue := by omega
  have hbm : b ≠ sizetMissingValue := by omega
  obtain ⟨idx, hf, hidx⟩ := FindEdge_spec m hadm a b ham hbm
  obtain ⟨m1, h1⟩ : ∃ m1 : Mesh, m1 = if idx ≠ sizetMissingValue then
      { m with m_edges := m.m_edges.set idx missingEdge } else m := ⟨_, rfl⟩
  obtain ⟨f1, f2, f3, f4, hA, hB⟩ :=
    mergeFirst_spec m hadm a b idx hE han (hall a han) hidx hbm m1 h1
  obtain ⟨m2, h2⟩ : ∃ m2 : Mesh, m2 =
      (List.range (vecGet m1.m_nodesNumEdges a 0)).foldl (mergeDuplicatesStep a b) m1 :=
    ⟨_, rfl⟩
  obtain ⟨c, p1, p2, p3⟩ := MergeTwoNodes_parts m a b idx m1 m2 ha hb hf h1 h2
  have hnum1 : vecGet m1.m_nodesNumEdges a 0 = (vecGet m.m_nodesEdges a []).length := by
    rw [f2, adm_length m hadm a]
  rw [hnum1] at h2
  obtain ⟨g1, g2, g3, g4, g5, g6⟩ := mergeDuplicates_loop m m1 hadm a b hab hbm f1 f2 f3 f4 hA hB
    (vecGet m.m_nodesEdges a []).length (le_refl _)
  rw [← h2] at g1 g2 g3 g4 g5 g6
  have hnum2 : vecGet m2.m_nodesNumEdges a 0 = (vecGet m2.m_nodesEdges a []).length := by
    rw [g1, g2, adm_length m hadm a]
  rw [hnum2] at p2 p3
  obtain ⟨_, _, r3, r4, r5⟩ := mergeReassign_loop m2 a b c
    (by rw [g1]; exact adm_nodup m hadm a)
    (by
      intro e he
      rw [g1] at he
      rw [g4]
      exact (adm_entries m hadm a e he).2.1)
    (vecGet m2.m_nodesEdges a []).length (le_refl _)
  generalize (List.range (vecGet m2.m_nodesEdges a []).length).foldl (mergeReassignStep a b)
    (m2, c) = s at p2 p3 r3 r4 r5
  rw [List.take_length, g1] at r5
  have hedge : ∀ e, (m.MergeTwoNodes a b).1.edge e = s.1.edge e := by
    intro e
    unfold Mesh.edge
    rw [p2]
  -- an invalidated edge stays invalid
  have hinv : ∀ e, m2.edge e = missingEdge → (m.MergeTwoNodes a b).1.edge e = missingEdge := by
    intro e he
    have d : ¬ (e ∈ vecGet m.m_nodesEdges a [] ∧ (m2.edge e).1 ≠ sizetMissingValue) := by
      rw [he]
      exact fun hh => hh.2 rfl
    rw [hedge, r5, if_neg d, he]
  refine ⟨p1, by rw [p3, r3, g3], by rw [p2, r4, g4], ?_⟩
  intro e he
  refine ⟨?_, ?_, ?_, ?_⟩
  · intro hj
    exact hinv e (g5 e (Or.inl hj))
  · intro x e1 he1 hj1 hj
    apply hinv e
    apply g5 e
    right
    have hend1 := joins_left m e1 a x hj1
    obtain ⟨n, hn, hne⟩ := mem_exists_vecGet _ e1 (hall a han e1 he1 hend1)
    have ho1 : OtherNodeOfEdge (m.edge e1) a = x := (other_eq_iff _ _ _ hend1).2 hj1
    have hxb : x ≠ b := by
      rintro rfl
      unfold Mesh.joins at hj
      apply hloop e he
      rcases hj with ⟨h, h'⟩ | ⟨h, h'⟩ <;> rw [h, h']
    have hxn : x < m.m_nodes.length := by
      obtain ⟨_, q1, q2⟩ := adm_endpoints m hadm e1 he1
      rw [← ho1]
      unfold OtherNodeOfEdge
      split
      · exact q2
      · exact q1
    have hendx : (m.edge e).1 = x ∨ (m.edge e).2 = x := joins_left m e x b (joins_swap m e b x hj)
    refine ⟨n, hn, ?_, ?_, ?_⟩
    · rw [← hne, ho1]; exact hxb
    · rw [← hne, ho1]; exact hall x hxn e he hendx
    · rw [← hne, ho1]; exact (other_eq_iff _ _ _ hendx).2 (joins_swap m e b x hj)
  · intro hnj hend
    have hmem : e ∈ vecGet m.m_nodesEdges a [] := hall a han e he hend
    have h2e : m2.edge e = m.edge e := by
      apply g6 e
      rintro (h | ⟨n, _, _, hn2, hn3⟩)
      · exact hnj h
      · exact not_listed_to_second m hadm a b e _ hab hmem hnj hn2 hn3
    have hvalid : (m.edge e).1 ≠ sizetMissingValue := by
      have := (adm_endpoints m hadm e he).1
      unfold edgeIsMissing at this
      simp only [Bool.or_eq_false_iff, beq_eq_false_iff_ne, ne_eq] at this
      exact this.1
    have d : e ∈ vecGet m.m_nodesEdges a [] ∧ (m2.edge e).1 ≠ sizetMissingValue := by
      rw [h2e]
      exact ⟨hmem, hvalid⟩
    rw [hedge, r5, if_pos d, h2e]
  · intro hnend hnx
    have hnmem : e ∉ vecGet m.m_nodesEdges a [] :=
      fun hh => hnend (adm_entries m hadm a e hh).2.2.2
    have h2e : m2.edge e = m.edge e := by
      apply g6 e
      rintro (h | ⟨n, hn, _, hn2, hn3⟩)
      · exact hnend (joins_left m e a b h)
      · apply hnx
        have hmemn := vecGet_mem (vecGet m.m_nodesEdges a []) n 0 hn
        obtain ⟨_, hlt, _, hendn⟩ := adm_entries m hadm a _ hmemn
        obtain ⟨_, _, _, hendx⟩ := adm_entries m hadm _ e hn2
        exact ⟨_, _, hlt, (other_eq_iff _ _ _ hendn).1 rfl,
          joins_swap m e _ b ((other_eq_iff _ _ _ hendx).1 hn3)⟩
    have d : ¬ (e ∈ vecGet m.m_nodesEdges a [] ∧ (m2.edge e).1 ≠ sizetMissingValue) :=
      fun hh => hnmem hh.1
    rw [hedge, r5, if_neg d, h2e]

end meshkernel

namespace meshkernel

/-! ## `InsertNode` followed by `DeleteNode` and `Administrate` -/

theorem vecResize_length {α : Type} (l : List α) (n : Nat) (d : α) :
    (vecResize l n d).length = n := by
  unfold vecResize
  simp only [List.length_append, List.length_take, List.length_replicate]
  omega

theorem vecResize_succ_length {α : Type} (l : List α) (d : α) :
    vecResize l (l.length + 1) d = l ++ [d] := by
  unfold vecResize
  rw [List.take_of_length_le (Nat.le_succ _)]
  have : l.length + 1 - l.length = 1 := by omega
  rw [this]
  rfl

theorem set_append_length {α : Type} (l : List α) (a b : α) :
    (l ++ [a]).set l.length b = l ++ [b] := by
  induction l with
  | nil => rfl
  | cons x l ih => simp [List.set, ih]

/-- The state that `InsertNode` followed by `DeleteNode` of the new index leaves: no exception, the
nodes of the mesh followed by one missing point, the edges as they were. -/
theorem InsertNode_DeleteNode_state (M : Mesh) (p : Point)
    (hN : M.m_numNodes = M.m_nodes.length) :
    ((M.InsertNode p).1.DeleteNode (M.InsertNode p).2).2 = none ∧
    ((M.InsertNode p).1.DeleteNode (M.InsertNode p).2).1.m_nodes = M.m_nodes ++ [missingPoint] ∧
    ((M.InsertNode p).1.DeleteNode (M.InsertNode p).2).1.m_edges = M.m_edges := by
  have hnum : vecGet ((vecResize M.m_nodesNumEdges (M.m_nodes.length + 1) 0).set
      M.m_nodes.length 0) M.m_nodes.length 0 = 0 := by
    rw [vecGet_set, vecResize_length]
    exact if_pos ⟨rfl, Nat.lt_succ_self _⟩
  unfold Mesh.DeleteNode Mesh.InsertNode
  simp only [Mesh.GetNumNodes, hN, hnum, List.range_zero, List.foldl_nil]
  rw [if_neg (by omega)]
  refine ⟨rfl, ?_, rfl⟩
  show ((vecResize M.m_nodes (M.m_nodes.length + 1) missingPoint).set M.m_nodes.length p).set
    M.m_nodes.length missingPoint = _
  rw [vecResize_succ_length, set_append_length, set_append_length]

/-- Stage 1 on a mesh whose nodes are valid connected nodes followed by one missing point, and
whose edges are valid: the missing point is dropped and nothing is renumbered. -/
theorem surviving_of_trailing_missing (M M2 : Mesh)
    (hnodes : M2.m_nodes = M.m_nodes ++ [missingPoint]) (hedges2 : M2.m_edges = M.m_edges)
    (hvalid : ∀ q ∈ M.m_nodes, q.IsValid = true)
    (hedges : ∀ e ∈ M.m_edges, edgeIsMissing e = false ∧ e.1 < M.m_nodes.length ∧
      e.2 < M.m_nodes.length)
    (hconn : ∀ k, k < M.m_nodes.length → M.nodeConnected k = true) :
    M2.survivingNodes = M.m_nodes ∧ M2.survivingEdges = M.m_edges := by
  have hget : ∀ k, k < M.m_nodes.length →
      vecGet M2.m_nodes k missingPoint = vecGet M.m_nodes k missingPoint := by
    intro k hk
    rw [hnodes, vecGet_append_left _ _ _ _ hk]
  have hsurv : ∀ k, k < M.m_nodes.length → M2.nodeSurvives k = true := by
    intro k hk
    have hc : M2.nodeConnected k = true := by
      have := hconn k hk
      unfold Mesh.nodeConnected at this ⊢
      rw [hedges2]
      exact this
    unfold Mesh.nodeSurvives
    rw [hget k hk, hvalid _ (vecGet_mem _ _ _ hk), hc]
    rfl
  have hlast : M2.nodeSurvives M.m_nodes.length = false := by
    unfold Mesh.nodeSurvives
    rw [hnodes, vecGet_append_length, missingPoint_not_valid]
    rfl
  have hremap : ∀ k, k ≤ M.m_nodes.length → M2.remap k = k := by
    intro k hk
    unfold Mesh.remap
    rw [List.countP_eq_length.2, List.length_range]
    intro j hj
    exact hsurv j (lt_of_lt_of_le (List.mem_range.1 hj) hk)
  constructor
  · unfold Mesh.survivingNodes
    rw [hnodes, List.length_append, List.length_singleton, List.range_succ, List.filter_append,
      List.filter_eq_self.2 (fun j hj => hsurv j (List.mem_range.1 hj))]
    simp only [List.filter_cons, List.filter_nil, hlast, List.append_nil, Bool.false_eq_true,
      if_false]
    rw [← hnodes]
    have : (List.range M.m_nodes.length).map (fun k => vecGet M2.m_nodes k missingPoint)
        = (List.range M.m_nodes.length).map (fun k => vecGet M.m_nodes k missingPoint) :=
      List.map_congr_left (fun j hj => hget j (List.mem_range.1 hj))
    rw [this]
    exact map_vecGet_range _ _
  · unfold Mesh.survivingEdges
    rw [hedges2, List.filter_eq_self.2]
    · have : M.m_edges.map (fun e => (M2.remap e.1, M2.remap e.2)) = M.m_edges.map id := by
        apply List.map_congr_left
        intro e he
        obtain ⟨_, h1, h2⟩ := hedges e he
        show (M2.remap e.1, M2.remap e.2) = e
        rw [hremap _ (le_of_lt h1), hremap _ (le_of_lt h2)]
      rw [this, List.map_id]
    · intro e he
      obtain ⟨h0, h1, h2⟩ := hedges e he
      unfold Mesh.edgeSurvives
      rw [h0, hsurv _ h1, hsurv _ h2]
      rfl

/-- On a mesh whose nodes are all valid and connected and whose edges are all valid (what
`Administrate` leaves when no node is left without an edge), `InsertNode`, `DeleteNode` of the new
index and `Administrate` give back the nodes and the edges of the mesh. -/
theorem InsertNode_DeleteNode_Administrate_connected (ops : Operations) (M : Mesh) (p : Point)
    (hN : M.m_numNodes = M.m_nodes.length) (hlen : M.m_nodes.length < sizetMissingValue)
    (hvalid : ∀ q ∈ M.m_nodes, q.IsValid = true)
    (hedges : ∀ e ∈ M.m_edges, edgeIsMissing e = false ∧ e.1 < M.m_nodes.length ∧
      e.2 < M.m_nodes.length)
    (hconn : ∀ k, k < M.m_nodes.length → M.nodeConnected k = true) :
    ∃ M', Mesh.Administrate ops ((M.InsertNode p).1.DeleteNode (M.InsertNode p).2).1
        AdministrationOptions.AdministrateMeshEdgesAndFaces = .ok M' ∧
      M'.m_nodes = M.m_nodes ∧ M'.m_edges = M.m_edges := by
  obtain ⟨_, h2, h3⟩ := InsertNode_DeleteNode_state M p hN
  generalize ((M.InsertNode p).1.DeleteNode (M.InsertNode p).2).1 = M2 at h2 h3
  have hr : M2.EdgesInRange := by
    intro e he
    rw [h3] at he
    obtain ⟨_, q1, q2⟩ := hedges e he
    rw [h2, List.length_append, List.length_singleton]
    exact ⟨fun _ => by omega, fun _ => by omega⟩
  have hn : M2.m_nodes.length ≤ sizetMissingValue := by
    rw [h2, List.length_append, List.length_singleton]
    omega
  obtain ⟨M', a1, a2, a3, _⟩ := Administrate_faces_ok ops M2 hr hn
  obtain ⟨s1, s2⟩ := surviving_of_trailing_missing M M2 h2 h3 hvalid hedges hconn
  exact ⟨M', a1, a2.trans s1, a3.trans s2⟩

end meshkernel

namespace meshkernel

/-! ## `FindEdge` on the two orders of a pair of nodes, and `ConnectNodes` -/

/-- An edge listed at `u` that leads to `v` is listed at `v` and leads to `u` from there. -/
theorem listed_other_symm (m : Mesh) (hadm : m.AdministeredEdges) (u v idx : Nat)
    (hmem : idx ∈ vecGet m.m_nodesEdges u []) (ho : OtherNodeOfEdge (m.edge idx) u = v) :
    idx ∈ vecGet m.m_nodesEdges v [] ∧ OtherNodeOfEdge (m.edge idx) v = u := by
  obtain ⟨hu, _, _, hend⟩ := adm_entries m hadm u idx hmem
  have hsym := hadm.nodeEdges.sym u hu idx hmem
  rw [ho] at hsym
  have hj : m.joins idx u v := (other_eq_iff _ _ _ hend).1 ho
  have hj' := joins_swap m idx u v hj
  exact ⟨hsym, (other_eq_iff _ _ _ (joins_left m idx v u hj')).2 hj'⟩

/-- `FindEdge` gives the same result on `(u, v)` and on `(v, u)`: the missing value, or the index
of a valid edge that joins `u` and `v`. -/
theorem FindEdge_symm (m : Mesh) (hadm : m.AdministeredEdges)
    (hN : m.m_nodes.length ≤ sizetMissingValue) (u v : Nat)
    (hu : u < m.GetNumNodes) (hv : v < m.GetNumNodes) :
    ∃ r, m.FindEdge u v = .ok r ∧ m.FindEdge v u = .ok r ∧
      (r = sizetMissingValue ∨
        (r < m.m_edges.length ∧ edgeIsMissing (m.edge r) = false ∧ m.joins r u v)) := by
  have hnum := hadm.nodeEdges.numNodes
  unfold Mesh.GetNumNodes at hu hv
  have hun : u < m.m_nodes.length := by omega
  have hvn : v < m.m_nodes.length := by omega
  have hum : u ≠ sizetMissingValue := by omega
  have hvm : v ≠ sizetMissingValue := by omega
  obtain ⟨r, hr, hcase⟩ := FindEdge_spec m hadm u v hum hvm
  obtain ⟨r', hr', hcase'⟩ := FindEdge_spec m hadm v u hvm hum
  rcases hcase with ⟨hmem, ho⟩ | ⟨hmiss, hnone⟩
  · obtain ⟨hmem2, ho2⟩ := listed_other_symm m hadm u v r hmem ho
    obtain ⟨_, hlt, hvalid, hend⟩ := adm_entries m hadm u r hmem
    have hj : m.joins r u v := (other_eq_iff _ _ _ hend).1 ho
    rcases hcase' with ⟨hmem', ho'⟩ | ⟨_, hnone'⟩
    · have heq : r' = r :=
        List.inj_on_of_nodup_map (hadm.nodeEdges.ok v hvn).2 hmem' hmem2 (ho'.trans ho2.symm)
      subst heq
      exact ⟨r', hr, hr', Or.inr ⟨hlt, hvalid, hj⟩⟩
    · exact absurd ho2 (hnone' r hmem2)
  · rcases hcase' with ⟨hmem', ho'⟩ | ⟨hmiss', _⟩
    · obtain ⟨hmem2, ho2⟩ := listed_other_symm m hadm v u r' hmem' ho'
      exact absurd ho2 (hnone r' hmem2)
    · subst hmiss hmiss'
      exact ⟨_, hr, hr', Or.inl rfl⟩

/-- `ConnectNodes` on two in-range nodes: when an edge joining them is listed at the first node
the call returns the missing value and changes nothing; otherwise it appends the edge. -/
theorem ConnectNodes_spec (m : Mesh) (hadm : m.AdministeredEdges)
    (hN : m.m_nodes.length ≤ sizetMissingValue) (hE : m.m_edges.length ≤ sizetMissingValue)
    (u v : Nat) (hu : u < m.GetNumNodes) (hv : v < m.GetNumNodes) :
    ((∃ e, e ∈ vecGet m.m_nodesEdges u [] ∧ m.joins e u v) →
      m.ConnectNodes u v = (m, .ok sizetMissingValue)) ∧
    ((¬ ∃ e, e ∈ vecGet m.m_nodesEdges u [] ∧ m.joins e u v) →
      (m.ConnectNodes u v).2 = .ok m.GetNumEdges ∧
      (m.ConnectNodes u v).1.m_edges = m.m_edges ++ [(u, v)] ∧
      (m.ConnectNodes u v).1.m_nodes = m.m_nodes ∧
      (m.ConnectNodes u v).1.m_numEdges = m.m_numEdges + 1 ∧
      (m.ConnectNodes u v).1.m_edgesRTreeRequiresUpdate = true) := by
  have hnum := hadm.nodeEdges.numNodes
  have hnumE : m.GetNumEdges = m.m_edges.length := hadm.nodeEdges.numEdges
  unfold Mesh.GetNumNodes at hu hv
  have hum : u ≠ sizetMissingValue := by omega
  have hvm : v ≠ sizetMissingValue := by omega
  obtain ⟨r, hr, hcase⟩ := FindEdge_spec m hadm u v hum hvm
  unfold Mesh.ConnectNodes
  rw [hr]
  dsimp only
  constructor
  · rintro ⟨e, hmem, hj⟩
    rcases hcase with ⟨hmemr, _⟩ | ⟨_, hnone⟩
    · have hlt := (adm_entries m hadm u r hmemr).2.1
      have hne : r ≠ sizetMissingValue := by omega
      rw [if_pos hne]
    · exact absurd ((other_eq_iff _ _ _ (joins_left m e u v hj)).2 hj) (hnone e hmem)
  · intro hnot
    rcases hcase with ⟨hmemr, ho⟩ | ⟨hmiss, _⟩
    · exact absurd ⟨r, hmemr, (other_eq_iff _ _ _ (adm_entries m hadm u r hmemr).2.2.2).1 ho⟩ hnot
    · have hne : ¬ r ≠ sizetMissingValue := fun hh => hh hmiss
      rw [if_neg hne]
      refine ⟨rfl, ?_, rfl, rfl, rfl⟩
      show (vecResize m.m_edges (m.GetNumEdges + 1) (0, 0)).set m.GetNumEdges (u, v) = _
      rw [hnumE, vecResize_succ_length, set_append_length]

/-! ## `GetHangingEdges` -/

theorem foldl_append_if {α : Type} (p : α → Bool) (l : List α) (init : List α) :
    l.foldl (fun r a => if p a = true then r ++ [a] else r) init = init ++ l.filter p := by
  induction l generalizing init with
  | nil => simp
  | cons a l ih =>
    rw [List.foldl_cons, ih, List.filter_cons]
    by_cases h : p a = true
    · simp [h]
    · simp [h]

/-- `GetHangingEdges` is the filter of the edge indices by: the edge is valid and one of its
endpoints has at most one edge in `m_nodesNumEdges`. -/
theorem GetHangingEdges_eq (m : Mesh) :
    m.GetHangingEdges = (List.range m.GetNumEdges).filter (fun e =>
      decide ((m.edge e).1 ≠ sizetMissingValue ∧ (m.edge e).2 ≠ sizetMissingValue ∧
        (vecGet m.m_nodesNumEdges (m.edge e).1 0 ≤ 1 ∨
          vecGet m.m_nodesNumEdges (m.edge e).2 0 ≤ 1))) := by
  unfold Mesh.GetHangingEdges
  have hstep : hangingEdgesStep m = (fun r e => if (fun e =>
      decide ((m.edge e).1 ≠ sizetMissingValue ∧ (m.edge e).2 ≠ sizetMissingValue ∧
        (vecGet m.m_nodesNumEdges (m.edge e).1 0 ≤ 1 ∨
          vecGet m.m_nodesNumEdges (m.edge e).2 0 ≤ 1))) e = true then r ++ [e] else r) := by
    funext r e
    unfold hangingEdgesStep Mesh.edge
    simp only [decide_eq_true_eq]
    by_cases h1 : (vecGet m.m_edges e missingEdge).1 ≠ sizetMissingValue ∧
        (vecGet m.m_edges e missingEdge).2 ≠ sizetMissingValue
    · by_cases h2 : vecGet m.m_nodesNumEdges (vecGet m.m_edges e missingEdge).1 0 > 1 ∧
          vecGet m.m_nodesNumEdges (vecGet m.m_edges e missingEdge).2 0 > 1
      · have h3 : ¬ ((vecGet m.m_edges e missingEdge).1 ≠ sizetMissingValue ∧
            (vecGet m.m_edges e missingEdge).2 ≠ sizetMissingValue ∧
            (vecGet m.m_nodesNumEdges (vecGet m.m_edges e missingEdge).1 0 ≤ 1 ∨
              vecGet m.m_nodesNumEdges (vecGet m.m_edges e missingEdge).2 0 ≤ 1)) := by
          rintro ⟨_, _, h | h⟩ <;> omega
        rw [if_pos h1, if_pos h2, if_neg h3]
      · have h3 : (vecGet m.m_edges e missingEdge).1 ≠ sizetMissingValue ∧
            (vecGet m.m_edges e missingEdge).2 ≠ sizetMissingValue ∧
            (vecGet m.m_nodesNumEdges (vecGet m.m_edges e missingEdge).1 0 ≤ 1 ∨
              vecGet m.m_nodesNumEdges (vecGet m.m_edges e missingEdge).2 0 ≤ 1) := by
          refine ⟨h1.1, h1.2, ?_⟩
          by_contra hc
          apply h2
          constructor <;> omega
        rw [if_pos h1, if_neg h2, if_pos h3]
    · have h3 : ¬ ((vecGet m.m_edges e missingEdge).1 ≠ sizetMissingValue ∧
          (vecGet m.m_edges e missingEdge).2 ≠ sizetMissingValue ∧
          (vecGet m.m_nodesNumEdges (vecGet m.m_edges e missingEdge).1 0 ≤ 1 ∨
            vecGet m.m_nodesNumEdges (vecGet m.m_edges e missingEdge).2 0 ≤ 1)) :=
        fun hh => h1 ⟨hh.1, hh.2.1⟩
      rw [if_neg h1, if_neg h3]
  rw [hstep, foldl_append_if, List.nil_append]

end meshkernel

namespace meshkernel

/-! ## `operator+=`: the concatenation -/

/-- Writing `g i` at the positions `base, ..., base + k - 1` of a vector. -/
theorem fill_tail {α : Type} (l : List α) (g : Nat → α) (base k : Nat)
    (hk : base + k ≤ l.length) :
    (List.range' base k).foldl (fun v i => v.set i (g i)) l =
      l.take base ++ (List.range' base k).map g ++ l.drop (base + k) := by
  induction k with
  | zero => simp
  | succ k ih =>
    rw [List.range'_1_concat, List.foldl_append, ih (by omega), List.foldl_cons, List.foldl_nil,
      List.map_append, List.map_singleton]
    have hlen : (l.take base ++ (List.range' base k).map g).length = base + k := by
      rw [List.length_append, List.length_take, List.length_map, List.length_range']
      omega
    rw [List.set_append_right _ _ (le_of_eq hlen), hlen, Nat.sub_self,
      List.drop_eq_getElem_cons (by omega : base + k < l.length)]
    simp [Nat.add_assoc]

theorem nodes_fold_eq (G : Nat → Nat → Point) (L : List Nat) (m1 : Mesh) :
    L.foldl (fun (s : Mesh) n => { s with m_nodes := s.m_nodes.set n (G s.GetNumNodes n) }) m1 =
      { m1 with m_nodes := L.foldl (fun v i => v.set i (G m1.GetNumNodes i)) m1.m_nodes } := by
  induction L generalizing m1 with
  | nil => rfl
  | cons a L ih =>
    rw [List.foldl_cons, ih]
    rfl

theorem edges_fold_eq (G : Nat → Nat → Nat → Edge) (L : List Nat) (m1 : Mesh) :
    L.foldl (fun (s : Mesh) e =>
        { s with m_edges := s.m_edges.set e (G s.GetNumEdges s.GetNumNodes e) }) m1 =
      { m1 with m_edges :=
          L.foldl (fun v i => v.set i (G m1.GetNumEdges m1.GetNumNodes i)) m1.m_edges } := by
  induction L generalizing m1 with
  | nil => rfl
  | cons a L ih =>
    rw [List.foldl_cons, ih]
    rfl

theorem map_range'_shift {α : Type} (l : List α) (d : α) (base : Nat) (hb : base + l.length < 2 ^ 64) :
    (List.range' base l.length).map (fun i => vecGet l (sizetSub i base) d) = l := by
  rw [List.range'_eq_map_range, List.map_map]
  have : (List.range l.length).map ((fun i => vecGet l (sizetSub i base) d) ∘ fun x => base + x)
      = (List.range l.length).map (fun i => vecGet l i d) := by
    apply List.map_congr_left
    intro i hi
    have hi' := List.mem_range.1 hi
    show vecGet l (sizetSub (base + i) base) d = vecGet l i d
    rw [sizetSub_eq _ _ (Nat.le_add_right _ _) (by omega), Nat.add_sub_cancel_left]
  rw [this, map_vecGet_range]

/-- The concatenation of `operator+=` on two meshes whose counts are the lengths of their vectors
(as `Administrate` leaves them), the edges of the right mesh having node indices as endpoints:
the nodes are the nodes of the left mesh followed by those of the right mesh, the edges are the
edges of the left mesh followed by those of the right mesh with both endpoints raised by the node
count of the left mesh. -/
theorem appendNodesAndEdges_eq (A B : Mesh)
    (hAn : A.m_numNodes = A.m_nodes.length) (hAe : A.m_numEdges = A.m_edges.length)
    (hBn : B.m_numNodes = B.m_nodes.length) (hBe : B.m_numEdges = B.m_edges.length)
    (hN : A.m_nodes.length + B.m_nodes.length < 2 ^ 64)
    (hE : A.m_edges.length + B.m_edges.length < 2 ^ 64)
    (hB : ∀ e ∈ B.m_edges, e.1 < B.m_nodes.length ∧ e.2 < B.m_nodes.length) :
    (A.appendNodesAndEdges B).m_nodes = A.m_nodes ++ B.m_nodes ∧
    (A.appendNodesAndEdges B).m_edges =
      A.m_edges ++ B.m_edges.map (fun e => (e.1 + A.GetNumNodes, e.2 + A.GetNumNodes)) ∧
    (A.appendNodesAndEdges B).m_nodesRTreeRequiresUpdate = true ∧
    (A.appendNodesAndEdges B).m_edgesRTreeRequiresUpdate = true := by
  have key := edges_fold_eq
    (fun ne nn e => (((vecGet B.m_edges (sizetSub e ne) missingEdge).1 + nn) % 2 ^ 64,
      ((vecGet B.m_edges (sizetSub e ne) missingEdge).2 + nn) % 2 ^ 64))
  have key2 := nodes_fold_eq (fun nn n => vecGet B.m_nodes (sizetSub n nn) missingPoint)
  unfold Mesh.appendNodesAndEdges
  simp only []
  rw [key2, key]
  refine ⟨?_, ?_, trivial, trivial⟩
  · show (List.range' A.m_numNodes B.m_numNodes).foldl
      (fun v i => v.set i (vecGet B.m_nodes (sizetSub i A.m_numNodes) missingPoint))
      (vecResize A.m_nodes (A.m_numNodes + B.m_numNodes) missingPoint) = _
    rw [hAn, hBn, fill_tail _ _ _ _ (by rw [vecResize_length])]
    have h1 : (vecResize A.m_nodes (A.m_nodes.length + B.m_nodes.length) missingPoint).take
        A.m_nodes.length = A.m_nodes := by
      unfold vecResize
      rw [List.take_of_length_le (Nat.le_add_right _ _), List.take_left']
      rfl
    have h2 : (vecResize A.m_nodes (A.m_nodes.length + B.m_nodes.length) missingPoint).drop
        (A.m_nodes.length + B.m_nodes.length) = [] := by
      apply List.drop_of_length_le
      rw [vecResize_length]
    rw [h1, h2, List.append_nil, map_range'_shift _ _ _ hN]
  · show (List.range' A.m_numEdges B.m_numEdges).foldl
      (fun v i => v.set i
        (((vecGet B.m_edges (sizetSub i A.m_numEdges) missingEdge).1 + A.m_numNodes) % 2 ^ 64,
          ((vecGet B.m_edges (sizetSub i A.m_numEdges) missingEdge).2 + A.m_numNodes) % 2 ^ 64))
      (vecResize A.m_edges (A.m_numEdges + B.m_numEdges) (0, 0)) = _
    rw [hAe, hBe, fill_tail _ _ _ _ (by rw [vecResize_length])]
    have h1 : (vecResize A.m_edges (A.m_edges.length + B.m_edges.length) ((0, 0) : Edge)).take
        A.m_edges.length = A.m_edges := by
      unfold vecResize
      rw [List.take_of_length_le (Nat.le_add_right _ _), List.take_left']
      rfl
    have h2 : (vecResize A.m_edges (A.m_edges.length + B.m_edges.length) ((0, 0) : Edge)).drop
        (A.m_edges.length + B.m_edges.length) = [] := by
      apply List.drop_of_length_le
      rw [vecResize_length]
    rw [h1, h2, List.append_nil]
    congr 1
    have h3 : (List.range' A.m_edges.length B.m_edges.length).map (fun i =>
        (((vecGet B.m_edges (sizetSub i A.m_edges.length) missingEdge).1 + A.m_numNodes) % 2 ^ 64,
          ((vecGet B.m_edges (sizetSub i A.m_edges.length) missingEdge).2 + A.m_numNodes) % 2 ^ 64))
        = ((List.range' A.m_edges.length B.m_edges.length).map
            (fun i => vecGet B.m_edges (sizetSub i A.m_edges.length) missingEdge)).map
            (fun e => ((e.1 + A.m_numNodes) % 2 ^ 64, (e.2 + A.m_numNodes) % 2 ^ 64)) := by
      rw [List.map_map]
      rfl
    rw [h3, map_range'_shift _ _ _ hE]
    apply List.map_congr_left
    intro e he
    obtain ⟨q1, q2⟩ := hB e he
    show ((e.1 + A.m_numNodes) % 2 ^ 64, (e.2 + A.m_numNodes) % 2 ^ 64) =
      (e.1 + A.m_numNodes, e.2 + A.m_numNodes)
    rw [Nat.mod_eq_of_lt (by omega), Nat.mod_eq_of_lt (by omega)]

end meshkernel

namespace meshkernel

/-! ## Filling a vector behind a counter -/

/-- A loop that writes the selected entries behind a counter: the counter advances by the number
of selected entries, and the vector holds them, in order, behind what it held below the
counter. -/
theorem fillCounter_spec {α : Type} (c : Nat → Prop) [DecidablePred c] (f : Nat → α)
    (step : List α × Nat → Nat → List α × Nat)
    (hstep : ∀ s n, step s n = if c n then (s.1.set s.2 (f n), s.2 + 1) else s)
    (L : List Nat) (v : List α) (i : Nat) (hcap : i + L.length ≤ v.length) :
    (L.foldl step (v, i)).2 = i + (L.filter (fun n => decide (c n))).length ∧
    (L.foldl step (v, i)).1.length = v.length ∧
    (L.foldl step (v, i)).1.take (L.foldl step (v, i)).2 =
      v.take i ++ (L.filter (fun n => decide (c n))).map f := by
  induction L generalizing v i with
  | nil => simp
  | cons n L ih =>
    rw [List.foldl_cons, hstep]
    simp only [List.length_cons] at hcap
    by_cases hc : c n
    · rw [if_pos hc]
      obtain ⟨h1, h2, h3⟩ := ih (v.set i (f n)) (i + 1) (by rw [List.length_set]; omega)
      have hfil : (n :: L).filter (fun n => decide (c n)) =
          n :: L.filter (fun n => decide (c n)) := by
        rw [List.filter_cons]
        simp [hc]
      rw [hfil]
      refine ⟨by rw [h1, List.length_cons]; omega, by rw [h2, List.length_set], ?_⟩
      rw [h3, take_set_succ _ _ _ (by omega), List.map_cons, List.append_assoc]
      rfl
    · rw [if_neg hc]
      obtain ⟨h1, h2, h3⟩ := ih v i (by omega)
      have hfil : (n :: L).filter (fun n => decide (c n)) = L.filter (fun n => decide (c n)) := by
        rw [List.filter_cons]
        simp [hc]
      rw [hfil]
      exact ⟨h1, h2, h3⟩

theorem filter_length_le_range (p : Nat → Bool) (B : Nat) :
    ((List.range B).filter p).length ≤ B := by
  have := List.length_filter_le p (List.range B)
  rwa [List.length_range] at this

/-- The double loop that writes the selected entries `(m, n)`, `m < A`, `n < B`, behind a
counter. -/
theorem fillCounter_nested {α : Type} (c : Nat → Nat → Prop) [∀ m, DecidablePred (c m)]
    (f : Nat → Nat → α) (step : Nat → List α × Nat → Nat → List α × Nat)
    (hstep : ∀ m s n, step m s n = if c m n then (s.1.set s.2 (f m n), s.2 + 1) else s)
    (A B : Nat) (v : List α) (i : Nat) (hcap : i + A * B ≤ v.length) :
    ((List.range A).foldl (fun s m => (List.range B).foldl (step m) s) (v, i)).2 =
      i + ((List.range A).flatMap (fun m =>
        ((List.range B).filter (fun n => decide (c m n))).map (f m))).length ∧
    ((List.range A).foldl (fun s m => (List.range B).foldl (step m) s) (v, i)).2 ≤ i + A * B ∧
    ((List.range A).foldl (fun s m => (List.range B).foldl (step m) s) (v, i)).1.length
      = v.length ∧
    ((List.range A).foldl (fun s m => (List.range B).foldl (step m) s) (v, i)).1.take
      ((List.range A).foldl (fun s m => (List.range B).foldl (step m) s) (v, i)).2 =
      v.take i ++ (List.range A).flatMap (fun m =>
        ((List.range B).filter (fun n => decide (c m n))).map (f m)) := by
  refine foldl_range_invariant
    (fun k (s : List α × Nat) =>
      s.2 = i + ((List.range k).flatMap (fun m =>
        ((List.range B).filter (fun n => decide (c m n))).map (f m))).length ∧
      s.2 ≤ i + k * B ∧ s.1.length = v.length ∧
      s.1.take s.2 = v.take i ++ (List.range k).flatMap (fun m =>
        ((List.range B).filter (fun n => decide (c m n))).map (f m)))
    (fun s m => (List.range B).foldl (step m) s) (v, i) A ?_ ?_
  · simp
  · rintro k ⟨w, j⟩ hk ⟨h1, h2, h3, h4⟩
    simp only at h1 h2 h3 h4
    have hkB : (k + 1) * B ≤ A * B := Nat.mul_le_mul_right B hk
    have hcap' : j + (List.range B).length ≤ w.length := by
      rw [List.length_range, h3]
      have : (k + 1) * B = k * B + B := by ring
      omega
    obtain ⟨g1, g2, g3⟩ := fillCounter_spec (c k) (f k) (step k) (hstep k) (List.range B) w j hcap'
    have hle := filter_length_le_range (fun n => decide (c k n)) B
    have hsucc : (k + 1) * B = k * B + B := by ring
    rw [List.range_succ, List.flatMap_append, List.flatMap_singleton, List.length_append,
      List.length_map]
    refine ⟨by rw [g1, h1]; omega, by rw [g1]; omega, g2.trans h3, ?_⟩
    rw [g3, h4, List.append_assoc]

theorem filter_map_eq_filterMap {α : Type} (c : Nat → Prop) [DecidablePred c] (f : Nat → α)
    (L : List Nat) :
    (L.filter (fun n => decide (c n))).map f =
      L.filterMap (fun n => if c n then some (f n) else none) := by
  induction L with
  | nil => rfl
  | cons n L ih =>
    rw [List.filter_cons, List.filterMap_cons]
    by_cases hc : c n
    · simp [hc, ih]
    · simp [hc, ih]

end meshkernel

namespace meshkernel

/-! ## The mesh of a curvilinear grid: the node loop -/

theorem grid_row_length (g : CurvilinearGrid) (hrect : g.IsRectangular) (m : Nat)
    (hm : m < g.m_grid.length) :
    (vecGet g.m_grid m []).length = (vecGet g.m_grid 0 []).length :=
  hrect _ (vecGet_mem _ _ _ hm)

theorem pointsBefore_succ (g : CurvilinearGrid) (m n : Nat)
    (hn : n < (vecGet g.m_grid m []).length) :
    g.pointsBefore m (n + 1) =
      g.pointsBefore m n ++ [vecGet (vecGet g.m_grid m []) n missingPoint] := by
  unfold CurvilinearGrid.pointsBefore
  rw [List.take_succ, vecGet_eq_getElem _ _ _ hn, List.getElem?_eq_getElem hn, List.append_assoc]
  rfl

theorem pointsBefore_row (g : CurvilinearGrid) (m : Nat) (hm : m < g.m_grid.length) :
    g.pointsBefore (m + 1) 0 = g.pointsBefore m (vecGet g.m_grid m []).length := by
  unfold CurvilinearGrid.pointsBefore
  rw [List.take_zero, List.append_nil, List.take_length, vecGet_eq_getElem _ _ _ hm,
    List.take_succ, List.getElem?_eq_getElem hm, List.flatten_append]
  simp

theorem pointsBefore_zero (g : CurvilinearGrid) : g.pointsBefore 0 0 = [] := by
  unfold CurvilinearGrid.pointsBefore
  simp

theorem pointsBefore_end (g : CurvilinearGrid) :
    g.pointsBefore g.m_grid.length 0 = g.m_grid.flatten := by
  unfold CurvilinearGrid.pointsBefore
  simp

theorem pointsBefore_length (g : CurvilinearGrid) (hrect : g.IsRectangular) (m n : Nat)
    (hm : m < g.m_grid.length) (hn : n ≤ (vecGet g.m_grid 0 []).length) :
    (g.pointsBefore m n).length = m * (vecGet g.m_grid 0 []).length + n := by
  have hrow : ∀ k, k ≤ g.m_grid.length →
      (g.m_grid.take k).flatten.length = k * (vecGet g.m_grid 0 []).length := by
    intro k
    induction k with
    | zero => simp
    | succ k ih =>
      intro hk
      rw [List.take_succ, List.getElem?_eq_getElem (by omega : k < g.m_grid.length),
        List.flatten_append, List.length_append, ih (by omega)]
      have := grid_row_length g hrect k (by omega)
      rw [vecGet_eq_getElem _ _ _ (by omega : k < g.m_grid.length)] at this
      simp only [Option.toList, List.flatten_cons, List.flatten_nil, List.append_nil, this]
      ring
  unfold CurvilinearGrid.pointsBefore
  rw [List.length_append, hrow m (by omega), List.length_take,
    grid_row_length g hrect m hm, Nat.min_eq_left hn]

theorem rank_succ (g : CurvilinearGrid) (m n : Nat) (hn : n < (vecGet g.m_grid m []).length) :
    g.rank m (n + 1) = g.rank m n + (if g.isValidAt m n = true then 1 else 0) := by
  unfold CurvilinearGrid.rank CurvilinearGrid.isValidAt
  rw [pointsBefore_succ g m n hn, List.countP_append]
  simp [List.countP_cons]

theorem rank_lt (g : CurvilinearGrid) (hrect : g.IsRectangular) (m n : Nat)
    (hm : m < g.m_grid.length) (hn : n < (vecGet g.m_grid 0 []).length) :
    g.rank m n < g.m_grid.length * (vecGet g.m_grid 0 []).length := by
  have h1 : g.rank m n ≤ (g.pointsBefore m n).length := List.countP_le_length _
  rw [pointsBefore_length g hrect m n hm (le_of_lt hn)] at h1
  have h2 : (m + 1) * (vecGet g.m_grid 0 []).length ≤
      g.m_grid.length * (vecGet g.m_grid 0 []).length := Nat.mul_le_mul_right _ hm
  have h3 : (m + 1) * (vecGet g.m_grid 0 []).length =
      m * (vecGet g.m_grid 0 []).length + (vecGet g.m_grid 0 []).length := by ring
  omega

/-- Reading position `(m', n')` of a table of rows after a write at `(m, n)`. -/
theorem vecGet_set_set (t : List (List Nat)) (m n x m' n' : Nat) :
    vecGet (vecGet (t.set m ((vecGet t m []).set n x)) m' []) n' sizetMissingValue =
      if m = m' ∧ n = n' ∧ m < t.length ∧ n < (vecGet t m []).length then x
      else vecGet (vecGet t m' []) n' sizetMissingValue := by
  rw [vecGet_set]
  by_cases h1 : m = m' ∧ m < t.length
  · rw [if_pos h1, vecGet_set]
    obtain ⟨rfl, h1b⟩ := h1
    by_cases h2 : n = n' ∧ n < (vecGet t m []).length
    · rw [if_pos h2, if_pos ⟨rfl, h2.1, h1b, h2.2⟩]
    · rw [if_neg h2, if_neg (fun hh => h2 ⟨hh.2.1, hh.2.2.2⟩)]
  · rw [if_neg h1, if_neg (fun hh => h1 ⟨hh.1, hh.2.2.1⟩)]

theorem length_set_set (t : List (List Nat)) (m n x m' : Nat) :
    (vecGet (t.set m ((vecGet t m []).set n x)) m' []).length = (vecGet t m' []).length := by
  rw [vecGet_set]
  by_cases h1 : m = m' ∧ m < t.length
  · rw [if_pos h1, List.length_set, h1.1]
  · rw [if_neg h1]

/-- One step of the node loop, from the grid point `(m, n)` to `(m, n + 1)`. -/
theorem gridNodeStep_inv (g : CurvilinearGrid) (hrect : g.IsRectangular) (m n : Nat)
    (hm : m < g.m_grid.length) (hn : n < (vecGet g.m_grid 0 []).length)
    (s : List Point × List (List Nat) × Nat)
    (hind : s.2.2 = g.rank m n)
    (hlen : s.1.length = g.m_grid.length * (vecGet g.m_grid 0 []).length)
    (hnodes : s.1.take (g.rank m n) = (g.pointsBefore m n).filter Point.IsValid)
    (hrows : s.2.1.length = g.m_grid.length)
    (hcols : ∀ m', m' < g.m_grid.length →
      (vecGet s.2.1 m' []).length = (vecGet g.m_grid 0 []).length)
    (hread : ∀ m' n', m' < g.m_grid.length → n' < (vecGet g.m_grid 0 []).length →
      vecGet (vecGet s.2.1 m' []) n' sizetMissingValue =
        if (m' < m ∨ (m' = m ∧ n' < n)) ∧ g.isValidAt m' n' = true then g.rank m' n'
        else sizetMissingValue) :
    (gridNodeStep g m s n).2.2 = g.rank m (n + 1) ∧
    (gridNodeStep g m s n).1.length = g.m_grid.length * (vecGet g.m_grid 0 []).length ∧
    (gridNodeStep g m s n).1.take (g.rank m (n + 1)) =
      (g.pointsBefore m (n + 1)).filter Point.IsValid ∧
    (gridNodeStep g m s n).2.1.length = g.m_grid.length ∧
    (∀ m', m' < g.m_grid.length →
      (vecGet (gridNodeStep g m s n).2.1 m' []).length = (vecGet g.m_grid 0 []).length) ∧
    (∀ m' n', m' < g.m_grid.length → n' < (vecGet g.m_grid 0 []).length →
      vecGet (vecGet (gridNodeStep g m s n).2.1 m' []) n' sizetMissingValue =
        if (m' < m ∨ (m' = m ∧ n' < n + 1)) ∧ g.isValidAt m' n' = true then g.rank m' n'
        else sizetMissingValue) := by
  have hrow := grid_row_length g hrect m hm
  have hn' : n < (vecGet g.m_grid m []).length := by rw [hrow]; exact hn
  have hrk := rank_succ g m n hn'
  have hpb := pointsBefore_succ g m n hn'
  have hlt := rank_lt g hrect m n hm hn
  by_cases hv : g.isValidAt m n = true
  · have hv' : (vecGet (vecGet g.m_grid m []) n missingPoint).IsValid = true := hv
    have hstep : gridNodeStep g m s n =
        (s.1.set s.2.2 (vecGet (vecGet g.m_grid m []) n missingPoint),
          s.2.1.set m ((vecGet s.2.1 m []).set n s.2.2), s.2.2 + 1) := by
      unfold gridNodeStep
      exact if_pos hv'
    rw [hstep, hrk, if_pos hv, hpb, List.filter_append, hind]
    refine ⟨rfl, by rw [List.length_set]; exact hlen, ?_, by rw [List.length_set]; exact hrows,
      ?_, ?_⟩
    · rw [take_set_succ _ _ _ (by rw [hlen]; exact hlt), hnodes]
      simp [hv']
    · intro m' hm'
      rw [length_set_set]
      exact hcols m' hm'
    · intro m' n' hm' hn2
      rw [vecGet_set_set, hread m' n' hm' hn2]
      by_cases hc : m = m' ∧ n = n' ∧ m < s.2.1.length ∧ n < (vecGet s.2.1 m []).length
      · obtain ⟨rfl, rfl, _, _⟩ := hc
        have d : (m < m ∨ (m = m ∧ n < n + 1)) ∧ g.isValidAt m n = true :=
          ⟨Or.inr ⟨rfl, Nat.lt_succ_self n⟩, hv⟩
        rw [if_pos ⟨rfl, rfl, by rw [hrows]; exact hm, by rw [hcols m hm]; exact hn⟩, if_pos d]
      · rw [if_neg hc]
        have hne : ¬ (m = m' ∧ n = n') := by
          rintro ⟨rfl, rfl⟩
          exact hc ⟨rfl, rfl, by rw [hrows]; exact hm, by rw [hcols m hm]; exact hn⟩
        by_cases d : (m' < m ∨ (m' = m ∧ n' < n)) ∧ g.isValidAt m' n' = true
        · have d' : (m' < m ∨ (m' = m ∧ n' < n + 1)) ∧ g.isValidAt m' n' = true :=
            ⟨d.1.elim Or.inl (fun h => Or.inr ⟨h.1, by omega⟩), d.2⟩
          rw [if_pos d, if_pos d']
        · have d' : ¬ ((m' < m ∨ (m' = m ∧ n' < n + 1)) ∧ g.isValidAt m' n' = true) := by
            rintro ⟨h | ⟨h1, h2⟩, h3⟩
            · exact d ⟨Or.inl h, h3⟩
            · by_cases hnn : n' < n
              · exact d ⟨Or.inr ⟨h1, hnn⟩, h3⟩
              · exact hne ⟨h1.symm, by omega⟩
          rw [if_neg d, if_neg d']
  · have hv' : ¬ (vecGet (vecGet g.m_grid m []) n missingPoint).IsValid = true := hv
    have hstep : gridNodeStep g m s n = s := by
      unfold gridNodeStep
      exact if_neg hv'
    rw [hstep, hrk, if_neg hv, hpb, List.filter_append, Nat.add_zero]
    refine ⟨hind, hlen, ?_, hrows, hcols, ?_⟩
    · rw [hnodes]
      simp [hv']
    · intro m' n' hm' hn2
      rw [hread m' n' hm' hn2]
      by_cases d : (m' < m ∨ (m' = m ∧ n' < n)) ∧ g.isValidAt m' n' = true
      · have d' : (m' < m ∨ (m' = m ∧ n' < n + 1)) ∧ g.isValidAt m' n' = true :=
          ⟨d.1.elim Or.inl (fun h => Or.inr ⟨h.1, by omega⟩), d.2⟩
        rw [if_pos d, if_pos d']
      · have d' : ¬ ((m' < m ∨ (m' = m ∧ n' < n + 1)) ∧ g.isValidAt m' n' = true) := by
          rintro ⟨h | ⟨h1, h2⟩, h3⟩
          · exact d ⟨Or.inl h, h3⟩
          · by_cases hnn : n' < n
            · exact d ⟨Or.inr ⟨h1, hnn⟩, h3⟩
            · have : n' = n := by omega
              subst this
              subst h1
              exact hv h3
        rw [if_neg d, if_neg d']

end meshkernel

namespace meshkernel

theorem rank_row (g : CurvilinearGrid) (hrect : g.IsRectangular) (m : Nat)
    (hm : m < g.m_grid.length) :
    g.rank (m + 1) 0 = g.rank m (vecGet g.m_grid 0 []).length ∧
    g.pointsBefore (m + 1) 0 = g.pointsBefore m (vecGet g.m_grid 0 []).length := by
  have h := pointsBefore_row g m hm
  rw [grid_row_length g hrect m hm] at h
  unfold CurvilinearGrid.rank
  rw [h]
  exact ⟨rfl, rfl⟩

/-- The node loop over the row `m`. -/
theorem gridNode_row (g : CurvilinearGrid) (hrect : g.IsRectangular) (m : Nat)
    (hm : m < g.m_grid.length) (s : List Point × List (List Nat) × Nat)
    (hind : s.2.2 = g.rank m 0)
    (hlen : s.1.length = g.m_grid.length * (vecGet g.m_grid 0 []).length)
    (hnodes : s.1.take (g.rank m 0) = (g.pointsBefore m 0).filter Point.IsValid)
    (hrows : s.2.1.length = g.m_grid.length)
    (hcols : ∀ m', m' < g.m_grid.length →
      (vecGet s.2.1 m' []).length = (vecGet g.m_grid 0 []).length)
    (hread : ∀ m' n', m' < g.m_grid.length → n' < (vecGet g.m_grid 0 []).length →
      vecGet (vecGet s.2.1 m' []) n' sizetMissingValue =
        if (m' < m ∨ (m' = m ∧ n' < 0)) ∧ g.isValidAt m' n' = true then g.rank m' n'
        else sizetMissingValue) :
    ((List.range (vecGet g.m_grid 0 []).length).foldl (gridNodeStep g m) s).2.2
      = g.rank (m + 1) 0 ∧
    ((List.range (vecGet g.m_grid 0 []).length).foldl (gridNodeStep g m) s).1.length
      = g.m_grid.length * (vecGet g.m_grid 0 []).length ∧
    ((List.range (vecGet g.m_grid 0 []).length).foldl (gridNodeStep g m) s).1.take
      (g.rank (m + 1) 0) = (g.pointsBefore (m + 1) 0).filter Point.IsValid ∧
    ((List.range (vecGet g.m_grid 0 []).length).foldl (gridNodeStep g m) s).2.1.length
      = g.m_grid.length ∧
    (∀ m', m' < g.m_grid.length →
      (vecGet ((List.range (vecGet g.m_grid 0 []).length).foldl (gridNodeStep g m) s).2.1
        m' []).length = (vecGet g.m_grid 0 []).length) ∧
    (∀ m' n', m' < g.m_grid.length → n' < (vecGet g.m_grid 0 []).length →
      vecGet (vecGet ((List.range (vecGet g.m_grid 0 []).length).foldl (gridNodeStep g m) s).2.1
        m' []) n' sizetMissingValue =
        if (m' < m + 1 ∨ (m' = m + 1 ∧ n' < 0)) ∧ g.isValidAt m' n' = true then g.rank m' n'
        else sizetMissingValue) := by
  have hinv := foldl_range_invariant
    (fun n (t : List Point × List (List Nat) × Nat) =>
      t.2.2 = g.rank m n ∧
      t.1.length = g.m_grid.length * (vecGet g.m_grid 0 []).length ∧
      t.1.take (g.rank m n) = (g.pointsBefore m n).filter Point.IsValid ∧
      t.2.1.length = g.m_grid.length ∧
      (∀ m', m' < g.m_grid.length →
        (vecGet t.2.1 m' []).length = (vecGet g.m_grid 0 []).length) ∧
      (∀ m' n', m' < g.m_grid.length → n' < (vecGet g.m_grid 0 []).length →
        vecGet (vecGet t.2.1 m' []) n' sizetMissingValue =
          if (m' < m ∨ (m' = m ∧ n' < n)) ∧ g.isValidAt m' n' = true then g.rank m' n'
          else sizetMissingValue))
    (gridNodeStep g m) s (vecGet g.m_grid 0 []).length
    ⟨hind, hlen, hnodes, hrows, hcols, hread⟩
    (fun n t hn ⟨h1, h2, h3, h4, h5, h6⟩ => gridNodeStep_inv g hrect m n hm hn t h1 h2 h3 h4 h5 h6)
  obtain ⟨h1, h2, h3, h4, h5, h6⟩ := hinv
  obtain ⟨r1, r2⟩ := rank_row g hrect m hm
  rw [r1, r2]
  refine ⟨h1, h2, h3, h4, h5, ?_⟩
  intro m' n' hm' hn'
  rw [h6 m' n' hm' hn']
  by_cases d : (m' < m ∨ (m' = m ∧ n' < (vecGet g.m_grid 0 []).length)) ∧
      g.isValidAt m' n' = true
  · have d' : (m' < m + 1 ∨ (m' = m + 1 ∧ n' < 0)) ∧ g.isValidAt m' n' = true :=
      ⟨Or.inl (d.1.elim (fun h => by omega) (fun h => by omega)), d.2⟩
    rw [if_pos d, if_pos d']
  · have d' : ¬ ((m' < m + 1 ∨ (m' = m + 1 ∧ n' < 0)) ∧ g.isValidAt m' n' = true) := by
      rintro ⟨h | ⟨_, h⟩, h3⟩
      · apply d
        refine ⟨?_, h3⟩
        by_cases hlt : m' < m
        · exact Or.inl hlt
        · exact Or.inr ⟨by omega, hn'⟩
      · exact absurd h (Nat.not_lt_zero _)
    rw [if_neg d, if_neg d']

/-- The node loop of `Mesh(curvilinearGrid, projection)` on a rectangular grid: the counter ends
at the number of valid grid points, the vector holds them in row-major order, and the index
table holds at each valid grid point its place among the valid grid points and the missing value
elsewhere. -/
theorem gridNode_loop (g : CurvilinearGrid) (hrect : g.IsRectangular) :
    ((List.range g.m_grid.length).foldl
      (fun s m => (List.range (vecGet g.m_grid 0 []).length).foldl (gridNodeStep g m) s)
      (List.replicate (g.m_grid.length * (vecGet g.m_grid 0 []).length) missingPoint,
        List.replicate g.m_grid.length
          (List.replicate (vecGet g.m_grid 0 []).length sizetMissingValue), 0)).2.2
      = g.specNodes.length ∧
    vecResize ((List.range g.m_grid.length).foldl
      (fun s m => (List.range (vecGet g.m_grid 0 []).length).foldl (gridNodeStep g m) s)
      (List.replicate (g.m_grid.length * (vecGet g.m_grid 0 []).length) missingPoint,
        List.replicate g.m_grid.length
          (List.replicate (vecGet g.m_grid 0 []).length sizetMissingValue), 0)).1
      g.specNodes.length missingPoint = g.specNodes ∧
    (∀ m' n', m' < g.m_grid.length → n' < (vecGet g.m_grid 0 []).length →
      vecGet (vecGet ((List.range g.m_grid.length).foldl
        (fun s m => (List.range (vecGet g.m_grid 0 []).length).foldl (gridNodeStep g m) s)
        (List.replicate (g.m_grid.length * (vecGet g.m_grid 0 []).length) missingPoint,
          List.replicate g.m_grid.length
            (List.replicate (vecGet g.m_grid 0 []).length sizetMissingValue), 0)).2.1
        m' []) n' sizetMissingValue =
        if g.isValidAt m' n' = true then g.rank m' n' else sizetMissingValue) := by
  have hinv := foldl_range_invariant
    (fun m (t : List Point × List (List Nat) × Nat) =>
      t.2.2 = g.rank m 0 ∧
      t.1.length = g.m_grid.length * (vecGet g.m_grid 0 []).length ∧
      t.1.take (g.rank m 0) = (g.pointsBefore m 0).filter Point.IsValid ∧
      t.2.1.length = g.m_grid.length ∧
      (∀ m', m' < g.m_grid.length →
        (vecGet t.2.1 m' []).length = (vecGet g.m_grid 0 []).length) ∧
      (∀ m' n', m' < g.m_grid.length → n' < (vecGet g.m_grid 0 []).length →
        vecGet (vecGet t.2.1 m' []) n' sizetMissingValue =
          if (m' < m ∨ (m' = m ∧ n' < 0)) ∧ g.isValidAt m' n' = true then g.rank m' n'
          else sizetMissingValue))
    (fun s m => (List.range (vecGet g.m_grid 0 []).length).foldl (gridNodeStep g m) s)
    (List.replicate (g.m_grid.length * (vecGet g.m_grid 0 []).length) missingPoint,
      List.replicate g.m_grid.length
        (List.replicate (vecGet g.m_grid 0 []).length sizetMissingValue), 0)
    g.m_grid.length ?_
    (fun m t hm ⟨h1, h2, h3, h4, h5, h6⟩ => gridNode_row g hrect m hm t h1 h2 h3 h4 h5 h6)
  · obtain ⟨h1, h2, h3, _, _, h6⟩ := hinv
    generalize (List.range g.m_grid.length).foldl
      (fun s m => (List.range (vecGet g.m_grid 0 []).length).foldl (gridNodeStep g m) s)
      (List.replicate (g.m_grid.length * (vecGet g.m_grid 0 []).length) missingPoint,
        List.replicate g.m_grid.length
          (List.replicate (vecGet g.m_grid 0 []).length sizetMissingValue), 0) = s1
      at h1 h2 h3 h6 ⊢
    have hrank : g.rank g.m_grid.length 0 = g.specNodes.length := by
      unfold CurvilinearGrid.rank CurvilinearGrid.specNodes
      rw [pointsBefore_end, List.countP_eq_length_filter]
    rw [hrank, pointsBefore_end] at h3
    rw [hrank] at h1
    have hle : g.specNodes.length ≤ s1.1.length := by
      have := congrArg List.length h3
      rw [List.length_take] at this
      unfold CurvilinearGrid.specNodes
      omega
    refine ⟨h1, ?_, ?_⟩
    · rw [vecResize_of_le _ _ _ hle, h3]
      rfl
    · intro m' n' hm' hn'
      rw [h6 m' n' hm' hn']
      by_cases hv : g.isValidAt m' n' = true
      · have d : (m' < g.m_grid.length ∨ (m' = g.m_grid.length ∧ n' < 0)) ∧
            g.isValidAt m' n' = true := ⟨Or.inl hm', hv⟩
        rw [if_pos d, if_pos hv]
      · have d : ¬ ((m' < g.m_grid.length ∨ (m' = g.m_grid.length ∧ n' < 0)) ∧
            g.isValidAt m' n' = true) := fun hh => hv hh.2
        rw [if_neg d, if_neg hv]
  · refine ⟨?_, by simp, ?_, by simp, ?_, ?_⟩
    · show 0 = g.rank 0 0
      unfold CurvilinearGrid.rank
      rw [pointsBefore_zero]
      rfl
    · unfold CurvilinearGrid.rank
      rw [pointsBefore_zero]
      rfl
    · intro m' hm'
      show (vecGet (List.replicate g.m_grid.length
        (List.replicate (vecGet g.m_grid 0 []).length sizetMissingValue)) m' []).length = _
      rw [vecGet_replicate, if_pos hm', List.length_replicate]
    · intro m' n' hm' hn'
      show vecGet (vecGet (List.replicate g.m_grid.length
        (List.replicate (vecGet g.m_grid 0 []).length sizetMissingValue)) m' []) n'
          sizetMissingValue = _
      rw [vecGet_replicate, if_pos hm', vecGet_replicate, if_pos hn']
      have d : ¬ ((m' < 0 ∨ (m' = 0 ∧ n' < 0)) ∧ g.isValidAt m' n' = true) := by
        rintro ⟨h | ⟨_, h⟩, _⟩ <;> exact absurd h (Nat.not_lt_zero _)
      rw [if_neg d]

end meshkernel

namespace meshkernel

/-! ## The mesh of a curvilinear grid: the edge loops -/

/-- The stages of `curvilinearNodesAndEdges` on a non-empty grid. -/
theorem curvilinear_parts (g : CurvilinearGrid) (hne : g.m_grid.isEmpty = false)
    (s1 : List Point × List (List Nat) × Nat) (e1 e2 : List Edge × Nat)
    (hs1 : s1 = (List.range g.m_grid.length).foldl
      (fun s m => (List.range (vecGet g.m_grid 0 []).length).foldl (gridNodeStep g m) s)
      (List.replicate (g.m_grid.length * (vecGet g.m_grid 0 []).length) missingPoint,
        List.replicate g.m_grid.length
          (List.replicate (vecGet g.m_grid 0 []).length sizetMissingValue), 0))
    (he1 : e1 = (List.range (sizetSub g.m_grid.length 1)).foldl
      (fun s m => (List.range (vecGet g.m_grid 0 []).length).foldl (gridEdgeStepM s1.2.1 m) s)
      (List.replicate (g.m_grid.length * sizetSub (vecGet g.m_grid 0 []).length 1 +
        sizetSub g.m_grid.length 1 * (vecGet g.m_grid 0 []).length) ((0, 0) : Edge), 0))
    (he2 : e2 = (List.range g.m_grid.length).foldl
      (fun s m => (List.range (sizetSub (vecGet g.m_grid 0 []).length 1)).foldl
        (gridEdgeStepN s1.2.1 m) s) e1) :
    curvilinearNodesAndEdges g =
      .ok (vecResize s1.1 s1.2.2 missingPoint, vecResize e2.1 e2.2 (0, 0)) := by
  unfold curvilinearNodesAndEdges
  simp only [hne, Bool.false_eq_true, if_false]
  rw [← hs1, ← he1, ← he2]

/-- On a rectangular grid with at least one row and one column, the constructor hands over the
valid grid points in row-major order and, as edges, the pairs of valid grid points adjacent along
the first index followed by the pairs adjacent along the second index, each pair given by the
places of its two points among the valid grid points. -/
theorem curvilinearNodesAndEdges_eq (g : CurvilinearGrid) (hrect : g.IsRectangular)
    (hM : 1 ≤ g.m_grid.length) (hNpos : 1 ≤ (vecGet g.m_grid 0 []).length)
    (hsize : g.m_grid.length * (vecGet g.m_grid 0 []).length ≤ sizetMissingValue) :
    curvilinearNodesAndEdges g = .ok (g.specNodes, g.specEdgesFirst ++ g.specEdgesSecond) := by
  have hne : g.m_grid.isEmpty = false := by
    cases hg : g.m_grid with
    | nil => rw [hg] at hM; simp at hM
    | cons a l => rfl
  have hmissing : sizetMissingValue = 2 ^ 64 - 1 := rfl
  have hMlt : g.m_grid.length < 2 ^ 64 := by
    have : g.m_grid.length * 1 ≤ g.m_grid.length * (vecGet g.m_grid 0 []).length :=
      Nat.mul_le_mul_left _ hNpos
    omega
  have hNlt : (vecGet g.m_grid 0 []).length < 2 ^ 64 := by
    have : 1 * (vecGet g.m_grid 0 []).length ≤ g.m_grid.length * (vecGet g.m_grid 0 []).length :=
      Nat.mul_le_mul_right _ hM
    omega
  have hsubM : sizetSub g.m_grid.length 1 = g.m_grid.length - 1 := sizetSub_eq _ _ hM hMlt
  have hsubN : sizetSub (vecGet g.m_grid 0 []).length 1 = (vecGet g.m_grid 0 []).length - 1 :=
    sizetSub_eq _ _ hNpos hNlt
  obtain ⟨n1, n2, n3⟩ := gridNode_loop g hrect
  obtain ⟨s1, hs1⟩ : ∃ s1, s1 = (List.range g.m_grid.length).foldl
      (fun s m => (List.range (vecGet g.m_grid 0 []).length).foldl (gridNodeStep g m) s)
      (List.replicate (g.m_grid.length * (vecGet g.m_grid 0 []).length) missingPoint,
        List.replicate g.m_grid.length
          (List.replicate (vecGet g.m_grid 0 []).length sizetMissingValue), 0) := ⟨_, rfl⟩
  rw [← hs1] at n1 n2 n3
  -- the index table: a valid grid point holds its place, any other the missing value
  have hidx : ∀ m n, m < g.m_grid.length → n < (vecGet g.m_grid 0 []).length →
      (vecGet (vecGet s1.2.1 m []) n sizetMissingValue ≠ sizetMissingValue ↔
        g.isValidAt m n = true) ∧
      (g.isValidAt m n = true → vecGet (vecGet s1.2.1 m []) n sizetMissingValue = g.rank m n) := by
    intro m n hm hn
    rw [n3 m n hm hn]
    have hlt := rank_lt g hrect m n hm hn
    by_cases hv : g.isValidAt m n = true
    · rw [if_pos hv]
      exact ⟨⟨fun _ => hv, fun _ => by omega⟩, fun _ => rfl⟩
    · rw [if_neg hv]
      exact ⟨⟨fun h => absurd rfl h, fun h => absurd h hv⟩, fun h => absurd h hv⟩
  -- the first edge loop
  have hcap1 : 0 + (g.m_grid.length - 1) * (vecGet g.m_grid 0 []).length ≤
      (List.replicate (g.m_grid.length * ((vecGet g.m_grid 0 []).length - 1) +
        (g.m_grid.length - 1) * (vecGet g.m_grid 0 []).length) ((0, 0) : Edge)).length := by
    rw [List.length_replicate]
    omega
  obtain ⟨a1, a2, a3, a4⟩ := fillCounter_nested
    (fun m n => vecGet (vecGet s1.2.1 m []) n sizetMissingValue ≠ sizetMissingValue ∧
      vecGet (vecGet s1.2.1 (m + 1) []) n sizetMissingValue ≠ sizetMissingValue)
    (fun m n => ((vecGet (vecGet s1.2.1 m []) n sizetMissingValue,
      vecGet (vecGet s1.2.1 (m + 1) []) n sizetMissingValue) : Edge))
    (gridEdgeStepM s1.2.1) (fun m s n => rfl)
    (g.m_grid.length - 1) (vecGet g.m_grid 0 []).length _ 0 hcap1
  obtain ⟨e1, he1⟩ : ∃ e1, e1 = (List.range (sizetSub g.m_grid.length 1)).foldl
      (fun s m => (List.range (vecGet g.m_grid 0 []).length).foldl (gridEdgeStepM s1.2.1 m) s)
      (List.replicate (g.m_grid.length * sizetSub (vecGet g.m_grid 0 []).length 1 +
        sizetSub g.m_grid.length 1 * (vecGet g.m_grid 0 []).length) ((0, 0) : Edge), 0) :=
    ⟨_, rfl⟩
  have he1' := he1
  rw [hsubM, hsubN] at he1'
  rw [← he1'] at a1 a2 a3 a4
  -- the second edge loop
  have hcap2 : e1.2 + g.m_grid.length * ((vecGet g.m_grid 0 []).length - 1) ≤ e1.1.length := by
    rw [a3, List.length_replicate]
    omega
  obtain ⟨b1, b2, b3, b4⟩ := fillCounter_nested
    (fun m n => vecGet (vecGet s1.2.1 m []) n sizetMissingValue ≠ sizetMissingValue ∧
      vecGet (vecGet s1.2.1 m []) (n + 1) sizetMissingValue ≠ sizetMissingValue)
    (fun m n => ((vecGet (vecGet s1.2.1 m []) n sizetMissingValue,
      vecGet (vecGet s1.2.1 m []) (n + 1) sizetMissingValue) : Edge))
    (gridEdgeStepN s1.2.1) (fun m s n => rfl)
    g.m_grid.length ((vecGet g.m_grid 0 []).length - 1) e1.1 e1.2 hcap2
  obtain ⟨e2, he2⟩ : ∃ e2, e2 = (List.range g.m_grid.length).foldl
      (fun s m => (List.range (sizetSub (vecGet g.m_grid 0 []).length 1)).foldl
        (gridEdgeStepN s1.2.1 m) s) e1 := ⟨_, rfl⟩
  have he2' := he2
  rw [hsubN] at he2'
  rw [← he2'] at b1 b2 b3 b4
  rw [curvilinear_parts g hne s1 e1 e2 hs1 he1 he2, n1, n2]
  have hle : e2.2 ≤ e2.1.length := by
    rw [b3]
    omega
  rw [vecResize_of_le _ _ _ hle, b4, a4, List.take_zero, List.nil_append]
  refine congrArg Except.ok (congrArg (Prod.mk _) (congrArg₂ (fun a b => a ++ b) ?_ ?_))
  · unfold CurvilinearGrid.specEdgesFirst
    apply List.flatMap_congr
    intro m hm
    have hm' := List.mem_range.1 hm
    rw [filter_map_eq_filterMap]
    apply List.filterMap_congr
    intro n hn
    have hn' := List.mem_range.1 hn
    obtain ⟨i1, j1⟩ := hidx m n (by omega) hn'
    obtain ⟨i2, j2⟩ := hidx (m + 1) n (by omega) hn'
    by_cases hv : g.isValidAt m n = true ∧ g.isValidAt (m + 1) n = true
    · rw [if_pos ⟨i1.2 hv.1, i2.2 hv.2⟩, if_pos hv, j1 hv.1, j2 hv.2]
    · rw [if_neg (fun hh => hv ⟨i1.1 hh.1, i2.1 hh.2⟩), if_neg hv]
  · unfold CurvilinearGrid.specEdgesSecond
    apply List.flatMap_congr
    intro m hm
    have hm' := List.mem_range.1 hm
    rw [filter_map_eq_filterMap]
    apply List.filterMap_congr
    intro n hn
    have hn' := List.mem_range.1 hn
    obtain ⟨i1, j1⟩ := hidx m n hm' (by omega)
    obtain ⟨i2, j2⟩ := hidx m (n + 1) hm' (by omega)
    by_cases hv : g.isValidAt m n = true ∧ g.isValidAt m (n + 1) = true
    · rw [if_pos ⟨i1.2 hv.1, i2.2 hv.2⟩, if_pos hv, j1 hv.1, j2 hv.2]
    · rw [if_neg (fun hh => hv ⟨i1.1 hh.1, i2.1 hh.2⟩), if_neg hv]

end meshkernel

namespace meshkernel

/-! ## The mesh of a curvilinear grid: places and counts -/

/-- The grid points before a position are a prefix of the grid points in row-major order. -/
theorem pointsBefore_prefix (g : CurvilinearGrid) (m n : Nat) (hm : m < g.m_grid.length) :
    g.m_grid.flatten = g.pointsBefore m n ++
      ((vecGet g.m_grid m []).drop n ++ (g.m_grid.drop (m + 1)).flatten) := by
  unfold CurvilinearGrid.pointsBefore
  have h1 : g.m_grid = g.m_grid.take m ++ (vecGet g.m_grid m [] :: g.m_grid.drop (m + 1)) := by
    rw [vecGet_eq_getElem _ _ _ hm, ← List.drop_eq_getElem_cons hm, List.take_append_drop]
  conv_lhs => rw [h1]
  rw [List.flatten_append, List.flatten_cons, List.append_assoc, ← List.append_assoc
    (List.take n (vecGet g.m_grid m [])), List.take_append_drop]

/-- A valid grid point has a place among the valid grid points, and the node at that place is
the grid point. -/
theorem specNodes_rank (g : CurvilinearGrid) (hrect : g.IsRectangular) (m n : Nat)
    (hm : m < g.m_grid.length) (hn : n < (vecGet g.m_grid 0 []).length)
    (hv : g.isValidAt m n = true) :
    g.rank m n < g.specNodes.length ∧
    vecGet g.specNodes (g.rank m n) missingPoint = vecGet (vecGet g.m_grid m []) n missingPoint := by
  have hn' : n < (vecGet g.m_grid m []).length := by
    rw [grid_row_length g hrect m hm]; exact hn
  have hpre := pointsBefore_prefix g m (n + 1) hm
  rw [pointsBefore_succ g m n hn'] at hpre
  have hv' : (vecGet (vecGet g.m_grid m []) n missingPoint).IsValid = true := hv
  have hspec : g.specNodes = (g.pointsBefore m n).filter Point.IsValid ++
      (vecGet (vecGet g.m_grid m []) n missingPoint ::
        ((vecGet g.m_grid m []).drop (n + 1) ++ (g.m_grid.drop (m + 1)).flatten).filter
          Point.IsValid) := by
    unfold CurvilinearGrid.specNodes
    rw [hpre, List.filter_append, List.filter_append]
    simp [hv']
  have hlen : ((g.pointsBefore m n).filter Point.IsValid).length = g.rank m n := by
    unfold CurvilinearGrid.rank
    rw [List.countP_eq_length_filter]
  constructor
  · rw [hspec, List.length_append, hlen, List.length_cons]
    omega
  · have hb : g.rank m n < g.specNodes.length := by
      rw [hspec, List.length_append, hlen, List.length_cons]
      omega
    rw [vecGet_eq_getElem _ _ _ hb]
    have hget : g.specNodes[g.rank m n]? =
        some (vecGet (vecGet g.m_grid m []) n missingPoint) := by
      rw [hspec, ← hlen, List.getElem?_append_right (le_refl _), Nat.sub_self,
        List.getElem?_cons_zero]
    rw [List.getElem?_eq_getElem hb] at hget
    exact Option.some.inj hget

theorem flatten_length (g : CurvilinearGrid) (hrect : g.IsRectangular)
    (hM : 1 ≤ g.m_grid.length) :
    g.m_grid.flatten.length = g.m_grid.length * (vecGet g.m_grid 0 []).length := by
  have h1 := (rank_row g hrect (g.m_grid.length - 1) (by omega)).2
  have h2 := pointsBefore_length g hrect (g.m_grid.length - 1) (vecGet g.m_grid 0 []).length
    (by omega) (le_refl _)
  have h3 : g.m_grid.length - 1 + 1 = g.m_grid.length := by omega
  rw [h3, pointsBefore_end] at h1
  rw [h1, h2]
  have : g.m_grid.length * (vecGet g.m_grid 0 []).length =
      (g.m_grid.length - 1) * (vecGet g.m_grid 0 []).length + (vecGet g.m_grid 0 []).length := by
    conv_lhs => rw [← h3]
    ring
  omega

theorem flatMap_length_const {α : Type} (A B : Nat) (f : Nat → List α)
    (h : ∀ m, m < A → (f m).length = B) : ((List.range A).flatMap f).length = A * B := by
  induction A with
  | zero => simp
  | succ A ih =>
    rw [List.range_succ, List.flatMap_append, List.flatMap_singleton, List.length_append,
      ih (fun m hm => h m (by omega)), h A (by omega)]
    ring

theorem filterMap_length_all {α : Type} (B : Nat) (f : Nat → Option α)
    (h : ∀ n, n < B → (f n).isSome = true) : ((List.range B).filterMap f).length = B := by
  induction B with
  | zero => simp
  | succ B ih =>
    rw [List.range_succ, List.filterMap_append, List.length_append,
      ih (fun n hn => h n (by omega))]
    have := h B (by omega)
    cases hf : f B with
    | none => rw [hf] at this; simp at this
    | some a => simp [List.filterMap_cons, hf]

/-- Every edge of the lift joins the places of two valid grid points. -/
theorem specEdges_in_range (g : CurvilinearGrid) (hrect : g.IsRectangular)
    (hM : 1 ≤ g.m_grid.length) (hNpos : 1 ≤ (vecGet g.m_grid 0 []).length) (e : Edge)
    (he : e ∈ g.specEdgesFirst ++ g.specEdgesSecond) :
    e.1 < g.specNodes.length ∧ e.2 < g.specNodes.length := by
  rcases List.mem_append.1 he with h | h
  · unfold CurvilinearGrid.specEdgesFirst at h
    obtain ⟨m, hm, h2⟩ := List.mem_flatMap.1 h
    obtain ⟨n, hn, h3⟩ := List.mem_filterMap.1 h2
    have hm' := List.mem_range.1 hm
    have hn' := List.mem_range.1 hn
    split_ifs at h3 with hv
    · cases h3
      exact ⟨(specNodes_rank g hrect m n (by omega) hn' hv.1).1,
        (specNodes_rank g hrect (m + 1) n (by omega) hn' hv.2).1⟩
  · unfold CurvilinearGrid.specEdgesSecond at h
    obtain ⟨m, hm, h2⟩ := List.mem_flatMap.1 h
    obtain ⟨n, hn, h3⟩ := List.mem_filterMap.1 h2
    have hm' := List.mem_range.1 hm
    have hn' := List.mem_range.1 hn
    split_ifs at h3 with hv
    · cases h3
      exact ⟨(specNodes_rank g hrect m n hm' (by omega) hv.1).1,
        (specNodes_rank g hrect m (n + 1) hm' (by omega) hv.2).1⟩

/-- The counts of a fully valid grid. -/
theorem specCounts_of_valid (g : CurvilinearGrid) (hrect : g.IsRectangular)
    (hM : 1 ≤ g.m_grid.length)
    (hall : ∀ row ∈ g.m_grid, ∀ p ∈ row, p.IsValid = true) :
    g.specNodes.length = g.m_grid.length * (vecGet g.m_grid 0 []).length ∧
    (g.specEdgesFirst ++ g.specEdgesSecond).length =
      (g.m_grid.length - 1) * (vecGet g.m_grid 0 []).length +
        g.m_grid.length * ((vecGet g.m_grid 0 []).length - 1) := by
  have hvalid : ∀ m n, m < g.m_grid.length → n < (vecGet g.m_grid 0 []).length →
      g.isValidAt m n = true := by
    intro m n hm hn
    unfold CurvilinearGrid.isValidAt
    exact hall _ (vecGet_mem _ _ _ hm) _
      (vecGet_mem _ _ _ (by rw [grid_row_length g hrect m hm]; exact hn))
  constructor
  · unfold CurvilinearGrid.specNodes
    rw [List.filter_eq_self.2, flatten_length g hrect hM]
    intro p hp
    obtain ⟨row, hrow, hpr⟩ := List.mem_flatten.1 hp
    exact hall row hrow p hpr
  · rw [List.length_append]
    unfold CurvilinearGrid.specEdgesFirst CurvilinearGrid.specEdgesSecond
    rw [flatMap_length_const _ (vecGet g.m_grid 0 []).length, flatMap_length_const _
      ((vecGet g.m_grid 0 []).length - 1)]
    · intro m hm
      apply filterMap_length_all
      intro n hn
      rw [if_pos ⟨hvalid m n hm (by omega), hvalid m (n + 1) hm (by omega)⟩]
      rfl
    · intro m hm
      apply filterMap_length_all
      intro n hn
      rw [if_pos ⟨hvalid m n (by omega) hn, hvalid (m + 1) n (by omega) hn⟩]
      rfl

end meshkernel

namespace meshkernel

/-! ## `MergeTwoNodes` called a second time -/

theorem set_of_vecGet_eq {α : Type} (l : List α) (i : Nat) (v d : α) (h : vecGet l i d = v) :
    l.set i v = l := by
  by_cases hi : i < l.length
  · rw [vecGet_eq_getElem l i d hi] at h
    subst h
    apply List.ext_getElem (by rw [List.length_set])
    intro n h1 h2
    rw [List.getElem_set]
    split_ifs with hn
    · subst hn
      rfl
    · rfl
  · exact List.set_eq_of_length_le (Nat.le_of_not_lt hi)

/-- The inner loop body of `MergeTwoNodes` changes the edge array only. -/
theorem mergeInvalidateStep_frame (x b : Nat) (s : Mesh) (nn : Nat) :
    (mergeInvalidateStep x b s nn).m_nodesEdges = s.m_nodesEdges ∧
    (mergeInvalidateStep x b s nn).m_nodesNumEdges = s.m_nodesNumEdges ∧
    (mergeInvalidateStep x b s nn).m_numNodes = s.m_numNodes ∧
    (mergeInvalidateStep x b s nn).m_nodes = s.m_nodes := by
  unfold mergeInvalidateStep
  dsimp only
  split_ifs <;> exact ⟨rfl, rfl, rfl, rfl⟩

/-- The loop of `MergeTwoNodes` that looks for another edge to the second node changes the edge
array only. -/
theorem mergeDuplicates_frame (a b : Nat) (m1 : Mesh) (k : Nat) :
    ((List.range k).foldl (mergeDuplicatesStep a b) m1).m_nodesEdges = m1.m_nodesEdges ∧
    ((List.range k).foldl (mergeDuplicatesStep a b) m1).m_nodesNumEdges = m1.m_nodesNumEdges ∧
    ((List.range k).foldl (mergeDuplicatesStep a b) m1).m_numNodes = m1.m_numNodes ∧
    ((List.range k).foldl (mergeDuplicatesStep a b) m1).m_nodes = m1.m_nodes := by
  refine foldl_invariant
    (fun (s : Mesh) => s.m_nodesEdges = m1.m_nodesEdges ∧
      s.m_nodesNumEdges = m1.m_nodesNumEdges ∧ s.m_numNodes = m1.m_numNodes ∧
      s.m_nodes = m1.m_nodes)
    (mergeDuplicatesStep a b) (List.range k) m1 ⟨rfl, rfl, rfl, rfl⟩ ?_
  intro s n _ hs
  unfold mergeDuplicatesStep
  dsimp only
  split_ifs
  · refine foldl_invariant
      (fun (t : Mesh) => t.m_nodesEdges = m1.m_nodesEdges ∧
        t.m_nodesNumEdges = m1.m_nodesNumEdges ∧ t.m_numNodes = m1.m_numNodes ∧
        t.m_nodes = m1.m_nodes) _ _ s hs ?_
    intro t nn _ ht
    obtain ⟨f1, f2, f3, f4⟩ := mergeInvalidateStep_frame
      (OtherNodeOfEdge (vecGet s.m_edges (vecGet (vecGet s.m_nodesEdges a []) n 0) missingEdge) a)
      b t nn
    exact ⟨f1.trans ht.1, f2.trans ht.2.1, f3.trans ht.2.2.1, f4.trans ht.2.2.2⟩
  · exact hs

/-- The loop of `MergeTwoNodes` that reassigns the edges of the first node, seen from the scratch
vector: while the vector is not overrun, every entry below the counter is the index of an edge
whose first endpoint is not the missing value, and only the edge array of the mesh changes. -/
theorem mergeReassign_scratch (m2 : Mesh) (a b : Nat) (hb : b ≠ sizetMissingValue)
    (c : List Nat × Nat) (k : Nat) (hlen : c.2 + k ≤ c.1.length)
    (hval : ∀ e ∈ c.1.take c.2, (vecGet m2.m_edges e missingEdge).1 ≠ sizetMissingValue) :
    ((List.range k).foldl (mergeReassignStep a b) (m2, c)).2.1.length = c.1.length ∧
    ((List.range k).foldl (mergeReassignStep a b) (m2, c)).2.2 ≤ c.2 + k ∧
    (∀ e ∈ ((List.range k).foldl (mergeReassignStep a b) (m2, c)).2.1.take
        ((List.range k).foldl (mergeReassignStep a b) (m2, c)).2.2,
      (vecGet ((List.range k).foldl (mergeReassignStep a b) (m2, c)).1.m_edges e missingEdge).1 ≠
        sizetMissingValue) ∧
    ((List.range k).foldl (mergeReassignStep a b) (m2, c)).1.m_nodesEdges = m2.m_nodesEdges ∧
    ((List.range k).foldl (mergeReassignStep a b) (m2, c)).1.m_nodesNumEdges =
      m2.m_nodesNumEdges ∧
    ((List.range k).foldl (mergeReassignStep a b) (m2, c)).1.m_numNodes = m2.m_numNodes ∧
    ((List.range k).foldl (mergeReassignStep a b) (m2, c)).1.m_nodes = m2.m_nodes := by
  refine foldl_range_invariant
    (fun j (s : Mesh × List Nat × Nat) => s.2.1.length = c.1.length ∧ s.2.2 ≤ c.2 + j ∧
      (∀ e ∈ s.2.1.take s.2.2, (vecGet s.1.m_edges e missingEdge).1 ≠ sizetMissingValue) ∧
      s.1.m_nodesEdges = m2.m_nodesEdges ∧ s.1.m_nodesNumEdges = m2.m_nodesNumEdges ∧
      s.1.m_numNodes = m2.m_numNodes ∧ s.1.m_nodes = m2.m_nodes)
    (mergeReassignStep a b) (m2, c) k ⟨rfl, Nat.le_refl _, hval, rfl, rfl, rfl, rfl⟩ ?_
  rintro j ⟨s, L, cnt⟩ hj ⟨h1, h2, h3, h4, h5, h6, h7⟩
  simp only at h1 h2 h3 h4 h5 h6 h7
  unfold mergeReassignStep
  dsimp only
  generalize vecGet (vecGet s.m_nodesEdges a []) j 0 = idx
  by_cases hv : (vecGet s.m_edges idx missingEdge).1 ≠ sizetMissingValue
  · rw [if_pos hv]
    dsimp only
    rw [reassign_eq]
    have hcnt : cnt < L.length := by omega
    refine ⟨by rw [List.length_set]; exact h1, Nat.succ_le_succ h2, ?_, h4, h5, h6, h7⟩
    have hnew : (if (vecGet s.m_edges idx missingEdge).1 = a then b
        else (vecGet s.m_edges idx missingEdge).1) ≠ sizetMissingValue := by
      split_ifs
      · exact hb
      · exact hv
    have hkeep : ∀ (E : Edge), E.1 ≠ sizetMissingValue → ∀ e,
        (vecGet s.m_edges e missingEdge).1 ≠ sizetMissingValue →
        (vecGet (s.m_edges.set idx E) e missingEdge).1 ≠ sizetMissingValue := by
      intro E hE e he
      rw [vecGet_set]
      by_cases d : idx = e ∧ idx < s.m_edges.length
      · rw [if_pos d]
        exact hE
      · rw [if_neg d]
        exact he
    intro e he
    rw [take_set_succ _ _ _ hcnt, List.mem_append, List.mem_singleton] at he
    rcases he with he | he
    · exact hkeep _ hnew e (h3 e he)
    · rw [he]
      exact hkeep _ hnew idx hv
  · rw [if_neg hv]
    exact ⟨h1, Nat.le_succ_of_le h2, h3, h4, h5, h6, h7⟩

end meshkernel

namespace meshkernel

/-- The state that `MergeTwoNodes` leaves on two in-range nodes, by its stages. -/
theorem MergeTwoNodes_tables (m : Mesh) (a b idx : Nat) (m1 m2 : Mesh) (c : List Nat × Nat)
    (s : Mesh × List Nat × Nat)
    (ha : a < m.GetNumNodes) (hb : b < m.GetNumNodes) (hf : m.FindEdge a b = .ok idx)
    (h1 : m1 = if idx ≠ sizetMissingValue then
      { m with m_edges := m.m_edges.set idx missingEdge } else m)
    (h2 : m2 = (List.range (vecGet m1.m_nodesNumEdges a 0)).foldl (mergeDuplicatesStep a b) m1)
    (h3 : c = (List.range (vecGet m2.m_nodesNumEdges b 0)).foldl (mergeCollectStep m2 b)
      (List.replicate maximumNumberOfEdgesPerNode sizetMissingValue, 0))
    (h4 : s = (List.range (vecGet m2.m_nodesNumEdges a 0)).foldl (mergeReassignStep a b)
      (m2, c)) :
    m.MergeTwoNodes a b =
      ({ s.1 with
        m_nodesEdges := (s.1.m_nodesEdges.set b (s.2.1.take s.2.2)).set a [],
        m_nodesNumEdges := (s.1.m_nodesNumEdges.set b s.2.2).set a 0,
        m_nodes := s.1.m_nodes.set a missingPoint,
        m_nodesRTreeRequiresUpdate := true,
        m_edgesRTreeRequiresUpdate := true }, none) := by
  subst h1 h2 h3 h4
  unfold Mesh.MergeTwoNodes
  rw [if_neg (by omega), hf]

/-- The loop of `MergeTwoNodes` that collects the edges of the second node, when the edge list
has at most `maximumNumberOfEdgesPerNode` entries: the entries below the counter are the listed
edges whose first endpoint is not the missing value. -/
theorem mergeCollect_spec (m2 : Mesh) (b k : Nat) (hk : k ≤ maximumNumberOfEdgesPerNode) :
    ((List.range k).foldl (mergeCollectStep m2 b)
      (List.replicate maximumNumberOfEdgesPerNode sizetMissingValue, 0)).2 ≤ k ∧
    ((List.range k).foldl (mergeCollectStep m2 b)
      (List.replicate maximumNumberOfEdgesPerNode sizetMissingValue, 0)).1.length =
        maximumNumberOfEdgesPerNode ∧
    ((List.range k).foldl (mergeCollectStep m2 b)
      (List.replicate maximumNumberOfEdgesPerNode sizetMissingValue, 0)).1.take
        ((List.range k).foldl (mergeCollectStep m2 b)
          (List.replicate maximumNumberOfEdgesPerNode sizetMissingValue, 0)).2 =
      ((List.range k).filter (fun n => decide
        ((vecGet m2.m_edges (vecGet (vecGet m2.m_nodesEdges b []) n 0) missingEdge).1 ≠
          sizetMissingValue))).map (fun n => vecGet (vecGet m2.m_nodesEdges b []) n 0) := by
  obtain ⟨r1, r2, r3⟩ := fillCounter_spec
    (fun n => (vecGet m2.m_edges (vecGet (vecGet m2.m_nodesEdges b []) n 0) missingEdge).1 ≠
      sizetMissingValue)
    (fun n => vecGet (vecGet m2.m_nodesEdges b []) n 0)
    (mergeCollectStep m2 b) (fun s n => rfl) (List.range k)
    (List.replicate maximumNumberOfEdgesPerNode sizetMissingValue) 0
    (by rw [List.length_range, List.length_replicate]; omega)
  refine ⟨?_, ?_, ?_⟩
  · rw [r1, Nat.zero_add]
    exact filter_length_le_range _ k
  · rw [r2, List.length_replicate]
  · rw [r3, List.take_zero, List.nil_append]

/-- A second call of `MergeTwoNodes(a, b)`: on a state in which the first node has no edges
listed and the missing point as coordinates, the second node lists at most
`maximumNumberOfEdgesPerNode` edges, all with a first endpoint, and both tree flags are set, the
call changes nothing and raises nothing. -/
theorem MergeTwoNodes_again (s : Mesh) (a b : Nat)
    (ha : a < s.GetNumNodes) (hb : b < s.GetNumNodes)
    (ham : a ≠ sizetMissingValue) (hbm : b ≠ sizetMissingValue)
    (h0 : vecGet s.m_nodesNumEdges a 0 = 0)
    (hea : vecGet s.m_nodesEdges a [] = [])
    (hna : vecGet s.m_nodes a missingPoint = missingPoint)
    (hk : vecGet s.m_nodesNumEdges b 0 = (vecGet s.m_nodesEdges b []).length)
    (hcap : (vecGet s.m_nodesEdges b []).length ≤ maximumNumberOfEdgesPerNode)
    (hval : ∀ e ∈ vecGet s.m_nodesEdges b [],
      (vecGet s.m_edges e missingEdge).1 ≠ sizetMissingValue)
    (hf1 : s.m_nodesRTreeRequiresUpdate = true) (hf2 : s.m_edgesRTreeRequiresUpdate = true) :
    s.MergeTwoNodes a b = (s, none) := by
  have hfind : s.FindEdge a b = .ok sizetMissingValue := by
    unfold Mesh.FindEdge
    rw [if_neg (by rintro (h | h); exact ham h; exact hbm h), h0]
    rfl
  obtain ⟨C, hC⟩ : ∃ C : List Nat × Nat,
      C = (List.range (vecGet s.m_nodesNumEdges b 0)).foldl (mergeCollectStep s b)
        (List.replicate maximumNumberOfEdgesPerNode sizetMissingValue, 0) := ⟨_, rfl⟩
  have hres := MergeTwoNodes_tables s a b sizetMissingValue s s C (s, C) ha hb hfind
    (if_neg (fun h => h rfl)).symm (by rw [h0]; rfl) hC (by rw [h0]; rfl)
  have hall : (List.range (vecGet s.m_nodesNumEdges b 0)).filter (fun n => decide
      ((vecGet s.m_edges (vecGet (vecGet s.m_nodesEdges b []) n 0) missingEdge).1 ≠
        sizetMissingValue)) = List.range (vecGet s.m_nodesNumEdges b 0) := by
    rw [List.filter_eq_self]
    intro n hn
    rw [List.mem_range, hk] at hn
    exact decide_eq_true (hval _ (vecGet_mem _ _ _ hn))
  obtain ⟨r1, _, r3⟩ := fillCounter_spec
    (fun n => (vecGet s.m_edges (vecGet (vecGet s.m_nodesEdges b []) n 0) missingEdge).1 ≠
      sizetMissingValue)
    (fun n => vecGet (vecGet s.m_nodesEdges b []) n 0)
    (mergeCollectStep s b) (fun s n => rfl) (List.range (vecGet s.m_nodesNumEdges b 0))
    (List.replicate maximumNumberOfEdgesPerNode sizetMissingValue) 0
    (by rw [List.length_range, List.length_replicate, hk]; omega)
  rw [← hC] at r1 r3
  have c2 : C.2 = vecGet s.m_nodesNumEdges b 0 := by
    rw [r1, hall, List.length_range, Nat.zero_add]
  have c3 : C.1.take C.2 = vecGet s.m_nodesEdges b [] := by
    rw [r3, hall, hk, map_vecGet_range, List.take_zero, List.nil_append]
  rw [hres]
  have key : ∀ (NE : List (List Nat)) (NN : List Nat) (N : List Point) (f1 f2 : Bool),
      NE = s.m_nodesEdges → NN = s.m_nodesNumEdges → N = s.m_nodes →
      f1 = s.m_nodesRTreeRequiresUpdate → f2 = s.m_edgesRTreeRequiresUpdate →
      ({ s with
        m_nodesEdges := NE,
        m_nodesNumEdges := NN,
        m_nodes := N,
        m_nodesRTreeRequiresUpdate := f1,
        m_edgesRTreeRequiresUpdate := f2 } : Mesh) = s := by
    intro NE NN N f1 f2 e1 e2 e3 e4 e5
    subst e1 e2 e3 e4 e5
    rfl
  refine congrArg (fun x => (x, (none : Option MeshError))) (key _ _ _ _ _ ?_ ?_ ?_ hf1.symm
    hf2.symm)
  · show (s.m_nodesEdges.set b (C.1.take C.2)).set a [] = s.m_nodesEdges
    rw [c3, set_of_vecGet_eq _ b _ [] rfl, set_of_vecGet_eq _ a _ [] hea]
  · show (s.m_nodesNumEdges.set b C.2).set a 0 = s.m_nodesNumEdges
    rw [c2, set_of_vecGet_eq _ b _ 0 rfl, set_of_vecGet_eq _ a _ 0 h0]
  · exact set_of_vecGet_eq _ a _ missingPoint hna

/-- `MergeTwoNodes(a, b)` twice: on an administered mesh, for distinct in-range nodes whose edge
lists together hold at most `maximumNumberOfEdgesPerNode` entries (the size of the scratch vector
`secondNodeEdges`), the first call raises nothing and the second call raises nothing and leaves
the state of the first call. -/
theorem MergeTwoNodes_twice (m : Mesh) (hadm : m.AdministeredEdges)
    (hN : m.m_nodes.length ≤ sizetMissingValue) (a b : Nat) (hab : a ≠ b)
    (ha : a < m.GetNumNodes) (hb : b < m.GetNumNodes)
    (hcap : vecGet m.m_nodesNumEdges a 0 + vecGet m.m_nodesNumEdges b 0 ≤
      maximumNumberOfEdgesPerNode) :
    (m.MergeTwoNodes a b).2 = none ∧
    (m.MergeTwoNodes a b).1.MergeTwoNodes a b = ((m.MergeTwoNodes a b).1, none) := by
  have hnum := hadm.nodeEdges.numNodes
  have han : a < m.m_nodes.length := by
    unfold Mesh.GetNumNodes at ha
    omega
  have hbn : b < m.m_nodes.length := by
    unfold Mesh.GetNumNodes at hb
    omega
  have ham : a ≠ sizetMissingValue := by omega
  have hbm : b ≠ sizetMissingValue := by omega
  obtain ⟨idx, hf, _⟩ := FindEdge_spec m hadm a b ham hbm
  obtain ⟨m1, h1⟩ : ∃ m1 : Mesh, m1 = if idx ≠ sizetMissingValue then
      { m with m_edges := m.m_edges.set idx missingEdge } else m := ⟨_, rfl⟩
  obtain ⟨m2, h2⟩ : ∃ m2 : Mesh, m2 =
      (List.range (vecGet m1.m_nodesNumEdges a 0)).foldl (mergeDuplicatesStep a b) m1 :=
    ⟨_, rfl⟩
  obtain ⟨c, h3⟩ : ∃ c : List Nat × Nat, c =
      (List.range (vecGet m2.m_nodesNumEdges b 0)).foldl (mergeCollectStep m2 b)
        (List.replicate maximumNumberOfEdgesPerNode sizetMissingValue, 0) := ⟨_, rfl⟩
  obtain ⟨s, h4⟩ : ∃ s : Mesh × List Nat × Nat, s =
      (List.range (vecGet m2.m_nodesNumEdges a 0)).foldl (mergeReassignStep a b) (m2, c) :=
    ⟨_, rfl⟩
  have hout := MergeTwoNodes_tables m a b idx m1 m2 c s ha hb hf h1 h2 h3 h4
  -- the stages before the tables are written leave the node tables as they were
  have g1 : m1.m_nodesEdges = m.m_nodesEdges ∧ m1.m_nodesNumEdges = m.m_nodesNumEdges ∧
      m1.m_numNodes = m.m_numNodes ∧ m1.m_nodes = m.m_nodes := by
    rw [h1]
    split_ifs <;> exact ⟨rfl, rfl, rfl, rfl⟩
  have g2 := mergeDuplicates_frame a b m1 (vecGet m1.m_nodesNumEdges a 0)
  rw [← h2] at g2
  have e1 : m2.m_nodesEdges = m.m_nodesEdges := g2.1.trans g1.1
  have e2 : m2.m_nodesNumEdges = m.m_nodesNumEdges := g2.2.1.trans g1.2.1
  have e3 : m2.m_numNodes = m.m_numNodes := g2.2.2.1.trans g1.2.2.1
  -- the scratch vector after the collecting loop
  obtain ⟨c1, c2, c3⟩ := mergeCollect_spec m2 b (vecGet m2.m_nodesNumEdges b 0)
    (by rw [e2]; omega)
  rw [← h3] at c1 c2 c3
  have cval : ∀ e ∈ c.1.take c.2, (vecGet m2.m_edges e missingEdge).1 ≠ sizetMissingValue := by
    intro e he
    rw [c3, List.mem_map] at he
    obtain ⟨n, hn, rfl⟩ := he
    exact of_decide_eq_true (List.mem_filter.1 hn).2
  -- the scratch vector after the reassigning loop
  obtain ⟨s1, s2, s3, s4, s5, s6, _⟩ := mergeReassign_scratch m2 a b hbm c
    (vecGet m2.m_nodesNumEdges a 0) (by rw [c2, e2] at *; omega) cval
  rw [← h4] at s1 s2 s3 s4 s5 s6
  have hcnt : s.2.2 ≤ s.2.1.length := by
    rw [s1, c2]
    rw [e2] at s2 c1
    omega
  have hlenE : a < s.1.m_nodesEdges.length ∧ b < s.1.m_nodesEdges.length := by
    rw [s4, e1, hadm.nodeEdges.len_edges]
    exact ⟨han, hbn⟩
  have hlenN : a < s.1.m_nodesNumEdges.length ∧ b < s.1.m_nodesNumEdges.length := by
    rw [s5, e2, hadm.nodeEdges.len_num]
    exact ⟨han, hbn⟩
  have hba : ¬ (a = b ∧ a < (s.1.m_nodesEdges.set b (s.2.1.take s.2.2)).length) :=
    fun h => hab h.1
  have hba' : ¬ (a = b ∧ a < (s.1.m_nodesNumEdges.set b s.2.2).length) := fun h => hab h.1
  have hlist : vecGet ((s.1.m_nodesEdges.set b (s.2.1.take s.2.2)).set a []) b [] =
      s.2.1.take s.2.2 := by
    rw [vecGet_set, if_neg hba, vecGet_set, if_pos ⟨rfl, hlenE.2⟩]
  have hmerged := hout
  rw [hout]
  refine ⟨rfl, ?_⟩
  apply MergeTwoNodes_again
  · show a < s.1.m_numNodes
    rw [s6, e3]
    exact ha
  · show b < s.1.m_numNodes
    rw [s6, e3]
    exact hb
  · exact ham
  · exact hbm
  · show vecGet ((s.1.m_nodesNumEdges.set b s.2.2).set a 0) a 0 = 0
    rw [vecGet_set]
    split_ifs with h
    · rfl
    · exact vecGet_of_length_le _ _ _ (by
        rw [List.length_set] at h ⊢
        exact Nat.le_of_not_lt (fun hh => h ⟨rfl, hh⟩))
  · show vecGet ((s.1.m_nodesEdges.set b (s.2.1.take s.2.2)).set a []) a [] = []
    rw [vecGet_set]
    split_ifs with h
    · rfl
    · exact vecGet_of_length_le _ _ _ (by
        rw [List.length_set] at h ⊢
        exact Nat.le_of_not_lt (fun hh => h ⟨rfl, hh⟩))
  · show vecGet (s.1.m_nodes.set a missingPoint) a missingPoint = missingPoint
    rw [vecGet_set]
    split_ifs with h
    · rfl
    · exact vecGet_of_length_le _ _ _ (Nat.le_of_not_lt (fun hh => h ⟨rfl, hh⟩))
  · show vecGet ((s.1.m_nodesNumEdges.set b s.2.2).set a 0) b 0 =
      (vecGet ((s.1.m_nodesEdges.set b (s.2.1.take s.2.2)).set a []) b []).length
    rw [hlist, vecGet_set, if_neg hba', vecGet_set, if_pos ⟨rfl, hlenN.2⟩, List.length_take,
      Nat.min_eq_left hcnt]
  · show (vecGet ((s.1.m_nodesEdges.set b (s.2.1.take s.2.2)).set a []) b []).length ≤
      maximumNumberOfEdgesPerNode
    rw [hlist, List.length_take, Nat.min_eq_left hcnt]
    rw [s1, c2] at hcnt
    exact hcnt
  · show ∀ e ∈ vecGet ((s.1.m_nodesEdges.set b (s.2.1.take s.2.2)).set a []) b [],
      (vecGet s.1.m_edges e missingEdge).1 ≠ sizetMissingValue
    rw [hlist]
    exact s3
  · rfl
  · rfl

end meshkernel

namespace meshkernel

/-! ## The node mask of an edge mask -/

/-- One conditional write of `ComputeNodeMaskFromEdgeMask`, read at a node index. -/
theorem markNode_get (s : List Int) (a n : Nat) (hn : n < s.length)
    (hns : n ≠ sizetMissingValue) :
    (if a ≠ sizetMissingValue then s.set a 1 else s).length = s.length ∧
    vecGet (if a ≠ sizetMissingValue then s.set a 1 else s) n 0 =
      if a = n then 1 else vecGet s n 0 := by
  by_cases ha : a ≠ sizetMissingValue
  · rw [if_pos ha, List.length_set, vecGet_set]
    refine ⟨rfl, ?_⟩
    by_cases h : a = n
    · have d : a = n ∧ a < s.length := ⟨h, by omega⟩
      rw [if_pos d, if_pos h]
    · have d : ¬ (a = n ∧ a < s.length) := fun hh => h hh.1
      rw [if_neg d, if_neg h]
  · rw [if_neg ha]
    refine ⟨rfl, ?_⟩
    have h : ¬ a = n := fun hh => hns (hh ▸ not_not.1 ha)
    rw [if_neg h]

/-- The loop of `ComputeNodeMaskFromEdgeMask` over the edges below `k`: a node is marked with 1
when it is an endpoint of a masked edge below `k`, and holds 0 otherwise. -/
theorem computeNodeMask_loop (m : Mesh) (L : Nat) (hL : L ≤ sizetMissingValue) (k : Nat) :
    ((List.range k).foldl (computeNodeMaskStep m) (List.replicate L 0)).length = L ∧
    ∀ n, n < L →
      (vecGet ((List.range k).foldl (computeNodeMaskStep m) (List.replicate L 0)) n 0 = 1 ↔
        ∃ e, e < k ∧ vecGet m.m_edgeMask e 0 = 1 ∧ ((m.edge e).1 = n ∨ (m.edge e).2 = n)) ∧
      (vecGet ((List.range k).foldl (computeNodeMaskStep m) (List.replicate L 0)) n 0 = 1 ∨
        vecGet ((List.range k).foldl (computeNodeMaskStep m) (List.replicate L 0)) n 0 = 0) := by
  refine foldl_range_invariant
    (fun j (s : List Int) => s.length = L ∧ ∀ n, n < L →
      (vecGet s n 0 = 1 ↔
        ∃ e, e < j ∧ vecGet m.m_edgeMask e 0 = 1 ∧ ((m.edge e).1 = n ∨ (m.edge e).2 = n)) ∧
      (vecGet s n 0 = 1 ∨ vecGet s n 0 = 0))
    (computeNodeMaskStep m) (List.replicate L 0) k ?_ ?_
  · refine ⟨List.length_replicate _ _, fun n hn => ?_⟩
    rw [vecGet_replicate, if_pos hn]
    refine ⟨⟨fun h => absurd h (by decide), fun ⟨e, he, _⟩ => absurd he (Nat.not_lt_zero e)⟩,
      Or.inr rfl⟩
  · intro j s hj ⟨hlen, h⟩
    unfold computeNodeMaskStep
    by_cases hmask : vecGet m.m_edgeMask j 0 = 1
    · have d : ¬ vecGet m.m_edgeMask j 0 ≠ 1 := fun hh => hh hmask
      rw [if_neg d]
      dsimp only
      generalize hs1 : (if (vecGet m.m_edges j missingEdge).1 ≠ sizetMissingValue then
        s.set (vecGet m.m_edges j missingEdge).1 1 else s) = s1
      have hlen1 : s1.length = L := by
        rw [← hs1]
        split_ifs
        · rw [List.length_set]; exact hlen
        · exact hlen
      refine ⟨?_, fun n hn => ?_⟩
      · split_ifs
        · rw [List.length_set]; exact hlen1
        · exact hlen1
      · have hns : n ≠ sizetMissingValue := by omega
        have g1 := (markNode_get s (vecGet m.m_edges j missingEdge).1 n (by omega) hns).2
        rw [hs1] at g1
        have g2 := (markNode_get s1 (vecGet m.m_edges j missingEdge).2 n (by omega) hns).2
        rw [g2, g1]
        obtain ⟨hiff, hval⟩ := h n hn
        by_cases c2 : (vecGet m.m_edges j missingEdge).2 = n
        · rw [if_pos c2]
          exact ⟨⟨fun _ => ⟨j, Nat.lt_succ_self j, hmask, Or.inr c2⟩, fun _ => rfl⟩, Or.inl rfl⟩
        · rw [if_neg c2]
          by_cases c1 : (vecGet m.m_edges j missingEdge).1 = n
          · rw [if_pos c1]
            exact ⟨⟨fun _ => ⟨j, Nat.lt_succ_self j, hmask, Or.inl c1⟩, fun _ => rfl⟩, Or.inl rfl⟩
          · rw [if_neg c1]
            refine ⟨⟨fun hv => ?_, fun ⟨e, he, hm, hend⟩ => ?_⟩, hval⟩
            · obtain ⟨e, he, hm, hend⟩ := hiff.1 hv
              exact ⟨e, Nat.lt_succ_of_lt he, hm, hend⟩
            · rcases Nat.lt_succ_iff_lt_or_eq.1 he with he' | he'
              · exact hiff.2 ⟨e, he', hm, hend⟩
              · subst he'
                rcases hend with hend | hend
                · exact absurd hend c1
                · exact absurd hend c2
    · rw [if_pos hmask]
      refine ⟨hlen, fun n hn => ?_⟩
      obtain ⟨hiff, hval⟩ := h n hn
      refine ⟨⟨fun hv => ?_, fun ⟨e, he, hm, hend⟩ => ?_⟩, hval⟩
      · obtain ⟨e, he, hm, hend⟩ := hiff.1 hv
        exact ⟨e, Nat.lt_succ_of_lt he, hm, hend⟩
      · rcases Nat.lt_succ_iff_lt_or_eq.1 he with he' | he'
        · exact hiff.2 ⟨e, he', hm, hend⟩
        · subst he'
          exact absurd hm hmask

end meshkernel

namespace meshkernel

/-! ## Loops that append one value for each index -/

theorem foldl_append_one {α β : Type} (f : β → α) (step : List α → β → List α)
    (hstep : ∀ r b, step r b = r ++ [f b]) (l : List β) (init : List α) :
    l.foldl step init = init ++ l.map f := by
  induction l generalizing init with
  | nil => simp
  | cons b l ih => rw [List.foldl_cons, hstep, ih, List.map_cons, List.append_assoc]; rfl

theorem foldl_append_some {α β : Type} (p : β → Bool) (step : List α → β → List α)
    (hstep : ∀ r b, (step r b).length = r.length + (if p b = true then 1 else 0))
    (l : List β) (init : List α) :
    (l.foldl step init).length = init.length + (l.filter p).length := by
  induction l generalizing init with
  | nil => simp
  | cons b l ih =>
    rw [List.foldl_cons, ih, hstep, List.filter_cons]
    by_cases h : p b = true
    · rw [if_pos h, if_pos h, List.length_cons]; omega
    · rw [if_neg h, if_neg h]; omega

/-! ## `GetSmoothness`, entry by entry -/

/-- The value `GetSmoothness` computes for edge `e` (lines 2164-2183). -/
theorem smoothnessStep_eq (c : ℚ) (m : Mesh) (r : List ℚ) (e : Nat) :
    smoothnessStep c m r e = r ++ [vecGet (smoothnessStep c m [] e) 0 0] := by
  unfold smoothnessStep
  rfl

/-- `GetSmoothness` returns one value for each edge slot below `GetNumEdges()`, the one its loop
body computes. -/
theorem GetSmoothness_entries (c : ℚ) (m : Mesh) :
    (m.GetSmoothness c).length = m.GetNumEdges ∧
    ∀ e, e < m.GetNumEdges →
      vecGet (m.GetSmoothness c) e 0 = vecGet (smoothnessStep c m [] e) 0 0 := by
  have h : m.GetSmoothness c =
      (List.range m.GetNumEdges).map (fun e => vecGet (smoothnessStep c m [] e) 0 0) := by
    unfold Mesh.GetSmoothness
    rw [foldl_append_one (fun e => vecGet (smoothnessStep c m [] e) 0 0) _
      (smoothnessStep_eq c m)]
    rfl
  rw [h]
  refine ⟨by rw [List.length_map, List.length_range], fun e he => ?_⟩
  exact vecGet_map_range _ _ _ _ he

/-- The value of `GetSmoothness` for an invalid edge and for a boundary edge is the missing
value. -/
theorem smoothness_missing (c : ℚ) (m : Mesh) (e : Nat)
    (h : edgeIsMissing (m.edge e) = true ∨ m.IsEdgeOnBoundary e = true) :
    vecGet (smoothnessStep c m [] e) 0 0 = doubleMissingValue := by
  unfold smoothnessStep
  dsimp only
  have d : ¬ ((vecGet m.m_edges e missingEdge).1 ≠ sizetMissingValue ∧
      (vecGet m.m_edges e missingEdge).2 ≠ sizetMissingValue ∧ m.IsEdgeOnBoundary e = false) := by
    rintro ⟨h1, h2, h3⟩
    rcases h with h | h
    · unfold edgeIsMissing Mesh.edge at h
      simp only [Bool.or_eq_true, beq_iff_eq] at h
      rcases h with h | h
      · exact h1 h
      · exact h2 h
    · rw [h] at h3
      exact absurd h3 (by decide)
  rw [if_neg d]
  rfl

/-- The value of `GetSmoothness` for a valid edge that is not a boundary edge and whose two faces
both have an area of at least `minimumCellArea`: the ratio is not computed, and the missing value
is inverted. -/
theorem smoothness_large_faces (c : ℚ) (m : Mesh) (e : Nat)
    (hv : edgeIsMissing (m.edge e) = false) (hb : m.IsEdgeOnBoundary e = false)
    (hl : c ≤ vecGet m.m_faceArea (vecGet (vecGet m.m_edgesFaces e []) 0 0) 0)
    (hr : c ≤ vecGet m.m_faceArea (vecGet (vecGet m.m_edgesFaces e []) 1 0) 0) :
    vecGet (smoothnessStep c m [] e) 0 0 = 1 / doubleMissingValue := by
  unfold smoothnessStep
  dsimp only
  unfold edgeIsMissing Mesh.edge at hv
  simp only [Bool.or_eq_false_iff, beq_eq_false_iff_ne] at hv
  have d : (vecGet m.m_edges e missingEdge).1 ≠ sizetMissingValue ∧
      (vecGet m.m_edges e missingEdge).2 ≠ sizetMissingValue ∧ m.IsEdgeOnBoundary e = false :=
    ⟨hv.1, hv.2, hb⟩
  rw [if_pos d]
  have d2 : ¬ (vecGet m.m_faceArea (vecGet (vecGet m.m_edgesFaces e []) 0 0) 0 < c ∨
      vecGet m.m_faceArea (vecGet (vecGet m.m_edgesFaces e []) 1 0) 0 < c) := by
    rintro (h | h)
    · exact absurd hl (not_le.2 h)
    · exact absurd hr (not_le.2 h)
  rw [if_neg d2]
  have d3 : doubleMissingValue < 1 := by decide!
  rw [if_pos d3]
  rfl

/-- The value of `GetSmoothness` for a valid edge that is not a boundary edge and whose faces
have positive areas, one of them below `minimumCellArea`: the ratio of the larger to the smaller
area. -/
theorem smoothness_small_face (c : ℚ) (m : Mesh) (e : Nat)
    (hv : edgeIsMissing (m.edge e) = false) (hb : m.IsEdgeOnBoundary e = false)
    (hl : 0 < vecGet m.m_faceArea (vecGet (vecGet m.m_edgesFaces e []) 0 0) 0)
    (_hr : 0 < vecGet m.m_faceArea (vecGet (vecGet m.m_edgesFaces e []) 1 0) 0)
    (hsmall : vecGet m.m_faceArea (vecGet (vecGet m.m_edgesFaces e []) 0 0) 0 < c ∨
      vecGet m.m_faceArea (vecGet (vecGet m.m_edgesFaces e []) 1 0) 0 < c) :
    vecGet (smoothnessStep c m [] e) 0 0 =
      max (vecGet m.m_faceArea (vecGet (vecGet m.m_edgesFaces e []) 0 0) 0)
          (vecGet m.m_faceArea (vecGet (vecGet m.m_edgesFaces e []) 1 0) 0) /
      min (vecGet m.m_faceArea (vecGet (vecGet m.m_edgesFaces e []) 0 0) 0)
          (vecGet m.m_faceArea (vecGet (vecGet m.m_edgesFaces e []) 1 0) 0) := by
  unfold smoothnessStep
  dsimp only
  unfold edgeIsMissing Mesh.edge at hv
  simp only [Bool.or_eq_false_iff, beq_eq_false_iff_ne] at hv
  have d : (vecGet m.m_edges e missingEdge).1 ≠ sizetMissingValue ∧
      (vecGet m.m_edges e missingEdge).2 ≠ sizetMissingValue ∧ m.IsEdgeOnBoundary e = false :=
    ⟨hv.1, hv.2, hb⟩
  rw [if_pos d, if_pos hsmall]
  generalize vecGet m.m_faceArea (vecGet (vecGet m.m_edgesFaces e []) 0 0) 0 = a at hl hsmall ⊢
  generalize vecGet m.m_faceArea (vecGet (vecGet m.m_edgesFaces e []) 1 0) 0 = b at hsmall ⊢
  show vecGet [if b / a < 1 then 1 / (b / a) else b / a] 0 0 = max a b / min a b
  have hval : vecGet [if b / a < 1 then 1 / (b / a) else b / a] 0 0 =
      if b / a < 1 then 1 / (b / a) else b / a := rfl
  rw [hval]
  by_cases hlt : b / a < 1
  · rw [if_pos hlt]
    have hba : b < a := by
      rwa [div_lt_one hl] at hlt
    rw [max_eq_left (le_of_lt hba), min_eq_right (le_of_lt hba), one_div, inv_div]
  · rw [if_neg hlt]
    have hab : a ≤ b := by
      rw [div_lt_one hl] at hlt
      exact not_lt.1 hlt
    rw [max_eq_right hab, min_eq_left hab]

/-! ## `SortedFacesAroundNode`: the number of entries -/

/-- `SortedFacesAroundNode` returns one entry for each listed edge that has a face, and none for
the other listed edges. -/
theorem SortedFacesAroundNode_length (m : Mesh) (node : Nat) :
    (m.SortedFacesAroundNode node).length =
      ((List.range (vecGet m.m_nodesNumEdges node 0)).filter (fun e =>
        decide (vecGet m.m_edgesNumFaces (vecGet (vecGet m.m_nodesEdges node []) e 0) 0 ≠ 0))).length := by
  unfold Mesh.SortedFacesAroundNode
  rw [foldl_append_some (fun e =>
    decide (vecGet m.m_edgesNumFaces (vecGet (vecGet m.m_nodesEdges node []) e 0) 0 ≠ 0))]
  · rw [List.length_nil, Nat.zero_add]
  · intro r e
    unfold sortedFacesStep
    dsimp only
    by_cases h : vecGet m.m_edgesNumFaces (vecGet (vecGet m.m_nodesEdges node []) e 0) 0 = 0
    · rw [if_pos h]
      have d : ¬ (decide (vecGet m.m_edgesNumFaces
          (vecGet (vecGet m.m_nodesEdges node []) e 0) 0 ≠ 0) = true) := by
        simp [h]
      rw [if_neg d]
      rfl
    · rw [if_neg h]
      have d : decide (vecGet m.m_edgesNumFaces
          (vecGet (vecGet m.m_nodesEdges node []) e 0) 0 ≠ 0) = true := by
        simp [h]
      rw [if_pos d]
      split_ifs <;> simp

end meshkernel

namespace meshkernel

/-! ## The circumcenters that stage 7 stores -/

/-- The estimate of the circumcenter reads the projection of the mesh and nothing else of it. -/
theorem circumcenterEstimate_congr (ops : Operations) (m s : Mesh)
    (h : s.m_projection = m.m_projection) (polygon : List Point) (cache : List Nat)
    (numNodes : Nat) (c : Point) :
    s.circumcenterEstimate ops polygon cache numNodes c =
      m.circumcenterEstimate ops polygon cache numNodes c := by
  unfold Mesh.circumcenterEstimate
  simp only [h]

/-- `ComputeFaceCircumenter` reads the projection of the mesh and nothing else of it. -/
theorem ComputeFaceCircumenter_congr (ops : Operations) (m s : Mesh)
    (h : s.m_projection = m.m_projection) (polygon : List Point) (cache : List Nat) :
    s.ComputeFaceCircumenter ops polygon cache = m.ComputeFaceCircumenter ops polygon cache := by
  unfold Mesh.ComputeFaceCircumenter
  dsimp only
  rw [circumcenterEstimate_congr ops m s h, h]

/-- The estimate for a polygon of three nodes is the circumcenter of the triangle
(lines 1835-1838). -/
theorem circumcenterEstimate_triangle (ops : Operations) (m : Mesh) (polygon : List Point)
    (cache : List Nat) (centerOfMass : Point) :
    m.circumcenterEstimate ops polygon cache numNodesInTriangle centerOfMass =
      ops.CircumcenterOfTriangle (vecGet polygon 0 missingPoint) (vecGet polygon 1 missingPoint)
        (vecGet polygon 2 missingPoint) m.m_projection := by
  unfold Mesh.circumcenterEstimate
  dsimp only
  rw [if_pos rfl]

/-- The triangle branch of `ComputeFaceCircumenter` (lines 1835-1838, 1894-1897): when the
circumcenter of the triangle lies in the polygon moved towards the center of mass, it is the
result. -/
theorem ComputeFaceCircumenter_triangle (ops : Operations) (m : Mesh) (polygon : List Point)
    (cache : List Nat) (h3 : sizetSub polygon.length 1 = numNodesInTriangle)
    (hin : ops.IsPointInPolygonNodes
      (ops.CircumcenterOfTriangle (vecGet polygon 0 missingPoint) (vecGet polygon 1 missingPoint)
        (vecGet polygon 2 missingPoint) m.m_projection)
      (weightedPolygon ops polygon numNodesInTriangle
        (polygonCenterOfMass polygon numNodesInTriangle)) m.m_projection = true) :
    (m.ComputeFaceCircumenter ops polygon cache).1 =
      ops.CircumcenterOfTriangle (vecGet polygon 0 missingPoint) (vecGet polygon 1 missingPoint)
        (vecGet polygon 2 missingPoint) m.m_projection := by
  unfold Mesh.ComputeFaceCircumenter
  dsimp only
  rw [h3, circumcenterEstimate_triangle, if_pos hin]

theorem vecGet_set_self {α : Type} (l : List α) (i : Nat) (a d : α) (h : i < l.length) :
    vecGet (l.set i a) i d = a := by
  rw [vecGet_set, if_pos ⟨rfl, h⟩]

theorem vecGet_set_ne {α : Type} (l : List α) (i j : Nat) (a d : α) (h : i ≠ j) :
    vecGet (l.set i a) j d = vecGet l j d := by
  rw [vecGet_set, if_neg (fun h' => h h'.1)]

theorem set_fst_congr {x y : Point × List Point} (l : List Point) (f : Nat) (h : x = y) :
    l.set f x.1 = l.set f y.1 := by rw [h]

/-- The face loop of `ComputeFaceCircumcentersMassCentersAndAreas` in two steps: the mesh `m2`
with the area and the mass center of face `f`, and the circumcenter stored in it. -/
theorem faceGeometryStep_parts (ops : Operations) (s : Mesh) (f : Nat) (m2 : Mesh)
    (hm2 : m2 = { s with
      m_polygonNodesCache := s.ComputeFaceClosedPolygon f,
      m_faceArea := s.m_faceArea.set f
        (ops.FaceAreaAndCenterOfMass (s.ComputeFaceClosedPolygon f) s.m_projection).1,
      m_facesMassCenters := s.m_facesMassCenters.set f
        (ops.FaceAreaAndCenterOfMass (s.ComputeFaceClosedPolygon f) s.m_projection).2.1 }) :
    faceGeometryStep ops true s f =
      if (List.range (m2.GetNumFaceEdges f)).countP (fun n =>
          !(m2.IsEdgeOnBoundary (vecGet (vecGet m2.m_facesEdges f []) n 0))) = 0 then
        { m2 with
          m_facesCircumcenters :=
            m2.m_facesCircumcenters.set f (vecGet m2.m_facesMassCenters f missingPoint) }
      else
        { m2 with
          m_polygonNodesCache := (m2.ComputeFaceCircumenter ops (s.ComputeFaceClosedPolygon f)
            ((List.range (m2.GetNumFaceEdges f)).map (fun n =>
              vecGet m2.m_edgesNumFaces (vecGet (vecGet m2.m_facesEdges f []) n 0) 0))).2,
          m_facesCircumcenters := m2.m_facesCircumcenters.set f
            (m2.ComputeFaceCircumenter ops (s.ComputeFaceClosedPolygon f)
              ((List.range (m2.GetNumFaceEdges f)).map (fun n =>
                vecGet m2.m_edgesNumFaces (vecGet (vecGet m2.m_facesEdges f []) n 0) 0))).1 } := by
  subst hm2
  rfl

/-- What one pass of the face loop of `ComputeFaceCircumcentersMassCentersAndAreas` stores. -/
theorem faceGeometryStep_centers (ops : Operations) (s : Mesh) (f : Nat) :
    (faceGeometryStep ops true s f).m_facesMassCenters =
      s.m_facesMassCenters.set f
        (ops.FaceAreaAndCenterOfMass (s.ComputeFaceClosedPolygon f) s.m_projection).2.1 ∧
    (faceGeometryStep ops true s f).m_facesCircumcenters =
      s.m_facesCircumcenters.set f
        (if (List.range (s.GetNumFaceEdges f)).countP (fun n =>
            !(s.IsEdgeOnBoundary (vecGet (vecGet s.m_facesEdges f []) n 0))) = 0
         then vecGet (s.m_facesMassCenters.set f
            (ops.FaceAreaAndCenterOfMass (s.ComputeFaceClosedPolygon f) s.m_projection).2.1)
            f missingPoint
         else (s.ComputeFaceCircumenter ops (s.ComputeFaceClosedPolygon f)
            ((List.range (s.GetNumFaceEdges f)).map (fun n =>
              vecGet s.m_edgesNumFaces (vecGet (vecGet s.m_facesEdges f []) n 0) 0))).1) := by
  obtain ⟨m2, hm2⟩ : ∃ m2 : Mesh, m2 = { s with
      m_polygonNodesCache := s.ComputeFaceClosedPolygon f,
      m_faceArea := s.m_faceArea.set f
        (ops.FaceAreaAndCenterOfMass (s.ComputeFaceClosedPolygon f) s.m_projection).1,
      m_facesMassCenters := s.m_facesMassCenters.set f
        (ops.FaceAreaAndCenterOfMass (s.ComputeFaceClosedPolygon f) s.m_projection).2.1 } :=
    ⟨_, rfl⟩
  have a1 : m2.m_projection = s.m_projection := by rw [hm2]
  have a2 : m2.m_numFacesNodes = s.m_numFacesNodes := by rw [hm2]
  have a3 : m2.m_edgesNumFaces = s.m_edgesNumFaces := by rw [hm2]
  have a4 : m2.m_facesEdges = s.m_facesEdges := by rw [hm2]
  have a5 : m2.m_facesCircumcenters = s.m_facesCircumcenters := by rw [hm2]
  have a6 : m2.m_facesMassCenters = s.m_facesMassCenters.set f
      (ops.FaceAreaAndCenterOfMass (s.ComputeFaceClosedPolygon f) s.m_projection).2.1 := by
    rw [hm2]
  have b1 : (List.range (m2.GetNumFaceEdges f)).countP (fun n =>
        !(m2.IsEdgeOnBoundary (vecGet (vecGet m2.m_facesEdges f []) n 0))) =
      (List.range (s.GetNumFaceEdges f)).countP (fun n =>
        !(s.IsEdgeOnBoundary (vecGet (vecGet s.m_facesEdges f []) n 0))) := by
    unfold Mesh.GetNumFaceEdges Mesh.IsEdgeOnBoundary
    rw [a2, a3, a4]
  have b2 : (List.range (m2.GetNumFaceEdges f)).map (fun n =>
        vecGet m2.m_edgesNumFaces (vecGet (vecGet m2.m_facesEdges f []) n 0) 0) =
      (List.range (s.GetNumFaceEdges f)).map (fun n =>
        vecGet s.m_edgesNumFaces (vecGet (vecGet s.m_facesEdges f []) n 0) 0) := by
    unfold Mesh.GetNumFaceEdges
    rw [a2, a3, a4]
  rw [faceGeometryStep_parts ops s f m2 hm2, b1, b2, ComputeFaceCircumenter_congr ops s m2 a1]
  by_cases h : (List.range (s.GetNumFaceEdges f)).countP (fun n =>
      !(s.IsEdgeOnBoundary (vecGet (vecGet s.m_facesEdges f []) n 0))) = 0
  · rw [if_pos h, if_pos h]
    dsimp only
    rw [a5, a6]
    exact ⟨rfl, rfl⟩
  · rw [if_neg h, if_neg h]
    dsimp only
    rw [a5, a6]
    exact ⟨rfl, rfl⟩

/-- The inputs of the face loop are the same in two meshes that differ in their geometry only. -/
theorem geometry_inputs (m s : Mesh) (h : m.sameButGeometry s) (f : Nat) :
    s.m_projection = m.m_projection ∧
    s.ComputeFaceClosedPolygon f = m.ComputeFaceClosedPolygon f ∧
    (List.range (s.GetNumFaceEdges f)).countP (fun n =>
        !(s.IsEdgeOnBoundary (vecGet (vecGet s.m_facesEdges f []) n 0))) =
      (List.range (m.GetNumFaceEdges f)).countP (fun n =>
        !(m.IsEdgeOnBoundary (vecGet (vecGet m.m_facesEdges f []) n 0))) ∧
    (List.range (s.GetNumFaceEdges f)).map (fun n =>
        vecGet s.m_edgesNumFaces (vecGet (vecGet s.m_facesEdges f []) n 0) 0) =
      (List.range (m.GetNumFaceEdges f)).map (fun n =>
        vecGet m.m_edgesNumFaces (vecGet (vecGet m.m_facesEdges f []) n 0) 0) := by
  obtain ⟨g1, _, g3, _, _, _, _, _, g9, _, g11, g12, g13⟩ := sameButGeometry_fields m s h
  refine ⟨g3, ?_, ?_, ?_⟩
  · unfold Mesh.ComputeFaceClosedPolygon Mesh.GetNumFaceEdges
    rw [g1, g11, g13]
  · unfold Mesh.GetNumFaceEdges Mesh.IsEdgeOnBoundary
    rw [g9, g12, g13]
  · unfold Mesh.GetNumFaceEdges
    rw [g9, g12, g13]

/-- The state of the face loop after the faces below `N`. -/
theorem faceGeometry_loop (ops : Operations) (m : Mesh) (N : Nat) :
    m.sameButGeometry ((List.range N).foldl (faceGeometryStep ops true) m) ∧
    ((List.range N).foldl (faceGeometryStep ops true) m).m_facesCircumcenters.length =
      m.m_facesCircumcenters.length ∧
    ((List.range N).foldl (faceGeometryStep ops true) m).m_facesMassCenters.length =
      m.m_facesMassCenters.length ∧
    ∀ f, f < N → f < m.m_facesCircumcenters.length → f < m.m_facesMassCenters.length →
      vecGet ((List.range N).foldl (faceGeometryStep ops true) m).m_facesCircumcenters f
          missingPoint =
        if (List.range (m.GetNumFaceEdges f)).countP (fun n =>
            !(m.IsEdgeOnBoundary (vecGet (vecGet m.m_facesEdges f []) n 0))) = 0
        then vecGet ((List.range N).foldl (faceGeometryStep ops true) m).m_facesMassCenters f
          missingPoint
        else (m.ComputeFaceCircumenter ops (m.ComputeFaceClosedPolygon f)
            ((List.range (m.GetNumFaceEdges f)).map (fun n =>
              vecGet m.m_edgesNumFaces (vecGet (vecGet m.m_facesEdges f []) n 0) 0))).1 := by
  apply foldl_range_invariant (fun N (t : Mesh) =>
    m.sameButGeometry t ∧
    t.m_facesCircumcenters.length = m.m_facesCircumcenters.length ∧
    t.m_facesMassCenters.length = m.m_facesMassCenters.length ∧
    ∀ f, f < N → f < m.m_facesCircumcenters.length → f < m.m_facesMassCenters.length →
      vecGet t.m_facesCircumcenters f missingPoint =
        if (List.range (m.GetNumFaceEdges f)).countP (fun n =>
            !(m.IsEdgeOnBoundary (vecGet (vecGet m.m_facesEdges f []) n 0))) = 0
        then vecGet t.m_facesMassCenters f missingPoint
        else (m.ComputeFaceCircumenter ops (m.ComputeFaceClosedPolygon f)
            ((List.range (m.GetNumFaceEdges f)).map (fun n =>
              vecGet m.m_edgesNumFaces (vecGet (vecGet m.m_facesEdges f []) n 0) 0))).1)
  · exact ⟨sameButGeometry_refl m, rfl, rfl, fun f hf => absurd hf (Nat.not_lt_zero f)⟩
  · rintro k s _ ⟨hsame, hlc, hlm, hent⟩
    obtain ⟨c1, c2⟩ := faceGeometryStep_centers ops s k
    obtain ⟨i1, i2, i3, i4⟩ := geometry_inputs m s hsame k
    refine ⟨sameButGeometry_trans m s _ hsame (faceGeometryStep_same ops true s k), ?_, ?_, ?_⟩
    · rw [c2, List.length_set, hlc]
    · rw [c1, List.length_set, hlm]
    · intro f hf hfc hfm
      rw [c2, c1]
      by_cases hfk : k = f
      · subst hfk
        rw [vecGet_set_self s.m_facesCircumcenters k _ _ (by rw [hlc]; exact hfc), i3, i4, i2,
          ComputeFaceCircumenter_congr ops m s i1]
      · rw [vecGet_set_ne s.m_facesCircumcenters k f _ _ hfk,
          vecGet_set_ne s.m_facesMassCenters k f _ _ hfk]
        exact hent f (by omega) hfc hfm

/-- `ClassifyNodes` leaves the centers of the faces as they are. -/
theorem ClassifyNodes_centers (ops : Operations) (m : Mesh) :
    (m.ClassifyNodes ops).m_facesCircumcenters = m.m_facesCircumcenters ∧
    (m.ClassifyNodes ops).m_facesMassCenters = m.m_facesMassCenters := by
  unfold Mesh.ClassifyNodes
  dsimp only
  apply foldl_invariant (fun s : Mesh =>
    s.m_facesCircumcenters = m.m_facesCircumcenters ∧
    s.m_facesMassCenters = m.m_facesMassCenters)
  · apply foldl_invariant (fun s : Mesh =>
      s.m_facesCircumcenters = m.m_facesCircumcenters ∧
      s.m_facesMassCenters = m.m_facesMassCenters)
    · exact ⟨rfl, rfl⟩
    · rintro s e _ ⟨h1, h2⟩
      have : (classifyEdgeStep s e).m_facesCircumcenters = s.m_facesCircumcenters ∧
          (classifyEdgeStep s e).m_facesMassCenters = s.m_facesMassCenters := by
        unfold classifyEdgeStep
        dsimp only
        split
        · exact ⟨rfl, rfl⟩
        split
        · exact ⟨rfl, rfl⟩
        split <;> split <;> exact ⟨rfl, rfl⟩
      exact ⟨this.1.trans h1, this.2.trans h2⟩
  · rintro s n _ ⟨h1, h2⟩
    have : (classifyNodeStep ops s n).m_facesCircumcenters = s.m_facesCircumcenters ∧
        (classifyNodeStep ops s n).m_facesMassCenters = s.m_facesMassCenters := by
      unfold classifyNodeStep
      dsimp only
      repeat' split
      all_goals exact ⟨rfl, rfl⟩
    exact ⟨this.1.trans h1, this.2.trans h2⟩

/-- The circumcenter that stages 7 and 8 leave for face `f`: the mass center of a face without
an interior edge, and the result of `ComputeFaceCircumenter` for every other face. -/
theorem stage7_circumcenters (ops : Operations) (m3 : Mesh) (f : Nat)
    (hf : f < ((m3.ComputeFaceCircumcentersMassCentersAndAreas ops true).ClassifyNodes
      ops).GetNumFaces) :
    vecGet ((m3.ComputeFaceCircumcentersMassCentersAndAreas ops true).ClassifyNodes
        ops).m_facesCircumcenters f missingPoint =
      if (List.range (((m3.ComputeFaceCircumcentersMassCentersAndAreas ops true).ClassifyNodes
            ops).GetNumFaceEdges f)).countP (fun n =>
          !(((m3.ComputeFaceCircumcentersMassCentersAndAreas ops true).ClassifyNodes
            ops).IsEdgeOnBoundary (vecGet (vecGet
              ((m3.ComputeFaceCircumcentersMassCentersAndAreas ops true).ClassifyNodes
                ops).m_facesEdges f []) n 0))) = 0
      then vecGet ((m3.ComputeFaceCircumcentersMassCentersAndAreas ops true).ClassifyNodes
        ops).m_facesMassCenters f missingPoint
      else (((m3.ComputeFaceCircumcentersMassCentersAndAreas ops true).ClassifyNodes
          ops).ComputeFaceCircumenter ops
        (((m3.ComputeFaceCircumcentersMassCentersAndAreas ops true).ClassifyNodes
          ops).ComputeFaceClosedPolygon f)
        ((List.range (((m3.ComputeFaceCircumcentersMassCentersAndAreas ops true).ClassifyNodes
            ops).GetNumFaceEdges f)).map (fun n =>
          vecGet ((m3.ComputeFaceCircumcentersMassCentersAndAreas ops true).ClassifyNodes
            ops).m_edgesNumFaces (vecGet (vecGet
              ((m3.ComputeFaceCircumcentersMassCentersAndAreas ops true).ClassifyNodes
                ops).m_facesEdges f []) n 0) 0))).1 := by
  obtain ⟨k1, k2⟩ := ClassifyNodes_centers ops (m3.ComputeFaceCircumcentersMassCentersAndAreas
    ops true)
  have hsame := ClassifyNodes_same ops (m3.ComputeFaceCircumcentersMassCentersAndAreas ops true)
  have hnumF : ((m3.ComputeFaceCircumcentersMassCentersAndAreas ops true).ClassifyNodes
      ops).GetNumFaces = m3.GetNumFaces := by
    have a := (sameButGeometry_fields _ _ hsame).2.2.2.2.2.1
    have b := (sameButGeometry_fields _ _
      (ComputeFaceCircumcentersMassCentersAndAreas_same ops m3 true)).2.2.2.2.2.1
    exact a.trans b
  obtain ⟨i1, i2, i3, i4⟩ := geometry_inputs _ _ hsame f
  rw [i3, i4, i2, ComputeFaceCircumenter_congr ops _ _ i1, k1, k2]
  rw [hnumF] at hf
  generalize hm1 : ({ m3 with
    m_facesCircumcenters := vecResize m3.m_facesCircumcenters m3.GetNumFaces missingPoint,
    m_faceArea := vecResize m3.m_faceArea m3.GetNumFaces 0,
    m_facesMassCenters := vecResize m3.m_facesMassCenters m3.GetNumFaces missingPoint } : Mesh)
    = m1
  have hdef : m3.ComputeFaceCircumcentersMassCentersAndAreas ops true =
      (List.range m1.GetNumFaces).foldl (faceGeometryStep ops true) m1 := by
    rw [← hm1]; rfl
  have hlc : m1.m_facesCircumcenters.length = m3.GetNumFaces := by
    rw [← hm1]; exact vecResize_length _ _ _
  have hlm : m1.m_facesMassCenters.length = m3.GetNumFaces := by
    rw [← hm1]; exact vecResize_length _ _ _
  have hn1 : m1.GetNumFaces = m3.GetNumFaces := by rw [← hm1]; rfl
  obtain ⟨l1, _, _, l4⟩ := faceGeometry_loop ops m1 m1.GetNumFaces
  obtain ⟨j1, j2, j3, j4⟩ := geometry_inputs _ _ l1 f
  rw [hdef, j3, j4, j2, ComputeFaceCircumenter_congr ops _ _ j1]
  exact l4 f (by rw [hn1]; exact hf) (by rw [hlc]; exact hf) (by rw [hlm]; exact hf)

/-- The mesh that `Administrate` with faces returns either has no node or no edge, or is what
stages 7 and 8 make of a mesh. -/
theorem Administrate_faces_shape (ops : Operations) (m m' : Mesh)
    (h : m.Administrate ops AdministrationOptions.AdministrateMeshEdgesAndFaces = .ok m') :
    (m'.m_numNodes = 0 ∨ m'.m_numEdges = 0) ∨
    ∃ m3 : Mesh,
      m' = (m3.ComputeFaceCircumcentersMassCentersAndAreas ops true).ClassifyNodes ops := by
  unfold Mesh.Administrate at h
  dsimp only at h
  generalize (m.DeleteInvalidNodesAndEdges).refreshTrees ops = m1 at h
  by_cases hc : m1.m_numNodes = 0 ∨ m1.m_numEdges = 0
  · rw [if_pos hc] at h
    injection h with h
    subst h
    exact Or.inl hc
  · rw [if_neg hc] at h
    generalize (m1.resetNodeTables.NodeAdministration).sortAllNodes ops = r2 at h
    cases r2 with
    | error err => exact absurd h (fun h' => Except.noConfusion h')
    | ok m2 =>
      dsimp only at h
      have hopt : ¬ (AdministrationOptions.AdministrateMeshEdgesAndFaces =
          AdministrationOptions.AdministrateMeshEdges) := by decide
      rw [if_neg hopt] at h
      generalize m2.resetFaceTables.FindFaces ops = r3 at h
      cases r3 with
      | error err => exact absurd h (fun h' => Except.noConfusion h')
      | ok m3 =>
        dsimp only at h
        injection h with h
        exact Or.inr ⟨m3, h.symm⟩

/-- The points of the ring that `ComputeFaceClosedPolygon` forms are the nodes of the face. -/
theorem ComputeFaceClosedPolygon_get (m : Mesh) (f i : Nat) (hi : i < m.GetNumFaceEdges f) :
    vecGet (m.ComputeFaceClosedPolygon f) i missingPoint =
      vecGet m.m_nodes (vecGet (vecGet m.m_facesNodes f []) i 0) missingPoint := by
  unfold Mesh.ComputeFaceClosedPolygon
  dsimp only
  rw [vecGet_append_left _ _ _ _ (by rw [List.length_map, List.length_range]; exact hi)]
  exact vecGet_map_range _ _ _ _ hi

theorem ComputeFaceClosedPolygon_length (m : Mesh) (f : Nat) :
    (m.ComputeFaceClosedPolygon f).length = m.GetNumFaceEdges f + 1 := by
  unfold Mesh.ComputeFaceClosedPolygon
  simp

end meshkernel

namespace meshkernel

/-! ## The position of the edge that follows around a node -/

/-- In `FindFacesRecursive` (lines 749-772) the edge just walked is found among the edges of the
node it arrives at, at a position `i` below the number of edges of the node, and the edge chosen
next is the entry one position before it on the ring of positions. -/
theorem nextEdge_position (m : Mesh) (hok : m.NodeEdgesOk) (n : Nat) (hn : n < m.m_nodes.length)
    (prev : Nat) (hprev : prev ∈ vecGet m.m_nodesEdges n []) :
    ∃ i, i < vecGet m.m_nodesNumEdges n 0 ∧ vecGet (vecGet m.m_nodesEdges n []) i 0 = prev ∧
      (i + vecGet m.m_nodesNumEdges n 0 - 1) % vecGet m.m_nodesNumEdges n 0 <
        vecGet m.m_nodesNumEdges n 0 ∧
      m.nextEdge n prev = vecGet (vecGet m.m_nodesEdges n [])
        ((i + vecGet m.m_nodesNumEdges n 0 - 1) % vecGet m.m_nodesNumEdges n 0) 0 := by
  have hlen := hok.length_eq n hn
  have hcap : vecGet m.m_nodesNumEdges n 0 ≤ 16 := hok.cap n hn
  have hpos : 0 < vecGet m.m_nodesNumEdges n 0 := by
    rw [← hlen]; exact List.length_pos_of_mem hprev
  have h64 : vecGet m.m_nodesNumEdges n 0 < 2 ^ 64 := by
    have : (16 : Nat) < 2 ^ 64 := by decide
    omega
  unfold Mesh.nextEdge
  simp only []
  generalize hd : vecGet m.m_nodesNumEdges n 0 = d at hlen hcap hpos h64
  cases hf : (List.range d).find? (fun e => vecGet (vecGet m.m_nodesEdges n []) e 0 == prev) with
  | none =>
    exfalso
    obtain ⟨i, hi, hget⟩ := List.mem_iff_getElem.mp hprev
    have hall := List.find?_eq_none.mp hf i (List.mem_range.mpr (by rw [← hlen]; exact hi))
    apply hall
    rw [vecGet_eq_getElem _ _ _ hi, hget]
    exact beq_self_eq_true prev
  | some j =>
    have hj : j < d := List.mem_range.mp (List.mem_of_find?_eq_some hf)
    have hpj : vecGet (vecGet m.m_nodesEdges n []) j 0 = prev := by
      have := List.find?_some hf
      exact beq_iff_eq.mp this
    refine ⟨j, hj, hpj, Nat.mod_lt _ hpos, ?_⟩
    show vecGet (vecGet m.m_nodesEdges n [])
      (if j = 0 then sizetSub d 1 else if j > d then sizetSub (sizetSub j d) 1
        else sizetSub j 1) 0 = _
    by_cases h0 : j = 0
    · rw [if_pos h0, sizetSub_eq _ _ hpos h64, h0, Nat.zero_add,
        Nat.mod_eq_of_lt (by omega : d - 1 < d)]
    · have hgt : ¬ j > d := by omega
      rw [if_neg h0, if_neg hgt, sizetSub_eq _ _ (by omega) (by omega)]
      have : (j + d - 1) % d = j - 1 := by
        have e : j + d - 1 = (j - 1) + d := by omega
        rw [e, Nat.add_mod_right, Nat.mod_eq_of_lt (by omega)]
      rw [this]

/-- An edge is recorded at its first node exactly when it is recorded at its second node. -/
theorem recorded_symmetric (m : Mesh) (hok : m.NodeEdgesOk) (e : Nat) :
    e ∈ vecGet m.m_nodesEdges (m.edge e).1 [] ↔ e ∈ vecGet m.m_nodesEdges (m.edge e).2 [] := by
  have hout : ∀ n, ¬ n < m.m_nodes.length → ¬ e ∈ vecGet m.m_nodesEdges n [] := by
    intro n hn h
    rw [vecGet_of_length_le _ _ _ (by rw [hok.len_edges]; omega)] at h
    exact absurd h (List.not_mem_nil e)
  constructor
  · intro h
    by_cases hn : (m.edge e).1 < m.m_nodes.length
    · have := hok.sym _ hn e h
      unfold OtherNodeOfEdge at this
      rw [if_pos rfl] at this
      exact this
    · exact absurd h (hout _ hn)
  · intro h
    by_cases hn : (m.edge e).2 < m.m_nodes.length
    · have := hok.sym _ hn e h
      unfold OtherNodeOfEdge at this
      by_cases heq : (m.edge e).2 = (m.edge e).1
      · rw [if_pos heq] at this
        rw [← heq]; exact this
      · rw [if_neg heq] at this
        exact this
    · exact absurd h (hout _ hn)

end meshkernel

namespace meshkernel

/-! ## `WalkBoundaryFromNode`: the passes of its loop -/

theorem count_set_true (l : List Bool) (i : Nat) (h : i < l.length)
    (hf : vecGet l i false = false) :
    (l.set i true).count true = l.count true + 1 ∧
    (l.set i true).count false + 1 = l.count false := by
  induction l generalizing i with
  | nil => exact absurd h (Nat.not_lt_zero _)
  | cons a t ih =>
    cases i with
    | zero =>
      have ha : a = false := hf
      subst ha
      simp
    | succ i =>
      have hf' : vecGet t i false = false := hf
      obtain ⟨h1, h2⟩ := ih i (Nat.lt_of_succ_lt_succ h) hf'
      rw [List.set_cons_succ]
      cases a
      · simp only [List.count_cons, h1]
        constructor
        · simp
        · simp only [beq_self_eq_true, if_true]; omega
      · simp only [List.count_cons, h1]
        constructor
        · simp only [beq_self_eq_true, if_true]
        · simp only [Bool.true_eq_false, beq_iff_eq, if_false, Nat.add_zero]
          simpa using h2

/-- One pass of the loop of `WalkBoundaryFromNode` (lines 2548-2573). -/
theorem walk_succ (ops : Operations) (m : Mesh) (pn : List Point) (fuel e : Nat) (b : Bool)
    (s : List Bool × Nat × List Point) :
    m.WalkBoundaryFromNode ops pn (fuel + 1) e b s =
      if e < vecGet m.m_nodesNumEdges s.2.1 0 then
        if !(if !b then
              ops.IsPointInPolygonNodes (vecGet m.m_nodes s.2.1 missingPoint) pn m.m_projection
            else b) then some s
        else
          if vecGet s.1 (vecGet (vecGet m.m_nodesEdges s.2.1 []) e 0) false ||
              !m.IsEdgeOnBoundary (vecGet (vecGet m.m_nodesEdges s.2.1 []) e 0) then
            m.WalkBoundaryFromNode ops pn fuel (e + 1)
              (if !b then
                ops.IsPointInPolygonNodes (vecGet m.m_nodes s.2.1 missingPoint) pn m.m_projection
              else b) s
          else
            m.WalkBoundaryFromNode ops pn fuel 0 false
              (s.1.set (vecGet (vecGet m.m_nodesEdges s.2.1 []) e 0) true,
                OtherNodeOfEdge (vecGet m.m_edges (vecGet (vecGet m.m_nodesEdges s.2.1 []) e 0)
                  missingEdge) s.2.1,
                s.2.2 ++ [vecGet m.m_nodes
                  (OtherNodeOfEdge (vecGet m.m_edges
                    (vecGet (vecGet m.m_nodesEdges s.2.1 []) e 0) missingEdge) s.2.1)
                  missingPoint])
      else some s := rfl

/-- More passes than the loop needs change nothing. -/
theorem walk_mono (ops : Operations) (m : Mesh) (pn : List Point) (fuel : Nat) :
    ∀ (e : Nat) (b : Bool) (s r : List Bool × Nat × List Point),
      m.WalkBoundaryFromNode ops pn fuel e b s = some r →
      m.WalkBoundaryFromNode ops pn (fuel + 1) e b s = some r := by
  induction fuel with
  | zero =>
    intro e b s r h
    exact absurd h (fun h' => Option.noConfusion h')
  | succ fuel ih =>
    intro e b s r h
    rw [walk_succ] at h
    rw [walk_succ]
    by_cases h1 : e < vecGet m.m_nodesNumEdges s.2.1 0
    · rw [if_pos h1] at h ⊢
      by_cases h2 : (!(if !b then
              ops.IsPointInPolygonNodes (vecGet m.m_nodes s.2.1 missingPoint) pn m.m_projection
            else b)) = true
      · rw [if_pos h2] at h ⊢
        exact h
      · rw [if_neg h2] at h ⊢
        by_cases h3 : (vecGet s.1 (vecGet (vecGet m.m_nodesEdges s.2.1 []) e 0) false ||
              !m.IsEdgeOnBoundary (vecGet (vecGet m.m_nodesEdges s.2.1 []) e 0)) = true
        · rw [if_pos h3] at h ⊢
          exact ih _ _ _ _ h
        · rw [if_neg h3] at h ⊢
          exact ih _ _ _ _ h
    · rw [if_neg h1] at h ⊢
      exact h

theorem walk_mono_le (ops : Operations) (m : Mesh) (pn : List Point) (fuel fuel' : Nat)
    (hle : fuel ≤ fuel') (e : Nat) (b : Bool) (s r : List Bool × Nat × List Point)
    (h : m.WalkBoundaryFromNode ops pn fuel e b s = some r) :
    m.WalkBoundaryFromNode ops pn fuel' e b s = some r := by
  induction fuel' with
  | zero =>
    have : fuel = 0 := Nat.le_zero.mp hle
    rw [this] at h
    exact h
  | succ k ih =>
    by_cases hk : fuel ≤ k
    · exact walk_mono ops m pn k e b s r (ih hk)
    · have : fuel = k + 1 := by omega
      rw [this] at h
      exact h

/-- The loop of `WalkBoundaryFromNode` ends: on a mesh whose nodes have at most
`maximumNumberOfEdgesPerNode` edges and with a flag for every boundary edge, the bound
`17 * (number of unvisited edges) + (17 - e) + 1` on the passes is enough.  The flags only go
from unvisited to visited, an edge newly marked is a boundary edge, and one point is appended
for each edge newly marked. -/
theorem walk_spec (ops : Operations) (m : Mesh) (pn : List Point) (L : Nat)
    (hdeg : ∀ n, vecGet m.m_nodesNumEdges n 0 ≤ maximumNumberOfEdgesPerNode)
    (hb : ∀ i, m.IsEdgeOnBoundary i = true → i < L) (fuel : Nat) :
    ∀ (e : Nat) (b : Bool) (vis : List Bool) (node : Nat) (poly : List Point),
      vis.length = L → 17 * vis.count false + (17 - e) + 1 ≤ fuel →
      ∃ r, m.WalkBoundaryFromNode ops pn fuel e b (vis, node, poly) = some r ∧
        r.1.length = L ∧
        (∀ i, vecGet vis i false = true → vecGet r.1 i false = true) ∧
        (∀ i, vecGet r.1 i false = true →
          vecGet vis i false = true ∨
            (vecGet vis i false = false ∧ m.IsEdgeOnBoundary i = true)) ∧
        ∃ extra, r.2.2 = poly ++ extra ∧ r.1.count true = vis.count true + extra.length := by
  induction fuel with
  | zero =>
    intro e b vis node poly _ hfuel
    exact absurd hfuel (by omega)
  | succ fuel ih =>
    intro e b vis node poly hlen hfuel
    rw [walk_succ]
    have hstay : ∃ r, some (vis, node, poly) = some r ∧
        r.1.length = L ∧
        (∀ i, vecGet vis i false = true → vecGet r.1 i false = true) ∧
        (∀ i, vecGet r.1 i false = true →
          vecGet vis i false = true ∨
            (vecGet vis i false = false ∧ m.IsEdgeOnBoundary i = true)) ∧
        ∃ extra, r.2.2 = poly ++ extra ∧ r.1.count true = vis.count true + extra.length :=
      ⟨(vis, node, poly), rfl, hlen, fun _ h => h, fun _ h => Or.inl h, [],
        (List.append_nil _).symm, rfl⟩
    dsimp only
    by_cases h1 : e < vecGet m.m_nodesNumEdges node 0
    · rw [if_pos h1]
      have he : e < 16 := Nat.lt_of_lt_of_le h1 (hdeg node)
      by_cases h2 : (!(if !b then
              ops.IsPointInPolygonNodes (vecGet m.m_nodes node missingPoint) pn m.m_projection
            else b)) = true
      · rw [if_pos h2]
        exact hstay
      · rw [if_neg h2]
        by_cases h3 : (vecGet vis (vecGet (vecGet m.m_nodesEdges node []) e 0) false ||
              !m.IsEdgeOnBoundary (vecGet (vecGet m.m_nodesEdges node []) e 0)) = true
        · rw [if_pos h3]
          exact ih (e + 1) _ vis node poly hlen (by omega)
        · rw [if_neg h3]
          generalize hce : vecGet (vecGet m.m_nodesEdges node []) e 0 = ce at h3 ⊢
          have hvf : vecGet vis ce false = false := by
            cases hv : vecGet vis ce false
            · rfl
            · rw [hv] at h3; exact absurd rfl h3
          have hbd : m.IsEdgeOnBoundary ce = true := by
            cases hv : m.IsEdgeOnBoundary ce
            · rw [hv, hvf] at h3; exact absurd rfl h3
            · rfl
          have hcL : ce < vis.length := by rw [hlen]; exact hb ce hbd
          obtain ⟨c1, c2⟩ := count_set_true vis ce hcL hvf
          obtain ⟨r, hr, r1, r2, r3, extra, r4, r5⟩ := ih 0 false (vis.set ce true)
            (OtherNodeOfEdge (vecGet m.m_edges ce missingEdge) node)
            (poly ++ [vecGet m.m_nodes (OtherNodeOfEdge (vecGet m.m_edges ce missingEdge) node)
              missingPoint])
            (by rw [List.length_set]; exact hlen) (by omega)
          refine ⟨r, hr, r1, ?_, ?_,
            vecGet m.m_nodes (OtherNodeOfEdge (vecGet m.m_edges ce missingEdge) node)
              missingPoint :: extra, ?_, ?_⟩
          · intro i hi
            apply r2
            rw [vecGet_set]
            split
            · rfl
            · exact hi
          · intro i hi
            rcases r3 i hi with h | h
            · rw [vecGet_set] at h
              by_cases hic : ce = i ∧ ce < vis.length
              · right
                rw [← hic.1]
                exact ⟨hvf, hbd⟩
              · rw [if_neg hic] at h
                exact Or.inl h
            · rw [vecGet_set] at h
              by_cases hic : ce = i ∧ ce < vis.length
              · rw [if_pos hic] at h
                exact absurd h.1 (by decide)
              · rw [if_neg hic] at h
                exact Or.inr h
          · rw [r4, List.append_assoc]
            rfl
          · rw [r5, c1, List.length_cons]
            omega
    · rw [if_neg h1]
      exact hstay

end meshkernel

namespace meshkernel

/-! ## The edge loop of `MeshBoundaryToPolygon` -/

/-- The loop that swaps points of the first tail keeps the number of points. -/
theorem reverseFirstTail_length (a b c : Nat) (poly : List Point) :
    (reverseFirstTail a b c poly).length = poly.length := by
  unfold reverseFirstTail
  dsimp only
  apply foldl_invariant (fun p : List Point => p.length = poly.length)
  · rfl
  · intro s n _ hs
    rw [List.length_set, List.length_set, hs]

/-- A pass of the edge loop that skips the edge (lines 2479-2482, 2492-2495). -/
theorem meshBoundaryStep_skip (ops : Operations) (m : Mesh) (pn : List Point) (fuel : Nat)
    (vis : List Bool) (poly : List Point) (e : Nat)
    (h : (vecGet vis e false || !m.IsEdgeOnBoundary e) = true ∨
      (!ops.IsPointInPolygonNodes (vecGet m.m_nodes (vecGet m.m_edges e missingEdge).1
          missingPoint) pn m.m_projection &&
        !ops.IsPointInPolygonNodes (vecGet m.m_nodes (vecGet m.m_edges e missingEdge).2
          missingPoint) pn m.m_projection) = true) :
    meshBoundaryStep ops m pn fuel (some (vis, poly)) e = some (vis, poly) := by
  unfold meshBoundaryStep
  dsimp only
  by_cases h1 : (vecGet vis e false || !m.IsEdgeOnBoundary e) = true
  · rw [if_pos h1]
  · rw [if_neg h1]
    rcases h with h | h
    · exact absurd h h1
    · rw [if_pos h]

/-- A pass of the edge loop that starts a polyline (lines 2497-2536), from the results of its
walks. -/
theorem meshBoundaryStep_polyline (ops : Operations) (m : Mesh) (pn : List Point) (fuel : Nat)
    (vis : List Bool) (poly : List Point) (e : Nat)
    (first second : List Bool × Nat × List Point)
    (h1 : ¬ (vecGet vis e false || !m.IsEdgeOnBoundary e) = true)
    (h2 : ¬ (!ops.IsPointInPolygonNodes (vecGet m.m_nodes (vecGet m.m_edges e missingEdge).1
          missingPoint) pn m.m_projection &&
        !ops.IsPointInPolygonNodes (vecGet m.m_nodes (vecGet m.m_edges e missingEdge).2
          missingPoint) pn m.m_projection) = true)
    (hfirst : m.WalkBoundaryFromNode ops pn fuel 0 false
      (vis.set e true, (vecGet m.m_edges e missingEdge).2,
        (if !poly.isEmpty then poly ++ [missingPoint] else poly) ++
          [vecGet m.m_nodes (vecGet m.m_edges e missingEdge).1 missingPoint,
            vecGet m.m_nodes (vecGet m.m_edges e missingEdge).2 missingPoint]) = some first)
    (hsecond : (if first.2.1 ≠ (vecGet m.m_edges e missingEdge).1 then
        m.WalkBoundaryFromNode ops pn fuel 0 false
          (first.1, (vecGet m.m_edges e missingEdge).1, first.2.2)
      else some first) = some second) :
    meshBoundaryStep ops m pn fuel (some (vis, poly)) e =
      some (second.1,
        (if second.2.2.length > first.2.2.length then
          reverseFirstTail (vecGet m.m_edges e missingEdge).1
            (if !poly.isEmpty then poly ++ [missingPoint] else poly).length
            first.2.2.length second.2.2
        else second.2.2) ++ [missingPoint]) := by
  unfold meshBoundaryStep
  dsimp only
  rw [if_neg h1, if_neg h2, hfirst]
  dsimp only
  rw [hsecond]

/-- One pass of the edge loop of `MeshBoundaryToPolygon` with enough passes for its walks: the
pass returns; the flags only go from unvisited to visited; an edge newly marked is a boundary
edge; and either nothing changes, or a polyline is added that holds one point for each edge it
marks, its first point, the sentinel behind it and, unless it is the first polyline, the sentinel
before it. -/
theorem meshBoundaryStep_spec (ops : Operations) (m : Mesh) (pn : List Point) (L : Nat)
    (hdeg : ∀ n, vecGet m.m_nodesNumEdges n 0 ≤ maximumNumberOfEdgesPerNode)
    (hb : ∀ i, m.IsEdgeOnBoundary i = true → i < L) (fuel : Nat) (hfuel : 17 * L + 18 ≤ fuel)
    (vis : List Bool) (poly : List Point) (e : Nat) (hlen : vis.length = L) :
    ∃ vis' poly', meshBoundaryStep ops m pn fuel (some (vis, poly)) e = some (vis', poly') ∧
      vis'.length = L ∧
      (∀ i, vecGet vis i false = true → vecGet vis' i false = true) ∧
      (∀ i, vecGet vis' i false = true →
        vecGet vis i false = true ∨ (vecGet vis i false = false ∧ m.IsEdgeOnBoundary i = true)) ∧
      ((vis' = vis ∧ poly' = poly) ∨
        ∃ x, vis'.count true = vis.count true + 1 + x ∧
          poly'.length = poly.length + (if poly = [] then 0 else 1) + 3 + x) := by
  by_cases h1 : (vecGet vis e false || !m.IsEdgeOnBoundary e) = true
  · exact ⟨vis, poly, meshBoundaryStep_skip ops m pn fuel vis poly e (Or.inl h1), hlen,
      fun _ h => h, fun _ h => Or.inl h, Or.inl ⟨rfl, rfl⟩⟩
  by_cases h2 : (!ops.IsPointInPolygonNodes (vecGet m.m_nodes (vecGet m.m_edges e missingEdge).1
          missingPoint) pn m.m_projection &&
        !ops.IsPointInPolygonNodes (vecGet m.m_nodes (vecGet m.m_edges e missingEdge).2
          missingPoint) pn m.m_projection) = true
  · exact ⟨vis, poly, meshBoundaryStep_skip ops m pn fuel vis poly e (Or.inr h2), hlen,
      fun _ h => h, fun _ h => Or.inl h, Or.inl ⟨rfl, rfl⟩⟩
  have hvf : vecGet vis e false = false := by
    cases hv : vecGet vis e false
    · rfl
    · rw [hv] at h1; exact absurd rfl h1
  have hbd : m.IsEdgeOnBoundary e = true := by
    cases hv : m.IsEdgeOnBoundary e
    · rw [hv, hvf] at h1; exact absurd rfl h1
    · rfl
  have heL : e < vis.length := by rw [hlen]; exact hb e hbd
  obtain ⟨c1, _⟩ := count_set_true vis e heL hvf
  have hcount : ∀ v : List Bool, v.length = L → 17 * v.count false + (17 - 0) + 1 ≤ fuel := by
    intro v hv
    have := List.count_le_length false v
    rw [hv] at this
    omega
  have hlen1 : (vis.set e true).length = L := by rw [List.length_set]; exact hlen
  obtain ⟨first, hfirst, f1, f2, f3, x1, f4, f5⟩ := walk_spec ops m pn L hdeg hb fuel 0 false
    (vis.set e true) (vecGet m.m_edges e missingEdge).2
    ((if !poly.isEmpty then poly ++ [missingPoint] else poly) ++
      [vecGet m.m_nodes (vecGet m.m_edges e missingEdge).1 missingPoint,
        vecGet m.m_nodes (vecGet m.m_edges e missingEdge).2 missingPoint])
    hlen1 (hcount _ hlen1)
  have hsec : ∃ second, (if first.2.1 ≠ (vecGet m.m_edges e missingEdge).1 then
        m.WalkBoundaryFromNode ops pn fuel 0 false
          (first.1, (vecGet m.m_edges e missingEdge).1, first.2.2)
      else some first) = some second ∧ second.1.length = L ∧
      (∀ i, vecGet first.1 i false = true → vecGet second.1 i false = true) ∧
      (∀ i, vecGet second.1 i false = true →
        vecGet first.1 i false = true ∨
          (vecGet first.1 i false = false ∧ m.IsEdgeOnBoundary i = true)) ∧
      ∃ x2, second.2.2 = first.2.2 ++ x2 ∧
        second.1.count true = first.1.count true + x2.length := by
    by_cases hc : first.2.1 ≠ (vecGet m.m_edges e missingEdge).1
    · rw [if_pos hc]
      exact walk_spec ops m pn L hdeg hb fuel 0 false first.1 _ first.2.2 f1 (hcount _ f1)
    · rw [if_neg hc]
      exact ⟨first, rfl, f1, fun _ h => h, fun _ h => Or.inl h, [],
        (List.append_nil _).symm, rfl⟩
  obtain ⟨second, hsecond, s1, s2, s3, x2, s4, s5⟩ := hsec
  refine ⟨_, _, meshBoundaryStep_polyline ops m pn fuel vis poly e first second h1 h2 hfirst
    hsecond, s1, ?_, ?_, Or.inr ⟨x1.length + x2.length, ?_, ?_⟩⟩
  · intro i hi
    apply s2
    apply f2
    rw [vecGet_set]
    split
    · rfl
    · exact hi
  · intro i hi
    have key : vecGet (vis.set e true) i false = true →
        vecGet vis i false = true ∨ (vecGet vis i false = false ∧ m.IsEdgeOnBoundary i = true) := by
      intro h
      rw [vecGet_set] at h
      by_cases hic : e = i ∧ e < vis.length
      · right
        rw [← hic.1]
        exact ⟨hvf, hbd⟩
      · rw [if_neg hic] at h
        exact Or.inl h
    have key2 : vecGet (vis.set e true) i false = false → vecGet vis i false = false := by
      intro h
      rw [vecGet_set] at h
      by_cases hic : e = i ∧ e < vis.length
      · rw [if_pos hic] at h
        exact absurd h (by decide)
      · rw [if_neg hic] at h
        exact h
    rcases s3 i hi with h | h
    · rcases f3 i h with h' | h'
      · exact key h'
      · exact Or.inr ⟨key2 h'.1, h'.2⟩
    · rcases hf : vecGet first.1 i false with _ | _
      · cases hv : vecGet (vis.set e true) i false
        · exact Or.inr ⟨key2 hv, h.2⟩
        · exact key hv
      · rw [hf] at h
        exact absurd h.1 (by decide)
  · rw [s5, f5, c1]
    omega
  · have hl2 : second.2.2.length = poly.length + (if poly = [] then 0 else 1) + 2 +
        x1.length + x2.length := by
      rw [s4, f4]
      simp only [List.length_append, List.length_cons, List.length_nil]
      cases poly with
      | nil => simp
      | cons p ps => simp
    have hl3 : (if second.2.2.length > first.2.2.length then
          reverseFirstTail (vecGet m.m_edges e missingEdge).1
            (if !poly.isEmpty then poly ++ [missingPoint] else poly).length
            first.2.2.length second.2.2
        else second.2.2).length = second.2.2.length := by
      split
      · exact reverseFirstTail_length _ _ _ _
      · rfl
    rw [List.length_append, hl3, hl2]
    simp only [List.length_cons, List.length_nil]
    omega

/-- The edge loop of `MeshBoundaryToPolygon` after the edges below `k`, with enough passes for
every walk: the loop returns; only boundary edges are marked; and the polygon is empty with no
edge marked, or it holds `S` polylines with one point for each marked edge, and for each polyline
its first point and its sentinel, and between two polylines one more sentinel. -/
theorem meshBoundary_loop (ops : Operations) (m : Mesh) (pn : List Point) (L : Nat)
    (hdeg : ∀ n, vecGet m.m_nodesNumEdges n 0 ≤ maximumNumberOfEdgesPerNode)
    (hb : ∀ i, m.IsEdgeOnBoundary i = true → i < L) (fuel : Nat) (hfuel : 17 * L + 18 ≤ fuel)
    (k : Nat) :
    ∃ vis poly, (List.range k).foldl (meshBoundaryStep ops m pn fuel)
        (some (List.replicate L false, [])) = some (vis, poly) ∧
      vis.length = L ∧
      (∀ i, vecGet vis i false = true → m.IsEdgeOnBoundary i = true) ∧
      ((poly = [] ∧ vis.count true = 0) ∨
        ∃ S, 1 ≤ S ∧ S ≤ vis.count true ∧ poly.length + 1 = vis.count true + 3 * S) := by
  apply foldl_range_invariant (fun _ (s : Option (List Bool × List Point)) =>
    ∃ vis poly, s = some (vis, poly) ∧
      vis.length = L ∧
      (∀ i, vecGet vis i false = true → m.IsEdgeOnBoundary i = true) ∧
      ((poly = [] ∧ vis.count true = 0) ∨
        ∃ S, 1 ≤ S ∧ S ≤ vis.count true ∧ poly.length + 1 = vis.count true + 3 * S))
  · refine ⟨_, _, rfl, List.length_replicate _ _, ?_, Or.inl ⟨rfl, ?_⟩⟩
    · intro i hi
      rw [vecGet_replicate] at hi
      split at hi <;> exact absurd hi (by decide)
    · rw [List.count_replicate]
      rfl
  · rintro e s _ ⟨vis, poly, hs, hlen, hbnd, hacc⟩
    subst hs
    obtain ⟨vis', poly', hstep, l1, _, l3, l4⟩ :=
      meshBoundaryStep_spec ops m pn L hdeg hb fuel hfuel vis poly e hlen
    refine ⟨vis', poly', hstep, l1, ?_, ?_⟩
    · intro i hi
      rcases l3 i hi with h | h
      · exact hbnd i h
      · exact h.2
    · rcases l4 with ⟨e1, e2⟩ | ⟨x, e1, e2⟩
      · rw [e1, e2]; exact hacc
      · right
        rcases hacc with ⟨p0, c0⟩ | ⟨S, hS1, hS2, hS3⟩
        · refine ⟨1, le_refl _, by omega, ?_⟩
          rw [e2, e1, c0, p0, if_pos rfl]
          simp
          omega
        · have hne : poly ≠ [] := by
            intro h
            rw [h] at hS3
            simp at hS3
            omega
          refine ⟨S + 1, by omega, by omega, ?_⟩
          rw [e2, e1, if_neg hne]
          omega

/-- Once a walk has used up its passes, the edge loop has no result. -/
theorem meshBoundary_none (ops : Operations) (m : Mesh) (pn : List Point) (fuel : Nat)
    (l : List Nat) : l.foldl (meshBoundaryStep ops m pn fuel) none = none := by
  induction l with
  | nil => rfl
  | cons a l ih => exact ih

/-- More passes for the walks than a pass of the edge loop needs change nothing. -/
theorem meshBoundaryStep_mono (ops : Operations) (m : Mesh) (pn : List Point)
    (fuel fuel' : Nat) (hle : fuel ≤ fuel') (s : Option (List Bool × List Point)) (e : Nat)
    (r : List Bool × List Point) (h : meshBoundaryStep ops m pn fuel s e = some r) :
    meshBoundaryStep ops m pn fuel' s e = some r := by
  cases s with
  | none => exact absurd h (fun h' => Option.noConfusion h')
  | some vp =>
    obtain ⟨vis, poly⟩ := vp
    by_cases h1 : (vecGet vis e false || !m.IsEdgeOnBoundary e) = true
    · rw [meshBoundaryStep_skip ops m pn fuel vis poly e (Or.inl h1)] at h
      rw [meshBoundaryStep_skip ops m pn fuel' vis poly e (Or.inl h1)]
      exact h
    by_cases h2 : (!ops.IsPointInPolygonNodes (vecGet m.m_nodes (vecGet m.m_edges e missingEdge).1
            missingPoint) pn m.m_projection &&
          !ops.IsPointInPolygonNodes (vecGet m.m_nodes (vecGet m.m_edges e missingEdge).2
            missingPoint) pn m.m_projection) = true
    · rw [meshBoundaryStep_skip ops m pn fuel vis poly e (Or.inr h2)] at h
      rw [meshBoundaryStep_skip ops m pn fuel' vis poly e (Or.inr h2)]
      exact h
    cases hfirst : m.WalkBoundaryFromNode ops pn fuel 0 false
        (vis.set e true, (vecGet m.m_edges e missingEdge).2,
          (if !poly.isEmpty then poly ++ [missingPoint] else poly) ++
            [vecGet m.m_nodes (vecGet m.m_edges e missingEdge).1 missingPoint,
              vecGet m.m_nodes (vecGet m.m_edges e missingEdge).2 missingPoint]) with
    | none =>
      exfalso
      unfold meshBoundaryStep at h
      dsimp only at h
      rw [if_neg h1, if_neg h2, hfirst] at h
      exact Option.noConfusion h
    | some first =>
      cases hsecond : (if first.2.1 ≠ (vecGet m.m_edges e missingEdge).1 then
          m.WalkBoundaryFromNode ops pn fuel 0 false
            (first.1, (vecGet m.m_edges e missingEdge).1, first.2.2)
        else some first) with
      | none =>
        exfalso
        unfold meshBoundaryStep at h
        dsimp only at h
        rw [if_neg h1, if_neg h2, hfirst] at h
        dsimp only at h
        rw [hsecond] at h
        exact Option.noConfusion h
      | some second =>
        rw [meshBoundaryStep_polyline ops m pn fuel vis poly e first second h1 h2 hfirst
          hsecond] at h
        rw [← h]
        apply meshBoundaryStep_polyline ops m pn fuel' vis poly e first second h1 h2
        · exact walk_mono_le ops m pn fuel fuel' hle _ _ _ _ hfirst
        · by_cases hc : first.2.1 ≠ (vecGet m.m_edges e missingEdge).1
          · rw [if_pos hc] at hsecond ⊢
            exact walk_mono_le ops m pn fuel fuel' hle _ _ _ _ hsecond
          · rw [if_neg hc] at hsecond ⊢
            exact hsecond

/-- More passes for the walks than the edge loop needs change nothing. -/
theorem meshBoundary_mono (ops : Operations) (m : Mesh) (pn : List Point)
    (fuel fuel' : Nat) (hle : fuel ≤ fuel') (l : List Nat) :
    ∀ (s : Option (List Bool × List Point)) (r : List Bool × List Point),
      l.foldl (meshBoundaryStep ops m pn fuel) s = some r →
      l.foldl (meshBoundaryStep ops m pn fuel') s = some r := by
  induction l with
  | nil => intro s r h; exact h
  | cons a l ih =>
    intro s r h
    rw [List.foldl_cons] at h ⊢
    cases hstep : meshBoundaryStep ops m pn fuel s a with
    | none =>
      rw [hstep, meshBoundary_none] at h
      exact absurd h (fun h' => Option.noConfusion h')
    | some t =>
      rw [meshBoundaryStep_mono ops m pn fuel fuel' hle s a t hstep]
      rw [hstep] at h
      exact ih _ _ h

/-- The nodes of a mesh with its node tables in order have at most
`maximumNumberOfEdgesPerNode` edges; a node outside the mesh has none. -/
theorem administered_degree (m : Mesh) (hok : m.NodeEdgesOk) (n : Nat) :
    vecGet m.m_nodesNumEdges n 0 ≤ maximumNumberOfEdgesPerNode := by
  by_cases hn : n < m.m_nodes.length
  · exact hok.cap n hn
  · rw [vecGet_of_length_le _ _ _ (by rw [hok.len_num]; omega)]
    exact Nat.zero_le _

/-- A boundary edge is an edge of the mesh. -/
theorem boundary_lt (ops : Operations) (m : Mesh) (hinv : m.FacesInv ops) (i : Nat)
    (h : m.IsEdgeOnBoundary i = true) : i < m.m_edges.length := by
  by_contra hc
  unfold Mesh.IsEdgeOnBoundary at h
  rw [vecGet_of_length_le _ _ _ (by rw [hinv.len_numFaces]; omega)] at h
  exact absurd h (by decide)

/-- The value of `MeshBoundaryToPolygon` from the administered mesh and the result of the edge
loop. -/
theorem MeshBoundaryToPolygon_eq (ops : Operations) (m m1 : Mesh) (pn : List Point) (fuel : Nat)
    (vis : List Bool) (poly : List Point)
    (hadm : m.Administrate ops AdministrationOptions.AdministrateMeshEdgesAndFaces = .ok m1)
    (hloop : (List.range m1.GetNumEdges).foldl (meshBoundaryStep ops m1 pn fuel)
      (some (List.replicate m1.GetNumEdges false, [])) = some (vis, poly)) :
    m.MeshBoundaryToPolygon ops pn fuel = .ok (m1, some poly) := by
  unfold Mesh.MeshBoundaryToPolygon
  rw [hadm]
  dsimp only
  rw [hloop]
  rfl

end meshkernel

namespace meshkernel

/-! ## The walk along a ring of boundary edges -/

/-- At a node in the polygon the flag `currentNodeInPolygon` makes no difference. -/
theorem walk_true (ops : Operations) (m : Mesh) (pn : List Point) (fuel e : Nat) (b : Bool)
    (s : List Bool × Nat × List Point)
    (hin : ops.IsPointInPolygonNodes (vecGet m.m_nodes s.2.1 missingPoint) pn m.m_projection
      = true) :
    m.WalkBoundaryFromNode ops pn fuel e b s = m.WalkBoundaryFromNode ops pn fuel e true s := by
  cases fuel with
  | zero => rfl
  | succ fuel =>
    rw [walk_succ, walk_succ]
    have hb : (if !b then
        ops.IsPointInPolygonNodes (vecGet m.m_nodes s.2.1 missingPoint) pn m.m_projection
      else b) = true := by
      cases b
      · exact hin
      · rfl
    rw [hb]
    rfl

/-- A pass of the walk at an edge that is visited or no boundary edge goes to the next edge of
the node. -/
theorem walk_skip (ops : Operations) (m : Mesh) (pn : List Point) (fuel e : Nat)
    (s : List Bool × Nat × List Point) (h1 : e < vecGet m.m_nodesNumEdges s.2.1 0)
    (h3 : (vecGet s.1 (vecGet (vecGet m.m_nodesEdges s.2.1 []) e 0) false ||
      !m.IsEdgeOnBoundary (vecGet (vecGet m.m_nodesEdges s.2.1 []) e 0)) = true) :
    m.WalkBoundaryFromNode ops pn (fuel + 1) e true s =
      m.WalkBoundaryFromNode ops pn fuel (e + 1) true s := by
  rw [walk_succ, if_pos h1]
  have h2 : ¬ (!(if !true then
      ops.IsPointInPolygonNodes (vecGet m.m_nodes s.2.1 missingPoint) pn m.m_projection
    else true)) = true := by simp
  rw [if_neg h2, if_pos h3]
  rfl

/-- A pass of the walk at an unvisited boundary edge marks it and moves to its other node. -/
theorem walk_mark (ops : Operations) (m : Mesh) (pn : List Point) (fuel e : Nat)
    (s : List Bool × Nat × List Point) (h1 : e < vecGet m.m_nodesNumEdges s.2.1 0)
    (h3 : ¬ (vecGet s.1 (vecGet (vecGet m.m_nodesEdges s.2.1 []) e 0) false ||
      !m.IsEdgeOnBoundary (vecGet (vecGet m.m_nodesEdges s.2.1 []) e 0)) = true) :
    m.WalkBoundaryFromNode ops pn (fuel + 1) e true s =
      m.WalkBoundaryFromNode ops pn fuel 0 false
        (s.1.set (vecGet (vecGet m.m_nodesEdges s.2.1 []) e 0) true,
          OtherNodeOfEdge (vecGet m.m_edges (vecGet (vecGet m.m_nodesEdges s.2.1 []) e 0)
            missingEdge) s.2.1,
          s.2.2 ++ [vecGet m.m_nodes
            (OtherNodeOfEdge (vecGet m.m_edges
              (vecGet (vecGet m.m_nodesEdges s.2.1 []) e 0) missingEdge) s.2.1)
            missingPoint]) := by
  rw [walk_succ, if_pos h1]
  have h2 : ¬ (!(if !true then
      ops.IsPointInPolygonNodes (vecGet m.m_nodes s.2.1 missingPoint) pn m.m_projection
    else true)) = true := by simp
  rw [if_neg h2, if_neg h3]

/-- A pass of the walk behind the last edge of the node ends the walk. -/
theorem walk_exit (ops : Operations) (m : Mesh) (pn : List Point) (fuel e : Nat) (b : Bool)
    (s : List Bool × Nat × List Point) (h1 : ¬ e < vecGet m.m_nodesNumEdges s.2.1 0) :
    m.WalkBoundaryFromNode ops pn (fuel + 1) e b s = some s := by
  rw [walk_succ, if_neg h1]

/-- The walk passes over a run of edges that are visited or no boundary edges. -/
theorem walk_scan (ops : Operations) (m : Mesh) (pn : List Point) (fuel : Nat)
    (s : List Bool × Nat × List Point) (p : Nat) (hp : p ≤ vecGet m.m_nodesNumEdges s.2.1 0)
    (hskip : ∀ q, q < p →
      (vecGet s.1 (vecGet (vecGet m.m_nodesEdges s.2.1 []) q 0) false ||
        !m.IsEdgeOnBoundary (vecGet (vecGet m.m_nodesEdges s.2.1 []) q 0)) = true) :
    ∀ d q, q + d = p →
      m.WalkBoundaryFromNode ops pn (fuel + d) q true s =
        m.WalkBoundaryFromNode ops pn fuel p true s := by
  intro d
  induction d with
  | zero =>
    intro q hq
    rw [Nat.add_zero] at hq
    rw [hq]
    rfl
  | succ d ih =>
    intro q hq
    have hqp : q < p := by omega
    rw [← Nat.add_assoc, walk_skip ops m pn (fuel + d) q s (by omega) (hskip q hqp)]
    exact ih (q + 1) (by omega)

theorem take_succ_vecGet (l : List Nat) (n : Nat) (h : n < l.length) :
    l.take (n + 1) = l.take n ++ [vecGet l n 0] := by
  rw [List.take_succ, vecGet_eq_getElem l n 0 h, List.getElem?_eq_getElem h]
  rfl

/-- On a mesh whose node lists hold every edge, two edges that join the same two distinct nodes
are the same edge. -/
theorem joins_unique (m : Mesh) (hok : m.NodeEdgesOk) (a b : Nat) (ha : a < m.m_nodes.length)
    (hla : m.listsAllEdgesAt a) (hab : a ≠ b) (e e' : Nat) (he : e < m.m_edges.length)
    (he' : e' < m.m_edges.length) (hj : m.joins e a b) (hj' : m.joins e' a b) : e = e' := by
  have hmem : e ∈ vecGet m.m_nodesEdges a [] := by
    apply hla e he
    rcases hj with h | h
    · exact Or.inl h.1
    · exact Or.inr h.2
  have hmem' : e' ∈ vecGet m.m_nodesEdges a [] := by
    apply hla e' he'
    rcases hj' with h | h
    · exact Or.inl h.1
    · exact Or.inr h.2
  have hother : ∀ x, m.joins x a b → OtherNodeOfEdge (m.edge x) a = b := by
    intro x hx
    unfold OtherNodeOfEdge
    rcases hx with h | h
    · rw [if_pos h.1.symm]; exact h.2
    · have : ¬ a = (m.edge x).1 := by rw [h.1]; exact hab
      rw [if_neg this]; exact h.1
  have hnd := (hok.ok a ha).2
  exact List.inj_on_of_nodup_map hnd hmem hmem' ((hother e hj).trans (hother e' hj').symm)

/-- The walk along a closed ring `C` of `k ≥ 3` boundary edges, on a mesh whose boundary edges
are the edges on the ring and whose node lists hold every edge: from the node at position `j` of
the ring, with exactly the ring edges before position `j` visited and the points of the nodes up
to position `j` in the polygon, the walk returns at the end of the ring with every ring edge
visited and the points of the whole ring in the polygon. -/
theorem ring_walk (ops : Operations) (m : Mesh) (pn : List Point) (C : List Nat) (k : Nat)
    (hk : C.length = k + 1) (hk3 : 3 ≤ k)
    (hclosed : vecGet C k 0 = vecGet C 0 0)
    (hinj : ∀ i j, i < k → j < k → vecGet C i 0 = vecGet C j 0 → i = j)
    (hok : m.NodeEdgesOk)
    (hnodes : ∀ i, i < k → vecGet C i 0 < m.m_nodes.length)
    (hlist : ∀ n, n < m.m_nodes.length → m.listsAllEdgesAt n)
    (hB : ∀ e, m.IsEdgeOnBoundary e = true ↔ (e < m.m_edges.length ∧ m.onRing C e))
    (hedge : ∀ i, i < k →
      ∃ e, e < m.m_edges.length ∧ m.joins e (vecGet C i 0) (vecGet C (i + 1) 0))
    (hin : ∀ i, i < k →
      ops.IsPointInPolygonNodes (vecGet m.m_nodes (vecGet C i 0) missingPoint) pn m.m_projection
        = true) :
    ∀ d j, j + d = k → 1 ≤ j → ∀ vis : List Bool, vis.length = m.m_edges.length →
      (∀ e, vecGet vis e false = true ↔
        (e < m.m_edges.length ∧
          ∃ i, i < j ∧ m.joins e (vecGet C i 0) (vecGet C (i + 1) 0))) →
      ∃ f vis', m.WalkBoundaryFromNode ops pn f 0 false
          (vis, vecGet C j 0,
            (C.take (j + 1)).map (fun n => vecGet m.m_nodes n missingPoint)) =
          some (vis', vecGet C k 0, C.map (fun n => vecGet m.m_nodes n missingPoint)) ∧
        vis'.length = m.m_edges.length ∧
        (∀ e, vecGet vis' e false = true ↔ (e < m.m_edges.length ∧ m.onRing C e)) := by
  have hCk : C.length - 1 = k := by omega
  have hnode_all : ∀ i, i ≤ k → vecGet C i 0 < m.m_nodes.length := by
    intro i hi
    by_cases h : i < k
    · exact hnodes i h
    · have : i = k := by omega
      rw [this, hclosed]
      exact hnodes 0 (by omega)
  have hne : ∀ i, i < k → vecGet C i 0 ≠ vecGet C (i + 1) 0 := by
    intro i hi h
    by_cases h1 : i + 1 < k
    · have := hinj i (i + 1) hi h1 h
      omega
    · have hik : i + 1 = k := by omega
      rw [hik, hclosed] at h
      have := hinj i 0 hi (by omega) h
      omega
  have hother : ∀ x a b, m.joins x a b → a ≠ b → OtherNodeOfEdge (m.edge x) a = b := by
    intro x a b hx hab
    unfold OtherNodeOfEdge
    rcases hx with h | h
    · rw [if_pos h.1.symm]; exact h.2
    · have : ¬ a = (m.edge x).1 := by rw [h.1]; exact hab
      rw [if_neg this]; exact h.1
  intro d
  induction d with
  | zero =>
    intro j hj _ vis hlen hP
    rw [Nat.add_zero] at hj
    subst hj
    have htake : C.take (j + 1) = C := List.take_of_length_le (by omega)
    rw [htake]
    have hinK : ops.IsPointInPolygonNodes (vecGet m.m_nodes (vecGet C j 0) missingPoint) pn
        m.m_projection = true := by
      rw [hclosed]
      exact hin 0 (by omega)
    have hvis : ∀ e, vecGet vis e false = true ↔ (e < m.m_edges.length ∧ m.onRing C e) := by
      intro e
      rw [hP e]
      unfold Mesh.onRing
      rw [hCk]
    have hskip : ∀ q, q < vecGet m.m_nodesNumEdges (vecGet C j 0) 0 →
        (vecGet vis (vecGet (vecGet m.m_nodesEdges (vecGet C j 0) []) q 0) false ||
          !m.IsEdgeOnBoundary (vecGet (vecGet m.m_nodesEdges (vecGet C j 0) []) q 0)) = true := by
      intro q _
      cases hb : m.IsEdgeOnBoundary (vecGet (vecGet m.m_nodesEdges (vecGet C j 0) []) q 0)
      · simp
      · rw [(hvis _).2 ((hB _).1 hb)]
        rfl
    refine ⟨1 + vecGet m.m_nodesNumEdges (vecGet C j 0) 0, vis, ?_, hlen, hvis⟩
    exact (walk_true ops m pn _ 0 false _ hinK).trans
      ((walk_scan ops m pn 1 (vis, vecGet C j 0, _)
        (vecGet m.m_nodesNumEdges (vecGet C j 0) 0) (le_refl _) hskip _ 0 (Nat.zero_add _)).trans
        (walk_exit ops m pn 0 _ true _ (Nat.lt_irrefl _)))
  | succ d ih =>
    intro j hj hj1 vis hlen hP
    have hjk : j < k := by omega
    obtain ⟨ej, hejL, hejJ⟩ := hedge j hjk
    have hnj : vecGet C j 0 < m.m_nodes.length := hnodes j hjk
    have hinJ := hin j hjk
    have hmem : ej ∈ vecGet m.m_nodesEdges (vecGet C j 0) [] := by
      apply hlist _ hnj ej hejL
      rcases hejJ with h | h
      · exact Or.inl h.1
      · exact Or.inr h.2
    obtain ⟨p, hp, hget⟩ := List.mem_iff_getElem.mp hmem
    have hdeg : (vecGet m.m_nodesEdges (vecGet C j 0) []).length =
        vecGet m.m_nodesNumEdges (vecGet C j 0) 0 := hok.length_eq _ hnj
    have hpe : vecGet (vecGet m.m_nodesEdges (vecGet C j 0) []) p 0 = ej := by
      rw [vecGet_eq_getElem _ _ _ hp]; exact hget
    have hnd : (vecGet m.m_nodesEdges (vecGet C j 0) []).Nodup :=
      List.Nodup.of_map _ (hok.ok _ hnj).2
    -- an edge on the ring at position `i ≥ j` that ends at the node `j` is the edge `ej`
    have hpos : ∀ e', e' < m.m_edges.length → ∀ i, i < k → j ≤ i →
        m.joins e' (vecGet C i 0) (vecGet C (i + 1) 0) →
        ((m.edge e').1 = vecGet C j 0 ∨ (m.edge e').2 = vecGet C j 0) → e' = ej := by
      intro e' he' i hik hji hjoin hinc
      have hcase : vecGet C j 0 = vecGet C i 0 ∨ vecGet C j 0 = vecGet C (i + 1) 0 := by
        rcases hjoin with h | h <;> rcases hinc with h' | h'
        · exact Or.inl (h'.symm.trans h.1)
        · exact Or.inr (h'.symm.trans h.2)
        · exact Or.inr (h'.symm.trans h.1)
        · exact Or.inl (h'.symm.trans h.2)
      have hij : i = j := by
        rcases hcase with h | h
        · exact (hinj j i hjk hik h).symm
        · exfalso
          by_cases h1 : i + 1 < k
          · have := hinj j (i + 1) hjk h1 h
            omega
          · have hik' : i + 1 = k := by omega
            rw [hik', hclosed] at h
            have := hinj j 0 hjk (by omega) h
            omega
      subst hij
      exact joins_unique m hok _ _ hnj (hlist _ hnj) (hne i hik) e' ej he' hejL hjoin hejJ
    have hunvis : ¬ vecGet vis ej false = true := by
      intro hv
      obtain ⟨_, i, hij, hjoin⟩ := (hP ej).1 hv
      -- `ej` joins the nodes `i`, `i + 1` and the nodes `j`, `j + 1` with `i < j`
      have hik : i < k := by omega
      have h1 : vecGet C (i + 1) 0 = vecGet C j 0 ∧ vecGet C i 0 = vecGet C (j + 1) 0 := by
        rcases hjoin with h | h <;> rcases hejJ with h' | h'
        · have := hinj i j hik hjk (h.1.symm.trans h'.1)
          omega
        · exact ⟨h.2.symm.trans h'.2, h.1.symm.trans h'.1⟩
        · exact ⟨h.1.symm.trans h'.1, h.2.symm.trans h'.2⟩
        · have := hinj i j hik hjk (h.2.symm.trans h'.2)
          omega
      by_cases hj2 : j + 1 < k
      · have := hinj i (j + 1) hik hj2 h1.2
        omega
      · have hjk' : j + 1 = k := by omega
        rw [hjk', hclosed] at h1
        have hi0 := hinj i 0 hik (by omega) h1.2
        have hi1 : i + 1 < k := by omega
        have := hinj (i + 1) j hi1 hjk h1.1
        omega
    have hbd : m.IsEdgeOnBoundary ej = true :=
      (hB ej).2 ⟨hejL, ⟨j, by rw [hCk]; exact hjk, hejJ⟩⟩
    have hskip : ∀ q, q < p →
        (vecGet vis (vecGet (vecGet m.m_nodesEdges (vecGet C j 0) []) q 0) false ||
          !m.IsEdgeOnBoundary (vecGet (vecGet m.m_nodesEdges (vecGet C j 0) []) q 0)) = true := by
      intro q hq
      have hqlen : q < (vecGet m.m_nodesEdges (vecGet C j 0) []).length := by omega
      cases hb : m.IsEdgeOnBoundary (vecGet (vecGet m.m_nodesEdges (vecGet C j 0) []) q 0)
      · simp
      · cases hv : vecGet vis (vecGet (vecGet m.m_nodesEdges (vecGet C j 0) []) q 0) false
        · exfalso
          obtain ⟨hL', i, hi, hjoin⟩ := (hB _).1 hb
          rw [hCk] at hi
          have hji : j ≤ i := by
            by_contra hc
            have : vecGet vis (vecGet (vecGet m.m_nodesEdges (vecGet C j 0) []) q 0) false
                = true := (hP _).2 ⟨hL', i, by omega, hjoin⟩
            rw [hv] at this
            exact absurd this (by decide)
          have hinc := (mem_nodesEdges_ok m hok _ hnj _ (vecGet_mem _ q 0 hqlen)).2.2
          have heq := hpos _ hL' i hi hji hjoin hinc
          rw [vecGet_eq_getElem _ _ _ hqlen] at heq
          have := (List.Nodup.getElem_inj_iff hnd).mp (heq.trans hget.symm)
          omega
        · rfl
    have hmark : ¬ (vecGet vis (vecGet (vecGet m.m_nodesEdges (vecGet C j 0) []) p 0) false ||
        !m.IsEdgeOnBoundary (vecGet (vecGet m.m_nodesEdges (vecGet C j 0) []) p 0)) = true := by
      rw [hpe, hbd]
      cases hv : vecGet vis ej false
      · decide
      · exact absurd hv hunvis
    have hnext : OtherNodeOfEdge (vecGet m.m_edges ej missingEdge) (vecGet C j 0) =
        vecGet C (j + 1) 0 := hother ej _ _ hejJ (hne j hjk)
    have hpoly : (C.take (j + 1)).map (fun n => vecGet m.m_nodes n missingPoint) ++
        [vecGet m.m_nodes (vecGet C (j + 1) 0) missingPoint] =
        (C.take (j + 1 + 1)).map (fun n => vecGet m.m_nodes n missingPoint) := by
      rw [take_succ_vecGet C (j + 1) (by omega), List.map_append]
      rfl
    have hP' : ∀ e, vecGet (vis.set ej true) e false = true ↔
        (e < m.m_edges.length ∧
          ∃ i, i < j + 1 ∧ m.joins e (vecGet C i 0) (vecGet C (i + 1) 0)) := by
      intro e
      rw [vecGet_set]
      constructor
      · intro h
        by_cases hc : ej = e ∧ ej < vis.length
        · rw [← hc.1]
          exact ⟨hejL, j, by omega, hejJ⟩
        · rw [if_neg hc] at h
          obtain ⟨h1, i, h2, h3⟩ := (hP e).1 h
          exact ⟨h1, i, by omega, h3⟩
      · rintro ⟨h1, i, h2, h3⟩
        by_cases hc : ej = e ∧ ej < vis.length
        · rw [if_pos hc]
        · rw [if_neg hc]
          by_cases hij : i < j
          · exact (hP e).2 ⟨h1, i, hij, h3⟩
          · exfalso
            have hij' : i = j := by omega
            rw [hij'] at h3
            have := joins_unique m hok _ _ hnj (hlist _ hnj) (hne j hjk) e ej h1 hejL h3 hejJ
            exact hc ⟨this.symm, by rw [hlen]; exact hejL⟩
    obtain ⟨f, vis', hw, hl', hv'⟩ := ih (j + 1) (by omega) (by omega) (vis.set ej true)
      (by rw [List.length_set]; exact hlen) hP'
    refine ⟨f + 1 + p, vis', ?_, hl', hv'⟩
    have step1 := walk_true ops m pn (f + 1 + p) 0 false
      (vis, vecGet C j 0, (C.take (j + 1)).map (fun n => vecGet m.m_nodes n missingPoint)) hinJ
    have step2 := walk_scan ops m pn (f + 1)
      (vis, vecGet C j 0, (C.take (j + 1)).map (fun n => vecGet m.m_nodes n missingPoint))
      p (by rw [← hdeg]; exact Nat.le_of_lt hp) hskip p 0 (Nat.zero_add _)
    have step3 := walk_mark ops m pn f p
      (vis, vecGet C j 0, (C.take (j + 1)).map (fun n => vecGet m.m_nodes n missingPoint))
      (by rw [← hdeg]; exact hp) hmark
    rw [step1, step2, step3]
    dsimp only
    rw [hpe, hnext, hpoly]
    exact hw

end meshkernel

namespace meshkernel

/-! ## The boundary polygon of a mesh whose boundary is one ring -/

/-- The result of a walk does not depend on the bound on its passes. -/
theorem walk_unique (ops : Operations) (m : Mesh) (pn : List Point) (f f' e : Nat) (b : Bool)
    (s r r' : List Bool × Nat × List Point)
    (h : m.WalkBoundaryFromNode ops pn f e b s = some r)
    (h' : m.WalkBoundaryFromNode ops pn f' e b s = some r') : r = r' := by
  have h1 := walk_mono_le ops m pn f (max f f') (le_max_left _ _) e b s r h
  have h2 := walk_mono_le ops m pn f' (max f f') (le_max_right _ _) e b s r' h'
  rw [h1] at h2
  exact Option.some.inj h2

/-- The edge loop of `MeshBoundaryToPolygon` on a mesh whose boundary edges are the edges on a
closed ring `C` of `k ≥ 3` edges, whose node lists hold every edge, whose first boundary edge
`e0` is stored from the first to the second node of the ring, and whose ring nodes lie in the
filter polygon: the polygon is the points of the ring, closed, followed by one sentinel. -/
theorem ring_polygon (ops : Operations) (m : Mesh) (pn : List Point) (C : List Nat) (k : Nat)
    (hk : C.length = k + 1) (hk3 : 3 ≤ k)
    (hclosed : vecGet C k 0 = vecGet C 0 0)
    (hinj : ∀ i j, i < k → j < k → vecGet C i 0 = vecGet C j 0 → i = j)
    (hok : m.NodeEdgesOk)
    (hnodes : ∀ i, i < k → vecGet C i 0 < m.m_nodes.length)
    (hlist : ∀ n, n < m.m_nodes.length → m.listsAllEdgesAt n)
    (hB : ∀ e, m.IsEdgeOnBoundary e = true ↔ (e < m.m_edges.length ∧ m.onRing C e))
    (hedge : ∀ i, i < k →
      ∃ e, e < m.m_edges.length ∧ m.joins e (vecGet C i 0) (vecGet C (i + 1) 0))
    (hin : ∀ i, i < k →
      ops.IsPointInPolygonNodes (vecGet m.m_nodes (vecGet C i 0) missingPoint) pn m.m_projection
        = true)
    (e0 : Nat) (he0 : e0 < m.m_edges.length)
    (hstart : vecGet m.m_edges e0 missingEdge = (vecGet C 0 0, vecGet C 1 0))
    (hfirst : ∀ e, e < e0 → m.IsEdgeOnBoundary e = false)
    (fuel : Nat) (hfuel : 17 * m.m_edges.length + 18 ≤ fuel) :
    ∃ vis, (List.range m.m_edges.length).foldl (meshBoundaryStep ops m pn fuel)
        (some (List.replicate m.m_edges.length false, [])) =
      some (vis, C.map (fun n => vecGet m.m_nodes n missingPoint) ++ [missingPoint]) := by
  have hdeg := administered_degree m hok
  have hb : ∀ i, m.IsEdgeOnBoundary i = true → i < m.m_edges.length := fun i hi => ((hB i).1 hi).1
  have hCk : C.length - 1 = k := by omega
  have hn0 : vecGet C 0 0 < m.m_nodes.length := hnodes 0 (by omega)
  have hne01 : vecGet C 0 0 ≠ vecGet C 1 0 := by
    intro h
    have := hinj 0 1 (by omega) (by omega) h
    omega
  have hj0 : m.joins e0 (vecGet C 0 0) (vecGet C (0 + 1) 0) := by
    left
    unfold Mesh.edge
    rw [hstart]
    exact ⟨rfl, rfl⟩
  have hbd0 : m.IsEdgeOnBoundary e0 = true := (hB e0).2 ⟨he0, 0, by omega, hj0⟩
  have key := foldl_range_invariant
    (fun j (s : Option (List Bool × List Point)) =>
      (j ≤ e0 → s = some (List.replicate m.m_edges.length false, [])) ∧
      (e0 < j → ∃ vis, s = some (vis,
          C.map (fun n => vecGet m.m_nodes n missingPoint) ++ [missingPoint]) ∧
        ∀ e, m.IsEdgeOnBoundary e = true → vecGet vis e false = true))
    (meshBoundaryStep ops m pn fuel) (some (List.replicate m.m_edges.length false, []))
    m.m_edges.length ⟨fun _ => rfl, fun h => absurd h (Nat.not_lt_zero _)⟩ ?_
  · obtain ⟨vis, hvis, _⟩ := key.2 he0
    exact ⟨vis, hvis⟩
  · rintro j s hj ⟨hbefore, hafter⟩
    by_cases hje : j < e0
    · refine ⟨fun _ => ?_, fun h => absurd h (by omega)⟩
      rw [hbefore (by omega)]
      apply meshBoundaryStep_skip
      left
      rw [hfirst j hje]
      simp
    by_cases hje' : j = e0
    · subst hje'
      refine ⟨fun h => absurd h (by omega), fun _ => ?_⟩
      rw [hbefore (le_refl _)]
      -- the polyline that starts at the first boundary edge
      have hv0 : vecGet (List.replicate m.m_edges.length false) j false = false := by
        rw [vecGet_replicate]
        split <;> rfl
      have h1 : ¬ (vecGet (List.replicate m.m_edges.length false) j false ||
          !m.IsEdgeOnBoundary j) = true := by
        rw [hv0, hbd0]
        decide
      have hin0 := hin 0 (by omega)
      have h2 : ¬ (!ops.IsPointInPolygonNodes (vecGet m.m_nodes
            (vecGet m.m_edges j missingEdge).1 missingPoint) pn m.m_projection &&
          !ops.IsPointInPolygonNodes (vecGet m.m_nodes (vecGet m.m_edges j missingEdge).2
            missingPoint) pn m.m_projection) = true := by
        rw [hstart]
        dsimp only
        rw [hin0]
        simp
      have hlen1 : ((List.replicate m.m_edges.length false).set j true).length =
          m.m_edges.length := by
        rw [List.length_set, List.length_replicate]
      have hP1 : ∀ e, vecGet ((List.replicate m.m_edges.length false).set j true) e false = true ↔
          (e < m.m_edges.length ∧
            ∃ i, i < 1 ∧ m.joins e (vecGet C i 0) (vecGet C (i + 1) 0)) := by
        intro e
        rw [vecGet_set]
        constructor
        · intro h
          by_cases hc : j = e ∧ j < (List.replicate m.m_edges.length false).length
          · rw [← hc.1]
            exact ⟨he0, 0, by omega, hj0⟩
          · rw [if_neg hc, vecGet_replicate] at h
            split at h <;> exact absurd h (by decide)
        · rintro ⟨h1, i, h2, h3⟩
          have hi0 : i = 0 := by omega
          rw [hi0] at h3
          have := joins_unique m hok _ _ hn0 (hlist _ hn0) hne01 e j h1 he0 h3 hj0
          have hc : j = e ∧ j < (List.replicate m.m_edges.length false).length :=
            ⟨this.symm, by rw [List.length_replicate]; exact he0⟩
          rw [if_pos hc]
      obtain ⟨f, vis', hw, hl', hv'⟩ := ring_walk ops m pn C k hk hk3 hclosed hinj hok hnodes
        hlist hB hedge hin (k - 1) 1 (by omega) (le_refl _) _ hlen1 hP1
      have hpoly2 : (if !([] : List Point).isEmpty then ([] : List Point) ++ [missingPoint]
            else []) ++
          [vecGet m.m_nodes (vecGet m.m_edges j missingEdge).1 missingPoint,
            vecGet m.m_nodes (vecGet m.m_edges j missingEdge).2 missingPoint] =
          (C.take (1 + 1)).map (fun n => vecGet m.m_nodes n missingPoint) := by
        rw [hstart, take_succ_vecGet C 1 (by omega), take_succ_vecGet C 0 (by omega)]
        rfl
      have hcount : 17 * ((List.replicate m.m_edges.length false).set j true).count false +
          (17 - 0) + 1 ≤ fuel := by
        have := List.count_le_length false ((List.replicate m.m_edges.length false).set j true)
        rw [hlen1] at this
        omega
      obtain ⟨r, hr, _⟩ := walk_spec ops m pn m.m_edges.length hdeg hb fuel 0 false
        ((List.replicate m.m_edges.length false).set j true) (vecGet C 1 0)
        ((C.take (1 + 1)).map (fun n => vecGet m.m_nodes n missingPoint)) hlen1 hcount
      have hreq := walk_unique ops m pn fuel f 0 false _ _ _ hr hw
      rw [hreq] at hr
      have hfirstW : m.WalkBoundaryFromNode ops pn fuel 0 false
          ((List.replicate m.m_edges.length false).set j true,
            (vecGet m.m_edges j missingEdge).2,
            (if !([] : List Point).isEmpty then ([] : List Point) ++ [missingPoint] else []) ++
              [vecGet m.m_nodes (vecGet m.m_edges j missingEdge).1 missingPoint,
                vecGet m.m_nodes (vecGet m.m_edges j missingEdge).2 missingPoint]) =
          some (vis', vecGet C k 0, C.map (fun n => vecGet m.m_nodes n missingPoint)) := by
        rw [hpoly2, hstart]
        exact hr
      have hsecondW : (if (vis', vecGet C k 0,
            C.map (fun n => vecGet m.m_nodes n missingPoint)).2.1 ≠
              (vecGet m.m_edges j missingEdge).1 then
          m.WalkBoundaryFromNode ops pn fuel 0 false
            ((vis', vecGet C k 0, C.map (fun n => vecGet m.m_nodes n missingPoint)).1,
              (vecGet m.m_edges j missingEdge).1,
              (vis', vecGet C k 0, C.map (fun n => vecGet m.m_nodes n missingPoint)).2.2)
        else some (vis', vecGet C k 0, C.map (fun n => vecGet m.m_nodes n missingPoint))) =
          some (vis', vecGet C k 0, C.map (fun n => vecGet m.m_nodes n missingPoint)) := by
        have : ¬ (vis', vecGet C k 0,
            C.map (fun n => vecGet m.m_nodes n missingPoint)).2.1 ≠
              (vecGet m.m_edges j missingEdge).1 := by
          rw [hstart]
          intro h
          exact h hclosed
        rw [if_neg this]
      have hstep := meshBoundaryStep_polyline ops m pn fuel
        (List.replicate m.m_edges.length false) [] j _ _ h1 h2 hfirstW hsecondW
      refine ⟨vis', ?_, ?_⟩
      · rw [hstep]
        have hnot : ¬ ((vis', vecGet C k 0,
            C.map (fun n => vecGet m.m_nodes n missingPoint)).2.2.length >
              (vis', vecGet C k 0,
                C.map (fun n => vecGet m.m_nodes n missingPoint)).2.2.length) :=
          Nat.lt_irrefl _
        rw [if_neg hnot]
      · intro e he
        exact (hv' e).2 ((hB e).1 he)
    · have hgt : e0 < j := by omega
      obtain ⟨vis, hs, hall⟩ := hafter hgt
      refine ⟨fun h => absurd h (by omega), fun _ => ⟨vis, ?_, hall⟩⟩
      rw [hs]
      apply meshBoundaryStep_skip
      left
      cases hbj : m.IsEdgeOnBoundary j
      · simp
      · rw [hall j hbj]
        rfl

end meshkernel

namespace meshkernel

/-! ## `NodeAdministration` records every edge when no node is full -/

/-- One pass of the edge loop of `NodeAdministration` for a valid edge between two nodes that
are not full and not yet joined: the edge is appended to the lists of both nodes. -/
theorem NodeAdministrationStep_adds (m : Mesh) (k : Nat)
    (hv : edgeIsMissing (m.edge k) = false)
    (hca : vecGet m.m_nodesNumEdges (m.edge k).1 0 < maximumNumberOfEdgesPerNode)
    (hcb : vecGet m.m_nodesNumEdges (m.edge k).2 0 < maximumNumberOfEdgesPerNode)
    (h1 : m.alreadyAddedEdge (m.edge k).1 (m.edge k).2 = false)
    (h2 : (m.addEdgeToNode (m.edge k).1 k).alreadyAddedEdge (m.edge k).2 (m.edge k).1 = false) :
    NodeAdministrationStep m k =
      (m.addEdgeToNode (m.edge k).1 k).addEdgeToNode (m.edge k).2 k := by
  unfold NodeAdministrationStep
  simp only []
  change (if (m.edge k).1 = sizetMissingValue ∨ (m.edge k).2 = sizetMissingValue then m
    else if vecGet m.m_nodesNumEdges (m.edge k).1 0 ≥ maximumNumberOfEdgesPerNode ∨
        vecGet m.m_nodesNumEdges (m.edge k).2 0 ≥ maximumNumberOfEdgesPerNode then m
    else
      if !((if !(m.alreadyAddedEdge (m.edge k).1 (m.edge k).2) then
          m.addEdgeToNode (m.edge k).1 k else m).alreadyAddedEdge (m.edge k).2 (m.edge k).1) then
        (if !(m.alreadyAddedEdge (m.edge k).1 (m.edge k).2) then
          m.addEdgeToNode (m.edge k).1 k else m).addEdgeToNode (m.edge k).2 k
      else (if !(m.alreadyAddedEdge (m.edge k).1 (m.edge k).2) then
          m.addEdgeToNode (m.edge k).1 k else m)) = _
  have hm : ¬ ((m.edge k).1 = sizetMissingValue ∨ (m.edge k).2 = sizetMissingValue) := by
    unfold edgeIsMissing at hv
    simp only [Bool.or_eq_false_iff, beq_eq_false_iff_ne] at hv
    rintro (h | h)
    · exact hv.1 h
    · exact hv.2 h
  have hcap : ¬ (vecGet m.m_nodesNumEdges (m.edge k).1 0 ≥ maximumNumberOfEdgesPerNode ∨
      vecGet m.m_nodesNumEdges (m.edge k).2 0 ≥ maximumNumberOfEdgesPerNode) := by
    rintro (h | h) <;> omega
  rw [if_neg hm, if_neg hcap, h1]
  have e1 : (if (!false) = true then m.addEdgeToNode (m.edge k).1 k else m) =
      m.addEdgeToNode (m.edge k).1 k := rfl
  rw [e1, h2]
  rfl

/-- The valid edges below `k` that end at node `n` number fewer than those below a larger bound
that holds one more such edge. -/
theorem countP_range_lt (p : Nat → Bool) (k L : Nat) (hk : k < L) (hp : p k = true) :
    (List.range k).countP p + 1 ≤ (List.range L).countP p := by
  have hmono : ∀ d, (List.range (k + 1)).countP p ≤ (List.range (k + 1 + d)).countP p := by
    intro d
    induction d with
    | zero => exact le_refl _
    | succ d ih =>
      have h := countP_range_succ p (k + 1 + d)
      have e : k + 1 + (d + 1) = k + 1 + d + 1 := rfl
      rw [e, h]
      exact Nat.le_add_right_of_le ih
  have := hmono (L - (k + 1))
  have hL : k + 1 + (L - (k + 1)) = L := by omega
  rw [hL, countP_range_succ, hp, if_pos rfl] at this
  exact this

/-- A list without repetition, of numbers below `k` that satisfy `p`, is no longer than the
count of such numbers. -/
theorem length_le_countP (l : List Nat) (p : Nat → Bool) (k : Nat) (hnd : l.Nodup)
    (hmem : ∀ e ∈ l, e < k ∧ p e = true) : l.length ≤ (List.range k).countP p := by
  rw [List.countP_eq_length_filter]
  apply List.Subperm.length_le
  apply List.subperm_of_subset hnd
  intro e he
  rw [List.mem_filter, List.mem_range]
  exact hmem e he

/-- The edge loop of `NodeAdministration` on a mesh of valid edges without self-loops and
without two edges between the same nodes, in which no node has more than
`maximumNumberOfEdgesPerNode` edges: after the edges below `N`, each of them is recorded at both
of its nodes. -/
theorem nodeAdministration_complete (m : Mesh) (hr : m.EdgesInRange)
    (hvalid : ∀ e, e < m.m_edges.length → edgeIsMissing (m.edge e) = false)
    (hloop : ∀ e, e < m.m_edges.length → (m.edge e).1 ≠ (m.edge e).2)
    (hdup : ∀ e e', e < m.m_edges.length → e' < e →
      ¬ m.joins e' (m.edge e).1 (m.edge e).2)
    (hdegree : ∀ n, (List.range m.m_edges.length).countP
      (fun e => decide ((m.edge e).1 = n ∨ (m.edge e).2 = n)) ≤ maximumNumberOfEdgesPerNode)
    (N : Nat) (hN : N ≤ m.m_edges.length) :
    ∀ e, e < N →
      e ∈ ((List.range N).foldl NodeAdministrationStep m.resetNodeTables).recorded (m.edge e).1 ∧
      e ∈ ((List.range N).foldl NodeAdministrationStep m.resetNodeTables).recorded (m.edge e).2 := by
  induction N with
  | zero => intro e he; exact absurd he (Nat.not_lt_zero e)
  | succ N ih =>
    have ihN := ih (by omega)
    obtain ⟨hinv, _, hsame⟩ := nodeAdministration_loop m hr N
    rw [List.range_succ, List.foldl_append]
    simp only [List.foldl_cons, List.foldl_nil]
    generalize (List.range N).foldl NodeAdministrationStep m.resetNodeTables = s
      at ihN hinv hsame
    obtain ⟨hnodes, hedges, _⟩ := sameButNodeTables_fields m s hsame
    have hedge : ∀ e, s.edge e = m.edge e := by
      intro e; unfold Mesh.edge; rw [hedges]
    have hNL : N < m.m_edges.length := by omega
    have hv : edgeIsMissing (s.edge N) = false := by rw [hedge]; exact hvalid N hNL
    have hrs : s.EdgesInRange := by
      unfold Mesh.EdgesInRange
      rw [hnodes, hedges]; exact hr
    obtain ⟨hain, hbin⟩ := edge_in_range s hrs N hv
    have hab : (s.edge N).1 ≠ (s.edge N).2 := by rw [hedge]; exact hloop N hNL
    -- the number of edges recorded at an endpoint of the edge `N`
    have hcount : ∀ n, n < s.m_nodes.length → ((s.edge N).1 = n ∨ (s.edge N).2 = n) →
        vecGet s.m_nodesNumEdges n 0 < maximumNumberOfEdgesPerNode := by
      intro n hn hinc
      have hlen : (s.recorded n).length = vecGet s.m_nodesNumEdges n 0 := by
        unfold Mesh.recorded
        rw [List.length_take, hinv.slots n hn]
        exact Nat.min_eq_left (hinv.cap n hn)
      have hok := hinv.ok n hn
      have h1 : (s.recorded n).length ≤ (List.range N).countP
          (fun e => decide ((m.edge e).1 = n ∨ (m.edge e).2 = n)) := by
        apply length_le_countP _ _ _ (List.Nodup.of_map _ hok.2)
        intro e he
        obtain ⟨h1, _, h3⟩ := hok.1 e he
        rw [hedge] at h3
        exact ⟨h1, decide_eq_true h3⟩
      have h2 := countP_range_lt (fun e => decide ((m.edge e).1 = n ∨ (m.edge e).2 = n)) N
        m.m_edges.length hNL (by
          show decide ((m.edge N).1 = n ∨ (m.edge N).2 = n) = true
          rw [← hedge]
          exact decide_eq_true hinc)
      have h3 := hdegree n
      omega
    have hca := hcount _ hain (Or.inl rfl)
    have hcb := hcount _ hbin (Or.inr rfl)
    -- no recorded edge joins the endpoints of the edge `N`
    have hnew : ∀ n x, n < s.m_nodes.length →
        ((s.edge N).1 = n ∧ (s.edge N).2 = x) ∨ ((s.edge N).1 = x ∧ (s.edge N).2 = n) →
        ¬ ∃ e ∈ s.recorded n, (s.edge e).1 = x ∨ (s.edge e).2 = x := by
      rintro n x hn hnx ⟨e, he, hex⟩
      obtain ⟨h1, _, h3⟩ := (hinv.ok n hn).1 e he
      have hnx' : n ≠ x := by
        rcases hnx with h | h
        · rw [← h.1, ← h.2]; exact hab
        · rw [← h.1, ← h.2]; exact hab.symm
      apply hdup N e hNL h1
      simp only [hedge] at hnx h3 hex
      unfold Mesh.joins
      rcases hnx with h | h
      · rw [h.1, h.2]
        rcases h3 with h3 | h3 <;> rcases hex with hex | hex
        · exact absurd (h3.symm.trans hex) hnx'
        · exact Or.inl ⟨h3, hex⟩
        · exact Or.inr ⟨hex, h3⟩
        · exact absurd (h3.symm.trans hex) hnx'
      · rw [h.1, h.2]
        rcases h3 with h3 | h3 <;> rcases hex with hex | hex
        · exact absurd (h3.symm.trans hex) hnx'
        · exact Or.inr ⟨h3, hex⟩
        · exact Or.inl ⟨hex, h3⟩
        · exact absurd (h3.symm.trans hex) hnx'
    have hslots := hinv.slots
    have hle : ∀ n, n < s.m_nodes.length →
        vecGet s.m_nodesNumEdges n 0 ≤ (vecGet s.m_nodesEdges n []).length := by
      intro n hn
      rw [hinv.slots n hn]; exact hinv.cap n hn
    have h1 : s.alreadyAddedEdge (s.edge N).1 (s.edge N).2 = false := by
      cases h : s.alreadyAddedEdge (s.edge N).1 (s.edge N).2
      · rfl
      · exact absurd ((alreadyAddedEdge_true_iff s _ _ (hle _ hain)).1 h)
          (hnew _ _ hain (Or.inl ⟨rfl, rfl⟩))
    have hinv1 : (s.addEdgeToNode (s.edge N).1 N).NodeTablesInv (N + 1) :=
      addEdgeToNode_inv s N _ _ (NodeTablesInv_mono s (Nat.le_succ N) hinv) hain hv
        (Or.inl rfl) rfl (by
          unfold OtherNodeOfEdge
          rw [if_pos rfl]
          exact h1) hca
    have hnodes1 : (s.addEdgeToNode (s.edge N).1 N).m_nodes = s.m_nodes := rfl
    have hrec1b : (s.addEdgeToNode (s.edge N).1 N).recorded (s.edge N).2 =
        s.recorded (s.edge N).2 := addEdgeToNode_recorded_other s _ _ N hab
    have h2 : (s.addEdgeToNode (s.edge N).1 N).alreadyAddedEdge (s.edge N).2 (s.edge N).1
        = false := by
      cases h : (s.addEdgeToNode (s.edge N).1 N).alreadyAddedEdge (s.edge N).2 (s.edge N).1
      · rfl
      · exfalso
        have hle1 : vecGet (s.addEdgeToNode (s.edge N).1 N).m_nodesNumEdges (s.edge N).2 0 ≤
            (vecGet (s.addEdgeToNode (s.edge N).1 N).m_nodesEdges (s.edge N).2 []).length := by
          rw [hinv1.slots _ hbin]; exact hinv1.cap _ hbin
        obtain ⟨e, he, hex⟩ := (alreadyAddedEdge_true_iff _ _ _ hle1).1 h
        rw [hrec1b] at he
        exact hnew _ _ hbin (Or.inr ⟨rfl, rfl⟩) ⟨e, he, hex⟩
    rw [NodeAdministrationStep_adds s N hv hca hcb h1 h2]
    have hrecA : ((s.addEdgeToNode (s.edge N).1 N).addEdgeToNode (s.edge N).2 N).recorded
        (s.edge N).1 = s.recorded (s.edge N).1 ++ [N] := by
      rw [addEdgeToNode_recorded_other _ _ _ N hab.symm]
      exact addEdgeToNode_recorded_self s _ N (by rw [hinv.len_edges]; exact hain)
        (by rw [hinv.len_num]; exact hain) (by rw [hinv.slots _ hain]; exact hca)
    have hrecB : ((s.addEdgeToNode (s.edge N).1 N).addEdgeToNode (s.edge N).2 N).recorded
        (s.edge N).2 = s.recorded (s.edge N).2 ++ [N] := by
      rw [addEdgeToNode_recorded_self _ _ N (by rw [hinv1.len_edges]; exact hbin)
        (by rw [hinv1.len_num]; exact hbin)
        (by rw [hinv1.slots _ hbin, addEdgeToNode_numEdges s _ _ N hab]; exact hcb), hrec1b]
    have hrecO : ∀ n, n ≠ (s.edge N).1 → n ≠ (s.edge N).2 →
        ((s.addEdgeToNode (s.edge N).1 N).addEdgeToNode (s.edge N).2 N).recorded n =
          s.recorded n := by
      intro n hn1 hn2
      rw [addEdgeToNode_recorded_other _ _ _ N (Ne.symm hn2),
        addEdgeToNode_recorded_other _ _ _ N (Ne.symm hn1)]
    have hgrow : ∀ n e, e ∈ s.recorded n →
        e ∈ ((s.addEdgeToNode (s.edge N).1 N).addEdgeToNode (s.edge N).2 N).recorded n := by
      intro n e he
      by_cases hn1 : n = (s.edge N).1
      · rw [hn1, hrecA]; rw [hn1] at he; exact List.mem_append_left _ he
      by_cases hn2 : n = (s.edge N).2
      · rw [hn2, hrecB]; rw [hn2] at he; exact List.mem_append_left _ he
      · rw [hrecO n hn1 hn2]; exact he
    intro e he
    by_cases heN : e < N
    · exact ⟨hgrow _ _ (ihN e heN).1, hgrow _ _ (ihN e heN).2⟩
    · have : e = N := by omega
      subst this
      rw [← hedge e]
      constructor
      · rw [hrecA]; exact List.mem_append_right _ (List.mem_singleton_self _)
      · rw [hrecB]; exact List.mem_append_right _ (List.mem_singleton_self _)

/-- `NodeAdministration` on a mesh of valid edges without self-loops and without two edges
between the same nodes, in which no node has more than `maximumNumberOfEdgesPerNode` edges:
the list of every node holds every edge that ends at the node. -/
theorem NodeAdministration_complete (m : Mesh) (hr : m.EdgesInRange)
    (hN : m.m_numNodes = m.m_nodes.length) (hE : m.m_numEdges = m.m_edges.length)
    (hvalid : ∀ e, e < m.m_edges.length → edgeIsMissing (m.edge e) = false)
    (hloop : ∀ e, e < m.m_edges.length → (m.edge e).1 ≠ (m.edge e).2)
    (hdup : ∀ e e', e < m.m_edges.length → e' < e →
      ¬ m.joins e' (m.edge e).1 (m.edge e).2)
    (hdegree : ∀ n, (List.range m.m_edges.length).countP
      (fun e => decide ((m.edge e).1 = n ∨ (m.edge e).2 = n)) ≤ maximumNumberOfEdgesPerNode) :
    ∀ n, n < m.m_nodes.length → m.resetNodeTables.NodeAdministration.listsAllEdgesAt n := by
  have hcomp := nodeAdministration_complete m hr hvalid hloop hdup hdegree m.m_edges.length
    (le_refl _)
  unfold Mesh.NodeAdministration
  simp only [Mesh.GetNumEdges, Mesh.GetNumNodes]
  have hE0 : m.resetNodeTables.m_numEdges = m.m_edges.length := hE
  rw [hE0]
  obtain ⟨hinv, _, hsame⟩ := nodeAdministration_loop m hr m.m_edges.length
  generalize (List.range m.m_edges.length).foldl NodeAdministrationStep m.resetNodeTables = s
    at hinv hsame hcomp
  obtain ⟨hnodes, hedges, hnumN, _, _⟩ := sameButNodeTables_fields m s hsame
  have hNs : s.m_numNodes = s.m_nodes.length := by rw [hnumN, hnodes]; exact hN
  rw [hNs]
  obtain ⟨tsame, _, _, tget⟩ := resize_loop s _ hinv s.m_nodes.length (Nat.le_refl _)
  generalize (List.range s.m_nodes.length).foldl resizeNodeEdgesStep s = t at tsame tget
  obtain ⟨_, tedges, _⟩ := sameButNodeTables_fields s t tsame
  intro n hn e he hinc
  have hedge : t.edge e = m.edge e := by
    unfold Mesh.edge; rw [tedges, hedges]
  rw [tedges, hedges] at he
  rw [hedge] at hinc
  rw [tget n, if_pos (by rw [hnodes]; exact hn)]
  rcases hinc with h | h
  · rw [← h]; exact (hcomp e he).1
  · rw [← h]; exact (hcomp e he).2

end meshkernel

namespace meshkernel

/-! ## The node lists that `Administrate` leaves -/

/-- The part of `Administrate` after stage 1: the list of every node is a rearrangement of the
list that `NodeAdministration` has made. -/
theorem administrate_tail_lists (ops : Operations) (m1 : Mesh)
    (hvalid : ∀ p ∈ m1.m_nodes, p.IsValid = true)
    (hedges : ∀ e ∈ m1.m_edges, edgeIsMissing e = false ∧
      e.1 < m1.m_nodes.length ∧ e.2 < m1.m_nodes.length)
    (hN : m1.m_numNodes = m1.m_nodes.length) (hE : m1.m_numEdges = m1.m_edges.length) :
    ∃ m2, (m1.resetNodeTables.NodeAdministration).sortAllNodes ops = .ok m2 ∧
      ∃ m3, m2.resetFaceTables.FindFaces ops = .ok m3 ∧
        ∀ n, (vecGet ((m3.ComputeFaceCircumcentersMassCentersAndAreas ops true).ClassifyNodes
          ops).m_nodesEdges n []).Perm
            (vecGet (m1.resetNodeTables.NodeAdministration).m_nodesEdges n []) := by
  have hr1 : m1.EdgesInRange := fun e he => ⟨fun _ => (hedges e he).2.1, fun _ => (hedges e he).2.2⟩
  obtain ⟨hokA, hsameA⟩ := NodeAdministration_ok m1 hr1 hN hE
  obtain ⟨a1, a2, a3, a4, _⟩ := sameButNodeTables_fields m1 _ hsameA
  generalize m1.resetNodeTables.NodeAdministration = mA at hokA hsameA a1 a2 a3 a4
  unfold Mesh.sortAllNodes
  have hNA : mA.GetNumNodes = mA.m_nodes.length := hokA.numNodes
  rw [hNA]
  obtain ⟨m2, hsort, hok2, hsame2, hperm⟩ := sortNodes_spec ops mA hokA
    (by rw [a1]; exact hvalid) mA.m_nodes.length (Nat.le_refl _)
  have b1 : m2.m_nodes = m1.m_nodes := by rw [hsame2]; exact a1
  have b2 : m2.m_edges = m1.m_edges := by rw [hsame2]; exact a2
  have hr2 : m2.EdgesInRange := by
    unfold Mesh.EdgesInRange; rw [b1, b2]; exact hr1
  refine ⟨m2, hsort, ?_⟩
  have hokR : m2.resetFaceTables.NodeEdgesOk :=
    NodeEdgesOk_congr m2 _ hok2 rfl rfl rfl rfl rfl rfl
  have hrR : m2.resetFaceTables.EdgesInRange := hr2
  obtain ⟨mF, hsameF, _, hfind⟩ := FindFaces_inv ops m2.resetFaceTables hokR hrR
    (resetFaceTables_inv ops m2)
  obtain ⟨_, _, _, _, _, f6, _⟩ := sameButFaceTables_fields _ mF hsameF
  refine ⟨_, hfind, ?_⟩
  generalize hm3 : ({ mF with
    m_numFacesNodes :=
      (List.range mF.m_numFaces).map (fun f => (vecGet mF.m_facesNodes f []).length) } : Mesh)
    = m3
  have g : m3.sameButGeometry
      ((m3.ComputeFaceCircumcentersMassCentersAndAreas ops true).ClassifyNodes ops) :=
    sameButGeometry_trans _ _ _ (ComputeFaceCircumcentersMassCentersAndAreas_same ops m3 true)
      (ClassifyNodes_same ops _)
  have g7 := (sameButGeometry_fields _ _ g).2.2.2.2.2.2.1
  have c7 : m3.m_nodesEdges = m2.m_nodesEdges := by
    rw [← hm3]
    exact f6
  intro n
  rw [g7, c7]
  exact hperm n

/-- `Administrate` with faces on a mesh in which stage 1 has nothing to remove, with valid
nodes, no self-loop, no two edges between the same nodes and no node with more than
`maximumNumberOfEdgesPerNode` edges: the nodes and the edges stay as they are, the mesh is
administered, and the list of every node holds every edge that ends at the node. -/
theorem Administrate_faces_complete (ops : Operations) (m : Mesh)
    (hvalidN : ∀ p ∈ m.m_nodes, p.IsValid = true) (hclean : m.nothingToDelete = true)
    (hn : m.m_nodes.length ≤ sizetMissingValue)
    (hne : m.m_nodes.length ≠ 0) (hee : m.m_edges.length ≠ 0)
    (hloop : ∀ e, e < m.m_edges.length → (m.edge e).1 ≠ (m.edge e).2)
    (hdup : ∀ e e', e < m.m_edges.length → e' < e →
      ¬ m.joins e' (m.edge e).1 (m.edge e).2)
    (hdegree : ∀ n, (List.range m.m_edges.length).countP
      (fun e => decide ((m.edge e).1 = n ∨ (m.edge e).2 = n)) ≤ maximumNumberOfEdgesPerNode) :
    ∃ m', m.Administrate ops AdministrationOptions.AdministrateMeshEdgesAndFaces = .ok m' ∧
      m'.m_nodes = m.m_nodes ∧ m'.m_edges = m.m_edges ∧ m'.AdministeredFaces ops ∧
      ∀ n, n < m'.m_nodes.length → m'.listsAllEdgesAt n := by
  have hstage := DeleteInvalidNodesAndEdges_nothingToDelete m hvalidN hclean hn
  obtain ⟨r1, r2, r3, r4⟩ := refreshTrees_fields ops m.DeleteInvalidNodesAndEdges
  obtain ⟨hedgesM, _⟩ := nothingToDelete_spec m hclean
  unfold Mesh.Administrate
  simp only []
  generalize (m.DeleteInvalidNodesAndEdges).refreshTrees ops = m1 at r1 r2 r3 r4
  have n1 : m1.m_nodes = m.m_nodes := by rw [r1, hstage]
  have e1 : m1.m_edges = m.m_edges := by rw [r2, hstage]
  have N1 : m1.m_numNodes = m1.m_nodes.length := by rw [r3, n1, hstage]
  have E1 : m1.m_numEdges = m1.m_edges.length := by rw [r4, e1, hstage]
  have hempty : ¬ (m1.m_numNodes = 0 ∨ m1.m_numEdges = 0) := by
    rw [N1, E1, n1, e1]
    rintro (h | h)
    · exact hne h
    · exact hee h
  rw [if_neg hempty]
  have hv1 : ∀ p ∈ m1.m_nodes, p.IsValid = true := by rw [n1]; exact hvalidN
  have he1 : ∀ e ∈ m1.m_edges, edgeIsMissing e = false ∧
      e.1 < m1.m_nodes.length ∧ e.2 < m1.m_nodes.length := by rw [n1, e1]; exact hedgesM
  obtain ⟨m2, h2, _, _, _, m3, h3, hadm, n4, e4⟩ := administrate_tail ops m1 hv1 he1 N1 E1
  obtain ⟨m2', h2', m3', h3', hperm⟩ := administrate_tail_lists ops m1 hv1 he1 N1 E1
  rw [h2] at h2'
  have hm2 : m2 = m2' := by injection h2'
  subst hm2
  rw [h3] at h3'
  have hm3 : m3 = m3' := by injection h3'
  subst hm3
  rw [h2]
  simp only []
  rw [h3]
  refine ⟨_, rfl, n4.trans n1, e4.trans e1, hadm, ?_⟩
  have hr1 : m1.EdgesInRange := fun e he => ⟨fun _ => (he1 e he).2.1, fun _ => (he1 e he).2.2⟩
  have hedgeEq : ∀ e, m1.edge e = m.edge e := by
    intro e; unfold Mesh.edge; rw [e1]
  have hcomp := NodeAdministration_complete m1 hr1 N1 E1
    (by
      intro e he
      rw [hedgeEq]
      rw [e1] at he
      exact (hedgesM _ (vecGet_mem _ _ _ he)).1)
    (by
      intro e he
      rw [hedgeEq]
      rw [e1] at he
      exact hloop e he)
    (by
      intro e e' he he'
      rw [e1] at he
      have := hdup e e' he he'
      unfold Mesh.joins at this ⊢
      rw [hedgeEq, hedgeEq]
      exact this)
    (by
      intro n
      rw [e1]
      simp only [hedgeEq]
      exact hdegree n)
  intro n hn e he hinc
  rw [n4] at hn
  have hedgeF : ((m3.ComputeFaceCircumcentersMassCentersAndAreas ops true).ClassifyNodes
      ops).edge e = m1.edge e := by
    unfold Mesh.edge; rw [e4]
  rw [hedgeF] at hinc
  rw [e4] at he
  have hA := hcomp n hn e (by
    have hsame := (NodeAdministration_ok m1 hr1 N1 E1).2
    rw [(sameButNodeTables_fields m1 _ hsame).2.1]
    exact he) (by
    have hsame := (NodeAdministration_ok m1 hr1 N1 E1).2
    have : m1.resetNodeTables.NodeAdministration.edge e = m1.edge e := by
      unfold Mesh.edge
      rw [(sameButNodeTables_fields m1 _ hsame).2.1]
    rw [this]
    exact hinc)
  exact (hperm n).mem_iff.mpr hA

end meshkernel

namespace meshkernel

/-! ## The graph of a grid all of whose points are valid -/

theorem vecGet_append_right {α : Type} (l₁ l₂ : List α) (i : Nat) (d : α)
    (h : l₁.length ≤ i) : vecGet (l₁ ++ l₂) i d = vecGet l₂ (i - l₁.length) d := by
  unfold vecGet
  rw [List.getD_append_right _ _ _ _ h]

theorem vecGet_map_default {α β : Type} (f : α → β) (l : List α) (i : Nat) (d : α) (d' : β)
    (hd : f d = d') : vecGet (l.map f) i d' = f (vecGet l i d) := by
  by_cases h : i < l.length
  · rw [vecGet_eq_getElem _ _ _ (by rw [List.length_map]; exact h), vecGet_eq_getElem _ _ _ h,
      List.getElem_map]
  · rw [vecGet_of_length_le _ _ _ (by rw [List.length_map]; omega),
      vecGet_of_length_le _ _ _ (by omega), hd]

theorem vecGet_of_mem {α : Type} (l : List α) (a d : α) (h : a ∈ l) :
    ∃ i, i < l.length ∧ vecGet l i d = a := by
  obtain ⟨i, hi, h2⟩ := List.getElem_of_mem h
  exact ⟨i, hi, by rw [vecGet_eq_getElem _ _ _ hi]; exact h2⟩

/-- The place `m * N + n` determines the position `(m, n)` when `n < N`. -/
theorem place_inj (N m n m' n' : Nat) (hn : n < N) (hn' : n' < N)
    (h : m * N + n = m' * N + n') : m = m' ∧ n = n' := by
  have hN : 0 < N := by omega
  have h1 : (m * N + n) / N = m := by
    rw [Nat.add_comm, Nat.add_mul_div_right _ _ hN, Nat.div_eq_of_lt hn, Nat.zero_add]
  have h2 : (m' * N + n') / N = m' := by
    rw [Nat.add_comm, Nat.add_mul_div_right _ _ hN, Nat.div_eq_of_lt hn', Nat.zero_add]
  have hm : m = m' := by rw [← h1, ← h2, h]
  subst hm
  exact ⟨rfl, by omega⟩

theorem place_lt (M N m n : Nat) (hm : m < M) (hn : n < N) : m * N + n < M * N := by
  have h1 : (m + 1) * N ≤ M * N := Nat.mul_le_mul_right N hm
  rw [Nat.succ_mul] at h1
  omega

theorem mem_gridEdgesFirst (M N : Nat) (e : Edge) :
    e ∈ gridEdgesFirst M N ↔
      ∃ m n, m + 1 < M ∧ n < N ∧ e = (m * N + n, (m + 1) * N + n) := by
  unfold gridEdgesFirst
  simp only [List.mem_flatMap, List.mem_map, List.mem_range]
  constructor
  · rintro ⟨m, hm, n, hn, rfl⟩
    exact ⟨m, n, by omega, hn, rfl⟩
  · rintro ⟨m, n, hm, hn, rfl⟩
    exact ⟨m, by omega, n, hn, rfl⟩

theorem mem_gridEdgesSecond (M N : Nat) (e : Edge) :
    e ∈ gridEdgesSecond M N ↔
      ∃ m n, m < M ∧ n + 1 < N ∧ e = (m * N + n, m * N + (n + 1)) := by
  unfold gridEdgesSecond
  simp only [List.mem_flatMap, List.mem_map, List.mem_range]
  constructor
  · rintro ⟨m, hm, n, hn, rfl⟩
    exact ⟨m, n, hm, by omega, rfl⟩
  · rintro ⟨m, n, hm, hn, rfl⟩
    exact ⟨m, hm, n, by omega, rfl⟩

theorem gridEdgesFirst_step (M N : Nat) (e : Edge) (h : e ∈ gridEdgesFirst M N) :
    e.2 = e.1 + N := by
  obtain ⟨m, n, _, _, rfl⟩ := (mem_gridEdgesFirst M N e).1 h
  show (m + 1) * N + n = m * N + n + N
  rw [Nat.succ_mul]
  omega

theorem gridEdgesSecond_step (M N : Nat) (e : Edge) (h : e ∈ gridEdgesSecond M N) :
    e.2 = e.1 + 1 := by
  obtain ⟨m, n, _, _, rfl⟩ := (mem_gridEdgesSecond M N e).1 h
  rfl

theorem gridEdges_step (M N : Nat) (e : Edge)
    (h : e ∈ gridEdgesFirst M N ++ gridEdgesSecond M N) : e.2 = e.1 + N ∨ e.2 = e.1 + 1 := by
  rcases List.mem_append.1 h with h | h
  · exact Or.inl (gridEdgesFirst_step M N e h)
  · exact Or.inr (gridEdgesSecond_step M N e h)

theorem gridEdges_lt (M N : Nat) (e : Edge)
    (h : e ∈ gridEdgesFirst M N ++ gridEdgesSecond M N) : e.1 < M * N ∧ e.2 < M * N := by
  rcases List.mem_append.1 h with h | h
  · obtain ⟨m, n, hm, hn, rfl⟩ := (mem_gridEdgesFirst M N e).1 h
    exact ⟨place_lt M N m n (by omega) hn, place_lt M N (m + 1) n hm hn⟩
  · obtain ⟨m, n, hm, hn, rfl⟩ := (mem_gridEdgesSecond M N e).1 h
    exact ⟨place_lt M N m n hm (by omega), place_lt M N m (n + 1) hm hn⟩

theorem gridEdgesFirst_nodup (M N : Nat) : (gridEdgesFirst M N).Nodup := by
  unfold gridEdgesFirst
  rw [List.nodup_flatMap]
  refine ⟨fun m _ => ?_, ?_⟩
  · refine List.Nodup.map_on ?_ (List.nodup_range N)
    intro a _ b _ h
    have h1 : m * N + a = m * N + b := congrArg Prod.fst h
    omega
  · refine List.Pairwise.imp_of_mem ?_ (List.nodup_range (M - 1))
    intro a b _ _ hab e h1 h2
    obtain ⟨n, hn, rfl⟩ := List.mem_map.1 h1
    obtain ⟨n', hn', h⟩ := List.mem_map.1 h2
    have h3 : b * N + n' = a * N + n := congrArg Prod.fst h
    exact hab (place_inj N a n b n' (List.mem_range.1 hn) (List.mem_range.1 hn') h3.symm).1

theorem gridEdgesSecond_nodup (M N : Nat) : (gridEdgesSecond M N).Nodup := by
  unfold gridEdgesSecond
  rw [List.nodup_flatMap]
  refine ⟨fun m _ => ?_, ?_⟩
  · refine List.Nodup.map_on ?_ (List.nodup_range (N - 1))
    intro a _ b _ h
    have h1 : m * N + a = m * N + b := congrArg Prod.fst h
    omega
  · refine List.Pairwise.imp_of_mem ?_ (List.nodup_range M)
    intro a b _ _ hab e h1 h2
    obtain ⟨n, hn, rfl⟩ := List.mem_map.1 h1
    obtain ⟨n', hn', h⟩ := List.mem_map.1 h2
    have h3 : b * N + n' = a * N + n := congrArg Prod.fst h
    have hn1 := List.mem_range.1 hn
    have hn2 := List.mem_range.1 hn'
    exact hab (place_inj N a n b n' (by omega) (by omega) h3.symm).1

theorem gridEdges_nodup (M N : Nat) (hN : 2 ≤ N) :
    (gridEdgesFirst M N ++ gridEdgesSecond M N).Nodup := by
  refine List.Nodup.append (gridEdgesFirst_nodup M N) (gridEdgesSecond_nodup M N) ?_
  intro e h1 h2
  have a := gridEdgesFirst_step M N e h1
  have b := gridEdgesSecond_step M N e h2
  omega

/-- In a list of distinct edges each of which leads from a place to the place `N` or `1` further,
at most four edges end at a place. -/
theorem degree_le_four (E : List Edge) (N : Nat) (hnd : E.Nodup)
    (hstep : ∀ e ∈ E, e.2 = e.1 + N ∨ e.2 = e.1 + 1) (n : Nat) :
    E.countP (fun e => decide (e.1 = n ∨ e.2 = n)) ≤ 4 := by
  rw [List.countP_eq_length_filter]
  have hsub : E.filter (fun e => decide (e.1 = n ∨ e.2 = n)) ⊆
      [(n, n + N), (n, n + 1), (n - N, n), (n - 1, n)] := by
    intro e he
    obtain ⟨hE, hp⟩ := List.mem_filter.1 he
    simp only [decide_eq_true_eq] at hp
    have hs := hstep _ hE
    obtain ⟨a, b⟩ := e
    simp only [List.mem_cons, Prod.mk.injEq, List.mem_singleton]
    simp only at hp hs
    have := List.not_mem_nil (a, b)
    omega
  exact (List.subperm_of_subset (hnd.filter _) hsub).length_le

/-! ### The outer ring -/

theorem outerRing_length (M N : Nat) (hM : 2 ≤ M) (hN : 2 ≤ N) :
    (outerRing M N).length = 2 * (M - 1) + 2 * (N - 1) + 1 := by
  unfold outerRing
  simp only [List.length_append, List.length_map, List.length_range]
  omega

/-- The positions of the outer ring, side by side. -/
theorem outerRing_get (M N i : Nat) (_hM : 2 ≤ M) (_hN : 2 ≤ N) :
    (i < M → vecGet (outerRing M N) i (0, 0) = (i, 0)) ∧
    (M ≤ i → i < M + (N - 1) → vecGet (outerRing M N) i (0, 0) = (M - 1, i - M + 1)) ∧
    (M + (N - 1) ≤ i → i < M + (N - 1) + (M - 1) →
      vecGet (outerRing M N) i (0, 0) = (M - 2 - (i - (M + (N - 1))), N - 1)) ∧
    (M + (N - 1) + (M - 1) ≤ i → i < M + (N - 1) + (M - 1) + (N - 1) →
      vecGet (outerRing M N) i (0, 0) = (0, N - 2 - (i - (M + (N - 1) + (M - 1))))) := by
  unfold outerRing
  refine ⟨fun h => ?_, fun h1 h2 => ?_, fun h1 h2 => ?_, fun h1 h2 => ?_⟩
  · rw [vecGet_append_left _ _ _ _ (by simp; omega), vecGet_append_left _ _ _ _ (by simp; omega),
      vecGet_append_left _ _ _ _ (by simp; omega), vecGet_map_range _ _ _ _ h]
  · rw [vecGet_append_left _ _ _ _ (by simp; omega), vecGet_append_left _ _ _ _ (by simp; omega),
      vecGet_append_right _ _ _ _ (by simp; omega)]
    simp only [List.length_map, List.length_range]
    rw [vecGet_map_range _ _ _ _ (by omega)]
  · rw [vecGet_append_left _ _ _ _ (by simp; omega), vecGet_append_right _ _ _ _ (by simp; omega)]
    simp only [List.length_append, List.length_map, List.length_range]
    rw [vecGet_map_range _ _ _ _ (by omega)]
  · rw [vecGet_append_right _ _ _ _ (by simp; omega)]
    simp only [List.length_append, List.length_map, List.length_range]
    rw [vecGet_map_range _ _ _ _ (by omega)]

/-- The ring runs along the border of the grid. -/
theorem outerRing_border (M N : Nat) (hM : 2 ≤ M) (hN : 2 ≤ N) (p : Nat × Nat)
    (h : p ∈ outerRing M N) :
    p.1 < M ∧ p.2 < N ∧ (p.1 = 0 ∨ p.1 = M - 1 ∨ p.2 = 0 ∨ p.2 = N - 1) := by
  unfold outerRing at h
  simp only [List.mem_append, List.mem_map, List.mem_range] at h
  rcases h with ((⟨a, ha, rfl⟩ | ⟨a, ha, rfl⟩) | ⟨a, ha, rfl⟩) | ⟨a, ha, rfl⟩ <;>
    refine ⟨?_, ?_, ?_⟩ <;> dsimp only <;> omega

/-- The components of the positions of the ring. -/
theorem outerRing_components (M N i : Nat) (hM : 2 ≤ M) (hN : 2 ≤ N) :
    (i < M → (vecGet (outerRing M N) i (0, 0)).1 = i ∧ (vecGet (outerRing M N) i (0, 0)).2 = 0) ∧
    (M ≤ i → i < M + (N - 1) → (vecGet (outerRing M N) i (0, 0)).1 = M - 1 ∧
      (vecGet (outerRing M N) i (0, 0)).2 = i - M + 1) ∧
    (M + (N - 1) ≤ i → i < M + (N - 1) + (M - 1) →
      (vecGet (outerRing M N) i (0, 0)).1 = M - 2 - (i - (M + (N - 1))) ∧
      (vecGet (outerRing M N) i (0, 0)).2 = N - 1) ∧
    (M + (N - 1) + (M - 1) ≤ i → i < M + (N - 1) + (M - 1) + (N - 1) →
      (vecGet (outerRing M N) i (0, 0)).1 = 0 ∧
      (vecGet (outerRing M N) i (0, 0)).2 = N - 2 - (i - (M + (N - 1) + (M - 1)))) := by
  obtain ⟨h1, h2, h3, h4⟩ := outerRing_get M N i hM hN
  refine ⟨fun h => ?_, fun a b => ?_, fun a b => ?_, fun a b => ?_⟩
  · rw [h1 h]; exact ⟨rfl, rfl⟩
  · rw [h2 a b]; exact ⟨rfl, rfl⟩
  · rw [h3 a b]; exact ⟨rfl, rfl⟩
  · rw [h4 a b]; exact ⟨rfl, rfl⟩

/-- The side of the ring on which a place lies. -/
theorem outerRing_cases (M N i : Nat) (hM : 2 ≤ M) (hN : 2 ≤ N)
    (hi : i < 2 * (M - 1) + 2 * (N - 1) + 1) :
    (i < M ∧ (vecGet (outerRing M N) i (0, 0)).1 = i ∧
      (vecGet (outerRing M N) i (0, 0)).2 = 0) ∨
    (M ≤ i ∧ i < M + (N - 1) ∧ (vecGet (outerRing M N) i (0, 0)).1 = M - 1 ∧
      (vecGet (outerRing M N) i (0, 0)).2 = i - M + 1) ∨
    (M + (N - 1) ≤ i ∧ i < M + (N - 1) + (M - 1) ∧
      (vecGet (outerRing M N) i (0, 0)).1 = M - 2 - (i - (M + (N - 1))) ∧
      (vecGet (outerRing M N) i (0, 0)).2 = N - 1) ∨
    (M + (N - 1) + (M - 1) ≤ i ∧ i < M + (N - 1) + (M - 1) + (N - 1) ∧
      (vecGet (outerRing M N) i (0, 0)).1 = 0 ∧
      (vecGet (outerRing M N) i (0, 0)).2 = N - 2 - (i - (M + (N - 1) + (M - 1)))) := by
  obtain ⟨a1, a2, a3, a4⟩ := outerRing_components M N i hM hN
  by_cases c1 : i < M
  · exact Or.inl ⟨c1, a1 c1⟩
  · by_cases c2 : i < M + (N - 1)
    · exact Or.inr (Or.inl ⟨by omega, c2, a2 (by omega) c2⟩)
    · by_cases c3 : i < M + (N - 1) + (M - 1)
      · exact Or.inr (Or.inr (Or.inl ⟨by omega, c3, a3 (by omega) c3⟩))
      · exact Or.inr (Or.inr (Or.inr ⟨by omega, by omega, a4 (by omega) (by omega)⟩))

/-- Distinct places of the ring before its last hold distinct positions. -/
theorem outerRing_inj (M N i j : Nat) (hM : 2 ≤ M) (hN : 2 ≤ N)
    (hi : i < 2 * (M - 1) + 2 * (N - 1)) (hj : j < 2 * (M - 1) + 2 * (N - 1))
    (h1 : (vecGet (outerRing M N) i (0, 0)).1 = (vecGet (outerRing M N) j (0, 0)).1)
    (h2 : (vecGet (outerRing M N) i (0, 0)).2 = (vecGet (outerRing M N) j (0, 0)).2) :
    i = j := by
  have A := outerRing_cases M N i hM hN (by omega)
  have B := outerRing_cases M N j hM hN (by omega)
  generalize (vecGet (outerRing M N) i (0, 0)).1 = x at *
  generalize (vecGet (outerRing M N) i (0, 0)).2 = y at *
  generalize (vecGet (outerRing M N) j (0, 0)).1 = x' at *
  generalize (vecGet (outerRing M N) j (0, 0)).2 = y' at *
  rcases A with a | a | a | a <;> rcases B with b | b | b | b <;> omega

/-- Consecutive positions of the ring are neighbours in the grid. -/
theorem outerRing_adjacent (M N i : Nat) (hM : 2 ≤ M) (hN : 2 ≤ N)
    (hi : i < 2 * (M - 1) + 2 * (N - 1)) :
    ∃ m n, ((m + 1 < M ∧ n < N) ∧
        ((vecGet (outerRing M N) i (0, 0) = (m, n) ∧
            vecGet (outerRing M N) (i + 1) (0, 0) = (m + 1, n)) ∨
          (vecGet (outerRing M N) i (0, 0) = (m + 1, n) ∧
            vecGet (outerRing M N) (i + 1) (0, 0) = (m, n)))) ∨
      ((m < M ∧ n + 1 < N) ∧
        ((vecGet (outerRing M N) i (0, 0) = (m, n) ∧
            vecGet (outerRing M N) (i + 1) (0, 0) = (m, n + 1)) ∨
          (vecGet (outerRing M N) i (0, 0) = (m, n + 1) ∧
            vecGet (outerRing M N) (i + 1) (0, 0) = (m, n)))) := by
  have A := outerRing_cases M N i hM hN (by omega)
  have B := outerRing_cases M N (i + 1) hM hN (by omega)
  generalize vecGet (outerRing M N) i (0, 0) = p at *
  generalize vecGet (outerRing M N) (i + 1) (0, 0) = q at *
  obtain ⟨x, y⟩ := p
  obtain ⟨x', y'⟩ := q
  simp only [Prod.mk.injEq]
  simp only at A B
  rcases A with a | a | a | a <;> rcases B with b | b | b | b <;>
    first
    | (exfalso; omega)
    | exact ⟨x, y, Or.inl ⟨by omega, Or.inl (by omega)⟩⟩
    | exact ⟨x, y, Or.inr ⟨by omega, Or.inl (by omega)⟩⟩
    | exact ⟨x', y', Or.inl ⟨by omega, Or.inr (by omega)⟩⟩
    | exact ⟨x', y', Or.inr ⟨by omega, Or.inr (by omega)⟩⟩

end meshkernel

namespace meshkernel

/-! ## The lift of a grid all of whose points are valid -/

theorem filterMap_range_some {α : Type} (B : Nat) (f : Nat → Option α) (g : Nat → α)
    (h : ∀ n, n < B → f n = some (g n)) :
    (List.range B).filterMap f = (List.range B).map g := by
  induction B with
  | zero => rfl
  | succ B ih =>
    rw [List.range_succ, List.filterMap_append, List.map_append, ih (fun n hn => h n (by omega))]
    simp [h B (by omega)]

theorem flatMap_range_congr {α : Type} (A : Nat) (f g : Nat → List α)
    (h : ∀ m, m < A → f m = g m) : (List.range A).flatMap f = (List.range A).flatMap g := by
  induction A with
  | zero => rfl
  | succ A ih =>
    rw [List.range_succ, List.flatMap_append, List.flatMap_append,
      ih (fun m hm => h m (by omega)), List.flatMap_singleton, List.flatMap_singleton,
      h A (by omega)]

theorem grid_isValidAt (g : CurvilinearGrid) (hrect : g.IsRectangular)
    (hall : ∀ row ∈ g.m_grid, ∀ p ∈ row, p.IsValid = true) (m n : Nat)
    (hm : m < g.m_grid.length) (hn : n < (vecGet g.m_grid 0 []).length) :
    g.isValidAt m n = true := by
  unfold CurvilinearGrid.isValidAt
  exact hall _ (vecGet_mem _ _ _ hm) _
    (vecGet_mem _ _ _ (by rw [grid_row_length g hrect m hm]; exact hn))

/-- In a grid all of whose points are valid the point at `(m, n)` has the place `m * N + n`. -/
theorem rank_of_valid (g : CurvilinearGrid) (hrect : g.IsRectangular)
    (hall : ∀ row ∈ g.m_grid, ∀ p ∈ row, p.IsValid = true) (m n : Nat)
    (hm : m < g.m_grid.length) (hn : n ≤ (vecGet g.m_grid 0 []).length) :
    g.rank m n = m * (vecGet g.m_grid 0 []).length + n := by
  unfold CurvilinearGrid.rank
  have hv : ∀ p ∈ g.pointsBefore m n, Point.IsValid p = true := by
    intro p hp
    unfold CurvilinearGrid.pointsBefore at hp
    rcases List.mem_append.1 hp with h | h
    · obtain ⟨row, hrow, hpr⟩ := List.mem_flatten.1 h
      exact hall row (List.mem_of_mem_take hrow) p hpr
    · exact hall _ (vecGet_mem _ _ _ hm) p (List.mem_of_mem_take h)
  rw [List.countP_eq_length.2 hv, pointsBefore_length g hrect m n hm hn]

theorem specEdgesFirst_of_valid (g : CurvilinearGrid) (hrect : g.IsRectangular)
    (hall : ∀ row ∈ g.m_grid, ∀ p ∈ row, p.IsValid = true) :
    g.specEdgesFirst = gridEdgesFirst g.m_grid.length (vecGet g.m_grid 0 []).length := by
  unfold CurvilinearGrid.specEdgesFirst gridEdgesFirst
  refine flatMap_range_congr _ _ _ (fun m hm => ?_)
  refine filterMap_range_some _ _ _ (fun n hn => ?_)
  have v1 := grid_isValidAt g hrect hall m n (by omega) hn
  have v2 := grid_isValidAt g hrect hall (m + 1) n (by omega) hn
  have c : g.isValidAt m n = true ∧ g.isValidAt (m + 1) n = true := ⟨v1, v2⟩
  rw [if_pos c, rank_of_valid g hrect hall m n (by omega) (by omega),
    rank_of_valid g hrect hall (m + 1) n (by omega) (by omega)]

theorem specEdgesSecond_of_valid (g : CurvilinearGrid) (hrect : g.IsRectangular)
    (hall : ∀ row ∈ g.m_grid, ∀ p ∈ row, p.IsValid = true) :
    g.specEdgesSecond = gridEdgesSecond g.m_grid.length (vecGet g.m_grid 0 []).length := by
  unfold CurvilinearGrid.specEdgesSecond gridEdgesSecond
  refine flatMap_range_congr _ _ _ (fun m hm => ?_)
  refine filterMap_range_some _ _ _ (fun n hn => ?_)
  have v1 := grid_isValidAt g hrect hall m n hm (by omega)
  have v2 := grid_isValidAt g hrect hall m (n + 1) hm (by omega)
  have c : g.isValidAt m n = true ∧ g.isValidAt m (n + 1) = true := ⟨v1, v2⟩
  rw [if_pos c, rank_of_valid g hrect hall m n hm (by omega),
    rank_of_valid g hrect hall m (n + 1) hm (by omega)]

/-- The nodes of the lift of a grid all of whose points are valid: there are `M * N` of them, all
valid, and the node at the place `m * N + n` is the grid point at `(m, n)`. -/
theorem specNodes_of_valid (g : CurvilinearGrid) (hrect : g.IsRectangular)
    (hM : 1 ≤ g.m_grid.length)
    (hall : ∀ row ∈ g.m_grid, ∀ p ∈ row, p.IsValid = true) :
    g.specNodes.length = g.m_grid.length * (vecGet g.m_grid 0 []).length ∧
    (∀ p ∈ g.specNodes, p.IsValid = true) ∧
    ∀ m n, m < g.m_grid.length → n < (vecGet g.m_grid 0 []).length →
      vecGet g.specNodes (m * (vecGet g.m_grid 0 []).length + n) missingPoint =
        g.pointAt (m, n) := by
  refine ⟨(specCounts_of_valid g hrect hM hall).1, ?_, ?_⟩
  · intro p hp
    unfold CurvilinearGrid.specNodes at hp
    exact (List.mem_filter.1 hp).2
  · intro m n hm hn
    have h := (specNodes_rank g hrect m n hm hn (grid_isValidAt g hrect hall m n hm hn)).2
    rw [rank_of_valid g hrect hall m n hm (by omega)] at h
    exact h

/-- The nodes of the outer ring by their places. -/
theorem ringNodes_of_valid (g : CurvilinearGrid) (hrect : g.IsRectangular)
    (hM : 2 ≤ g.m_grid.length) (hN : 2 ≤ (vecGet g.m_grid 0 []).length)
    (hall : ∀ row ∈ g.m_grid, ∀ p ∈ row, p.IsValid = true) :
    g.ringNodes = (outerRing g.m_grid.length (vecGet g.m_grid 0 []).length).map
      (fun p => p.1 * (vecGet g.m_grid 0 []).length + p.2) := by
  unfold CurvilinearGrid.ringNodes
  refine List.map_congr_left (fun p hp => ?_)
  obtain ⟨h1, h2, _⟩ := outerRing_border _ _ hM hN p hp
  exact rank_of_valid g hrect hall p.1 p.2 h1 (by omega)

/-! ### The mesh on the graph of the grid -/

/-- Stage 1 has nothing to remove from the graph of an `M × N` grid. -/
theorem gridMesh_clean (m : Mesh) (M N : Nat) (hM : 2 ≤ M) (hN : 2 ≤ N)
    (hsize : M * N ≤ sizetMissingValue) (hnodes : m.m_nodes.length = M * N)
    (hedges : m.m_edges = gridEdgesFirst M N ++ gridEdgesSecond M N) :
    m.nothingToDelete = true := by
  unfold Mesh.nothingToDelete
  rw [Bool.and_eq_true, List.all_eq_true, List.all_eq_true]
  have hmiss : ∀ e ∈ m.m_edges, edgeIsMissing e = false := by
    intro e he
    rw [hedges] at he
    obtain ⟨h1, h2⟩ := gridEdges_lt M N e he
    unfold edgeIsMissing
    have a1 : e.1 ≠ sizetMissingValue := by omega
    have a2 : e.2 ≠ sizetMissingValue := by omega
    simp [a1, a2]
  constructor
  · intro e he
    have h0 := hmiss e he
    rw [hedges] at he
    obtain ⟨h1, h2⟩ := gridEdges_lt M N e he
    rw [hnodes]
    simp [h0, h1, h2]
  · intro k hk
    rw [List.mem_range, hnodes] at hk
    have hNpos : 0 < N := by omega
    have hdiv : k / N < M := by
      rw [Nat.div_lt_iff_lt_mul hNpos]
      exact hk
    have hmod : k % N < N := Nat.mod_lt _ hNpos
    have hk' : k / N * N + k % N = k := Nat.div_add_mod' k N
    unfold Mesh.nodeConnected
    rw [List.any_eq_true]
    by_cases c : k / N + 1 < M
    · have hmem : (k / N * N + k % N, (k / N + 1) * N + k % N) ∈ m.m_edges := by
        rw [hedges]
        exact List.mem_append_left _
          ((mem_gridEdgesFirst M N _).2 ⟨k / N, k % N, c, hmod, rfl⟩)
      refine ⟨_, hmem, ?_⟩
      rw [hmiss _ hmem]
      simp [hk']
    · have hpos : k / N - 1 + 1 = k / N := by omega
      have hmem : ((k / N - 1) * N + k % N, (k / N - 1 + 1) * N + k % N) ∈ m.m_edges := by
        rw [hedges]
        exact List.mem_append_left _
          ((mem_gridEdgesFirst M N _).2 ⟨k / N - 1, k % N, by omega, hmod, rfl⟩)
      refine ⟨_, hmem, ?_⟩
      rw [hmiss _ hmem, hpos]
      simp [hk']

/-- The graph of an `M × N` grid has no self-loop, no two edges between the same nodes and no
node with more than four edges. -/
theorem gridMesh_simple (m : Mesh) (M N : Nat) (hN : 2 ≤ N)
    (hedges : m.m_edges = gridEdgesFirst M N ++ gridEdgesSecond M N) :
    (∀ e, e < m.m_edges.length → (m.edge e).1 ≠ (m.edge e).2) ∧
    (∀ e e', e < m.m_edges.length → e' < e → ¬ m.joins e' (m.edge e).1 (m.edge e).2) ∧
    (∀ n, (List.range m.m_edges.length).countP
      (fun e => decide ((m.edge e).1 = n ∨ (m.edge e).2 = n)) ≤ maximumNumberOfEdgesPerNode) := by
  have hstep : ∀ e, e < m.m_edges.length →
      (m.edge e).2 = (m.edge e).1 + N ∨ (m.edge e).2 = (m.edge e).1 + 1 := by
    intro e he
    have hmem : m.edge e ∈ m.m_edges := vecGet_mem _ _ _ he
    rw [hedges] at hmem
    exact gridEdges_step M N _ hmem
  have hnd : m.m_edges.Nodup := by
    rw [hedges]
    exact gridEdges_nodup M N hN
  refine ⟨?_, ?_, ?_⟩
  · intro e he
    have := hstep e he
    omega
  · intro e e' he he' hj
    have s1 := hstep e he
    have s2 := hstep e' (by omega)
    unfold Mesh.joins at hj
    rcases hj with ⟨a, b⟩ | ⟨a, b⟩
    · have heq : m.edge e' = m.edge e := Prod.ext a b
      unfold Mesh.edge at heq
      rw [vecGet_eq_getElem _ _ _ he, vecGet_eq_getElem _ _ _ (by omega : e' < m.m_edges.length)]
        at heq
      have := (hnd.getElem_inj_iff).1 heq
      omega
    · omega
  · intro n
    have hcount : (List.range m.m_edges.length).countP
        (fun e => decide ((m.edge e).1 = n ∨ (m.edge e).2 = n)) =
        m.m_edges.countP (fun e => decide (e.1 = n ∨ e.2 = n)) := by
      conv => rhs; rw [← map_vecGet_range m.m_edges missingEdge]
      rw [List.countP_map]
      rfl
    rw [hcount]
    have h4 := degree_le_four m.m_edges N hnd (by
      intro e he
      rw [hedges] at he
      exact gridEdges_step M N e he) n
    have : (4 : Nat) ≤ maximumNumberOfEdgesPerNode := by decide
    omega

/-- The lift of a grid all of whose points are valid returns a mesh on the graph of the grid. -/
theorem ofCurvilinearGrid_of_valid (ops : Operations) (projection : Projection)
    (g : CurvilinearGrid) (hrect : g.IsRectangular) (hM : 2 ≤ g.m_grid.length)
    (hN : 2 ≤ (vecGet g.m_grid 0 []).length)
    (hsize : g.m_grid.length * (vecGet g.m_grid 0 []).length ≤ sizetMissingValue)
    (hall : ∀ row ∈ g.m_grid, ∀ p ∈ row, p.IsValid = true) :
    ∃ m0, Mesh.ofCurvilinearGrid ops g projection = .ok m0 ∧ m0.m_nodes = g.specNodes ∧
      m0.m_edges = gridEdgesFirst g.m_grid.length (vecGet g.m_grid 0 []).length ++
        gridEdgesSecond g.m_grid.length (vecGet g.m_grid 0 []).length := by
  have hce := curvilinearNodesAndEdges_eq g hrect (by omega) (by omega) hsize
  rw [specEdgesFirst_of_valid g hrect hall, specEdgesSecond_of_valid g hrect hall] at hce
  obtain ⟨hlen, hvalidN, _⟩ := specNodes_of_valid g hrect (by omega) hall
  generalize hG : Mesh.ofNodesEdges g.specNodes
    (gridEdgesFirst g.m_grid.length (vecGet g.m_grid 0 []).length ++
      gridEdgesSecond g.m_grid.length (vecGet g.m_grid 0 []).length) projection = mG
  have gn : mG.m_nodes = g.specNodes := by rw [← hG]; rfl
  have ge : mG.m_edges = gridEdgesFirst g.m_grid.length (vecGet g.m_grid 0 []).length ++
      gridEdgesSecond g.m_grid.length (vecGet g.m_grid 0 []).length := by rw [← hG]; rfl
  have hclean : mG.nothingToDelete = true :=
    gridMesh_clean mG _ _ hM hN hsize (by rw [gn]; exact hlen) ge
  have hr : mG.EdgesInRange := nothingToDelete_inRange mG hclean
  have hn : mG.m_nodes.length ≤ sizetMissingValue := by rw [gn, hlen]; exact hsize
  have hv : ∀ p ∈ mG.m_nodes, p.IsValid = true := by rw [gn]; exact hvalidN
  obtain ⟨m', hadm, hn', he', _⟩ := Administrate_edges_ok ops mG hr hn
  have hs := (DeleteInvalidNodesAndEdges_eq mG hr hn).symm.trans
    (DeleteInvalidNodesAndEdges_nothingToDelete mG hv hclean hn)
  have hsn : mG.survivingNodes = mG.m_nodes := congrArg Mesh.m_nodes hs
  have hse : mG.survivingEdges = mG.m_edges := congrArg Mesh.m_edges hs
  unfold Mesh.ofCurvilinearGrid
  rw [hce]
  dsimp only
  rw [hG, hadm]
  exact ⟨_, rfl, (hn'.trans hsn).trans gn, (he'.trans hse).trans ge⟩

/-- The first edge of the graph of the grid joins the places `0` and `N`. -/
theorem gridEdges_head (M N : Nat) (hM : 2 ≤ M) (hN : 1 ≤ N) :
    0 < (gridEdgesFirst M N ++ gridEdgesSecond M N).length ∧
    vecGet (gridEdgesFirst M N ++ gridEdgesSecond M N) 0 missingEdge = (0, N) := by
  obtain ⟨a, rfl⟩ : ∃ a, M = a + 2 := ⟨M - 2, by omega⟩
  obtain ⟨b, rfl⟩ : ∃ b, N = b + 1 := ⟨N - 1, by omega⟩
  have h : gridEdgesFirst (a + 2) (b + 1) =
      (0 * (b + 1) + 0, (0 + 1) * (b + 1) + 0) ::
        ((List.map Nat.succ (List.range b)).map
            (fun n => (0 * (b + 1) + n, (0 + 1) * (b + 1) + n)) ++
          (List.map Nat.succ (List.range a)).flatMap (fun m =>
            (List.range (b + 1)).map (fun n => (m * (b + 1) + n, (m + 1) * (b + 1) + n)))) := by
    unfold gridEdgesFirst
    rw [show a + 2 - 1 = a + 1 from rfl, List.range_succ_eq_map, List.flatMap_cons,
      List.range_succ_eq_map, List.map_cons, List.cons_append]
  rw [h, List.cons_append]
  refine ⟨Nat.succ_pos _, ?_⟩
  show (0 * (b + 1) + 0, (0 + 1) * (b + 1) + 0) = (0, b + 1)
  simp

end meshkernel

namespace meshkernel

/-! ## `MergeTwoNodes` between two merges of `MergeNodesInPolygon` -/

theorem vecGet_set_pair {α : Type} (l : List α) (a b n : Nat) (x y d : α) (ha : a < l.length)
    (hb : b < l.length) :
    vecGet ((l.set b x).set a y) n d =
      if n = a then y else if n = b then x else vecGet l n d := by
  rw [vecGet_set, vecGet_set, List.length_set]
  by_cases h1 : n = a
  · subst h1
    rw [if_pos ⟨rfl, ha⟩, if_pos rfl]
  · rw [if_neg (fun h => h1 h.1.symm), if_neg h1]
    by_cases h2 : n = b
    · subst h2
      rw [if_pos ⟨rfl, hb⟩, if_pos rfl]
    · rw [if_neg (fun h => h2 h.1.symm), if_neg h2]

theorem repointEdge_idem (a b : Nat) (hab : a ≠ b) (E : Edge) :
    repointEdge a b (repointEdge a b E) = repointEdge a b E := by
  obtain ⟨p, q⟩ := E
  unfold repointEdge
  by_cases h1 : p = a <;> by_cases h2 : q = a <;> simp [h1, h2, hab, Ne.symm hab]

theorem repointEdge_valid (a b : Nat) (hb : b ≠ sizetMissingValue) (E : Edge)
    (h : E.1 ≠ sizetMissingValue) : (repointEdge a b E).1 ≠ sizetMissingValue := by
  unfold repointEdge
  dsimp only
  split_ifs
  · exact hb
  · exact h

/-- `FindEdge` on two node indices raises nothing; the index it returns, unless it is the missing
value, is that of an edge that leads from the first node to the second. -/
theorem FindEdge_ok (m : Mesh) (a b : Nat) (ha : a ≠ sizetMissingValue)
    (hb : b ≠ sizetMissingValue) :
    ∃ idx, m.FindEdge a b = .ok idx ∧
      (idx = sizetMissingValue ∨ OtherNodeOfEdge (m.edge idx) a = b) := by
  unfold Mesh.FindEdge
  rw [if_neg (by rintro (h | h); exact ha h; exact hb h)]
  cases hfind : (List.range (vecGet m.m_nodesNumEdges a 0)).find? (fun n =>
        OtherNodeOfEdge
          (vecGet m.m_edges (vecGet (vecGet m.m_nodesEdges a []) n 0) missingEdge)
          a == b) with
  | some n =>
    refine ⟨_, rfl, Or.inr ?_⟩
    have hp := List.find?_some hfind
    simpa [Mesh.edge] using hp
  | none => exact ⟨_, rfl, Or.inl rfl⟩

/-- An edge that ends at `a` and does not join `a` and `b` does not lead to `b` from any node. -/
theorem other_ne_of_incident (E : Edge) (a b : Nat) (hab : a ≠ b) (hinc : E.1 = a ∨ E.2 = a)
    (hj : ¬ ((E.1 = a ∧ E.2 = b) ∨ (E.1 = b ∧ E.2 = a))) (x : Nat) :
    OtherNodeOfEdge E x ≠ b := by
  obtain ⟨p, q⟩ := E
  unfold OtherNodeOfEdge
  dsimp only at hinc hj ⊢
  split_ifs with h
  · intro hq
    rcases hinc with h1 | h1
    · exact hj (Or.inl ⟨h1, hq⟩)
    · exact hab (h1.symm.trans hq)
  · intro hp
    rcases hinc with h1 | h1
    · exact hab (h1.symm.trans hp)
    · exact hj (Or.inr ⟨hp, h1⟩)

/-- A step of the inner loop of `MergeTwoNodes` only invalidates edges, and none that leads to
the second node from no node. -/
theorem mergeInvalidateStep_inval (s0 : Mesh) (x b : Nat) (t : Mesh) (nn : Nat)
    (h : t.m_edges.length = s0.m_edges.length ∧
      (∀ e, t.edge e = s0.edge e ∨ t.edge e = missingEdge) ∧
      (∀ e, (∀ y, OtherNodeOfEdge (s0.edge e) y ≠ b) → t.edge e = s0.edge e)) :
    (mergeInvalidateStep x b t nn).m_edges.length = s0.m_edges.length ∧
      (∀ e, (mergeInvalidateStep x b t nn).edge e = s0.edge e ∨
        (mergeInvalidateStep x b t nn).edge e = missingEdge) ∧
      (∀ e, (∀ y, OtherNodeOfEdge (s0.edge e) y ≠ b) →
        (mergeInvalidateStep x b t nn).edge e = s0.edge e) := by
  obtain ⟨h1, h2, h3⟩ := h
  unfold mergeInvalidateStep
  dsimp only
  generalize vecGet (vecGet t.m_nodesEdges x []) nn 0 = q
  by_cases hc : OtherNodeOfEdge (vecGet t.m_edges q missingEdge) x = b
  · rw [if_pos hc]
    refine ⟨?_, ?_, ?_⟩
    · show (t.m_edges.set q missingEdge).length = s0.m_edges.length
      rw [List.length_set]
      exact h1
    · intro e
      show vecGet (t.m_edges.set q missingEdge) e missingEdge = s0.edge e ∨
        vecGet (t.m_edges.set q missingEdge) e missingEdge = missingEdge
      rw [vecGet_set]
      by_cases hq : q = e ∧ q < t.m_edges.length
      · rw [if_pos hq]
        exact Or.inr rfl
      · rw [if_neg hq]
        exact h2 e
    · intro e hp
      show vecGet (t.m_edges.set q missingEdge) e missingEdge = s0.edge e
      rw [vecGet_set]
      have hne : ¬ (q = e ∧ q < t.m_edges.length) := by
        rintro ⟨rfl, _⟩
        have h4 := h3 q hp
        apply hp x
        rw [← h4]
        exact hc
      rw [if_neg hne]
      exact h3 e hp
  · rw [if_neg hc]
    exact ⟨h1, h2, h3⟩

/-- The loop of `MergeTwoNodes` that looks for another edge to the second node only invalidates
edges, and none that leads to the second node from no node. -/
theorem mergeDuplicates_inval (s0 : Mesh) (a b : Nat) (m1 : Mesh) (k : Nat)
    (h : m1.m_edges.length = s0.m_edges.length ∧
      (∀ e, m1.edge e = s0.edge e ∨ m1.edge e = missingEdge) ∧
      (∀ e, (∀ y, OtherNodeOfEdge (s0.edge e) y ≠ b) → m1.edge e = s0.edge e)) :
    ((List.range k).foldl (mergeDuplicatesStep a b) m1).m_edges.length = s0.m_edges.length ∧
      (∀ e, ((List.range k).foldl (mergeDuplicatesStep a b) m1).edge e = s0.edge e ∨
        ((List.range k).foldl (mergeDuplicatesStep a b) m1).edge e = missingEdge) ∧
      (∀ e, (∀ y, OtherNodeOfEdge (s0.edge e) y ≠ b) →
        ((List.range k).foldl (mergeDuplicatesStep a b) m1).edge e = s0.edge e) := by
  refine foldl_invariant
    (fun (t : Mesh) => t.m_edges.length = s0.m_edges.length ∧
      (∀ e, t.edge e = s0.edge e ∨ t.edge e = missingEdge) ∧
      (∀ e, (∀ y, OtherNodeOfEdge (s0.edge e) y ≠ b) → t.edge e = s0.edge e))
    (mergeDuplicatesStep a b) (List.range k) m1 h ?_
  intro t n _ ht
  unfold mergeDuplicatesStep
  dsimp only
  split_ifs
  · exact foldl_invariant
      (fun (u : Mesh) => u.m_edges.length = s0.m_edges.length ∧
        (∀ e, u.edge e = s0.edge e ∨ u.edge e = missingEdge) ∧
        (∀ e, (∀ y, OtherNodeOfEdge (s0.edge e) y ≠ b) → u.edge e = s0.edge e))
      _ _ t ht (fun u nn _ hu => mergeInvalidateStep_inval s0 _ b u nn hu)
  · exact ht

/-- The loop of `MergeTwoNodes` that assigns the edges of the first node to the second, over the
first `k` entries of the edge list of `a`, while the scratch vector is not overrun: each listed
valid edge has `a` replaced by `b` and is appended to the scratch vector. -/
theorem mergeReassign_general (m2 : Mesh) (a b : Nat) (hab : a ≠ b)
    (hb : b ≠ sizetMissingValue) (c : List Nat × Nat) (k : Nat)
    (hk : k ≤ (vecGet m2.m_nodesEdges a []).length) (hlen : c.2 + k ≤ c.1.length) :
    ((List.range k).foldl (mergeReassignStep a b) (m2, c)).1.m_nodesEdges = m2.m_nodesEdges ∧
    ((List.range k).foldl (mergeReassignStep a b) (m2, c)).1.m_nodesNumEdges =
      m2.m_nodesNumEdges ∧
    ((List.range k).foldl (mergeReassignStep a b) (m2, c)).1.m_nodes = m2.m_nodes ∧
    ((List.range k).foldl (mergeReassignStep a b) (m2, c)).1.m_numNodes = m2.m_numNodes ∧
    ((List.range k).foldl (mergeReassignStep a b) (m2, c)).1.m_edges.length =
      m2.m_edges.length ∧
    (∀ e, ((List.range k).foldl (mergeReassignStep a b) (m2, c)).1.edge e =
      if e ∈ (vecGet m2.m_nodesEdges a []).take k ∧ (m2.edge e).1 ≠ sizetMissingValue
      then repointEdge a b (m2.edge e) else m2.edge e) ∧
    ((List.range k).foldl (mergeReassignStep a b) (m2, c)).2.1.length = c.1.length ∧
    ((List.range k).foldl (mergeReassignStep a b) (m2, c)).2.2 ≤ c.2 + k ∧
    (∀ e ∈ c.1.take c.2,
      e ∈ ((List.range k).foldl (mergeReassignStep a b) (m2, c)).2.1.take
        ((List.range k).foldl (mergeReassignStep a b) (m2, c)).2.2) ∧
    (∀ n, n < k → (m2.edge (vecGet (vecGet m2.m_nodesEdges a []) n 0)).1 ≠ sizetMissingValue →
      vecGet (vecGet m2.m_nodesEdges a []) n 0 ∈
        ((List.range k).foldl (mergeReassignStep a b) (m2, c)).2.1.take
          ((List.range k).foldl (mergeReassignStep a b) (m2, c)).2.2) ∧
    (∀ e ∈ ((List.range k).foldl (mergeReassignStep a b) (m2, c)).2.1.take
        ((List.range k).foldl (mergeReassignStep a b) (m2, c)).2.2,
      e ∈ c.1.take c.2 ∨ e ∈ vecGet m2.m_nodesEdges a []) := by
  revert hk hlen
  induction k with
  | zero =>
    intro _ _
    refine ⟨rfl, rfl, rfl, rfl, rfl, fun e => ?_, rfl, Nat.le_refl _, fun e he => he,
      fun n hn => absurd hn (Nat.not_lt_zero n), fun e he => Or.inl he⟩
    simp
  | succ j ih =>
    intro hk hlen
    obtain ⟨a1, a2, a3, a4, a5, a6, b1, b2, b4, b5, b6⟩ := ih (by omega) (by omega)
    rw [List.range_succ, List.foldl_append]
    simp only [List.foldl_cons, List.foldl_nil]
    generalize (List.range j).foldl (mergeReassignStep a b) (m2, c) = st at *
    obtain ⟨t, L, cnt⟩ := st
    simp only at a1 a2 a3 a4 a5 a6 b1 b2 b4 b5 b6
    have hjl : j < (vecGet m2.m_nodesEdges a []).length := by omega
    have hmem : ∀ e, e ∈ (vecGet m2.m_nodesEdges a []).take (j + 1) ↔
        e ∈ (vecGet m2.m_nodesEdges a []).take j ∨
          e = vecGet (vecGet m2.m_nodesEdges a []) j 0 :=
      fun e => mem_take_succ_iff _ _ _ hjl
    have hre : ∀ E : Edge,
        (if (if E.1 = a then ((b, E.2) : Edge) else E).2 = a
          then ((if E.1 = a then ((b, E.2) : Edge) else E).1, b)
          else (if E.1 = a then ((b, E.2) : Edge) else E)) = repointEdge a b E :=
      fun E => (reassign_eq E a b).trans rfl
    unfold mergeReassignStep
    dsimp only
    generalize hidx : vecGet (vecGet m2.m_nodesEdges a []) j 0 = idx at hmem
    have hidx' : vecGet (vecGet t.m_nodesEdges a []) j 0 = idx := by
      rw [a1]
      exact hidx
    rw [hidx']
    have hin : idx ∈ vecGet m2.m_nodesEdges a [] := by
      rw [← hidx]
      exact vecGet_mem _ _ _ hjl
    have hcur := a6 idx
    have hcurE : vecGet t.m_edges idx missingEdge = t.edge idx := rfl
    by_cases hv : (m2.edge idx).1 ≠ sizetMissingValue
    · -- the edge is valid: it is reassigned and recorded
      have hvcur : (vecGet t.m_edges idx missingEdge).1 ≠ sizetMissingValue := by
        rw [hcurE, hcur]
        split_ifs
        · exact repointEdge_valid a b hb _ hv
        · exact hv
      have hnew : repointEdge a b (t.edge idx) = repointEdge a b (m2.edge idx) := by
        rw [hcur]
        split_ifs
        · exact repointEdge_idem a b hab _
        · rfl
      have hlt : idx < t.m_edges.length := by
        by_contra hge
        apply hvcur
        rw [vecGet_of_length_le _ _ _ (Nat.le_of_not_lt hge)]
        rfl
      have hcntlt : cnt < L.length := by omega
      rw [if_pos hvcur, hre]
      dsimp only
      refine ⟨a1, a2, a3, a4, by rw [List.length_set]; exact a5, ?_, by
        rw [List.length_set]; exact b1, by omega, ?_, ?_, ?_⟩
      · intro e
        show vecGet (t.m_edges.set idx _) e missingEdge = _
        rw [vecGet_set]
        by_cases he : idx = e
        · subst he
          have d1 : idx = idx ∧ idx < t.m_edges.length := ⟨rfl, hlt⟩
          have d2 : idx ∈ (vecGet m2.m_nodesEdges a []).take (j + 1) ∧
              (m2.edge idx).1 ≠ sizetMissingValue := ⟨(hmem idx).2 (Or.inr rfl), hv⟩
          rw [if_pos d1, if_pos d2]
          exact hnew
        · have d1 : ¬ (idx = e ∧ idx < t.m_edges.length) := fun h => he h.1
          rw [if_neg d1]
          have := a6 e
          rw [show vecGet t.m_edges e missingEdge = t.edge e from rfl, this]
          have hiff : (e ∈ (vecGet m2.m_nodesEdges a []).take (j + 1) ∧
              (m2.edge e).1 ≠ sizetMissingValue) ↔
              (e ∈ (vecGet m2.m_nodesEdges a []).take j ∧
                (m2.edge e).1 ≠ sizetMissingValue) := by
            rw [hmem e]
            constructor
            · rintro ⟨h1 | h1, h2⟩
              · exact ⟨h1, h2⟩
              · exact absurd h1.symm he
            · rintro ⟨h1, h2⟩
              exact ⟨Or.inl h1, h2⟩
          by_cases hc : e ∈ (vecGet m2.m_nodesEdges a []).take j ∧
              (m2.edge e).1 ≠ sizetMissingValue
          · rw [if_pos hc, if_pos (hiff.2 hc)]
          · rw [if_neg hc, if_neg (fun h => hc (hiff.1 h))]
      · intro e he
        rw [take_set_succ _ _ _ hcntlt]
        exact List.mem_append_left _ (b4 e he)
      · intro n hn hvn
        rw [take_set_succ _ _ _ hcntlt]
        by_cases hnj : n = j
        · subst hnj
          rw [hidx]
          exact List.mem_append_right _ (List.mem_singleton_self _)
        · exact List.mem_append_left _ (b5 n (by omega) hvn)
      · intro e he
        rw [take_set_succ _ _ _ hcntlt] at he
        rcases List.mem_append.1 he with h | h
        · exact b6 e h
        · rw [List.mem_singleton] at h
          rw [h]
          exact Or.inr hin
    · -- the edge is invalid: nothing changes
      have hvcur : ¬ (vecGet t.m_edges idx missingEdge).1 ≠ sizetMissingValue := by
        rw [hcurE, hcur, if_neg (fun h => hv h.2)]
        exact hv
      rw [if_neg hvcur]
      dsimp only
      refine ⟨a1, a2, a3, a4, a5, ?_, b1, by omega, b4, ?_, b6⟩
      · intro e
        rw [a6 e]
        by_cases hc : e ∈ (vecGet m2.m_nodesEdges a []).take j ∧
            (m2.edge e).1 ≠ sizetMissingValue
        · rw [if_pos hc, if_pos ⟨(hmem e).2 (Or.inl hc.1), hc.2⟩]
        · rw [if_neg hc]
          have : ¬ (e ∈ (vecGet m2.m_nodesEdges a []).take (j + 1) ∧
              (m2.edge e).1 ≠ sizetMissingValue) := by
            rintro ⟨h1, h2⟩
            rcases (hmem e).1 h1 with h | h
            · exact hc ⟨h, h2⟩
            · rw [h] at h2
              exact hv h2
          rw [if_neg this]
      · intro n hn hvn
        by_cases hnj : n = j
        · subst hnj
          rw [hidx] at hvn
          exact absurd hvn hv
        · exact b5 n (by omega) hvn

end meshkernel

namespace meshkernel

theorem missingEdge_fst : missingEdge.1 = sizetMissingValue := rfl

theorem missingEdge_snd : missingEdge.2 = sizetMissingValue := rfl

/-- In a state of the merging loop an edge that ends at a node is not invalidated. -/
theorem MergeInv_incident (s : Mesh) (N E : Nat) (hinv : s.MergeInv N E)
    (hN : N ≤ sizetMissingValue) (n e : Nat) (hn : n < N)
    (h : (s.edge e).1 = n ∨ (s.edge e).2 = n) :
    (s.edge e).1 < N ∧ (s.edge e).2 < N ∧ e < E ∧ (s.edge e).1 ≠ sizetMissingValue := by
  rcases hinv.shape e with hm | ⟨h1, h2, h3⟩
  · rw [hm] at h
    rcases h with h | h
    · rw [missingEdge_fst] at h; omega
    · rw [missingEdge_snd] at h; omega
  · exact ⟨h1, h2, h3, by omega⟩

/-- `MergeTwoNodes(a, b)` on a state of the merging loop, for two distinct nodes whose edge lists
together hold at most `maximumNumberOfEdgesPerNode` entries (the size of the scratch vector
`secondNodeEdges`): the call raises nothing, the state it leaves is again a state of the merging
loop, node `a` is the missing point and no other node changes, the list of `b` holds at most
the entries of both lists, and every edge at `a` that does not join `a` and `b` has `a` replaced
by `b`. -/
theorem MergeTwoNodes_general (s : Mesh) (N E : Nat) (hinv : s.MergeInv N E)
    (hN : N ≤ sizetMissingValue) (a b : Nat) (hab : a ≠ b) (ha : a < N) (hb : b < N)
    (hcap : vecGet s.m_nodesNumEdges a 0 + vecGet s.m_nodesNumEdges b 0 ≤
      maximumNumberOfEdgesPerNode) :
    ∃ s', s.MergeTwoNodes a b = (s', none) ∧ s'.MergeInv N E ∧
      s'.m_nodes = s.m_nodes.set a missingPoint ∧
      vecGet s'.m_nodesNumEdges b 0 ≤
        vecGet s.m_nodesNumEdges a 0 + vecGet s.m_nodesNumEdges b 0 ∧
      ∀ e, ¬ s.joins e a b → ((s.edge e).1 = a ∨ (s.edge e).2 = a) →
        s'.edge e = repointEdge a b (s.edge e) := by
  have ham : a ≠ sizetMissingValue := by omega
  have hbm : b ≠ sizetMissingValue := by omega
  have haN : a < s.GetNumNodes := by
    show a < s.m_numNodes
    rw [hinv.numNodes]; exact ha
  have hbN : b < s.GetNumNodes := by
    show b < s.m_numNodes
    rw [hinv.numNodes]; exact hb
  obtain ⟨idx, hf, hidx⟩ := FindEdge_ok s a b ham hbm
  obtain ⟨m1, h1⟩ : ∃ m1 : Mesh, m1 = if idx ≠ sizetMissingValue then
      { s with m_edges := s.m_edges.set idx missingEdge } else s := ⟨_, rfl⟩
  obtain ⟨m2, h2⟩ : ∃ m2 : Mesh, m2 =
      (List.range (vecGet m1.m_nodesNumEdges a 0)).foldl (mergeDuplicatesStep a b) m1 :=
    ⟨_, rfl⟩
  obtain ⟨c, h3⟩ : ∃ c : List Nat × Nat, c =
      (List.range (vecGet m2.m_nodesNumEdges b 0)).foldl (mergeCollectStep m2 b)
        (List.replicate maximumNumberOfEdgesPerNode sizetMissingValue, 0) := ⟨_, rfl⟩
  obtain ⟨st, h4⟩ : ∃ st : Mesh × List Nat × Nat, st =
      (List.range (vecGet m2.m_nodesNumEdges a 0)).foldl (mergeReassignStep a b) (m2, c) :=
    ⟨_, rfl⟩
  have hout := MergeTwoNodes_tables s a b idx m1 m2 c st haN hbN hf h1 h2 h3 h4
  -- the first stage
  have g1 : m1.m_nodesEdges = s.m_nodesEdges ∧ m1.m_nodesNumEdges = s.m_nodesNumEdges ∧
      m1.m_numNodes = s.m_numNodes ∧ m1.m_nodes = s.m_nodes := by
    rw [h1]
    split_ifs <;> exact ⟨rfl, rfl, rfl, rfl⟩
  have i1 : m1.m_edges.length = s.m_edges.length ∧
      (∀ e, m1.edge e = s.edge e ∨ m1.edge e = missingEdge) ∧
      (∀ e, (∀ y, OtherNodeOfEdge (s.edge e) y ≠ b) → m1.edge e = s.edge e) := by
    rw [h1]
    by_cases hi : idx ≠ sizetMissingValue
    · rw [if_pos hi]
      have hother : OtherNodeOfEdge (s.edge idx) a = b := by
        rcases hidx with h | h
        · exact absurd h hi
        · exact h
      refine ⟨?_, ?_, ?_⟩
      · show (s.m_edges.set idx missingEdge).length = s.m_edges.length
        exact List.length_set _ _ _
      · intro e
        show vecGet (s.m_edges.set idx missingEdge) e missingEdge = s.edge e ∨
          vecGet (s.m_edges.set idx missingEdge) e missingEdge = missingEdge
        rw [vecGet_set]
        by_cases hq : idx = e ∧ idx < s.m_edges.length
        · rw [if_pos hq]; exact Or.inr rfl
        · rw [if_neg hq]; exact Or.inl rfl
      · intro e hp
        show vecGet (s.m_edges.set idx missingEdge) e missingEdge = s.edge e
        rw [vecGet_set]
        have hq : ¬ (idx = e ∧ idx < s.m_edges.length) := by
          rintro ⟨rfl, _⟩
          exact hp a hother
        rw [if_neg hq]
        rfl
    · rw [if_neg hi]
      exact ⟨rfl, fun e => Or.inl rfl, fun e _ => rfl⟩
  -- the loop over the neighbours
  have g2 := mergeDuplicates_frame a b m1 (vecGet m1.m_nodesNumEdges a 0)
  have i2 := mergeDuplicates_inval s a b m1 (vecGet m1.m_nodesNumEdges a 0) i1
  rw [← h2] at g2 i2
  have e1 : m2.m_nodesEdges = s.m_nodesEdges := g2.1.trans g1.1
  have e2 : m2.m_nodesNumEdges = s.m_nodesNumEdges := g2.2.1.trans g1.2.1
  have e3 : m2.m_numNodes = s.m_numNodes := g2.2.2.1.trans g1.2.2.1
  have e4 : m2.m_nodes = s.m_nodes := g2.2.2.2.trans g1.2.2.2
  obtain ⟨i2a, i2b, i2c⟩ := i2
  have hna := hinv.num a ha
  have hnb := hinv.num b hb
  -- the scratch vector after the collecting loop
  obtain ⟨c1, c2, c3⟩ := mergeCollect_spec m2 b (vecGet m2.m_nodesNumEdges b 0)
    (by rw [e2]; omega)
  rw [← h3] at c1 c2 c3
  -- the reassigning loop
  obtain ⟨r1, r2, r3, r4, r5, r6, r7, r8, r9, r10, r11⟩ := mergeReassign_general m2 a b hab hbm c
    (vecGet m2.m_nodesNumEdges a 0) (by rw [e1, e2, hna]) (by rw [c2, e2] at *; omega)
  rw [← h4] at r1 r2 r3 r4 r5 r6 r7 r8 r9 r10 r11
  have htake : (vecGet m2.m_nodesEdges a []).take (vecGet m2.m_nodesNumEdges a 0) =
      vecGet s.m_nodesEdges a [] := by
    rw [e1, e2, hna, List.take_length]
  rw [htake] at r6
  have hK : st.2.2 ≤ st.2.1.length := by
    rw [r7, c2]
    rw [e2] at r8 c1
    omega
  have hKb : st.2.2 ≤ vecGet s.m_nodesNumEdges a 0 + vecGet s.m_nodesNumEdges b 0 := by
    rw [e2] at r8 c1
    omega
  have hlenE : a < st.1.m_nodesEdges.length ∧ b < st.1.m_nodesEdges.length := by
    rw [r1, e1, hinv.len_lists]
    exact ⟨ha, hb⟩
  have hlenN : a < st.1.m_nodesNumEdges.length ∧ b < st.1.m_nodesNumEdges.length := by
    rw [r2, e2, hinv.len_num]
    exact ⟨ha, hb⟩
  -- the edges of the result
  have hedge : ∀ e, st.1.edge e =
      if e ∈ vecGet s.m_nodesEdges a [] ∧ (m2.edge e).1 ≠ sizetMissingValue
      then repointEdge a b (m2.edge e) else m2.edge e := r6
  have hvalid2 : ∀ e, (m2.edge e).1 ≠ sizetMissingValue → m2.edge e = s.edge e := by
    intro e hv
    rcases i2b e with h | h
    · exact h
    · rw [h] at hv
      exact absurd missingEdge_fst hv
  have hlistB : ∀ e, e ∈ vecGet s.m_nodesEdges b [] → (m2.edge e).1 ≠ sizetMissingValue →
      e ∈ st.2.1.take st.2.2 := by
    intro e he hv
    apply r9
    rw [c3, List.mem_map]
    obtain ⟨n, hn, hne⟩ := mem_exists_vecGet _ e he
    refine ⟨n, ?_, ?_⟩
    · rw [List.mem_filter, List.mem_range, e2, hnb]
      refine ⟨hn, decide_eq_true ?_⟩
      rw [e1, ← hne]
      exact hv
    · rw [e1, ← hne]
  have hlistA : ∀ e, e ∈ vecGet s.m_nodesEdges a [] → (m2.edge e).1 ≠ sizetMissingValue →
      e ∈ st.2.1.take st.2.2 := by
    intro e he hv
    obtain ⟨n, hn, hne⟩ := mem_exists_vecGet _ e he
    have := r10 n (by rw [e2, hna]; exact hn) (by rw [e1, ← hne]; exact hv)
    rw [e1, ← hne] at this
    exact this
  rw [hout]
  refine ⟨_, rfl, ?_, ?_, ?_, ?_⟩
  · -- the invariant
    refine ⟨?_, ?_, ?_, ?_, ?_, ?_, ?_, ?_⟩
    · show (st.1.m_nodes.set a missingPoint).length = N
      rw [List.length_set, r3, e4]
      exact hinv.len_nodes
    · show st.1.m_numNodes = N
      rw [r4, e3]
      exact hinv.numNodes
    · show st.1.m_edges.length = E
      rw [r5, i2a]
      exact hinv.len_edges
    · show ((st.1.m_nodesEdges.set b (st.2.1.take st.2.2)).set a []).length = N
      rw [List.length_set, List.length_set, r1, e1]
      exact hinv.len_lists
    · show ((st.1.m_nodesNumEdges.set b st.2.2).set a 0).length = N
      rw [List.length_set, List.length_set, r2, e2]
      exact hinv.len_num
    · intro n hn
      show vecGet ((st.1.m_nodesNumEdges.set b st.2.2).set a 0) n 0 =
        (vecGet ((st.1.m_nodesEdges.set b (st.2.1.take st.2.2)).set a []) n []).length
      rw [vecGet_set_pair _ _ _ _ _ _ _ hlenN.1 hlenN.2,
        vecGet_set_pair _ _ _ _ _ _ _ hlenE.1 hlenE.2]
      by_cases hna' : n = a
      · rw [if_pos hna', if_pos hna']
        rfl
      · rw [if_neg hna', if_neg hna']
        by_cases hnb' : n = b
        · rw [if_pos hnb', if_pos hnb', List.length_take, Nat.min_eq_left hK]
        · rw [if_neg hnb', if_neg hnb', r1, r2, e1, e2]
          exact hinv.num n hn
    · intro e
      show st.1.edge e = missingEdge ∨ ((st.1.edge e).1 < N ∧ (st.1.edge e).2 < N ∧ e < E)
      rw [hedge e]
      by_cases hc : e ∈ vecGet s.m_nodesEdges a [] ∧ (m2.edge e).1 ≠ sizetMissingValue
      · rw [if_pos hc, hvalid2 e hc.2]
        rcases hinv.shape e with hm | ⟨q1, q2, q3⟩
        · have := hvalid2 e hc.2
          rw [← this, ] at hm
          exact absurd (by rw [hm]; rfl) hc.2
        · right
          unfold repointEdge
          dsimp only
          refine ⟨?_, ?_, q3⟩
          · split_ifs
            · exact hb
            · exact q1
          · split_ifs
            · exact hb
            · exact q2
      · rw [if_neg hc]
        rcases i2b e with h | h
        · rw [h]
          exact hinv.shape e
        · exact Or.inl h
    · intro n hn e hinc
      show e ∈ vecGet ((st.1.m_nodesEdges.set b (st.2.1.take st.2.2)).set a []) n []
      have hinc' : (st.1.edge e).1 = n ∨ (st.1.edge e).2 = n := hinc
      rw [vecGet_set_pair _ _ _ _ _ _ _ hlenE.1 hlenE.2]
      rw [hedge e] at hinc'
      by_cases hc : e ∈ vecGet s.m_nodesEdges a [] ∧ (m2.edge e).1 ≠ sizetMissingValue
      · rw [if_pos hc, hvalid2 e hc.2] at hinc'
        have hnea : n ≠ a := by
          intro hh
          subst hh
          unfold repointEdge at hinc'
          dsimp only at hinc'
          rcases hinc' with h | h
          · split_ifs at h with h5
            · exact hab h.symm
            · exact h5 h
          · split_ifs at h with h5
            · exact hab h.symm
            · exact h5 h
        rw [if_neg hnea]
        by_cases hnb' : n = b
        · rw [if_pos hnb']
          exact hlistA e hc.1 hc.2
        · rw [if_neg hnb', r1, e1]
          apply hinv.all n hn e
          unfold repointEdge at hinc'
          dsimp only at hinc'
          rcases hinc' with h | h
          · split_ifs at h with h5
            · exact absurd h.symm hnb'
            · exact Or.inl h
          · split_ifs at h with h5
            · exact absurd h.symm hnb'
            · exact Or.inr h
      · rw [if_neg hc] at hinc'
        have hm2 : m2.edge e = s.edge e := by
          rcases i2b e with h | h
          · exact h
          · rw [h] at hinc'
            rcases hinc' with h6 | h6
            · rw [missingEdge_fst] at h6; omega
            · rw [missingEdge_snd] at h6; omega
        rw [hm2] at hinc'
        obtain ⟨_, _, _, hv⟩ := MergeInv_incident s N E hinv hN n e hn hinc'
        have hnotA : e ∉ vecGet s.m_nodesEdges a [] := by
          intro hh
          apply hc
          refine ⟨hh, ?_⟩
          rw [hm2]
          exact hv
        have hnea : n ≠ a := by
          intro hh
          subst hh
          exact hnotA (hinv.all n hn e hinc')
        rw [if_neg hnea]
        by_cases hnb' : n = b
        · rw [if_pos hnb']
          subst hnb'
          exact hlistB e (hinv.all n hn e hinc') (by rw [hm2]; exact hv)
        · rw [if_neg hnb', r1, e1]
          exact hinv.all n hn e hinc'
  · show st.1.m_nodes.set a missingPoint = s.m_nodes.set a missingPoint
    rw [r3, e4]
  · show vecGet ((st.1.m_nodesNumEdges.set b st.2.2).set a 0) b 0 ≤ _
    rw [vecGet_set_pair _ _ _ _ _ _ _ hlenN.1 hlenN.2, if_neg (Ne.symm hab), if_pos rfl]
    exact hKb
  · intro e hj hinc
    show st.1.edge e = repointEdge a b (s.edge e)
    obtain ⟨_, _, _, hv⟩ := MergeInv_incident s N E hinv hN a e ha hinc
    have hprot : ∀ y, OtherNodeOfEdge (s.edge e) y ≠ b :=
      other_ne_of_incident _ a b hab hinc hj
    have hm2 : m2.edge e = s.edge e := i2c e hprot
    have hc : e ∈ vecGet s.m_nodesEdges a [] ∧ (m2.edge e).1 ≠ sizetMissingValue :=
      ⟨hinv.all a ha e hinc, by rw [hm2]; exact hv⟩
    rw [hedge e, if_pos hc, hm2]

end meshkernel

namespace meshkernel

/-! ## The loops of `MergeNodesInPolygon` -/

/-- An administered mesh whose node lists hold every edge is a state of the merging loop. -/
theorem MergeInv_of_administered (m : Mesh) (hadm : m.AdministeredEdges)
    (hN : m.m_nodes.length ≤ sizetMissingValue)
    (hall : ∀ n, n < m.m_nodes.length → m.listsAllEdgesAt n) :
    m.MergeInv m.m_nodes.length m.m_edges.length := by
  have hshape : ∀ e, m.edge e = missingEdge ∨
      ((m.edge e).1 < m.m_nodes.length ∧ (m.edge e).2 < m.m_nodes.length ∧
        e < m.m_edges.length) := by
    intro e
    by_cases he : e < m.m_edges.length
    · obtain ⟨_, h1, h2⟩ := adm_endpoints m hadm e he
      exact Or.inr ⟨h1, h2, he⟩
    · left
      unfold Mesh.edge
      exact vecGet_of_length_le _ _ _ (Nat.le_of_not_lt he)
  refine ⟨rfl, hadm.nodeEdges.numNodes, rfl, hadm.nodeEdges.len_edges, hadm.nodeEdges.len_num,
    fun n _ => (adm_length m hadm n).symm, hshape, ?_⟩
  intro n hn e hinc
  rcases hshape e with hm | ⟨_, _, he⟩
  · rw [hm] at hinc
    rcases hinc with h | h
    · rw [missingEdge_fst] at h; omega
    · rw [missingEdge_snd] at h; omega
  · exact hall n hn e he hinc

/-- In a state of the merging loop every non-missing edge endpoint is a node index. -/
theorem MergeInv_inRange (s : Mesh) (N E : Nat) (hinv : s.MergeInv N E) :
    s.EdgesInRange := by
  intro e he
  obtain ⟨i, hi, hie⟩ := vecGet_of_mem _ _ missingEdge he
  have hs := hinv.shape i
  unfold Mesh.edge at hs
  rw [hie] at hs
  rw [hinv.len_nodes]
  rcases hs with h | ⟨h1, h2, _⟩
  · rw [h]
    exact ⟨fun hh => absurd missingEdge_fst hh, fun hh => absurd missingEdge_snd hh⟩
  · exact ⟨fun _ => h1, fun _ => h2⟩

/-- The samples of a tree built from a vector are positions of the vector. -/
theorem collect_index (ps : List Point) (k : Nat) (x : Point × Nat)
    (h : x ∈ RTree.collect ps k) : k ≤ x.2 ∧ x.2 < k + ps.length := by
  induction ps generalizing k with
  | nil => simp [RTree.collect] at h
  | cons p ps ih =>
    unfold RTree.collect at h
    rw [List.length_cons]
    split_ifs at h
    · rcases List.mem_cons.1 h with h1 | h1
      · rw [h1]
        exact ⟨Nat.le_refl _, by omega⟩
      · have := ih (k + 1) h1
        omega
    · have := ih (k + 1) h
      omega

theorem BuildTree_index (t : RTree) (ps : List Point) (x : Point × Nat)
    (h : x ∈ (RTree.BuildTree t ps).m_points) : x.2 < ps.length := by
  have := collect_index ps 0 x h
  omega

/-- The loop "first filter the nodes in polygon": the entries of `originalNodeIndices` below the
number of filtered nodes are node indices, pairwise distinct. -/
theorem filterNodesInPolygon_spec (inPolygon : Point → Bool) (m : Mesh) :
    (∀ k, k < (m.filterNodesInPolygon inPolygon).1.length →
      vecGet (m.filterNodesInPolygon inPolygon).2 k sizetMissingValue < m.GetNumNodes) ∧
    (∀ k k', k < (m.filterNodesInPolygon inPolygon).1.length →
      k' < (m.filterNodesInPolygon inPolygon).1.length →
      vecGet (m.filterNodesInPolygon inPolygon).2 k sizetMissingValue =
        vecGet (m.filterNodesInPolygon inPolygon).2 k' sizetMissingValue → k = k') := by
  have key := foldl_range_invariant
    (fun j (s : List Point × List Nat × Nat) => s.2.2 ≤ j ∧ s.1.length = m.GetNumNodes ∧
      s.2.1.length = m.GetNumNodes ∧
      (∀ k, k < s.2.2 → vecGet s.2.1 k sizetMissingValue < j) ∧
      (∀ k k', k < k' → k' < s.2.2 →
        vecGet s.2.1 k sizetMissingValue < vecGet s.2.1 k' sizetMissingValue))
    (filterNodesStep inPolygon m)
    (List.replicate m.GetNumNodes missingPoint, List.replicate m.GetNumNodes sizetMissingValue, 0)
    m.GetNumNodes
    ⟨Nat.le_refl _, List.length_replicate _ _, List.length_replicate _ _,
      fun k hk => absurd hk (Nat.not_lt_zero k), fun k k' _ hk => absurd hk (Nat.not_lt_zero k')⟩
    (by
      rintro j ⟨fn, oi, cnt⟩ hj ⟨h1, h2, h3, h4, h5⟩
      simp only at h1 h2 h3 h4 h5
      unfold filterNodesStep
      dsimp only
      split_ifs
      · dsimp only
        have hc : cnt < oi.length := by omega
        refine ⟨by omega, by rw [List.length_set]; exact h2, by rw [List.length_set]; exact h3,
          ?_, ?_⟩
        · intro k hk
          rw [vecGet_set]
          by_cases hkc : cnt = k ∧ cnt < oi.length
          · rw [if_pos hkc]; omega
          · rw [if_neg hkc]
            have := h4 k (by
              rcases Nat.lt_or_ge k cnt with h | h
              · exact h
              · exact absurd ⟨by omega, hc⟩ hkc)
            omega
        · intro k k' hkk hk'
          rw [vecGet_set, vecGet_set]
          have d1 : ¬ (cnt = k ∧ cnt < oi.length) := fun h => by omega
          rw [if_neg d1]
          by_cases hkc : cnt = k' ∧ cnt < oi.length
          · rw [if_pos hkc]
            exact h4 k (by omega)
          · rw [if_neg hkc]
            exact h5 k k' hkk (by
              rcases Nat.lt_or_ge k' cnt with h | h
              · exact h
              · exact absurd ⟨by omega, hc⟩ hkc)
      · dsimp only
        exact ⟨by omega, h2, h3, fun k hk => Nat.lt_succ_of_lt (h4 k hk), h5⟩)
  obtain ⟨k1, k2, k3, k4, k5⟩ := key
  have hlen : (m.filterNodesInPolygon inPolygon).1.length =
      ((List.range m.GetNumNodes).foldl (filterNodesStep inPolygon m)
        (List.replicate m.GetNumNodes missingPoint,
          List.replicate m.GetNumNodes sizetMissingValue, 0)).2.2 := by
    unfold Mesh.filterNodesInPolygon
    dsimp only
    rw [vecResize_of_le _ _ _ (by rw [k2]; exact k1), List.length_take, k2]
    exact Nat.min_eq_left k1
  have horig : (m.filterNodesInPolygon inPolygon).2 =
      ((List.range m.GetNumNodes).foldl (filterNodesStep inPolygon m)
        (List.replicate m.GetNumNodes missingPoint,
          List.replicate m.GetNumNodes sizetMissingValue, 0)).2.1 := rfl
  rw [hlen, horig]
  refine ⟨k4, ?_⟩
  intro k k' hk hk' heq
  rcases Nat.lt_trichotomy k k' with h | h | h
  · have := k5 k k' h hk'
    omega
  · exact h
  · have := k5 k' k h hk
    omega

theorem mergeLoopAtEntry_succ (tq : TreeQueries) (inPolygon : Point → Bool) (m : Mesh)
    (i j : Nat) :
    m.mergeLoopAtEntry tq inPolygon i (j + 1) =
      mergeNeighbourStep tq (m.filterNodesInPolygon inPolygon).2 (m.mergeQueryAt tq inPolygon i) i
        (m.mergeLoopAtEntry tq inPolygon i j) j := by
  unfold Mesh.mergeLoopAtEntry
  rw [List.range_succ, List.foldl_append]
  rfl

theorem mergeLoopAt_succ (tq : TreeQueries) (inPolygon : Point → Bool) (m : Mesh) (i : Nat) :
    m.mergeLoopAt tq inPolygon (i + 1) =
      mergeNodeStep tq (m.filterNodesInPolygon inPolygon).1 (m.filterNodesInPolygon inPolygon).2
        (m.mergeLoopAt tq inPolygon i) i := by
  unfold Mesh.mergeLoopAt
  rw [List.range_succ, List.foldl_append]
  rfl

/-- The visit of the filtered node `i` when no exception has been raised: the inner loop runs
over the query made for `i` if it has more than one entry. -/
theorem mergeLoopAt_succ_of_none (tq : TreeQueries) (inPolygon : Point → Bool) (m : Mesh)
    (i : Nat) (h : (m.mergeLoopAt tq inPolygon i).2.2 = none) :
    m.mergeLoopAt tq inPolygon (i + 1) =
      if (m.mergeQueryAt tq inPolygon i).length > 1 then
        m.mergeLoopAtEntry tq inPolygon i (m.mergeQueryAt tq inPolygon i).length
      else m.mergeLoopAt tq inPolygon i := by
  rw [mergeLoopAt_succ]
  unfold mergeNodeStep
  rw [h]
  rfl

/-- One entry of the query made for the filtered node `i`, on a state of the merging loop in
which the nodes of the tree's samples other than `i` are as they were at the start: if the entry
is another sample of the tree, the node of `i` is merged into the node of the entry and `i` is
removed from the tree. -/
theorem mergeNeighbourStep_general (tq : TreeQueries) (m0 : Mesh)
    (orig query : List Nat) (i j N E F : Nat) (hN : N ≤ sizetMissingValue)
    (hlt : ∀ k, k < F → vecGet orig k sizetMissingValue < N)
    (hinj : ∀ k k', k < F → k' < F →
      vecGet orig k sizetMissingValue = vecGet orig k' sizetMissingValue → k = k')
    (hi : i < F) (S : Mesh × RTree × Option MeshError) (T0 : RTree)
    (herr : S.2.2 = none) (hinv : S.1.MergeInv N E)
    (halive : ∀ x ∈ T0.m_points, x.2 ≠ i → x.2 < F ∧
      vecGet S.1.m_nodes (vecGet orig x.2 sizetMissingValue) missingPoint =
        vecGet m0.m_nodes (vecGet orig x.2 sizetMissingValue) missingPoint)
    (hq : ∃ p, (p, vecGet query j 0) ∈ T0.m_points)
    (hne : vecGet query j 0 ≠ i)
    (hcap : vecGet S.1.m_nodesNumEdges (vecGet orig i sizetMissingValue) 0 +
      vecGet S.1.m_nodesNumEdges (vecGet orig (vecGet query j 0) sizetMissingValue) 0 ≤
        maximumNumberOfEdgesPerNode) :
    vecGet orig i sizetMissingValue ≠ vecGet orig (vecGet query j 0) sizetMissingValue ∧
    vecGet orig i sizetMissingValue < N ∧
    vecGet orig (vecGet query j 0) sizetMissingValue < N ∧
    ∃ s', mergeNeighbourStep tq orig query i S j = (s', tq.DeleteNode S.2.1 i, none) ∧
      S.1.MergeTwoNodes (vecGet orig i sizetMissingValue)
        (vecGet orig (vecGet query j 0) sizetMissingValue) = (s', none) ∧
      s'.MergeInv N E ∧
      s'.m_nodes = S.1.m_nodes.set (vecGet orig i sizetMissingValue) missingPoint ∧
      vecGet s'.m_nodes (vecGet orig (vecGet query j 0) sizetMissingValue) missingPoint =
        vecGet m0.m_nodes (vecGet orig (vecGet query j 0) sizetMissingValue) missingPoint ∧
      (∀ x ∈ T0.m_points, x.2 ≠ i →
        vecGet s'.m_nodes (vecGet orig x.2 sizetMissingValue) missingPoint =
          vecGet m0.m_nodes (vecGet orig x.2 sizetMissingValue) missingPoint) ∧
      ∀ e, ¬ S.1.joins e (vecGet orig i sizetMissingValue)
          (vecGet orig (vecGet query j 0) sizetMissingValue) →
        ((S.1.edge e).1 = vecGet orig i sizetMissingValue ∨
          (S.1.edge e).2 = vecGet orig i sizetMissingValue) →
        s'.edge e = repointEdge (vecGet orig i sizetMissingValue)
          (vecGet orig (vecGet query j 0) sizetMissingValue) (S.1.edge e) := by
  obtain ⟨p, hp⟩ := hq
  obtain ⟨hqF, hqalive⟩ := halive _ hp hne
  dsimp only at hqF hqalive
  have hab : vecGet orig i sizetMissingValue ≠
      vecGet orig (vecGet query j 0) sizetMissingValue :=
    fun h => hne (hinj _ _ hi hqF h).symm
  have ha := hlt i hi
  have hb := hlt _ hqF
  obtain ⟨s', h1, h2, h3, h4, h5⟩ := MergeTwoNodes_general S.1 N E hinv hN _ _ hab ha hb hcap
  have hkeep : ∀ u, u ≠ vecGet orig i sizetMissingValue →
      vecGet s'.m_nodes u missingPoint = vecGet S.1.m_nodes u missingPoint := by
    intro u hu
    rw [h3, vecGet_set]
    exact if_neg (fun h => hu h.1.symm)
  refine ⟨hab, ha, hb, s', ?_, h1, h2, h3, ?_, ?_, h5⟩
  · obtain ⟨s, t, err⟩ := S
    dsimp only at herr h1 ⊢
    subst herr
    unfold mergeNeighbourStep
    dsimp only
    rw [if_pos hne, h1]
  · rw [hkeep _ (Ne.symm hab)]
    exact hqalive
  · intro x hx hxi
    obtain ⟨hxF, hxalive⟩ := halive x hx hxi
    rw [hkeep _ (fun h => hxi (hinj _ _ hxF hi h))]
    exact hxalive

end meshkernel

namespace meshkernel

theorem mergeNeighbourStep_same (tq : TreeQueries) (orig query : List Nat) (i j : Nat)
    (S : Mesh × RTree × Option MeshError) (h : vecGet query j 0 = i) :
    mergeNeighbourStep tq orig query i S j = S := by
  obtain ⟨s, t, err⟩ := S
  unfold mergeNeighbourStep
  cases err with
  | some e => rfl
  | none =>
    dsimp only
    rw [if_neg (fun hh => hh h)]

/-- The inner loop of `MergeNodesInPolygon` for the filtered node `i`, entry by entry: no
exception is raised, the mesh stays a state of the merging loop, the tree only loses samples, and
the nodes of the samples other than `i` are as they were at the start. -/
theorem mergeInner_inv (tq : TreeQueries) (inPolygon : Point → Bool) (m : Mesh)
    (hN : m.m_nodes.length ≤ sizetMissingValue)
    (hnum : m.GetNumNodes = m.m_nodes.length)
    (hQ1 : ∀ t p r, ∀ k ∈ tq.NearestNeighborsOnSquaredDistance t p r, ∃ q, (q, k) ∈ t.m_points)
    (hQ2 : ∀ t i, ∀ x ∈ (tq.DeleteNode t i).m_points, x ∈ t.m_points ∧ x.2 ≠ i)
    (i : Nat) (hi : i < (m.filterNodesInPolygon inPolygon).1.length)
    (herr : (m.mergeLoopAt tq inPolygon i).2.2 = none)
    (hinv : (m.mergeLoopAt tq inPolygon i).1.MergeInv m.m_nodes.length m.m_edges.length)
    (halive : ∀ x ∈ (m.mergeLoopAt tq inPolygon i).2.1.m_points,
      x.2 < (m.filterNodesInPolygon inPolygon).1.length ∧
      vecGet (m.mergeLoopAt tq inPolygon i).1.m_nodes
          (vecGet (m.filterNodesInPolygon inPolygon).2 x.2 sizetMissingValue) missingPoint =
        vecGet m.m_nodes
          (vecGet (m.filterNodesInPolygon inPolygon).2 x.2 sizetMissingValue) missingPoint)
    (hcap : ∀ j, j < (m.mergeQueryAt tq inPolygon i).length →
      vecGet (m.mergeQueryAt tq inPolygon i) j 0 ≠ i →
      vecGet (m.mergeLoopAtEntry tq inPolygon i j).1.m_nodesNumEdges
          (vecGet (m.filterNodesInPolygon inPolygon).2 i sizetMissingValue) 0 +
        vecGet (m.mergeLoopAtEntry tq inPolygon i j).1.m_nodesNumEdges
          (vecGet (m.filterNodesInPolygon inPolygon).2
            (vecGet (m.mergeQueryAt tq inPolygon i) j 0) sizetMissingValue) 0 ≤
        maximumNumberOfEdgesPerNode) :
    ∀ j, j ≤ (m.mergeQueryAt tq inPolygon i).length →
      (m.mergeLoopAtEntry tq inPolygon i j).2.2 = none ∧
      (m.mergeLoopAtEntry tq inPolygon i j).1.MergeInv m.m_nodes.length m.m_edges.length ∧
      (∀ x ∈ (m.mergeLoopAtEntry tq inPolygon i j).2.1.m_points,
        x ∈ (m.mergeLoopAt tq inPolygon i).2.1.m_points) ∧
      (∀ x ∈ (m.mergeLoopAt tq inPolygon i).2.1.m_points, x.2 ≠ i →
        x.2 < (m.filterNodesInPolygon inPolygon).1.length ∧
        vecGet (m.mergeLoopAtEntry tq inPolygon i j).1.m_nodes
            (vecGet (m.filterNodesInPolygon inPolygon).2 x.2 sizetMissingValue) missingPoint =
          vecGet m.m_nodes
            (vecGet (m.filterNodesInPolygon inPolygon).2 x.2 sizetMissingValue) missingPoint) ∧
      (m.mergeLoopAtEntry tq inPolygon i j = m.mergeLoopAt tq inPolygon i ∨
        ∀ x ∈ (m.mergeLoopAtEntry tq inPolygon i j).2.1.m_points, x.2 ≠ i) := by
  obtain ⟨hlt, hinj⟩ := filterNodesInPolygon_spec inPolygon m
  rw [hnum] at hlt
  intro j
  induction j with
  | zero =>
    intro _
    have h0 : m.mergeLoopAtEntry tq inPolygon i 0 = m.mergeLoopAt tq inPolygon i := rfl
    rw [h0]
    exact ⟨herr, hinv, fun x hx => hx, fun x hx _ => halive x hx, Or.inl rfl⟩
  | succ j ih =>
    intro hj
    obtain ⟨a1, a2, a3, a4, a5⟩ := ih (by omega)
    rw [mergeLoopAtEntry_succ]
    by_cases hq : vecGet (m.mergeQueryAt tq inPolygon i) j 0 = i
    · rw [mergeNeighbourStep_same _ _ _ _ _ _ hq]
      exact ⟨a1, a2, a3, a4, a5⟩
    · have hmem : vecGet (m.mergeQueryAt tq inPolygon i) j 0 ∈ m.mergeQueryAt tq inPolygon i :=
        vecGet_mem _ _ _ (by omega)
      have hsample : ∃ p, (p, vecGet (m.mergeQueryAt tq inPolygon i) j 0) ∈
          (m.mergeLoopAt tq inPolygon i).2.1.m_points := hQ1 _ _ _ _ hmem
      obtain ⟨_, _, _, s', g1, _, g3, _, _, g6, _⟩ := mergeNeighbourStep_general tq m
        (m.filterNodesInPolygon inPolygon).2 (m.mergeQueryAt tq inPolygon i) i j
        m.m_nodes.length m.m_edges.length (m.filterNodesInPolygon inPolygon).1.length hN hlt hinj
        hi (m.mergeLoopAtEntry tq inPolygon i j) (m.mergeLoopAt tq inPolygon i).2.1 a1 a2 a4
        hsample hq (hcap j (by omega) hq)
      rw [g1]
      refine ⟨rfl, g3, ?_, ?_, Or.inr ?_⟩
      · intro x hx
        exact a3 x (hQ2 _ _ x hx).1
      · intro x hx hxi
        exact ⟨(a4 x hx hxi).1, g6 x hx hxi⟩
      · intro x hx
        exact (hQ2 _ _ x hx).2

/-- The loop "merge the closest nodes" of `MergeNodesInPolygon`, visit by visit: no exception is
raised, the mesh stays a state of the merging loop, and the nodes of the samples of the tree are
as they were at the start. -/
theorem mergeOuter_inv (tq : TreeQueries) (inPolygon : Point → Bool) (m : Mesh)
    (hadm : m.AdministeredEdges) (hN : m.m_nodes.length ≤ sizetMissingValue)
    (hall : ∀ n, n < m.m_nodes.length → m.listsAllEdgesAt n)
    (hQ1 : ∀ t p r, ∀ k ∈ tq.NearestNeighborsOnSquaredDistance t p r, ∃ q, (q, k) ∈ t.m_points)
    (hQ2 : ∀ t i, ∀ x ∈ (tq.DeleteNode t i).m_points, x ∈ t.m_points ∧ x.2 ≠ i)
    (hcap : ∀ i, i < (m.filterNodesInPolygon inPolygon).1.length →
      ∀ j, j < (m.mergeQueryAt tq inPolygon i).length →
      1 < (m.mergeQueryAt tq inPolygon i).length →
      vecGet (m.mergeQueryAt tq inPolygon i) j 0 ≠ i →
      vecGet (m.mergeLoopAtEntry tq inPolygon i j).1.m_nodesNumEdges
          (vecGet (m.filterNodesInPolygon inPolygon).2 i sizetMissingValue) 0 +
        vecGet (m.mergeLoopAtEntry tq inPolygon i j).1.m_nodesNumEdges
          (vecGet (m.filterNodesInPolygon inPolygon).2
            (vecGet (m.mergeQueryAt tq inPolygon i) j 0) sizetMissingValue) 0 ≤
        maximumNumberOfEdgesPerNode) :
    ∀ i, i ≤ (m.filterNodesInPolygon inPolygon).1.length →
      (m.mergeLoopAt tq inPolygon i).2.2 = none ∧
      (m.mergeLoopAt tq inPolygon i).1.MergeInv m.m_nodes.length m.m_edges.length ∧
      ∀ x ∈ (m.mergeLoopAt tq inPolygon i).2.1.m_points,
        x.2 < (m.filterNodesInPolygon inPolygon).1.length ∧
        vecGet (m.mergeLoopAt tq inPolygon i).1.m_nodes
            (vecGet (m.filterNodesInPolygon inPolygon).2 x.2 sizetMissingValue) missingPoint =
          vecGet m.m_nodes
            (vecGet (m.filterNodesInPolygon inPolygon).2 x.2 sizetMissingValue) missingPoint := by
  have hnum : m.GetNumNodes = m.m_nodes.length := hadm.nodeEdges.numNodes
  intro i
  induction i with
  | zero =>
    intro _
    have h0 : m.mergeLoopAt tq inPolygon 0 =
        (m, RTree.BuildTree ⟨[]⟩ (m.filterNodesInPolygon inPolygon).1, none) := rfl
    rw [h0]
    exact ⟨rfl, MergeInv_of_administered m hadm hN hall,
      fun x hx => ⟨BuildTree_index ⟨[]⟩ (m.filterNodesInPolygon inPolygon).1 x hx, rfl⟩⟩
  | succ i ih =>
    intro hi
    obtain ⟨a1, a2, a3⟩ := ih (by omega)
    rw [mergeLoopAt_succ_of_none tq inPolygon m i a1]
    by_cases hlen : (m.mergeQueryAt tq inPolygon i).length > 1
    · rw [if_pos hlen]
      obtain ⟨b1, b2, b3, b4, b5⟩ := mergeInner_inv tq inPolygon m hN hnum hQ1 hQ2 i (by omega)
        a1 a2 a3 (fun j hj hq => hcap i (by omega) j hj hlen hq) _ (Nat.le_refl _)
      refine ⟨b1, b2, ?_⟩
      intro x hx
      rcases b5 with h | h
      · rw [h] at hx ⊢
        exact a3 x hx
      · exact b4 x (b3 x hx) (h x hx)
    · rw [if_neg hlen]
      exact ⟨a1, a2, a3⟩

/-- The value of `MergeNodesInPolygon` from the state that the merging loop leaves. -/
theorem MergeNodesInPolygon_of_loop (ops : Operations) (tq : TreeQueries)
    (inPolygon : Point → Bool) (m : Mesh) (m' : Mesh)
    (herr : (m.mergeLoopAt tq inPolygon (m.filterNodesInPolygon inPolygon).1.length).2.2 = none)
    (hadm : (m.mergeLoopAt tq inPolygon
      (m.filterNodesInPolygon inPolygon).1.length).1.Administrate ops
        AdministrationOptions.AdministrateMeshEdges = .ok m') :
    m.MergeNodesInPolygon ops tq inPolygon = (m', none) := by
  have h : m.MergeNodesInPolygon ops tq inPolygon =
      match (m.mergeLoopAt tq inPolygon (m.filterNodesInPolygon inPolygon).1.length).2.2 with
      | some err =>
        ((m.mergeLoopAt tq inPolygon (m.filterNodesInPolygon inPolygon).1.length).1, some err)
      | none =>
        match (m.mergeLoopAt tq inPolygon
          (m.filterNodesInPolygon inPolygon).1.length).1.Administrate ops
            AdministrationOptions.AdministrateMeshEdges with
        | .error err =>
          ((m.mergeLoopAt tq inPolygon (m.filterNodesInPolygon inPolygon).1.length).1, some err)
        | .ok m1 => (m1, none) := rfl
  rw [h, herr]
  dsimp only
  rw [hadm]

/-- The loop "first filter the nodes in polygon": every entry of `originalNodeIndices` below the
number of filtered nodes is the index of a node in the polygon, and `filteredNodes` holds the
coordinates of that node. -/
theorem filterNodesInPolygon_inPolygon (inPolygon : Point → Bool) (m : Mesh) :
    ∀ k, k < (m.filterNodesInPolygon inPolygon).1.length →
      inPolygon (vecGet m.m_nodes
        (vecGet (m.filterNodesInPolygon inPolygon).2 k sizetMissingValue) missingPoint) = true ∧
      vecGet (m.filterNodesInPolygon inPolygon).1 k missingPoint =
        vecGet m.m_nodes
          (vecGet (m.filterNodesInPolygon inPolygon).2 k sizetMissingValue) missingPoint := by
  have key := foldl_range_invariant
    (fun j (s : List Point × List Nat × Nat) => s.2.2 ≤ j ∧ s.1.length = m.GetNumNodes ∧
      s.2.1.length = m.GetNumNodes ∧
      ∀ k, k < s.2.2 →
        inPolygon (vecGet m.m_nodes (vecGet s.2.1 k sizetMissingValue) missingPoint) = true ∧
        vecGet s.1 k missingPoint =
          vecGet m.m_nodes (vecGet s.2.1 k sizetMissingValue) missingPoint)
    (filterNodesStep inPolygon m)
    (List.replicate m.GetNumNodes missingPoint, List.replicate m.GetNumNodes sizetMissingValue, 0)
    m.GetNumNodes
    ⟨Nat.le_refl _, List.length_replicate _ _, List.length_replicate _ _,
      fun k hk => absurd hk (Nat.not_lt_zero k)⟩
    (by
      rintro j ⟨fn, oi, cnt⟩ hj ⟨h1, h2, h3, h4⟩
      simp only at h1 h2 h3 h4
      unfold filterNodesStep
      dsimp only
      by_cases hp : inPolygon (vecGet m.m_nodes j missingPoint) = true
      · rw [if_pos hp]
        dsimp only
        have hc : cnt < oi.length := by omega
        have hc' : cnt < fn.length := by omega
        refine ⟨by omega, by rw [List.length_set]; exact h2, by rw [List.length_set]; exact h3,
          ?_⟩
        intro k hk
        rw [vecGet_set, vecGet_set]
        by_cases hkc : cnt = k
        · rw [if_pos ⟨hkc, hc⟩, if_pos ⟨hkc, hc'⟩]
          exact ⟨hp, rfl⟩
        · rw [if_neg (fun h => hkc h.1), if_neg (fun h => hkc h.1)]
          exact h4 k (by omega)
      · rw [if_neg hp]
        dsimp only
        exact ⟨by omega, h2, h3, h4⟩)
  obtain ⟨k1, k2, _, k4⟩ := key
  have hfn : (m.filterNodesInPolygon inPolygon).1 =
      (((List.range m.GetNumNodes).foldl (filterNodesStep inPolygon m)
        (List.replicate m.GetNumNodes missingPoint,
          List.replicate m.GetNumNodes sizetMissingValue, 0)).1).take
        ((List.range m.GetNumNodes).foldl (filterNodesStep inPolygon m)
        (List.replicate m.GetNumNodes missingPoint,
          List.replicate m.GetNumNodes sizetMissingValue, 0)).2.2 := by
    unfold Mesh.filterNodesInPolygon
    dsimp only
    rw [vecResize_of_le _ _ _ (by rw [k2]; exact k1)]
  have horig : (m.filterNodesInPolygon inPolygon).2 =
      ((List.range m.GetNumNodes).foldl (filterNodesStep inPolygon m)
        (List.replicate m.GetNumNodes missingPoint,
          List.replicate m.GetNumNodes sizetMissingValue, 0)).2.1 := rfl
  rw [hfn, horig]
  intro k hk
  rw [List.length_take] at hk
  have hk' := k4 k (by omega)
  refine ⟨hk'.1, ?_⟩
  rw [← hk'.2]
  unfold vecGet
  rw [List.getD_eq_getElem?_getD, List.getD_eq_getElem?_getD, List.getElem?_take_of_lt (by omega)]

/-- The exhaustive search answers only with positions of samples that the tree holds. -/
theorem exampleTreeQueries_answers (t : RTree) (p : Point) (r : ℚ) :
    ∀ k ∈ exampleTreeQueries.NearestNeighborsOnSquaredDistance t p r,
      ∃ q, (q, k) ∈ t.m_points := by
  intro k hk
  unfold exampleTreeQueries at hk
  dsimp only at hk
  rw [List.mem_map] at hk
  obtain ⟨x, hx, rfl⟩ := hk
  exact ⟨x.1, (List.mem_filter.mp hx).1⟩

/-- Removal by exhaustive search keeps samples of the tree only, and none at the position
removed. -/
theorem exampleTreeQueries_delete (t : RTree) (i : Nat) :
    ∀ x ∈ (exampleTreeQueries.DeleteNode t i).m_points, x ∈ t.m_points ∧ x.2 ≠ i := by
  intro x hx
  unfold exampleTreeQueries at hx
  dsimp only at hx
  rw [List.mem_filter] at hx
  exact ⟨hx.1, of_decide_eq_true hx.2⟩

end meshkernel

namespace meshkernel

/-! ## Claims on stage 1 -/

/-- C1: for every mesh whose non-missing edge endpoints are node indices, after
`DeleteInvalidNodesAndEdges` every remaining edge has two non-missing endpoints, both smaller than
the number of remaining nodes; every remaining node has valid coordinates; and `m_numNodes`,
`m_numEdges` are the lengths of the node and edge arrays. -/
theorem DeleteInvalidNodesAndEdges_invariants (m : Mesh) (hr : m.EdgesInRange)
    (hn : m.m_nodes.length ≤ sizetMissingValue) :
    (∀ e ∈ m.DeleteInvalidNodesAndEdges.m_edges,
      e.1 ≠ sizetMissingValue ∧ e.2 ≠ sizetMissingValue ∧
      e.1 < m.DeleteInvalidNodesAndEdges.m_nodes.length ∧
      e.2 < m.DeleteInvalidNodesAndEdges.m_nodes.length) ∧
    (∀ p ∈ m.DeleteInvalidNodesAndEdges.m_nodes, p.IsValid = true) ∧
    m.DeleteInvalidNodesAndEdges.m_numNodes = m.DeleteInvalidNodesAndEdges.m_nodes.length ∧
    m.DeleteInvalidNodesAndEdges.m_numEdges = m.DeleteInvalidNodesAndEdges.m_edges.length := by
  rw [DeleteInvalidNodesAndEdges_eq m hr hn]
  refine ⟨?_, ?_, rfl, rfl⟩
  · intro e he
    simp only [Mesh.survivingEdges, List.mem_map, List.mem_filter] at he
    obtain ⟨e0, ⟨_, hs⟩, rfl⟩ := he
    have hmiss := edgeIsMissing_eq_false.mp (edgeIsMissing_remap m hn e0 hs)
    simp only [Mesh.edgeSurvives, Bool.and_eq_true] at hs
    exact ⟨hmiss.1, hmiss.2, remap_lt_survivors m _ hs.1.2, remap_lt_survivors m _ hs.2⟩
  · intro p hp
    simp only [Mesh.survivingNodes, List.mem_map, List.mem_filter] at hp
    obtain ⟨k, ⟨_, hk⟩, rfl⟩ := hp
    simp only [Mesh.nodeSurvives, Bool.and_eq_true] at hk
    exact hk.1

/-- C1 at `exampleMesh`. -/
theorem DeleteInvalidNodesAndEdges_invariants_witness :
    exampleMesh.EdgesInRange ∧ exampleMesh.m_nodes.length ≤ sizetMissingValue ∧
    (∀ e ∈ exampleMesh.DeleteInvalidNodesAndEdges.m_edges,
      e.1 ≠ sizetMissingValue ∧ e.2 ≠ sizetMissingValue ∧
      e.1 < exampleMesh.DeleteInvalidNodesAndEdges.m_nodes.length ∧
      e.2 < exampleMesh.DeleteInvalidNodesAndEdges.m_nodes.length) ∧
    (∀ p ∈ exampleMesh.DeleteInvalidNodesAndEdges.m_nodes, p.IsValid = true) ∧
    exampleMesh.DeleteInvalidNodesAndEdges.m_numNodes =
      exampleMesh.DeleteInvalidNodesAndEdges.m_nodes.length ∧
    exampleMesh.DeleteInvalidNodesAndEdges.m_numEdges =
      exampleMesh.DeleteInvalidNodesAndEdges.m_edges.length :=
  ⟨by decide, by decide,
    DeleteInvalidNodesAndEdges_invariants exampleMesh (by decide) (by decide)⟩

/-- C2: `DeleteInvalidNodesAndEdges` is a stable remap.  The node array becomes the surviving
nodes in their original order, a node surviving when its coordinates are valid and an edge with two
non-missing endpoints references it; the edge array becomes the surviving edges in their original
order, an edge surviving iff both endpoints are non-missing and both endpoint nodes survive, each
rewritten from `(u, v)` to `(r u, r v)` with `r k` the number of surviving nodes of original index
smaller than `k`. -/
theorem DeleteInvalidNodesAndEdges_stable_remap (m : Mesh) (hr : m.EdgesInRange)
    (hn : m.m_nodes.length ≤ sizetMissingValue) :
    m.DeleteInvalidNodesAndEdges.m_nodes =
      ((List.range m.m_nodes.length).filter (fun k => m.nodeSurvives k)).map
        (fun k => vecGet m.m_nodes k missingPoint) ∧
    m.DeleteInvalidNodesAndEdges.m_edges =
      (m.m_edges.filter (fun e =>
        !edgeIsMissing e && m.nodeSurvives e.1 && m.nodeSurvives e.2)).map
        (fun e => ((List.range e.1).countP (fun k => m.nodeSurvives k),
          (List.range e.2).countP (fun k => m.nodeSurvives k))) := by
  rw [DeleteInvalidNodesAndEdges_eq m hr hn]
  exact ⟨rfl, rfl⟩

/-- C2 at `exampleMesh`: nodes 0, 1, 3, 4 survive and become 0, 1, 2, 3. -/
theorem DeleteInvalidNodesAndEdges_stable_remap_witness :
    exampleMesh.EdgesInRange ∧ exampleMesh.m_nodes.length ≤ sizetMissingValue ∧
    exampleMesh.DeleteInvalidNodesAndEdges.m_nodes = [⟨0, 0⟩, ⟨1, 0⟩, ⟨1, 1⟩, ⟨0, 1⟩] ∧
    exampleMesh.DeleteInvalidNodesAndEdges.m_edges = [(0, 1), (1, 2), (2, 3), (3, 0)] :=
  ⟨by decide, by decide,
    (DeleteInvalidNodesAndEdges_stable_remap exampleMesh (by decide) (by decide)).1.trans
      (by decide),
    (DeleteInvalidNodesAndEdges_stable_remap exampleMesh (by decide) (by decide)).2.trans
      (by decide)⟩

/-- C4, the code at `orphanMesh`: the edge `(0, 1)` marks node 0 as connected, is then dropped
because node 1 has no coordinates, and node 0 remains although no remaining edge references it. -/
theorem DeleteInvalidNodesAndEdges_leaves_orphan :
    orphanMesh.EdgesInRange ∧
    orphanMesh.DeleteInvalidNodesAndEdges.m_nodes = [⟨0, 0⟩] ∧
    orphanMesh.DeleteInvalidNodesAndEdges.m_edges = [] ∧
    ¬ (∀ k, k < orphanMesh.DeleteInvalidNodesAndEdges.m_nodes.length →
        ∃ e ∈ orphanMesh.DeleteInvalidNodesAndEdges.m_edges, e.1 = k ∨ e.2 = k) := by
  refine ⟨by decide, by decide, by decide, ?_⟩
  intro h
  obtain ⟨e, he, _⟩ := h 0 (by decide)
  have : orphanMesh.DeleteInvalidNodesAndEdges.m_edges = [] := by decide
  rw [this] at he
  exact absurd he (List.not_mem_nil e)

end meshkernel

namespace meshkernel

/-! ## Claims on the node tables -/

/-- C5: after `NodeAdministration`, run as `Administrate` runs it (tables freshly reset, edges in
range), for every node `n` the list `m_nodesEdges[n]` has no duplicate edge index, at most
`maximumNumberOfEdgesPerNode` entries, length `m_nodesNumEdges[n]`, only edges with `n` as an
endpoint, and at most one edge per neighbouring node. -/
theorem NodeAdministration_nodeEdges (m : Mesh) (hr : m.EdgesInRange)
    (hN : m.m_numNodes = m.m_nodes.length) (hE : m.m_numEdges = m.m_edges.length) :
    ∀ n, n < m.resetNodeTables.NodeAdministration.GetNumNodes →
      (vecGet m.resetNodeTables.NodeAdministration.m_nodesEdges n []).Nodup ∧
      (vecGet m.resetNodeTables.NodeAdministration.m_nodesEdges n []).length
        ≤ maximumNumberOfEdgesPerNode ∧
      (vecGet m.resetNodeTables.NodeAdministration.m_nodesEdges n []).length
        = vecGet m.resetNodeTables.NodeAdministration.m_nodesNumEdges n 0 ∧
      (∀ e ∈ vecGet m.resetNodeTables.NodeAdministration.m_nodesEdges n [],
        (vecGet m.m_edges e missingEdge).1 = n ∨ (vecGet m.m_edges e missingEdge).2 = n) ∧
      (∀ e₁ ∈ vecGet m.resetNodeTables.NodeAdministration.m_nodesEdges n [],
        ∀ e₂ ∈ vecGet m.resetNodeTables.NodeAdministration.m_nodesEdges n [],
        OtherNodeOfEdge (vecGet m.m_edges e₁ missingEdge) n =
          OtherNodeOfEdge (vecGet m.m_edges e₂ missingEdge) n → e₁ = e₂) := by
  obtain ⟨hok, hsame⟩ := NodeAdministration_ok m hr hN hE
  obtain ⟨_, hedges, _⟩ := sameButNodeTables_fields m _ hsame
  generalize m.resetNodeTables.NodeAdministration = m' at hok hsame hedges
  intro n hn
  have hn' : n < m'.m_nodes.length := by
    rw [← hok.numNodes]; exact hn
  obtain ⟨h1, h2⟩ := hok.ok n hn'
  have hedge : ∀ e, m'.edge e = vecGet m.m_edges e missingEdge := by
    intro e; unfold Mesh.edge; rw [hedges]
  simp only [hedge] at h1 h2
  refine ⟨List.Nodup.of_map _ h2, ?_, hok.length_eq n hn', fun e he => (h1 e he).2.2, ?_⟩
  · rw [hok.length_eq n hn']; exact hok.cap n hn'
  · intro e₁ he₁ e₂ he₂ h
    exact List.inj_on_of_nodup_map h2 he₁ he₂ h

/-- C5 at the two triangles of scenario S2 after stage 1. -/
theorem NodeAdministration_nodeEdges_witness :
    twoTrianglesMesh.DeleteInvalidNodesAndEdges.EdgesInRange ∧
    twoTrianglesMesh.DeleteInvalidNodesAndEdges.m_numNodes =
      twoTrianglesMesh.DeleteInvalidNodesAndEdges.m_nodes.length ∧
    twoTrianglesMesh.DeleteInvalidNodesAndEdges.m_numEdges =
      twoTrianglesMesh.DeleteInvalidNodesAndEdges.m_edges.length ∧
    (vecGet twoTrianglesMesh.DeleteInvalidNodesAndEdges.resetNodeTables.NodeAdministration.m_nodesEdges
      1 []).Nodup :=
  ⟨by decide, by decide, by decide,
    (NodeAdministration_nodeEdges twoTrianglesMesh.DeleteInvalidNodesAndEdges (by decide)
      (by decide) (by decide) 1 (by decide)).1⟩

/-! ## Claims on the face tables -/

/-- C7: `Administrate` with faces returns and, for every edge `e` of the mesh it leaves,
`m_edgesNumFaces[e]` is at most 2 and is the number of faces whose edge cycle contains `e`, and the
first `m_edgesNumFaces[e]` entries of `m_edgesFaces[e]` are exactly those faces, in increasing
order; so, when face discovery has run, every face is listed at each edge of its cycle. -/
theorem Administrate_edgesFaces (ops : Operations) (m : Mesh) (hr : m.EdgesInRange)
    (hn : m.m_nodes.length ≤ sizetMissingValue) :
    ∃ m', m.Administrate ops AdministrationOptions.AdministrateMeshEdgesAndFaces = .ok m' ∧
      (∀ e, e < m'.GetNumEdges →
        vecGet m'.m_edgesNumFaces e 0 ≤ 2 ∧
        vecGet m'.m_edgesNumFaces e 0 = ((List.range m'.GetNumFaces).filter
          (fun f => decide (e ∈ vecGet m'.m_facesEdges f []))).length ∧
        (vecGet m'.m_edgesFaces e []).take (vecGet m'.m_edgesNumFaces e 0) =
          (List.range m'.GetNumFaces).filter
            (fun f => decide (e ∈ vecGet m'.m_facesEdges f []))) ∧
      (m'.GetNumEdges = 0 ∨ ∀ f, f < m'.GetNumFaces → ∀ e ∈ vecGet m'.m_facesEdges f [],
        f ∈ (vecGet m'.m_edgesFaces e []).take (vecGet m'.m_edgesNumFaces e 0)) := by
  obtain ⟨m', h, _, _, hN, hE, hrange, hcase⟩ := Administrate_faces_ok ops m hr hn
  refine ⟨m', h, ?_, ?_⟩
  · intro e he
    rcases hcase with hempty | hadm
    · have := numEdges_zero_of_empty m' hN hE hrange hempty
      unfold Mesh.GetNumEdges at he
      rw [this] at he
      exact absurd he (Nat.not_lt_zero e)
    · have he' : e < m'.m_edges.length := by rw [← hE]; exact he
      have hcount := hadm.faces.count e he'
      have hle := hadm.faces.count_le e he'
      refine ⟨hle, ?_, hcount⟩
      have := congrArg List.length hcount
      rw [List.length_take, hadm.faces.slots e he', Nat.min_eq_left hle] at this
      exact this
  · rcases hcase with hempty | hadm
    · exact Or.inl (numEdges_zero_of_empty m' hN hE hrange hempty)
    · right
      intro f hf e he
      have he' : e < m'.m_edges.length := (hadm.faces.faces f hf).edges_lt e he
      rw [hadm.faces.count e he']
      unfold Mesh.facesOfEdge
      rw [List.mem_filter]
      exact ⟨List.mem_range.mpr hf, by simpa using he⟩

/-- C7 at the two triangles of scenario S2. -/
theorem Administrate_edgesFaces_witness :
    twoTrianglesMesh.EdgesInRange ∧ twoTrianglesMesh.m_nodes.length ≤ sizetMissingValue ∧
    ∃ m', twoTrianglesMesh.Administrate exampleOperations
        AdministrationOptions.AdministrateMeshEdgesAndFaces = .ok m' ∧
      (∀ e, e < m'.GetNumEdges →
        vecGet m'.m_edgesNumFaces e 0 ≤ 2 ∧
        vecGet m'.m_edgesNumFaces e 0 = ((List.range m'.GetNumFaces).filter
          (fun f => decide (e ∈ vecGet m'.m_facesEdges f []))).length ∧
        (vecGet m'.m_edgesFaces e []).take (vecGet m'.m_edgesNumFaces e 0) =
          (List.range m'.GetNumFaces).filter
            (fun f => decide (e ∈ vecGet m'.m_facesEdges f []))) ∧
      (m'.GetNumEdges = 0 ∨ ∀ f, f < m'.GetNumFaces → ∀ e ∈ vecGet m'.m_facesEdges f [],
        f ∈ (vecGet m'.m_edgesFaces e []).take (vecGet m'.m_edgesNumFaces e 0)) :=
  ⟨by decide, by decide,
    Administrate_edgesFaces exampleOperations twoTrianglesMesh (by decide) (by decide)⟩

/-- C8: `Administrate` with faces returns and, when face discovery has run, every face `f` has
`m_facesNodes[f]` and `m_facesEdges[f]` of the same length, between 3 and
`maximumNumberOfEdgesPerFace`, `m_numFacesNodes[f]` is that length, and the nodes of
`m_facesNodes[f]` are pairwise distinct. -/
theorem FindFaces_face_shape (ops : Operations) (m : Mesh) (hr : m.EdgesInRange)
    (hn : m.m_nodes.length ≤ sizetMissingValue) :
    ∃ m', m.Administrate ops AdministrationOptions.AdministrateMeshEdgesAndFaces = .ok m' ∧
      (m'.GetNumEdges = 0 ∨ ∀ f, f < m'.GetNumFaces →
        (vecGet m'.m_facesNodes f []).length = (vecGet m'.m_facesEdges f []).length ∧
        3 ≤ (vecGet m'.m_facesNodes f []).length ∧
        (vecGet m'.m_facesNodes f []).length ≤ maximumNumberOfEdgesPerFace ∧
        vecGet m'.m_numFacesNodes f 0 = (vecGet m'.m_facesNodes f []).length ∧
        (vecGet m'.m_facesNodes f []).Nodup) := by
  obtain ⟨m', h, _, _, hN, hE, hrange, hcase⟩ := Administrate_faces_ok ops m hr hn
  refine ⟨m', h, ?_⟩
  rcases hcase with hempty | hadm
  · exact Or.inl (numEdges_zero_of_empty m' hN hE hrange hempty)
  · right
    intro f hf
    have hface := hadm.faces.faces f hf
    refine ⟨hface.len, hface.three, hface.six, ?_, hface.nodup_nodes⟩
    rw [hadm.numFacesNodes]
    exact vecGet_map_range _ _ _ _ hf

/-- C8 at the two triangles of scenario S2. -/
theorem FindFaces_face_shape_witness :
    twoTrianglesMesh.EdgesInRange ∧ twoTrianglesMesh.m_nodes.length ≤ sizetMissingValue ∧
    ∃ m', twoTrianglesMesh.Administrate exampleOperations
        AdministrationOptions.AdministrateMeshEdgesAndFaces = .ok m' ∧
      (m'.GetNumEdges = 0 ∨ ∀ f, f < m'.GetNumFaces →
        (vecGet m'.m_facesNodes f []).length = (vecGet m'.m_facesEdges f []).length ∧
        3 ≤ (vecGet m'.m_facesNodes f []).length ∧
        (vecGet m'.m_facesNodes f []).length ≤ maximumNumberOfEdgesPerFace ∧
        vecGet m'.m_numFacesNodes f 0 = (vecGet m'.m_facesNodes f []).length ∧
        (vecGet m'.m_facesNodes f []).Nodup) :=
  ⟨by decide, by decide,
    FindFaces_face_shape exampleOperations twoTrianglesMesh (by decide) (by decide)⟩

/-- C9: when `FaceAreaAndCenterOfMass` reports counter-clockwise exactly for a positive signed
area, `Administrate` with faces returns and, when face discovery has run, the signed area that
`FaceAreaAndCenterOfMass` computes for the closed ring of every face is strictly positive. -/
theorem FindFaces_positive_area (ops : Operations) (m : Mesh) (hr : m.EdgesInRange)
    (hn : m.m_nodes.length ≤ sizetMissingValue)
    (hccw : ∀ ring projection, (ops.FaceAreaAndCenterOfMass ring projection).2.2 = true ↔
      0 < (ops.FaceAreaAndCenterOfMass ring projection).1) :
    ∃ m', m.Administrate ops AdministrationOptions.AdministrateMeshEdgesAndFaces = .ok m' ∧
      (m'.GetNumEdges = 0 ∨ ∀ f, f < m'.GetNumFaces →
        0 < (ops.FaceAreaAndCenterOfMass (m'.ComputeFaceClosedPolygon f) m'.m_projection).1) := by
  obtain ⟨m', h, _, _, hN, hE, hrange, hcase⟩ := Administrate_faces_ok ops m hr hn
  refine ⟨m', h, ?_⟩
  rcases hcase with hempty | hadm
  · exact Or.inl (numEdges_zero_of_empty m' hN hE hrange hempty)
  · right
    intro f hf
    have hface := hadm.faces.faces f hf
    have hnum : m'.GetNumFaceEdges f = (vecGet m'.m_facesNodes f []).length := by
      unfold Mesh.GetNumFaceEdges
      rw [hadm.numFacesNodes]
      exact vecGet_map_range _ _ _ _ hf
    rw [ComputeFaceClosedPolygon_eq m' f hnum]
    exact (hccw _ _).mp hface.ccw

/-- C9 at the two triangles of scenario S2, with the shoelace area. -/
theorem FindFaces_positive_area_witness :
    twoTrianglesMesh.EdgesInRange ∧ twoTrianglesMesh.m_nodes.length ≤ sizetMissingValue ∧
    (∀ ring projection,
      (exampleOperations.FaceAreaAndCenterOfMass ring projection).2.2 = true ↔
        0 < (exampleOperations.FaceAreaAndCenterOfMass ring projection).1) ∧
    ∃ m', twoTrianglesMesh.Administrate exampleOperations
        AdministrationOptions.AdministrateMeshEdgesAndFaces = .ok m' ∧
      (m'.GetNumEdges = 0 ∨ ∀ f, f < m'.GetNumFaces →
        0 < (exampleOperations.FaceAreaAndCenterOfMass (m'.ComputeFaceClosedPolygon f)
          m'.m_projection).1) :=
  ⟨by decide, by decide,
    fun ring projection => by
      simp [exampleOperations, cartesianFaceAreaAndCenterOfMass],
    FindFaces_positive_area exampleOperations twoTrianglesMesh (by decide) (by decide)
      (fun ring projection => by simp [exampleOperations, cartesianFaceAreaAndCenterOfMass])⟩

/-! ## Claim on idempotence -/

/-- C3, the code at `orphanMesh`: the first `Administrate` leaves node `(0, 0)` and no edge, the
second one removes that node, so two calls do not leave the state of one call. -/
theorem Administrate_twice_differs (ops : Operations) (option : AdministrationOptions) :
    orphanMesh.EdgesInRange ∧
    ∃ m1 m2, orphanMesh.Administrate ops option = .ok m1 ∧ m1.Administrate ops option = .ok m2 ∧
      m1.m_nodes = [⟨0, 0⟩] ∧ m1.m_numNodes = 1 ∧ m2.m_nodes = [] ∧ m2.m_numNodes = 0 ∧
      m1 ≠ m2 := by
  refine ⟨by decide, ?_⟩
  cases option
  · refine ⟨_, _, rfl, rfl, rfl, rfl, rfl, rfl, ?_⟩
    intro h
    have h' : (1 : Nat) = 0 := congrArg Mesh.m_numNodes h
    exact absurd h' (by decide)
  · refine ⟨_, _, rfl, rfl, rfl, rfl, rfl, rfl, ?_⟩
    intro h
    have h' : (1 : Nat) = 0 := congrArg Mesh.m_numNodes h
    exact absurd h' (by decide)

end meshkernel

namespace meshkernel

/-! ## Claim on the angular sort -/

/-- C6, the code at `shortEdgeMesh`: `Administrate` leaves the edges of node 0 in the order
`[0, 2, 1]`, which is ascending in the key of the code (`0, 1, 3`: the short edge 1 is given a
quarter turn) and is not ascending in the plain `atan2` angle of the outward direction relative
to the first edge (`0, 1, 0`). -/
theorem SortEdges_short_edge_order :
    (shortEdgeMesh.Administrate exampleOperations
        AdministrationOptions.AdministrateMeshEdges).toOption.map
      (fun m' => (vecGet m'.m_nodesEdges 0 [],
        (vecGet m'.m_nodesEdges 0 []).map (m'.wrappedAngle exampleOperations 0),
        (vecGet m'.m_nodesEdges 0 []).map (m'.outwardAngle exampleOperations 0))) =
      some ([0, 2, 1], [0, 1, 3], [0, 1, 0]) ∧
    ¬ ([0, 1, 0] : List ℚ).Pairwise (fun a b => a ≤ b) := by
  constructor
  · decide!
  · decide!

/-- C6, amended: on a mesh whose node tables are in order and whose `atan2` keeps to
`(-M_PI, M_PI]`, `SortEdgesInCounterClockWiseOrder` at a valid node returns and leaves
`m_nodesEdges[node]` a permutation of its previous content in non-decreasing order of the key of
the code, which lies in `[0, 2 * M_PI)`: the key is the angle of the edge minus the angle of the
originally first edge, plus a full turn when negative, where the angle is `atan2` of the
differences taken by the code or, when both differences are below `minimumDeltaCoordinate`, a
quarter turn up or down. -/
theorem SortEdgesInCounterClockWiseOrder_sorted (ops : Operations) (hangles : ops.AnglesInRange)
    (m : Mesh) (hok : m.NodeEdgesOk) (node : Nat) (hn : node < m.m_nodes.length)
    (hv : (vecGet m.m_nodes node missingPoint).IsValid = true) :
    ∃ m', m.SortEdgesInCounterClockWiseOrder ops node = .ok m' ∧
      (vecGet m'.m_nodesEdges node []).Perm (vecGet m.m_nodesEdges node []) ∧
      (vecGet m'.m_nodesEdges node []).Pairwise
        (fun e₁ e₂ => m.wrappedAngle ops node e₁ ≤ m.wrappedAngle ops node e₂) ∧
      ∀ e, 0 ≤ m.wrappedAngle ops node e ∧ m.wrappedAngle ops node e < 2 * ops.M_PI := by
  obtain ⟨l', h, hperm, hsorted⟩ := SortEdges_spec ops m hok node hn hv
  have hget : vecGet (m.m_nodesEdges.set node l') node [] = l' := by
    rw [vecGet_set, if_pos ⟨rfl, by rw [hok.len_edges]; exact hn⟩]
  refine ⟨_, h, ?_, ?_, fun e => wrappedAngle_range ops hangles m node e⟩
  · show (vecGet (m.m_nodesEdges.set node l') node []).Perm _
    rw [hget]; exact hperm
  · show (vecGet (m.m_nodesEdges.set node l') node []).Pairwise _
    rw [hget]; exact hsorted

/-- C6, amended, at node 1 of the two triangles of scenario S2. -/
theorem SortEdgesInCounterClockWiseOrder_sorted_witness :
    exampleOperations.AnglesInRange ∧
    twoTrianglesMesh.DeleteInvalidNodesAndEdges.resetNodeTables.NodeAdministration.NodeEdgesOk ∧
    1 < twoTrianglesMesh.DeleteInvalidNodesAndEdges.resetNodeTables.NodeAdministration.m_nodes.length ∧
    ∃ m', Mesh.SortEdgesInCounterClockWiseOrder exampleOperations
        twoTrianglesMesh.DeleteInvalidNodesAndEdges.resetNodeTables.NodeAdministration 1 = .ok m' ∧
      (vecGet m'.m_nodesEdges 1 []).Perm
        (vecGet twoTrianglesMesh.DeleteInvalidNodesAndEdges.resetNodeTables.NodeAdministration.m_nodesEdges
          1 []) ∧
      (vecGet m'.m_nodesEdges 1 []).Pairwise
        (fun e₁ e₂ =>
          twoTrianglesMesh.DeleteInvalidNodesAndEdges.resetNodeTables.NodeAdministration.wrappedAngle
              exampleOperations 1 e₁ ≤
            twoTrianglesMesh.DeleteInvalidNodesAndEdges.resetNodeTables.NodeAdministration.wrappedAngle
              exampleOperations 1 e₂) ∧
      ∀ e, 0 ≤ twoTrianglesMesh.DeleteInvalidNodesAndEdges.resetNodeTables.NodeAdministration.wrappedAngle
            exampleOperations 1 e ∧
          twoTrianglesMesh.DeleteInvalidNodesAndEdges.resetNodeTables.NodeAdministration.wrappedAngle
            exampleOperations 1 e < 2 * exampleOperations.M_PI :=
  ⟨exampleOperations_anglesInRange,
    (NodeAdministration_ok twoTrianglesMesh.DeleteInvalidNodesAndEdges (by decide) (by decide)
      (by decide)).1,
    by decide,
    SortEdgesInCounterClockWiseOrder_sorted exampleOperations exampleOperations_anglesInRange
      twoTrianglesMesh.DeleteInvalidNodesAndEdges.resetNodeTables.NodeAdministration
      (NodeAdministration_ok twoTrianglesMesh.DeleteInvalidNodesAndEdges (by decide) (by decide)
        (by decide)).1 1 (by decide) (by decide)⟩

end meshkernel

namespace meshkernel

/-! ## Claim on the faces of a polygon -/

theorem exists_of_check (o : Option Mesh) (P : Mesh → Prop) [DecidablePred P]
    (h : (match o with
      | some t => decide (P t)
      | none => false) = true) : ∃ t, o = some t ∧ P t := by
  cases o with
  | none => exact absurd h (by simp)
  | some t => exact ⟨t, rfl, by simpa using h⟩

/-- The table run on the polygons of 3 to 6 nodes: one face through the nodes in their order, on
the edges in their order; every edge has one face and every node is a corner. -/
theorem polygon_tables :
    ∀ n ∈ [3, 4, 5, 6],
      (match (polygonMesh (List.replicate n ⟨0, 0⟩)).AdministrateBy (polygonAnswers n) with
      | some t => decide (t.m_numFaces = 1 ∧ t.m_facesNodes = [List.range n] ∧
          t.m_facesEdges = [List.range n] ∧ t.m_edgesNumFaces = List.replicate n 1 ∧
          t.m_nodesTypes = List.replicate n 3)
      | none => false) = true := by
  decide

theorem polygonMesh_skeleton (pts : List Point) :
    (polygonMesh pts).skeleton = polygonMesh (List.replicate pts.length ⟨0, 0⟩) := by
  unfold polygonMesh Mesh.skeleton Mesh.ofNodesEdges
  simp only [List.length_replicate]
  congr 1
  exact List.map_const' _ _

theorem polygonMesh_closedRing (pts : List Point) :
    (polygonMesh pts).closedRing (List.range pts.length) = pts ++ [vecGet pts 0 missingPoint] := by
  unfold Mesh.closedRing
  simp only []
  have : (List.range pts.length).map (fun node => vecGet (polygonMesh pts).m_nodes node missingPoint)
      = pts := map_vecGet_range pts missingPoint
  rw [this]

/-- C10: for every polygon of 3 to 6 nodes with valid coordinates that is given as a single edge
cycle and that `FaceAreaAndCenterOfMass` reports as counter-clockwise, under an `atan2` that keeps
to `(-M_PI, M_PI]`, `Administrate` with faces returns and finds exactly one face; its node cycle
is the cycle of the polygon `[0, 1, ..]`, its edges are the edges of the polygon, every edge has
one face and every node is classified as a corner (type 3).  The unit square of scenario S1 is
the polygon on `(0,0), (1,0), (1,1), (0,1)`. -/
theorem Administrate_polygon (ops : Operations) (pts : List Point) (h3 : 3 ≤ pts.length)
    (h6 : pts.length ≤ maximumNumberOfEdgesPerFace) (hvalid : ∀ p ∈ pts, p.IsValid = true)
    (hangles : ops.AnglesInRange)
    (hccw : (ops.FaceAreaAndCenterOfMass (pts ++ [vecGet pts 0 missingPoint])
      Projection.cartesian).2.2 = true) :
    ∃ m', (polygonMesh pts).Administrate ops AdministrationOptions.AdministrateMeshEdgesAndFaces
        = .ok m' ∧
      m'.m_nodes = pts ∧ m'.GetNumFaces = 1 ∧ m'.m_facesNodes = [List.range pts.length] ∧
      m'.m_facesEdges = [List.range pts.length] ∧
      m'.m_edgesNumFaces = List.replicate pts.length 1 ∧
      m'.m_nodesTypes = List.replicate pts.length 3 := by
  have hmem : pts.length ∈ [3, 4, 5, 6] := by
    have : pts.length ≤ 6 := h6
    simp only [List.mem_cons, List.mem_singleton, List.not_mem_nil, or_false]
    omega
  obtain ⟨t, hrun, t1, t2, t3, t4, t5⟩ := exists_of_check _ _ (polygon_tables pts.length hmem)
  rw [← polygonMesh_skeleton] at hrun
  have hor : ∀ ns b, polygonAnswers pts.length ns = some b →
      (ops.FaceAreaAndCenterOfMass ((polygonMesh pts).closedRing ns)
        (polygonMesh pts).m_projection).2.2 = b := by
    intro ns b hb
    unfold polygonAnswers at hb
    split at hb
    · rename_i hns
      rw [hns, polygonMesh_closedRing, ← Option.some.inj hb]
      exact hccw
    · exact absurd hb (by simp)
  obtain ⟨m', hm', hsk, hnodes⟩ := AdministrateBy_sound ops hangles (polygonAnswers pts.length)
    (polygonMesh pts) t hvalid
    (by
      have : pts.length ≤ 6 := h6
      have h64 : (6 : Nat) ≤ sizetMissingValue := by decide
      exact le_trans this h64)
    hor hrun
  refine ⟨m', hm', hnodes, ?_, ?_, ?_, ?_, ?_⟩
  · rw [← t1, ← hsk]; rfl
  · rw [← t2, ← hsk]; rfl
  · rw [← t3, ← hsk]; rfl
  · rw [← t4, ← hsk]; rfl
  · rw [← t5, ← hsk]; rfl

/-- C10 at the unit square of scenario S1, with the shoelace area. -/
theorem Administrate_polygon_witness :
    3 ≤ ([⟨0, 0⟩, ⟨1, 0⟩, ⟨1, 1⟩, ⟨0, 1⟩] : List Point).length ∧
    ([⟨0, 0⟩, ⟨1, 0⟩, ⟨1, 1⟩, ⟨0, 1⟩] : List Point).length ≤ maximumNumberOfEdgesPerFace ∧
    (∀ p ∈ ([⟨0, 0⟩, ⟨1, 0⟩, ⟨1, 1⟩, ⟨0, 1⟩] : List Point), p.IsValid = true) ∧
    exampleOperations.AnglesInRange ∧
    (exampleOperations.FaceAreaAndCenterOfMass
      ([⟨0, 0⟩, ⟨1, 0⟩, ⟨1, 1⟩, ⟨0, 1⟩] ++
        [vecGet ([⟨0, 0⟩, ⟨1, 0⟩, ⟨1, 1⟩, ⟨0, 1⟩] : List Point) 0 missingPoint])
      Projection.cartesian).2.2 = true ∧
    ∃ m', squareMesh.Administrate exampleOperations
        AdministrationOptions.AdministrateMeshEdgesAndFaces = .ok m' ∧
      m'.m_nodes = [⟨0, 0⟩, ⟨1, 0⟩, ⟨1, 1⟩, ⟨0, 1⟩] ∧ m'.GetNumFaces = 1 ∧
      m'.m_facesNodes = [[0, 1, 2, 3]] ∧ m'.m_facesEdges = [[0, 1, 2, 3]] ∧
      m'.m_edgesNumFaces = [1, 1, 1, 1] ∧ m'.m_nodesTypes = [3, 3, 3, 3] :=
  ⟨by decide, by decide, by decide, exampleOperations_anglesInRange,
    by simp [exampleOperations, cartesianFaceAreaAndCenterOfMass, signedArea, vecGet,
      List.range_succ],
    Administrate_polygon exampleOperations [⟨0, 0⟩, ⟨1, 0⟩, ⟨1, 1⟩, ⟨0, 1⟩] (by decide)
      (by decide) (by decide) exampleOperations_anglesInRange
      (by simp [exampleOperations, cartesianFaceAreaAndCenterOfMass, signedArea, vecGet,
        List.range_succ])⟩

end meshkernel

namespace meshkernel

/-! ## Claims on the empty mesh and on the node types, at concrete meshes -/

/-- C11, the code at `triangleMesh`: the triangle is administered (one face), its three edges are
deleted, and `Administrate` with faces runs again.  It leaves no node and no edge, and returns at
line 165 before the face tables are reset: `m_numFaces` is still 1 and `m_facesNodes`,
`m_facesEdges` still hold the cycle `[0, 1, 2]`. -/
theorem Administrate_empty_keeps_faces :
    ((triangleMesh.Administrate exampleOperations
        AdministrationOptions.AdministrateMeshEdgesAndFaces).toOption.bind (fun M =>
      (Mesh.Administrate exampleOperations
        (((M.DeleteEdge 0).1.DeleteEdge 1).1.DeleteEdge 2).1
        AdministrationOptions.AdministrateMeshEdgesAndFaces).toOption.map (fun M' =>
          (M.GetNumFaces, M'.m_nodes, M'.m_edges)))) = some (1, [], []) ∧
    ((triangleMesh.Administrate exampleOperations
        AdministrationOptions.AdministrateMeshEdgesAndFaces).toOption.bind (fun M =>
      (Mesh.Administrate exampleOperations
        (((M.DeleteEdge 0).1.DeleteEdge 1).1.DeleteEdge 2).1
        AdministrationOptions.AdministrateMeshEdgesAndFaces).toOption.map (fun M' =>
          (M'.GetNumFaces, M'.m_facesNodes, M'.m_facesEdges)))) =
      some (1, [[0, 1, 2]], [[0, 1, 2]]) := by
  constructor
  · decide!
  · decide!

/-- C13, the code at `twoTrianglesMesh`, the unit square with the diagonal between nodes 1 and 2:
both nodes have three edges, two of them on the boundary and meeting at a right angle (cosine 0,
above the threshold), and `ClassifyNodes` gives both type 2, not 3: the search for the two
boundary neighbours tests `firstNode == 0` (line 907) on a variable that starts as
`sizetMissingValue`, so `firstNode` is never set and the cosine is never computed. -/
theorem ClassifyNodes_diagonal_nodes :
    (twoTrianglesMesh.Administrate exampleOperations
        AdministrationOptions.AdministrateMeshEdgesAndFaces).toOption.map (fun M =>
      (M.m_nodesTypes, M.m_nodesNumEdges, M.m_edgesNumFaces,
        decide (exampleOperations.NormalizedInnerProductTwoSegments
          (vecGet M.m_nodes 1 missingPoint) (vecGet M.m_nodes 0 missingPoint)
          (vecGet M.m_nodes 1 missingPoint) (vecGet M.m_nodes 3 missingPoint) M.m_projection
            > -(1 / 4 : ℚ)))) =
      some ([3, 2, 2, 3], [2, 3, 3, 2], [1, 2, 1, 1, 1], true) := by
  decide!

/-- C14, the code at `pathMesh`: no edge has a face, and node 2, whose two edges are stored after
an edge at each of its neighbours, is classified 1 (internal), not -1: the edge loop skips an edge
one of whose endpoints is already hanging (lines 870-873) before it looks at the number of faces
of the edge. -/
theorem ClassifyNodes_path_inner_node :
    (pathMesh.Administrate exampleOperations
        AdministrationOptions.AdministrateMeshEdgesAndFaces).toOption.map (fun M =>
      (M.m_edges, M.m_edgesNumFaces, M.m_nodesNumEdges, M.m_nodesTypes)) =
      some ([(0, 1), (3, 4), (1, 2), (2, 3)], [0, 0, 0, 0], [1, 2, 2, 2, 1],
        [-1, -1, 1, -1, -1]) := by
  decide!

/-! ## Claims on the mutation operations, at concrete meshes -/

/-- C15, the code at `triangleMesh`, administered, after `DeleteNode(0)`: `DeleteNode` has lowered
`m_numNodes` to 2 while the vector still holds three nodes, so `InsertNode` returns index 2 and
writes the new point over node 2, which was valid: `(0, 1)` becomes `(5, 5)`. -/
theorem InsertNode_after_DeleteNode_overwrites :
    (triangleMesh.Administrate exampleOperations
        AdministrationOptions.AdministrateMeshEdgesAndFaces).toOption.map (fun M =>
      ((M.DeleteNode 0).2, (M.DeleteNode 0).1.m_nodes, ((M.DeleteNode 0).1.InsertNode ⟨5, 5⟩).2,
        ((M.DeleteNode 0).1.InsertNode ⟨5, 5⟩).1.m_nodes)) =
      some (none, [missingPoint, ⟨1, 0⟩, ⟨0, 1⟩], 2, [missingPoint, ⟨1, 0⟩, ⟨5, 5⟩]) := by
  decide!

/-- C16, the code at the mesh that `Administrate` leaves of `orphanMesh` (node `(0, 0)`, no
edge): after `InsertNode`, `DeleteNode` of the new index and `Administrate`, no node is left. -/
theorem InsertNode_DeleteNode_Administrate_orphan :
    ((orphanMesh.Administrate exampleOperations
        AdministrationOptions.AdministrateMeshEdgesAndFaces).toOption.bind (fun M =>
      (Mesh.Administrate exampleOperations
        ((M.InsertNode ⟨5, 5⟩).1.DeleteNode (M.InsertNode ⟨5, 5⟩).2).1
        AdministrationOptions.AdministrateMeshEdgesAndFaces).toOption.map (fun M' =>
          (M.m_nodes, M.m_edges, M'.m_nodes, M'.m_edges)))) =
      some ([⟨0, 0⟩], [], [], []) := by
  decide!

/-- C17, the code at `starMesh`, administered: node 0 has 17 edges, of which `NodeAdministration`
lists 16; `DeleteNode(0)` returns, sets node 0 to the missing value and leaves edge 16, which
joins node 0 to node 17, as it was. -/
theorem DeleteNode_star_keeps_edge :
    (starMesh.Administrate exampleOperations
        AdministrationOptions.AdministrateMeshEdges).toOption.map (fun M =>
      ((M.DeleteNode 0).2, vecGet M.m_edges 16 missingEdge,
        vecGet (M.DeleteNode 0).1.m_edges 16 missingEdge,
        vecGet (M.DeleteNode 0).1.m_nodes 0 missingPoint)) =
      some (none, (0, 17), (0, 17), missingPoint) := by
  decide!

/-- C18, the code at `triangleMesh`, administered: the first `DeleteNode(0)` leaves
`m_numNodes = 2`, the second one, on the node that is already missing, returns without an
exception, leaves the nodes and the edges as they are and lowers `m_numNodes` to 1. -/
theorem DeleteNode_twice_lowers_count :
    (triangleMesh.Administrate exampleOperations
        AdministrationOptions.AdministrateMeshEdgesAndFaces).toOption.map (fun M =>
      (((M.DeleteNode 0).1.DeleteNode 0).2,
        decide (((M.DeleteNode 0).1.DeleteNode 0).1.m_nodes = (M.DeleteNode 0).1.m_nodes ∧
          ((M.DeleteNode 0).1.DeleteNode 0).1.m_edges = (M.DeleteNode 0).1.m_edges),
        (M.DeleteNode 0).1.GetNumNodes, ((M.DeleteNode 0).1.DeleteNode 0).1.GetNumNodes)) =
      some (none, true, 2, 1) := by
  decide!

/-- C19, the code at `triangleMesh`, administered: `MergeTwoNodes(0, 0)` returns without an
exception, invalidates the two edges at node 0 and sets node 0 to the missing value. -/
theorem MergeTwoNodes_self_deletes :
    (triangleMesh.Administrate exampleOperations
        AdministrationOptions.AdministrateMeshEdgesAndFaces).toOption.map (fun M =>
      ((M.MergeTwoNodes 0 0).2, M.m_edges, (M.MergeTwoNodes 0 0).1.m_edges,
        (M.MergeTwoNodes 0 0).1.m_nodes)) =
      some (none, [(0, 1), (1, 2), (2, 0)], [missingEdge, (1, 2), missingEdge],
        [missingPoint, ⟨1, 0⟩, ⟨0, 1⟩]) := by
  decide!

/-- C20, the code at `starMesh`, administered, which has no duplicate edge and no self-loop:
`MergeTwoNodes(0, 1)` returns and sets node 0 to the missing value; edge 16, which joins node 0
to node 17 and is not listed at node 0, still has node 0 as its endpoint. -/
theorem MergeTwoNodes_star_keeps_edge :
    (starMesh.Administrate exampleOperations
        AdministrationOptions.AdministrateMeshEdges).toOption.map (fun M =>
      ((M.MergeTwoNodes 0 1).2, decide (M.m_edges = starMesh.m_edges),
        vecGet (M.MergeTwoNodes 0 1).1.m_edges 16 missingEdge,
        vecGet (M.MergeTwoNodes 0 1).1.m_nodes 0 missingPoint)) =
      some (none, true, (0, 17), missingPoint) := by
  decide!

end meshkernel

namespace meshkernel

/-! ## Claims on the node types and on the mutation operations, for every mesh -/

/-- C12: after `ClassifyNodes`, for every node `n` of a mesh (administered or not) the node type
is one of `-1`, `1`, `2`, `3`; it is not `0` and not below `-1`; and it is `-1` when the node
has fewer than two edges in `m_nodesNumEdges`. -/
theorem ClassifyNodes_node_types (ops : Operations) (m : Mesh) (n : Nat)
    (hn : n < m.GetNumNodes) :
    n < (m.ClassifyNodes ops).m_nodesTypes.length ∧
    (vecGet (m.ClassifyNodes ops).m_nodesTypes n 0 = -1 ∨
      vecGet (m.ClassifyNodes ops).m_nodesTypes n 0 = 1 ∨
      vecGet (m.ClassifyNodes ops).m_nodesTypes n 0 = 2 ∨
      vecGet (m.ClassifyNodes ops).m_nodesTypes n 0 = 3) ∧
    vecGet (m.ClassifyNodes ops).m_nodesTypes n 0 ≠ 0 ∧
    -1 ≤ vecGet (m.ClassifyNodes ops).m_nodesTypes n 0 ∧
    (vecGet m.m_nodesNumEdges n 0 < 2 → vecGet (m.ClassifyNodes ops).m_nodesTypes n 0 = -1) := by
  obtain ⟨hlen, hall⟩ := ClassifyNodes_spec ops m
  obtain ⟨h4, hlow⟩ := hall n hn
  refine ⟨by rw [hlen]; exact hn, h4, ?_, ?_, hlow⟩
  · rcases h4 with h | h | h | h <;> rw [h] <;> decide
  · rcases h4 with h | h | h | h <;> rw [h] <;> decide

/-- C12 at node 1 of the two triangles of scenario S2 with their node tables. -/
theorem ClassifyNodes_node_types_witness :
    1 < twoTrianglesMesh.DeleteInvalidNodesAndEdges.resetNodeTables.NodeAdministration.GetNumNodes ∧
    vecGet (Mesh.ClassifyNodes exampleOperations
      twoTrianglesMesh.DeleteInvalidNodesAndEdges.resetNodeTables.NodeAdministration).m_nodesTypes
        1 0 ≠ 0 :=
  ⟨by decide,
    (ClassifyNodes_node_types exampleOperations
      twoTrianglesMesh.DeleteInvalidNodesAndEdges.resetNodeTables.NodeAdministration 1
      (by decide)).2.2.1⟩

/-- C17, amended: for every administered mesh and every index `i < numNodes` whose edge list
`m_nodesEdges[i]` holds every edge that has `i` as an endpoint, `DeleteNode(i)` returns without
an exception; afterwards node `i` is the missing point and every other node is as before, every
edge that had `i` as an endpoint is invalid, and every other edge is as before.  For
`i >= numNodes` the call raises `invalid_argument` and leaves the mesh as it was. -/
theorem DeleteNode_invalidates_listed_edges (m : Mesh) (hadm : m.AdministeredEdges)
    (hE : m.m_edges.length ≤ sizetMissingValue) (i : Nat) :
    (i < m.GetNumNodes → m.listsAllEdgesAt i →
      ∃ m', m.DeleteNode i = (m', none) ∧
        m'.m_nodes = m.m_nodes.set i missingPoint ∧
        vecGet m'.m_nodes i ⟨0, 0⟩ = missingPoint ∧
        m'.m_edges.length = m.m_edges.length ∧
        ∀ e, e < m.m_edges.length →
          ((m.edge e).1 = i ∨ (m.edge e).2 = i → m'.edge e = missingEdge) ∧
          (¬ ((m.edge e).1 = i ∨ (m.edge e).2 = i) → m'.edge e = m.edge e)) ∧
    (m.GetNumNodes ≤ i → m.DeleteNode i = (m, some MeshError.invalid_argument)) := by
  constructor
  · intro hi hall
    have hin : i < m.m_nodes.length := by
      have := hadm.nodeEdges.numNodes
      unfold Mesh.GetNumNodes at hi
      omega
    obtain ⟨m', h1, h2, h3, h4⟩ := DeleteNode_eq m i hi
      (fun e he => (adm_entries m hadm i e he).2.1) hE (adm_length m hadm i)
    refine ⟨m', h1, h2, ?_, h3, ?_⟩
    · rw [h2, vecGet_set]
      exact if_pos ⟨rfl, hin⟩
    · intro e he
      constructor
      · intro hend
        have d : e ∈ vecGet m.m_nodesEdges i [] := hall e he hend
        rw [h4 e, if_pos d]
      · intro hend
        have d : e ∉ vecGet m.m_nodesEdges i [] :=
          fun hh => hend (adm_entries m hadm i e hh).2.2.2
        rw [h4 e, if_neg d]
  · intro hi
    unfold Mesh.DeleteNode
    exact if_pos hi

/-- C17, amended, at node 1 of the two triangles of scenario S2 with their node tables: the
hypotheses hold, the call returns, and edge 0, which joins nodes 0 and 1, is invalid
afterwards. -/
theorem DeleteNode_invalidates_listed_edges_witness :
    twoTrianglesMesh.DeleteInvalidNodesAndEdges.resetNodeTables.NodeAdministration.AdministeredEdges ∧
    twoTrianglesMesh.DeleteInvalidNodesAndEdges.resetNodeTables.NodeAdministration.listsAllEdgesAt 1 ∧
    ∃ m', twoTrianglesMesh.DeleteInvalidNodesAndEdges.resetNodeTables.NodeAdministration.DeleteNode 1
        = (m', none) ∧ m'.edge 0 = missingEdge :=
  ⟨⟨by decide!, by decide, by decide,
      (NodeAdministration_ok twoTrianglesMesh.DeleteInvalidNodesAndEdges (by decide) (by decide)
        (by decide)).1⟩,
    by decide,
    match (DeleteNode_invalidates_listed_edges
      twoTrianglesMesh.DeleteInvalidNodesAndEdges.resetNodeTables.NodeAdministration
      ⟨by decide!, by decide, by decide,
        (NodeAdministration_ok twoTrianglesMesh.DeleteInvalidNodesAndEdges (by decide) (by decide)
          (by decide)).1⟩
      (by decide) 1).1 (by decide) (by decide) with
    | ⟨m', h1, _, _, _, h5⟩ => ⟨m', h1, (h5 0 (by decide)).1 (by decide)⟩⟩

/-- C20, amended: for every administered mesh without self-loops whose node tables list, at
every node, every edge that has the node as an endpoint (so that the mesh has no duplicate edges),
and for distinct in-range nodes `a`, `b` that have together at most
`maximumNumberOfEdgesPerNode` = 16 edges in `m_nodesNumEdges` (so that every write to the scratch
vector `secondNodeEdges` of lines 1190 and 1201 is inside it): `MergeTwoNodes(a, b)` returns
without an exception; afterwards node `a` is the missing point, node `b` and every other node are
as before, node `b` has at most 16 edges in `m_nodesNumEdges`, the edge joining `a` and `b` is
invalid, for every node `x` adjacent to both `a` and `b` the edge joining `b` and `x` is invalid,
every other edge that had `a` as an endpoint has `a` replaced by `b`, and every remaining edge is
as before. -/
theorem MergeTwoNodes_merges (m : Mesh) (hadm : m.AdministeredEdges)
    (hN : m.m_nodes.length ≤ sizetMissingValue) (hE : m.m_edges.length ≤ sizetMissingValue)
    (a b : Nat) (hab : a ≠ b) (ha : a < m.GetNumNodes) (hb : b < m.GetNumNodes)
    (hall : ∀ n, n < m.m_nodes.length → m.listsAllEdgesAt n)
    (hloop : ∀ e, e < m.m_edges.length → (m.edge e).1 ≠ (m.edge e).2)
    (hcap : vecGet m.m_nodesNumEdges a 0 + vecGet m.m_nodesNumEdges b 0 ≤
      maximumNumberOfEdgesPerNode) :
    ∃ m', m.MergeTwoNodes a b = (m', none) ∧
      m'.m_nodes = m.m_nodes.set a missingPoint ∧
      vecGet m'.m_nodes a ⟨0, 0⟩ = missingPoint ∧
      vecGet m'.m_nodes b missingPoint = vecGet m.m_nodes b missingPoint ∧
      m'.m_edges.length = m.m_edges.length ∧
      vecGet m'.m_nodesNumEdges b 0 ≤ maximumNumberOfEdgesPerNode ∧
      ∀ e, e < m.m_edges.length →
        (m.joins e a b → m'.edge e = missingEdge) ∧
        (∀ x e1, e1 < m.m_edges.length → m.joins e1 a x → m.joins e b x →
          m'.edge e = missingEdge) ∧
        (¬ m.joins e a b → ((m.edge e).1 = a ∨ (m.edge e).2 = a) →
          m'.edge e = (if (m.edge e).1 = a then b else (m.edge e).1,
                       if (m.edge e).2 = a then b else (m.edge e).2)) ∧
        (¬ ((m.edge e).1 = a ∨ (m.edge e).2 = a) →
          (¬ ∃ x e1, e1 < m.m_edges.length ∧ m.joins e1 a x ∧ m.joins e b x) →
          m'.edge e = m.edge e) := by
  obtain ⟨h1, h2, h3, h4⟩ := MergeTwoNodes_edges m hadm hN hE a b hab ha hb hall hloop
  have han : a < m.m_nodes.length := by
    have := hadm.nodeEdges.numNodes
    unfold Mesh.GetNumNodes at ha
    omega
  have hbn : b < m.m_nodes.length := by
    have := hadm.nodeEdges.numNodes
    unfold Mesh.GetNumNodes at hb
    omega
  refine ⟨(m.MergeTwoNodes a b).1, Prod.ext rfl h1, h2, ?_, ?_, h3, ?_, h4⟩
  · rw [h2, vecGet_set]
    exact if_pos ⟨rfl, han⟩
  · rw [h2, vecGet_set]
    exact if_neg (fun hh => hab hh.1)
  · obtain ⟨s', g1, _, _, g4, _⟩ := MergeTwoNodes_general m m.m_nodes.length m.m_edges.length
      (MergeInv_of_administered m hadm hN hall) hN a b hab han hbn hcap
    rw [g1]
    exact Nat.le_trans g4 hcap

/-- C20, amended, at nodes 0 and 1 of the two triangles of scenario S2 with their node tables: the
hypotheses hold (the two nodes have 2 + 3 edges), the call returns, edge 0 (which joins nodes 0
and 1) and edge 1 (which joins node 1 to node 2, a neighbour of node 0) are invalid afterwards,
and edge 2 joins nodes 2 and 1. -/
theorem MergeTwoNodes_merges_witness :
    twoTrianglesMesh.DeleteInvalidNodesAndEdges.resetNodeTables.NodeAdministration.AdministeredEdges ∧
    (∀ n, n < twoTrianglesMesh.DeleteInvalidNodesAndEdges.resetNodeTables.NodeAdministration.m_nodes.length →
      twoTrianglesMesh.DeleteInvalidNodesAndEdges.resetNodeTables.NodeAdministration.listsAllEdgesAt n) ∧
    vecGet twoTrianglesMesh.DeleteInvalidNodesAndEdges.resetNodeTables.NodeAdministration.m_nodesNumEdges
        0 0 +
      vecGet twoTrianglesMesh.DeleteInvalidNodesAndEdges.resetNodeTables.NodeAdministration.m_nodesNumEdges
        1 0 = 5 ∧
    ∃ m', twoTrianglesMesh.DeleteInvalidNodesAndEdges.resetNodeTables.NodeAdministration.MergeTwoNodes
        0 1 = (m', none) ∧
      m'.edge 0 = missingEdge ∧ m'.edge 1 = missingEdge ∧ m'.edge 2 = (2, 1) :=
  ⟨⟨by decide!, by decide, by decide,
      (NodeAdministration_ok twoTrianglesMesh.DeleteInvalidNodesAndEdges (by decide) (by decide)
        (by decide)).1⟩,
    by decide,
    by decide,
    match MergeTwoNodes_merges
      twoTrianglesMesh.DeleteInvalidNodesAndEdges.resetNodeTables.NodeAdministration
      ⟨by decide!, by decide, by decide,
        (NodeAdministration_ok twoTrianglesMesh.DeleteInvalidNodesAndEdges (by decide) (by decide)
          (by decide)).1⟩
      (by decide) (by decide) 0 1 (by decide) (by decide) (by decide) (by decide) (by decide)
      (by decide) with
    | ⟨m', h1, _, _, _, _, _, h6⟩ =>
      ⟨m', h1, (h6 0 (by decide)).1 (Or.inl ⟨by decide, by decide⟩),
        (h6 1 (by decide)).2.1 2 2 (by decide) (Or.inr ⟨by decide, by decide⟩)
          (Or.inl ⟨by decide, by decide⟩),
        ((h6 2 (by decide)).2.2.1
          (fun h => h.elim (fun h' => absurd h'.1 (by decide)) (fun h' => absurd h'.1 (by decide)))
          (Or.inr (by decide))).trans (by decide)⟩⟩

end meshkernel

namespace meshkernel

/-! ## Claims on connecting, finding, uniting and querying -/

/-- C23: for an administered mesh and in-range nodes `u`, `v`: when an edge joining `u` and `v`
is recorded in `nodeEdges[u]`, `ConnectNodes(u, v)` returns the missing value and leaves the mesh
as it was; otherwise it returns the previous number of edges, the edge array is the previous one
followed by `(u, v)`, the nodes are unchanged, `numEdges` has grown by one and the flag that the
edge tree needs an update is set. -/
theorem ConnectNodes_connects (m : Mesh) (hadm : m.AdministeredEdges)
    (hN : m.m_nodes.length ≤ sizetMissingValue) (hE : m.m_edges.length ≤ sizetMissingValue)
    (u v : Nat) (hu : u < m.GetNumNodes) (hv : v < m.GetNumNodes) :
    ((∃ e, e ∈ vecGet m.m_nodesEdges u [] ∧ m.joins e u v) →
      m.ConnectNodes u v = (m, .ok sizetMissingValue)) ∧
    ((¬ ∃ e, e ∈ vecGet m.m_nodesEdges u [] ∧ m.joins e u v) →
      (m.ConnectNodes u v).2 = .ok m.GetNumEdges ∧
      (m.ConnectNodes u v).1.m_edges = m.m_edges ++ [(u, v)] ∧
      (m.ConnectNodes u v).1.edge m.GetNumEdges = (u, v) ∧
      (∀ e, e < m.GetNumEdges → (m.ConnectNodes u v).1.edge e = m.edge e) ∧
      (m.ConnectNodes u v).1.m_nodes = m.m_nodes ∧
      (m.ConnectNodes u v).1.m_numEdges = m.m_numEdges + 1 ∧
      (m.ConnectNodes u v).1.m_edgesRTreeRequiresUpdate = true) := by
  obtain ⟨h1, h2⟩ := ConnectNodes_spec m hadm hN hE u v hu hv
  refine ⟨h1, fun hno => ?_⟩
  obtain ⟨r1, r2, r3, r4, r5⟩ := h2 hno
  have hnumE : m.GetNumEdges = m.m_edges.length := hadm.nodeEdges.numEdges
  refine ⟨r1, r2, ?_, ?_, r3, r4, r5⟩
  · unfold Mesh.edge vecGet
    rw [r2, hnumE]
    simp
  · intro e he
    unfold Mesh.edge vecGet
    rw [r2]
    rw [hnumE] at he
    simp [List.getElem?_append_left he]

/-- C23 on the two triangles of scenario S2 with their node tables: nodes 0 and 1 are joined by
edge 0, so the call returns the missing value; nodes 0 and 3 are not joined, so the call returns
5 and the sixth edge is `(0, 3)`. -/
theorem ConnectNodes_connects_witness :
    twoTrianglesMesh.DeleteInvalidNodesAndEdges.resetNodeTables.NodeAdministration.AdministeredEdges ∧
    (twoTrianglesMesh.DeleteInvalidNodesAndEdges.resetNodeTables.NodeAdministration.ConnectNodes
      0 3).2 = .ok 5 ∧
    (twoTrianglesMesh.DeleteInvalidNodesAndEdges.resetNodeTables.NodeAdministration.ConnectNodes
      0 3).1.m_edges = [(0, 1), (1, 2), (2, 0), (1, 3), (3, 2), (0, 3)] :=
  ⟨⟨by decide!, by decide, by decide,
      (NodeAdministration_ok twoTrianglesMesh.DeleteInvalidNodesAndEdges (by decide) (by decide)
        (by decide)).1⟩,
    ((ConnectNodes_connects
      twoTrianglesMesh.DeleteInvalidNodesAndEdges.resetNodeTables.NodeAdministration
      ⟨by decide!, by decide, by decide,
        (NodeAdministration_ok twoTrianglesMesh.DeleteInvalidNodesAndEdges (by decide) (by decide)
          (by decide)).1⟩
      (by decide) (by decide) 0 3 (by decide) (by decide)).2
        (by unfold Mesh.joins; decide)).1,
    ((ConnectNodes_connects
      twoTrianglesMesh.DeleteInvalidNodesAndEdges.resetNodeTables.NodeAdministration
      ⟨by decide!, by decide, by decide,
        (NodeAdministration_ok twoTrianglesMesh.DeleteInvalidNodesAndEdges (by decide) (by decide)
          (by decide)).1⟩
      (by decide) (by decide) 0 3 (by decide) (by decide)).2
        (by unfold Mesh.joins; decide)).2.1⟩

/-- C24: for an administered mesh and in-range nodes `u`, `v`, `FindEdge(u, v)` and
`FindEdge(v, u)` return the same value, which is the missing value or the index of a valid edge
whose endpoints are `u` and `v`. -/
theorem FindEdge_symmetric (m : Mesh) (hadm : m.AdministeredEdges)
    (hN : m.m_nodes.length ≤ sizetMissingValue) (u v : Nat)
    (hu : u < m.GetNumNodes) (hv : v < m.GetNumNodes) :
    m.FindEdge u v = m.FindEdge v u ∧
    ∃ r, m.FindEdge u v = .ok r ∧
      (r = sizetMissingValue ∨
        (r < m.m_edges.length ∧ edgeIsMissing (m.edge r) = false ∧ m.joins r u v)) := by
  obtain ⟨r, h1, h2, h3⟩ := FindEdge_symm m hadm hN u v hu hv
  exact ⟨h1.trans h2.symm, r, h1, h3⟩

/-- C24 on the two triangles of scenario S2 with their node tables, at nodes 1 and 2. -/
theorem FindEdge_symmetric_witness :
    twoTrianglesMesh.DeleteInvalidNodesAndEdges.resetNodeTables.NodeAdministration.AdministeredEdges ∧
    twoTrianglesMesh.DeleteInvalidNodesAndEdges.resetNodeTables.NodeAdministration.FindEdge 1 2 =
      twoTrianglesMesh.DeleteInvalidNodesAndEdges.resetNodeTables.NodeAdministration.FindEdge 2 1 :=
  ⟨⟨by decide!, by decide, by decide,
      (NodeAdministration_ok twoTrianglesMesh.DeleteInvalidNodesAndEdges (by decide) (by decide)
        (by decide)).1⟩,
    (FindEdge_symmetric
      twoTrianglesMesh.DeleteInvalidNodesAndEdges.resetNodeTables.NodeAdministration
      ⟨by decide!, by decide, by decide,
        (NodeAdministration_ok twoTrianglesMesh.DeleteInvalidNodesAndEdges (by decide) (by decide)
          (by decide)).1⟩
      (by decide) 1 2 (by decide) (by decide)).1⟩

/-- C25, amended: for edge indices `e1`, `e2` of the edge array, `FindCommonNode(e1, e2)` raises
`invalid_argument` when an endpoint of either edge is the missing value; when both edges are valid
and share an endpoint it returns a node that is an endpoint of both; when both edges are valid and
share no endpoint it returns the missing value without an exception. -/
theorem FindCommonNode_cases (m : Mesh) (e1 e2 : Nat)
    (_h1 : e1 < m.m_edges.length) (_h2 : e2 < m.m_edges.length) :
    (edgeIsMissing (m.edge e1) = true ∨ edgeIsMissing (m.edge e2) = true →
      m.FindCommonNode e1 e2 = .error .invalid_argument) ∧
    (edgeIsMissing (m.edge e1) = false → edgeIsMissing (m.edge e2) = false →
      ((∃ n, ((m.edge e1).1 = n ∨ (m.edge e1).2 = n) ∧ ((m.edge e2).1 = n ∨ (m.edge e2).2 = n)) →
        ∃ n, m.FindCommonNode e1 e2 = .ok n ∧ n ≠ sizetMissingValue ∧
          ((m.edge e1).1 = n ∨ (m.edge e1).2 = n) ∧ ((m.edge e2).1 = n ∨ (m.edge e2).2 = n)) ∧
      ((¬ ∃ n, ((m.edge e1).1 = n ∨ (m.edge e1).2 = n) ∧
          ((m.edge e2).1 = n ∨ (m.edge e2).2 = n)) →
        m.FindCommonNode e1 e2 = .ok sizetMissingValue)) := by
  unfold edgeIsMissing Mesh.FindCommonNode Mesh.edge
  simp only [Bool.or_eq_true, beq_iff_eq, Bool.or_eq_false_iff, beq_eq_false_iff_ne]
  generalize vecGet m.m_edges e1 missingEdge = a
  generalize vecGet m.m_edges e2 missingEdge = b
  refine ⟨fun h => ?_, fun ha hb => ⟨fun hc => ?_, fun hc => ?_⟩⟩
  · have d : a.1 = sizetMissingValue ∨ a.2 = sizetMissingValue ∨ b.1 = sizetMissingValue ∨
        b.2 = sizetMissingValue := by
      rcases h with (h | h) | (h | h)
      · exact Or.inl h
      · exact Or.inr (Or.inl h)
      · exact Or.inr (Or.inr (Or.inl h))
      · exact Or.inr (Or.inr (Or.inr h))
    rw [if_pos d]
  · have d : ¬ (a.1 = sizetMissingValue ∨ a.2 = sizetMissingValue ∨ b.1 = sizetMissingValue ∨
        b.2 = sizetMissingValue) := by
      rintro (h | h | h | h)
      · exact ha.1 h
      · exact ha.2 h
      · exact hb.1 h
      · exact hb.2 h
    rw [if_neg d]
    by_cases c1 : a.1 = b.1 ∨ a.1 = b.2
    · rw [if_pos c1]
      exact ⟨a.1, rfl, ha.1, Or.inl rfl, c1.elim (fun h => Or.inl h.symm) (fun h => Or.inr h.symm)⟩
    · rw [if_neg c1]
      by_cases c2 : a.2 = b.1 ∨ a.2 = b.2
      · rw [if_pos c2]
        exact ⟨a.2, rfl, ha.2, Or.inr rfl,
          c2.elim (fun h => Or.inl h.symm) (fun h => Or.inr h.symm)⟩
      · exfalso
        obtain ⟨n, hn1, hn2⟩ := hc
        rcases hn1 with rfl | rfl
        · exact c1 (hn2.elim (fun h => Or.inl h.symm) (fun h => Or.inr h.symm))
        · exact c2 (hn2.elim (fun h => Or.inl h.symm) (fun h => Or.inr h.symm))
  · have d : ¬ (a.1 = sizetMissingValue ∨ a.2 = sizetMissingValue ∨ b.1 = sizetMissingValue ∨
        b.2 = sizetMissingValue) := by
      rintro (h | h | h | h)
      · exact ha.1 h
      · exact ha.2 h
      · exact hb.1 h
      · exact hb.2 h
    have c1 : ¬ (a.1 = b.1 ∨ a.1 = b.2) := fun h =>
      hc ⟨a.1, Or.inl rfl, h.elim (fun h => Or.inl h.symm) (fun h => Or.inr h.symm)⟩
    have c2 : ¬ (a.2 = b.1 ∨ a.2 = b.2) := fun h =>
      hc ⟨a.2, Or.inr rfl, h.elim (fun h => Or.inl h.symm) (fun h => Or.inr h.symm)⟩
    rw [if_neg d, if_neg c1, if_neg c2]

/-- C25, amended, on the two triangles of scenario S2: edges 0 = (0, 1) and 1 = (1, 2) are valid
and share node 1, and the call returns a common endpoint. -/
theorem FindCommonNode_cases_witness :
    ∃ n, twoTrianglesMesh.FindCommonNode 0 1 = .ok n ∧ n ≠ sizetMissingValue ∧
      ((twoTrianglesMesh.edge 0).1 = n ∨ (twoTrianglesMesh.edge 0).2 = n) ∧
      ((twoTrianglesMesh.edge 1).1 = n ∨ (twoTrianglesMesh.edge 1).2 = n) :=
  ((FindCommonNode_cases twoTrianglesMesh 0 1 (by decide) (by decide)).2 (by decide)
    (by decide)).1 ⟨1, Or.inr (by decide), Or.inl (by decide)⟩

/-- C25 as stated fails on the two triangles of scenario S2: edges 0 = (0, 1) and 4 = (3, 2) are
valid and share no node, and `FindCommonNode(0, 4)` returns the missing value instead of raising
`invalid_argument`. -/
theorem FindCommonNode_disjoint_returns :
    twoTrianglesMesh.edge 0 = (0, 1) ∧ twoTrianglesMesh.edge 4 = (3, 2) ∧
    twoTrianglesMesh.FindCommonNode 0 4 = .ok sizetMissingValue ∧
    twoTrianglesMesh.FindCommonNode 0 4 ≠ .error .invalid_argument := by
  have h : twoTrianglesMesh.FindCommonNode 0 4 = .ok sizetMissingValue := rfl
  refine ⟨by decide, by decide, h, ?_⟩
  rw [h]
  exact fun hh => Except.noConfusion hh

/-- C26, amended: when the mesh has no edges, `FindEdgeCloseToAPoint` raises `invalid_argument`
for every query point, whatever the geometric services and the tree queries are, and leaves the
mesh as it was. -/
theorem FindEdgeCloseToAPoint_no_edges (ops : Operations) (tq : TreeQueries) (m : Mesh)
    (point : Point) (h : m.GetNumEdges = 0) :
    m.FindEdgeCloseToAPoint ops tq point = (m, .error .invalid_argument) := by
  unfold Mesh.FindEdgeCloseToAPoint
  rw [if_pos h]

/-- C26, amended, on the mesh without nodes and edges. -/
theorem FindEdgeCloseToAPoint_no_edges_witness :
    (Mesh.ofNodesEdges [] [] Projection.cartesian).GetNumEdges = 0 ∧
    (Mesh.ofNodesEdges [] [] Projection.cartesian).FindEdgeCloseToAPoint exampleOperations
      exampleTreeQueries ⟨0, 0⟩ =
      (Mesh.ofNodesEdges [] [] Projection.cartesian, .error .invalid_argument) :=
  ⟨by decide, FindEdgeCloseToAPoint_no_edges exampleOperations exampleTreeQueries
    (Mesh.ofNodesEdges [] [] Projection.cartesian) ⟨0, 0⟩ (by decide)⟩

/-- C26 as stated fails on a mesh of one node and no edge: the exception that the closest-edge
query raises at the point `(1, 1)` is `invalid_argument`, not `AlgorithmError`. -/
theorem FindEdgeCloseToAPoint_raises_invalid_argument :
    ((Mesh.ofNodesEdges [⟨0, 0⟩] [] Projection.cartesian).FindEdgeCloseToAPoint exampleOperations
      exampleTreeQueries ⟨1, 1⟩).2 = .error .invalid_argument ∧
    ((Mesh.ofNodesEdges [⟨0, 0⟩] [] Projection.cartesian).FindEdgeCloseToAPoint exampleOperations
      exampleTreeQueries ⟨1, 1⟩).2 ≠ .error .AlgorithmError := by
  have h : ((Mesh.ofNodesEdges [⟨0, 0⟩] [] Projection.cartesian).FindEdgeCloseToAPoint
      exampleOperations exampleTreeQueries ⟨1, 1⟩).2 = .error .invalid_argument := rfl
  refine ⟨h, ?_⟩
  rw [h]
  exact fun hh => MeshError.noConfusion (Except.error.inj hh)

/-- C27: for administered meshes `A` and `B` (together fewer than `2^64` nodes and edges):
when the projections differ or `B` has no node or no edge, `A += B` raises `invalid_argument` and
leaves `A` as it was; otherwise the state it hands to the final administration has the node array
`A.nodes ++ B.nodes` and the edge array `A.edges` followed by the edges of `B` with both
endpoints raised by the node count of `A` before the union, and `A += B` ends with the exception
of the final administration or with the mesh it returns, the node mask filled with 1. -/
theorem plusAssign_concatenates (ops : Operations) (A B : Mesh)
    (hA : A.AdministeredEdges) (hB : B.AdministeredEdges)
    (hN : A.m_nodes.length + B.m_nodes.length < 2 ^ 64)
    (hE : A.m_edges.length + B.m_edges.length < 2 ^ 64) :
    ((A.m_projection ≠ B.m_projection ∨ B.GetNumNodes = 0 ∨ B.GetNumEdges = 0) →
      A.plusAssign ops B = (A, some .invalid_argument)) ∧
    (A.m_projection = B.m_projection → 0 < B.GetNumNodes → 0 < B.GetNumEdges →
      (A.appendNodesAndEdges B).m_nodes = A.m_nodes ++ B.m_nodes ∧
      (A.appendNodesAndEdges B).m_edges =
        A.m_edges ++ B.m_edges.map (fun e => (e.1 + A.GetNumNodes, e.2 + A.GetNumNodes)) ∧
      (∀ err, (A.appendNodesAndEdges B).Administrate ops
          AdministrationOptions.AdministrateMeshEdgesAndFaces = .error err →
        A.plusAssign ops B = (A.appendNodesAndEdges B, some err)) ∧
      (∀ m1, (A.appendNodesAndEdges B).Administrate ops
          AdministrationOptions.AdministrateMeshEdgesAndFaces = .ok m1 →
        A.plusAssign ops B =
          ({ m1 with m_nodeMask := List.replicate m1.m_nodes.length 1 }, none))) := by
  constructor
  · intro h
    unfold Mesh.plusAssign
    rw [if_pos h]
  · intro hp hn he
    have hBr : ∀ e ∈ B.m_edges, e.1 < B.m_nodes.length ∧ e.2 < B.m_nodes.length := by
      intro e hmem
      have hv := hB.validEdges e hmem
      have hr := hB.inRange e hmem
      unfold edgeIsMissing at hv
      simp only [Bool.or_eq_false_iff, beq_eq_false_iff_ne] at hv
      exact ⟨hr.1 hv.1, hr.2 hv.2⟩
    obtain ⟨r1, r2, _, _⟩ := appendNodesAndEdges_eq A B hA.nodeEdges.numNodes
      hA.nodeEdges.numEdges hB.nodeEdges.numNodes hB.nodeEdges.numEdges hN hE hBr
    have d : ¬ (A.m_projection ≠ B.m_projection ∨ B.GetNumNodes = 0 ∨ B.GetNumEdges = 0) := by
      rintro (h | h | h)
      · exact h hp
      · omega
      · omega
    refine ⟨r1, r2, fun err h => ?_, fun m1 h => ?_⟩
    · unfold Mesh.plusAssign
      rw [if_neg d, h]
    · unfold Mesh.plusAssign
      rw [if_neg d, h]

/-- C27 on the two triangles of scenario S2 with their node tables, united with themselves: the
state handed to the final administration has eight nodes and the ten edges
`(0,1), (1,2), (2,0), (1,3), (3,2), (4,5), (5,6), (6,4), (5,7), (7,6)`. -/
theorem plusAssign_concatenates_witness :
    twoTrianglesMesh.DeleteInvalidNodesAndEdges.resetNodeTables.NodeAdministration.AdministeredEdges ∧
    (twoTrianglesMesh.DeleteInvalidNodesAndEdges.resetNodeTables.NodeAdministration.appendNodesAndEdges
      twoTrianglesMesh.DeleteInvalidNodesAndEdges.resetNodeTables.NodeAdministration).m_edges =
      [(0, 1), (1, 2), (2, 0), (1, 3), (3, 2), (4, 5), (5, 6), (6, 4), (5, 7), (7, 6)] :=
  ⟨⟨by decide!, by decide, by decide,
      (NodeAdministration_ok twoTrianglesMesh.DeleteInvalidNodesAndEdges (by decide) (by decide)
        (by decide)).1⟩,
    ((plusAssign_concatenates exampleOperations
      twoTrianglesMesh.DeleteInvalidNodesAndEdges.resetNodeTables.NodeAdministration
      twoTrianglesMesh.DeleteInvalidNodesAndEdges.resetNodeTables.NodeAdministration
      ⟨by decide!, by decide, by decide,
        (NodeAdministration_ok twoTrianglesMesh.DeleteInvalidNodesAndEdges (by decide) (by decide)
          (by decide)).1⟩
      ⟨by decide!, by decide, by decide,
        (NodeAdministration_ok twoTrianglesMesh.DeleteInvalidNodesAndEdges (by decide) (by decide)
          (by decide)).1⟩
      (by decide) (by decide)).2 (by decide) (by decide) (by decide)).2.1.trans (by decide)⟩

/-- C28, amended: for every mesh, `GetHangingEdges` returns, in increasing index order and without
repetition, exactly the valid edges below `numEdges` with an endpoint that has at most one edge
in `m_nodesNumEdges`; for the unit square with the node `(1/2, 1/2)` joined to node 0 by edge 4
(scenario S4), administered, it returns `[4]`. -/
theorem GetHangingEdges_selects (m : Mesh) :
    m.GetHangingEdges.Pairwise (fun a b => a < b) ∧
    (∀ e, e ∈ m.GetHangingEdges ↔
      e < m.GetNumEdges ∧ (m.edge e).1 ≠ sizetMissingValue ∧ (m.edge e).2 ≠ sizetMissingValue ∧
        (vecGet m.m_nodesNumEdges (m.edge e).1 0 ≤ 1 ∨
          vecGet m.m_nodesNumEdges (m.edge e).2 0 ≤ 1)) ∧
    (hangingEdgeMesh.Administrate exampleOperations
      AdministrationOptions.AdministrateMeshEdgesAndFaces).toOption.map
        (fun M => M.GetHangingEdges) = some [4] := by
  refine ⟨?_, ?_, by decide!⟩
  · rw [GetHangingEdges_eq]
    exact List.Pairwise.filter _ (List.pairwise_lt_range _)
  · intro e
    rw [GetHangingEdges_eq, List.mem_filter, List.mem_range, decide_eq_true_eq]

/-- C28 as stated fails on a mesh with two hubs of more than sixteen edges, administered: edge
32 joins the nodes 0 and 2 and is returned by `GetHangingEdges`, although 17 valid edges end at
node 0 and two at node 2; `m_nodesNumEdges` holds 16 for node 0 and 0 for node 2. -/
theorem GetHangingEdges_capped_hub :
    (cappedHubsMesh.Administrate exampleOperations
        AdministrationOptions.AdministrateMeshEdges).toOption.map (fun M =>
      (decide (M.m_edges = cappedHubsMesh.m_edges), decide (32 ∈ M.GetHangingEdges), M.edge 32)) =
      some (true, true, (0, 2)) ∧
    (cappedHubsMesh.Administrate exampleOperations
        AdministrationOptions.AdministrateMeshEdges).toOption.map (fun M =>
      (M.m_edges.countP (fun e => !edgeIsMissing e && (e.1 == 0 || e.2 == 0)),
        M.m_edges.countP (fun e => !edgeIsMissing e && (e.1 == 2 || e.2 == 2)),
        vecGet M.m_nodesNumEdges 0 0, vecGet M.m_nodesNumEdges 2 0)) =
      some (17, 2, 16, 0) := by
  constructor
  · decide!
  · decide!

/-- C29 fails on the two triangles of scenario S2, administered with their faces, after
`DeleteEdge(1)`: `GetOrthogonality` and `GetSmoothness` answer from the tables as they are, with
one entry for each of the five edge slots, while after `Administrate` they have the four entries
of the four remaining edges. -/
theorem GetOrthogonality_without_administration :
    (twoTrianglesMesh.Administrate exampleOperations
        AdministrationOptions.AdministrateMeshEdgesAndFaces).toOption.map (fun M =>
      ((M.DeleteEdge 1).1.GetOrthogonality exampleOperations,
        ((M.DeleteEdge 1).1.Administrate exampleOperations
          AdministrationOptions.AdministrateMeshEdgesAndFaces).toOption.map
            (fun M2 => M2.GetOrthogonality exampleOperations))) =
      some ([-999, -999, -999, -999, -999], some [-999, -999, -999, -999]) ∧
    (twoTrianglesMesh.Administrate exampleOperations
        AdministrationOptions.AdministrateMeshEdgesAndFaces).toOption.map (fun M =>
      ((M.DeleteEdge 1).1.GetSmoothness (1 / 1000000),
        ((M.DeleteEdge 1).1.Administrate exampleOperations
          AdministrationOptions.AdministrateMeshEdgesAndFaces).toOption.map
            (fun M2 => M2.GetSmoothness (1 / 1000000)))) =
      some ([-999, -999, -999, -999, -999], some [-999, -999, -999, -999]) := by
  constructor
  · decide!
  · decide!

/-- C30: for a rectangular grid with at least one row and one column (fewer than `2^64` points),
the constructor hands to administration the valid grid points in row-major order as nodes, and as
edges the pairs of valid grid points adjacent along the first index followed by the pairs adjacent
along the second index, each in row-major order, an endpoint being the place of the grid point
among the valid grid points.  The mesh of the constructor is the one administration returns
for these nodes and edges, with the node mask filled.  The node at the place of a valid grid
point is that grid point, every endpoint of an edge is the place of a node, and when every grid
point is valid there are `M * N` nodes and `(M - 1) * N + M * (N - 1)` edges. -/
theorem curvilinearGrid_lift (g : CurvilinearGrid) (hrect : g.IsRectangular)
    (hM : 1 ≤ g.m_grid.length) (hNpos : 1 ≤ (vecGet g.m_grid 0 []).length)
    (hsize : g.m_grid.length * (vecGet g.m_grid 0 []).length ≤ sizetMissingValue) :
    curvilinearNodesAndEdges g = .ok (g.specNodes, g.specEdgesFirst ++ g.specEdgesSecond) ∧
    (∀ (ops : Operations) (projection : Projection) (m : Mesh),
      (Mesh.ofNodesEdges g.specNodes (g.specEdgesFirst ++ g.specEdgesSecond)
        projection).Administrate ops AdministrationOptions.AdministrateMeshEdges = .ok m →
      Mesh.ofCurvilinearGrid ops g projection =
        .ok { m with m_nodeMask := List.replicate m.m_nodes.length 1 }) ∧
    (∀ m n, m < g.m_grid.length → n < (vecGet g.m_grid 0 []).length → g.isValidAt m n = true →
      g.rank m n < g.specNodes.length ∧
      vecGet g.specNodes (g.rank m n) missingPoint =
        vecGet (vecGet g.m_grid m []) n missingPoint) ∧
    (∀ e ∈ g.specEdgesFirst ++ g.specEdgesSecond,
      e.1 < g.specNodes.length ∧ e.2 < g.specNodes.length) ∧
    ((∀ row ∈ g.m_grid, ∀ p ∈ row, p.IsValid = true) →
      g.specNodes.length = g.m_grid.length * (vecGet g.m_grid 0 []).length ∧
      (g.specEdgesFirst ++ g.specEdgesSecond).length =
        (g.m_grid.length - 1) * (vecGet g.m_grid 0 []).length +
          g.m_grid.length * ((vecGet g.m_grid 0 []).length - 1)) := by
  have heq := curvilinearNodesAndEdges_eq g hrect hM hNpos hsize
  refine ⟨heq, ?_, ?_, ?_, ?_⟩
  · intro ops projection m h
    unfold Mesh.ofCurvilinearGrid
    simp only [heq, h]
  · intro m n hm hn hv
    exact specNodes_rank g hrect m n hm hn hv
  · intro e he
    exact specEdges_in_range g hrect hM hNpos e he
  · intro hall
    exact specCounts_of_valid g hrect hM hall

/-- C30 on a grid of two rows of three points whose point `(1, 1)` is missing: the five valid
points are the nodes, and the edges are `(0, 3)`, `(2, 4)` along the first index and `(0, 1)`,
`(1, 2)` along the second. -/
theorem curvilinearGrid_lift_witness :
    exampleGrid.IsRectangular ∧
    curvilinearNodesAndEdges exampleGrid =
      .ok ([⟨0, 0⟩, ⟨0, 1⟩, ⟨0, 2⟩, ⟨1, 0⟩, ⟨1, 2⟩], [(0, 3), (2, 4), (0, 1), (1, 2)]) :=
  ⟨by decide,
    (curvilinearGrid_lift exampleGrid (by decide) (by decide) (by decide) (by decide)).1.trans
      (congrArg Except.ok (by decide!))⟩

/-- C21 fails on two nodes with nine edges each, administered: `MergeTwoNodes(0, 1)` collects
the edges of both nodes in the scratch vector `secondNodeEdges`, which has
`maximumNumberOfEdgesPerNode = 16` entries; the counter behind which it writes ends at 18, so
the first call has written at the positions 16 and 17, past the end of the vector. -/
theorem MergeTwoNodes_overruns_scratch :
    (twoHubsMesh.Administrate exampleOperations
        AdministrationOptions.AdministrateMeshEdges).toOption.map (fun M =>
      (decide (M.m_edges = twoHubsMesh.m_edges), vecGet M.m_nodesNumEdges 0 0,
        vecGet M.m_nodesNumEdges 1 0, vecGet (M.MergeTwoNodes 0 1).1.m_nodesNumEdges 1 0)) =
      some (true, 9, 9, 18) ∧
    maximumNumberOfEdgesPerNode = 16 := by
  constructor
  · decide!
  · rfl

/-- C22, amended: `MergeNodesInPolygon` on an administered mesh whose edge lists hold every edge
at each node, with a tree that answers only with samples it holds and whose `DeleteNode` drops the
sample removed, when at every merge of the call the two nodes have together at most
`maximumNumberOfEdgesPerNode` = 16 edges in `m_nodesNumEdges`.  The call returns without an
exception, its result being `Administrate` of the mesh the merging loop leaves.  And at every
entry `j` of the query made for a visited filtered node `i` that is another filtered node, first
merge of the call or not, the visited node is merged into the node found: no exception has been
raised so far; with `a` the mesh node of `i` and `b` the mesh node of the entry, `a` and `b` are
distinct nodes in the polygon, the query was made at the coordinates of `a`, the entry calls
`MergeTwoNodes(a, b)` and removes `i` from the tree; `a` becomes the missing point, `b` has the
coordinates it had when `MergeNodesInPolygon` was called and is valid, and every edge at `a` that
does not join `a` and `b` has `a` replaced by `b`. -/
theorem MergeNodesInPolygon_merges_visited (ops : Operations) (tq : TreeQueries)
    (inPolygon : Point → Bool) (m : Mesh)
    (hadm : m.AdministeredEdges) (hN : m.m_nodes.length ≤ sizetMissingValue)
    (hall : ∀ n, n < m.m_nodes.length → m.listsAllEdgesAt n)
    (hanswers : ∀ t p r, ∀ k ∈ tq.NearestNeighborsOnSquaredDistance t p r,
      ∃ q, (q, k) ∈ t.m_points)
    (hdelete : ∀ t i, ∀ x ∈ (tq.DeleteNode t i).m_points, x ∈ t.m_points ∧ x.2 ≠ i)
    (hcap : ∀ i, i < (m.filterNodesInPolygon inPolygon).1.length →
      ∀ j, j < (m.mergeQueryAt tq inPolygon i).length →
      1 < (m.mergeQueryAt tq inPolygon i).length →
      vecGet (m.mergeQueryAt tq inPolygon i) j 0 ≠ i →
      vecGet (m.mergeLoopAtEntry tq inPolygon i j).1.m_nodesNumEdges
          (vecGet (m.filterNodesInPolygon inPolygon).2 i sizetMissingValue) 0 +
        vecGet (m.mergeLoopAtEntry tq inPolygon i j).1.m_nodesNumEdges
          (vecGet (m.filterNodesInPolygon inPolygon).2
            (vecGet (m.mergeQueryAt tq inPolygon i) j 0) sizetMissingValue) 0 ≤
        maximumNumberOfEdgesPerNode) :
    (∃ m', (m.mergeLoopAt tq inPolygon (m.filterNodesInPolygon inPolygon).1.length).2.2 = none ∧
      (m.mergeLoopAt tq inPolygon (m.filterNodesInPolygon inPolygon).1.length).1.Administrate ops
        AdministrationOptions.AdministrateMeshEdges = .ok m' ∧
      m.MergeNodesInPolygon ops tq inPolygon = (m', none)) ∧
    ∀ i, i < (m.filterNodesInPolygon inPolygon).1.length →
      ∀ j, j < (m.mergeQueryAt tq inPolygon i).length →
      1 < (m.mergeQueryAt tq inPolygon i).length →
      vecGet (m.mergeQueryAt tq inPolygon i) j 0 ≠ i →
      (m.mergeLoopAtEntry tq inPolygon i j).2.2 = none ∧
      vecGet (m.filterNodesInPolygon inPolygon).2 i sizetMissingValue ≠
        vecGet (m.filterNodesInPolygon inPolygon).2
          (vecGet (m.mergeQueryAt tq inPolygon i) j 0) sizetMissingValue ∧
      vecGet (m.filterNodesInPolygon inPolygon).2 i sizetMissingValue < m.GetNumNodes ∧
      vecGet (m.filterNodesInPolygon inPolygon).2
        (vecGet (m.mergeQueryAt tq inPolygon i) j 0) sizetMissingValue < m.GetNumNodes ∧
      inPolygon (vecGet m.m_nodes
        (vecGet (m.filterNodesInPolygon inPolygon).2 i sizetMissingValue) missingPoint) = true ∧
      inPolygon (vecGet m.m_nodes
        (vecGet (m.filterNodesInPolygon inPolygon).2
          (vecGet (m.mergeQueryAt tq inPolygon i) j 0) sizetMissingValue) missingPoint) = true ∧
      m.mergeQueryAt tq inPolygon i =
        tq.NearestNeighborsOnSquaredDistance (m.mergeLoopAt tq inPolygon i).2.1
          (vecGet m.m_nodes
            (vecGet (m.filterNodesInPolygon inPolygon).2 i sizetMissingValue) missingPoint)
          tq.mergingDistanceSquared ∧
      ∃ m', m.mergeLoopAtEntry tq inPolygon i (j + 1) =
          (m', tq.DeleteNode (m.mergeLoopAtEntry tq inPolygon i j).2.1 i, none) ∧
        (m.mergeLoopAtEntry tq inPolygon i j).1.MergeTwoNodes
          (vecGet (m.filterNodesInPolygon inPolygon).2 i sizetMissingValue)
          (vecGet (m.filterNodesInPolygon inPolygon).2
            (vecGet (m.mergeQueryAt tq inPolygon i) j 0) sizetMissingValue) = (m', none) ∧
        vecGet m'.m_nodes (vecGet (m.filterNodesInPolygon inPolygon).2 i sizetMissingValue)
          ⟨0, 0⟩ = missingPoint ∧
        vecGet m'.m_nodes
            (vecGet (m.filterNodesInPolygon inPolygon).2
              (vecGet (m.mergeQueryAt tq inPolygon i) j 0) sizetMissingValue) missingPoint =
          vecGet m.m_nodes
            (vecGet (m.filterNodesInPolygon inPolygon).2
              (vecGet (m.mergeQueryAt tq inPolygon i) j 0) sizetMissingValue) missingPoint ∧
        (vecGet m'.m_nodes
          (vecGet (m.filterNodesInPolygon inPolygon).2
            (vecGet (m.mergeQueryAt tq inPolygon i) j 0) sizetMissingValue)
          missingPoint).IsValid = true ∧
        ∀ e,
          ¬ (m.mergeLoopAtEntry tq inPolygon i j).1.joins e
            (vecGet (m.filterNodesInPolygon inPolygon).2 i sizetMissingValue)
            (vecGet (m.filterNodesInPolygon inPolygon).2
              (vecGet (m.mergeQueryAt tq inPolygon i) j 0) sizetMissingValue) →
          (((m.mergeLoopAtEntry tq inPolygon i j).1.edge e).1 =
              vecGet (m.filterNodesInPolygon inPolygon).2 i sizetMissingValue ∨
            ((m.mergeLoopAtEntry tq inPolygon i j).1.edge e).2 =
              vecGet (m.filterNodesInPolygon inPolygon).2 i sizetMissingValue) →
          m'.edge e =
            (if ((m.mergeLoopAtEntry tq inPolygon i j).1.edge e).1 =
                vecGet (m.filterNodesInPolygon inPolygon).2 i sizetMissingValue
              then vecGet (m.filterNodesInPolygon inPolygon).2
                (vecGet (m.mergeQueryAt tq inPolygon i) j 0) sizetMissingValue
              else ((m.mergeLoopAtEntry tq inPolygon i j).1.edge e).1,
             if ((m.mergeLoopAtEntry tq inPolygon i j).1.edge e).2 =
                vecGet (m.filterNodesInPolygon inPolygon).2 i sizetMissingValue
              then vecGet (m.filterNodesInPolygon inPolygon).2
                (vecGet (m.mergeQueryAt tq inPolygon i) j 0) sizetMissingValue
              else ((m.mergeLoopAtEntry tq inPolygon i j).1.edge e).2) := by
  have hnum : m.GetNumNodes = m.m_nodes.length := hadm.nodeEdges.numNodes
  have hout := mergeOuter_inv tq inPolygon m hadm hN hall hanswers hdelete hcap
  obtain ⟨hlt, hinj⟩ := filterNodesInPolygon_spec inPolygon m
  have hin := filterNodesInPolygon_inPolygon inPolygon m
  constructor
  · obtain ⟨o1, o2, _⟩ := hout _ (Nat.le_refl _)
    obtain ⟨m', a1, _⟩ := Administrate_edges_ok ops
      (m.mergeLoopAt tq inPolygon (m.filterNodesInPolygon inPolygon).1.length).1
      (MergeInv_inRange _ _ _ o2) (by rw [o2.len_nodes]; exact hN)
    exact ⟨m', o1, a1, MergeNodesInPolygon_of_loop ops tq inPolygon m m' o1 a1⟩
  · intro i hi j hj hlen hq
    obtain ⟨o1, o2, o3⟩ := hout i (by omega)
    obtain ⟨a1, a2, _, a4, _⟩ := mergeInner_inv tq inPolygon m hN hnum hanswers hdelete i hi
      o1 o2 o3 (fun j' hj' hq' => hcap i hi j' hj' hlen hq') j (by omega)
    have hmem : vecGet (m.mergeQueryAt tq inPolygon i) j 0 ∈ m.mergeQueryAt tq inPolygon i :=
      vecGet_mem _ _ _ hj
    have hsample : ∃ p, (p, vecGet (m.mergeQueryAt tq inPolygon i) j 0) ∈
        (m.mergeLoopAt tq inPolygon i).2.1.m_points := hanswers _ _ _ _ hmem
    have hqF : vecGet (m.mergeQueryAt tq inPolygon i) j 0 <
        (m.filterNodesInPolygon inPolygon).1.length := by
      obtain ⟨p, hp⟩ := hsample
      exact (o3 _ hp).1
    obtain ⟨g0, ga, gb, s', g1, g2, g3, g4, g5, _, g7⟩ := mergeNeighbourStep_general tq m
      (m.filterNodesInPolygon inPolygon).2 (m.mergeQueryAt tq inPolygon i) i j
      m.m_nodes.length m.m_edges.length (m.filterNodesInPolygon inPolygon).1.length hN
      (fun k hk => by have := hlt k hk; omega) hinj
      hi (m.mergeLoopAtEntry tq inPolygon i j) (m.mergeLoopAt tq inPolygon i).2.1 a1 a2 a4
      hsample hq (hcap i hi j hj hlen hq)
    refine ⟨a1, g0, by omega, by omega, (hin i hi).1, (hin _ hqF).1, ?_, s', ?_, g2, ?_, g5, ?_,
      fun e hj' hend => g7 e hj' hend⟩
    · unfold Mesh.mergeQueryAt
      rw [(hin i hi).2]
    · rw [mergeLoopAtEntry_succ]
      exact g1
    · rw [g4, vecGet_set]
      exact if_pos ⟨rfl, by rw [a2.len_nodes]; exact ga⟩
    · rw [g5]
      exact hadm.validNodes _ (vecGet_mem _ _ _ gb)

/-- C22, amended, on the mesh of scenario S3 with its node tables, every node in the polygon and
a tree that searches exhaustively: the hypotheses hold, the call returns without an exception, and
at entry 1 of the query made for the visited node 0, which is the node 1, node 0 becomes the
missing point, node 1 keeps the coordinates `(10⁻⁹, 10⁻⁹)`, and edge 0, which joined the nodes 0
and 2, joins the nodes 1 and 2. -/
theorem MergeNodesInPolygon_merges_visited_witness :
    closeNodesMesh.DeleteInvalidNodesAndEdges.resetNodeTables.NodeAdministration.AdministeredEdges ∧
    (∃ m', closeNodesMesh.DeleteInvalidNodesAndEdges.resetNodeTables.NodeAdministration.MergeNodesInPolygon
      exampleOperations exampleTreeQueries (fun _ => true) = (m', none)) ∧
    ∃ m', closeNodesMesh.DeleteInvalidNodesAndEdges.resetNodeTables.NodeAdministration.mergeLoopAtEntry
        exampleTreeQueries (fun _ => true) 0 2 =
          (m', exampleTreeQueries.DeleteNode
            (closeNodesMesh.DeleteInvalidNodesAndEdges.resetNodeTables.NodeAdministration.mergeLoopAtEntry
              exampleTreeQueries (fun _ => true) 0 1).2.1 0, none) ∧
      vecGet m'.m_nodes 0 ⟨0, 0⟩ = missingPoint ∧
      vecGet m'.m_nodes 1 missingPoint = ⟨1 / 1000000000, 1 / 1000000000⟩ ∧
      m'.edge 0 = (1, 2) := by
  have hadm :
      closeNodesMesh.DeleteInvalidNodesAndEdges.resetNodeTables.NodeAdministration.AdministeredEdges :=
    ⟨by decide!, by decide!, by decide!,
      (NodeAdministration_ok closeNodesMesh.DeleteInvalidNodesAndEdges (by decide!) (by decide!)
        (by decide!)).1⟩
  obtain ⟨⟨m1, _, _, r⟩, steps⟩ := MergeNodesInPolygon_merges_visited exampleOperations
    exampleTreeQueries (fun _ => true)
    closeNodesMesh.DeleteInvalidNodesAndEdges.resetNodeTables.NodeAdministration hadm
    (by decide!) (by decide!) exampleTreeQueries_answers exampleTreeQueries_delete (by decide!)
  refine ⟨hadm, ⟨m1, r⟩, ?_⟩
  obtain ⟨_, _, _, _, _, _, _, m', h1, _, h3, h4, _, h6⟩ :=
    steps 0 (by decide!) 1 (by decide!) (by decide!) (by decide!)
  have ea : vecGet
      (closeNodesMesh.DeleteInvalidNodesAndEdges.resetNodeTables.NodeAdministration.filterNodesInPolygon
        (fun _ => true)).2 0 sizetMissingValue = 0 := by decide!
  have eb : vecGet
      (closeNodesMesh.DeleteInvalidNodesAndEdges.resetNodeTables.NodeAdministration.filterNodesInPolygon
        (fun _ => true)).2
      (vecGet
        (closeNodesMesh.DeleteInvalidNodesAndEdges.resetNodeTables.NodeAdministration.mergeQueryAt
          exampleTreeQueries (fun _ => true) 0) 1 0) sizetMissingValue = 1 := by decide!
  have ee :
      (closeNodesMesh.DeleteInvalidNodesAndEdges.resetNodeTables.NodeAdministration.mergeLoopAtEntry
        exampleTreeQueries (fun _ => true) 0 1).1.edge 0 = (0, 2) := by decide!
  rw [ea] at h3 h6
  rw [eb] at h4 h6
  refine ⟨m', h1, h3, h4.trans (by decide!), ?_⟩
  have h := h6 0
    (fun h => by
      unfold Mesh.joins at h
      rw [ee] at h
      exact h.elim (fun h' => absurd h'.2 (by decide)) (fun h' => absurd h'.1 (by decide)))
    (Or.inl (by rw [ee]))
  rw [ee] at h
  exact h

/-- C22 as stated fails on the mesh of scenario S3, administered, with every node in the polygon:
`MergeNodesInPolygon` leaves the nodes `(10⁻⁹, 10⁻⁹)`, `(1, 0)`, `(0, 1)`, so the node that
survives is the one found, not the visited node `(0, 0)`.  And on a star of 17 edges with a node
close to its centre, administered, the edge from the centre to the node `(17, 0)` is not
re-pointed: the result has the 16 edges from the surviving node to the other spokes and no edge
at the node `(17, 0)`. -/
theorem MergeNodesInPolygon_keeps_found_node :
    (closeNodesMesh.Administrate exampleOperations
        AdministrationOptions.AdministrateMeshEdges).toOption.map (fun M =>
      (decide (M.m_nodes = closeNodesMesh.m_nodes ∧ M.m_edges = closeNodesMesh.m_edges),
        (M.MergeNodesInPolygon exampleOperations exampleTreeQueries (fun _ => true)).2,
        (M.MergeNodesInPolygon exampleOperations exampleTreeQueries (fun _ => true)).1.m_nodes,
        (M.MergeNodesInPolygon exampleOperations exampleTreeQueries (fun _ => true)).1.m_edges)) =
      some (true, none, [⟨1 / 1000000000, 1 / 1000000000⟩, ⟨1, 0⟩, ⟨0, 1⟩], [(0, 1), (0, 2)]) ∧
    (closeHubMesh.Administrate exampleOperations
        AdministrationOptions.AdministrateMeshEdges).toOption.map (fun M =>
      (decide (M.m_nodes = closeHubMesh.m_nodes ∧ M.m_edges = closeHubMesh.m_edges),
        (M.MergeNodesInPolygon exampleOperations exampleTreeQueries (fun _ => true)).2,
        (M.MergeNodesInPolygon exampleOperations exampleTreeQueries (fun _ => true)).1.m_nodes,
        (M.MergeNodesInPolygon exampleOperations exampleTreeQueries (fun _ => true)).1.m_edges)) =
      some (true, none,
        (List.range 17).map (fun i => (⟨i + 1, 16 - i⟩ : Point)) ++
          [⟨1 / 1000000000, 1 / 1000000000⟩],
        (List.range 16).map (fun i => (17, i))) := by
  constructor
  · decide!
  · decide!

end meshkernel

namespace meshkernel

/-! ## Claims on masks, incidence, face cycles, quality measures and the boundary polygon -/

/-- C32: for a mesh of fewer than `2^64` nodes, `ComputeNodeMaskFromEdgeMask` raises
`invalid_argument` and leaves the mesh as it was when the edge mask has not the length
`GetNumEdges()` or the node mask has not the length `GetNumNodes()`; otherwise it raises
nothing, the node mask keeps its length, and for every node `n`, the node `0` included,
`nodeMask[n]` is 1 exactly when `n` is an endpoint of an edge `e` with `edgeMask[e] == 1`, and is
0 otherwise. -/
theorem ComputeNodeMaskFromEdgeMask_marks_endpoints (m : Mesh)
    (hN : m.GetNumNodes ≤ sizetMissingValue) :
    ((m.m_edgeMask.length ≠ m.GetNumEdges ∨ m.m_nodeMask.length ≠ m.GetNumNodes) →
      m.ComputeNodeMaskFromEdgeMask = (m, some MeshError.invalid_argument)) ∧
    (m.m_edgeMask.length = m.GetNumEdges → m.m_nodeMask.length = m.GetNumNodes →
      m.ComputeNodeMaskFromEdgeMask.2 = none ∧
      m.ComputeNodeMaskFromEdgeMask.1.m_nodeMask.length = m.GetNumNodes ∧
      ∀ n, n < m.GetNumNodes →
        (vecGet m.ComputeNodeMaskFromEdgeMask.1.m_nodeMask n 0 = 1 ↔
          ∃ e, e < m.GetNumEdges ∧ vecGet m.m_edgeMask e 0 = 1 ∧
            ((m.edge e).1 = n ∨ (m.edge e).2 = n)) ∧
        (vecGet m.ComputeNodeMaskFromEdgeMask.1.m_nodeMask n 0 = 1 ∨
          vecGet m.ComputeNodeMaskFromEdgeMask.1.m_nodeMask n 0 = 0)) := by
  constructor
  · intro h
    unfold Mesh.ComputeNodeMaskFromEdgeMask
    rw [if_pos h]
  · intro h1 h2
    have d : ¬ (m.m_edgeMask.length ≠ m.GetNumEdges ∨ m.m_nodeMask.length ≠ m.GetNumNodes) := by
      rintro (h | h)
      · exact h h1
      · exact h h2
    unfold Mesh.ComputeNodeMaskFromEdgeMask
    rw [if_neg d]
    dsimp only
    rw [h2]
    obtain ⟨l1, l2⟩ := computeNodeMask_loop m m.GetNumNodes hN m.GetNumEdges
    exact ⟨rfl, l1, l2⟩

/-- C32 at the unit square with the first edge masked: the nodes 0 and 1 are marked. -/
theorem ComputeNodeMaskFromEdgeMask_marks_endpoints_witness :
    ({ squareMesh with
        m_numNodes := 4, m_numEdges := 4, m_nodeMask := [7, 7, 7, 7],
        m_edgeMask := [1, 0, 0, 0] } : Mesh).GetNumNodes ≤ sizetMissingValue ∧
    ({ squareMesh with
        m_numNodes := 4, m_numEdges := 4, m_nodeMask := [7, 7, 7, 7],
        m_edgeMask := [1, 0, 0, 0] } : Mesh).ComputeNodeMaskFromEdgeMask.1.m_nodeMask =
      [1, 1, 0, 0] ∧
    (vecGet ({ squareMesh with
        m_numNodes := 4, m_numEdges := 4, m_nodeMask := [7, 7, 7, 7],
        m_edgeMask := [1, 0, 0, 0] } : Mesh).ComputeNodeMaskFromEdgeMask.1.m_nodeMask 0 0 = 1 ∨
      vecGet ({ squareMesh with
        m_numNodes := 4, m_numEdges := 4, m_nodeMask := [7, 7, 7, 7],
        m_edgeMask := [1, 0, 0, 0] } : Mesh).ComputeNodeMaskFromEdgeMask.1.m_nodeMask 0 0 = 0) :=
  ⟨by decide, by decide,
    (((ComputeNodeMaskFromEdgeMask_marks_endpoints
      ({ squareMesh with
        m_numNodes := 4, m_numEdges := 4, m_nodeMask := [7, 7, 7, 7],
        m_edgeMask := [1, 0, 0, 0] } : Mesh) (by decide)).2 (by decide) (by decide)).2.2 0
          (by decide)).2⟩

/-- C34: after `NodeAdministration` on a mesh whose edges refer to nodes of the mesh, every edge
is recorded at its first node exactly when it is recorded at its second node.  Consequently, for
an edge `prev` recorded at a node `n`, the node `other` at which a walk of `FindFacesRecursive`
arrives over `prev` is a node of the mesh, `prev` is found among its edges at a position `i`
below their number `d`, the position `(i + d - 1) mod d` one step clockwise is below `d`, and
the edge stored there, which the walk takes next, is again recorded at `other`. -/
theorem NodeAdministration_incidence_symmetric (m : Mesh) (hr : m.EdgesInRange)
    (hN : m.m_numNodes = m.m_nodes.length) (hE : m.m_numEdges = m.m_edges.length) :
    ∀ A, A = m.resetNodeTables.NodeAdministration →
      (∀ e, e ∈ vecGet A.m_nodesEdges (A.edge e).1 [] ↔
        e ∈ vecGet A.m_nodesEdges (A.edge e).2 []) ∧
      (∀ n prev, n < A.m_nodes.length → prev ∈ vecGet A.m_nodesEdges n [] →
        ∀ other, other = OtherNodeOfEdge (A.edge prev) n →
          other < A.m_nodes.length ∧
          ∃ i, i < vecGet A.m_nodesNumEdges other 0 ∧
            vecGet (vecGet A.m_nodesEdges other []) i 0 = prev ∧
            (i + vecGet A.m_nodesNumEdges other 0 - 1) % vecGet A.m_nodesNumEdges other 0 <
              vecGet A.m_nodesNumEdges other 0 ∧
            A.nextEdge other prev = vecGet (vecGet A.m_nodesEdges other [])
              ((i + vecGet A.m_nodesNumEdges other 0 - 1) % vecGet A.m_nodesNumEdges other 0) 0 ∧
            A.nextEdge other prev ∈ vecGet A.m_nodesEdges other []) := by
  intro A hA
  obtain ⟨hok, hsame⟩ := NodeAdministration_ok m hr hN hE
  rw [← hA] at hok hsame
  obtain ⟨a1, a2, _, _, _⟩ := sameButNodeTables_fields m A hsame
  refine ⟨fun e => recorded_symmetric A hok e, ?_⟩
  intro n prev hn hprev other hother
  obtain ⟨b1, b2, _⟩ := mem_nodesEdges_ok A hok n hn prev hprev
  have hrange : (A.edge prev).1 < A.m_nodes.length ∧ (A.edge prev).2 < A.m_nodes.length := by
    have hrA : A.EdgesInRange := by
      unfold Mesh.EdgesInRange
      rw [a1, a2]
      exact hr
    exact edge_in_range A hrA prev b2
  have holt : other < A.m_nodes.length := by
    rw [hother]
    rcases OtherNodeOfEdge_mem (A.edge prev) n with h | h
    · rw [h]; exact hrange.1
    · rw [h]; exact hrange.2
  have hmem : prev ∈ vecGet A.m_nodesEdges other [] := by
    rw [hother]
    exact hok.sym n hn prev hprev
  obtain ⟨i, i1, i2, i3, i4⟩ := nextEdge_position A hok other holt prev hmem
  exact ⟨holt, i, i1, i2, i3, i4, nextEdge_mem A hok other holt prev hmem⟩

/-- C34 at the two triangles of scenario S2. -/
theorem NodeAdministration_incidence_symmetric_witness :
    twoTrianglesMesh.DeleteInvalidNodesAndEdges.EdgesInRange ∧
    ∀ e, e ∈ vecGet
        twoTrianglesMesh.DeleteInvalidNodesAndEdges.resetNodeTables.NodeAdministration.m_nodesEdges
        (twoTrianglesMesh.DeleteInvalidNodesAndEdges.resetNodeTables.NodeAdministration.edge e).1
          [] ↔
      e ∈ vecGet
        twoTrianglesMesh.DeleteInvalidNodesAndEdges.resetNodeTables.NodeAdministration.m_nodesEdges
        (twoTrianglesMesh.DeleteInvalidNodesAndEdges.resetNodeTables.NodeAdministration.edge e).2
          [] :=
  ⟨by decide,
    (NodeAdministration_incidence_symmetric twoTrianglesMesh.DeleteInvalidNodesAndEdges
      (by decide) (by decide) (by decide) _ rfl).1⟩

/-- C35: `Administrate` with faces returns and, when face discovery has run, for every face `f`
with `k` nodes the lists `m_facesEdges[f]` and `m_facesNodes[f]` have the same length `k`, the
edge at every position `i < k` is an edge of the mesh that joins the node at position `i` and the
node at position `(i + 1) mod k`, and the `k` edges are pairwise distinct: they form a closed
cycle through the nodes of the face. -/
theorem FindFaces_face_cycle (ops : Operations) (m : Mesh) (hr : m.EdgesInRange)
    (hn : m.m_nodes.length ≤ sizetMissingValue) :
    ∃ m', m.Administrate ops AdministrationOptions.AdministrateMeshEdgesAndFaces = .ok m' ∧
      (m'.GetNumEdges = 0 ∨ ∀ f, f < m'.GetNumFaces →
        (vecGet m'.m_facesEdges f []).length = (vecGet m'.m_facesNodes f []).length ∧
        (∀ i, i < (vecGet m'.m_facesNodes f []).length →
          vecGet (vecGet m'.m_facesEdges f []) i 0 < m'.GetNumEdges ∧
          m'.joins (vecGet (vecGet m'.m_facesEdges f []) i 0)
            (vecGet (vecGet m'.m_facesNodes f []) i 0)
            (vecGet (vecGet m'.m_facesNodes f [])
              ((i + 1) % (vecGet m'.m_facesNodes f []).length) 0)) ∧
        (vecGet m'.m_facesEdges f []).Nodup) := by
  obtain ⟨m', h, _, _, hN, hE, hrange, hcase⟩ := Administrate_faces_ok ops m hr hn
  refine ⟨m', h, ?_⟩
  rcases hcase with hempty | hadm
  · exact Or.inl (numEdges_zero_of_empty m' hN hE hrange hempty)
  · right
    intro f hf
    have hface := hadm.faces.faces f hf
    refine ⟨hface.len.symm, fun i hi => ⟨?_, hface.joins i hi⟩, FaceOk_edges_nodup hface⟩
    show _ < m'.m_numEdges
    rw [hE]
    exact hface.edges_lt _ (vecGet_mem _ _ _ (by rw [← hface.len]; exact hi))

/-- C35 at the two triangles of scenario S2. -/
theorem FindFaces_face_cycle_witness :
    twoTrianglesMesh.EdgesInRange ∧ twoTrianglesMesh.m_nodes.length ≤ sizetMissingValue ∧
    ∃ m', twoTrianglesMesh.Administrate exampleOperations
        AdministrationOptions.AdministrateMeshEdgesAndFaces = .ok m' ∧
      (m'.GetNumEdges = 0 ∨ ∀ f, f < m'.GetNumFaces →
        (vecGet m'.m_facesEdges f []).length = (vecGet m'.m_facesNodes f []).length ∧
        (∀ i, i < (vecGet m'.m_facesNodes f []).length →
          vecGet (vecGet m'.m_facesEdges f []) i 0 < m'.GetNumEdges ∧
          m'.joins (vecGet (vecGet m'.m_facesEdges f []) i 0)
            (vecGet (vecGet m'.m_facesNodes f []) i 0)
            (vecGet (vecGet m'.m_facesNodes f [])
              ((i + 1) % (vecGet m'.m_facesNodes f []).length) 0)) ∧
        (vecGet m'.m_facesEdges f []).Nodup) :=
  ⟨by decide, by decide,
    FindFaces_face_cycle exampleOperations twoTrianglesMesh (by decide) (by decide)⟩

/-- C36 fails on two nodes with nine edges each, administered, with `a = 0` and `b = 1`, two
distinct nodes of the mesh whose numbers of edges add up to 18: `MergeTwoNodes(0, 1)` raises
nothing and leaves `nodesNumEdges[1] = 18`, above the cap
`maximumNumberOfEdgesPerNode = 16`; the 18 edges were written behind the counter into the
scratch list of 16 entries, of which the list of node 1 holds the 16 that fit. -/
theorem MergeTwoNodes_exceeds_cap :
    (twoHubsMesh.Administrate exampleOperations
        AdministrationOptions.AdministrateMeshEdges).toOption.map (fun M =>
      (M.GetNumNodes, vecGet M.m_nodesNumEdges 0 0 + vecGet M.m_nodesNumEdges 1 0,
        (M.MergeTwoNodes 0 1).2)) = some (20, 18, none) ∧
    (twoHubsMesh.Administrate exampleOperations
        AdministrationOptions.AdministrateMeshEdges).toOption.map (fun M =>
      (vecGet (M.MergeTwoNodes 0 1).1.m_nodesNumEdges 1 0,
        (vecGet (M.MergeTwoNodes 0 1).1.m_nodesEdges 1 []).length,
        decide (maximumNumberOfEdgesPerNode <
          vecGet (M.MergeTwoNodes 0 1).1.m_nodesNumEdges 1 0))) = some (18, 16, true) := by
  constructor
  · decide!
  · decide!

/-- C37 fails on the unit square with the hanging edge `(4, 0)` of scenario S4, administered
with its faces: edge 4 is valid and has no face, so it is no boundary edge and passes the test of
`GetOrthogonality` and `GetSmoothness`; both entries of `m_edgesFaces[4]` are the missing value,
and these are the indices at which the face arrays are read, while the mesh has one face. -/
theorem GetOrthogonality_subscripts_hanging_edge :
    (hangingEdgeMesh.Administrate exampleOperations
        AdministrationOptions.AdministrateMeshEdgesAndFaces).toOption.map (fun M =>
      (M.faceSubscripts, M.GetNumFaces, M.edge 4, vecGet M.m_edgesNumFaces 4 0)) =
      some ([sizetMissingValue, sizetMissingValue], 1, (4, 0), 0) := by
  decide!

/-- C38 fails on the unit square with the hanging edge `(4, 0)` of scenario S4, administered
with its faces: node 0 has the three edges 0, 4 and 3, of which edge 4 has no face;
`SortedFacesAroundNode(0)` skips it and returns two entries, so the entry that `MakeDualFace`
reads for the third edge does not exist. -/
theorem SortedFacesAroundNode_skips_faceless_edge :
    (hangingEdgeMesh.Administrate exampleOperations
        AdministrationOptions.AdministrateMeshEdgesAndFaces).toOption.map (fun M =>
      ((M.SortedFacesAroundNode 0).length, vecGet M.m_nodesNumEdges 0 0,
        vecGet M.m_nodesEdges 0 [], vecGet M.m_edgesNumFaces 4 0)) =
      some (2, 3, [0, 4, 3], 0) := by
  decide!

/-- C39 fails on the two triangles of scenario S2, administered with their faces: edge 1 has two
faces of area `1/2` each, and `GetSmoothness` returns `-1/999` for it, the inverse of the missing
value, where the ratio of the areas is 1. -/
theorem GetSmoothness_inverts_missing_value :
    (twoTrianglesMesh.Administrate exampleOperations
        AdministrationOptions.AdministrateMeshEdgesAndFaces).toOption.map (fun M =>
      (M.GetSmoothness (1 / 1000000), M.m_faceArea, vecGet M.m_edgesNumFaces 1 0,
        vecGet M.m_edgesFaces 1 [])) =
      some ([-999, -1 / 999, -999, -999, -999], [1 / 2, 1 / 2], 2, [0, 1]) := by
  decide!

/-- The circumcenter that `Administrate` leaves for a face, for a mesh given as the result of
stages 7 and 8. -/
theorem stage7_circumcenters_of (ops : Operations) (m3 m' : Mesh)
    (hm : m' = (m3.ComputeFaceCircumcentersMassCentersAndAreas ops true).ClassifyNodes ops)
    (f : Nat) (hf : f < m'.GetNumFaces) :
    vecGet m'.m_facesCircumcenters f missingPoint =
      if (List.range (m'.GetNumFaceEdges f)).countP (fun n =>
          !(m'.IsEdgeOnBoundary (vecGet (vecGet m'.m_facesEdges f []) n 0))) = 0
      then vecGet m'.m_facesMassCenters f missingPoint
      else (m'.ComputeFaceCircumenter ops (m'.ComputeFaceClosedPolygon f)
        ((List.range (m'.GetNumFaceEdges f)).map (fun n =>
          vecGet m'.m_edgesNumFaces (vecGet (vecGet m'.m_facesEdges f []) n 0) 0))).1 := by
  subst hm
  exact stage7_circumcenters ops m3 f hf

/-- C33, amended: `Administrate` with faces returns and, when face discovery has run, for every
face `f` of three nodes: when every edge of `f` is a boundary edge, the stored circumcenter is
the mass center of the face; when an edge of `f` is no boundary edge and the circumcenter of the
three nodes, as `CircumcenterOfTriangle` returns it, lies in the ring of the face moved towards
its center of mass by `weightCircumCenter`, the stored circumcenter is that circumcenter. -/
theorem faceCircumcenter_of_triangle (ops : Operations) (m : Mesh) (hr : m.EdgesInRange)
    (hn : m.m_nodes.length ≤ sizetMissingValue) :
    ∃ m', m.Administrate ops AdministrationOptions.AdministrateMeshEdgesAndFaces = .ok m' ∧
      (m'.GetNumEdges = 0 ∨ ∀ f, f < m'.GetNumFaces →
        m'.GetNumFaceEdges f = numNodesInTriangle →
        ((∀ n, n < numNodesInTriangle →
            m'.IsEdgeOnBoundary (vecGet (vecGet m'.m_facesEdges f []) n 0) = true) →
          vecGet m'.m_facesCircumcenters f missingPoint =
            vecGet m'.m_facesMassCenters f missingPoint) ∧
        ((∃ n, n < numNodesInTriangle ∧
            m'.IsEdgeOnBoundary (vecGet (vecGet m'.m_facesEdges f []) n 0) = false) →
          ops.IsPointInPolygonNodes
            (ops.CircumcenterOfTriangle
              (vecGet m'.m_nodes (vecGet (vecGet m'.m_facesNodes f []) 0 0) missingPoint)
              (vecGet m'.m_nodes (vecGet (vecGet m'.m_facesNodes f []) 1 0) missingPoint)
              (vecGet m'.m_nodes (vecGet (vecGet m'.m_facesNodes f []) 2 0) missingPoint)
              m'.m_projection)
            (weightedPolygon ops (m'.ComputeFaceClosedPolygon f) numNodesInTriangle
              (polygonCenterOfMass (m'.ComputeFaceClosedPolygon f) numNodesInTriangle))
            m'.m_projection = true →
          vecGet m'.m_facesCircumcenters f missingPoint =
            ops.CircumcenterOfTriangle
              (vecGet m'.m_nodes (vecGet (vecGet m'.m_facesNodes f []) 0 0) missingPoint)
              (vecGet m'.m_nodes (vecGet (vecGet m'.m_facesNodes f []) 1 0) missingPoint)
              (vecGet m'.m_nodes (vecGet (vecGet m'.m_facesNodes f []) 2 0) missingPoint)
              m'.m_projection)) := by
  obtain ⟨m', h, _, _, hN, hE, hrange, _⟩ := Administrate_faces_ok ops m hr hn
  refine ⟨m', h, ?_⟩
  rcases Administrate_faces_shape ops m m' h with hempty | ⟨m3, hm3⟩
  · exact Or.inl (numEdges_zero_of_empty m' hN hE hrange hempty)
  · right
    intro f hf h3
    have key := stage7_circumcenters_of ops m3 m' hm3 f hf
    rw [h3] at key
    constructor
    · intro hall
      have hz : (List.range numNodesInTriangle).countP (fun n =>
          !(m'.IsEdgeOnBoundary (vecGet (vecGet m'.m_facesEdges f []) n 0))) = 0 := by
        rw [List.countP_eq_zero]
        intro n hn
        rw [hall n (List.mem_range.mp hn)]
        decide
      rw [key, if_pos hz]
    · rintro ⟨n, hn, hnb⟩ hin
      have hnz : ¬ (List.range numNodesInTriangle).countP (fun n =>
          !(m'.IsEdgeOnBoundary (vecGet (vecGet m'.m_facesEdges f []) n 0))) = 0 := by
        intro hz
        rw [List.countP_eq_zero] at hz
        have := hz n (List.mem_range.mpr hn)
        rw [hnb] at this
        exact this rfl
      rw [key, if_neg hnz]
      have hlen : sizetSub (m'.ComputeFaceClosedPolygon f).length 1 = numNodesInTriangle := by
        rw [ComputeFaceClosedPolygon_length, h3]
        decide
      have p0 := ComputeFaceClosedPolygon_get m' f 0 (by rw [h3]; decide)
      have p1 := ComputeFaceClosedPolygon_get m' f 1 (by rw [h3]; decide)
      have p2 := ComputeFaceClosedPolygon_get m' f 2 (by rw [h3]; decide)
      rw [← p0, ← p1, ← p2] at hin ⊢
      exact ComputeFaceCircumenter_triangle ops m' _ _ hlen hin

/-- C33, amended, at two triangles that share the edge from `(0, 0)` to `(4, 0)`, with the
circumcenter and the test for a point in a polygon of the spec: face 1 has the nodes `(0, 0)`,
`(2, -3)`, `(4, 0)`, its circumcenter `(2, -5/6)` lies in its ring, and it is the stored
circumcenter. -/
theorem faceCircumcenter_of_triangle_witness :
    obtusePairMesh.EdgesInRange ∧ obtusePairMesh.m_nodes.length ≤ sizetMissingValue ∧
    (∃ m', obtusePairMesh.Administrate geometricOperations
        AdministrationOptions.AdministrateMeshEdgesAndFaces = .ok m' ∧
      (m'.GetNumEdges = 0 ∨ ∀ f, f < m'.GetNumFaces →
        m'.GetNumFaceEdges f = numNodesInTriangle →
        ((∀ n, n < numNodesInTriangle →
            m'.IsEdgeOnBoundary (vecGet (vecGet m'.m_facesEdges f []) n 0) = true) →
          vecGet m'.m_facesCircumcenters f missingPoint =
            vecGet m'.m_facesMassCenters f missingPoint) ∧
        ((∃ n, n < numNodesInTriangle ∧
            m'.IsEdgeOnBoundary (vecGet (vecGet m'.m_facesEdges f []) n 0) = false) →
          geometricOperations.IsPointInPolygonNodes
            (geometricOperations.CircumcenterOfTriangle
              (vecGet m'.m_nodes (vecGet (vecGet m'.m_facesNodes f []) 0 0) missingPoint)
              (vecGet m'.m_nodes (vecGet (vecGet m'.m_facesNodes f []) 1 0) missingPoint)
              (vecGet m'.m_nodes (vecGet (vecGet m'.m_facesNodes f []) 2 0) missingPoint)
              m'.m_projection)
            (weightedPolygon geometricOperations (m'.ComputeFaceClosedPolygon f)
              numNodesInTriangle
              (polygonCenterOfMass (m'.ComputeFaceClosedPolygon f) numNodesInTriangle))
            m'.m_projection = true →
          vecGet m'.m_facesCircumcenters f missingPoint =
            geometricOperations.CircumcenterOfTriangle
              (vecGet m'.m_nodes (vecGet (vecGet m'.m_facesNodes f []) 0 0) missingPoint)
              (vecGet m'.m_nodes (vecGet (vecGet m'.m_facesNodes f []) 1 0) missingPoint)
              (vecGet m'.m_nodes (vecGet (vecGet m'.m_facesNodes f []) 2 0) missingPoint)
              m'.m_projection))) ∧
    (obtusePairMesh.Administrate geometricOperations
        AdministrationOptions.AdministrateMeshEdgesAndFaces).toOption.map (fun M =>
      (M.GetNumFaceEdges 1, M.IsEdgeOnBoundary (vecGet (vecGet M.m_facesEdges 1 []) 2 0),
        geometricOperations.IsPointInPolygonNodes
          (geometricOperations.CircumcenterOfTriangle
            (vecGet M.m_nodes (vecGet (vecGet M.m_facesNodes 1 []) 0 0) missingPoint)
            (vecGet M.m_nodes (vecGet (vecGet M.m_facesNodes 1 []) 1 0) missingPoint)
            (vecGet M.m_nodes (vecGet (vecGet M.m_facesNodes 1 []) 2 0) missingPoint)
            M.m_projection)
          (weightedPolygon geometricOperations (M.ComputeFaceClosedPolygon 1)
            numNodesInTriangle
            (polygonCenterOfMass (M.ComputeFaceClosedPolygon 1) numNodesInTriangle))
          M.m_projection,
        vecGet M.m_facesCircumcenters 1 missingPoint)) =
      some (3, false, true, (⟨2, -5 / 6⟩ : Point)) :=
  ⟨by decide, by decide,
    faceCircumcenter_of_triangle geometricOperations obtusePairMesh (by decide) (by decide),
    by decide!⟩

/-- C33 as stated fails, with the circumcenter, the test for a point in a polygon and the
crossing of two segments of the spec.  On a single triangle `(0, 0)`, `(1, 0)`, `(0, 1)` every
edge is a boundary edge, and the stored circumcenter is the mass center `(1/3, 1/3)`, not the
circumcenter `(1/2, 1/2)`.  On two triangles that share the edge from `(0, 0)` to `(4, 0)`,
face 0 with the third node `(2, 1)` is obtuse: its circumcenter `(2, -3/2)` lies outside the
face, and the stored circumcenter is `(2, 0)`, where the segment from the center of mass to the
circumcenter crosses the ring. -/
theorem faceCircumcenter_not_exact :
    (triangleMesh.Administrate geometricOperations
        AdministrationOptions.AdministrateMeshEdgesAndFaces).toOption.map (fun M =>
      (M.GetNumFaces, vecGet M.m_facesNodes 0 [], vecGet M.m_facesCircumcenters 0 missingPoint,
        geometricOperations.CircumcenterOfTriangle
          (vecGet M.m_nodes (vecGet (vecGet M.m_facesNodes 0 []) 0 0) missingPoint)
          (vecGet M.m_nodes (vecGet (vecGet M.m_facesNodes 0 []) 1 0) missingPoint)
          (vecGet M.m_nodes (vecGet (vecGet M.m_facesNodes 0 []) 2 0) missingPoint)
          M.m_projection)) =
      some (1, [0, 1, 2], (⟨1 / 3, 1 / 3⟩ : Point), (⟨1 / 2, 1 / 2⟩ : Point)) ∧
    (obtusePairMesh.Administrate geometricOperations
        AdministrationOptions.AdministrateMeshEdgesAndFaces).toOption.map (fun M =>
      (M.GetNumFaces, vecGet M.m_facesNodes 0 [], vecGet M.m_facesCircumcenters 0 missingPoint,
        geometricOperations.CircumcenterOfTriangle
          (vecGet M.m_nodes (vecGet (vecGet M.m_facesNodes 0 []) 0 0) missingPoint)
          (vecGet M.m_nodes (vecGet (vecGet M.m_facesNodes 0 []) 1 0) missingPoint)
          (vecGet M.m_nodes (vecGet (vecGet M.m_facesNodes 0 []) 2 0) missingPoint)
          M.m_projection)) =
      some (2, [0, 1, 2], (⟨2, 0⟩ : Point), (⟨2, -3 / 2⟩ : Point)) := by
  constructor
  · decide!
  · decide!

/-- C40: `Administrate` with faces returns an administered mesh `m1`, and unless it has no edge,
`WalkBoundaryFromNode` on `m1` ends for every array of flags with one flag for each edge, every
start node, position `e` and polygon: `17 * (number of unvisited edges) + 18` passes through
its loop are enough, since a pass stops, advances `e` below the at most 16 edges of the node, or
marks an unvisited boundary edge.  The flags only go from unvisited to visited, an edge newly
marked is an unvisited boundary edge, and one point is appended for each edge newly marked.
Therefore the edge loop of `MeshBoundaryToPolygon` returns with `17 * numEdges + 18` passes for
each walk; the edges it marks are boundary edges, each marked once; and the polygon is empty
with no edge marked, or it holds `S` polylines with one point for each marked edge and, for each
polyline, its first point and its sentinel, with one more sentinel between two polylines. -/
theorem WalkBoundaryFromNode_terminates (ops : Operations) (polygonNodes : List Point) (m : Mesh)
    (hr : m.EdgesInRange) (hn : m.m_nodes.length ≤ sizetMissingValue) :
    ∃ m1, m.Administrate ops AdministrationOptions.AdministrateMeshEdgesAndFaces = .ok m1 ∧
      (m1.GetNumEdges = 0 ∨
        ∀ (isVisited : List Bool) (currentNode e : Nat) (currentNodeInPolygon : Bool)
          (meshBoundaryPolygon : List Point), isVisited.length = m1.GetNumEdges →
          ∃ r, (∀ fuel, 17 * isVisited.count false + 18 ≤ fuel →
              m1.WalkBoundaryFromNode ops polygonNodes fuel e currentNodeInPolygon
                (isVisited, currentNode, meshBoundaryPolygon) = some r) ∧
            r.1.length = isVisited.length ∧
            (∀ i, vecGet isVisited i false = true → vecGet r.1 i false = true) ∧
            (∀ i, vecGet r.1 i false = true →
              vecGet isVisited i false = true ∨
                (vecGet isVisited i false = false ∧ m1.IsEdgeOnBoundary i = true)) ∧
            ∃ extra, r.2.2 = meshBoundaryPolygon ++ extra ∧
              r.1.count true = isVisited.count true + extra.length) ∧
      ∃ vis poly,
        (∀ fuel, 17 * m1.GetNumEdges + 18 ≤ fuel →
          (List.range m1.GetNumEdges).foldl (meshBoundaryStep ops m1 polygonNodes fuel)
            (some (List.replicate m1.GetNumEdges false, [])) = some (vis, poly) ∧
          m.MeshBoundaryToPolygon ops polygonNodes fuel = .ok (m1, some poly)) ∧
        (∀ i, vecGet vis i false = true → m1.IsEdgeOnBoundary i = true) ∧
        ((poly = [] ∧ vis.count true = 0) ∨
          ∃ S, 1 ≤ S ∧ S ≤ vis.count true ∧ poly.length + 1 = vis.count true + 3 * S) := by
  obtain ⟨m1, h, _, _, hN, hE, hrange, hcase⟩ := Administrate_faces_ok ops m hr hn
  refine ⟨m1, h, ?_⟩
  have hloop : ∀ (hdeg : ∀ n, vecGet m1.m_nodesNumEdges n 0 ≤ maximumNumberOfEdgesPerNode)
      (hb : ∀ i, m1.IsEdgeOnBoundary i = true → i < m1.GetNumEdges),
      ∃ vis poly,
        (∀ fuel, 17 * m1.GetNumEdges + 18 ≤ fuel →
          (List.range m1.GetNumEdges).foldl (meshBoundaryStep ops m1 polygonNodes fuel)
            (some (List.replicate m1.GetNumEdges false, [])) = some (vis, poly) ∧
          m.MeshBoundaryToPolygon ops polygonNodes fuel = .ok (m1, some poly)) ∧
        (∀ i, vecGet vis i false = true → m1.IsEdgeOnBoundary i = true) ∧
        ((poly = [] ∧ vis.count true = 0) ∨
          ∃ S, 1 ≤ S ∧ S ≤ vis.count true ∧ poly.length + 1 = vis.count true + 3 * S) := by
    intro hdeg hb
    obtain ⟨vis, poly, l1, _, l3, l4⟩ := meshBoundary_loop ops m1 polygonNodes m1.GetNumEdges
      hdeg hb (17 * m1.GetNumEdges + 18) (le_refl _) m1.GetNumEdges
    refine ⟨vis, poly, fun fuel hfuel => ?_, l3, l4⟩
    have l1' := meshBoundary_mono ops m1 polygonNodes _ fuel hfuel _ _ _ l1
    exact ⟨l1', MeshBoundaryToPolygon_eq ops m m1 polygonNodes fuel vis poly h l1'⟩
  rcases hcase with hempty | hadm
  · have h0 : m1.GetNumEdges = 0 := numEdges_zero_of_empty m1 hN hE hrange hempty
    refine ⟨Or.inl h0, ?_⟩
    refine ⟨[], [], ?_, ?_, Or.inl ⟨rfl, rfl⟩⟩
    · intro fuel _
      have hfold : (List.range m1.GetNumEdges).foldl
          (meshBoundaryStep ops m1 polygonNodes fuel)
          (some (List.replicate m1.GetNumEdges false, [])) = some ([], []) := by
        rw [h0]
        rfl
      exact ⟨hfold, MeshBoundaryToPolygon_eq ops m m1 polygonNodes fuel [] [] h hfold⟩
    · intro i hi
      rw [vecGet_of_length_le _ _ _ (Nat.zero_le _)] at hi
      exact absurd hi (by decide)
  · have hdeg := administered_degree m1 hadm.edges.nodeEdges
    have hb : ∀ i, m1.IsEdgeOnBoundary i = true → i < m1.GetNumEdges := by
      intro i hi
      show i < m1.m_numEdges
      rw [hE]
      exact boundary_lt ops m1 hadm.faces i hi
    refine ⟨Or.inr ?_, hloop hdeg hb⟩
    intro isVisited currentNode e currentNodeInPolygon meshBoundaryPolygon hlen
    obtain ⟨r, w1, w2, w3, w4, w5⟩ := walk_spec ops m1 polygonNodes m1.GetNumEdges hdeg hb
      (17 * isVisited.count false + 18) e currentNodeInPolygon isVisited currentNode
      meshBoundaryPolygon hlen (by omega)
    exact ⟨r, fun fuel hfuel => walk_mono_le ops m1 polygonNodes _ fuel hfuel _ _ _ _ w1,
      by rw [hlen]; exact w2, w3, w4, w5⟩

/-- C40 at the two triangles of scenario S2. -/
theorem WalkBoundaryFromNode_terminates_witness :
    twoTrianglesMesh.EdgesInRange ∧ twoTrianglesMesh.m_nodes.length ≤ sizetMissingValue ∧
    ∃ m1 poly, ∀ fuel, 17 * m1.GetNumEdges + 18 ≤ fuel →
      twoTrianglesMesh.MeshBoundaryToPolygon exampleOperations [] fuel = .ok (m1, some poly) :=
  ⟨by decide, by decide,
    (WalkBoundaryFromNode_terminates exampleOperations [] twoTrianglesMesh (by decide)
      (by decide)).elim (fun m1 hm1 =>
        hm1.2.2.elim (fun _ hv => hv.elim (fun poly hp =>
          ⟨m1, poly, fun fuel hfuel => (hp.1 fuel hfuel).2⟩)))⟩

end meshkernel
